import Mathlib

/-!
# Wrench: the class-model ("moby") codec of `src/wad/moby.cpp`

A shallow embedding of the binary codec for moby class models, followed by the
archive reader of `src/wad/main.cpp` and `src/wad/wad_file.cpp`, the streams of
`src/core/stream.cpp` and the text format of `src/core/wtf.c` with the game
information file of `src/assetmgr/asset_util.cpp`.  Buffers are
lists of bytes (natural numbers, read modulo 256), machine integers are
`Nat`/`Int` with explicit wrap-around, and every function that can fail in the
source (a `verify`, an `assert`, a bounds-checked read, `std::vector::at`)
returns `Except String`.
-/

namespace Wrench

/-! ## Definitions -/

/-- The `w` low bytes of `v`, least significant first (a `w`-byte store). -/
def le_bytes : Nat → Nat → List Nat
  | 0, _ => []
  | w + 1, v => v % 256 :: le_bytes w (v / 256)

/-- The unsigned value of a little-endian byte string (a load). -/
def le_value : List Nat → Nat
  | [] => 0
  | b :: bs => b % 256 + 256 * le_value bs

/-- Reinterpret the low `bits` bits of `v` as a two's complement integer. -/
def to_signed (bits : Nat) (v : Nat) : Int :=
  if v % 2 ^ bits < 2 ^ (bits - 1) then ((v % 2 ^ bits : Nat) : Int)
  else ((v % 2 ^ bits : Nat) : Int) - ((2 ^ bits : Nat) : Int)

/-- The low `bits` bits of an integer, as an unsigned value. -/
def to_unsigned (bits : Nat) (v : Int) : Nat := (v % ((2 ^ bits : Nat) : Int)).toNat

/-- Modelled from the spec: `Buffer::read_bytes` / `read_multiple<u8>` of
core/buffer.h, which is not among the sources.  The spec makes an offset out of
bounds a format error; a negative offset or count and a range past the end of
the buffer are reported as errors. -/
def read_bytes (src : List Nat) (offset size : Int) (subject : String) :
    Except String (List Nat) :=
  if offset < 0 then .error ("Failed to read " ++ subject ++ ": Offset cannot be negative.")
  else if size < 0 ∨ (src.length : Int) < offset + size then
    .error ("Failed to read " ++ subject ++ ": Attempted to read past end of buffer.")
  else .ok ((src.drop offset.toNat).take size.toNat)

/-- Modelled from the spec: `Buffer::subbuf(offset)`, the view from `offset`
to the end of the buffer; an offset out of bounds is an error. -/
def subbuf (src : List Nat) (offset : Int) : Except String (List Nat) :=
  if offset < 0 ∨ (src.length : Int) < offset then .error "Failed to create buffer: Out of bounds."
  else .ok (src.drop offset.toNat)

/-- Modelled from the spec: `Buffer::subbuf(offset, size)`. -/
def subbuf_sized (src : List Nat) (offset size : Int) : Except String (List Nat) :=
  read_bytes src offset size "buffer"

/-- Split a byte string into `count` consecutive items of `size` bytes. -/
def chunks (size : Nat) : Nat → List Nat → List (List Nat)
  | 0, _ => []
  | count + 1, b => b.take size :: chunks size count (b.drop size)

/-- Modelled from the spec: `Buffer::read_multiple<T>(offset, count)` for an
item type of `size` bytes; the items are returned as raw byte strings. -/
def read_multiple (src : List Nat) (size : Nat) (offset count : Int) (subject : String) :
    Except String (List (List Nat)) :=
  match read_bytes src offset (count * size) subject with
  | .error e => .error e
  | .ok b => if count < 0 then .error ("Failed to read " ++ subject ++ ": Negative count.")
             else .ok (chunks size count.toNat b)

/-- Unsigned little-endian load of `size` bytes at `offset` (`Buffer::read<uN>`). -/
def read_uint (src : List Nat) (size : Nat) (offset : Int) (subject : String) :
    Except String Nat :=
  match read_bytes src offset size subject with
  | .error e => .error e
  | .ok b => .ok (le_value b)

/-- Signed little-endian load of `size` bytes at `offset` (`Buffer::read<sN>`). -/
def read_sint (src : List Nat) (size : Nat) (offset : Int) (subject : String) :
    Except String Int :=
  match read_bytes src offset size subject with
  | .error e => .error e
  | .ok b => .ok (to_signed (8 * size) (le_value b))

/-- Modelled from the spec: `OutBuffer::pad(align)`: zero bytes are appended
until the write position is a multiple of `align`. -/
def pad (dest : List Nat) (align : Nat) : List Nat :=
  dest ++ List.replicate ((align - dest.length % align) % align) 0

/-- Modelled from the spec: `OutBuffer::write(offset, thing)`, a patch of bytes
already allocated; the length of the buffer never changes. -/
def write_at (dest : List Nat) (offset : Nat) (bytes : List Nat) : List Nat :=
  if offset + bytes.length ≤ dest.length then
    dest.take offset ++ bytes ++ dest.drop (offset + bytes.length)
  else dest

/-- The loop `while(dest.tell() < limit) dest.write<u8>(0)`. -/
def zero_fill_to (dest : List Nat) (limit : Int) : List Nat :=
  dest ++ List.replicate (limit - dest.length).toNat 0

/-! ### Vertices and the lookback index field -/

/-- Modelled from the spec: `MobyVertex` of moby.h (not among the sources), a
0x10 byte record: a 32 bit `low_word` whose low 9 bits are the index field,
followed by 12 bytes that the source reads either as the `regular` payload or,
in the last padding vertex, as six 16 bit `trailing_vertex_indices`. -/
structure MobyVertex where
  low_word : Nat
  trailing_vertex_indices : List Nat
deriving DecidableEq, Repr

/-- The value of `MobyVertex vertex = {0}`. -/
def MobyVertex.zero : MobyVertex := ⟨0, List.replicate 6 0⟩

/-- The 0x10 bytes of a vertex. -/
def MobyVertex.bytes (v : MobyVertex) : List Nat :=
  le_bytes 4 v.low_word ++
    ((List.range 6).map (fun i => le_bytes 2 (v.trailing_vertex_indices.getD i 0))).flatten

/-- The vertex stored in 0x10 bytes. -/
def MobyVertex.parse (b : List Nat) : MobyVertex :=
  ⟨le_value (b.take 4), (List.range 6).map (fun i => le_value ((b.drop (4 + 2 * i)).take 2))⟩

/-- The expression `(low_word & ~0x1ff) | (index & mask)` on a 32 bit word. -/
def with_index (low_word index mask : Nat) : Nat :=
  (low_word &&& 0xfffffe00) ||| (index &&& mask)

/-- Replace the index field of vertex `dest` of `vs` by `index & mask`. -/
def set_index (vs : List MobyVertex) (dest : Nat) (index mask : Nat) : List MobyVertex :=
  vs.set dest { (vs.getD dest MobyVertex.zero) with
    low_word := with_index (vs.getD dest MobyVertex.zero).low_word index mask }

/-- Lines 610-620 of `write_moby_submeshes`: the seven trailing indices are
collected, every index field moves seven vertices up (masked with `0xff` in the
source) and the first seven index fields are cleared. -/
def adjust_vertex_indices (orig : List MobyVertex) : List MobyVertex × List Nat :=
  let n := orig.length
  let trailing_vertex_indices := List.replicate (7 - n) 0 ++
    (List.range' (n - 7) (n - (n - 7))).map
      (fun i => (orig.getD i MobyVertex.zero).low_word &&& 0x1ff)
  let shifted := (List.range' 7 (n - 7)).reverse.foldl
    (fun vs i => set_index vs i (vs.getD (i - 7) MobyVertex.zero).low_word 0xff) orig
  let cleared := (List.range (min 7 n)).foldl (fun vs i => set_index vs i 0 0x1ff) shifted
  (cleared, trailing_vertex_indices)

/-- Lines 657-664: padding vertices are appended while the vertex count modulo
4 is not 2; the loop stops by its own condition before `fuel` runs out when
`fuel` exceeds the number of trailing indices. -/
def push_trailing (n : Nat) (tvi : List Nat) :
    Nat → List MobyVertex → Nat → List MobyVertex × Nat
  | 0, vertices, trailing => (vertices, trailing)
  | fuel + 1, vertices, trailing =>
    if vertices.length % 4 ≠ 2 ∧ trailing < tvi.length then
      push_trailing n tvi fuel
        (vertices ++ [{ MobyVertex.zero with
          low_word := if 7 ≤ n + trailing then tvi.getD trailing 0 else 0 }])
        (trailing + 1)
    else (vertices, trailing)

/-- Lines 666-674: the last padding vertex. -/
def last_padding_vertex (n trailing : Nat) (tvi : List Nat) : MobyVertex :=
  let low := if 7 ≤ n + trailing then tvi.getD trailing 0 else 0
  let slots := (List.range' (trailing + 1) (tvi.length - (trailing + 1))).foldl
    (fun s i => if 7 ≤ n + i then s.set (i - trailing - 1) (tvi.getD i 0) else s)
    (List.replicate 6 0)
  ⟨low, slots⟩

/-- Lines 609-620 and 657-675: the vertex array `write_moby_submeshes` writes
for a submesh, padding vertices included. -/
def encode_vertices (orig : List MobyVertex) : Except String (List MobyVertex) :=
  let (vertices, tvi) := adjust_vertex_indices orig
  let (padded, trailing) := push_trailing orig.length tvi (tvi.length + 1) vertices 0
  if trailing < tvi.length then
    .ok (padded ++ [last_padding_vertex orig.length trailing tvi])
  else .error "assert(trailing < trailing_vertex_indices.size())"

/-- Read one `MobyVertex` at `offset`. -/
def read_vertex (src : List Nat) (offset : Int) : Except String MobyVertex :=
  match read_bytes src offset 0x10 "vertex table" with
  | .error e => .error e
  | .ok b => .ok (MobyVertex.parse b)

/-- Lines 549-551 of `read_moby_submeshes`: every index field moves seven
vertices down. -/
def shift_indices_back (vs : List MobyVertex) : List MobyVertex :=
  (List.range' 7 (vs.length - 7)).foldl
    (fun vs i => set_index vs (i - 7) (vs.getD i MobyVertex.zero).low_word 0x1ff) vs

/-- Lines 561-566: the loop over the padding vertices, for the values `i` of the
loop counter in order; `n` is `in_file_vertex_count`. -/
def fix_from_padding (src : List Nat) (n : Int) :
    List Int → Int → List MobyVertex → Except String (Int × List MobyVertex)
  | [], vertex_ofs, vs => .ok (vertex_ofs, vs)
  | i :: rest, vertex_ofs, vs =>
    match read_vertex src vertex_ofs with
    | .error e => .error e
    | .ok vertex =>
      let dest_index := n + i - 7
      if dest_index < 0 ∨ (vs.length : Int) ≤ dest_index then .error "std::out_of_range"
      else fix_from_padding src n rest (vertex_ofs + 0x10)
        (set_index vs dest_index.toNat vertex.low_word 0x1ff)

/-- Lines 568-573: the loop over `trailing_vertex_indices` of the last vertex. -/
def fix_from_last (last_vertex : MobyVertex) (n trailing_vertex_count : Int)
    (vs : List MobyVertex) : List MobyVertex :=
  let start := max (7 - n - trailing_vertex_count) 0
  ((List.range (6 - start).toNat).map (fun (k : Nat) => start + (k : Int))).foldl
    (fun vs i =>
      let dest_index := n + trailing_vertex_count + i - 7
      if 0 ≤ dest_index ∧ dest_index < (vs.length : Int) then
        set_index vs dest_index.toNat (last_vertex.trailing_vertex_indices.getD i.toNat 0) 0x1ff
      else vs) vs

/-- Lines 548-573 of `read_moby_submeshes`: the index fields of the in-file
vertices `vs` are rebuilt.  `vertex_ofs` is the offset just past the in-file
vertices and `n = in_file_vertex_count`. -/
def fix_vertex_indices (src : List Nat) (vertex_ofs n trailing_vertex_count : Int)
    (vs : List MobyVertex) : Except String (List MobyVertex) :=
  let vs1 := shift_indices_back vs
  if ¬ trailing_vertex_count < 7 then .error "Bad moby vertex table."
  else
    let start := max (7 - n) 0
    let vertex_ofs1 := vertex_ofs + start * 0x10
    match fix_from_padding src n
        ((List.range (trailing_vertex_count - start).toNat).map (fun (k : Nat) => start + (k : Int)))
        vertex_ofs1 vs1 with
    | .error e => .error e
    | .ok (vertex_ofs2, vs2) =>
      match read_vertex src (vertex_ofs2 - 0x10) with
      | .error e => .error e
      | .ok last_vertex => .ok (fix_from_last last_vertex n trailing_vertex_count vs2)

/-! ### Submeshes -/

/-- The three header formats of the codec. -/
inductive MobyFormat where
  | RAC1 | RAC2 | RAC3DL
deriving DecidableEq, Repr

/-- The four games. -/
inductive Game where
  | RAC1 | RAC2 | RAC3 | DL
deriving DecidableEq, Repr

/-- Modelled from the spec: `MobySubMeshEntry` of moby.h (not among the
sources), one 0x10 byte entry of a submesh table; the three counts and the
vertex data size are single bytes. -/
structure MobySubMeshEntry where
  vif_list_offset : Nat
  vif_list_size : Nat
  vif_list_texture_unpack_offset : Nat
  vertex_offset : Nat
  vertex_data_size : Nat
  unknown_d : Nat
  unknown_e : Nat
  transfer_vertex_count : Nat
deriving DecidableEq, Repr

/-- The entry stored in 0x10 bytes. -/
def MobySubMeshEntry.parse (b : List Nat) : MobySubMeshEntry where
  vif_list_offset := le_value (b.take 4)
  vif_list_size := le_value ((b.drop 4).take 2)
  vif_list_texture_unpack_offset := le_value ((b.drop 6).take 2)
  vertex_offset := le_value ((b.drop 8).take 4)
  vertex_data_size := le_value ((b.drop 0xc).take 1)
  unknown_d := le_value ((b.drop 0xd).take 1)
  unknown_e := le_value ((b.drop 0xe).take 1)
  transfer_vertex_count := le_value ((b.drop 0xf).take 1)

/-- The 0x10 bytes of an entry; every field is cut to its width. -/
def MobySubMeshEntry.bytes (e : MobySubMeshEntry) : List Nat :=
  le_bytes 4 e.vif_list_offset ++ le_bytes 2 e.vif_list_size ++
  le_bytes 2 e.vif_list_texture_unpack_offset ++ le_bytes 4 e.vertex_offset ++
  le_bytes 1 e.vertex_data_size ++ le_bytes 1 e.unknown_d ++ le_bytes 1 e.unknown_e ++
  le_bytes 1 e.transfer_vertex_count

/-- Modelled from the spec: `MobyVertexTableHeaderRac1` of moby.h (not among
the sources): eight unsigned 32 bit fields, 0x20 bytes.  The compact
RAC2/RAC3/DL header has the same fields as unsigned 16 bit values, 0x10 bytes. -/
structure MobyVertexTableHeaderRac1 where
  unknown_count_0 : Nat
  vertex_count_2 : Nat
  vertex_count_4 : Nat
  main_vertex_count : Nat
  duplicate_vertex_count : Nat
  transfer_vertex_count : Nat
  vertex_table_offset : Nat
  unknown_e : Nat
deriving DecidableEq, Repr

/-- A vertex table header stored with fields of `w` bytes (4 for RAC1, 2 for
the compact header). -/
def MobyVertexTableHeaderRac1.parse (w : Nat) (b : List Nat) : MobyVertexTableHeaderRac1 where
  unknown_count_0 := le_value (b.take w)
  vertex_count_2 := le_value ((b.drop w).take w)
  vertex_count_4 := le_value ((b.drop (2 * w)).take w)
  main_vertex_count := le_value ((b.drop (3 * w)).take w)
  duplicate_vertex_count := le_value ((b.drop (4 * w)).take w)
  transfer_vertex_count := le_value ((b.drop (5 * w)).take w)
  vertex_table_offset := le_value ((b.drop (6 * w)).take w)
  unknown_e := le_value ((b.drop (7 * w)).take w)

/-- The bytes of a vertex table header with fields of `w` bytes. -/
def MobyVertexTableHeaderRac1.bytes (w : Nat) (h : MobyVertexTableHeaderRac1) : List Nat :=
  le_bytes w h.unknown_count_0 ++ le_bytes w h.vertex_count_2 ++ le_bytes w h.vertex_count_4 ++
  le_bytes w h.main_vertex_count ++ le_bytes w h.duplicate_vertex_count ++
  le_bytes w h.transfer_vertex_count ++ le_bytes w h.vertex_table_offset ++
  le_bytes w h.unknown_e

/-- Modelled from the spec: `MobyTexturePrimitive` of moby.h (not among the
sources), 0x40 bytes of four GS register writes kept as raw bytes; the texture
index `d3_tex0.data_lo` is the signed 32 bit value at offset 0x20. -/
structure MobyTexturePrimitive where
  raw : List Nat
deriving DecidableEq, Repr

/-- The field `d3_tex0.data_lo`. -/
def MobyTexturePrimitive.d3_tex0_data_lo (p : MobyTexturePrimitive) : Int :=
  to_signed 32 (le_value ((p.raw.drop 0x20).take 4))

/-- The 0x40 bytes a primitive is written as. -/
def MobyTexturePrimitive.bytes (p : MobyTexturePrimitive) : List Nat :=
  (List.range 0x40).map (fun i => p.raw.getD i 0 % 256)

/-- Modelled from the spec: the texture index constants of moby.h. -/
def MOBY_TEX_NONE : Int := -1

/-- Modelled from the spec: the chrome texture index of moby.h. -/
def MOBY_TEX_CHROME : Int := -2

/-- Modelled from the spec: the glass texture index of moby.h. -/
def MOBY_TEX_GLASS : Int := -3

/-- Modelled from the spec: `MobyTexCoord`, two signed 16 bit values. -/
structure MobyTexCoord where
  s : Int
  t : Int
deriving DecidableEq, Repr

/-- The texture coordinate stored in 4 bytes. -/
def MobyTexCoord.parse (b : List Nat) : MobyTexCoord :=
  ⟨to_signed 16 (le_value (b.take 2)), to_signed 16 (le_value ((b.drop 2).take 2))⟩

/-- The 4 bytes of a texture coordinate. -/
def MobyTexCoord.bytes (c : MobyTexCoord) : List Nat :=
  le_bytes 2 (to_unsigned 16 c.s) ++ le_bytes 2 (to_unsigned 16 c.t)

/-- The fields `MobySubMesh` and `MobyMetalSubMesh` share (`MobySubMeshBase`);
the secret indices are single bytes. -/
structure MobySubMeshBase where
  indices : List Nat
  secret_indices : List Nat
  textures : List MobyTexturePrimitive
  index_header_first_byte : Nat
deriving DecidableEq, Repr

/-- A decoded ordinary submesh, with the fields moby.cpp reads and writes. -/
structure MobySubMesh extends MobySubMeshBase where
  sts : List MobyTexCoord
  unknowns : List Nat
  duplicate_vertices : List Nat
  vertices : List MobyVertex
  vertex_count_2 : Nat
  vertex_count_4 : Nat
  unknown_e : Nat
  unknown_e_data : List Nat
deriving DecidableEq, Repr

/-- The part of core/vif.h (not among the sources) the reader uses:
`filter_vif_unpacks(read_vif_command_list(buffer))`, reduced to the data of
each UNPACK packet in order.  It is a parameter of the model. -/
abbrev VifReader := List Nat → Except String (List (List Nat))

/-- The index unpack and the texture unpack of a submesh (lines 477-492 and
717-733): the index header, the index bytes, and one secret index and one
primitive for each 0x40 bytes of texture data.  `metal` selects the texture
index check of `read_moby_metal_submeshes`. -/
def read_texture_primitives (metal : Bool) (texture_data : List Nat) :
    Nat → Nat → Except String (List Nat × List MobyTexturePrimitive)
  | 0, _ => .ok ([], [])
  | count + 1, i =>
    match read_sint texture_data 4 (i * 0x10 + 0xc) "extra index" with
    | .error e => .error e
    | .ok extra =>
      match read_bytes texture_data (i * 0x40) 0x40 "moby texture primitive" with
      | .error e => .error e
      | .ok raw =>
        let prim : MobyTexturePrimitive := ⟨raw⟩
        if metal ∧ ¬ (prim.d3_tex0_data_lo = MOBY_TEX_CHROME ∨ prim.d3_tex0_data_lo = MOBY_TEX_GLASS)
        then .error "Metal moby submesh has a bad texture index."
        else if ¬ metal ∧ ¬ (MOBY_TEX_NONE ≤ prim.d3_tex0_data_lo)
        then .error "Regular moby submesh has a texture index that is too low."
        else
          match read_texture_primitives metal texture_data count (i + 1) with
          | .error e => .error e
          | .ok (secrets, prims) => .ok (to_unsigned 8 extra :: secrets, prim :: prims)

/-- Lines 477-492 (`metal = false`, index unpack at position 1) and 717-733
(`metal = true`, index unpack at position 0). -/
def read_index_and_textures (metal : Bool) (unpacks : List (List Nat)) (at_index : Nat) :
    Except String MobySubMeshBase :=
  match unpacks.get? at_index with
  | none => .error "std::out_of_range"
  | some index_data =>
    match read_bytes index_data 0 4 "moby index unpack header" with
    | .error e => .error e
    | .ok index_header =>
      if index_header.getD 3 0 % 256 ≠ 0 then .error "Moby has bad index buffer."
      else
        match read_bytes index_data 4 ((index_data.length : Int) - 4) "moby index unpack data" with
        | .error e => .error e
        | .ok indices =>
          let first := index_header.getD 0 0 % 256
          let secret := index_header.getD 2 0 % 256
          if at_index + 2 ≤ unpacks.length then
            let texture_data := unpacks.getD (at_index + 1) []
            if texture_data.length % 0x40 ≠ 0 then .error "Moby has bad texture unpack."
            else
              match read_texture_primitives metal texture_data (texture_data.length / 0x40) 0 with
              | .error e => .error e
              | .ok (secrets, prims) => .ok ⟨indices, secret :: secrets, prims, first⟩
          else .ok ⟨indices, [secret], [], first⟩

/-- Conversion of an integer expression to `s32` (wrap-around). -/
def wrap_s32 (x : Int) : Int := to_signed 32 (to_unsigned 32 x)

/-- Lines 495-511: the vertex table header in either format, and the offset
just past it. -/
def read_vertex_table_header (src : List Nat) (format : MobyFormat) (vertex_offset : Nat) :
    Except String (MobyVertexTableHeaderRac1 × Nat) :=
  if format = MobyFormat.RAC1 then do
    let b ← read_bytes src vertex_offset 0x20 "moby vertex header"
    pure (MobyVertexTableHeaderRac1.parse 4 b, vertex_offset + 0x20)
  else do
    let b ← read_bytes src vertex_offset 0x10 "moby vertex header"
    pure (MobyVertexTableHeaderRac1.parse 2 b, vertex_offset + 0x10)

/-- Lines 552-557: `trailing_vertex_count`, computed on unsigned 32 bit values
and stored in an `s32`. -/
def trailing_vertex_count (format : MobyFormat) (entry : MobySubMeshEntry)
    (vertex_header : MobyVertexTableHeaderRac1) (in_file_vertex_count : Int) : Int :=
  if format = MobyFormat.RAC1 then
    wrap_s32 (((to_unsigned 32
      ((vertex_header.unknown_e : Int) - vertex_header.vertex_table_offset) / 0x10 : Nat) : Int)
      - in_file_vertex_count)
  else
    wrap_s32 ((entry.vertex_data_size : Int) - (vertex_header.vertex_table_offset / 0x10 : Nat)
      - in_file_vertex_count)

/-- Lines 494-575: the vertex table of one submesh.  `none` is the `continue`
of the source (the submesh is skipped after a warning); the warning for
conflicting transfer vertex counts (lines 516-518) only prints. -/
def read_vertex_table (src : List Nat) (format : MobyFormat) (entry : MobySubMeshEntry)
    (base : MobySubMeshBase) (sts : List MobyTexCoord) : Except String (Option MobySubMesh) := do
  let (vertex_header, array_ofs) ← read_vertex_table_header src format entry.vertex_offset
  if vertex_header.vertex_table_offset / 0x10 > entry.vertex_data_size then pure none
  else if entry.unknown_d ≠ (0xf + entry.transfer_vertex_count * 6) / 0x10 then pure none
  else if entry.unknown_e ≠ (3 + entry.transfer_vertex_count) / 4 then pure none
  else do
    let unknowns ← read_multiple src 2 array_ofs vertex_header.unknown_count_0 "vertex table"
    let array_ofs1 := array_ofs + vertex_header.unknown_count_0 * 2
    let array_ofs2 := if array_ofs1 % 4 ≠ 0 then array_ofs1 + 2 else array_ofs1
    let array_ofs3 := if array_ofs2 % 8 ≠ 0 then array_ofs2 + 4 else array_ofs2
    let duplicate_vertices ←
      read_multiple src 2 array_ofs3 vertex_header.duplicate_vertex_count "vertex table"
    let vertex_ofs : Int := (entry.vertex_offset : Int) + vertex_header.vertex_table_offset
    let in_file_vertex_count : Int := wrap_s32 ((vertex_header.vertex_count_2 +
      vertex_header.vertex_count_4 + vertex_header.main_vertex_count : Nat) : Int)
    let vertices ← read_multiple src 0x10 vertex_ofs in_file_vertex_count "vertex table"
    let vertex_ofs1 := vertex_ofs + in_file_vertex_count * 0x10
    let unknown_e_data ←
      if format = MobyFormat.RAC1 then
        read_bytes src ((entry.vertex_offset : Int) + vertex_header.unknown_e)
          (wrap_s32 ((entry.vertex_data_size : Int) * 0x10 - vertex_header.unknown_e))
          "vertex table unknown_e data"
      else pure []
    let fixed ← fix_vertex_indices src vertex_ofs1 in_file_vertex_count
      (trailing_vertex_count format entry vertex_header in_file_vertex_count)
      (vertices.map MobyVertex.parse)
    pure (some
      { toMobySubMeshBase := base
        sts := sts
        unknowns := unknowns.map le_value
        duplicate_vertices := duplicate_vertices.map le_value
        vertices := fixed
        vertex_count_2 := vertex_header.vertex_count_2
        vertex_count_4 := vertex_header.vertex_count_4
        unknown_e := vertex_header.unknown_e
        unknown_e_data := unknown_e_data })

/-- The body of the loop of `read_moby_submeshes` (lines 468-575) for one table
entry. -/
def read_moby_submesh (vif : VifReader) (src : List Nat) (format : MobyFormat)
    (entry : MobySubMeshEntry) : Except String (Option MobySubMesh) := do
  let command_buffer ← subbuf_sized src entry.vif_list_offset (entry.vif_list_size * 0x10)
  let unpacks ← vif command_buffer
  match unpacks.get? 0 with
  | none => .error "std::out_of_range"
  | some st_data =>
    let sts ← read_multiple st_data 4 0 (st_data.length / 4 : Nat) "moby st unpack"
    let base ← read_index_and_textures false unpacks 1
    read_vertex_table src format entry base (sts.map MobyTexCoord.parse)

/-- The loop of `read_moby_submeshes` over the table entries: the decoded
submeshes are collected in table order, skipped entries leave no trace, and
the first error aborts the loop. -/
def read_moby_submesh_list (vif : VifReader) (src : List Nat) (format : MobyFormat) :
    List MobySubMeshEntry → Except String (List MobySubMesh)
  | [] => .ok []
  | entry :: rest =>
    match read_moby_submesh vif src format entry with
    | .error e => .error e
    | .ok r =>
      match read_moby_submesh_list vif src format rest with
      | .error e => .error e
      | .ok submeshes =>
        match r with
        | none => .ok submeshes
        | some submesh => .ok (submesh :: submeshes)

/-- The function `read_moby_submeshes` (lines 465-578). -/
def read_moby_submeshes (vif : VifReader) (src : List Nat) (table_ofs count : Int)
    (format : MobyFormat) : Except String (List MobySubMesh) := do
  let entries ← read_multiple src 0x10 table_ofs count "moby submesh table"
  read_moby_submesh_list vif src format (entries.map MobySubMeshEntry.parse)

/-- Modelled from the spec: a decoded metal submesh; `MobyMetalVertex` (moby.h,
not among the sources) is kept as 0x10 raw bytes and the vertex table header is
four 32 bit fields. -/
structure MobyMetalSubMesh extends MobySubMeshBase where
  vertices : List (List Nat)
  unknown_4 : Nat
  unknown_8 : Nat
  unknown_c : Nat
deriving DecidableEq, Repr

/-- The body of the loop of `read_moby_metal_submeshes` (lines 711-742). -/
def read_moby_metal_submesh (vif : VifReader) (src : List Nat) (entry : MobySubMeshEntry) :
    Except String MobyMetalSubMesh := do
  let command_buffer ← subbuf_sized src entry.vif_list_offset (entry.vif_list_size * 0x10)
  let unpacks ← vif command_buffer
  let base ← read_index_and_textures true unpacks 0
  let vertex_header ← read_bytes src entry.vertex_offset 0x10 "metal vertex table header"
  let vertex_count := to_signed 32 (le_value (vertex_header.take 4))
  let vertices ← read_multiple src 0x10 ((entry.vertex_offset : Int) + 0x10) vertex_count
    "metal vertex table"
  pure
    { toMobySubMeshBase := base
      vertices := vertices
      unknown_4 := le_value ((vertex_header.drop 4).take 4)
      unknown_8 := le_value ((vertex_header.drop 8).take 4)
      unknown_c := le_value ((vertex_header.drop 0xc).take 4) }

/-- The loop of `read_moby_metal_submeshes` over the table entries. -/
def read_moby_metal_submesh_list (vif : VifReader) (src : List Nat) :
    List MobySubMeshEntry → Except String (List MobyMetalSubMesh)
  | [] => .ok []
  | entry :: rest =>
    match read_moby_metal_submesh vif src entry with
    | .error e => .error e
    | .ok submesh =>
      match read_moby_metal_submesh_list vif src rest with
      | .error e => .error e
      | .ok submeshes => .ok (submesh :: submeshes)

/-- The function `read_moby_metal_submeshes` (lines 708-745). -/
def read_moby_metal_submeshes (vif : VifReader) (src : List Nat) (table_ofs count : Int) :
    Except String (List MobyMetalSubMesh) := do
  let entries ← read_multiple src 0x10 table_ofs count "moby metal submesh table"
  read_moby_metal_submesh_list vif src (entries.map MobySubMeshEntry.parse)

/-! ### Writing submeshes -/

/-- The element formats of the UNPACK packets the writer builds. -/
inductive VifVnVl where
  | V2_16 | V4_8 | V4_32
deriving DecidableEq, Repr

/-- The fields of a `VifPacket` the writer sets (core/vif.h is not among the
sources); `flg` is always `USE_VIF1_TOPS` and `usn` always `SIGNED`. -/
structure VifPacket where
  interrupt : Nat
  cmd : Nat
  num : Nat
  vnvl : VifVnVl
  addr : Nat
  data : List Nat
deriving DecidableEq, Repr

/-- The bytes `write_vif_packet` (core/vif.h, not among the sources) appends to
the output for a packet.  It is a parameter of the model. -/
abbrev VifWriter := VifPacket → List Nat

/-- Modelled from the spec: `MobyGifUsageTableEntry` of moby.h (not among the
sources), twelve texture index bytes and the 32 bit `offset_and_terminator`. -/
structure MobyGifUsageTableEntry where
  texture_indices : List Nat
  offset_and_terminator : Nat
deriving DecidableEq, Repr

/-- The 0x10 bytes of a GIF usage entry. -/
def MobyGifUsageTableEntry.bytes (e : MobyGifUsageTableEntry) : List Nat :=
  (List.range 12).map (fun i => e.texture_indices.getD i 0 % 256) ++
    le_bytes 4 e.offset_and_terminator

/-- Lines 837-839: the secret indices after the first are written into the
texture unpack data, one byte each, 0x10 bytes apart. -/
def patch_secret_indices (data : List Nat) (secret_indices : List Nat) : List Nat :=
  (List.range' 1 (secret_indices.length - 1)).foldl
    (fun d i => write_at d ((i - 1) * 0x10 + 0xc) [secret_indices.getD i 0 % 256]) data

/-- The function `write_shared_moby_vif_packets` (lines 780-862).  The result is
the output buffer, the GIF usage table (`none` for the null pointer metal
submeshes pass) and the relative offset of the texture unpack. -/
def write_shared_moby_vif_packets (vifw : VifWriter) (class_header_ofs : Nat)
    (dest : List Nat) (gif_usage : Option (List MobyGifUsageTableEntry))
    (submesh : MobySubMeshBase) :
    Except String (List Nat × Option (List MobyGifUsageTableEntry) × Nat) :=
  let indices_size := 4 + submesh.indices.length
  if ¬ 0 < submesh.secret_indices.length then
    .error "assert(submesh.secret_indices.size() > 0)"
  else
    let index_header : List Nat :=
      [submesh.index_header_first_byte % 256,
       if 0 < submesh.textures.length then (indices_size / 4) % 256 else 0,
       submesh.secret_indices.getD 0 0 % 256, 0]
    let indices := index_header ++ submesh.indices.map (fun b => b % 256)
    let index_unpack : VifPacket :=
      { interrupt := 0, cmd := 0b1100000, num := indices_size / 4, vnvl := VifVnVl.V4_8,
        addr := 0x12d, data := indices }
    let dest1 := dest ++ vifw index_unpack
    if 0 < submesh.textures.length then
      let dest2 := dest1 ++ List.replicate ((0xc + 0x10 - dest1.length % 0x10) % 0x10) 0
      if submesh.secret_indices.length ≠ submesh.textures.length + 1 then
        .error "assert(submesh.secret_indices.size() == submesh.textures.size() + 1)"
      else
        let data := patch_secret_indices
          (submesh.textures.map MobyTexturePrimitive.bytes).flatten submesh.secret_indices
        let texture_unpack : VifPacket :=
          { interrupt := 0, cmd := 0b1100000, num := submesh.textures.length * 4,
            vnvl := VifVnVl.V4_32, addr := 0x12d + index_unpack.num, data := data }
        let abs_texture_unpack_ofs := dest2.length
        let dest3 := dest2 ++ vifw texture_unpack
        let rel (d : List Nat) := ((pad d 0x10).length - abs_texture_unpack_ofs + 0x4) / 0x10
        match gif_usage with
        | none => .ok (pad dest3 0x10, none, rel dest3)
        | some table =>
          if ¬ submesh.textures.length ≤ 12 then .error "assert(gif_index < 12)"
          else
            let gif_entry : MobyGifUsageTableEntry :=
              { offset_and_terminator := to_unsigned 32
                  ((abs_texture_unpack_ofs : Int) - 0xc - class_header_ofs)
                texture_indices :=
                  submesh.textures.map (fun prim => to_unsigned 8 prim.d3_tex0_data_lo) ++
                    List.replicate (12 - submesh.textures.length) 0xff }
            .ok (pad dest3 0x10, some (table ++ [gif_entry]), rel dest3)
    else .ok (dest1, gif_usage, 0)

/-- The value of `MobySubMeshEntry entry = {0}`. -/
def MobySubMeshEntry.zero : MobySubMeshEntry := ⟨0, 0, 0, 0, 0, 0, 0, 0⟩

/-- Lines 609-699 of `write_moby_submeshes`: the vertex table of one submesh is
appended to `dest` and the vertex fields of its table entry are filled in. -/
def write_vertex_table (class_header_ofs : Nat) (format : MobyFormat) (dest : List Nat)
    (submesh : MobySubMesh) (entry : MobySubMeshEntry) :
    Except String (List Nat × MobySubMeshEntry) := do
  let vertices ← encode_vertices submesh.vertices
  let vertex_header_ofs := dest.length
  let w := if format = MobyFormat.RAC1 then 4 else 2
  let dest4 := dest ++ List.replicate (8 * w) 0
  let main_vertex_count := to_unsigned 32
    ((submesh.vertices.length : Int) - submesh.vertex_count_2 - submesh.vertex_count_4)
  let transfer_vertex_count := (submesh.vertex_count_2 % 2 ^ 32 + submesh.vertex_count_4 % 2 ^ 32
    + main_vertex_count + submesh.duplicate_vertices.length) % 2 ^ 32
  let dest5 := dest4 ++ (submesh.unknowns.map (le_bytes 2)).flatten
  let dest6 := pad dest5 0x8
  let dest7 := dest6 ++ (submesh.duplicate_vertices.map (le_bytes 2)).flatten
  let dest8 := pad dest7 0x10
  let dest9 := dest8 ++ (vertices.map MobyVertex.bytes).flatten
  let vertex_header : MobyVertexTableHeaderRac1 :=
    { unknown_count_0 := submesh.unknowns.length
      vertex_count_2 := submesh.vertex_count_2
      vertex_count_4 := submesh.vertex_count_4
      main_vertex_count := main_vertex_count
      duplicate_vertex_count := submesh.duplicate_vertices.length
      transfer_vertex_count := transfer_vertex_count
      vertex_table_offset := dest8.length - vertex_header_ofs
      unknown_e := if format = MobyFormat.RAC1 then dest9.length - vertex_header_ofs
                   else submesh.unknown_e }
  let dest10 := if format = MobyFormat.RAC1 then
      dest9 ++ submesh.unknown_e_data.map (fun b => b % 256) else dest9
  let dest11 := write_at dest10 vertex_header_ofs (vertex_header.bytes w)
  let dest12 := pad dest11 0x10
  pure (dest12,
    { entry with
      vertex_offset := vertex_header_ofs - class_header_ofs
      vertex_data_size := (dest12.length - vertex_header_ofs) / 0x10
      unknown_d := ((0xf + transfer_vertex_count * 6) % 2 ^ 32) / 0x10
      unknown_e := ((3 + transfer_vertex_count) % 2 ^ 32) / 4
      transfer_vertex_count := transfer_vertex_count })

/-- The body of the loop of `write_moby_submeshes` (lines 583-705) for one
submesh; the entry is patched into the table at `table_ofs`. -/
def write_moby_submesh (vifw : VifWriter) (class_header_ofs : Nat) (format : MobyFormat)
    (dest : List Nat) (gif_usage : List MobyGifUsageTableEntry) (table_ofs : Nat)
    (submesh : MobySubMesh) : Except String (List Nat × List MobyGifUsageTableEntry) := do
  let dest0 := pad dest 0x10
  let vif_list_ofs := dest0.length
  let st_unpack : VifPacket :=
    { interrupt := 0, cmd := 0b1110000, num := submesh.sts.length, vnvl := VifVnVl.V2_16,
      addr := 0xc2, data := (submesh.sts.map MobyTexCoord.bytes).flatten }
  let dest1 := dest0 ++ vifw st_unpack
  let (dest2, gif_usage1, tex_unpack) ← write_shared_moby_vif_packets vifw class_header_ofs
    dest1 (some gif_usage) submesh.toMobySubMeshBase
  let dest3 := pad dest2 0x10
  let (dest12, entry) ← write_vertex_table class_header_ofs format dest3 submesh
    { MobySubMeshEntry.zero with
      vif_list_offset := vif_list_ofs - class_header_ofs
      vif_list_size := (dest3.length - vif_list_ofs) / 0x10
      vif_list_texture_unpack_offset := tex_unpack }
  pure (write_at (pad dest12 0x10) table_ofs entry.bytes, (gif_usage1.getD gif_usage))

/-- The function `write_moby_submeshes` (lines 580-706): the loop over the
submeshes, with the output buffer, the GIF usage table and `table_ofs` carried
along. -/
def write_moby_submeshes (vifw : VifWriter) (class_header_ofs : Nat) (format : MobyFormat) :
    List Nat → List MobyGifUsageTableEntry → Nat → List MobySubMesh →
      Except String (List Nat × List MobyGifUsageTableEntry)
  | dest, gif_usage, _, [] => .ok (dest, gif_usage)
  | dest, gif_usage, table_ofs, submesh :: rest =>
    match write_moby_submesh vifw class_header_ofs format dest gif_usage table_ofs submesh with
    | .error e => .error e
    | .ok (dest1, gif_usage1) =>
      write_moby_submeshes vifw class_header_ofs format dest1 gif_usage1 (table_ofs + 0x10) rest

/-- The body of the loop of `write_moby_metal_submeshes` (lines 748-777). -/
def write_moby_metal_submesh (vifw : VifWriter) (class_header_ofs : Nat) (dest : List Nat)
    (table_ofs : Nat) (submesh : MobyMetalSubMesh) : Except String (List Nat) := do
  let dest0 := pad dest 0x10
  let vif_list_ofs := dest0.length
  let (dest1, _, tex_unpack) ← write_shared_moby_vif_packets vifw class_header_ofs dest0 none
    submesh.toMobySubMeshBase
  let dest2 := pad dest1 0x10
  let vertex_count := submesh.vertices.length % 2 ^ 32
  let vertex_header_ofs := dest2.length
  let dest3 := dest2 ++ le_bytes 4 vertex_count ++ le_bytes 4 submesh.unknown_4 ++
    le_bytes 4 submesh.unknown_8 ++ le_bytes 4 submesh.unknown_c
  let dest4 := dest3 ++
    (submesh.vertices.map (fun v => (List.range 0x10).map (fun i => v.getD i 0 % 256))).flatten
  let dest5 := pad dest4 0x10
  let entry : MobySubMeshEntry :=
    { vif_list_offset := vif_list_ofs - class_header_ofs
      vif_list_size := (dest2.length - vif_list_ofs) / 0x10
      vif_list_texture_unpack_offset := tex_unpack
      vertex_offset := vertex_header_ofs - class_header_ofs
      vertex_data_size := (dest5.length - vertex_header_ofs) / 0x10
      unknown_d := to_unsigned 32 ((0xf + to_signed 32 vertex_count * 6) / 0x10)
      unknown_e := to_unsigned 32 ((3 + to_signed 32 vertex_count) / 4)
      transfer_vertex_count := vertex_count }
  pure (write_at dest5 table_ofs entry.bytes)

/-- The function `write_moby_metal_submeshes` (lines 747-778). -/
def write_moby_metal_submeshes (vifw : VifWriter) (class_header_ofs : Nat) :
    List Nat → Nat → List MobyMetalSubMesh → Except String (List Nat)
  | dest, _, [] => .ok dest
  | dest, table_ofs, submesh :: rest =>
    match write_moby_metal_submesh vifw class_header_ofs dest table_ofs submesh with
    | .error e => .error e
    | .ok dest1 => write_moby_metal_submeshes vifw class_header_ofs dest1 (table_ofs + 0x10) rest

/-! ### The parts of a class model -/

/-- What the model takes from headers that are not among the sources: the VIF
packet reader and writer of core/vif.h and the sizes of two records of moby.h
that moby.cpp only copies. -/
structure Env where
  read_unpacks : VifReader
  packet_bytes : VifWriter
  sizeof_MobySoundDef : Nat
  sizeof_MobyTriggerData : Nat

/-- A byte string cut or zero-extended to `size` bytes (a record copied whole). -/
def raw_bytes (size : Nat) (b : List Nat) : List Nat :=
  (List.range size).map (fun i => b.getD i 0 % 256)

/-- Modelled from the spec: `MobyBangle` of moby.h, 4 bytes (sixteen of them
precede the vertices at offset 0x40). -/
structure MobyBangle where
  submesh_begin : Nat
  submesh_count : Nat
  unknown_2 : Nat
  unknown_3 : Nat
deriving DecidableEq, Repr

/-- The bangle stored in 4 bytes. -/
def MobyBangle.parse (b : List Nat) : MobyBangle :=
  ⟨b.getD 0 0 % 256, b.getD 1 0 % 256, b.getD 2 0 % 256, b.getD 3 0 % 256⟩

/-- The 4 bytes of a bangle. -/
def MobyBangle.bytes (b : MobyBangle) : List Nat :=
  [b.submesh_begin % 256, b.submesh_count % 256, b.unknown_2 % 256, b.unknown_3 % 256]

/-- The decoration block "bangles"; a `MobyVertexPosition` is 8 raw bytes. -/
structure MobyBangles where
  bangles : List MobyBangle
  vertices : List (List Nat)
  submeshes : List MobySubMesh
deriving DecidableEq, Repr

/-- The function `read_moby_bangles` (lines 241-252); both operands of the test
on line 246 are `submesh_begin`, as in the source. -/
def read_moby_bangles (src : List Nat) : Except String MobyBangles := do
  let raw ← read_multiple src 4 0 16 "moby bangles"
  let bangles := raw.map MobyBangle.parse
  let bangle_count : Int :=
    ((bangles.filter (fun b => b.submesh_begin ≠ 0 ∨ b.submesh_begin ≠ 0)).length : Int)
  let vertices ← read_multiple src 8 0x40 (2 * (bangle_count - 1)) "moby bangle vertices"
  pure ⟨bangles, vertices, []⟩

/-- The function `write_moby_bangles` (lines 254-259). -/
def write_moby_bangles (dest : List Nat) (bangles : MobyBangles) : List Nat × Nat :=
  (dest ++ (bangles.bangles.map MobyBangle.bytes).flatten ++
    (bangles.vertices.map (raw_bytes 8)).flatten, dest.length)

/-- One kernel of the decoration block "corncob": a `Vec4f` kept as 0x10 raw
bytes and its vertex positions (8 raw bytes each). -/
structure MobyCornKernel where
  vec : List Nat
  vertices : List (List Nat)
deriving DecidableEq, Repr

/-- The decoration block "corncob": sixteen optional kernels. -/
structure MobyCornCob where
  kernels : List (Option MobyCornKernel)
deriving DecidableEq, Repr

/-- Lines 265-274: one slot of the corncob header. -/
def read_moby_corn_kernel (src : List Nat) (slot : Nat) : Except String (Option MobyCornKernel) :=
  if slot % 256 ≠ 0xff then do
    let kernel_ofs : Int := (slot % 256 : Nat) * 0x10
    let vec ← read_bytes src kernel_ofs 0x10 "corn vec4"
    let lo ← read_uint src 8 kernel_ofs "corn"
    let hi ← if lo ≠ 0 then pure 0 else read_uint src 8 (kernel_ofs + 8) "corn"
    if lo ≠ 0 ∨ hi ≠ 0 then do
      let vertex_count ← read_sint src 2 (kernel_ofs + 0x16) "corn vertex count"
      let vertices ← read_multiple src 8 (kernel_ofs + 0x10) vertex_count "corn vertices"
      pure (some ⟨vec, vertices⟩)
    else pure (some ⟨vec, []⟩)
  else pure none

/-- The loop of `read_moby_corncob` over the sixteen header bytes. -/
def read_moby_corn_kernels (src : List Nat) :
    List Nat → Except String (List (Option MobyCornKernel))
  | [] => .ok []
  | slot :: rest =>
    match read_moby_corn_kernel src slot with
    | .error e => .error e
    | .ok kernel =>
      match read_moby_corn_kernels src rest with
      | .error e => .error e
      | .ok kernels => .ok (kernel :: kernels)

/-- The function `read_moby_corncob` (lines 261-277). -/
def read_moby_corncob (src : List Nat) : Except String MobyCornCob := do
  let header ← read_bytes src 0 0x10 "moby corncob"
  let kernels ← read_moby_corn_kernels src header
  pure ⟨kernels⟩

/-- Lines 282-297: the kernels are written in slot order and the header bytes
collected. -/
def write_moby_corn_kernels (header_ofs : Nat) :
    List (Option MobyCornKernel) → List Nat → List Nat → List Nat × List Nat
  | [], dest, header => (dest, header)
  | none :: rest, dest, header => write_moby_corn_kernels header_ofs rest dest (header ++ [0xff])
  | some kernel :: rest, dest, header =>
    let dest0 := pad dest 0x10
    let kernel_ofs := dest0.length
    let dest1 := dest0 ++ raw_bytes 0x10 kernel.vec ++ (kernel.vertices.map (raw_bytes 8)).flatten
    let dest2 := if 0 < kernel.vertices.length then
        write_at dest1 (kernel_ofs + 0x16) (le_bytes 2 kernel.vertices.length) else dest1
    write_moby_corn_kernels header_ofs rest dest2
      (header ++ [((kernel_ofs - header_ofs) / 0x10) % 256])

/-- The function `write_moby_corncob` (lines 279-300); the sixteen slots are
`kernels[0..15]`, a missing list element being an empty slot. -/
def write_moby_corncob (dest : List Nat) (corncob : MobyCornCob) : List Nat × Nat :=
  let header_ofs := dest.length
  let (dest1, header) := write_moby_corn_kernels header_ofs
    ((List.range 16).map (fun i => (corncob.kernels.getD i none))) (dest ++ List.replicate 0x10 0) []
  (write_at dest1 header_ofs header, header_ofs)

/-- A decoded animation frame; `unknown_0` is a float kept as its 32 bits. -/
structure MobyFrame where
  unknown_0 : Nat
  unknown_4 : Nat
  unknown_8 : Nat
  unknown_c : Nat
  unknown_d : Nat
  data : List Nat
deriving DecidableEq, Repr

/-- A decoded sequence; the bounding sphere is kept as 0x10 raw bytes and the
trigger data as the raw bytes of a `MobyTriggerData`. -/
structure MobySequence where
  bounding_sphere : List Nat
  frames : List MobyFrame
  triggers : List Nat
  trigger_data : Option (List Nat)
  animation_info : Nat
  sound_count : Nat
deriving DecidableEq, Repr

/-- Modelled from the spec: `MobyFrameHeader` of moby.h (not among the
sources), 0x10 bytes: `unknown_0` (32 bits), `unknown_4` and `count` (16 bits),
`unknown_8` (32 bits), `unknown_c` and `unknown_d` (bytes), 2 bytes of padding. -/
def frame_header_bytes (frame : MobyFrame) : List Nat :=
  le_bytes 4 frame.unknown_0 ++ le_bytes 2 frame.unknown_4 ++
  le_bytes 2 (frame.data.length / 0x10) ++ le_bytes 4 frame.unknown_8 ++
  le_bytes 1 frame.unknown_c ++ le_bytes 1 frame.unknown_d ++ [0, 0]

/-- Lines 318-331: the frames of a sequence, for the entries of its frame
table; `mystery_data_ofs` is carried along. -/
def read_moby_frames (src : List Nat) :
    List (List Nat) → Int → Except String (List MobyFrame × Int)
  | [], mystery_data_ofs => .ok ([], mystery_data_ofs)
  | entry :: rest, mystery_data_ofs =>
    let frame_offset : Int := ((le_value entry % 0x10000000 : Nat) : Int)
    match read_bytes src frame_offset 0x10 "moby frame header" with
    | .error e => .error e
    | .ok h =>
      let count : Int := (le_value ((h.drop 6).take 2) : Nat)
      match read_bytes src (frame_offset + 0x10) (count * 0x10) "frame data" with
      | .error e => .error e
      | .ok data =>
        let frame : MobyFrame :=
          { unknown_0 := le_value (h.take 4), unknown_4 := le_value ((h.drop 4).take 2),
            unknown_8 := le_value ((h.drop 8).take 4), unknown_c := le_value ((h.drop 0xc).take 1),
            unknown_d := le_value ((h.drop 0xd).take 1), data := data }
        match read_moby_frames src rest (max mystery_data_ofs (frame_offset + 0x10 + count * 0x10)) with
        | .error e => .error e
        | .ok (frames, m) => .ok (frame :: frames, m)

/-- Lines 311-339: one sequence at a non-zero offset.  The header
(`MobySequenceHeader` of moby.h, modelled as 0x1c bytes) holds the bounding
sphere, the byte counts `frame_count`, `sound_count`, `trigger_count`, a pad
byte, and the unsigned 32 bit fields `triggers` and `animation_info`.  Line 335
adds the `s32` offset of the sequence and the `u32` field `triggers` in 32
bits, so the sum wraps to an unsigned 32 bit value before it is widened. -/
def read_moby_sequence (env : Env) (src : List Nat) (seq_offset : Int) (mystery_data_ofs : Int) :
    Except String (MobySequence × Int) := do
  let h ← read_bytes src seq_offset 0x1c "moby sequence header"
  let frame_count : Int := (le_value ((h.drop 0x10).take 1) : Nat)
  let trigger_count : Int := (le_value ((h.drop 0x12).take 1) : Nat)
  let triggers_ofs : Int := (le_value ((h.drop 0x14).take 4) : Nat)
  let frame_table ← read_multiple src 4 (seq_offset + 0x1c) frame_count "moby sequence table"
  let (frames, m) ← read_moby_frames src frame_table mystery_data_ofs
  let trigger_list_ofs := seq_offset + 0x1c + frame_count * 4
  let triggers ← read_multiple src 4 trigger_list_ofs trigger_count "moby sequence trigger list"
  let trigger_data ←
    if triggers_ofs ≠ 0 then do
      let abs_trigger_ofs : Int := ((to_unsigned 32 (seq_offset + triggers_ofs) : Nat) : Int)
      let t ← read_bytes src abs_trigger_ofs env.sizeof_MobyTriggerData
        "moby sequence trigger data"
      pure (some t)
    else pure none
  pure ({ bounding_sphere := h.take 0x10, frames := frames, triggers := triggers.map le_value,
          trigger_data := trigger_data, animation_info := le_value ((h.drop 0x18).take 4),
          sound_count := le_value ((h.drop 0x11).take 1) }, m)

/-- The loop of `read_moby_sequences` (lines 305-340) over the sequence offsets. -/
def read_moby_sequence_list (env : Env) (src : List Nat) :
    List (List Nat) → Int → Except String (List (Option MobySequence) × Int)
  | [], mystery_data_ofs => .ok ([], mystery_data_ofs)
  | entry :: rest, mystery_data_ofs =>
    let seq_offset := to_signed 32 (le_value entry)
    if seq_offset = 0 then
      match read_moby_sequence_list env src rest mystery_data_ofs with
      | .error e => .error e
      | .ok (sequences, m) => .ok (none :: sequences, m)
    else
      match read_moby_sequence env src seq_offset mystery_data_ofs with
      | .error e => .error e
      | .ok (sequence, m1) =>
        match read_moby_sequence_list env src rest m1 with
        | .error e => .error e
        | .ok (sequences, m) => .ok (some sequence :: sequences, m)

/-- The function `read_moby_sequences` (lines 302-342); the file-scope variable
`mystery_data_ofs` is an argument and a result. -/
def read_moby_sequences (env : Env) (src : List Nat) (sequence_count : Int)
    (mystery_data_ofs : Int) : Except String (List (Option MobySequence) × Int) := do
  let sequence_offsets ← read_multiple src 4 0x48 sequence_count "moby sequences"
  read_moby_sequence_list env src sequence_offsets mystery_data_ofs

/-- Lines 372-384 of `write_moby_sequences`: the frames of one sequence; each
frame pointer is patched into the frame table. -/
def write_moby_frames (class_header_ofs : Nat) :
    List MobyFrame → List Nat → Nat → List Nat
  | [], dest, _ => dest
  | frame :: rest, dest, frame_pointer_ofs =>
    let dest0 := pad dest 0x10
    let dest1 := dest0 ++ frame_header_bytes frame
    let dest2 := write_at dest1 frame_pointer_ofs
      (le_bytes 4 (to_unsigned 32 ((dest0.length : Int) - class_header_ofs)))
    write_moby_frames class_header_ofs rest (dest2 ++ frame.data.map (fun b => b % 256))
      (frame_pointer_ofs + 4)

/-- Lines 352-385: one sequence that has a value. -/
def write_moby_sequence (env : Env) (class_header_ofs : Nat) (format : MobyFormat)
    (dest : List Nat) (list_ofs : Nat) (sequence : MobySequence) : List Nat :=
  let dest0 := pad dest 0x10
  let seq_header_ofs := dest0.length
  let dest1 := dest0 ++ List.replicate 0x1c 0
  let dest2 := write_at dest1 list_ofs
    (le_bytes 4 (to_unsigned 32 ((seq_header_ofs : Int) - class_header_ofs)))
  let frame_pointer_ofs := dest2.length
  let dest3 := dest2 ++ List.replicate (4 * sequence.frames.length) 0
  let dest4 := dest3 ++ (sequence.triggers.map (le_bytes 4)).flatten
  let triggers := match sequence.trigger_data with
    | some _ => dest4.length - seq_header_ofs
    | none => 0
  let dest5 := match sequence.trigger_data with
    | some t => dest4 ++ raw_bytes env.sizeof_MobyTriggerData t
    | none => dest4
  let dest6 := write_moby_frames class_header_ofs sequence.frames dest5 frame_pointer_ofs
  let seq_header := raw_bytes 0x10 sequence.bounding_sphere ++
    [sequence.frames.length % 256, sequence.sound_count % 256, sequence.triggers.length % 256,
     if format = MobyFormat.RAC1 then 0 else 0xff] ++
    le_bytes 4 triggers ++ le_bytes 4 sequence.animation_info
  write_at dest6 seq_header_ofs seq_header

/-- The function `write_moby_sequences` (lines 344-387). -/
def write_moby_sequences (env : Env) (class_header_ofs : Nat) (format : MobyFormat) :
    List (Option MobySequence) → List Nat → Nat → List Nat
  | [], dest, _ => dest
  | none :: rest, dest, list_ofs =>
    write_moby_sequences env class_header_ofs format rest
      (write_at dest list_ofs (le_bytes 4 0)) (list_ofs + 4)
  | some sequence :: rest, dest, list_ofs =>
    write_moby_sequences env class_header_ofs format rest
      (write_moby_sequence env class_header_ofs format dest list_ofs sequence) (list_ofs + 4)

/-- A vector of the collision block.  The source holds three floats obtained
as `s16 / 1024.f`; the embedding holds the integers `1024 * x`, which is exact
for every decoded value. -/
structure Vec3f where
  x : Int
  y : Int
  z : Int
deriving DecidableEq, Repr

/-- The collision block of a class model. -/
structure MobyCollision where
  unknown_0 : Nat
  unknown_2 : Nat
  first_part : List Nat
  second_part : List Vec3f
  third_part : List Nat
deriving DecidableEq, Repr

/-- The function `read_moby_collision` (lines 389-409).  The header
(`MobyCollisionHeader` of moby.h, modelled as 0x10 bytes) holds two 16 bit
unknowns and the signed 32 bit sizes of the first, third and second part. -/
def read_moby_collision (src : List Nat) : Except String MobyCollision := do
  let h ← read_bytes src 0 0x10 "moby collision header"
  let first_part_size := to_signed 32 (le_value ((h.drop 4).take 4))
  let third_part_size := to_signed 32 (le_value ((h.drop 8).take 4))
  let second_part_size := to_signed 32 (le_value ((h.drop 0xc).take 4))
  let first_part ← read_bytes src 0x10 first_part_size "moby collision data"
  let ofs := 0x10 + first_part_size
  if second_part_size % 8 ≠ 0 then .error "Bad moby collision."
  else do
    let second_part ← read_multiple src 2 ofs (second_part_size / 2) "moby collision second part"
    let ofs1 := ofs + second_part_size
    let comp (i : Nat) : Int := to_signed 16 (le_value (second_part.getD i []))
    let vecs := (List.range (second_part.length / 4)).map
      (fun i => (⟨comp (i * 4 + 0), comp (i * 4 + 1), comp (i * 4 + 2)⟩ : Vec3f))
    let third_part ← read_bytes src ofs1 third_part_size "moby collision third part"
    pure { unknown_0 := le_value (h.take 2), unknown_2 := le_value ((h.drop 2).take 2),
           first_part := first_part, second_part := vecs, third_part := third_part }

/-- The function `write_moby_collision` (lines 411-429). -/
def write_moby_collision (dest : List Nat) (collision : MobyCollision) : List Nat × Nat :=
  let dest0 := pad dest 0x10
  let header := le_bytes 2 collision.unknown_0 ++ le_bytes 2 collision.unknown_2 ++
    le_bytes 4 collision.first_part.length ++ le_bytes 4 collision.third_part.length ++
    le_bytes 4 (collision.second_part.length * 8)
  let second := (collision.second_part.map (fun v =>
    le_bytes 2 (to_unsigned 16 v.x) ++ le_bytes 2 (to_unsigned 16 v.y) ++
    le_bytes 2 (to_unsigned 16 v.z) ++ le_bytes 2 0)).flatten
  (dest0 ++ header ++ collision.first_part.map (fun b => b % 256) ++ second ++
    collision.third_part.map (fun b => b % 256), dest0.length)

/-- Lines 437-444: one joint list, the bytes up to the first 0xff.  The loop of
the source ends by an error when it runs past the end of the buffer, which
happens before `fuel` runs out when `fuel` exceeds the buffer length. -/
def read_moby_joint_list (src : List Nat) : Nat → Int → Except String (List Nat)
  | 0, _ => .error "Failed to read joint list data: Attempted to read past end of buffer."
  | fuel + 1, list_ofs =>
    match read_uint src 1 list_ofs "joint list data" with
    | .error e => .error e
    | .ok value =>
      if value = 0xff then .ok []
      else
        match read_moby_joint_list src fuel (list_ofs + 1) with
        | .error e => .error e
        | .ok list => .ok (value :: list)

/-- The loop of `read_moby_joints` over the list numbers `i`. -/
def read_moby_joint_lists (src : List Nat) (joints_ofs : Int) :
    List Nat → Except String (List (List Nat))
  | [] => .ok []
  | i :: rest =>
    match read_sint src 4 (joints_ofs + ((i : Int) + 1) * 4) "joint list" with
    | .error e => .error e
    | .ok list_ofs =>
      match read_moby_joint_list src (src.length + 1) list_ofs with
      | .error e => .error e
      | .ok list =>
        match read_moby_joint_lists src joints_ofs rest with
        | .error e => .error e
        | .ok lists => .ok (list :: lists)

/-- The function `read_moby_joints` (lines 431-448). -/
def read_moby_joints (src : List Nat) (joints_ofs : Int) : Except String (List (List Nat)) := do
  let list_count ← read_sint src 4 joints_ofs "joint list count"
  read_moby_joint_lists src joints_ofs (List.range list_count.toNat)

/-- Lines 455-461 of `write_moby_joints`: the joint lists. -/
def write_moby_joint_lists (class_header_ofs : Nat) :
    List (List Nat) → List Nat → Nat → List Nat
  | [], dest, _ => dest
  | joint_list :: rest, dest, outer_list_ofs =>
    let dest0 := pad dest 0x4
    let dest1 := write_at dest0 outer_list_ofs
      (le_bytes 4 (to_unsigned 32 ((dest0.length : Int) - class_header_ofs)))
    write_moby_joint_lists class_header_ofs rest
      (dest1 ++ joint_list.map (fun b => b % 256) ++ [0xff]) (outer_list_ofs + 4)

/-- The function `write_moby_joints` (lines 450-463). -/
def write_moby_joints (class_header_ofs : Nat) (dest : List Nat) (joints : List (List Nat)) :
    List Nat × Nat :=
  let dest0 := pad dest 0x10
  let dest1 := dest0 ++ le_bytes 4 joints.length
  let dest2 := dest1 ++ List.replicate (4 * joints.length) 0
  (write_moby_joint_lists class_header_ofs joints dest2 dest1.length, dest0.length)

/-! ### The class header and the class model -/

/-- Modelled from the spec: `MobyClassHeader` of moby.h (not among the
sources), 0x48 bytes.  The widths follow the uses in moby.cpp: the sequence
offset table starts at 0x48, `byte_4` is the 32 bit word at offset 4 (the four
submesh count bytes), `unknown_9`, `rac1_byte_a` and `rac12_byte_b` are the
bytes at 9, 0xa and 0xb, `corncob` is the 16 bit value at 0x2e, the block
offsets are signed 32 bit values and all counts are bytes. -/
structure MobyClassHeader where
  submesh_table_offset : Int
  submesh_count : Nat
  low_detail_submesh_count : Nat
  metal_submesh_count : Nat
  metal_submesh_begin : Nat
  joint_count : Nat
  unknown_9 : Nat
  rac1_byte_a : Nat
  rac12_byte_b : Nat
  sequence_count : Nat
  sound_count : Nat
  lod_trans : Nat
  shadow : Nat
  collision : Int
  skeleton : Int
  common_trans : Int
  joints : Int
  gif_usage : Int
  scale : Nat
  sound_defs : Int
  bangles : Nat
  mip_dist : Nat
  corncob : Int
  bounding_sphere : List Nat
  glow_rgba : Int
  mode_bits : Int
  type : Nat
  mode_bits2 : Nat
deriving DecidableEq, Repr

/-- The value of `MobyClassHeader header = {0}`. -/
def MobyClassHeader.zero : MobyClassHeader :=
  { submesh_table_offset := 0, submesh_count := 0, low_detail_submesh_count := 0,
    metal_submesh_count := 0, metal_submesh_begin := 0, joint_count := 0, unknown_9 := 0,
    rac1_byte_a := 0, rac12_byte_b := 0, sequence_count := 0, sound_count := 0, lod_trans := 0,
    shadow := 0, collision := 0, skeleton := 0, common_trans := 0, joints := 0, gif_usage := 0,
    scale := 0, sound_defs := 0, bangles := 0, mip_dist := 0, corncob := 0,
    bounding_sphere := List.replicate 0x10 0, glow_rgba := 0, mode_bits := 0, type := 0,
    mode_bits2 := 0 }

/-- Unsigned field of `w` bytes at offset `o` of a record. -/
def field_u (b : List Nat) (o w : Nat) : Nat := le_value ((b.drop o).take w)

/-- Signed field of `w` bytes at offset `o` of a record. -/
def field_s (b : List Nat) (o w : Nat) : Int := to_signed (8 * w) (le_value ((b.drop o).take w))

/-- The header stored in 0x48 bytes. -/
def MobyClassHeader.parse (b : List Nat) : MobyClassHeader :=
  { submesh_table_offset := field_s b 0x00 4
    submesh_count := field_u b 0x04 1
    low_detail_submesh_count := field_u b 0x05 1
    metal_submesh_count := field_u b 0x06 1
    metal_submesh_begin := field_u b 0x07 1
    joint_count := field_u b 0x08 1
    unknown_9 := field_u b 0x09 1
    rac1_byte_a := field_u b 0x0a 1
    rac12_byte_b := field_u b 0x0b 1
    sequence_count := field_u b 0x0c 1
    sound_count := field_u b 0x0d 1
    lod_trans := field_u b 0x0e 1
    shadow := field_u b 0x0f 1
    collision := field_s b 0x10 4
    skeleton := field_s b 0x14 4
    common_trans := field_s b 0x18 4
    joints := field_s b 0x1c 4
    gif_usage := field_s b 0x20 4
    scale := field_u b 0x24 4
    sound_defs := field_s b 0x28 4
    bangles := field_u b 0x2c 1
    mip_dist := field_u b 0x2d 1
    corncob := field_s b 0x2e 2
    bounding_sphere := (b.drop 0x30).take 0x10
    glow_rgba := field_s b 0x40 4
    mode_bits := field_s b 0x44 2
    type := field_u b 0x46 1
    mode_bits2 := field_u b 0x47 1 }

/-- The 0x48 bytes of a header; every field is cut to its width. -/
def MobyClassHeader.bytes (h : MobyClassHeader) : List Nat :=
  le_bytes 4 (to_unsigned 32 h.submesh_table_offset) ++
  [h.submesh_count % 256, h.low_detail_submesh_count % 256, h.metal_submesh_count % 256,
   h.metal_submesh_begin % 256, h.joint_count % 256, h.unknown_9 % 256, h.rac1_byte_a % 256,
   h.rac12_byte_b % 256, h.sequence_count % 256, h.sound_count % 256, h.lod_trans % 256,
   h.shadow % 256] ++
  le_bytes 4 (to_unsigned 32 h.collision) ++ le_bytes 4 (to_unsigned 32 h.skeleton) ++
  le_bytes 4 (to_unsigned 32 h.common_trans) ++ le_bytes 4 (to_unsigned 32 h.joints) ++
  le_bytes 4 (to_unsigned 32 h.gif_usage) ++ le_bytes 4 h.scale ++
  le_bytes 4 (to_unsigned 32 h.sound_defs) ++ [h.bangles % 256, h.mip_dist % 256] ++
  le_bytes 2 (to_unsigned 16 h.corncob) ++ raw_bytes 0x10 h.bounding_sphere ++
  le_bytes 4 (to_unsigned 32 h.glow_rgba) ++ le_bytes 2 (to_unsigned 16 h.mode_bits) ++
  [h.type % 256, h.mode_bits2 % 256]

/-- The decoded class model (`MobyClassData` of moby.h, not among the sources),
with the fields moby.cpp reads and writes.  Floats and matrices are kept as
their bytes (`scale` as its 32 bits); a field the reader does not assign keeps
the value of `MobyClassData.empty`. -/
structure MobyClassData where
  byte_4 : Nat
  unknown_9 : Nat
  rac1_byte_a : Nat
  rac1_byte_b : Nat
  lod_trans : Nat
  shadow : Nat
  scale : Nat
  mip_dist : Nat
  bounding_sphere : List Nat
  glow_rgba : Int
  mode_bits : Int
  type : Nat
  mode_bits2 : Nat
  force_rac1_format : Bool
  header_end_offset : Int
  bangles : Option MobyBangles
  rac1_short_2e : Int
  corncob : Option MobyCornCob
  sequences : List (Option MobySequence)
  collision : Option MobyCollision
  skeleton : List (List Nat)
  common_trans : List Nat
  joints : List (List Nat)
  sound_defs : List (List Nat)
  has_submesh_table : Bool
  submesh_table_offset : Int
  submeshes : List MobySubMesh
  low_detail_submeshes : List MobySubMesh
  metal_submeshes : List MobyMetalSubMesh
  mystery_data : List Nat
deriving DecidableEq, Repr

/-- Modelled from the spec: a default-constructed `MobyClassData` (its member
initialisers are in moby.h, not among the sources): numbers zero, flags false,
optional parts absent, lists empty. -/
def MobyClassData.empty : MobyClassData :=
  { byte_4 := 0, unknown_9 := 0, rac1_byte_a := 0, rac1_byte_b := 0, lod_trans := 0, shadow := 0,
    scale := 0, mip_dist := 0, bounding_sphere := List.replicate 0x10 0, glow_rgba := 0,
    mode_bits := 0, type := 0, mode_bits2 := 0, force_rac1_format := false,
    header_end_offset := 0, bangles := none, rac1_short_2e := 0, corncob := none,
    sequences := [], collision := none, skeleton := [], common_trans := [], joints := [],
    sound_defs := [], has_submesh_table := false, submesh_table_offset := 0, submeshes := [],
    low_detail_submeshes := [], metal_submeshes := [], mystery_data := [] }

/-- Lines 60-79 of `read_moby_class`: the format and `force_rac1_format`. -/
def read_format (game : Game) (rac12_byte_b : Nat) : MobyFormat × Bool :=
  match game with
  | Game.RAC1 => (MobyFormat.RAC1, false)
  | Game.RAC2 => if rac12_byte_b = 0 then (MobyFormat.RAC2, false) else (MobyFormat.RAC1, true)
  | Game.RAC3 => (MobyFormat.RAC3DL, false)
  | Game.DL => (MobyFormat.RAC3DL, false)

/-- Lines 137-151 of `write_moby_class`: the format. -/
def write_format (game : Game) (force_rac1_format : Bool) : MobyFormat :=
  match game with
  | Game.RAC1 => MobyFormat.RAC1
  | Game.RAC2 => if force_rac1_format then MobyFormat.RAC1 else MobyFormat.RAC2
  | Game.RAC3 => MobyFormat.RAC3DL
  | Game.DL => MobyFormat.RAC3DL

/-- Lines 80-86: the first non-zero entry of the sequence offset table, 0x48
when there is none. -/
def first_sequence_offset : List (List Nat) → Int
  | [] => 0x48
  | entry :: rest =>
    if to_signed 32 (le_value entry) ≠ 0 then to_signed 32 (le_value entry)
    else first_sequence_offset rest

/-- Lines 87-90 of `read_moby_class`: the bangles block, when the header has
one (its submeshes are read later, with the submesh tables). -/
def read_class_bangles (src : List Nat) (header : MobyClassHeader) :
    Except String (Option MobyBangles) :=
  if header.bangles ≠ 0 then do
    let sub ← subbuf src ((header.bangles : Int) * 0x10)
    let b ← read_moby_bangles sub
    pure (some b)
  else pure none

/-- Lines 91-96 of `read_moby_class`: the corncob block, for a game other than
RAC1 when the header has one. -/
def read_class_corncob (src : List Nat) (game : Game) (header : MobyClassHeader) :
    Except String (Option MobyCornCob) :=
  if game ≠ Game.RAC1 ∧ header.corncob ≠ 0 then do
    let sub ← subbuf src (header.corncob * 0x10)
    let c ← read_moby_corncob sub
    pure (some c)
  else pure none

/-- Lines 80-96 of `read_moby_class`: `header_end_offset`. -/
def read_header_end_offset (game : Game) (header : MobyClassHeader)
    (seq_offsets : List (List Nat)) : Int :=
  let heo0 := first_sequence_offset seq_offsets
  let heo1 := if header.bangles ≠ 0 then min heo0 ((header.bangles : Int) * 0x10) else heo0
  if game ≠ Game.RAC1 ∧ header.corncob ≠ 0 then min heo1 (header.corncob * 0x10) else heo1

/-- Lines 99-103 of `read_moby_class`: the collision block, when the header
has one. -/
def read_class_collision (src : List Nat) (header : MobyClassHeader) :
    Except String (Option MobyCollision) :=
  if header.collision ≠ 0 then do
    let sub ← subbuf src header.collision
    let c ← read_moby_collision sub
    pure (some c)
  else pure none

/-- Lines 101-102: `mystery_data_ofs` after the collision block. -/
def mystery_after_collision (header : MobyClassHeader) (collision : Option MobyCollision)
    (mystery_data_ofs : Int) : Int :=
  match collision with
  | some c => max mystery_data_ofs (header.collision +
      (0x10 + (c.first_part.length : Int) + (c.second_part.length : Int) * 8 +
        (c.third_part.length : Int)))
  | none => mystery_data_ofs

/-- What lines 110-125 of `read_moby_class` produce. -/
structure ClassSubmeshes where
  has_submesh_table : Bool
  submesh_table_offset : Int
  submeshes : List MobySubMesh
  low_detail_submeshes : List MobySubMesh
  metal_submeshes : List MobyMetalSubMesh
  bangles : Option MobyBangles
  mystery_data_ofs : Int

/-- Lines 110-125 of `read_moby_class`: the submesh tables, when the header has
a submesh table offset; `mystery_data_ofs` is raised to the end of the last
table. -/
def read_class_submeshes (env : Env) (src : List Nat) (header : MobyClassHeader)
    (format : MobyFormat) (bangles : Option MobyBangles) (mystery_data_ofs : Int) :
    Except String ClassSubmeshes :=
  if header.submesh_table_offset ≠ 0 then do
    let submeshes ← read_moby_submeshes env.read_unpacks src header.submesh_table_offset
      header.submesh_count format
    let low_detail_submeshes ← read_moby_submeshes env.read_unpacks src
      (header.submesh_table_offset + (header.submesh_count : Int) * 0x10)
      header.low_detail_submesh_count format
    let metal_table_ofs := header.submesh_table_offset + (header.metal_submesh_begin : Int) * 0x10
    let metal_submeshes ← read_moby_metal_submeshes env.read_unpacks src metal_table_ofs
      header.metal_submesh_count
    match bangles with
    | some b =>
      match b.bangles.get? 0 with
      | none => .error "std::out_of_range"
      | some first_bangle =>
        let bangles_submesh_table_ofs :=
          header.submesh_table_offset + (first_bangle.submesh_begin : Int) * 0x10
        match read_moby_submeshes env.read_unpacks src bangles_submesh_table_ofs
            first_bangle.submesh_count format with
        | .error e => .error e
        | .ok bangle_submeshes =>
          .ok { has_submesh_table := true, submesh_table_offset := header.submesh_table_offset,
                submeshes := submeshes, low_detail_submeshes := low_detail_submeshes,
                metal_submeshes := metal_submeshes,
                bangles := some { b with submeshes := bangle_submeshes },
                mystery_data_ofs := max mystery_data_ofs
                  (bangles_submesh_table_ofs + (first_bangle.submesh_count : Int) * 0x10) }
    | none =>
      .ok { has_submesh_table := true, submesh_table_offset := header.submesh_table_offset,
            submeshes := submeshes, low_detail_submeshes := low_detail_submeshes,
            metal_submeshes := metal_submeshes, bangles := none,
            mystery_data_ofs := max mystery_data_ofs
              (metal_table_ofs + (header.metal_submesh_count : Int) * 0x10) }
  else
    .ok { has_submesh_table := false, submesh_table_offset := 0, submeshes := [],
          low_detail_submeshes := [], metal_submeshes := [], bangles := bangles,
          mystery_data_ofs := mystery_data_ofs }

/-- The function `read_moby_class` (lines 42-128).  The file-scope variable
`mystery_data_ofs` is assigned on line 58 before any use, so it is a local
value here. -/
def read_moby_class (env : Env) (src : List Nat) (game : Game) : Except String MobyClassData := do
  let hb ← read_bytes src 0 0x48 "moby class header"
  let header := MobyClassHeader.parse hb
  let byte_4 ← read_uint src 4 4 "moby class header"
  let mystery0 ← read_sint src 4 0x48 "moby sequences"
  let seq_offsets ← read_multiple src 4 0x48 header.sequence_count "sequence offsets"
  let bangles ← read_class_bangles src header
  let corncob ← read_class_corncob src game header
  let sequences ← read_moby_sequences env src header.sequence_count mystery0
  if ¬ 1 ≤ header.sequence_count then .error "Moby class has no sequences."
  else do
    let collision ← read_class_collision src header
    let skeleton ← read_multiple src 0x40 header.skeleton header.joint_count "skeleton"
    let common_trans ← read_bytes src header.common_trans ((header.joint_count : Int) * 0x10)
      "moby common trans"
    let joints ← read_moby_joints src header.joints
    let sound_defs ← read_multiple src env.sizeof_MobySoundDef header.sound_defs
      header.sound_count "moby sound defs"
    let tables ← read_class_submeshes env src header (read_format game header.rac12_byte_b).1
      bangles (mystery_after_collision header collision sequences.2)
    let mystery_data ← read_bytes src tables.mystery_data_ofs
      (header.skeleton - tables.mystery_data_ofs) "moby mystery data"
    pure
      { byte_4 := byte_4, unknown_9 := header.unknown_9, rac1_byte_a := header.rac1_byte_a,
        rac1_byte_b := header.rac12_byte_b, lod_trans := header.lod_trans,
        shadow := header.shadow, scale := header.scale, mip_dist := header.mip_dist,
        bounding_sphere := header.bounding_sphere, glow_rgba := header.glow_rgba,
        mode_bits := header.mode_bits, type := header.type, mode_bits2 := header.mode_bits2,
        force_rac1_format := (read_format game header.rac12_byte_b).2,
        header_end_offset := read_header_end_offset game header seq_offsets,
        bangles := tables.bangles,
        rac1_short_2e := if game = Game.RAC1 then header.corncob else 0,
        corncob := corncob, sequences := sequences.1, collision := collision,
        skeleton := skeleton, common_trans := common_trans, joints := joints,
        sound_defs := sound_defs, has_submesh_table := tables.has_submesh_table,
        submesh_table_offset := tables.submesh_table_offset, submeshes := tables.submeshes,
        low_detail_submeshes := tables.low_detail_submeshes,
        metal_submeshes := tables.metal_submeshes, mystery_data := mystery_data }

/-- The write positions `write_moby_class` passes through, in the order of the
statements of the source: the value of `dest.tell()` where each region starts
and ends (a region that is absent starts and ends at the same position). -/
structure Regions where
  class_header_ofs : Nat
  sequence_list_ofs : Nat
  sequence_list_end : Nat
  header_padding_end : Nat
  bangles_ofs : Nat
  bangles_end : Nat
  corncob_ofs : Nat
  corncob_end : Nat
  sequences_ofs : Nat
  sequences_end : Nat
  submesh_table_1_ofs : Nat
  submesh_table_2_ofs : Nat
  metal_submesh_table_ofs : Nat
  bangles_submesh_table_ofs : Nat
  submesh_tables_end : Nat
  collision_ofs : Nat
  mystery_data_ofs : Nat
  skeleton_ofs : Nat
  skeleton_end : Nat
  common_trans_ofs : Nat
  common_trans_end : Nat
  joints_ofs : Nat
  joints_end : Nat
  sound_defs_ofs : Nat
  sound_defs_end : Nat
  submeshes_end : Nat
  low_detail_submeshes_end : Nat
  metal_submeshes_end : Nat
  bangles_submeshes_end : Nat
  gif_usage_ofs : Nat
  gif_usage_end : Nat
deriving DecidableEq, Repr

/-- Lines 233-236: the GIF usage table as written, the last entry tagged. -/
def gif_usage_bytes (gif_usage : List MobyGifUsageTableEntry) : List Nat :=
  ((gif_usage.dropLast.map MobyGifUsageTableEntry.bytes) ++
    (gif_usage.getLast?.toList.map (fun e =>
      MobyGifUsageTableEntry.bytes
        { e with offset_and_terminator := e.offset_and_terminator ||| 0x80000000 }))).flatten

/-- The verify calls of `write_moby_class` (lines 153, 155, 157, 168, 177 and
214), in the order of the source. -/
def check_class_counts (moby : MobyClassData) : Except String Unit :=
  if ¬ moby.submeshes.length < 256 then .error "Moby class has too many submeshes."
  else if ¬ moby.low_detail_submeshes.length < 256 then
    .error "Moby class has too many low detail submeshes."
  else if ¬ moby.metal_submeshes.length < 256 then
    .error "Moby class has too many metal submeshes."
  else if ¬ moby.sound_defs.length < 256 then .error "Moby class has too many sounds."
  else if ¬ moby.sequences.length < 256 then
    .error "Moby class has too many sequences (max is 255)."
  else if ¬ moby.skeleton.length < 255 then .error "Moby class has too many joints."
  else .ok ()

/-- The output buffer and the write positions after lines 134-205 of
`write_moby_class`. -/
structure ClassFront where
  dest : List Nat
  sequence_list_ofs : Nat
  sequence_list_end : Nat
  header_padding_end : Nat
  bangles_ofs : Nat
  bangles_end : Nat
  corncob_ofs : Nat
  corncob_end : Nat
  sequences_ofs : Nat
  sequences_end : Nat
  submesh_table_1_ofs : Nat
  submesh_table_2_ofs : Nat
  metal_submesh_table_ofs : Nat
  bangles_submesh_table_ofs : Nat

/-- Lines 134-205 of `write_moby_class`: the header is allocated, then the
sequence offset table, the zero bytes up to `header_end_offset`, the bangles,
the corncob, the sequences, the zero bytes up to `submesh_table_offset` and the
four submesh tables. -/
def write_class_front (env : Env) (dest : List Nat) (moby : MobyClassData) (game : Game) :
    ClassFront :=
  let class_header_ofs := dest.length
  let format := write_format game moby.force_rac1_format
  let dest1 := dest ++ List.replicate 0x48 0
  let dest2 := dest1 ++ List.replicate (4 * moby.sequences.length) 0
  let dest3 := zero_fill_to dest2 ((class_header_ofs : Int) + moby.header_end_offset)
  let dest4a := match moby.bangles with
    | some _ => pad dest3 0x10
    | none => dest3
  let dest4 := match moby.bangles with
    | some b => (write_moby_bangles dest4a b).1
    | none => dest4a
  let use_corncob := game ≠ Game.RAC1 ∧ moby.corncob.isSome
  let dest5a := if use_corncob then pad dest4 0x10 else dest4
  let dest5 := match moby.corncob with
    | some c => if use_corncob then (write_moby_corncob dest5a c).1 else dest5a
    | none => dest5a
  let dest6 := pad dest5 0x10
  let dest7 := write_moby_sequences env class_header_ofs format moby.sequences dest6 dest1.length
  let dest8 := zero_fill_to (pad dest7 0x10) ((class_header_ofs : Int) + moby.submesh_table_offset)
  let dest9 := dest8 ++ List.replicate (0x10 * moby.submeshes.length) 0
  let dest10 := dest9 ++ List.replicate (0x10 * moby.low_detail_submeshes.length) 0
  let dest11 := dest10 ++ List.replicate (0x10 * moby.metal_submeshes.length) 0
  let dest12 := match moby.bangles with
    | some b => dest11 ++ List.replicate (0x10 * b.submeshes.length) 0
    | none => dest11
  { dest := dest12
    sequence_list_ofs := dest1.length
    sequence_list_end := dest2.length
    header_padding_end := dest3.length
    bangles_ofs := dest4a.length
    bangles_end := dest4.length
    corncob_ofs := dest5a.length
    corncob_end := dest5.length
    sequences_ofs := dest6.length
    sequences_end := dest7.length
    submesh_table_1_ofs := dest8.length
    submesh_table_2_ofs := dest9.length
    metal_submesh_table_ofs := dest10.length
    bangles_submesh_table_ofs := dest11.length }

/-- The output buffer and the write positions after lines 209-225 of
`write_moby_class`. -/
structure ClassMiddle where
  dest : List Nat
  collision_ofs : Nat
  mystery_data_ofs : Nat
  skeleton_ofs : Nat
  skeleton_end : Nat
  common_trans_ofs : Nat
  common_trans_end : Nat
  joints_ofs : Nat
  joints_end : Nat
  sound_defs_ofs : Nat

/-- Lines 209-225 of `write_moby_class`, from the buffer `dest` left by
`write_class_front`: the collision block, the mystery data, the skeleton, the common
transform, the joint lists and the sound definitions. -/
def write_class_middle (env : Env) (class_header_ofs : Nat) (dest : List Nat)
    (moby : MobyClassData) : ClassMiddle :=
  let collision_ofs := match moby.collision with
    | some c => (write_moby_collision dest c).2
    | none => dest.length
  let dest13 := match moby.collision with
    | some c => (write_moby_collision dest c).1
    | none => dest
  let dest14 := dest13 ++ moby.mystery_data.map (fun b => b % 256)
  let dest15 := dest14 ++ (moby.skeleton.map (raw_bytes 0x40)).flatten
  let dest16 := pad dest15 0x10
  let dest17 := dest16 ++ moby.common_trans.map (fun b => b % 256)
  let dest18 := (write_moby_joints class_header_ofs dest17 moby.joints).1
  let dest19 := pad dest18 0x10
  let dest20 := dest19 ++ (moby.sound_defs.map (raw_bytes env.sizeof_MobySoundDef)).flatten
  { dest := dest20
    collision_ofs := collision_ofs
    mystery_data_ofs := dest13.length
    skeleton_ofs := dest14.length
    skeleton_end := dest15.length
    common_trans_ofs := dest16.length
    common_trans_end := dest17.length
    joints_ofs := (write_moby_joints class_header_ofs dest17 moby.joints).2
    joints_end := dest18.length
    sound_defs_ofs := dest19.length }

/-- The output buffer, the GIF usage table and the write positions after lines
226-232 of `write_moby_class`. -/
structure ClassPayloads where
  dest : List Nat
  gif_usage : List MobyGifUsageTableEntry
  submeshes_end : Nat
  low_detail_submeshes_end : Nat
  metal_submeshes_end : Nat

/-- Lines 226-232 of `write_moby_class`: the payloads of the high-detail, the
low-detail, the metal and the bangles submeshes, each patching its table. -/
def write_class_payloads (env : Env) (class_header_ofs : Nat) (format : MobyFormat)
    (tables : ClassFront) (dest : List Nat) (moby : MobyClassData) :
    Except String ClassPayloads :=
  match write_moby_submeshes env.packet_bytes class_header_ofs format dest []
      tables.submesh_table_1_ofs moby.submeshes with
  | .error e => .error e
  | .ok (dest21, gif_usage1) =>
  match write_moby_submeshes env.packet_bytes class_header_ofs format dest21 gif_usage1
      tables.submesh_table_2_ofs moby.low_detail_submeshes with
  | .error e => .error e
  | .ok (dest22, gif_usage2) =>
  match write_moby_metal_submeshes env.packet_bytes class_header_ofs dest22
      tables.metal_submesh_table_ofs moby.metal_submeshes with
  | .error e => .error e
  | .ok dest23 =>
  match moby.bangles with
  | some b =>
    match write_moby_submeshes env.packet_bytes class_header_ofs format dest23 gif_usage2
        tables.bangles_submesh_table_ofs b.submeshes with
    | .error e => .error e
    | .ok (dest24, gif_usage) =>
      .ok { dest := dest24, gif_usage := gif_usage, submeshes_end := dest21.length,
            low_detail_submeshes_end := dest22.length, metal_submeshes_end := dest23.length }
  | none =>
    .ok { dest := dest23, gif_usage := gif_usage2, submeshes_end := dest21.length,
          low_detail_submeshes_end := dest22.length, metal_submeshes_end := dest23.length }

/-- The header `write_moby_class` assembles (lines 153-236), from the model and
the positions at which the regions were written. -/
def class_header (moby : MobyClassData) (game : Game) (class_header_ofs : Nat)
    (p : ClassFront) (m : ClassMiddle) (q : ClassPayloads) : MobyClassHeader :=
  let format := write_format game moby.force_rac1_format
  { MobyClassHeader.zero with
    submesh_count := moby.submeshes.length
    low_detail_submesh_count := moby.low_detail_submeshes.length
    metal_submesh_count := moby.metal_submeshes.length
    metal_submesh_begin := moby.submeshes.length + moby.low_detail_submeshes.length
    rac1_byte_a := if format = MobyFormat.RAC1 then moby.rac1_byte_a else 0
    rac12_byte_b := if format = MobyFormat.RAC1 then moby.rac1_byte_b else 0
    unknown_9 := moby.unknown_9
    lod_trans := moby.lod_trans
    shadow := moby.shadow
    scale := moby.scale
    sound_count := moby.sound_defs.length
    mip_dist := moby.mip_dist
    bounding_sphere := moby.bounding_sphere
    glow_rgba := moby.glow_rgba
    mode_bits := moby.mode_bits
    type := moby.type
    mode_bits2 := moby.mode_bits2
    sequence_count := moby.sequences.length
    bangles := match moby.bangles with
      | some _ => (p.bangles_ofs - class_header_ofs) / 0x10
      | none => 0
    corncob := if game = Game.RAC1 then moby.rac1_short_2e
      else if moby.corncob.isSome then (((p.corncob_ofs - class_header_ofs) / 0x10 : Nat) : Int)
      else 0
    submesh_table_offset := if moby.has_submesh_table then
      ((p.submesh_table_1_ofs - class_header_ofs : Nat) : Int) else 0
    collision := match moby.collision with
      | some _ => ((m.collision_ofs - class_header_ofs : Nat) : Int)
      | none => 0
    skeleton := ((m.skeleton_ofs - class_header_ofs : Nat) : Int)
    joint_count := moby.skeleton.length
    common_trans := ((m.common_trans_ofs - class_header_ofs : Nat) : Int)
    joints := ((m.joints_ofs - class_header_ofs : Nat) : Int)
    sound_defs := if 0 < moby.sound_defs.length then
      ((m.sound_defs_ofs - class_header_ofs : Nat) : Int) else 0
    gif_usage := if 0 < q.gif_usage.length then
      ((q.dest.length - class_header_ofs : Nat) : Int) else 0 }

/-- The write positions of a class, collected from the three stages. -/
def class_regions (class_header_ofs : Nat) (p : ClassFront) (m : ClassMiddle)
    (q : ClassPayloads) : Regions :=
  { class_header_ofs := class_header_ofs
    sequence_list_ofs := p.sequence_list_ofs
    sequence_list_end := p.sequence_list_end
    header_padding_end := p.header_padding_end
    bangles_ofs := p.bangles_ofs
    bangles_end := p.bangles_end
    corncob_ofs := p.corncob_ofs
    corncob_end := p.corncob_end
    sequences_ofs := p.sequences_ofs
    sequences_end := p.sequences_end
    submesh_table_1_ofs := p.submesh_table_1_ofs
    submesh_table_2_ofs := p.submesh_table_2_ofs
    metal_submesh_table_ofs := p.metal_submesh_table_ofs
    bangles_submesh_table_ofs := p.bangles_submesh_table_ofs
    submesh_tables_end := p.dest.length
    collision_ofs := m.collision_ofs
    mystery_data_ofs := m.mystery_data_ofs
    skeleton_ofs := m.skeleton_ofs
    skeleton_end := m.skeleton_end
    common_trans_ofs := m.common_trans_ofs
    common_trans_end := m.common_trans_end
    joints_ofs := m.joints_ofs
    joints_end := m.joints_end
    sound_defs_ofs := m.sound_defs_ofs
    sound_defs_end := m.dest.length
    submeshes_end := q.submeshes_end
    low_detail_submeshes_end := q.low_detail_submeshes_end
    metal_submeshes_end := q.metal_submeshes_end
    bangles_submeshes_end := q.dest.length
    gif_usage_ofs := q.dest.length
    gif_usage_end := q.dest.length + (gif_usage_bytes q.gif_usage).length }

/-- Lines 132-236 of `write_moby_class`: everything up to the final patch of
the header.  The result is the output buffer, the header as assembled, and the
write positions passed through.  The file-scope variable `class_header_ofs` is
assigned on line 134 and handed to the functions that read it. -/
def write_moby_class_body (env : Env) (dest : List Nat) (moby : MobyClassData) (game : Game) :
    Except String (List Nat × MobyClassHeader × Regions) :=
  let class_header_ofs := dest.length
  if class_header_ofs % 0x40 ≠ 0 then .error "assert(class_header_ofs % 0x40 == 0)"
  else
    match check_class_counts moby with
    | .error e => .error e
    | .ok _ =>
      let p := write_class_front env dest moby game
      let m := write_class_middle env class_header_ofs p.dest moby
      match write_class_payloads env class_header_ofs
          (write_format game moby.force_rac1_format) p m.dest moby with
      | .error e => .error e
      | .ok q =>
        .ok (q.dest ++ gif_usage_bytes q.gif_usage,
          class_header moby game class_header_ofs p m q,
          class_regions class_header_ofs p m q)

/-- The function `write_moby_class` (lines 132-239): the body, then the header
is written at `class_header_ofs` and `byte_4` over the four bytes at offset 4
of it (lines 237-238). -/
def write_moby_class (env : Env) (dest : List Nat) (moby : MobyClassData) (game : Game) :
    Except String (List Nat) :=
  match write_moby_class_body env dest moby game with
  | .error e => .error e
  | .ok (dest1, header, _) =>
    .ok (write_at (write_at dest1 dest.length header.bytes) (dest.length + 4)
      (le_bytes 4 moby.byte_4))

/-! ### Notions used to state the properties -/

/-- The 9 bit index field of a `low_word`. -/
def index_field (low_word : Nat) : Nat := low_word % 512

/-- The vertex stored in slot `k` of the vertex array at `array_ofs` of `src`. -/
def vertex_slot (src : List Nat) (array_ofs k : Nat) : MobyVertex :=
  MobyVertex.parse ((src.drop (array_ofs + 0x10 * k)).take 0x10)

/-- Where lines 560-573 of `read_moby_submeshes` take entry `k` of the
trailing indices from, for a vertex array of `n` in-file vertices and `t`
padding vertices: the low word of padding vertex `k` for `k < t`, and otherwise
entry `k - t` of the `trailing_vertex_indices` of the vertex in slot
`max (n + t) 7 - 1`, the slot before the read position line 560 leaves. -/
def supplement_as_read (src : List Nat) (array_ofs n t k : Nat) : Nat :=
  if k < t then (vertex_slot src array_ofs (n + k)).low_word
  else (vertex_slot src array_ofs (max (n + t) 7 - 1)).trailing_vertex_indices.getD (k - t) 0

/-- The trailing index supplement of a vertex array of `n` in-file vertices and
`t` padding vertices, as lines 650-675 of `write_moby_submeshes` lay it out:
entry `k` is the low word of padding vertex `k` for `k < t`, and otherwise
entry `k - t` of the `trailing_vertex_indices` of the last padding vertex,
slot `n + t - 1`. -/
def trailing_supplement (src : List Nat) (array_ofs n t k : Nat) : Nat :=
  if k < t then (vertex_slot src array_ofs (n + k)).low_word
  else (vertex_slot src array_ofs (n + t - 1)).trailing_vertex_indices.getD (k - t) 0

/-- What `write_shared_moby_vif_packets` asserts of a submesh; `ordinary` adds
the bound of the GIF usage entry (at most 12 textures). -/
def submesh_base_ok (ordinary : Bool) (s : MobySubMeshBase) : Prop :=
  0 < s.secret_indices.length ∧
  (0 < s.textures.length → s.secret_indices.length = s.textures.length + 1) ∧
  (ordinary = true → s.textures.length ≤ 12)

/-- A model that passes every check of `write_moby_class` other than the bound
on the number of high-detail submeshes, written to an output buffer `dest`. -/
def otherwise_well_formed (dest : List Nat) (moby : MobyClassData) : Prop :=
  dest.length % 0x40 = 0 ∧
  moby.low_detail_submeshes.length < 256 ∧
  moby.metal_submeshes.length < 256 ∧
  moby.sound_defs.length < 256 ∧
  moby.sequences.length < 256 ∧
  moby.skeleton.length < 255 ∧
  (∀ s ∈ moby.submeshes, submesh_base_ok true s.toMobySubMeshBase) ∧
  (∀ s ∈ moby.low_detail_submeshes, submesh_base_ok true s.toMobySubMeshBase) ∧
  (∀ s ∈ moby.metal_submeshes, submesh_base_ok false s.toMobySubMeshBase) ∧
  (∀ b ∈ moby.bangles, ∀ s ∈ b.submeshes, submesh_base_ok true s.toMobySubMeshBase)

/-! ### Concrete inputs for the examples -/

/-- A VIF reader for the examples: every command list yields an empty texture
coordinate unpack, an index unpack that is just a header with secret index 7,
and a texture unpack of one all-zero primitive. -/
def constant_unpacks : VifReader := fun _ => .ok [[], [0, 0, 7, 0], List.replicate 0x40 0]

/-- A VIF reader for the metal example: one index unpack, a header with secret
index 7. -/
def constant_metal_unpacks : VifReader := fun _ => .ok [[0, 0, 7, 0]]

/-- A submesh table of one entry in the compact format whose vertex table has
one in-file vertex (low word 0x203) and two padding vertices, the last of which
stores 5 in `trailing_vertex_indices[4]`; four more vertices follow in the
buffer, the last one (slot 6) with 9 in `trailing_vertex_indices[4]`. -/
def lookback_short_table : List Nat :=
  (MobySubMeshEntry.bytes { MobySubMeshEntry.zero with
    vertex_offset := 0x10, vertex_data_size := 4, unknown_d := 1, unknown_e := 1,
    transfer_vertex_count := 1 }) ++
  MobyVertexTableHeaderRac1.bytes 2 ⟨0, 0, 0, 1, 0, 1, 0x10, 0⟩ ++
  (MobyVertex.mk 0x203 []).bytes ++ (MobyVertex.mk 0 []).bytes ++
  (MobyVertex.mk 0 [0, 0, 0, 0, 5, 0]).bytes ++ (MobyVertex.mk 0 []).bytes ++
  (MobyVertex.mk 0 []).bytes ++ (MobyVertex.mk 0 []).bytes ++
  (MobyVertex.mk 0 [0, 0, 0, 0, 9, 0]).bytes

/-- A submesh table of one entry in the compact format whose vertex table has
eight in-file vertices, with index fields 1, 0, 0, 0, 0, 0, 0, 2, and one
padding vertex with low word 3 and trailing indices 4, 5, 6, 7, 8, 0. -/
def lookback_long_table : List Nat :=
  (MobySubMeshEntry.bytes { MobySubMeshEntry.zero with
    vertex_offset := 0x10, vertex_data_size := 10, unknown_d := 3, unknown_e := 2,
    transfer_vertex_count := 8 }) ++
  MobyVertexTableHeaderRac1.bytes 2 ⟨0, 0, 0, 8, 0, 8, 0x10, 0⟩ ++
  (MobyVertex.mk 1 []).bytes ++ (MobyVertex.mk 0 []).bytes ++ (MobyVertex.mk 0 []).bytes ++
  (MobyVertex.mk 0 []).bytes ++ (MobyVertex.mk 0 []).bytes ++ (MobyVertex.mk 0 []).bytes ++
  (MobyVertex.mk 0 []).bytes ++ (MobyVertex.mk 2 []).bytes ++
  (MobyVertex.mk 3 [4, 5, 6, 7, 8, 0]).bytes

/-- The submesh `read_moby_submeshes` decodes from `lookback_long_table`, but
for its vertices. -/
def example_submesh (vertices : List MobyVertex) : MobySubMesh :=
  { indices := [], secret_indices := [7, 0], textures := [⟨List.replicate 0x40 0⟩],
    index_header_first_byte := 0, sts := [], unknowns := [], duplicate_vertices := [],
    vertices := vertices, vertex_count_2 := 0, vertex_count_4 := 0, unknown_e := 0,
    unknown_e_data := [] }

/-- A metal submesh table of one entry whose vertex table has no vertices. -/
def metal_table : List Nat :=
  (MobySubMeshEntry.bytes { MobySubMeshEntry.zero with vertex_offset := 0x10 }) ++
  List.replicate 0x10 0

/-- A submesh of eight vertices; the index field of vertex 0 is 0x100. -/
def index_bit_example : MobySubMesh :=
  example_submesh (⟨0x100, List.replicate 6 0⟩ :: List.replicate 7 MobyVertex.zero)

/-- The part of the decoded submesh the lookback claims are about: the table
entry and vertex table header it was decoded from, its in-file vertex count `n`
and derived trailing vertex count `t`, and a property of the decoded vertices
in terms of the vertex array of the file. -/
def decoded_from (src : List Nat) (table_ofs count : Int) (format : MobyFormat)
    (submesh : MobySubMesh) (property : Nat → Nat → Int → Prop) : Prop :=
  ∃ (raw : List (List Nat)) (entry : MobySubMeshEntry)
    (vertex_header : MobyVertexTableHeaderRac1) (after n : Nat) (t : Int),
    read_multiple src 0x10 table_ofs count "moby submesh table" = .ok raw ∧
    entry ∈ raw.map MobySubMeshEntry.parse ∧
    read_vertex_table_header src format entry.vertex_offset = .ok (vertex_header, after) ∧
    (n : Int) = wrap_s32 ((vertex_header.vertex_count_2 + vertex_header.vertex_count_4 +
      vertex_header.main_vertex_count : Nat) : Int) ∧
    t = trailing_vertex_count format entry vertex_header (n : Int) ∧
    t < 7 ∧ submesh.vertices.length = n ∧
    property (entry.vertex_offset + vertex_header.vertex_table_offset) n t

/-- The decoded vertex `j` of a submesh. -/
def decoded_vertex (submesh : MobySubMesh) (j : Nat) : MobyVertex :=
  submesh.vertices.getD j MobyVertex.zero

/-- The lookback decoding of a vertex array at `array_ofs` with `n` in-file
vertices and `t` padding vertices: the bits above the index field are as
stored; for `0 ≤ t` the index of vertex `j < n - 7` is the one stored at vertex
`j + 7`; for `1 ≤ t` and `7 ≤ n + t` the indices of the last `min n 7` vertices
are the low words of the padding vertices and then the
`trailing_vertex_indices` of the last padding vertex, slot `n + t - 1`. -/
def lookback_from_padding (src : List Nat) (submesh : MobySubMesh) (array_ofs n : Nat)
    (t : Int) : Prop :=
  (∀ j, j < n → (decoded_vertex submesh j).low_word / 512 =
    (vertex_slot src array_ofs j).low_word / 512) ∧
  (0 ≤ t → ∀ j, j + 7 < n → index_field (decoded_vertex submesh j).low_word =
    index_field (vertex_slot src array_ofs (j + 7)).low_word) ∧
  (1 ≤ t → 7 ≤ n + t.toNat → ∀ j, j < n → n ≤ j + 7 →
    (j + 7 < n + t.toNat → index_field (decoded_vertex submesh j).low_word =
      index_field (vertex_slot src array_ofs (j + 7)).low_word) ∧
    (n + t.toNat ≤ j + 7 → index_field (decoded_vertex submesh j).low_word =
      index_field ((vertex_slot src array_ofs (n + t.toNat - 1)).trailing_vertex_indices.getD
        (j + 7 - n - t.toNat) 0)))

/-- The lookback invariant as the code has it, for `1 ≤ t` and `7 ≤ n + t`: the
index of vertex `i` is the one stored seven vertices later when there is such
a vertex, and entry `i + 7 - n` of the trailing supplement otherwise. -/
def lookback_invariant (src : List Nat) (submesh : MobySubMesh) (array_ofs n : Nat)
    (t : Int) : Prop :=
  1 ≤ t → 7 ≤ n + t.toNat → ∀ i, i < n → index_field (decoded_vertex submesh i).low_word =
    if i + 7 < n then index_field (vertex_slot src array_ofs (i + 7)).low_word
    else index_field (trailing_supplement src array_ofs n t.toNat (i + 7 - n))

/-- The vertex table of `index_bit_example` is written and read back in
`format`, and the index field of vertex 0 comes back as 0 instead of 0x100. -/
def index_bit_lost (format : MobyFormat) : Prop :=
  ∃ dest entry decoded,
    write_vertex_table 0 format [] index_bit_example MobySubMeshEntry.zero = .ok (dest, entry) ∧
    read_vertex_table dest format entry index_bit_example.toMobySubMeshBase [] =
      .ok (some decoded) ∧
    index_field (decoded_vertex decoded 0).low_word = 0 ∧
    index_field (decoded_vertex index_bit_example 0).low_word = 0x100

/-- The metal submesh `read_moby_metal_submeshes` decodes from `metal_table`. -/
def example_metal_submesh : MobyMetalSubMesh :=
  { indices := [], secret_indices := [7], textures := [], index_header_first_byte := 0,
    vertices := [], unknown_4 := 0, unknown_8 := 0, unknown_c := 0 }

/-- An environment for the examples: the constant VIF reader, a VIF writer
that emits the data of a packet, and 0x20 bytes for a sound definition and for
a trigger data record. -/
def example_env : Env := ⟨constant_unpacks, fun p => p.data, 0x20, 0x20⟩

/-- The buffer `d1` extends `d` and agrees with it on the positions from `lo`
up to `hi`. -/
def preserves (lo hi : Nat) (d d1 : List Nat) : Prop :=
  d.length ≤ d1.length ∧ ∀ i, lo ≤ i → i < hi → d1[i]? = d[i]?

/-- The write positions `r` follow one another in the order of the statements
of `write_moby_class` (lines 134-236): header, sequence offset table, zero
bytes up to `header_end_offset`, bangles, corncob, sequences, the four submesh
tables, collision, mystery data, skeleton, common transform, joint lists, sound
definitions, the payloads of the high-detail, low-detail, metal and bangles
submeshes, GIF usage table. -/
def in_source_order (r : Regions) : Prop :=
  r.class_header_ofs + 0x48 = r.sequence_list_ofs ∧
  r.sequence_list_ofs ≤ r.sequence_list_end ∧
  r.sequence_list_end ≤ r.header_padding_end ∧
  r.header_padding_end ≤ r.bangles_ofs ∧
  r.bangles_ofs ≤ r.bangles_end ∧
  r.bangles_end ≤ r.corncob_ofs ∧
  r.corncob_ofs ≤ r.corncob_end ∧
  r.corncob_end ≤ r.sequences_ofs ∧
  r.sequences_ofs ≤ r.sequences_end ∧
  r.sequences_end ≤ r.submesh_table_1_ofs ∧
  r.submesh_table_1_ofs ≤ r.submesh_table_2_ofs ∧
  r.submesh_table_2_ofs ≤ r.metal_submesh_table_ofs ∧
  r.metal_submesh_table_ofs ≤ r.bangles_submesh_table_ofs ∧
  r.bangles_submesh_table_ofs ≤ r.submesh_tables_end ∧
  r.submesh_tables_end ≤ r.collision_ofs ∧
  r.collision_ofs ≤ r.mystery_data_ofs ∧
  r.mystery_data_ofs ≤ r.skeleton_ofs ∧
  r.skeleton_ofs ≤ r.skeleton_end ∧
  r.skeleton_end ≤ r.common_trans_ofs ∧
  r.common_trans_ofs ≤ r.common_trans_end ∧
  r.common_trans_end ≤ r.joints_ofs ∧
  r.joints_ofs ≤ r.joints_end ∧
  r.joints_end ≤ r.sound_defs_ofs ∧
  r.sound_defs_ofs ≤ r.sound_defs_end ∧
  r.sound_defs_end ≤ r.submeshes_end ∧
  r.submeshes_end ≤ r.low_detail_submeshes_end ∧
  r.low_detail_submeshes_end ≤ r.metal_submeshes_end ∧
  r.metal_submeshes_end ≤ r.bangles_submeshes_end ∧
  r.bangles_submeshes_end = r.gif_usage_ofs ∧
  r.gif_usage_ofs ≤ r.gif_usage_end

/-- Every offset of the assembled header is the write position of its region
relative to the start of the class (bangles and corncob in units of 0x10
bytes), or zero when the region is absent or the model has no submesh table;
for RAC1 the field at 0x2e is `rac1_short_2e` of the model. -/
def offsets_from_cursor (moby : MobyClassData) (game : Game) (header : MobyClassHeader)
    (r : Regions) : Prop :=
  header.bangles =
    (if moby.bangles.isSome then (r.bangles_ofs - r.class_header_ofs) / 0x10 else 0) ∧
  header.corncob =
    (if game = Game.RAC1 then moby.rac1_short_2e
     else if moby.corncob.isSome then
      (((r.corncob_ofs - r.class_header_ofs) / 0x10 : Nat) : Int) else 0) ∧
  header.submesh_table_offset =
    (if moby.has_submesh_table then (r.submesh_table_1_ofs : Int) - r.class_header_ofs else 0) ∧
  header.collision =
    (if moby.collision.isSome then (r.collision_ofs : Int) - r.class_header_ofs else 0) ∧
  header.skeleton = (r.skeleton_ofs : Int) - r.class_header_ofs ∧
  header.common_trans = (r.common_trans_ofs : Int) - r.class_header_ofs ∧
  header.joints = (r.joints_ofs : Int) - r.class_header_ofs ∧
  header.sound_defs =
    (if 0 < moby.sound_defs.length then (r.sound_defs_ofs : Int) - r.class_header_ofs else 0) ∧
  header.gif_usage =
    (if r.gif_usage_ofs < r.gif_usage_end then (r.gif_usage_ofs : Int) - r.class_header_ofs
     else 0)

/-- A model with one empty sequence slot and a bangles block of sixteen
bangles, decoded with `header_end_offset` 0x100. -/
def decorated_model : MobyClassData :=
  { MobyClassData.empty with
    sequences := [none], header_end_offset := 0x100,
    bangles := some ⟨List.replicate 16 ⟨0, 0, 0, 0⟩, [], []⟩ }

/-- A model with one empty sequence slot and three bytes of mystery data. -/
def null_sequence_model : MobyClassData :=
  { MobyClassData.empty with
    sequences := [none], header_end_offset := 0x48, mystery_data := [1, 2, 3] }

/-- A model with one empty sequence slot and values in its scalar fields. -/
def scalar_model : MobyClassData :=
  { MobyClassData.empty with
    sequences := [none], header_end_offset := 0x48, byte_4 := 0x01020304, unknown_9 := 7,
    lod_trans := 0x20, shadow := 0x40, scale := 0x3f800000, mip_dist := 8, glow_rgba := -2,
    mode_bits := 0x30, type := 1, mode_bits2 := 2, rac1_byte_a := 5, rac1_byte_b := 6,
    rac1_short_2e := -3 }

/-- The `w` bytes at offset `o` of a buffer. -/
def slice (b : List Nat) (o w : Nat) : List Nat := (b.drop o).take w

/-- A class of 0x60 bytes for RAC2: a header with `rac12_byte_b` 1, one
sequence and all block offsets zero, then a sequence offset table with the
single entry 0. -/
def forced_format_buffer : List Nat := List.replicate 0xb 0 ++ [1, 1] ++ List.replicate 0x53 0

/-- The pad byte of the index header of the submesh of a table entry: byte 3
of unpack `at_index` of its command list (1 for an ordinary submesh, 0 for a
metal one), when the command list can be read and the unpack holds an index
header. -/
def index_header_pad (vif : VifReader) (src : List Nat) (entry : MobySubMeshEntry)
    (at_index : Nat) : Option Nat :=
  match subbuf_sized src entry.vif_list_offset (entry.vif_list_size * 0x10) with
  | .error _ => none
  | .ok command_buffer =>
    match vif command_buffer with
    | .error _ => none
    | .ok unpacks =>
      match unpacks.get? at_index with
      | none => none
      | some index_data =>
        if 4 ≤ index_data.length then some (index_data.getD 3 0 % 256) else none

/-- A VIF reader for the examples: a texture coordinate unpack and an index
unpack whose header has pad byte 1. -/
def bad_pad_unpacks : VifReader := fun _ => .ok [[], [0, 0, 7, 1]]

/-- A VIF reader for the metal example: an index unpack whose header has pad
byte 1. -/
def bad_pad_metal_unpacks : VifReader := fun _ => .ok [[0, 0, 7, 1]]

/-- The table `lookback_long_table` with 9 instead of 8 as the
`transfer_vertex_count` of the vertex table header: the table entry (8) and the
header disagree. -/
def conflicting_counts_table : List Nat :=
  (MobySubMeshEntry.bytes { MobySubMeshEntry.zero with
    vertex_offset := 0x10, vertex_data_size := 10, unknown_d := 3, unknown_e := 2,
    transfer_vertex_count := 8 }) ++
  MobyVertexTableHeaderRac1.bytes 2 ⟨0, 0, 0, 8, 0, 9, 0x10, 0⟩ ++
  (MobyVertex.mk 1 []).bytes ++ (MobyVertex.mk 0 []).bytes ++ (MobyVertex.mk 0 []).bytes ++
  (MobyVertex.mk 0 []).bytes ++ (MobyVertex.mk 0 []).bytes ++ (MobyVertex.mk 0 []).bytes ++
  (MobyVertex.mk 0 []).bytes ++ (MobyVertex.mk 2 []).bytes ++
  (MobyVertex.mk 3 [4, 5, 6, 7, 8, 0]).bytes

/-! ### Lifting the submeshes to a mesh (`lift_moby_mesh`) -/

/-- Modelled from the spec: a `Vertex` of core/mesh.h (not among the sources)
as `lift_moby_mesh` builds it; the position and the texture coordinate are
functions of the `MobyVertex` and the `MobyTexCoord` kept here. -/
structure LiftedVertex where
  source : MobyVertex
  st : MobyTexCoord
deriving DecidableEq, Repr

/-- Modelled from the spec: `SubMesh` of core/mesh.h (not among the sources): a
material and faces of three vertex indices. -/
structure LiftedSubMesh where
  material : Int
  faces : List (Int × Int × Int)
deriving DecidableEq, Repr

/-- Modelled from the spec: the `Mesh` of core/mesh.h (not among the sources)
that `lift_moby_mesh` hands to `deduplicate_vertices`. -/
structure LiftedMesh where
  name : String
  vertices : List LiftedVertex
  submeshes : List LiftedSubMesh
deriving DecidableEq, Repr

/-- The variables of `lift_moby_mesh` that live across submeshes: the vertices
and submeshes of `mesh`, the 512 slots of `intermediate_buffer` and `dest`. -/
structure LiftState where
  vertices : List LiftedVertex
  submeshes : List LiftedSubMesh
  intermediate_buffer : List (Option MobyVertex)
  dest : LiftedSubMesh

/-- The variables of the loop over the indices of one submesh (lines 935-988). -/
structure IndexState where
  index_queue : List Int
  index_pos : Nat
  max_index : Int
  reverse_winding_order : Bool
  texture_index : Nat
  dest : LiftedSubMesh
  submeshes : List LiftedSubMesh

/-- The message of a failed `VERIFY_SUBMESH` (line 902). -/
def submesh_error (o_class : Int) (i : Nat) (message : String) : String :=
  "Moby class " ++ toString o_class ++ ", submesh " ++ toString i ++ " has bad " ++ message ++ "."

/-- Lines 915-925 of `lift_moby_mesh`: the vertices of a submesh. -/
def lift_vertices (sts : List MobyTexCoord) (vertex_base : Nat) :
    List MobyVertex → LiftState → Except String LiftState
  | [], st => .ok st
  | mv :: rest, st =>
    match sts.get? (st.vertices.length - vertex_base) with
    | none => .error "std::out_of_range"
    | some tex_coord =>
      lift_vertices sts vertex_base rest
        { st with
          vertices := st.vertices ++ [⟨mv, tex_coord⟩]
          intermediate_buffer := st.intermediate_buffer.set (mv.low_word &&& 0x1ff) (some mv) }

/-- Lines 926-937 of `lift_moby_mesh`: the duplicate vertices of a submesh. -/
def lift_duplicates (bad : String) (sts : List MobyTexCoord) (vertex_base : Nat) :
    List Nat → LiftState → Except String LiftState
  | [], st => .ok st
  | v8 :: rest, st =>
    if (v8 % 2 ^ 16) &&& 0b1111111 ≠ 0 then .error bad
    else
      match st.intermediate_buffer.getD ((v8 % 2 ^ 16) >>> 7) none with
      | none => .error bad
      | some mv =>
        match sts.get? (st.vertices.length - vertex_base) with
        | none => .error "std::out_of_range"
        | some tex_coord =>
          lift_duplicates bad sts vertex_base rest
            { st with vertices := st.vertices ++ [⟨mv, tex_coord⟩] }

/-- Lines 945-971: an index byte 0 takes the next secret index.  The result is
the `break` flag, the new value of `index` and the state. -/
def take_secret_index (bad : String) (src : MobySubMesh) (texture_count : Int)
    (s : IndexState) : Except String (Bool × Nat × IndexState) :=
  match src.secret_indices.get? s.texture_index with
  | none => .error "std::out_of_range"
  | some secret =>
    if secret % 256 = 0 then
      if ¬ 3 ≤ s.dest.faces.length then .error bad
      else .ok (true, 0,
        { s with dest := { s.dest with faces := s.dest.faces.dropLast.dropLast.dropLast } })
    else
      match src.textures.get? s.texture_index with
      | none => .error "std::out_of_range"
      | some prim =>
        if ¬ -1 ≤ prim.d3_tex0_data_lo then .error "assert(texture >= -1)"
        else
          .ok (false, (secret % 256 + 0x80) % 256,
            { s with
              submeshes := if 0 < s.dest.faces.length then s.submeshes ++ [s.dest]
                else s.submeshes
              dest := ⟨if prim.d3_tex0_data_lo = -1 then 0
                else if texture_count ≤ prim.d3_tex0_data_lo then 1
                else 2 + prim.d3_tex0_data_lo, []⟩
              texture_index := s.texture_index + 1 })

/-- Lines 972-987: the index enters the queue, and below 0x80 a face is
emitted; `vertex_count` is `mesh.vertices.size()`.  A negative value compared
with the unsigned size fails the check. -/
def queue_index (bad : String) (vertex_base vertex_count : Nat) (index : Nat)
    (s : IndexState) : Except String IndexState :=
  let entry : Int := if index < 0x80 then (vertex_base : Int) + index - 1
    else (vertex_base : Int) + index - 0x81
  if index < 0x80 ∧ ¬ (0 ≤ entry ∧ entry < vertex_count) then .error bad
  else
    let queue := s.index_queue.set s.index_pos entry
    let v (k : Nat) : Int := queue.getD ((s.index_pos + k) % 3) 0
    let faces := if index < 0x80 then
        s.dest.faces ++ [if s.reverse_winding_order then (v 3, v 2, v 1) else (v 1, v 2, v 3)]
      else s.dest.faces
    if ¬ (0 ≤ entry ∧ entry < vertex_count) then .error bad
    else
      .ok { s with
        index_queue := queue
        index_pos := (s.index_pos + 1) % 3
        max_index := max s.max_index entry
        reverse_winding_order := !s.reverse_winding_order
        dest := { s.dest with faces := faces } }

/-- Lines 942-988 of `lift_moby_mesh`: the loop over the index bytes of a
submesh; `bad` is the message of a failed `VERIFY_SUBMESH` for the index
buffer. -/
def lift_indices (bad : String) (src : MobySubMesh) (texture_count : Int)
    (vertex_base vertex_count : Nat) : List Nat → IndexState → Except String IndexState
  | [], s => .ok s
  | raw :: rest, s =>
    if raw % 256 = 0x80 then .error bad
    else
      match (if raw % 256 = 0 then take_secret_index bad src texture_count s
             else .ok (false, raw % 256, s)) with
      | .error e => .error e
      | .ok (true, _, s1) => .ok s1
      | .ok (false, index, s1) =>
        match queue_index bad vertex_base vertex_count index s1 with
        | .error e => .error e
        | .ok s2 => lift_indices bad src texture_count vertex_base vertex_count rest s2

/-- The body of the loop of `lift_moby_mesh` over the submeshes (lines
912-989), for submesh `i`. -/
def lift_moby_submesh (o_class texture_count : Int) (i : Nat) (src : MobySubMesh)
    (st : LiftState) : Except String LiftState :=
  match lift_vertices src.sts st.vertices.length src.vertices st with
  | .error e => .error e
  | .ok st1 =>
    match lift_duplicates (submesh_error o_class i "vertex table") src.sts st.vertices.length
        src.duplicate_vertices st1 with
    | .error e => .error e
    | .ok st2 =>
      match lift_indices (submesh_error o_class i "index buffer") src texture_count
          st.vertices.length st2.vertices.length src.indices
          ⟨[0, 0, 0], 0, 0, true, 0, st2.dest, st2.submeshes⟩ with
      | .error e => .error e
      | .ok s => .ok { st2 with dest := s.dest, submeshes := s.submeshes }

/-- The loop of `lift_moby_mesh` over the submeshes, from submesh `i` on. -/
def lift_moby_submesh_list (o_class texture_count : Int) :
    Nat → List MobySubMesh → LiftState → Except String LiftState
  | _, [], st => .ok st
  | i, src :: rest, st =>
    match lift_moby_submesh o_class texture_count i src st with
    | .error e => .error e
    | .ok st1 => lift_moby_submesh_list o_class texture_count (i + 1) rest st1

/-- The function `lift_moby_mesh` (lines 904-995), up to the call of
`deduplicate_vertices` (core/mesh.h, not among the sources): the result is the
mesh handed to it. -/
def lift_moby_mesh (submeshes : List MobySubMesh) (name : String) (o_class texture_count : Int) :
    Except String LiftedMesh :=
  match lift_moby_submesh_list o_class texture_count 0 submeshes
      ⟨[], [], List.replicate 512 none, ⟨0, []⟩⟩ with
  | .error e => .error e
  | .ok st =>
    .ok ⟨name, st.vertices,
      if 0 < st.dest.faces.length then st.submeshes ++ [st.dest] else st.submeshes⟩

/-- The index byte 0x80 is reached by the loop over the index bytes: it occurs
at a position with no byte 0 before it. -/
def index_0x80_reached (indices : List Nat) : Prop :=
  ∃ k, k < indices.length ∧ indices.getD k 0 % 256 = 0x80 ∧
    ∀ j, j < k → indices.getD j 0 % 256 ≠ 0

/-- A submesh of three vertices and one triangle whose index bytes are
1, 2, 3, 0x80. -/
def bad_index_submesh : MobySubMesh :=
  { example_submesh (List.replicate 3 MobyVertex.zero) with
    sts := List.replicate 3 ⟨0, 0⟩, indices := [1, 2, 3, 0x80] }

/-- A submesh of three vertices and one triangle whose index bytes are
1, 2, 3. -/
def good_index_submesh : MobySubMesh :=
  { example_submesh (List.replicate 3 MobyVertex.zero) with
    sts := List.replicate 3 ⟨0, 0⟩, indices := [1, 2, 3] }

/-- A model with one sequence that has 256 triggers and no frames. -/
def many_triggers_model : MobyClassData :=
  { MobyClassData.empty with
    sequences := [some ⟨[], [], List.replicate 256 0, none, 0, 0⟩] }

/-- A model with 255 joints and one empty sequence slot. -/
def many_joints_model : MobyClassData :=
  { MobyClassData.empty with sequences := [none], skeleton := List.replicate 255 [] }

/-- The index unpack packet `write_shared_moby_vif_packets` builds (lines
783-806). -/
def index_unpack_packet (submesh : MobySubMeshBase) : VifPacket :=
  { interrupt := 0, cmd := 0b1100000, num := (4 + submesh.indices.length) / 4,
    vnvl := VifVnVl.V4_8, addr := 0x12d,
    data := [submesh.index_header_first_byte % 256,
      if 0 < submesh.textures.length then ((4 + submesh.indices.length) / 4) % 256 else 0,
      submesh.secret_indices.getD 0 0 % 256, 0] ++ submesh.indices.map (fun b => b % 256) }

/-- The texture unpack packet `write_shared_moby_vif_packets` builds (lines
814-839). -/
def texture_unpack_packet (submesh : MobySubMeshBase) : VifPacket :=
  { interrupt := 0, cmd := 0b1100000, num := submesh.textures.length * 4,
    vnvl := VifVnVl.V4_32, addr := 0x12d + (4 + submesh.indices.length) / 4,
    data := patch_secret_indices
      (submesh.textures.map MobyTexturePrimitive.bytes).flatten submesh.secret_indices }

/-- The twelve texture index slots of the GIF usage entry of a submesh (lines
845-852): its texture indices in order, each cut to a byte, then 0xff. -/
def gif_texture_indices (submesh : MobySubMeshBase) : List Nat :=
  submesh.textures.map (fun prim => to_unsigned 8 prim.d3_tex0_data_lo) ++
    List.replicate (12 - submesh.textures.length) 0xff

/-- The ordinary submeshes of a model in the order `write_moby_class` writes
them: high-detail, low-detail, bangles. -/
def ordinary_submeshes (moby : MobyClassData) : List MobySubMesh :=
  moby.submeshes ++ moby.low_detail_submeshes ++
    (match moby.bangles with
     | some b => b.submeshes
     | none => [])

/-- The offset field (32 bits at 0xc) of entry `i` of a GIF usage table. -/
def gif_offset_field (table : List Nat) (i : Nat) : Nat :=
  le_value (slice table (0x10 * i + 0xc) 4)

/-- A model with one empty sequence slot, a textured high-detail submesh, a
textured low-detail submesh and a metal submesh. -/
def textured_model : MobyClassData :=
  { MobyClassData.empty with
    sequences := [none], submeshes := [example_submesh []],
    low_detail_submeshes := [example_submesh []], metal_submeshes := [example_metal_submesh] }

/-! ### WAD archives (wad_file.cpp) -/

/-- The lump handlers of wad_file.cpp (the `Lump` argument of `lf`). -/
inductive LumpKind where
  | BinaryLump | GameplayLump | GameplayMissionInstancesLump | ArtInstancesLump
deriving DecidableEq, Repr

/-- Modelled from the spec: `WadLumpDescription` of wad_file.h (not among the
sources), as the table of lines 95-107 fills it: the offset of the lump table
in the header, the number of lumps, the handler and the name. -/
structure WadLumpDescription where
  offset : Nat
  count : Nat
  funcs : LumpKind
  name : String
deriving DecidableEq, Repr

/-- Modelled from the spec: `WadFileDescription` of wad_file.h (not among the
sources): a name, the size of the header and the lumps (the constructor
function of the archive type is left out). -/
structure WadFileDescription where
  name : String
  header_size : Nat
  fields : List WadLumpDescription
deriving DecidableEq, Repr

/-- The table `wad_files` (lines 95-107). -/
def wad_files : List WadFileDescription :=
  [⟨"level", 0xc68,
    [⟨0x018, 1, LumpKind.BinaryLump, "data"⟩,
     ⟨0x020, 1, LumpKind.BinaryLump, "core_bank"⟩,
     ⟨0x028, 3, LumpKind.BinaryLump, "chunk"⟩,
     ⟨0x040, 3, LumpKind.BinaryLump, "chunkbank"⟩,
     ⟨0x058, 1, LumpKind.GameplayLump, "gameplay_core"⟩,
     ⟨0x060, 128, LumpKind.GameplayMissionInstancesLump, "gameplay_mission_instances"⟩,
     ⟨0x460, 128, LumpKind.BinaryLump, "gameplay_mission_data"⟩,
     ⟨0x860, 128, LumpKind.BinaryLump, "mission_banks"⟩,
     ⟨0xc60, 1, LumpKind.ArtInstancesLump, "art_instances"⟩]⟩]

/-- The loop of `match_wad` (lines 122-126) over a table of descriptors. -/
def match_wad_loop (header_size : Nat) : List WadFileDescription → Except String WadFileDescription
  | [] => .error "Unable to identify WAD file."
  | desc :: rest => if desc.header_size = header_size then .ok desc
                    else match_wad_loop header_size rest

/-- The function `match_wad` (lines 121-128); the file argument is not used. -/
def match_wad (header : List Nat) : Except String WadFileDescription :=
  match_wad_loop header.length wad_files

/-! ### Reading an archive (main.cpp, wad_file.cpp) -/

/-- Modelled from the spec: `SECTOR_SIZE` (its definition is not among the
sources), the 0x800 bytes of a sector. -/
def SECTOR_SIZE : Nat := 0x800

/-- Modelled from the spec: `Sector32` (not among the sources), a signed 32 bit
count of sectors. -/
structure Sector32 where
  sectors : Int
deriving DecidableEq, Repr

/-- Modelled from the spec: `Sector32::bytes()`, the count of sectors in
bytes. -/
def Sector32.bytes (s : Sector32) : Int := s.sectors * SECTOR_SIZE

/-- Modelled from the spec: `SectorRange` (not among the sources), the pair of
an offset and a size in sectors, 8 bytes. -/
structure SectorRange where
  offset : Sector32
  size : Sector32
deriving DecidableEq, Repr

/-- The range stored in 8 bytes of a header. -/
def SectorRange.parse (b : List Nat) : SectorRange := ⟨⟨field_s b 0 4⟩, ⟨field_s b 4 4⟩⟩

/-- The function `read_header` (wad_file.cpp lines 109-119, main.cpp lines
142-152) on a file given as its bytes: the first four bytes are the size of
the header, and that many bytes are read from the start of the file.  The
`fread` of one item fails when the item is empty or the file too short. -/
def read_header (file : List Nat) : Except String (List Nat) :=
  if file.length < 4 then .error "Failed to read header."
  else if ¬ field_s file 0 4 < 0x10000 then .error "Invalid header."
  else if field_s file 0 4 < 0 then .error "std::length_error"
  else if field_s file 0 4 = 0 ∨ (file.length : Int) < field_s file 0 4 then
    .error "Failed to read header."
  else .ok (file.take (field_s file 0 4).toNat)

/-- The function `read_lump` (wad_file.cpp lines 130-137, main.cpp lines
163-170): a vector of `size.bytes()` bytes is filled from the file position
`offset.bytes()`.  A negative size cannot be allocated, a negative position
makes `fseek` fail, and the `fread` of one item fails when the item is empty
or the file too short. -/
def read_lump (file : List Nat) (offset size : Sector32) : Except String (List Nat) :=
  if size.bytes < 0 then .error "std::length_error"
  else if offset.bytes < 0 then .error "Failed to read lump."
  else if size.bytes = 0 ∨ (file.length : Int) < offset.bytes + size.bytes then
    .error "Failed to read lump."
  else .ok ((file.drop offset.bytes.toNat).take size.bytes.toNat)

/-- The read handler of a lump (`lump_desc.types.read` on line 60 of main.cpp)
as a parameter of the model: it updates the archive `W` from the bytes of the
lump.  An error stands for a failed `verify` inside the handler and for the
result `false`, which line 60 reports as "Failed to convert lump.". -/
abbrev LumpReader (W : Type) := WadLumpDescription → W → List Nat → Except String W

/-- The inner loop of `run_extractor` (main.cpp lines 56-62) from the value `i`
of the loop counter, with `remaining = lump_desc.count - i` iterations to go. -/
def run_extractor_slots {W : Type} (read : LumpReader W) (file header : List Nat)
    (lump_desc : WadLumpDescription) : Nat → Nat → W → Except String W
  | 0, _, wad => .ok wad
  | remaining + 1, i, wad =>
    match read_bytes header ((lump_desc.offset : Int) + (i : Int) * 8) 8 "WAD header" with
    | .error e => .error e
    | .ok b =>
      if (SectorRange.parse b).size.sectors ≠ 0 then
        match read_lump file (SectorRange.parse b).offset (SectorRange.parse b).size with
        | .error e => .error e
        | .ok src =>
          match read lump_desc wad src with
          | .error e => .error e
          | .ok wad1 => run_extractor_slots read file header lump_desc remaining (i + 1) wad1
      else run_extractor_slots read file header lump_desc remaining (i + 1) wad

/-- The outer loop of `run_extractor` (main.cpp lines 55-63) over the lump
descriptors of the archive kind. -/
def run_extractor_lumps {W : Type} (read : LumpReader W) (file header : List Nat) :
    List WadLumpDescription → W → Except String W
  | [], wad => .ok wad
  | lump_desc :: rest, wad =>
    match run_extractor_slots read file header lump_desc lump_desc.count 0 wad with
    | .error e => .error e
    | .ok wad1 => run_extractor_lumps read file header rest wad1

/-- Lines 51-63 of `run_extractor` (main.cpp): the header is read, the kind of
the archive is matched, and every lump is handed to its read handler; `create`
is the empty archive `file_desc.create()` returns. -/
def run_extractor {W : Type} (read : LumpReader W) (create : W) (file : List Nat) :
    Except String W := do
  let header ← read_header file
  let file_desc ← match_wad header
  run_extractor_lumps read file header file_desc.fields create

/-- The slots of an archive in the order of the specification: the descriptors
in table order, and for each descriptor the indices below its count in
increasing order. -/
def lump_slots (fields : List WadLumpDescription) : List (WadLumpDescription × Nat) :=
  fields.flatMap (fun desc => (List.range desc.count).map (fun i => (desc, i)))

/-- What the specification has the reader do for one slot: the sector pair at
header byte offset `desc.offset + 8 * i` is read; an empty range (size 0) is
skipped, whatever its offset; otherwise the sector range is read from the file
and the read handler of the lump is invoked on it. -/
def visit_slot {W : Type} (read : LumpReader W) (file header : List Nat) (wad : W)
    (slot : WadLumpDescription × Nat) : Except String W := do
  let pair ← read_bytes header ((slot.1.offset + 8 * slot.2 : Nat) : Int) 8 "WAD header"
  if (SectorRange.parse pair).size.sectors = 0 then pure wad
  else do
    let src ← read_lump file (SectorRange.parse pair).offset (SectorRange.parse pair).size
    read slot.1 wad src

/-! ### Lump handlers (wad_file.cpp) -/

/-- Modelled from the spec: `BinaryAsset` of wad_file.h (not among the
sources), with the two members lines 22-26 of wad_file.cpp assign. -/
structure BinaryAsset where
  is_array : Bool
  buffers : List (List Nat)
deriving DecidableEq, Repr

/-- The map `std::map<std::string, BinaryAsset>` of an archive. -/
abbrev BinaryAssets := String → Option BinaryAsset

/-- The function `BinaryLump::read` (wad_file.cpp lines 22-26): the asset of
the name of the lump is created when absent, and the bytes of the lump are
appended to its buffers. -/
def BinaryLump.read (desc : WadLumpDescription) (dest : BinaryAssets) (src : List Nat) :
    BinaryAssets :=
  fun name =>
    if name = desc.name then
      some ⟨decide (desc.count ≠ 1), ((dest desc.name).getD ⟨false, []⟩).buffers ++ [src]⟩
    else dest name

/-- The function `BinaryLump::write` (wad_file.cpp lines 28-30): the body is
empty, `dest` is left as it was. -/
def BinaryLump.write (_desc : WadLumpDescription) (_index : Int) (dest : List Nat)
    (_src : BinaryAssets) : List Nat :=
  dest

/-- The lump descriptor of the "data" lump of a level archive (line 97). -/
def data_lump : WadLumpDescription := ⟨0x018, 1, LumpKind.BinaryLump, "data"⟩

/-! ### Writing an archive (stream.cpp, level_scene_wad.cpp) -/

/-- The state of a `MemoryOutputStream` (stream.cpp lines 85-104): the backing
bytes and the write position. -/
structure OutputStream where
  backing : List Nat
  ofs : Nat
deriving DecidableEq, Repr

/-- The function `MemoryOutputStream::tell` (stream.cpp lines 91-93). -/
def OutputStream.tell (s : OutputStream) : Nat := s.ofs

/-- The function `MemoryOutputStream::seek` (stream.cpp lines 86-89). -/
def OutputStream.seek (s : OutputStream) (offset : Nat) : OutputStream := { s with ofs := offset }

/-- The function `MemoryOutputStream::write_n` (stream.cpp lines 96-103): the
backing store grows when the write ends past it, the bytes are copied to the
write position and the position moves past them. -/
def OutputStream.write_n (s : OutputStream) (src : List Nat) : OutputStream :=
  let backing1 := if s.ofs + src.length > s.backing.length then
      s.backing ++ List.replicate (s.ofs + src.length - s.backing.length) 0
    else s.backing
  { backing := backing1.take s.ofs ++ src.map (fun b => b % 256) ++
      backing1.drop (s.ofs + src.length)
    ofs := s.ofs + src.length }

/-- The loop of `OutputStream::pad` (stream.cpp lines 23-25): `count` bytes of
padding are written. -/
def OutputStream.pad_loop (padding : Nat) : Nat → OutputStream → OutputStream
  | 0, s => s
  | count + 1, s => OutputStream.pad_loop padding count (s.write_n [padding])

/-- The function `OutputStream::pad` (stream.cpp lines 20-27). -/
def OutputStream.pad (s : OutputStream) (alignment padding : Nat) : OutputStream :=
  if s.tell % alignment ≠ 0 then
    OutputStream.pad_loop padding (alignment - s.tell % alignment) s
  else s

/-- The size of `SceneHeaderDL` (level_scene_wad.cpp lines 30-44): the fields
up to 0x38 and 69 sector numbers. -/
def sizeof_SceneHeaderDL : Nat := 0x38 + 69 * 4

/-- The size of `LevelSceneWadHeaderDL` (level_scene_wad.cpp lines 46-50): two
32 bit fields and 30 scene headers. -/
def sizeof_LevelSceneWadHeaderDL : Nat := 8 + 30 * sizeof_SceneHeaderDL

/-- The bytes of the header `pack_level_scene_wad` writes (lines 55-56): all
zero but for `header_size`. -/
def level_scene_wad_header : List Nat :=
  le_bytes 4 sizeof_LevelSceneWadHeaderDL ++ List.replicate (sizeof_LevelSceneWadHeaderDL - 4) 0

/-- Lines 53-58 of `pack_level_scene_wad`: the header is written at the write
position and the stream is padded to the size of a sector; this is the state
in which the lumps are placed (line 60). -/
def pack_level_scene_wad_header (dest : OutputStream) : OutputStream :=
  (dest.write_n level_scene_wad_header).pad SECTOR_SIZE 0

/-- Modelled from the spec: `OutputStream::write(offset, value)` of stream.h
(not among the sources), a patch: the bytes are written at `offset` and the
write position is put back where it was. -/
def OutputStream.write_to (s : OutputStream) (offset : Nat) (src : List Nat) : OutputStream :=
  ((s.seek offset).write_n src).seek s.tell

/-- The function `pack_level_scene_wad` (level_scene_wad.cpp lines 52-66); the
source places no lump between the padding and the final write of the header.
The result is the stream and the header copied to `header_dest`. -/
def pack_level_scene_wad (dest : OutputStream) (header_dest : Option (List Nat)) :
    OutputStream × Option (List Nat) :=
  ((pack_level_scene_wad_header dest).write_to dest.tell level_scene_wad_header,
    header_dest.map (fun h => write_at h 0 level_scene_wad_header))

/-! ### The file-scope variables of moby.cpp -/

/-- The two file-scope variables of moby.cpp: `mystery_data_ofs` (line 40) and
`class_header_ofs` (line 130).  They keep their values between calls. -/
structure FileScope where
  mystery_data_ofs : Int
  class_header_ofs : Int
deriving DecidableEq, Repr

/-- The function `read_moby_class` (lines 42-128) with the file-scope
variables as explicit state: `g` is their value when the call starts, and the
result carries their value when the call returns.  Line 58 assigns
`mystery_data_ofs`; `read_moby_sequences` (line 330), lines 102, 121 and 123
read and raise it, and line 126 reads it. -/
def read_moby_class_in (g : FileScope) (env : Env) (src : List Nat) (game : Game) :
    Except String (MobyClassData × FileScope) := do
  let hb ← read_bytes src 0 0x48 "moby class header"
  let header := MobyClassHeader.parse hb
  let byte_4 ← read_uint src 4 4 "moby class header"
  let mystery0 ← read_sint src 4 0x48 "moby sequences"
  let g1 : FileScope := { g with mystery_data_ofs := mystery0 }
  let seq_offsets ← read_multiple src 4 0x48 header.sequence_count "sequence offsets"
  let bangles ← read_class_bangles src header
  let corncob ← read_class_corncob src game header
  let sequences ← read_moby_sequences env src header.sequence_count g1.mystery_data_ofs
  let g2 : FileScope := { g1 with mystery_data_ofs := sequences.2 }
  if ¬ 1 ≤ header.sequence_count then .error "Moby class has no sequences."
  else do
    let collision ← read_class_collision src header
    let g3 : FileScope :=
      { g2 with mystery_data_ofs := mystery_after_collision header collision g2.mystery_data_ofs }
    let skeleton ← read_multiple src 0x40 header.skeleton header.joint_count "skeleton"
    let common_trans ← read_bytes src header.common_trans ((header.joint_count : Int) * 0x10)
      "moby common trans"
    let joints ← read_moby_joints src header.joints
    let sound_defs ← read_multiple src env.sizeof_MobySoundDef header.sound_defs
      header.sound_count "moby sound defs"
    let tables ← read_class_submeshes env src header (read_format game header.rac12_byte_b).1
      bangles g3.mystery_data_ofs
    let g4 : FileScope := { g3 with mystery_data_ofs := tables.mystery_data_ofs }
    let mystery_data ← read_bytes src g4.mystery_data_ofs
      (header.skeleton - g4.mystery_data_ofs) "moby mystery data"
    pure
      ({ byte_4 := byte_4, unknown_9 := header.unknown_9, rac1_byte_a := header.rac1_byte_a,
         rac1_byte_b := header.rac12_byte_b, lod_trans := header.lod_trans,
         shadow := header.shadow, scale := header.scale, mip_dist := header.mip_dist,
         bounding_sphere := header.bounding_sphere, glow_rgba := header.glow_rgba,
         mode_bits := header.mode_bits, type := header.type, mode_bits2 := header.mode_bits2,
         force_rac1_format := (read_format game header.rac12_byte_b).2,
         header_end_offset := read_header_end_offset game header seq_offsets,
         bangles := tables.bangles,
         rac1_short_2e := if game = Game.RAC1 then header.corncob else 0,
         corncob := corncob, sequences := sequences.1, collision := collision,
         skeleton := skeleton, common_trans := common_trans, joints := joints,
         sound_defs := sound_defs, has_submesh_table := tables.has_submesh_table,
         submesh_table_offset := tables.submesh_table_offset, submeshes := tables.submeshes,
         low_detail_submeshes := tables.low_detail_submeshes,
         metal_submeshes := tables.metal_submeshes, mystery_data := mystery_data }, g4)

/-- Lines 134-205 of `write_moby_class` for a value `class_header_ofs` of the
file-scope variable of that name, which line 180, line 196 and
`write_moby_sequences` read (see `write_class_front`). -/
def write_class_front_at (class_header_ofs : Nat) (env : Env) (dest : List Nat)
    (moby : MobyClassData) (game : Game) : ClassFront :=
  let format := write_format game moby.force_rac1_format
  let dest1 := dest ++ List.replicate 0x48 0
  let dest2 := dest1 ++ List.replicate (4 * moby.sequences.length) 0
  let dest3 := zero_fill_to dest2 ((class_header_ofs : Int) + moby.header_end_offset)
  let dest4a := match moby.bangles with
    | some _ => pad dest3 0x10
    | none => dest3
  let dest4 := match moby.bangles with
    | some b => (write_moby_bangles dest4a b).1
    | none => dest4a
  let use_corncob := game ≠ Game.RAC1 ∧ moby.corncob.isSome
  let dest5a := if use_corncob then pad dest4 0x10 else dest4
  let dest5 := match moby.corncob with
    | some c => if use_corncob then (write_moby_corncob dest5a c).1 else dest5a
    | none => dest5a
  let dest6 := pad dest5 0x10
  let dest7 := write_moby_sequences env class_header_ofs format moby.sequences dest6 dest1.length
  let dest8 := zero_fill_to (pad dest7 0x10) ((class_header_ofs : Int) + moby.submesh_table_offset)
  let dest9 := dest8 ++ List.replicate (0x10 * moby.submeshes.length) 0
  let dest10 := dest9 ++ List.replicate (0x10 * moby.low_detail_submeshes.length) 0
  let dest11 := dest10 ++ List.replicate (0x10 * moby.metal_submeshes.length) 0
  let dest12 := match moby.bangles with
    | some b => dest11 ++ List.replicate (0x10 * b.submeshes.length) 0
    | none => dest11
  { dest := dest12
    sequence_list_ofs := dest1.length
    sequence_list_end := dest2.length
    header_padding_end := dest3.length
    bangles_ofs := dest4a.length
    bangles_end := dest4.length
    corncob_ofs := dest5a.length
    corncob_end := dest5.length
    sequences_ofs := dest6.length
    sequences_end := dest7.length
    submesh_table_1_ofs := dest8.length
    submesh_table_2_ofs := dest9.length
    metal_submesh_table_ofs := dest10.length
    bangles_submesh_table_ofs := dest11.length }

/-- The function `write_moby_class` (lines 132-239) with the file-scope
variables as explicit state: `g` is their value when the call starts, and the
result carries their value when the call returns.  Line 134 assigns
`class_header_ofs` the position of the header; every later statement and every
function called (the writers of the sequences, the joints, the submeshes and
the VIF packets) reads the variable from the state `g1` after that
assignment. -/
def write_moby_class_in (g : FileScope) (env : Env) (dest : List Nat) (moby : MobyClassData)
    (game : Game) : Except String (List Nat × FileScope) :=
  let g1 : FileScope := { g with class_header_ofs := (dest.length : Int) }
  if g1.class_header_ofs % 0x40 ≠ 0 then .error "assert(class_header_ofs % 0x40 == 0)"
  else
    match check_class_counts moby with
    | .error e => .error e
    | .ok _ =>
      let p := write_class_front_at g1.class_header_ofs.toNat env dest moby game
      let m := write_class_middle env g1.class_header_ofs.toNat p.dest moby
      match write_class_payloads env g1.class_header_ofs.toNat
          (write_format game moby.force_rac1_format) p m.dest moby with
      | .error e => .error e
      | .ok q =>
        let header := class_header moby game g1.class_header_ofs.toNat p m q
        let dest1 := q.dest ++ gif_usage_bytes q.gif_usage
        .ok (write_at (write_at dest1 g1.class_header_ofs.toNat header.bytes)
          (g1.class_header_ofs.toNat + 4) (le_bytes 4 moby.byte_4), g1)

/-! ### Inputs and notions for the header counts and `header_end_offset` -/

/-- The model `textured_model` (one high-detail, one low-detail and one metal
submesh) with a submesh table and `byte_4` zero. -/
def counted_model : MobyClassData := { textured_model with has_submesh_table := true }

/-- The model `counted_model` with `byte_4` holding the bytes 1, 1, 1, 2: the
three submesh counts of the model and the sum of the first two. -/
def matching_counts_model : MobyClassData := { counted_model with byte_4 := 0x02010101 }

/-- The four count bytes of a header as `write_moby_class` assembles it for a
model (lines 154-159). -/
def submesh_count_bytes (moby : MobyClassData) : List Nat :=
  [moby.submeshes.length, moby.low_detail_submeshes.length, moby.metal_submeshes.length,
   moby.submeshes.length + moby.low_detail_submeshes.length]

/-- The header of the class stored at `ofs` of a buffer. -/
def stored_header (b : List Nat) (ofs : Nat) : MobyClassHeader :=
  MobyClassHeader.parse (slice b ofs 0x48)

/-- The entries of the sequence offset table of a class, as signed 32 bit
values. -/
def sequence_offsets (src : List Nat) : List Int :=
  (List.range (stored_header src 0).sequence_count).map (fun i => field_s src (0x48 + 4 * i) 4)

/-- The offsets `read_moby_class` takes `header_end_offset` from: the first
non-zero entry of the sequence offset table, or 0x48 when every entry is zero;
the offset of the bangles block when the header has one; and, for a game other
than RAC1, the offset of the corncob block when the header has one. -/
def header_end_candidates (game : Game) (src : List Nat) : List Int :=
  [((sequence_offsets src).find? (fun o => o ≠ 0)).getD 0x48] ++
  (if (stored_header src 0).bangles ≠ 0 then [((stored_header src 0).bangles : Int) * 0x10]
   else []) ++
  (if game ≠ Game.RAC1 ∧ (stored_header src 0).corncob ≠ 0 then
    [(stored_header src 0).corncob * 0x10] else [])

/-- A class of 0x90 bytes: a header with one sequence, bangles at 0x50 and all
other offsets zero; a sequence offset table with the single entry 0; and a
bangles block whose first bangle has `submesh_begin` 1. -/
def bangles_only_buffer : List Nat :=
  List.replicate 0xc 0 ++ [1] ++ List.replicate 0x1f 0 ++ [5] ++ List.replicate 0x23 0 ++
  [1] ++ List.replicate 0x3f 0

/-- A class of 0x80 bytes: a header with two sequences and the skeleton at
0x60; a sequence offset table with the entries 0x60 and 0x50; all other bytes
zero, so both sequences are empty. -/
def unordered_sequences_buffer : List Nat :=
  List.replicate 0xc 0 ++ [2] ++ List.replicate 7 0 ++ [0x60, 0, 0, 0] ++ List.replicate 0x30 0 ++
  [0x60, 0, 0, 0, 0x50, 0, 0, 0] ++ List.replicate 0x30 0

/-! ### Inputs and notions for the consistency checks of a submesh -/

/-- The three checks of `read_moby_submeshes` that end in `continue` (lines
512-526), for a table entry and the vertex table header it points to: the
vertex table offset, field 0xd and field 0xe. -/
def entry_inconsistent (entry : MobySubMeshEntry) (vertex_header : MobyVertexTableHeaderRac1) :
    Prop :=
  vertex_header.vertex_table_offset / 0x10 > entry.vertex_data_size ∨
  entry.unknown_d ≠ (0xf + entry.transfer_vertex_count * 6) / 0x10 ∨
  entry.unknown_e ≠ (3 + entry.transfer_vertex_count) / 4

/-- A submesh table of two entries in the compact format that share one vertex
table (the one of `lookback_short_table`); field 0xd of the first entry is 9
instead of 1. -/
def skipped_entry_table : List Nat :=
  (MobySubMeshEntry.bytes { MobySubMeshEntry.zero with
    vertex_offset := 0x20, vertex_data_size := 4, unknown_d := 9, unknown_e := 1,
    transfer_vertex_count := 1 }) ++
  (MobySubMeshEntry.bytes { MobySubMeshEntry.zero with
    vertex_offset := 0x20, vertex_data_size := 4, unknown_d := 1, unknown_e := 1,
    transfer_vertex_count := 1 }) ++
  MobyVertexTableHeaderRac1.bytes 2 ⟨0, 0, 0, 1, 0, 1, 0x10, 0⟩ ++
  (MobyVertex.mk 0x203 []).bytes ++ (MobyVertex.mk 0 []).bytes ++
  (MobyVertex.mk 0 [0, 0, 0, 0, 5, 0]).bytes ++ (MobyVertex.mk 0 []).bytes ++
  (MobyVertex.mk 0 []).bytes ++ (MobyVertex.mk 0 []).bytes ++
  (MobyVertex.mk 0 [0, 0, 0, 0, 9, 0]).bytes

/-! ### The padding vertices with every access checked -/

/-- A read `v[i]` of a vector: out of bounds it is undefined behaviour, which
is reported as an error. -/
def checked_get (v : List Nat) (i : Nat) : Except String Nat :=
  match v[i]? with
  | some x => .ok x
  | none => .error "read out of bounds"

/-- A write `v[i] = x` to a vector or an array: out of bounds it is undefined
behaviour, which is reported as an error. -/
def checked_set (v : List Nat) (i x : Nat) : Except String (List Nat) :=
  if i < v.length then .ok (v.set i x) else .error "write out of bounds"

/-- Lines 657-664 (see `push_trailing`) with the read of
`trailing_vertex_indices[trailing]` checked. -/
def push_trailing_checked (n : Nat) (tvi : List Nat) :
    Nat → List MobyVertex → Nat → Except String (List MobyVertex × Nat)
  | 0, vertices, trailing => .ok (vertices, trailing)
  | fuel + 1, vertices, trailing =>
    if vertices.length % 4 ≠ 2 ∧ trailing < tvi.length then
      if 7 ≤ n + trailing then
        match checked_get tvi trailing with
        | .error e => .error e
        | .ok index =>
          push_trailing_checked n tvi fuel
            (vertices ++ [{ MobyVertex.zero with low_word := index }]) (trailing + 1)
      else
        push_trailing_checked n tvi fuel (vertices ++ [{ MobyVertex.zero with low_word := 0 }])
          (trailing + 1)
    else .ok (vertices, trailing)

/-- Lines 670-674 with the read of `trailing_vertex_indices[i]` and the write
of `last_vertex.trailing_vertex_indices[i - trailing - 1]` checked, for the
values `i` of the loop counter in order. -/
def fill_last_vertex_checked (n trailing : Nat) (tvi : List Nat) :
    List Nat → List Nat → Except String (List Nat)
  | [], slots => .ok slots
  | i :: rest, slots =>
    if 7 ≤ n + i then
      match checked_get tvi i with
      | .error e => .error e
      | .ok index =>
        match checked_set slots (i - trailing - 1) index with
        | .error e => .error e
        | .ok slots1 => fill_last_vertex_checked n trailing tvi rest slots1
    else fill_last_vertex_checked n trailing tvi rest slots

/-- Lines 666-674 (see `last_padding_vertex`) with the reads of
`trailing_vertex_indices` and the writes to the six slots of the last vertex
checked. -/
def last_padding_vertex_checked (n trailing : Nat) (tvi : List Nat) : Except String MobyVertex :=
  match (if 7 ≤ n + trailing then checked_get tvi trailing else .ok 0) with
  | .error e => .error e
  | .ok low =>
    match fill_last_vertex_checked n trailing tvi
        (List.range' (trailing + 1) (tvi.length - (trailing + 1))) (List.replicate 6 0) with
    | .error e => .error e
    | .ok slots => .ok ⟨low, slots⟩

/-- Lines 609-620 and 657-675 (see `encode_vertices`) with every read of
`trailing_vertex_indices` and every write to the slots of the last vertex
checked. -/
def encode_vertices_checked (orig : List MobyVertex) : Except String (List MobyVertex) :=
  match push_trailing_checked orig.length (adjust_vertex_indices orig).2
      ((adjust_vertex_indices orig).2.length + 1) (adjust_vertex_indices orig).1 0 with
  | .error e => .error e
  | .ok (padded, trailing) =>
    if trailing < (adjust_vertex_indices orig).2.length then
      match last_padding_vertex_checked orig.length trailing (adjust_vertex_indices orig).2 with
      | .error e => .error e
      | .ok last_vertex => .ok (padded ++ [last_vertex])
    else .error "assert(trailing < trailing_vertex_indices.size())"

/-! ### Inputs and notions for the entry and header of a written submesh -/

/-- A table entry as it is read back from the 0x10 bytes it is stored in, every
field cut to its width. -/
def stored_entry (entry : MobySubMeshEntry) : MobySubMeshEntry :=
  MobySubMeshEntry.parse entry.bytes

/-- The vertex table header stored at `ofs` of a buffer, in the layout of the
format (lines 497-511). -/
def stored_vertex_header (format : MobyFormat) (b : List Nat) (ofs : Nat) :
    MobyVertexTableHeaderRac1 :=
  if format = MobyFormat.RAC1 then MobyVertexTableHeaderRac1.parse 4 (slice b ofs 0x20)
  else MobyVertexTableHeaderRac1.parse 2 (slice b ofs 0x10)

/-- Line 537 of `read_moby_submeshes`: `in_file_vertex_count`, an `s32`. -/
def in_file_vertex_count (vertex_header : MobyVertexTableHeaderRac1) : Int :=
  wrap_s32 ((vertex_header.vertex_count_2 + vertex_header.vertex_count_4 +
    vertex_header.main_vertex_count : Nat) : Int)

/-- A submesh without vertices whose `vertex_count_2` is 1. -/
def miscounted_submesh : MobySubMesh := { example_submesh [] with vertex_count_2 := 1 }

/-! ### The black hole stream (stream.cpp) -/

/-- The state of a `BlackHoleOutputStream` (stream.cpp lines 31-50): the write
position and the highest position reached; positions are offsets from the
start of the stream. -/
structure BlackHoleOutputStream where
  ofs : Nat
  top : Nat
deriving DecidableEq, Repr

/-- The function `BlackHoleOutputStream::tell` (stream.cpp lines 38-40). -/
def BlackHoleOutputStream.tell (s : BlackHoleOutputStream) : Nat := s.ofs

/-- The function `BlackHoleOutputStream::write_n` (stream.cpp lines 46-50):
the bytes are dropped, the position moves past them. -/
def BlackHoleOutputStream.write_n (s : BlackHoleOutputStream) (src : List Nat) :
    BlackHoleOutputStream :=
  { ofs := s.ofs + src.length, top := max s.top (s.ofs + src.length) }

/-- The loop of `OutputStream::pad` (stream.cpp lines 23-25) on a black hole
stream. -/
def BlackHoleOutputStream.pad_loop (padding : Nat) :
    Nat → BlackHoleOutputStream → BlackHoleOutputStream
  | 0, s => s
  | count + 1, s => BlackHoleOutputStream.pad_loop padding count (s.write_n [padding])

/-- The function `OutputStream::pad` (stream.cpp lines 20-27) on a black hole
stream. -/
def BlackHoleOutputStream.pad (s : BlackHoleOutputStream) (alignment padding : Nat) :
    BlackHoleOutputStream :=
  if s.tell % alignment ≠ 0 then
    BlackHoleOutputStream.pad_loop padding (alignment - s.tell % alignment) s
  else s

/-! ### The duplicate vertices of a vertex table (moby.cpp) -/

/-- Lines 529-534 of `read_moby_submeshes`: the two adjustments of `array_ofs`
between the unknowns and the duplicate vertices. -/
def duplicate_table_offset (array_ofs : Nat) : Nat :=
  let array_ofs1 := if array_ofs % 4 ≠ 0 then array_ofs + 2 else array_ofs
  if array_ofs1 % 8 ≠ 0 then array_ofs1 + 4 else array_ofs1

/-! ### The scalar fields of a class (moby.cpp) -/

/-- The scalar fields of the model hold values of their C++ types: `u8` for
`unknown_9`, `rac1_byte_a`, `rac1_byte_b`, `lod_trans`, `shadow`, `mip_dist`,
`type` and `mode_bits2`, `u32` for `scale`, `s32` for `glow_rgba`, and `s16`
for `mode_bits` and `rac1_short_2e`. -/
def scalar_fields_fit (moby : MobyClassData) : Prop :=
  moby.unknown_9 < 256 ∧ moby.rac1_byte_a < 256 ∧ moby.rac1_byte_b < 256 ∧
  moby.lod_trans < 256 ∧ moby.shadow < 256 ∧ moby.scale < 2 ^ 32 ∧ moby.mip_dist < 256 ∧
  (-(2 ^ 31) ≤ moby.glow_rgba ∧ moby.glow_rgba < 2 ^ 31) ∧
  (-(2 ^ 15) ≤ moby.mode_bits ∧ moby.mode_bits < 2 ^ 15) ∧
  moby.type < 256 ∧ moby.mode_bits2 < 256 ∧
  (-(2 ^ 15) ≤ moby.rac1_short_2e ∧ moby.rac1_short_2e < 2 ^ 15)

/-! ### The lumps of a level archive (wad_file.cpp) -/

/-- The gameplay functions the lump handlers call, none of which has a body
among the sources, as parameters over the type `G` of `Gameplay`: the default
constructed value, `decompress_wad`, `read_gameplay` for the three block lists
and `write_gameplay` for the mission instance blocks. -/
structure GameplayCodec (G : Type) where
  create : G
  decompress_wad : List Nat → Option (List Nat)
  read_gameplay_core : G → List Nat → Except String G
  read_gameplay_art_instances : G → List Nat → Except String G
  read_gameplay_mission_instances : G → List Nat → Except String G
  write_gameplay_mission_instances : G → List Nat

/-- Modelled from the spec: `LevelWad` of wad_file.h (not among the sources),
with the three members the table of lines 95-107 names. -/
structure LevelWad (G : Type) where
  binary_assets : BinaryAssets
  gameplay : G
  gameplay_mission_instances : List G

/-- The archive `create_wad<LevelWad>` makes (lines 71-74). -/
def LevelWad.create {G : Type} (codec : GameplayCodec G) : LevelWad G :=
  ⟨fun _ => none, codec.create, []⟩

/-- The function `GameplayLump::read` (wad_file.cpp lines 34-38). -/
def GameplayLump.read {G : Type} (codec : GameplayCodec G) (dest : G) (src : List Nat) :
    Except String G :=
  match codec.decompress_wad src with
  | none => .error "Failed to decompress gameplay lump."
  | some decompressed => codec.read_gameplay_core dest decompressed

/-- The function `ArtInstancesLump::read` (wad_file.cpp lines 47-51). -/
def ArtInstancesLump.read {G : Type} (codec : GameplayCodec G) (dest : G) (src : List Nat) :
    Except String G :=
  match codec.decompress_wad src with
  | none => .error "Failed to decompress art instances WAD."
  | some decompressed => codec.read_gameplay_art_instances dest decompressed

/-- The function `GameplayMissionInstancesLump::read` (wad_file.cpp lines
60-64): the mission instances are read into a new `Gameplay`, which is put at
the end of `dest`. -/
def GameplayMissionInstancesLump.read {G : Type} (codec : GameplayCodec G) (dest : List G)
    (src : List Nat) : Except String (List G) := do
  let mission_instances ← codec.read_gameplay_mission_instances codec.create src
  pure (dest ++ [mission_instances])

/-- The function `GameplayMissionInstancesLump::write` (wad_file.cpp lines
66-68): `src.at(index)` is serialised; `at` throws when the index is not below
the size of the vector. -/
def GameplayMissionInstancesLump.write {G : Type} (codec : GameplayCodec G) (index : Int)
    (src : List G) : Except String (List Nat) :=
  if index < 0 then .error "std::out_of_range"
  else match src[index.toNat]? with
    | none => .error "std::out_of_range"
    | some mission_instances => .ok (codec.write_gameplay_mission_instances mission_instances)

/-- The read handler `lf<Lump>(field)` builds (wad_file.cpp lines 82-86) for
the handler and the member of the archive the table of lines 95-107 pairs. -/
def lf_read {G : Type} (codec : GameplayCodec G) : LumpReader (LevelWad G) :=
  fun desc dest src =>
    match desc.funcs with
    | LumpKind.BinaryLump =>
      .ok { dest with binary_assets := BinaryLump.read desc dest.binary_assets src }
    | LumpKind.GameplayLump => do
      let gameplay ← GameplayLump.read codec dest.gameplay src
      pure { dest with gameplay := gameplay }
    | LumpKind.GameplayMissionInstancesLump => do
      let instances ← GameplayMissionInstancesLump.read codec dest.gameplay_mission_instances src
      pure { dest with gameplay_mission_instances := instances }
    | LumpKind.ArtInstancesLump => do
      let gameplay ← ArtInstancesLump.read codec dest.gameplay src
      pure { dest with gameplay := gameplay }

/-- The header of a level archive in which the slots 1 of the "chunk" lump
(offset 0x30) and of the "gameplay_mission_instances" lump (offset 0x68) hold
the sector range (2, 1) and every other slot is empty. -/
def second_slot_header : List Nat :=
  write_at (write_at (write_at (List.replicate 0xc68 0) 0 (le_bytes 4 0xc68))
    0x30 (le_bytes 4 2 ++ le_bytes 4 1)) 0x68 (le_bytes 4 2 ++ le_bytes 4 1)

/-- The payload of sector 2 of `second_slot_archive`. -/
def second_slot_payload : List Nat := List.replicate 0x800 7

/-- A level archive of three sectors: the header `second_slot_header`, zero
bytes up to sector 2, and the payload in sector 2. -/
def second_slot_archive : List Nat :=
  second_slot_header ++ List.replicate (0x1000 - 0xc68) 0 ++ second_slot_payload

/-! ### The collision block (moby.cpp) -/

/-- The field `first_part_size` of the collision header at the start of `src`. -/
def collision_first_part_size (src : List Nat) : Int := to_signed 32 (le_value (slice src 4 4))

/-- The field `third_part_size` of the collision header at the start of `src`. -/
def collision_third_part_size (src : List Nat) : Int := to_signed 32 (le_value (slice src 8 4))

/-- The field `second_part_size` of the collision header at the start of `src`. -/
def collision_second_part_size (src : List Nat) : Int :=
  to_signed 32 (le_value (slice src 0xc 4))

/-- The three parts the collision header at the start of `src` announces lie
inside `src`. -/
def collision_parts_in_bounds (src : List Nat) : Prop :=
  0 ≤ collision_first_part_size src ∧ 0 ≤ collision_second_part_size src ∧
  0 ≤ collision_third_part_size src ∧
  0x10 + collision_first_part_size src + collision_second_part_size src +
    collision_third_part_size src ≤ src.length

/-- The members of a collision block hold values of their C++ types and its
sizes fit the signed 32 bit fields of the header. -/
def collision_fits (c : MobyCollision) : Prop :=
  c.unknown_0 < 2 ^ 16 ∧ c.unknown_2 < 2 ^ 16 ∧ (∀ x ∈ c.first_part, x < 256) ∧
  (∀ x ∈ c.third_part, x < 256) ∧ c.first_part.length < 2 ^ 31 ∧
  c.third_part.length < 2 ^ 31 ∧ c.second_part.length * 8 < 2 ^ 31

/-- The vector the decoder makes of the four 16 bit values at `ofs`: the first
three values, the fourth is dropped. -/
def collision_vector (src : List Nat) (ofs : Nat) : Vec3f :=
  ⟨to_signed 16 (le_value (slice src ofs 2)), to_signed 16 (le_value (slice src (ofs + 2) 2)),
    to_signed 16 (le_value (slice src (ofs + 4) 2))⟩

/-- A collision block of 0x18 bytes: the unknowns 1 and 2, no first and third
part, and a second part of 8 bytes with the values 1, 2, 3 and 0. -/
def sample_collision_block : List Nat :=
  [1, 0, 2, 0, 0, 0, 0, 0, 0, 0, 0, 0, 8, 0, 0, 0, 1, 0, 2, 0, 3, 0, 0, 0]

/-- A collision with one byte in the first part, one vector and one byte in
the third part. -/
def sample_collision : MobyCollision := ⟨1, 2, [5], [⟨1, 2, 3⟩], [6]⟩

/-! ### The corncob block (moby.cpp) -/

/-- A kernel as the decoder produces it: a vec of 0x10 bytes and vertices of 8
bytes each, fewer than 2^15; it has vertices exactly when its vec is not all
zero, and the last two bytes of its first vertex hold the vertex count. -/
def kernel_well_formed (kernel : MobyCornKernel) : Prop :=
  kernel.vec.length = 0x10 ∧ (∀ x ∈ kernel.vec, x < 256) ∧
  (∀ v ∈ kernel.vertices, v.length = 8 ∧ ∀ x ∈ v, x < 256) ∧
  kernel.vertices.length < 2 ^ 15 ∧
  ((∃ x ∈ kernel.vec, x ≠ 0) ↔ kernel.vertices ≠ []) ∧
  (∀ v ∈ kernel.vertices.head?, slice v 6 2 = le_bytes 2 kernel.vertices.length)

/-- A corncob of sixteen slots whose kernels are well formed. -/
def corncob_well_formed (corncob : MobyCornCob) : Prop :=
  corncob.kernels.length = 16 ∧
  ∀ kernel, some kernel ∈ corncob.kernels → kernel_well_formed kernel

/-- A corncob with one kernel, in slot `slot`. -/
def single_kernel_corncob (slot : Nat) (kernel : MobyCornKernel) : MobyCornCob :=
  ⟨(List.range 16).map (fun i => if i = slot then some kernel else none)⟩

/-- A vec whose first byte is 1. -/
def unit_vec : List Nat := 1 :: List.replicate 0xf 0

/-- A kernel of 510 vertices, 0x1000 bytes when written. -/
def long_kernel : MobyCornKernel := ⟨unit_vec, List.replicate 510 [0, 0, 0, 0, 0, 0, 0xfe, 1]⟩

/-- A well formed corncob whose second kernel is written 0x1010 bytes after
the header. -/
def far_kernel_corncob : MobyCornCob :=
  ⟨[some long_kernel, some ⟨List.replicate 0x10 0, []⟩] ++ List.replicate 14 none⟩

/-! ### The sequences of a class (moby.cpp) -/

/-- The members of a frame hold values of their C++ types, and its data are a
whole number of quadwords, fewer than 2^16. -/
def frame_fits (frame : MobyFrame) : Prop :=
  frame.unknown_0 < 2 ^ 32 ∧ frame.unknown_4 < 2 ^ 16 ∧ frame.unknown_8 < 2 ^ 32 ∧
  frame.unknown_c < 256 ∧ frame.unknown_d < 256 ∧ (∀ x ∈ frame.data, x < 256) ∧
  frame.data.length % 0x10 = 0 ∧ frame.data.length / 0x10 < 2 ^ 16

/-- The members of a sequence hold values of their C++ types and its counts
fit the byte fields of the sequence header. -/
def sequence_fits (env : Env) (sequence : MobySequence) : Prop :=
  sequence.frames.length < 256 ∧ sequence.triggers.length < 256 ∧
  sequence.sound_count < 256 ∧ sequence.animation_info < 2 ^ 32 ∧
  (∀ t ∈ sequence.triggers, t < 2 ^ 32) ∧
  (∀ t ∈ sequence.trigger_data, t.length = env.sizeof_MobyTriggerData ∧ ∀ x ∈ t, x < 256) ∧
  ∀ frame ∈ sequence.frames, frame_fits frame

/-- The frame `frame` is stored in `b` at the position `p`, between `lo` and
`hi`, and the table entry at `entry_ofs` holds `p` relative to the class at
`class_header_ofs`. -/
def frame_stored (b : List Nat) (class_header_ofs lo hi entry_ofs : Nat) (frame : MobyFrame) :
    Prop :=
  ∃ p, lo ≤ p ∧ p + 0x10 + frame.data.length ≤ hi ∧
    slice b entry_ofs 4 = le_bytes 4 (to_unsigned 32 ((p : Int) - class_header_ofs)) ∧
    slice b p 0x10 = frame_header_bytes frame ∧
    slice b (p + 0x10) frame.data.length = frame.data.map (fun x => x % 256)

/-- The sequence `sequence` is stored in `b` between `o` and `hi`: its header
at `o` (the bounding sphere first), then the frame table and the trigger list,
and after them the trigger data and the frames. -/
def sequence_stored (env : Env) (b : List Nat) (class_header_ofs o hi : Nat)
    (sequence : MobySequence) : Prop :=
  o + 0x1c + 4 * sequence.frames.length + 4 * sequence.triggers.length ≤ hi ∧ hi ≤ b.length ∧
  slice b (o + 0x10) 1 = [sequence.frames.length % 256] ∧
  slice b (o + 0x11) 1 = [sequence.sound_count % 256] ∧
  slice b (o + 0x12) 1 = [sequence.triggers.length % 256] ∧
  slice b (o + 0x18) 4 = le_bytes 4 sequence.animation_info ∧
  slice b (o + 0x1c + 4 * sequence.frames.length) (4 * sequence.triggers.length) =
    (sequence.triggers.map (le_bytes 4)).flatten ∧
  (sequence.trigger_data = none → slice b (o + 0x14) 4 = le_bytes 4 0) ∧
  (∀ t, sequence.trigger_data = some t →
    ∃ ofs, 0x1c ≤ ofs ∧ o + ofs + env.sizeof_MobyTriggerData ≤ hi ∧
      slice b (o + 0x14) 4 = le_bytes 4 ofs ∧
      slice b (o + ofs) env.sizeof_MobyTriggerData = raw_bytes env.sizeof_MobyTriggerData t) ∧
  (∀ k, k < sequence.frames.length →
    frame_stored b class_header_ofs o hi (o + 0x1c + 4 * k)
      (sequence.frames.getD k ⟨0, 0, 0, 0, 0, []⟩)) ∧
  slice b o 0x10 = raw_bytes 0x10 sequence.bounding_sphere

/-- The decoded sequence `d` has the frames (header fields and data bytes, in
order), the triggers, the optional trigger data, `animation_info` and
`sound_count` of the sequence `s`. -/
def sequence_agrees (d s : MobySequence) : Prop :=
  d.frames = s.frames ∧ d.triggers = s.triggers ∧ d.trigger_data = s.trigger_data ∧
  d.animation_info = s.animation_info ∧ d.sound_count = s.sound_count

/-- A sequence with one frame of 0x10 data bytes, two triggers and trigger
data of 0x20 bytes. -/
def sample_sequence : MobySequence :=
  { bounding_sphere := List.replicate 0x10 0
    frames := [⟨1, 2, 3, 4, 5, List.replicate 0x10 9⟩]
    triggers := [7, 8]
    trigger_data := some (List.replicate 0x20 6)
    animation_info := 0x11223344
    sound_count := 3 }

/-! ### The text format of gameinfo.txt (core/wtf.c, assetmgr/asset_util.cpp) -/

/-- The character `'` that delimits a string. -/
def quote_char : Char := Char.ofNat 39

/-- The character `\` that begins an escape. -/
def backslash_char : Char := Char.ofNat 92

/-- The newline character. -/
def newline_char : Char := Char.ofNat 10

/-- The tab character. -/
def tab_char : Char := Char.ofNat 9

/-- The zero character that ends a C string. -/
def nul_char : Char := Char.ofNat 0

/-- The C string at position `p` of a buffer: the characters from `p` up to the
next zero. -/
def c_string (buffer : List Char) (p : Nat) : List Char :=
  (buffer.drop p).takeWhile (fun c => c != nul_char)

/-- The position in a buffer of `n` characters at which its rest `input`
begins: the value of the pointer `ctx->input`. -/
def position (n : Nat) (input : List Char) : Nat := n - input.length

/-- Modelled from the spec: the value of a `WtfAttribute` of wtf.h (not among
the sources): a number (kept as the characters `strtof` consumed), a string
(the pointer `string` into the input buffer, kept as a position) or an array
of values. -/
inductive WtfValue where
  | number (text : List Char)
  | string (string : Nat)
  | array (elements : List WtfValue)

/-- Modelled from the spec: `WtfNode` of wtf.h (not among the sources): the
pointers `type_name` and `tag` into the input buffer (`none` for `NULL`), the
attributes with their `key` pointers and the children, each in the order of
the file. -/
inductive WtfNode where
  | mk (type_name tag : Option Nat) (attributes : List (Nat × WtfValue))
      (children : List WtfNode)

/-- The attributes of a node. -/
def WtfNode.attributes : WtfNode → List (Nat × WtfValue)
  | .mk _ _ attributes _ => attributes

/-- The inner loop of `skip_whitespace` for a `//` comment (wtf.c lines
371-373): the input up to the end of the line is dropped. -/
def skip_line_comment : List Char → List Char
  | [] => []
  | c :: rest => if c = newline_char then c :: rest else skip_line_comment rest

/-- The inner loop of `skip_whitespace` for a block comment and the step over
its end (wtf.c lines 375-380). -/
def skip_block_comment : List Char → List Char
  | [] => []
  | c :: rest =>
    if c = '*' ∧ rest.head? = some '/' then rest.drop 1 else skip_block_comment rest

/-- The loop of `skip_whitespace` (wtf.c lines 367-388); the end of the list
stands for the terminating zero, and the line counter is left out. -/
def skip_whitespace_loop : Nat → List Char → List Char
  | 0, input => input
  | fuel + 1, input =>
    match input with
    | [] => []
    | c :: rest =>
      if c = '/' ∧ rest.head? = some '/' then
        skip_whitespace_loop fuel (skip_line_comment (c :: rest))
      else if c = '/' ∧ rest.head? = some '*' then
        skip_whitespace_loop fuel (skip_block_comment (c :: rest))
      else if c = ' ' ∨ c = tab_char ∨ c = newline_char then skip_whitespace_loop fuel rest
      else c :: rest

/-- The function `skip_whitespace` (wtf.c lines 367-388); every turn of the
loop drops a character, so the length of the input is fuel enough. -/
def skip_whitespace (input : List Char) : List Char :=
  skip_whitespace_loop (input.length + 1) input

/-- The function `peek_char` (wtf.c lines 357-360): the next character, `none`
for the terminating zero, and the input after the white space. -/
def peek_char (input : List Char) : Option Char × List Char :=
  ((skip_whitespace input).head?, skip_whitespace input)

/-- The function `advance` (wtf.c lines 362-365). -/
def advance (input : List Char) : List Char := (skip_whitespace input).drop 1

/-- The test `isalnum(c) || c == '_'` of `parse_identifier` and
`fixup_identifier`. -/
def is_identifier_char (c : Char) : Bool := c.isAlphanum || c = '_'

/-- The function `parse_identifier` (wtf.c lines 345-355) in a buffer of `n`
characters: the pointer `begin` to the identifier, `none` for `NULL`, and the
input after it. -/
def parse_identifier (n : Nat) (input : List Char) : Option Nat × List Char :=
  let begin := skip_whitespace input
  if (begin.takeWhile is_identifier_char).isEmpty then (none, begin)
  else (some (position n begin), begin.dropWhile is_identifier_char)

/-- The loop of `parse_string` (wtf.c lines 330-339) and the step over the
closing quote; `peek_char` and `advance` skip white space and comments inside
the string too. -/
def parse_string_loop : Nat → List Char → Except String (List Char)
  | 0, _ => .error "Unexpected end of file while parsing string."
  | fuel + 1, input =>
    match skip_whitespace input with
    | [] => .error "Unexpected end of file while parsing string."
    | c :: rest => if c = quote_char then .ok rest else parse_string_loop fuel rest

/-- The function `parse_string` (wtf.c lines 324-343) in a buffer of `n`
characters: the pointer `begin` to the first character behind the opening
quote, and the input after the first quote that follows.  No escape is decoded
here: a quote behind a backslash ends the string too. -/
def parse_string (n : Nat) (input : List Char) : Except String (Nat × List Char) :=
  match parse_string_loop (input.length + 1) (advance input) with
  | .error e => .error e
  | .ok rest => .ok (position n (advance input), rest)

/-- The function `parse_float` (wtf.c lines 310-322); `strtof` of the C
library is a parameter that gives the number of characters it consumes, 0 when
there is no number. -/
def parse_float (strtof : List Char → Nat) (input : List Char) :
    Except String (List Char × List Char) :=
  if strtof input = 0 then .error "Failed to parse float."
  else .ok (input.take (strtof input), input.drop (strtof input))

mutual

/-- The function `parse_value` (wtf.c lines 232-308) in a buffer of `n`
characters; both passes of `wtf_parse` run it over the same input, the first
without storing the value.  The third component lists the attributes the call
takes from `next_attribute`, in that order (the value itself, then the
elements of an array), each as its `string` pointer (`none` when it is not a
string). -/
def parse_value (strtof : List Char → Nat) (n : Nat) : Nat → List Char →
    Except String (WtfValue × List Char × List (Option Nat))
  | 0, _ => .error "Unexpected end of file."
  | fuel + 1, input =>
    match peek_char input with
    | (some c, input1) =>
      if c = quote_char then
        match parse_string n input1 with
        | .error e => .error e
        | .ok (string, rest) => .ok (WtfValue.string string, rest, [some string])
      else if c = '[' then
        match parse_array strtof n fuel (advance input1) with
        | .error e => .error e
        | .ok (elements, rest, slots) => .ok (WtfValue.array elements, advance rest, none :: slots)
      else
        match parse_float strtof input1 with
        | .error e => .error e
        | .ok (text, rest) => .ok (WtfValue.number text, rest, [none])
    | (none, input1) =>
      match parse_float strtof input1 with
      | .error e => .error e
      | .ok (text, rest) => .ok (WtfValue.number text, rest, [none])

/-- The loop over the elements of an array in `parse_value` (wtf.c lines
269-283): the elements, the input at the closing bracket and the attributes
taken from `next_attribute`. -/
def parse_array (strtof : List Char → Nat) (n : Nat) : Nat → List Char →
    Except String (List WtfValue × List Char × List (Option Nat))
  | 0, _ => .error "Unexpected end of file."
  | fuel + 1, input =>
    match peek_char input with
    | (some ']', input1) => .ok ([], input1, [])
    | (_, input1) =>
      match parse_value strtof n fuel input1 with
      | .error e => .error e
      | .ok (value, rest, slots) =>
        match parse_array strtof n fuel rest with
        | .error e => .error e
        | .ok (values, rest1, slots1) => .ok (value :: values, rest1, slots ++ slots1)

end

/-- The function `count_nodes_and_attributes` (wtf.c lines 130-177) in a
buffer of `n` characters, the pass that checks the input; the result is the
input where the loop ends (the counts are left out). -/
def count_nodes_and_attributes (strtof : List Char → Nat) (n : Nat) : Nat → List Char →
    Except String (List Char)
  | 0, _ => .error "Unexpected end of file."
  | fuel + 1, input =>
    match peek_char input with
    | (none, input1) => .ok input1
    | (some '}', input1) => .ok input1
    | (some _, input1) =>
      match parse_identifier n input1 with
      | (none, _) => .error "Expected attribute or type name."
      | (some _, input2) =>
        match peek_char input2 with
        | (some ':', input3) =>
          match parse_value strtof n (input.length + 1) (advance input3) with
          | .error e => .error e
          | .ok (_, rest, _) => count_nodes_and_attributes strtof n fuel rest
        | (_, input3) =>
          match parse_identifier n input3 with
          | (none, _) => .error "Expected tag."
          | (some _, input4) =>
            match peek_char input4 with
            | (some '{', input5) =>
              match count_nodes_and_attributes strtof n fuel (advance input5) with
              | .error e => .error e
              | .ok input6 =>
                match peek_char input6 with
                | (some '}', input7) => count_nodes_and_attributes strtof n fuel (advance input7)
                | (_, _) => .error "Unexpected end of file."
            | (_, _) => .error "Expected a brace."

/-- What a call of `read_nodes_and_attributes` leaves: the attributes and the
children of the parent, the input where the loop ends, and what the call took
from the arrays of `wtf_parse`: the nodes in the order of `next_node` (their
`type_name` and `tag` pointers) and the attributes in the order of
`next_attribute` (their `key` and `string` pointers, `none` for `NULL` and for
a value that is not a string). -/
structure WtfLevel where
  attributes : List (Nat × WtfValue)
  children : List WtfNode
  input : List Char
  nodes : List (Nat × Nat)
  slots : List (Option Nat × Option Nat)

/-- The attributes a call of `parse_value` took from `next_attribute`, the
first of them with the key line 201 assigns. -/
def keyed_slots (key : Nat) : List (Option Nat) → List (Option Nat × Option Nat)
  | [] => []
  | string :: elements => (some key, string) :: elements.map (fun s => (none, s))

/-- The function `read_nodes_and_attributes` (wtf.c lines 179-230) in a buffer
of `n` characters, the pass that builds the tree.  A failed `assert` is an
error. -/
def read_nodes_and_attributes (strtof : List Char → Nat) (n : Nat) : Nat → List Char →
    Except String WtfLevel
  | 0, _ => .error "assert"
  | fuel + 1, input =>
    match peek_char input with
    | (none, input1) => .ok ⟨[], [], input1, [], []⟩
    | (some '}', input1) => .ok ⟨[], [], input1, [], []⟩
    | (some _, input1) =>
      match parse_identifier n input1 with
      | (none, _) => .error "assert"
      | (some name, input2) =>
        match peek_char input2 with
        | (some ':', input3) =>
          match parse_value strtof n (input.length + 1) (advance input3) with
          | .error _ => .error "assert"
          | .ok (value, rest, slots) =>
            match read_nodes_and_attributes strtof n fuel rest with
            | .error e => .error e
            | .ok r =>
              .ok ⟨(name, value) :: r.attributes, r.children, r.input, r.nodes,
                keyed_slots name slots ++ r.slots⟩
        | (_, input3) =>
          match parse_identifier n input3 with
          | (none, _) => .error "assert"
          | (some tag, input4) =>
            match read_nodes_and_attributes strtof n fuel (advance input4) with
            | .error e => .error e
            | .ok child =>
              match peek_char child.input with
              | (some '}', input7) =>
                match read_nodes_and_attributes strtof n fuel (advance input7) with
                | .error e => .error e
                | .ok r =>
                  .ok ⟨r.attributes,
                    WtfNode.mk (some name) (some tag) child.attributes child.children ::
                      r.children,
                    r.input, (name, tag) :: child.nodes ++ r.nodes, child.slots ++ r.slots⟩
              | (_, _) => .error "assert"

/-- The function `fixup_identifier` (wtf.c lines 390-400) for a pointer that
is not `NULL`: a zero is stored behind the identifier characters at `p`. -/
def fixup_identifier (buffer : List Char) (p : Nat) : List Char :=
  buffer.set (p + ((buffer.drop p).takeWhile is_identifier_char).length) nul_char

/-- The loop of `fixup_string` (wtf.c lines 409-423) with the read position
`src` and the write position `dest`, and the zero stored behind it: the
characters are moved down in place, `\n` and `\t` decoded and every other
escaped character dropped, up to the next quote or zero.  The character
behind a backslash is not tested, so the loop runs over an escaped quote into
what follows the string; a read behind the end of the buffer is an error. -/
def fixup_string_loop : Nat → List Char → Nat → Nat → Except String (List Char)
  | 0, _, _, _ => .error "read past the end of the buffer"
  | fuel + 1, buffer, dest, src =>
    match buffer.get? src with
    | none => .error "read past the end of the buffer"
    | some c =>
      if c = quote_char ∨ c = nul_char then .ok (buffer.set dest nul_char)
      else if c = backslash_char then
        match buffer.get? (src + 1) with
        | none => .error "read past the end of the buffer"
        | some e =>
          if e = 'n' then fixup_string_loop fuel (buffer.set dest newline_char) (dest + 1) (src + 2)
          else if e = 't' then fixup_string_loop fuel (buffer.set dest tab_char) (dest + 1) (src + 2)
          else fixup_string_loop fuel buffer dest (src + 2)
      else fixup_string_loop fuel (buffer.set dest c) (dest + 1) (src + 1)

/-- The function `fixup_string` (wtf.c lines 402-424) for a pointer that is
not `NULL`; every turn of the loop moves the read position on, so the length
of the buffer is fuel enough. -/
def fixup_string (buffer : List Char) (p : Nat) : Except String (List Char) :=
  fixup_string_loop (buffer.length + 1) buffer p p

/-- The first loop of lines 111-114 of `wtf_parse`: `type_name` and `tag` of
every node but the root, whose pointers are `NULL`. -/
def fixup_nodes : List (Nat × Nat) → List Char → List Char
  | [], buffer => buffer
  | (type_name, tag) :: rest, buffer =>
    fixup_nodes rest (fixup_identifier (fixup_identifier buffer type_name) tag)

/-- The second loop of lines 115-120 of `wtf_parse`: the key of every
attribute, and the string of those that are strings, in the order of the array
of attributes. -/
def fixup_attributes : List (Option Nat × Option Nat) → List Char → Except String (List Char)
  | [], buffer => .ok buffer
  | (key, string) :: rest, buffer =>
    let buffer1 := match key with
      | some k => fixup_identifier buffer k
      | none => buffer
    match string with
    | none => fixup_attributes rest buffer1
    | some s =>
      match fixup_string buffer1 s with
      | .error e => .error e
      | .ok buffer2 => fixup_attributes rest buffer2

/-- What `wtf_parse` gives back: the root, whose pointers refer to the input
buffer as the fix-ups left it, or `NULL` with a message in `error_dest`. -/
inductive WtfParsed where
  | root (root : WtfNode) (buffer : List Char)
  | failed (error : String)

/-- The function `wtf_parse` (wtf.c lines 65-124) on the characters of the
input before its terminating zero: the first pass checks the input, which
must end where its loop ends, the second builds the root, and the fix-ups then
rewrite the buffer in place.  A failed `assert` and a read behind the end of
the buffer are errors. -/
def wtf_parse (strtof : List Char → Nat) (text : List Char) : Except String WtfParsed :=
  match count_nodes_and_attributes strtof text.length (text.length + 1) text with
  | .error e => .ok (WtfParsed.failed e)
  | .ok rest =>
    if rest ≠ [] then .ok (WtfParsed.failed "Extra closing brace at end of file.")
    else
      match read_nodes_and_attributes strtof text.length (text.length + 1) text with
      | .error e => .error e
      | .ok r =>
        match fixup_attributes r.slots (fixup_nodes r.nodes (text ++ [nul_char])) with
        | .error e => .error e
        | .ok buffer => .ok (WtfParsed.root (WtfNode.mk none none r.attributes r.children) buffer)

/-- The function `wtf_attribute` (wtf.c lines 456-463) for a key that is not
`NULL`: the first attribute whose key, read from the buffer, is that key. -/
def wtf_attribute (buffer : List Char) (node : WtfNode) (key : List Char) : Option WtfValue :=
  (node.attributes.find? (fun a => c_string buffer a.1 = key)).map (fun a => a.2)

/-- The state of a `WtfWriter` (wtf.c lines 467-473), with the characters
written to the file. -/
structure WtfWriter where
  file : List Char
  indent : Nat
  array_depth : Nat
  add_blank_line : Bool
  array_empty : Bool

/-- The function `wtf_begin_file` (wtf.c lines 475-483). -/
def wtf_begin_file : WtfWriter := ⟨[], 0, 0, false, false⟩

/-- The function `indent` (wtf.c lines 489-493). -/
def indent (ctx : WtfWriter) : WtfWriter :=
  { ctx with file := ctx.file ++ List.replicate ctx.indent tab_char }

/-- The function `wtf_begin_attribute` (wtf.c lines 513-516). -/
def wtf_begin_attribute (ctx : WtfWriter) (key : List Char) : WtfWriter :=
  { indent ctx with file := (indent ctx).file ++ key ++ [':', ' '] }

/-- The function `wtf_end_attribute` (wtf.c lines 518-520). -/
def wtf_end_attribute (ctx : WtfWriter) : WtfWriter := { ctx with add_blank_line := true }

/-- The loop of `wtf_write_string` (wtf.c lines 553-566): a tab, a newline and
a quote are written behind a backslash. -/
def escape_string : List Char → List Char
  | [] => []
  | c :: rest =>
    if c = tab_char ∨ c = newline_char ∨ c = quote_char then
      backslash_char :: c :: escape_string rest
    else c :: escape_string rest

/-- The function `wtf_write_string` (wtf.c lines 544-569). -/
def wtf_write_string (ctx : WtfWriter) (string : List Char) : WtfWriter :=
  let ctx1 : WtfWriter := if ctx.array_empty then
      { ctx with file := ctx.file ++ [newline_char], array_empty := false } else ctx
  let ctx2 := if 0 < ctx1.array_depth then indent ctx1 else ctx1
  { ctx2 with file := ctx2.file ++ [quote_char] ++ escape_string string ++
      [quote_char, newline_char] }

/-- The function `wtf_begin_array` (wtf.c lines 571-582). -/
def wtf_begin_array (ctx : WtfWriter) : WtfWriter :=
  let ctx1 : WtfWriter := if ctx.array_empty then
      { ctx with file := ctx.file ++ [newline_char] } else ctx
  let ctx2 : WtfWriter := { ctx1 with array_empty := true }
  let ctx3 := if 0 < ctx2.array_depth then indent ctx2 else ctx2
  { ctx3 with
    file := ctx3.file ++ ['[']
    indent := ctx3.indent + 1
    array_depth := ctx3.array_depth + 1 }

/-- The function `wtf_end_array` (wtf.c lines 584-592). -/
def wtf_end_array (ctx : WtfWriter) : WtfWriter :=
  let ctx1 : WtfWriter := { ctx with indent := ctx.indent - 1 }
  let ctx2 := if ¬ ctx1.array_empty then indent ctx1 else ctx1
  { ctx2 with
    file := ctx2.file ++ [']', newline_char]
    array_depth := ctx2.array_depth - 1
    array_empty := false }

/-- Modelled from the spec: `AssetPackType` (its declaration is not among the
sources), with the four values asset_util.cpp names. -/
inductive AssetPackType where
  | EXTRACTED | UNPACKED | LIBRARY | MOD
deriving DecidableEq, Repr

/-- Modelled from the spec: `GameInfo` of asset_util.h (not among the
sources), with the three members asset_util.cpp reads and writes. -/
structure GameInfo where
  game : List Char
  type : AssetPackType
  dependencies : List (List Char)
deriving DecidableEq, Repr

/-- The loop of `read_game_info` over the elements of the dependencies
(asset_util.cpp lines 104-108): the strings among them, read from the buffer. -/
def string_elements (buffer : List Char) : List WtfValue → List (List Char)
  | [] => []
  | WtfValue.string string :: rest => c_string buffer string :: string_elements buffer rest
  | _ :: rest => string_elements buffer rest

/-- The function `read_game_info` (asset_util.cpp lines 70-112) on the
characters of `input`, a C string that ends at its first zero.  `strtof` is the
C library function, `empty` the `GameInfo` whose members were not assigned
(its initial values are in asset_util.h).  Lines 89-93 compare `game->string`;
reading it when there is no string attribute "game" is undefined and is an
error here. -/
def read_game_info (strtof : List Char → Nat) (empty : GameInfo) (input : List Char) :
    Except String GameInfo :=
  match wtf_parse strtof (c_string input 0) with
  | .error e => .error e
  | .ok (WtfParsed.failed _) => .ok empty
  | .ok (WtfParsed.root root buffer) =>
    let info1 : GameInfo := match wtf_attribute buffer root "game".toList with
      | some (WtfValue.string game) => { empty with game := c_string buffer game }
      | _ => empty
    let info2 : Except String GameInfo := match wtf_attribute buffer root "type".toList with
      | some (WtfValue.string _) =>
        match wtf_attribute buffer root "game".toList with
        | some (WtfValue.string game) =>
          if c_string buffer game = "extracted".toList then
            .ok { info1 with type := AssetPackType.EXTRACTED }
          else if c_string buffer game = "unpacked".toList then
            .ok { info1 with type := AssetPackType.UNPACKED }
          else if c_string buffer game = "library".toList then
            .ok { info1 with type := AssetPackType.LIBRARY }
          else .ok { info1 with type := AssetPackType.MOD }
        | _ => .error "game->string is not a string"
      | _ => .ok info1
    match info2 with
    | .error e => .error e
    | .ok info =>
      match wtf_attribute buffer root "dependencies".toList with
      | some (WtfValue.array elements) =>
        .ok { info with dependencies := info.dependencies ++ string_elements buffer elements }
      | _ => .ok info

/-- The function `write_game_info` (asset_util.cpp lines 114-144): the
characters written to the file. -/
def write_game_info (info : GameInfo) : List Char :=
  let ctx1 := wtf_begin_attribute wtf_begin_file "game".toList
  let ctx2 := wtf_end_attribute (wtf_write_string ctx1 info.game)
  let ctx3 := wtf_begin_attribute ctx2 "type".toList
  let ctx4 := wtf_end_attribute (wtf_write_string ctx3
    (match info.type with
      | AssetPackType.EXTRACTED => "extracted".toList
      | AssetPackType.UNPACKED => "unpacked".toList
      | AssetPackType.LIBRARY => "library".toList
      | AssetPackType.MOD => "mod".toList))
  let ctx5 := if 0 < info.dependencies.length then
      wtf_end_attribute (wtf_end_array
        (info.dependencies.foldl wtf_write_string
          (wtf_begin_array (wtf_begin_attribute ctx4 "dependencies".toList))))
    else ctx4
  ctx5.file

/-- The bytes `write_moby_collision` appends behind the alignment padding: the
header of 0x10 bytes and the three parts. -/
def collision_bytes (collision : MobyCollision) : List Nat :=
  le_bytes 2 collision.unknown_0 ++ le_bytes 2 collision.unknown_2 ++
    le_bytes 4 collision.first_part.length ++ le_bytes 4 collision.third_part.length ++
    le_bytes 4 (collision.second_part.length * 8) ++
  collision.first_part.map (fun b => b % 256) ++
  (collision.second_part.map (fun v =>
    le_bytes 2 (to_unsigned 16 v.x) ++ le_bytes 2 (to_unsigned 16 v.y) ++
    le_bytes 2 (to_unsigned 16 v.z) ++ le_bytes 2 0)).flatten ++
  collision.third_part.map (fun b => b % 256)

/-- The components of the vectors of a collision block are signed 16 bit
values (the values the decoder produces). -/
def collision_vectors_fit (c : MobyCollision) : Prop :=
  ∀ v ∈ c.second_part, (-(2 ^ 15) ≤ v.x ∧ v.x < 2 ^ 15) ∧ (-(2 ^ 15) ≤ v.y ∧ v.y < 2 ^ 15) ∧
    (-(2 ^ 15) ≤ v.z ∧ v.z < 2 ^ 15)

/-- The joint lists `joints` are stored in `b` between `o` and `hi`: the count
at `o`, a multiple of 0x10, then one offset for each list, relative to the
class at `class_header_ofs`, and each list at its 4 byte aligned position,
closed by the byte 0xff. -/
def joints_stored (b : List Nat) (class_header_ofs o hi : Nat) (joints : List (List Nat)) :
    Prop :=
  o % 0x10 = 0 ∧ o + 4 + 4 * joints.length ≤ hi ∧ hi ≤ b.length ∧
  slice b o 4 = le_bytes 4 joints.length ∧
  ∃ positions : List Nat, positions.length = joints.length ∧
    ∀ k, k < joints.length →
      o + 4 + 4 * joints.length ≤ positions.getD k 0 ∧ positions.getD k 0 % 4 = 0 ∧
      positions.getD k 0 + (joints.getD k []).length + 1 ≤ hi ∧
      slice b (o + 4 + 4 * k) 4 =
        le_bytes 4 (to_unsigned 32 ((positions.getD k 0 : Int) - class_header_ofs)) ∧
      slice b (positions.getD k 0) ((joints.getD k []).length + 1) =
        (joints.getD k []).map (fun x => x % 256) ++ [0xff]

/-- The bytes `write_moby_bangles` appends: the bangles, then the vertices. -/
def bangles_bytes (bangles : MobyBangles) : List Nat :=
  (bangles.bangles.map MobyBangle.bytes).flatten ++ (bangles.vertices.map (raw_bytes 8)).flatten

/-- The corncob `corncob` is stored in `b` between `o` and `hi`: the sixteen
slot bytes at `o`, a multiple of 0x10, the byte 0xff for an empty slot and
otherwise the distance of the kernel from `o` in units of 0x10 bytes, and each
kernel (its vec, then its vertices) at its position. -/
def corncob_stored (b : List Nat) (o hi : Nat) (corncob : MobyCornCob) : Prop :=
  o % 0x10 = 0 ∧ o + 0x10 ≤ hi ∧ hi ≤ b.length ∧
  ∀ j, j < 16 →
    (corncob.kernels.getD j none = none → b.getD (o + j) 0 = 0xff) ∧
    (∀ kernel, corncob.kernels.getD j none = some kernel →
      ∃ p, o + 0x10 ≤ p ∧ p % 0x10 = 0 ∧ p + 0x10 + 8 * kernel.vertices.length ≤ hi ∧
        b.getD (o + j) 0 = ((p - o) / 0x10) % 256 ∧
        slice b p (0x10 + 8 * kernel.vertices.length) = kernel.vec ++ kernel.vertices.flatten)

/-- A bangles block as the decoder produces it: sixteen bangles of four bytes,
two vertices of 8 bytes for each bangle with a non-zero `submesh_begin` but the
first, and no submeshes (these come from the submesh table). -/
def bangles_fit (bangles : MobyBangles) : Prop :=
  bangles.bangles.length = 16 ∧
  (∀ x ∈ bangles.bangles, x.submesh_begin < 256 ∧ x.submesh_count < 256 ∧ x.unknown_2 < 256 ∧
    x.unknown_3 < 256) ∧
  (∀ v ∈ bangles.vertices, v.length = 8 ∧ ∀ x ∈ v, x < 256) ∧
  bangles.vertices.length + 2 =
    2 * (bangles.bangles.filter (fun x => x.submesh_begin ≠ 0)).length ∧
  bangles.submeshes = []

/-- The models that `read_moby_class` gives back as they were written.  Every
member holds values of its C++ type (bytes below 256, the scalar fields within
their widths, the bounding spheres 0x10 bytes, the joints 0x40 bytes, the sound
definitions `sizeof(MobySoundDef)` bytes).  The members the encoder does not
store have the value the decoder assigns: `rac1_byte_a` and `rac1_byte_b` are
0 outside the RAC1 format, `force_rac1_format` is set only for RAC2 with a
non-zero `rac1_byte_b`, `rac1_short_2e` is 0 except for RAC1, and
`header_end_offset` is the value the decoder derives (0x48 when no sequence
slot has a value, otherwise a multiple of 0x10 behind the sequence offset
table; below 0x1000 with a bangles block and below 0x70000 with a corncob,
whose offsets are stored in 8 and 16 bits).  There is at least one sequence
slot.  The bangles block has the form the decoder produces, the corncob is
well formed and absent for RAC1, the collision block fits its size fields, the
common transform has 0x10 bytes for each joint and no joint list holds the
byte 0xff.  Without a collision block the last sequence that has a value ends
with a frame, so that the decoder finds the start of the mystery data.  The
model has no submesh table. -/
def reads_back (env : Env) (game : Game) (moby : MobyClassData) : Prop :=
  scalar_fields_fit moby ∧ moby.byte_4 < 2 ^ 32 ∧
  moby.bounding_sphere.length = 0x10 ∧ (∀ x ∈ moby.bounding_sphere, x < 256) ∧
  (write_format game moby.force_rac1_format ≠ MobyFormat.RAC1 →
    moby.rac1_byte_a = 0 ∧ moby.rac1_byte_b = 0) ∧
  (moby.force_rac1_format = true → game = Game.RAC2 ∧ moby.rac1_byte_b ≠ 0) ∧
  (game ≠ Game.RAC1 → moby.rac1_short_2e = 0) ∧
  moby.sequences ≠ [] ∧
  (∀ s, some s ∈ moby.sequences →
    sequence_fits env s ∧ s.bounding_sphere.length = 0x10 ∧ ∀ x ∈ s.bounding_sphere, x < 256) ∧
  ((∃ s, some s ∈ moby.sequences) →
    moby.header_end_offset % 0x10 = 0 ∧
    0x48 + 4 * (moby.sequences.length : Int) ≤ moby.header_end_offset) ∧
  ((∀ s, some s ∉ moby.sequences) → moby.header_end_offset = 0x48) ∧
  (∀ bg, moby.bangles = some bg → bangles_fit bg ∧ moby.header_end_offset < 0x1000) ∧
  (∀ cc, moby.corncob = some cc →
    game ≠ Game.RAC1 ∧ corncob_well_formed cc ∧ moby.header_end_offset < 0x70000) ∧
  (∀ col, moby.collision = some col → collision_fits col ∧ collision_vectors_fit col) ∧
  (moby.collision = none →
    ∃ k s, k < moby.sequences.length ∧ moby.sequences.getD k none = some s ∧
      (∀ j, k < j → j < moby.sequences.length → moby.sequences.getD j none = none) ∧
      s.frames ≠ []) ∧
  (∀ m ∈ moby.skeleton, m.length = 0x40 ∧ ∀ x ∈ m, x < 256) ∧
  moby.common_trans.length = 0x10 * moby.skeleton.length ∧
  (∀ x ∈ moby.common_trans, x < 256) ∧
  (∀ l ∈ moby.joints, ∀ x ∈ l, x < 0xff) ∧
  (∀ d ∈ moby.sound_defs, d.length = env.sizeof_MobySoundDef ∧ ∀ x ∈ d, x < 256) ∧
  moby.has_submesh_table = false ∧ moby.submesh_table_offset = 0 ∧ moby.submeshes = [] ∧
  moby.low_detail_submeshes = [] ∧ moby.metal_submeshes = [] ∧
  (∀ x ∈ moby.mystery_data, x < 256)

/-- What a written class `b` holds between its header and its submesh tables,
for the write positions `r` (lines 179-196 of `write_moby_class`): the bytes
before the class are those of `dest`; entry `k` of the sequence offset table is
zero for an empty slot and otherwise the position, relative to the start of the
class, of a sequence stored inside the sequence region, the first stored
sequence standing at the start of that region; zero bytes follow the table up
to the end of the header padding, which is the greater of the end of the table
and `header_end_offset`; the bangles block, the corncob block and the
sequences each start at the next multiple of 0x10 after the region before and
hold the bytes of their part of the model; the first submesh table starts at
the next multiple of 0x10 after the sequences or at `submesh_table_offset`,
whichever is greater; when the last sequence that has a value has frames, its
last frame ends the sequence region. -/
def front_written (env : Env) (game : Game) (moby : MobyClassData) (dest b : List Nat)
    (r : Regions) : Prop :=
  (∀ i, i < dest.length → b[i]? = dest[i]?) ∧
  r.sequence_list_end = dest.length + 0x48 + 4 * moby.sequences.length ∧
  (∀ k, k < moby.sequences.length →
    (moby.sequences.getD k none = none →
      slice b (dest.length + 0x48 + 4 * k) 4 = le_bytes 4 0) ∧
    (∀ s, moby.sequences.getD k none = some s → ∃ o hi, r.sequences_ofs ≤ o ∧
      hi ≤ r.sequences_end ∧
      slice b (dest.length + 0x48 + 4 * k) 4 =
        le_bytes 4 (to_unsigned 32 ((o : Int) - dest.length)) ∧
      sequence_stored env b dest.length o hi s)) ∧
  (∀ k s, k < moby.sequences.length → moby.sequences.getD k none = some s →
    (∀ j, j < k → moby.sequences.getD j none = none) →
    slice b (dest.length + 0x48 + 4 * k) 4 =
      le_bytes 4 (to_unsigned 32 ((r.sequences_ofs : Int) - dest.length))) ∧
  (∀ i, r.sequence_list_end ≤ i → i < r.header_padding_end → b[i]? = some 0) ∧
  (r.header_padding_end : Int) =
    max ((r.sequence_list_end : Nat) : Int) ((dest.length : Int) + moby.header_end_offset) ∧
  (moby.bangles = none →
    r.bangles_ofs = r.header_padding_end ∧ r.bangles_end = r.header_padding_end) ∧
  (∀ bg, moby.bangles = some bg →
    r.bangles_ofs % 0x10 = 0 ∧ r.bangles_ofs < r.header_padding_end + 0x10 ∧
    r.bangles_end = r.bangles_ofs + (bangles_bytes bg).length ∧
    slice b r.bangles_ofs (bangles_bytes bg).length = bangles_bytes bg) ∧
  ((moby.corncob = none ∨ game = Game.RAC1) →
    r.corncob_ofs = r.bangles_end ∧ r.corncob_end = r.bangles_end) ∧
  (∀ cc, moby.corncob = some cc → game ≠ Game.RAC1 →
    r.corncob_ofs % 0x10 = 0 ∧ r.corncob_ofs < r.bangles_end + 0x10 ∧
    (corncob_well_formed cc → corncob_stored b r.corncob_ofs r.corncob_end cc)) ∧
  r.sequences_ofs % 0x10 = 0 ∧ r.sequences_ofs < r.corncob_end + 0x10 ∧
  (r.submesh_table_1_ofs : Int) =
    max (((r.sequences_end + (0x10 - r.sequences_end % 0x10) % 0x10 : Nat) : Int))
      ((dest.length : Int) + moby.submesh_table_offset) ∧
  (∀ k s, k < moby.sequences.length → moby.sequences.getD k none = some s →
    (∀ j, k < j → j < moby.sequences.length → moby.sequences.getD j none = none) →
    s.frames ≠ [] →
    ∃ o p, r.sequences_ofs ≤ o ∧ o + 0x1c + 4 * s.frames.length ≤ p ∧ p % 0x10 = 0 ∧
      slice b (dest.length + 0x48 + 4 * k) 4 =
        le_bytes 4 (to_unsigned 32 ((o : Int) - dest.length)) ∧
      slice b (o + 0x1c + 4 * (s.frames.length - 1)) 4 =
        le_bytes 4 (to_unsigned 32 ((p : Int) - dest.length)) ∧
      p + 0x10 + (s.frames.getD (s.frames.length - 1) ⟨0, 0, 0, 0, 0, []⟩).data.length =
        r.sequences_end)

/-- What a written class `b` holds between its submesh tables and its submesh
payloads, for the write positions `r` (lines 205-224 of `write_moby_class`):
the collision block, when the model has one, starts at a multiple of 0x10 and
holds the bytes of the block, and the mystery data start at its end; without a
collision block the mystery data start at the end of the submesh tables; the
mystery data, the skeleton, the common transform and the sound definitions
are the bytes of the model, the skeleton following the mystery data at once,
the common transform and the sound definitions at a multiple of 0x10; the joint
lists are stored between `joints_ofs` and `joints_end`. -/
def middle_written (env : Env) (moby : MobyClassData) (dest b : List Nat) (r : Regions) : Prop :=
  (∀ col, moby.collision = some col →
    r.collision_ofs % 0x10 = 0 ∧
    r.mystery_data_ofs = r.collision_ofs + (collision_bytes col).length ∧
    slice b r.collision_ofs (collision_bytes col).length = collision_bytes col) ∧
  (moby.collision = none →
    r.collision_ofs = r.submesh_tables_end ∧ r.mystery_data_ofs = r.submesh_tables_end) ∧
  slice b r.mystery_data_ofs moby.mystery_data.length =
    moby.mystery_data.map (fun x => x % 256) ∧
  r.skeleton_ofs = r.mystery_data_ofs + moby.mystery_data.length ∧
  slice b r.skeleton_ofs (0x40 * moby.skeleton.length) =
    (moby.skeleton.map (raw_bytes 0x40)).flatten ∧
  r.skeleton_end = r.skeleton_ofs + 0x40 * moby.skeleton.length ∧
  r.common_trans_ofs % 0x10 = 0 ∧
  slice b r.common_trans_ofs moby.common_trans.length =
    moby.common_trans.map (fun x => x % 256) ∧
  r.common_trans_end = r.common_trans_ofs + moby.common_trans.length ∧
  joints_stored b dest.length r.joints_ofs r.joints_end moby.joints ∧
  r.sound_defs_ofs % 0x10 = 0 ∧
  slice b r.sound_defs_ofs (env.sizeof_MobySoundDef * moby.sound_defs.length) =
    (moby.sound_defs.map (raw_bytes env.sizeof_MobySoundDef)).flatten ∧
  r.sound_defs_end = r.sound_defs_ofs + env.sizeof_MobySoundDef * moby.sound_defs.length

/-- The fields of the assembled header `h` that do not depend on the layout
(lines 153-177 and 193 of `write_moby_class`): the scalar fields and the counts
of the model; `rac1_byte_a` and `rac1_byte_b` only in the RAC1 format. -/
def header_scalars (moby : MobyClassData) (game : Game) (h : MobyClassHeader) : Prop :=
  h.unknown_9 = moby.unknown_9 ∧
  h.rac1_byte_a = (if write_format game moby.force_rac1_format = MobyFormat.RAC1
    then moby.rac1_byte_a else 0) ∧
  h.rac12_byte_b = (if write_format game moby.force_rac1_format = MobyFormat.RAC1
    then moby.rac1_byte_b else 0) ∧
  h.lod_trans = moby.lod_trans ∧ h.shadow = moby.shadow ∧ h.scale = moby.scale ∧
  h.mip_dist = moby.mip_dist ∧ h.bounding_sphere = moby.bounding_sphere ∧
  h.glow_rgba = moby.glow_rgba ∧ h.mode_bits = moby.mode_bits ∧ h.type = moby.type ∧
  h.mode_bits2 = moby.mode_bits2 ∧ h.sequence_count = moby.sequences.length ∧
  h.joint_count = moby.skeleton.length ∧ h.sound_count = moby.sound_defs.length

/-- The offsets of the header `H` read from a written class are the write
positions `r` of their regions relative to the start of the class, or zero
when the region is absent (submesh table: when `has_submesh_table` is false):
the 32 bit offsets as they are, the bangles offset in units of 0x10 bytes cut
to its 8 bits, the corncob offset in units of 0x10 bytes (for RAC1:
`rac1_short_2e`) cut to its 16 bits and read as signed. -/
def offsets_stored (moby : MobyClassData) (game : Game) (r : Regions) (H : MobyClassHeader) :
    Prop :=
  H.bangles =
    (if moby.bangles.isSome then (r.bangles_ofs - r.class_header_ofs) / 0x10 % 256 else 0) ∧
  H.corncob = to_signed 16 (to_unsigned 16
    (if game = Game.RAC1 then moby.rac1_short_2e
     else if moby.corncob.isSome then
      (((r.corncob_ofs - r.class_header_ofs) / 0x10 : Nat) : Int) else 0)) ∧
  H.submesh_table_offset =
    (if moby.has_submesh_table then (r.submesh_table_1_ofs : Int) - r.class_header_ofs else 0) ∧
  H.collision =
    (if moby.collision.isSome then (r.collision_ofs : Int) - r.class_header_ofs else 0) ∧
  H.skeleton = (r.skeleton_ofs : Int) - r.class_header_ofs ∧
  H.common_trans = (r.common_trans_ofs : Int) - r.class_header_ofs ∧
  H.joints = (r.joints_ofs : Int) - r.class_header_ofs ∧
  H.sound_defs =
    (if 0 < moby.sound_defs.length then (r.sound_defs_ofs : Int) - r.class_header_ofs else 0) ∧
  H.gif_usage =
    (if r.gif_usage_ofs < r.gif_usage_end then (r.gif_usage_ofs : Int) - r.class_header_ofs
     else 0)

/-- A model of the kind `reads_back`: an empty sequence slot followed by
`sample_sequence`, a bangles block, `sample_collision`, one joint with two
joint lists, one sound definition and three bytes of mystery data. -/
def round_trip_model : MobyClassData :=
  { MobyClassData.empty with
    byte_4 := 0x01020304, unknown_9 := 1, lod_trans := 2, shadow := 3, scale := 0x3f800000,
    mip_dist := 4, bounding_sphere := List.replicate 0x10 5, glow_rgba := -2, mode_bits := -3,
    type := 6, mode_bits2 := 7,
    sequences := [none, some sample_sequence], header_end_offset := 0x50,
    bangles := some ⟨⟨1, 2, 3, 4⟩ :: List.replicate 15 ⟨0, 0, 0, 0⟩, [], []⟩,
    collision := some sample_collision,
    skeleton := [List.replicate 0x40 7], common_trans := List.replicate 0x10 8,
    joints := [[1, 2], []], sound_defs := [List.replicate 0x20 9],
    mystery_data := [1, 2, 3] }

/-- What a written class `b` holds in its submesh tables and behind its sound
definitions, for the write positions `r` (lines 197-236 of `write_moby_class`):
the four submesh tables follow one another with 0x10 bytes for each submesh;
entry `k` of each table holds, in its first four bytes, the position of the
VIF command list of submesh `k` relative to the start of the class, a multiple
of 0x10 inside the payload region of the table (high-detail, low-detail,
metal, bangles submeshes, in this order, behind the sound definitions); the
GIF usage table follows the payloads and ends the buffer. -/
def tables_written (moby : MobyClassData) (dest b : List Nat) (r : Regions) : Prop :=
  r.submesh_table_2_ofs = r.submesh_table_1_ofs + 0x10 * moby.submeshes.length ∧
  r.metal_submesh_table_ofs =
    r.submesh_table_2_ofs + 0x10 * moby.low_detail_submeshes.length ∧
  r.bangles_submesh_table_ofs =
    r.metal_submesh_table_ofs + 0x10 * moby.metal_submeshes.length ∧
  r.submesh_tables_end = r.bangles_submesh_table_ofs +
    0x10 * (moby.bangles.map (fun bg => bg.submeshes.length)).getD 0 ∧
  (∀ k, k < moby.submeshes.length →
    ∃ o, r.sound_defs_end ≤ o ∧ o ≤ r.submeshes_end ∧ o % 0x10 = 0 ∧
      slice b (r.submesh_table_1_ofs + 0x10 * k) 4 = le_bytes 4 (o - dest.length)) ∧
  (∀ k, k < moby.low_detail_submeshes.length →
    ∃ o, r.submeshes_end ≤ o ∧ o ≤ r.low_detail_submeshes_end ∧ o % 0x10 = 0 ∧
      slice b (r.submesh_table_2_ofs + 0x10 * k) 4 = le_bytes 4 (o - dest.length)) ∧
  (∀ k, k < moby.metal_submeshes.length →
    ∃ o, r.low_detail_submeshes_end ≤ o ∧ o ≤ r.metal_submeshes_end ∧ o % 0x10 = 0 ∧
      slice b (r.metal_submesh_table_ofs + 0x10 * k) 4 = le_bytes 4 (o - dest.length)) ∧
  (∀ bg, moby.bangles = some bg → ∀ k, k < bg.submeshes.length →
    ∃ o, r.metal_submeshes_end ≤ o ∧ o ≤ r.bangles_submeshes_end ∧ o % 0x10 = 0 ∧
      slice b (r.bangles_submesh_table_ofs + 0x10 * k) 4 = le_bytes 4 (o - dest.length)) ∧
  (moby.bangles = none → r.bangles_submeshes_end = r.metal_submeshes_end) ∧
  ∃ gif_usage, b.drop r.gif_usage_ofs = gif_usage_bytes gif_usage ∧
    r.gif_usage_end = r.gif_usage_ofs + (gif_usage_bytes gif_usage).length

/-- A model with one empty sequence slot, `header_end_offset` 0x1000 and a
bangles block, which is written at 0x1000. -/
def far_bangles_model : MobyClassData :=
  { MobyClassData.empty with
    sequences := [none], header_end_offset := 0x1000,
    bangles := some ⟨List.replicate 16 ⟨0, 0, 0, 0⟩, [], []⟩ }

/-- Stated from the claim (C7): the end offset of the data of the frame that
the frame table entry `entry` points to: the frame offset (the low 28 bits of
the entry), the 0x10 bytes of the frame header and 0x10 bytes for each unit of
the 16 bit count at offset 6 of the frame header. -/
def frame_data_end (src : List Nat) (entry : List Nat) : Int :=
  ((le_value entry % 0x10000000 : Nat) : Int) + 0x10 +
    ((le_value (slice src (le_value entry % 0x10000000 + 6) 2) : Nat) : Int) * 0x10

/-- Stated from the claim (C7): the end offsets of the frame data of the
sequence at `seq_offset`, whose frame count is the byte at 0x10 of its header
and whose frame table follows the header of 0x1c bytes. -/
def sequence_frame_ends (src : List Nat) (seq_offset : Int) : List Int :=
  (chunks 4 (le_value (slice src (seq_offset.toNat + 0x10) 1))
    (slice src (seq_offset.toNat + 0x1c)
      (le_value (slice src (seq_offset.toNat + 0x10) 1) * 4))).map (frame_data_end src)

/-- Stated from the claim (C7): the end offsets of the frame data of all
sequences of the sequence offset table `seq_offsets`; an entry 0 has no
sequence. -/
def frame_data_ends (src : List Nat) : List (List Nat) → List Int
  | [] => []
  | entry :: rest =>
    (if to_signed 32 (le_value entry) = 0 then []
      else sequence_frame_ends src (to_signed 32 (le_value entry))) ++
    frame_data_ends src rest

/-- Stated from the claim (C7): the end offsets among which the decoder takes
the start of the mystery data of the class in `src`, decoded as `model`: the
ends of the frame data, the end of the collision block when there is one, and
the end of the last submesh table when the header has a submesh table offset
(the table of the bangles submeshes when there is a bangles block, otherwise
the table of the metal submeshes). -/
def mystery_start_candidates (src : List Nat) (model : MobyClassData) : List Int :=
  let header := MobyClassHeader.parse (slice src 0 0x48)
  frame_data_ends src
    (chunks 4 header.sequence_count (slice src 0x48 (header.sequence_count * 4))) ++
  (match model.collision with
    | some c => [header.collision + (0x10 + (c.first_part.length : Int) +
        (c.second_part.length : Int) * 8 + (c.third_part.length : Int))]
    | none => []) ++
  (if header.submesh_table_offset ≠ 0 then
    [match model.bangles with
      | some b => header.submesh_table_offset +
          ((b.bangles.getD 0 ⟨0, 0, 0, 0⟩).submesh_begin : Int) * 0x10 +
          ((b.bangles.getD 0 ⟨0, 0, 0, 0⟩).submesh_count : Int) * 0x10
      | none => header.submesh_table_offset + (header.metal_submesh_begin : Int) * 0x10 +
          (header.metal_submesh_count : Int) * 0x10]
   else [])

/-- Stated from the claim (C7), with the value the decoder starts from: the
start offset of the mystery data is the greatest of the signed 32 bit value at
0x48 (the first entry of the sequence offset table, line 58) and the end
offsets `mystery_start_candidates`. -/
def derived_mystery_start (src : List Nat) (model : MobyClassData) : Int :=
  (mystery_start_candidates src model).foldl max (to_signed 32 (le_value (slice src 0x48 4)))

/-! ### Arithmetic of the index field -/
theorem and_mask_hi (lw : Nat) : lw &&& 0xfffffe00 = lw % 2 ^ 32 / 512 * 512 := by
  apply Nat.eq_of_testBit_eq
  intro i
  have h1 : (0xfffffe00 : Nat) = (2 ^ 23 - 1) <<< 9 := by decide
  have h2 : lw % 2 ^ 32 / 512 * 512 = ((lw % 2 ^ 32) >>> 9) <<< 9 := by
    simp [Nat.shiftLeft_eq, Nat.shiftRight_eq_div_pow]
  rw [Nat.testBit_and, h1, Nat.testBit_shiftLeft, h2, Nat.testBit_shiftLeft,
    Nat.testBit_shiftRight, Nat.testBit_mod_two_pow, Nat.testBit_two_pow_sub_one]
  by_cases h : 9 ≤ i
  · have e : 9 + (i - 9) = i := by omega
    rw [e]
    by_cases h3 : i < 32
    · have : i - 9 < 23 := by omega
      simp [h, h3, this]
    · have : ¬ i - 9 < 23 := by omega
      simp [h, h3, this]
  · simp [h]

theorem with_index_eq (lw x : Nat) (k : Nat) (hk : k ≤ 9) :
    with_index lw x (2 ^ k - 1) = lw % 2 ^ 32 / 512 * 512 + x % 2 ^ k := by
  unfold with_index
  rw [and_mask_hi, Nat.and_pow_two_sub_one_eq_mod]
  have hlt : x % 2 ^ k < 2 ^ 9 :=
    lt_of_lt_of_le (Nat.mod_lt _ (by positivity)) (Nat.pow_le_pow_right (by norm_num) hk)
  have h := Nat.mul_add_lt_is_or hlt (lw % 2 ^ 32 / 512)
  have h512 : (512 : Nat) = 2 ^ 9 := by norm_num
  rw [h512, Nat.mul_comm]
  exact h.symm

theorem with_index_1ff (lw x : Nat) :
    with_index lw x 0x1ff = lw % 2 ^ 32 / 512 * 512 + x % 512 :=
  with_index_eq lw x 9 (le_refl _)

theorem with_index_ff (lw x : Nat) :
    with_index lw x 0xff = lw % 2 ^ 32 / 512 * 512 + x % 256 :=
  with_index_eq lw x 8 (by norm_num)

theorem index_field_with_index (lw x : Nat) : index_field (with_index lw x 0x1ff) = index_field x := by
  rw [with_index_1ff]; unfold index_field; omega

theorem with_index_div (lw x : Nat) (h : lw < 2 ^ 32) : with_index lw x 0x1ff / 512 = lw / 512 := by
  rw [with_index_1ff, Nat.mod_eq_of_lt h]; omega

theorem with_index_lt (lw x : Nat) : with_index lw x 0x1ff < 2 ^ 32 := by
  rw [with_index_1ff]
  have := Nat.mod_lt lw (show 0 < 2 ^ 32 by norm_num)
  omega

theorem set_index_length (vs : List MobyVertex) (d x m : Nat) :
    (set_index vs d x m).length = vs.length := by
  simp [set_index]

theorem set_index_getD_ne (vs : List MobyVertex) (d x m j : Nat) (h : j ≠ d) :
    (set_index vs d x m).getD j MobyVertex.zero = vs.getD j MobyVertex.zero := by
  simp [set_index, List.getD_eq_getElem?_getD, List.getElem?_set, Ne.symm h]

theorem set_index_getD_same (vs : List MobyVertex) (d x m : Nat) (h : d < vs.length) :
    (set_index vs d x m).getD d MobyVertex.zero =
      { (vs.getD d MobyVertex.zero) with
        low_word := with_index (vs.getD d MobyVertex.zero).low_word x m } := by
  simp [set_index, List.getD_eq_getElem?_getD, List.getElem?_set, h]

/-- The state of the loop of lines 549-551 after `k` iterations. -/
theorem shift_loop_spec (vs : List MobyVertex) (k : Nat) (hk : k ≤ vs.length - 7) :
    ((List.range' 7 k).foldl
      (fun vs i => set_index vs (i - 7) (vs.getD i MobyVertex.zero).low_word 0x1ff) vs).length
        = vs.length ∧
    ∀ j, ((List.range' 7 k).foldl
      (fun vs i => set_index vs (i - 7) (vs.getD i MobyVertex.zero).low_word 0x1ff) vs).getD j
        MobyVertex.zero =
      if j < k then
        { (vs.getD j MobyVertex.zero) with
          low_word := with_index (vs.getD j MobyVertex.zero).low_word
            (vs.getD (j + 7) MobyVertex.zero).low_word 0x1ff }
      else vs.getD j MobyVertex.zero := by
  induction k with
  | zero => simp
  | succ k ih =>
    obtain ⟨hl, hg⟩ := ih (by omega)
    rw [List.range'_concat, List.foldl_append]
    simp only [List.foldl_cons, List.foldl_nil, Nat.one_mul]
    refine ⟨by rw [set_index_length, hl], fun j => ?_⟩
    have e : 7 + k - 7 = k := by omega
    rw [e]
    by_cases hj : j = k
    · subst hj
      rw [set_index_getD_same _ _ _ _ (by omega), hg, hg]
      simp [Nat.add_comm]
    · rw [set_index_getD_ne _ _ _ _ _ hj, hg]
      by_cases h2 : j < k
      · simp [h2, Nat.lt_succ_of_lt h2]
      · have : ¬ j < k + 1 := by omega
        simp [h2, this]

theorem read_bytes_ok {src : List Nat} {offset size : Int} {subject : String} {b : List Nat}
    (h : read_bytes src offset size subject = .ok b) :
    0 ≤ offset ∧ 0 ≤ size ∧ offset + size ≤ src.length ∧
      b = (src.drop offset.toNat).take size.toNat := by
  unfold read_bytes at h
  split at h
  · cases h
  · split at h
    · cases h
    · injection h with h
      refine ⟨by omega, by omega, by omega, h.symm⟩

theorem read_vertex_ok {src : List Nat} {offset : Nat} {v : MobyVertex}
    (h : read_vertex src (offset : Int) = .ok v) :
    v = MobyVertex.parse ((src.drop offset).take 0x10) ∧ offset + 0x10 ≤ src.length := by
  unfold read_vertex at h
  split at h
  · cases h
  · rename_i b hb
    injection h with h
    obtain ⟨_, _, h3, h4⟩ := read_bytes_ok hb
    subst h4
    refine ⟨?_, by omega⟩
    rw [← h]
    simp

/-- The state after the loop of lines 561-566. -/
theorem fix_from_padding_spec (src : List Nat) (n : Nat) :
    ∀ (c s ofs : Nat) (vs : List MobyVertex) (ofs1 : Int) (out : List MobyVertex),
    fix_from_padding src (n : Int) ((List.range c).map (fun (k : Nat) => ((s : Nat) : Int) + (k : Int)))
      (ofs : Int) vs = .ok (ofs1, out) →
    7 ≤ n + s →
    ofs1 = ((ofs + 0x10 * c : Nat) : Int) ∧ out.length = vs.length ∧
    ∀ j, out.getD j MobyVertex.zero =
      if n + s - 7 ≤ j ∧ j < n + s - 7 + c then
        { (vs.getD j MobyVertex.zero) with
          low_word := with_index (vs.getD j MobyVertex.zero).low_word
            (MobyVertex.parse ((src.drop (ofs + 0x10 * (j - (n + s - 7)))).take 0x10)).low_word
            0x1ff }
      else vs.getD j MobyVertex.zero := by
  intro c
  induction c with
  | zero =>
    intro s ofs vs ofs1 out h _
    simp only [List.range_zero, List.map_nil, fix_from_padding] at h
    injection h with h
    injection h with h1 h2
    subst h1 h2
    refine ⟨by simp, rfl, fun j => ?_⟩
    have : ¬ (n + s - 7 ≤ j ∧ j < n + s - 7 + 0) := by omega
    rw [if_neg this]
  | succ c ih =>
    intro s ofs vs ofs1 out h hs
    rw [List.range_succ_eq_map, List.map_cons, List.map_map] at h
    unfold fix_from_padding at h
    split at h
    · cases h
    · rename_i vertex hv
      obtain ⟨hv1, hv2⟩ := read_vertex_ok hv
      simp only at h
      split at h
      · cases h
      · rename_i hd
        have e1 : ((n : Int) + ((s : Int) + ((0 : Nat) : Int)) - 7).toNat = n + s - 7 := by omega
        have e2 : ((ofs : Int) + 0x10) = ((ofs + 0x10 : Nat) : Int) := by push_cast; rfl
        have e3 : ((fun k : Nat => ((s : Nat) : Int) + (k : Int)) ∘ Nat.succ) =
            (fun k : Nat => ((s + 1 : Nat) : Int) + (k : Int)) := by
          funext k; simp only [Function.comp, Nat.succ_eq_add_one]; push_cast; ring
        rw [e1, e2, e3] at h
        obtain ⟨h1, h2, h3⟩ := ih (s + 1) (ofs + 0x10) _ ofs1 out h (by omega)
        have hlen : n + s - 7 < vs.length := by
          have : ¬ ((vs.length : Int) ≤ (n : Int) + ((s : Int) + ((0 : Nat) : Int)) - 7) :=
            fun hh => hd (Or.inr hh)
          omega
        refine ⟨by rw [h1]; push_cast; ring, by rw [h2, set_index_length], fun j => ?_⟩
        rw [h3 j]
        by_cases hj : j = n + s - 7
        · have c1 : ¬ (n + (s + 1) - 7 ≤ j ∧ j < n + (s + 1) - 7 + c) := by omega
          have c2 : n + s - 7 ≤ j ∧ j < n + s - 7 + (c + 1) := by omega
          rw [if_neg c1, if_pos c2, hj, set_index_getD_same _ _ _ _ hlen, hv1]
          simp
        · rw [set_index_getD_ne _ _ _ _ _ hj]
          by_cases hc : n + (s + 1) - 7 ≤ j ∧ j < n + (s + 1) - 7 + c
          · have c2 : n + s - 7 ≤ j ∧ j < n + s - 7 + (c + 1) := by omega
            rw [if_pos hc, if_pos c2]
            have e4 : ofs + 0x10 + 0x10 * (j - (n + (s + 1) - 7)) = ofs + 0x10 * (j - (n + s - 7)) := by
              omega
            rw [e4]
          · have c2 : ¬ (n + s - 7 ≤ j ∧ j < n + s - 7 + (c + 1)) := by omega
            rw [if_neg hc, if_neg c2]

/-- The state of the loop of lines 568-573 after `k` iterations. -/
theorem fix_last_loop_spec (last : MobyVertex) (n t start : Int) (vs : List MobyVertex) (k : Nat) :
    ((((List.range k).map (fun (k : Nat) => start + (k : Int))).foldl
      (fun vs i =>
        let dest_index := n + t + i - 7
        if 0 ≤ dest_index ∧ dest_index < (vs.length : Int) then
          set_index vs dest_index.toNat (last.trailing_vertex_indices.getD i.toNat 0) 0x1ff
        else vs) vs).length = vs.length) ∧
    ∀ j : Nat, (((List.range k).map (fun (k : Nat) => start + (k : Int))).foldl
      (fun vs i =>
        let dest_index := n + t + i - 7
        if 0 ≤ dest_index ∧ dest_index < (vs.length : Int) then
          set_index vs dest_index.toNat (last.trailing_vertex_indices.getD i.toNat 0) 0x1ff
        else vs) vs).getD j MobyVertex.zero =
      if j < vs.length ∧ start ≤ (j : Int) + 7 - n - t ∧ (j : Int) + 7 - n - t < start + k then
        { (vs.getD j MobyVertex.zero) with
          low_word := with_index (vs.getD j MobyVertex.zero).low_word
            (last.trailing_vertex_indices.getD ((j : Int) + 7 - n - t).toNat 0) 0x1ff }
      else vs.getD j MobyVertex.zero := by
  induction k with
  | zero =>
    refine ⟨by simp, fun j => ?_⟩
    have : ¬ (j < vs.length ∧ start ≤ (j : Int) + 7 - n - t ∧
        (j : Int) + 7 - n - t < start + ((0 : Nat) : Int)) := by omega
    rw [if_neg this]
    simp
  | succ k ih =>
    obtain ⟨hl, hg⟩ := ih
    rw [List.range_succ, List.map_append, List.foldl_append]
    simp only [List.map_cons, List.map_nil, List.foldl_cons, List.foldl_nil]
    rw [hl]
    by_cases hd : 0 ≤ n + t + (start + (k : Int)) - 7 ∧ n + t + (start + (k : Int)) - 7 < (vs.length : Int)
    · rw [if_pos hd]
      refine ⟨by rw [set_index_length, hl], fun j => ?_⟩
      by_cases hj : j = (n + t + (start + (k : Int)) - 7).toNat
      · have c1 : j < vs.length ∧ start ≤ (j : Int) + 7 - n - t ∧
            (j : Int) + 7 - n - t < start + ((k + 1 : Nat) : Int) := by omega
        have c0 : ¬ (j < vs.length ∧ start ≤ (j : Int) + 7 - n - t ∧
            (j : Int) + 7 - n - t < start + ((k : Nat) : Int)) := by omega
        have e : (j : Int) + 7 - n - t = start + (k : Int) := by omega
        rw [if_pos c1, e, hj, set_index_getD_same _ _ _ _ (by rw [hl]; omega), hg, ← hj, if_neg c0]
      · rw [set_index_getD_ne _ _ _ _ _ hj, hg]
        by_cases c0 : j < vs.length ∧ start ≤ (j : Int) + 7 - n - t ∧
            (j : Int) + 7 - n - t < start + ((k : Nat) : Int)
        · have c1 : j < vs.length ∧ start ≤ (j : Int) + 7 - n - t ∧
            (j : Int) + 7 - n - t < start + ((k + 1 : Nat) : Int) := by omega
          rw [if_pos c0, if_pos c1]
        · have c1 : ¬ (j < vs.length ∧ start ≤ (j : Int) + 7 - n - t ∧
            (j : Int) + 7 - n - t < start + ((k + 1 : Nat) : Int)) := by omega
          rw [if_neg c0, if_neg c1]
    · rw [if_neg hd]
      refine ⟨hl, fun j => ?_⟩
      rw [hg]
      by_cases c0 : j < vs.length ∧ start ≤ (j : Int) + 7 - n - t ∧
          (j : Int) + 7 - n - t < start + ((k : Nat) : Int)
      · have c1 : j < vs.length ∧ start ≤ (j : Int) + 7 - n - t ∧
          (j : Int) + 7 - n - t < start + ((k + 1 : Nat) : Int) := by omega
        rw [if_pos c0, if_pos c1]
      · have c1 : ¬ (j < vs.length ∧ start ≤ (j : Int) + 7 - n - t ∧
          (j : Int) + 7 - n - t < start + ((k + 1 : Nat) : Int)) := by omega
        rw [if_neg c0, if_neg c1]

theorem hi_with_index (a x : Nat) : with_index a x 0x1ff % 2 ^ 32 / 512 = a % 2 ^ 32 / 512 := by
  rw [Nat.mod_eq_of_lt (with_index_lt a x), with_index_1ff]
  omega

theorem fix_vertex_indices_ok {src : List Nat} {vertex_ofs n t : Int} {vs out : List MobyVertex}
    (h : fix_vertex_indices src vertex_ofs n t vs = .ok out) :
    t < 7 ∧ ∃ ofs2 vs2 last,
      fix_from_padding src n
        ((List.range (t - max (7 - n) 0).toNat).map (fun (k : Nat) => max (7 - n) 0 + (k : Int)))
        (vertex_ofs + max (7 - n) 0 * 0x10) (shift_indices_back vs) = .ok (ofs2, vs2) ∧
      read_vertex src (ofs2 - 0x10) = .ok last ∧
      out = fix_from_last last n t vs2 := by
  unfold fix_vertex_indices at h
  simp only at h
  split at h
  · cases h
  · rename_i ht
    refine ⟨by by_contra hc; exact ht hc, ?_⟩
    split at h
    · cases h
    · rename_i ofs2 vs2 hp
      split at h
      · cases h
      · rename_i last hlast
        injection h with h
        exact ⟨ofs2, vs2, last, hp, hlast, h.symm⟩

/-- Three conditional replacements of the index field in a row keep the rest
of the vertex, and the index field is that of the last replacement made. -/
theorem replace_thrice (v : MobyVertex) (x1 x2 x3 : Nat) (c1 c2 c3 : Prop)
    [Decidable c1] [Decidable c2] [Decidable c3] (o1 o2 o3 : MobyVertex)
    (h1 : o1 = if c1 then { v with low_word := with_index v.low_word x1 0x1ff } else v)
    (h2 : o2 = if c2 then { o1 with low_word := with_index o1.low_word x2 0x1ff } else o1)
    (h3 : o3 = if c3 then { o2 with low_word := with_index o2.low_word x3 0x1ff } else o2) :
    o3.trailing_vertex_indices = v.trailing_vertex_indices ∧
    o3.low_word % 2 ^ 32 / 512 = v.low_word % 2 ^ 32 / 512 ∧
    (v.low_word < 2 ^ 32 → o3.low_word < 2 ^ 32) ∧
    index_field o3.low_word =
      if c3 then index_field x3 else if c2 then index_field x2
      else if c1 then index_field x1 else index_field v.low_word := by
  subst h1 h2 h3
  by_cases k1 : c1 <;> by_cases k2 : c2 <;> by_cases k3 : c3 <;>
    simp only [k1, k2, k3, if_true, if_false, hi_with_index, index_field_with_index,
      true_and, and_true] <;>
    first
      | exact fun _ => with_index_lt _ _
      | exact fun hlt => hlt

theorem padding_condition (n j : Nat) (t : Int) (ht : 0 ≤ t) :
    (n + (7 - n) - 7 ≤ j ∧ j < n + (7 - n) - 7 + (t - ((7 - n : Nat) : Int)).toNat) ↔
      (n ≤ j + 7 ∧ j + 7 < n + t.toNat) := by
  omega

theorem last_condition (n j len : Nat) (t : Int) (ht : 0 ≤ t) (hlen : len = n) (hj : j < n) :
    (j < len ∧ max (7 - (n : Int) - t) 0 ≤ (j : Int) + 7 - n - t ∧
        (j : Int) + 7 - n - t < max (7 - (n : Int) - t) 0 +
          ((6 - max (7 - (n : Int) - t) 0).toNat : Int)) ↔
      (n + t.toNat ≤ j + 7 ∧ j + 7 < n + t.toNat + 6) := by
  omega

theorem last_offset (array_ofs n : Nat) (t ofs2 : Int)
    (h : ofs2 = ((array_ofs + 0x10 * n + 0x10 * (7 - n) + 0x10 * (t - ((7 - n : Nat) : Int)).toNat
      : Nat) : Int)) :
    ofs2 - 0x10 = ((array_ofs + 0x10 * (max (n + t.toNat) 7 - 1) : Nat) : Int) := by
  omega

/-- The decoder loop of lines 548-573, vertex by vertex: the bits above the
index field and the rest of the vertex are kept, and for a non-negative
trailing vertex count the index field comes from the vertex seven slots later
or from the trailing supplement. -/
theorem fix_vertex_indices_spec (src : List Nat) (array_ofs n : Nat) (t : Int)
    (vs out : List MobyVertex)
    (h : fix_vertex_indices src ((array_ofs + 0x10 * n : Nat) : Int) (n : Int) t vs = .ok out)
    (hn : vs.length = n) :
    t < 7 ∧ out.length = n ∧
    ∀ j, j < n →
      (out.getD j MobyVertex.zero).trailing_vertex_indices =
        (vs.getD j MobyVertex.zero).trailing_vertex_indices ∧
      (out.getD j MobyVertex.zero).low_word % 2 ^ 32 / 512 =
        (vs.getD j MobyVertex.zero).low_word % 2 ^ 32 / 512 ∧
      ((vs.getD j MobyVertex.zero).low_word < 2 ^ 32 →
        (out.getD j MobyVertex.zero).low_word < 2 ^ 32) ∧
      (0 ≤ t → index_field (out.getD j MobyVertex.zero).low_word =
        if j + 7 < n then index_field (vs.getD (j + 7) MobyVertex.zero).low_word
        else if j + 7 < n + t.toNat + 6 then
          index_field (supplement_as_read src array_ofs n t.toNat (j + 7 - n))
        else index_field (vs.getD j MobyVertex.zero).low_word) := by
  obtain ⟨ht7, ofs2, vs2, last, hp, hlast, hout⟩ := fix_vertex_indices_ok h
  have e1 : max (7 - (n : Int)) 0 = ((7 - n : Nat) : Int) := by omega
  have e2 : ((array_ofs + 0x10 * n : Nat) : Int) + ((7 - n : Nat) : Int) * 0x10 =
      ((array_ofs + 0x10 * n + 0x10 * (7 - n) : Nat) : Int) := by push_cast; ring
  rw [e1, e2] at hp
  obtain ⟨hofs, hl2, hg2⟩ := fix_from_padding_spec src n _ _ _ _ _ _ hp (by omega)
  obtain ⟨hl1, hg1⟩ := shift_loop_spec vs (vs.length - 7) (le_refl _)
  rw [last_offset array_ofs n t ofs2 hofs] at hlast
  obtain ⟨hlast1, _⟩ := read_vertex_ok hlast
  obtain ⟨hl3, hg3⟩ := fix_last_loop_spec last (n : Int) t (max (7 - (n : Int) - t) 0) vs2
    (6 - max (7 - (n : Int) - t) 0).toNat
  have hlen2 : vs2.length = n := by rw [hl2]; exact hl1.trans hn
  refine ⟨ht7, by rw [hout]; exact hl3.trans hlen2, fun j hj => ?_⟩
  obtain ⟨r1, r2, r3, r4⟩ := replace_thrice _ _ _ _ _ _ _ _ _ _ (hg1 j) (hg2 j)
    ((congrArg (fun l => l.getD j MobyVertex.zero) hout).trans (hg3 j))
  refine ⟨r1, r2, r3, fun h0 => ?_⟩
  rw [r4]
  have hc1 : j < vs.length - 7 ↔ j + 7 < n := by omega
  simp only [padding_condition n j t h0, last_condition n j vs2.length t h0 hlen2 hj, hc1]
  by_cases a1 : j + 7 < n
  · rw [if_neg (by omega), if_neg (by omega), if_pos a1, if_pos a1]
  · by_cases a2 : j + 7 < n + t.toNat
    · rw [if_neg (by omega), if_pos (by omega), if_neg a1, if_pos (by omega)]
      unfold supplement_as_read vertex_slot
      rw [if_pos (by omega)]
      have e4 : array_ofs + 0x10 * n + 0x10 * (7 - n) + 0x10 * (j - (n + (7 - n) - 7)) =
          array_ofs + 0x10 * (n + (j + 7 - n)) := by omega
      rw [e4]
    · by_cases a3 : j + 7 < n + t.toNat + 6
      · rw [if_pos (by omega), if_neg a1, if_pos a3]
        unfold supplement_as_read vertex_slot
        rw [if_neg (by omega), hlast1]
        have e5 : ((j : Int) + 7 - n - t).toNat = j + 7 - n - t.toNat := by omega
        rw [e5]
      · rw [if_neg (by omega), if_neg (by omega), if_neg (by omega), if_neg a1, if_neg a3]

theorem bind_eq_ok {ε α β : Type} {x : Except ε α} {f : α → Except ε β} {b : β}
    (h : (x >>= f) = .ok b) : ∃ a, x = .ok a ∧ f a = .ok b := by
  cases x with
  | error e => cases h
  | ok a => exact ⟨a, rfl, h⟩

theorem read_vertex_table_ok {src : List Nat} {format : MobyFormat} {entry : MobySubMeshEntry}
    {base : MobySubMeshBase} {sts : List MobyTexCoord} {submesh : MobySubMesh}
    (h : read_vertex_table src format entry base sts = .ok (some submesh)) :
    ∃ vertex_header after vertices,
      read_vertex_table_header src format entry.vertex_offset = .ok (vertex_header, after) ∧
      read_multiple src 0x10 ((entry.vertex_offset : Int) + vertex_header.vertex_table_offset)
        (wrap_s32 ((vertex_header.vertex_count_2 + vertex_header.vertex_count_4 +
          vertex_header.main_vertex_count : Nat) : Int)) "vertex table" = .ok vertices ∧
      fix_vertex_indices src
        ((entry.vertex_offset : Int) + vertex_header.vertex_table_offset +
          wrap_s32 ((vertex_header.vertex_count_2 + vertex_header.vertex_count_4 +
            vertex_header.main_vertex_count : Nat) : Int) * 0x10)
        (wrap_s32 ((vertex_header.vertex_count_2 + vertex_header.vertex_count_4 +
          vertex_header.main_vertex_count : Nat) : Int))
        (trailing_vertex_count format entry vertex_header
          (wrap_s32 ((vertex_header.vertex_count_2 + vertex_header.vertex_count_4 +
            vertex_header.main_vertex_count : Nat) : Int)))
        (vertices.map MobyVertex.parse) = .ok submesh.vertices ∧
      submesh.toMobySubMeshBase = base := by
  unfold read_vertex_table at h
  obtain ⟨⟨vertex_header, after⟩, h1, h⟩ := bind_eq_ok h
  refine ⟨vertex_header, after, ?_⟩
  simp only at h
  split at h
  · cases h
  · split at h
    · cases h
    · split at h
      · cases h
      · obtain ⟨unknowns, _, h⟩ := bind_eq_ok h
        obtain ⟨dups, _, h⟩ := bind_eq_ok h
        obtain ⟨vertices, h4, h⟩ := bind_eq_ok h
        split at h
        all_goals
          obtain ⟨ued, _, h⟩ := bind_eq_ok h
          obtain ⟨fixed, h6, h⟩ := bind_eq_ok h
          injection h with h
          injection h with h
          subst h
          exact ⟨vertices, h1, h4, h6, rfl⟩

theorem chunks_length (size count : Nat) (b : List Nat) : (chunks size count b).length = count := by
  induction count generalizing b with
  | zero => rfl
  | succ c ih => simp [chunks, ih]

theorem chunks_getD (size : Nat) :
    ∀ (count : Nat) (b : List Nat) (j : Nat), j < count →
      (chunks size count b).getD j [] = (b.drop (size * j)).take size := by
  intro count
  induction count with
  | zero => intro b j hj; omega
  | succ c ih =>
    intro b j hj
    cases j with
    | zero => simp [chunks]
    | succ j =>
      simp only [chunks, List.getD_cons_succ]
      rw [ih _ _ (by omega), List.drop_drop]
      congr 2
      ring

theorem read_multiple_ok {src : List Nat} {size : Nat} {offset count : Int} {subject : String}
    {items : List (List Nat)} (h : read_multiple src size offset count subject = .ok items) :
    0 ≤ offset ∧ 0 ≤ count ∧ offset + count * size ≤ src.length ∧
      items = chunks size count.toNat ((src.drop offset.toNat).take (count * size).toNat) := by
  unfold read_multiple at h
  split at h
  · cases h
  · rename_i b hb
    obtain ⟨h1, _, h3, h4⟩ := read_bytes_ok hb
    split at h
    · cases h
    · injection h with h
      exact ⟨h1, by omega, h3, by rw [← h, h4]⟩

theorem read_multiple_length {src : List Nat} {size : Nat} {offset count : Int} {subject : String}
    {items : List (List Nat)} (h : read_multiple src size offset count subject = .ok items) :
    (items.length : Int) = count := by
  obtain ⟨_, h2, _, h4⟩ := read_multiple_ok h
  rw [h4, chunks_length]
  omega

/-- Item `j` of a successful `read_multiple` is the byte range of the buffer
where it is stored. -/
theorem read_multiple_getD {src : List Nat} {size : Nat} {offset count : Nat} {subject : String}
    {items : List (List Nat)}
    (h : read_multiple src size (offset : Int) (count : Int) subject = .ok items)
    (j : Nat) (hj : j < count) :
    items.getD j [] = (src.drop (offset + size * j)).take size := by
  obtain ⟨_, _, h3, h4⟩ := read_multiple_ok h
  rw [h4]
  have e1 : ((count : Int)).toNat = count := by omega
  have e2 : ((count : Int) * (size : Int)).toNat = count * size := by
    rw [← Int.natCast_mul]; omega
  have e3 : ((offset : Int)).toNat = offset := by omega
  rw [e1, e2, e3, chunks_getD _ _ _ _ hj, List.drop_take, List.take_take, List.drop_drop]
  have hle : size * (j + 1) ≤ count * size := by
    rw [Nat.mul_comm count size]
    exact Nat.mul_le_mul_left _ hj
  have e4 : min size (count * size - size * j) = size := by
    have : size * (j + 1) = size * j + size := by ring
    omega
  rw [e4, Nat.add_comm]

theorem read_moby_submesh_list_mem {vif : VifReader} {src : List Nat} {format : MobyFormat} :
    ∀ {entries : List MobySubMeshEntry} {submeshes : List MobySubMesh},
      read_moby_submesh_list vif src format entries = .ok submeshes →
      ∀ submesh ∈ submeshes, ∃ entry ∈ entries,
        read_moby_submesh vif src format entry = .ok (some submesh) := by
  intro entries
  induction entries with
  | nil =>
    intro submeshes h submesh hs
    simp only [read_moby_submesh_list] at h
    injection h with h
    subst h
    cases hs
  | cons entry rest ih =>
    intro submeshes h submesh hs
    unfold read_moby_submesh_list at h
    split at h
    · cases h
    · rename_i r hr
      split at h
      · cases h
      · rename_i tail htail
        split at h
        · injection h with h
          subst h
          obtain ⟨e, he, hh⟩ := ih htail submesh hs
          exact ⟨e, List.mem_cons_of_mem _ he, hh⟩
        · rename_i first
          injection h with h
          subst h
          rcases List.mem_cons.mp hs with h1 | h1
          · subst h1
            exact ⟨entry, List.mem_cons_self _ _, hr⟩
          · obtain ⟨e, he, hh⟩ := ih htail submesh h1
            exact ⟨e, List.mem_cons_of_mem _ he, hh⟩

theorem read_moby_submesh_ok {vif : VifReader} {src : List Nat} {format : MobyFormat}
    {entry : MobySubMeshEntry} {submesh : MobySubMesh}
    (h : read_moby_submesh vif src format entry = .ok (some submesh)) :
    ∃ unpacks base sts, read_index_and_textures false unpacks 1 = .ok base ∧
      read_vertex_table src format entry base sts = .ok (some submesh) := by
  unfold read_moby_submesh at h
  obtain ⟨cb, _, h⟩ := bind_eq_ok h
  obtain ⟨unpacks, _, h⟩ := bind_eq_ok h
  split at h
  · cases h
  · obtain ⟨sts, _, h⟩ := bind_eq_ok h
    obtain ⟨base, hb, h⟩ := bind_eq_ok h
    exact ⟨unpacks, base, _, hb, h⟩

theorem read_moby_submeshes_mem {vif : VifReader} {src : List Nat} {table_ofs count : Int}
    {format : MobyFormat} {submeshes : List MobySubMesh}
    (h : read_moby_submeshes vif src table_ofs count format = .ok submeshes)
    (submesh : MobySubMesh) (hs : submesh ∈ submeshes) :
    ∃ raw entry, read_multiple src 0x10 table_ofs count "moby submesh table" = .ok raw ∧
      entry ∈ raw.map MobySubMeshEntry.parse ∧
      read_moby_submesh vif src format entry = .ok (some submesh) := by
  unfold read_moby_submeshes at h
  obtain ⟨raw, hraw, h⟩ := bind_eq_ok h
  obtain ⟨entry, he, hh⟩ := read_moby_submesh_list_mem h submesh hs
  exact ⟨raw, entry, hraw, he, hh⟩

theorem le_value_lt (b : List Nat) : le_value b < 256 ^ b.length := by
  induction b with
  | nil => simp [le_value]
  | cons x xs ih =>
    simp only [le_value, List.length_cons, pow_succ]
    have := Nat.mod_lt x (show 0 < 256 by norm_num)
    omega

theorem parse_low_word_lt (b : List Nat) : (MobyVertex.parse b).low_word < 2 ^ 32 := by
  have h := le_value_lt (b.take 4)
  have h2 : (b.take 4).length ≤ 4 := by simp
  have h3 : 256 ^ (b.take 4).length ≤ 256 ^ 4 := Nat.pow_le_pow_right (by norm_num) h2
  have h4 : (256 : Nat) ^ 4 = 2 ^ 32 := by norm_num
  show le_value (b.take 4) < 2 ^ 32
  omega

/-- Every submesh `read_moby_submeshes` returns comes from a table entry whose
vertex table it decoded, and each of its vertices is the stored vertex with the
index field replaced as `fix_vertex_indices_spec` says. -/
theorem decoded_vertices_spec {vif : VifReader} {src : List Nat} {table_ofs count : Int}
    {format : MobyFormat} {submeshes : List MobySubMesh}
    (h : read_moby_submeshes vif src table_ofs count format = .ok submeshes)
    (submesh : MobySubMesh) (hs : submesh ∈ submeshes) :
    ∃ (raw : List (List Nat)) (entry : MobySubMeshEntry)
      (vertex_header : MobyVertexTableHeaderRac1) (after n : Nat) (t : Int),
      read_multiple src 0x10 table_ofs count "moby submesh table" = .ok raw ∧
      entry ∈ raw.map MobySubMeshEntry.parse ∧
      read_vertex_table_header src format entry.vertex_offset = .ok (vertex_header, after) ∧
      (n : Int) = wrap_s32 ((vertex_header.vertex_count_2 + vertex_header.vertex_count_4 +
        vertex_header.main_vertex_count : Nat) : Int) ∧
      t = trailing_vertex_count format entry vertex_header (n : Int) ∧
      t < 7 ∧ submesh.vertices.length = n ∧
      ∀ j, j < n →
        (submesh.vertices.getD j MobyVertex.zero).low_word / 512 =
          (vertex_slot src (entry.vertex_offset + vertex_header.vertex_table_offset) j).low_word
            / 512 ∧
        (0 ≤ t → index_field (submesh.vertices.getD j MobyVertex.zero).low_word =
          if j + 7 < n then
            index_field (vertex_slot src
              (entry.vertex_offset + vertex_header.vertex_table_offset) (j + 7)).low_word
          else if j + 7 < n + t.toNat + 6 then
            index_field (supplement_as_read src
              (entry.vertex_offset + vertex_header.vertex_table_offset) n t.toNat (j + 7 - n))
          else index_field (vertex_slot src
              (entry.vertex_offset + vertex_header.vertex_table_offset) j).low_word) := by
  obtain ⟨raw, entry, hraw, he, hr⟩ := read_moby_submeshes_mem h submesh hs
  obtain ⟨unpacks, base, sts, _, hv⟩ := read_moby_submesh_ok hr
  obtain ⟨vertex_header, after, vertices, h1, h2, h3, _⟩ := read_vertex_table_ok hv
  obtain ⟨_, hc, _, _⟩ := read_multiple_ok h2
  obtain ⟨n, hn⟩ := Int.eq_ofNat_of_zero_le hc
  rw [hn] at h2 h3
  have hlen : (vertices.map MobyVertex.parse).length = n := by
    have := read_multiple_length h2
    rw [List.length_map]
    omega
  have e1 : (entry.vertex_offset : Int) + (vertex_header.vertex_table_offset : Int) =
      ((entry.vertex_offset + vertex_header.vertex_table_offset : Nat) : Int) := by push_cast; rfl
  have e2 : ((entry.vertex_offset + vertex_header.vertex_table_offset : Nat) : Int) +
      (n : Int) * 0x10 =
      ((entry.vertex_offset + vertex_header.vertex_table_offset + 0x10 * n : Nat) : Int) := by
    push_cast; ring
  rw [e1] at h2 h3
  rw [e2] at h3
  obtain ⟨ht, hl, hg⟩ := fix_vertex_indices_spec src _ n _ _ _ h3 hlen
  have hslot : ∀ j, j < n → (vertices.map MobyVertex.parse).getD j MobyVertex.zero =
      vertex_slot src (entry.vertex_offset + vertex_header.vertex_table_offset) j := by
    intro j hj
    have hj2 : j < vertices.length := by rw [List.length_map] at hlen; omega
    rw [List.getD_eq_getElem _ _ (by rw [List.length_map]; exact hj2), List.getElem_map]
    have := read_multiple_getD h2 j hj
    rw [List.getD_eq_getElem _ _ hj2] at this
    rw [this]
    rfl
  refine ⟨raw, entry, vertex_header, after, n, _, hraw, he, h1, hn.symm, rfl, ht, hl, fun j hj => ?_⟩
  obtain ⟨_, g2, g3, g4⟩ := hg j hj
  rw [hslot j hj] at g2 g3 g4
  have hlt := parse_low_word_lt
    ((src.drop (entry.vertex_offset + vertex_header.vertex_table_offset + 0x10 * j)).take 0x10)
  have hlt' : (vertex_slot src (entry.vertex_offset + vertex_header.vertex_table_offset)
      j).low_word < 2 ^ 32 := hlt
  have hlt2 := g3 hlt'
  rw [Nat.mod_eq_of_lt hlt', Nat.mod_eq_of_lt hlt2] at g2
  refine ⟨g2, fun h0 => ?_⟩
  have g5 := g4 h0
  by_cases c1 : j + 7 < n
  · rw [if_pos c1] at g5 ⊢
    rw [g5, hslot (j + 7) c1]
  · rw [if_neg c1] at g5 ⊢
    exact g5

/-! ### The lookback index field (C3, C4, C5) -/

set_option maxRecDepth 100000 in
/-- C3 (code defect): a submesh of eight vertices whose vertex 0 has index
field 0x100 is written by the vertex table writer of `write_moby_submeshes` and
read back by the vertex table reader of `read_moby_submeshes`, in each of the
three formats; the decoded index field of vertex 0 is 0, not 0x100, because
line 616 masks the shifted index with `0xff`. -/
theorem index_bit_lost_on_round_trip :
    index_bit_lost MobyFormat.RAC1 ∧ index_bit_lost MobyFormat.RAC2 ∧
      index_bit_lost MobyFormat.RAC3DL :=
  ⟨⟨_, _, _, rfl, rfl, rfl, rfl⟩, ⟨_, _, _, rfl, rfl, rfl, rfl⟩, ⟨_, _, _, rfl, rfl, rfl, rfl⟩⟩

set_option maxRecDepth 100000 in
/-- C4, the code at the failing input: in `lookback_short_table` the vertex
table has one in-file vertex and two padding vertices (slots 1 and 2, the last
storing 5 in `trailing_vertex_indices[4]`), yet the decoded index of the vertex
is 9, the value `trailing_vertex_indices[4]` of slot 6, which is no padding
vertex of the table.  The vertex table `write_moby_submeshes` writes for one
vertex with index field 3 has 0x40 bytes, the index in
`trailing_vertex_indices[4]` of its last padding vertex (slot 2); the decoder
fails on it, reading past its end, and when 0x40 bytes of value 0xee follow it
the decoded index field is 0xee. -/
theorem lookback_short_table_reads_slot_six :
    (∃ submesh,
      read_moby_submeshes constant_unpacks lookback_short_table 0 1 MobyFormat.RAC2 =
        .ok [submesh] ∧
      submesh.vertices.length = 1 ∧
      trailing_vertex_count MobyFormat.RAC2
        (MobySubMeshEntry.parse (lookback_short_table.take 0x10))
        (MobyVertexTableHeaderRac1.parse 2 ((lookback_short_table.drop 0x10).take 0x10)) 1 = 2 ∧
      index_field (decoded_vertex submesh 0).low_word = 9 ∧
      vertex_slot lookback_short_table 0x20 1 = ⟨0, [0, 0, 0, 0, 0, 0]⟩ ∧
      vertex_slot lookback_short_table 0x20 2 = ⟨0, [0, 0, 0, 0, 5, 0]⟩ ∧
      vertex_slot lookback_short_table 0x20 6 = ⟨0, [0, 0, 0, 0, 9, 0]⟩) ∧
    (∃ dest entry decoded,
      write_vertex_table 0 MobyFormat.RAC2 [] (example_submesh [⟨0x203, List.replicate 6 0⟩])
        MobySubMeshEntry.zero = .ok (dest, entry) ∧
      dest.length = 0x40 ∧
      vertex_slot dest 0x10 2 = ⟨0, [0, 0, 0, 0, 3, 0]⟩ ∧
      read_vertex_table dest MobyFormat.RAC2 entry (example_submesh []).toMobySubMeshBase [] =
        .error "Failed to read vertex table: Attempted to read past end of buffer." ∧
      read_vertex_table (dest ++ List.replicate 0x40 0xee) MobyFormat.RAC2 entry
        (example_submesh []).toMobySubMeshBase [] = .ok (some decoded) ∧
      index_field (decoded_vertex decoded 0).low_word = 0xee) :=
  ⟨⟨_, rfl, rfl, rfl, rfl, rfl, rfl, rfl⟩, ⟨_, _, _, rfl, rfl, rfl, rfl, rfl, rfl⟩⟩

/-- Every submesh `read_moby_submeshes` returns was decoded from a table entry
with `n` in-file vertices and a derived trailing vertex count `t < 7` such that
all bits of `low_word` above the low 9 are as stored; when `0 ≤ t`, the index
of decoded vertex `j < n - 7` is the one stored at vertex `j + 7`; and when
`1 ≤ t` and `7 ≤ n + t`, the indices of the final `min n 7` vertices are the
low words of the padding vertices, overflowing into the
`trailing_vertex_indices` of the last padding vertex. -/
theorem lookback_indices_decoded (vif : VifReader) (src : List Nat) (table_ofs count : Int)
    (format : MobyFormat) (submeshes : List MobySubMesh)
    (h : read_moby_submeshes vif src table_ofs count format = .ok submeshes)
    (submesh : MobySubMesh) (hs : submesh ∈ submeshes) :
    decoded_from src table_ofs count format submesh (lookback_from_padding src submesh) := by
  obtain ⟨raw, entry, vertex_header, after, n, t, h1, h2, h3, h4, h5, h6, h7, h8⟩ :=
    decoded_vertices_spec h submesh hs
  refine ⟨raw, entry, vertex_header, after, n, t, h1, h2, h3, h4, h5, h6, h7, ?_, ?_, ?_⟩
  · intro j hj
    exact (h8 j hj).1
  · intro h0 j hj
    unfold decoded_vertex
    have := (h8 j (by omega)).2 h0
    rw [if_pos hj] at this
    exact this
  · intro ht hnt j hj hj7
    unfold decoded_vertex
    have := (h8 j hj).2 (by omega)
    rw [if_neg (by omega), if_pos (by omega)] at this
    unfold supplement_as_read at this
    refine ⟨fun hlt => ?_, fun hge => ?_⟩
    · rw [if_pos (by omega)] at this
      rw [this]
      have e : n + (j + 7 - n) = j + 7 := by omega
      rw [e]
    · rw [if_neg (by omega)] at this
      rw [this]
      have e : max (n + t.toNat) 7 - 1 = n + t.toNat - 1 := by omega
      rw [e]

set_option maxRecDepth 100000 in
/-- The theorem `lookback_indices_decoded` at the table `lookback_long_table`
(eight in-file vertices, one padding vertex). -/
theorem lookback_indices_decoded_witness :
    read_moby_submeshes constant_unpacks lookback_long_table 0 1 MobyFormat.RAC2 =
      .ok [example_submesh [⟨2, List.replicate 6 0⟩, ⟨3, List.replicate 6 0⟩,
        ⟨4, List.replicate 6 0⟩, ⟨5, List.replicate 6 0⟩, ⟨6, List.replicate 6 0⟩,
        ⟨7, List.replicate 6 0⟩, ⟨8, List.replicate 6 0⟩, ⟨0, List.replicate 6 0⟩]] ∧
    decoded_from lookback_long_table 0 1 MobyFormat.RAC2
      (example_submesh [⟨2, List.replicate 6 0⟩, ⟨3, List.replicate 6 0⟩,
        ⟨4, List.replicate 6 0⟩, ⟨5, List.replicate 6 0⟩, ⟨6, List.replicate 6 0⟩,
        ⟨7, List.replicate 6 0⟩, ⟨8, List.replicate 6 0⟩, ⟨0, List.replicate 6 0⟩])
      (lookback_from_padding lookback_long_table
        (example_submesh [⟨2, List.replicate 6 0⟩, ⟨3, List.replicate 6 0⟩,
          ⟨4, List.replicate 6 0⟩, ⟨5, List.replicate 6 0⟩, ⟨6, List.replicate 6 0⟩,
          ⟨7, List.replicate 6 0⟩, ⟨8, List.replicate 6 0⟩, ⟨0, List.replicate 6 0⟩])) :=
  ⟨rfl, lookback_indices_decoded constant_unpacks lookback_long_table 0 1 MobyFormat.RAC2 _ rfl _
    (List.mem_singleton_self _)⟩

set_option maxRecDepth 100000 in
/-- C5, as stated, fails: in `lookback_long_table` the index field stored at
position 0 is 1, and the reconstructed index field of vertex 7 is 0 (it comes
from the trailing supplement), not the field stored seven vertices earlier;
the reconstructed index field of vertex 0 is 2, the field stored at position 7.
In `lookback_short_table`, with one in-file vertex and two padding vertices
(fewer than seven slots), the reconstructed index field of the vertex is 9
while entry 6 of the trailing supplement is 5. -/
theorem lookback_is_not_seven_earlier :
    (∃ submesh,
      read_moby_submeshes constant_unpacks lookback_long_table 0 1 MobyFormat.RAC2 =
        .ok [submesh] ∧
      submesh.vertices.length = 8 ∧
      index_field (decoded_vertex submesh 7).low_word = 0 ∧
      index_field (vertex_slot lookback_long_table 0x20 (7 - 7)).low_word = 1 ∧
      index_field (decoded_vertex submesh 0).low_word = 2 ∧
      index_field (vertex_slot lookback_long_table 0x20 (0 + 7)).low_word = 2) ∧
    (∃ submesh,
      read_moby_submeshes constant_unpacks lookback_short_table 0 1 MobyFormat.RAC2 =
        .ok [submesh] ∧
      submesh.vertices.length = 1 ∧
      index_field (decoded_vertex submesh 0).low_word = 9 ∧
      index_field (trailing_supplement lookback_short_table 0x20 1 2 (0 + 7 - 1)) = 5) :=
  ⟨⟨_, rfl, rfl, rfl, rfl, rfl, rfl⟩, ⟨_, rfl, rfl, rfl, rfl⟩⟩

/-- C5 (amended): every submesh `read_moby_submeshes` returns was decoded from
a table entry with `n` in-file vertices and trailing vertex count `t` such
that, when `1 ≤ t` and `7 ≤ n + t`, the reconstructed index field of vertex `i`
equals the index field stored seven vertices later (at `i + 7`) when
`i + 7 < n`, and entry `i + 7 - n` of the trailing-index supplement (the low
words of the padding vertices, then the `trailing_vertex_indices` of the last
padding vertex) otherwise. -/
theorem lookback_seven_later (vif : VifReader) (src : List Nat) (table_ofs count : Int)
    (format : MobyFormat) (submeshes : List MobySubMesh)
    (h : read_moby_submeshes vif src table_ofs count format = .ok submeshes)
    (submesh : MobySubMesh) (hs : submesh ∈ submeshes) :
    decoded_from src table_ofs count format submesh (lookback_invariant src submesh) := by
  obtain ⟨raw, entry, vertex_header, after, n, t, h1, h2, h3, h4, h5, h6, h7, h8⟩ :=
    decoded_vertices_spec h submesh hs
  refine ⟨raw, entry, vertex_header, after, n, t, h1, h2, h3, h4, h5, h6, h7, ?_⟩
  intro ht hnt i hi
  unfold decoded_vertex
  have := (h8 i hi).2 (by omega)
  by_cases c : i + 7 < n
  · rw [if_pos c] at this ⊢
    exact this
  · rw [if_neg c, if_pos (by omega)] at this
    rw [if_neg c, this]
    unfold supplement_as_read trailing_supplement
    have e : max (n + t.toNat) 7 - 1 = n + t.toNat - 1 := by omega
    rw [e]

set_option maxRecDepth 100000 in
/-- The theorem `lookback_seven_later` at the table `lookback_long_table`
(eight in-file vertices, one padding vertex): the index field of vertex 0 is
the one stored at position 7, those of the vertices 1 to 7 are the entries of
the trailing supplement. -/
theorem lookback_seven_later_witness :
    read_moby_submeshes constant_unpacks lookback_long_table 0 1 MobyFormat.RAC2 =
      .ok [example_submesh [⟨2, List.replicate 6 0⟩, ⟨3, List.replicate 6 0⟩,
        ⟨4, List.replicate 6 0⟩, ⟨5, List.replicate 6 0⟩, ⟨6, List.replicate 6 0⟩,
        ⟨7, List.replicate 6 0⟩, ⟨8, List.replicate 6 0⟩, ⟨0, List.replicate 6 0⟩]] ∧
    decoded_from lookback_long_table 0 1 MobyFormat.RAC2
      (example_submesh [⟨2, List.replicate 6 0⟩, ⟨3, List.replicate 6 0⟩,
        ⟨4, List.replicate 6 0⟩, ⟨5, List.replicate 6 0⟩, ⟨6, List.replicate 6 0⟩,
        ⟨7, List.replicate 6 0⟩, ⟨8, List.replicate 6 0⟩, ⟨0, List.replicate 6 0⟩])
      (lookback_invariant lookback_long_table
        (example_submesh [⟨2, List.replicate 6 0⟩, ⟨3, List.replicate 6 0⟩,
          ⟨4, List.replicate 6 0⟩, ⟨5, List.replicate 6 0⟩, ⟨6, List.replicate 6 0⟩,
          ⟨7, List.replicate 6 0⟩, ⟨8, List.replicate 6 0⟩, ⟨0, List.replicate 6 0⟩])) :=
  ⟨rfl, lookback_seven_later constant_unpacks lookback_long_table 0 1 MobyFormat.RAC2 _ rfl _
    (List.mem_singleton_self _)⟩

/-! ### The secret index count (C6) -/

theorem read_texture_primitives_succ (metal : Bool) (texture_data : List Nat) (count i : Nat) :
    read_texture_primitives metal texture_data (count + 1) i =
    match read_sint texture_data 4 (i * 0x10 + 0xc) "extra index" with
    | .error e => .error e
    | .ok extra =>
      match read_bytes texture_data (i * 0x40) 0x40 "moby texture primitive" with
      | .error e => .error e
      | .ok raw =>
        let prim : MobyTexturePrimitive := ⟨raw⟩
        if metal ∧ ¬ (prim.d3_tex0_data_lo = MOBY_TEX_CHROME ∨ prim.d3_tex0_data_lo = MOBY_TEX_GLASS)
        then .error "Metal moby submesh has a bad texture index."
        else if ¬ metal ∧ ¬ (MOBY_TEX_NONE ≤ prim.d3_tex0_data_lo)
        then .error "Regular moby submesh has a texture index that is too low."
        else
          match read_texture_primitives metal texture_data count (i + 1) with
          | .error e => .error e
          | .ok (secrets, prims) => .ok (to_unsigned 8 extra :: secrets, prim :: prims) := rfl

theorem read_texture_primitives_length (metal : Bool) (texture_data : List Nat) :
    ∀ (count i : Nat) (secrets : List Nat) (prims : List MobyTexturePrimitive),
      read_texture_primitives metal texture_data count i = .ok (secrets, prims) →
      secrets.length = count ∧ prims.length = count := by
  intro count
  induction count with
  | zero =>
    intro i secrets prims h
    have e : read_texture_primitives metal texture_data 0 i = .ok ([], []) := rfl
    rw [e] at h
    injection h with h
    injection h with h1 h2
    subst h1 h2
    exact ⟨rfl, rfl⟩
  | succ c ih =>
    intro i secrets prims h
    rw [read_texture_primitives_succ] at h
    cases h1 : read_sint texture_data 4 (↑i * 0x10 + 0xc) "extra index" with
    | error e => rw [h1] at h; cases h
    | ok extra =>
      rw [h1] at h
      cases h2 : read_bytes texture_data (↑i * 0x40) 0x40 "moby texture primitive" with
      | error e => rw [h2] at h; cases h
      | ok raw =>
        rw [h2] at h
        simp only at h
        split at h
        · cases h
        · split at h
          · cases h
          · cases h3 : read_texture_primitives metal texture_data c (i + 1) with
            | error e => rw [h3] at h; cases h
            | ok r =>
              obtain ⟨s, p⟩ := r
              rw [h3] at h
              injection h with h
              injection h with h4 h5
              subst h4 h5
              obtain ⟨g1, g2⟩ := ih _ _ _ h3
              simp [g1, g2]

theorem read_index_and_textures_ok {metal : Bool} {unpacks : List (List Nat)} {at_index : Nat}
    {base : MobySubMeshBase} (h : read_index_and_textures metal unpacks at_index = .ok base) :
    base.secret_indices.length = base.textures.length + 1 := by
  unfold read_index_and_textures at h
  split at h
  · cases h
  · split at h
    · cases h
    · split at h
      · cases h
      · split at h
        · cases h
        · simp only at h
          split at h
          · split at h
            · cases h
            · split at h
              · cases h
              · rename_i s p hrec
                injection h with h
                subst h
                obtain ⟨g1, g2⟩ := read_texture_primitives_length _ _ _ _ _ _ hrec
                simp [g1, g2]
          · injection h with h
            subst h
            rfl

theorem read_moby_metal_submesh_list_mem {vif : VifReader} {src : List Nat} :
    ∀ {entries : List MobySubMeshEntry} {submeshes : List MobyMetalSubMesh},
      read_moby_metal_submesh_list vif src entries = .ok submeshes →
      ∀ submesh ∈ submeshes, ∃ entry ∈ entries,
        read_moby_metal_submesh vif src entry = .ok submesh := by
  intro entries
  induction entries with
  | nil =>
    intro submeshes h submesh hs
    simp only [read_moby_metal_submesh_list] at h
    injection h with h
    subst h
    cases hs
  | cons entry rest ih =>
    intro submeshes h submesh hs
    unfold read_moby_metal_submesh_list at h
    split at h
    · cases h
    · rename_i first hfirst
      split at h
      · cases h
      · rename_i tail htail
        injection h with h
        subst h
        rcases List.mem_cons.mp hs with h1 | h1
        · subst h1
          exact ⟨entry, List.mem_cons_self _ _, hfirst⟩
        · obtain ⟨e, he, hh⟩ := ih htail submesh h1
          exact ⟨e, List.mem_cons_of_mem _ he, hh⟩

theorem read_moby_metal_submesh_ok {vif : VifReader} {src : List Nat}
    {entry : MobySubMeshEntry} {submesh : MobyMetalSubMesh}
    (h : read_moby_metal_submesh vif src entry = .ok submesh) :
    ∃ unpacks, read_index_and_textures true unpacks 0 = .ok submesh.toMobySubMeshBase := by
  unfold read_moby_metal_submesh at h
  obtain ⟨cb, _, h⟩ := bind_eq_ok h
  obtain ⟨unpacks, _, h⟩ := bind_eq_ok h
  obtain ⟨base, hb, h⟩ := bind_eq_ok h
  obtain ⟨vh, _, h⟩ := bind_eq_ok h
  obtain ⟨vertices, _, h⟩ := bind_eq_ok h
  injection h with h
  subst h
  exact ⟨unpacks, hb⟩

/-- C6: every submesh returned by `read_moby_submeshes` and every metal submesh
returned by `read_moby_metal_submeshes` has one secret index more than it has
textures, so both assertions of `write_shared_moby_vif_packets` on
`secret_indices` hold for it. -/
theorem secret_index_count (vif : VifReader) (src : List Nat) (table_ofs count : Int)
    (format : MobyFormat) (submeshes : List MobySubMesh)
    (metal_vif : VifReader) (metal_src : List Nat) (metal_table_ofs metal_count : Int)
    (metal_submeshes : List MobyMetalSubMesh)
    (h : read_moby_submeshes vif src table_ofs count format = .ok submeshes)
    (hm : read_moby_metal_submeshes metal_vif metal_src metal_table_ofs metal_count =
      .ok metal_submeshes) :
    (∀ s ∈ submeshes, s.secret_indices.length = s.textures.length + 1 ∧
      0 < s.secret_indices.length) ∧
    (∀ s ∈ metal_submeshes, s.secret_indices.length = s.textures.length + 1 ∧
      0 < s.secret_indices.length) := by
  constructor
  · intro s hs
    obtain ⟨raw, entry, _, _, hr⟩ := read_moby_submeshes_mem h s hs
    obtain ⟨unpacks, base, sts, hb, hv⟩ := read_moby_submesh_ok hr
    obtain ⟨_, _, _, _, _, _, hbase⟩ := read_vertex_table_ok hv
    have := read_index_and_textures_ok hb
    rw [hbase]
    omega
  · intro s hs
    unfold read_moby_metal_submeshes at hm
    obtain ⟨raw, _, hm⟩ := bind_eq_ok hm
    obtain ⟨entry, _, hr⟩ := read_moby_metal_submesh_list_mem hm s hs
    obtain ⟨unpacks, hb⟩ := read_moby_metal_submesh_ok hr
    have := read_index_and_textures_ok hb
    omega

set_option maxRecDepth 100000 in
/-- The theorem `secret_index_count` at `lookback_long_table` (one submesh with
one texture) and `metal_table` (one metal submesh without textures). -/
theorem secret_index_count_witness :
    (∀ s ∈ [example_submesh [⟨2, List.replicate 6 0⟩, ⟨3, List.replicate 6 0⟩,
        ⟨4, List.replicate 6 0⟩, ⟨5, List.replicate 6 0⟩, ⟨6, List.replicate 6 0⟩,
        ⟨7, List.replicate 6 0⟩, ⟨8, List.replicate 6 0⟩, ⟨0, List.replicate 6 0⟩]],
      s.secret_indices.length = s.textures.length + 1 ∧ 0 < s.secret_indices.length) ∧
    (∀ s ∈ [example_metal_submesh],
      s.secret_indices.length = s.textures.length + 1 ∧ 0 < s.secret_indices.length) :=
  secret_index_count constant_unpacks lookback_long_table 0 1 MobyFormat.RAC2 _
    constant_metal_unpacks metal_table 0 1 _ rfl rfl

/-! ### Decoding a class (C9) -/

theorem read_moby_sequence_list_length (env : Env) (src : List Nat) :
    ∀ (offsets : List (List Nat)) (m : Int) (sequences : List (Option MobySequence)) (m1 : Int),
      read_moby_sequence_list env src offsets m = .ok (sequences, m1) →
      sequences.length = offsets.length := by
  intro offsets
  induction offsets with
  | nil =>
    intro m sequences m1 h
    have e : read_moby_sequence_list env src [] m = .ok ([], m) := rfl
    rw [e] at h
    injection h with h
    injection h with h1 h2
    subst h1
    rfl
  | cons entry rest ih =>
    intro m sequences m1 h
    unfold read_moby_sequence_list at h
    simp only at h
    split at h
    · split at h
      · cases h
      · rename_i s m2 hrec
        injection h with h
        injection h with h1 h2
        subst h1
        simp [ih _ _ _ hrec]
    · split at h
      · cases h
      · split at h
        · cases h
        · rename_i s m2 hrec
          injection h with h
          injection h with h1 h2
          subst h1
          simp [ih _ _ _ hrec]

theorem read_moby_sequences_length {env : Env} {src : List Nat} {count m : Int}
    {sequences : List (Option MobySequence)} {m1 : Int}
    (h : read_moby_sequences env src count m = .ok (sequences, m1)) :
    (sequences.length : Int) = count := by
  unfold read_moby_sequences at h
  obtain ⟨offsets, h1, h⟩ := bind_eq_ok h
  rw [read_moby_sequence_list_length env src _ _ _ _ h]
  exact read_multiple_length h1

/-- What a successful `read_moby_class` has passed on its way: every read
succeeded, the check of line 98 held, and the model is assembled from the
values read. -/
theorem read_moby_class_ok {env : Env} {src : List Nat} {game : Game} {model : MobyClassData}
    (h : read_moby_class env src game = .ok model) :
    ∃ hb byte_4 m0 seq_offsets bangles corncob sequences collision skeleton common_trans joints
      sound_defs tables mystery_data,
      read_bytes src 0 0x48 "moby class header" = .ok hb ∧
      read_uint src 4 4 "moby class header" = .ok byte_4 ∧
      read_sint src 4 0x48 "moby sequences" = .ok m0 ∧
      read_multiple src 4 0x48 (MobyClassHeader.parse hb).sequence_count "sequence offsets" =
        .ok seq_offsets ∧
      read_class_bangles src (MobyClassHeader.parse hb) = .ok bangles ∧
      read_class_corncob src game (MobyClassHeader.parse hb) = .ok corncob ∧
      read_moby_sequences env src (MobyClassHeader.parse hb).sequence_count m0 = .ok sequences ∧
      1 ≤ (MobyClassHeader.parse hb).sequence_count ∧
      read_class_collision src (MobyClassHeader.parse hb) = .ok collision ∧
      read_multiple src 0x40 (MobyClassHeader.parse hb).skeleton
        (MobyClassHeader.parse hb).joint_count "skeleton" = .ok skeleton ∧
      read_bytes src (MobyClassHeader.parse hb).common_trans
        (((MobyClassHeader.parse hb).joint_count : Int) * 0x10) "moby common trans" =
          .ok common_trans ∧
      read_moby_joints src (MobyClassHeader.parse hb).joints = .ok joints ∧
      read_multiple src env.sizeof_MobySoundDef (MobyClassHeader.parse hb).sound_defs
        (MobyClassHeader.parse hb).sound_count "moby sound defs" = .ok sound_defs ∧
      read_class_submeshes env src (MobyClassHeader.parse hb)
        (read_format game (MobyClassHeader.parse hb).rac12_byte_b).1 bangles
        (mystery_after_collision (MobyClassHeader.parse hb) collision sequences.2) = .ok tables ∧
      read_bytes src tables.mystery_data_ofs
        ((MobyClassHeader.parse hb).skeleton - tables.mystery_data_ofs) "moby mystery data" =
          .ok mystery_data ∧
      model =
        { byte_4 := byte_4, unknown_9 := (MobyClassHeader.parse hb).unknown_9,
          rac1_byte_a := (MobyClassHeader.parse hb).rac1_byte_a,
          rac1_byte_b := (MobyClassHeader.parse hb).rac12_byte_b,
          lod_trans := (MobyClassHeader.parse hb).lod_trans,
          shadow := (MobyClassHeader.parse hb).shadow, scale := (MobyClassHeader.parse hb).scale,
          mip_dist := (MobyClassHeader.parse hb).mip_dist,
          bounding_sphere := (MobyClassHeader.parse hb).bounding_sphere,
          glow_rgba := (MobyClassHeader.parse hb).glow_rgba,
          mode_bits := (MobyClassHeader.parse hb).mode_bits,
          type := (MobyClassHeader.parse hb).type,
          mode_bits2 := (MobyClassHeader.parse hb).mode_bits2,
          force_rac1_format := (read_format game (MobyClassHeader.parse hb).rac12_byte_b).2,
          header_end_offset := read_header_end_offset game (MobyClassHeader.parse hb) seq_offsets,
          bangles := tables.bangles,
          rac1_short_2e := if game = Game.RAC1 then (MobyClassHeader.parse hb).corncob else 0,
          corncob := corncob, sequences := sequences.1, collision := collision,
          skeleton := skeleton, common_trans := common_trans, joints := joints,
          sound_defs := sound_defs, has_submesh_table := tables.has_submesh_table,
          submesh_table_offset := tables.submesh_table_offset, submeshes := tables.submeshes,
          low_detail_submeshes := tables.low_detail_submeshes,
          metal_submeshes := tables.metal_submeshes, mystery_data := mystery_data } := by
  unfold read_moby_class at h
  obtain ⟨hb, h1, h⟩ := bind_eq_ok h
  obtain ⟨byte_4, h2, h⟩ := bind_eq_ok h
  obtain ⟨m0, h3, h⟩ := bind_eq_ok h
  obtain ⟨seq_offsets, h4, h⟩ := bind_eq_ok h
  obtain ⟨bangles, h5, h⟩ := bind_eq_ok h
  obtain ⟨corncob, h6, h⟩ := bind_eq_ok h
  obtain ⟨sequences, h7, h⟩ := bind_eq_ok h
  split at h
  · cases h
  · rename_i hc
    obtain ⟨collision, h8, h⟩ := bind_eq_ok h
    obtain ⟨skeleton, h9, h⟩ := bind_eq_ok h
    obtain ⟨common_trans, h10, h⟩ := bind_eq_ok h
    obtain ⟨joints, h11, h⟩ := bind_eq_ok h
    obtain ⟨sound_defs, h12, h⟩ := bind_eq_ok h
    obtain ⟨tables, h13, h⟩ := bind_eq_ok h
    obtain ⟨mystery_data, h14, h⟩ := bind_eq_ok h
    injection h with h
    exact ⟨hb, byte_4, m0, seq_offsets, bangles, corncob, sequences, collision, skeleton,
      common_trans, joints, sound_defs, tables, mystery_data, h1, h2, h3, h4, h5, h6, h7,
      by omega, h8, h9, h10, h11, h12, h13, h14, h.symm⟩

/-- C9: `read_moby_class` fails with an error on every buffer whose header has
`sequence_count = 0`, whatever else the buffer holds, and a model it returns
never has an empty sequence list. -/
theorem read_fails_without_sequences (env : Env) (src : List Nat) (game : Game) :
    ((MobyClassHeader.parse (src.take 0x48)).sequence_count = 0 →
      ∃ e, read_moby_class env src game = .error e) ∧
    (∀ model, read_moby_class env src game = .ok model → model.sequences ≠ []) := by
  have key : ∀ model, read_moby_class env src game = .ok model →
      1 ≤ (MobyClassHeader.parse (src.take 0x48)).sequence_count ∧ model.sequences ≠ [] := by
    intro model h
    obtain ⟨hb, _, _, _, _, _, sequences, _, _, _, _, _, _, _, h1, _, _, _, _, _, h7, hc, _, _,
      _, _, _, _, _, hm⟩ := read_moby_class_ok h
    obtain ⟨_, _, _, e⟩ := read_bytes_ok h1
    have e2 : hb = src.take 0x48 := by rw [e]; simp
    have hl := @read_moby_sequences_length _ _ _ _ sequences.1 sequences.2 h7
    rw [hm]
    rw [← e2]
    refine ⟨hc, fun hnil => ?_⟩
    simp only at hnil
    rw [hnil] at hl
    simp at hl
    omega
  refine ⟨fun h0 => ?_, fun model h => (key model h).2⟩
  cases hr : read_moby_class env src game with
  | error e => exact ⟨e, rfl⟩
  | ok model =>
    have := (key model hr).1
    omega

set_option maxRecDepth 100000 in
/-- The theorem `read_fails_without_sequences` at a buffer of 0x60 zero bytes
(sequence count 0, joint count 0) for the game RAC2. -/
theorem read_fails_without_sequences_witness :
    (MobyClassHeader.parse ((List.replicate 0x60 0).take 0x48)).sequence_count = 0 ∧
    ∃ e, read_moby_class example_env (List.replicate 0x60 0) Game.RAC2 = .error e :=
  ⟨rfl, (read_fails_without_sequences example_env (List.replicate 0x60 0) Game.RAC2).1 rfl⟩

/-! ### The checks of the encoder (C10) -/

theorem push_trailing_bound (n : Nat) (tvi : List Nat) :
    ∀ (fuel : Nat) (vertices : List MobyVertex) (trailing : Nat),
      (push_trailing n tvi fuel vertices trailing).2 ≤
        trailing + (6 - vertices.length % 4) % 4 := by
  intro fuel
  induction fuel with
  | zero =>
    intro vertices trailing
    simp [push_trailing]
  | succ fuel ih =>
    intro vertices trailing
    unfold push_trailing
    split
    · rename_i hc
      refine le_trans (ih _ _) ?_
      simp only [List.length_append, List.length_singleton]
      omega
    · simp

theorem adjust_vertex_indices_length (orig : List MobyVertex) :
    (adjust_vertex_indices orig).2.length = 7 := by
  simp only [adjust_vertex_indices, List.length_append, List.length_replicate, List.length_map,
    List.length_range']
  omega

/-- The assertion of line 665 never fails. -/
theorem encode_vertices_ok (orig : List MobyVertex) : ∃ vs, encode_vertices orig = .ok vs := by
  unfold encode_vertices
  have h1 := adjust_vertex_indices_length orig
  have h2 := push_trailing_bound orig.length (adjust_vertex_indices orig).2
    ((adjust_vertex_indices orig).2.length + 1) (adjust_vertex_indices orig).1 0
  simp only
  rw [if_pos (by omega)]
  exact ⟨_, rfl⟩

theorem write_vertex_table_ok (class_header_ofs : Nat) (format : MobyFormat) (dest : List Nat)
    (submesh : MobySubMesh) (entry : MobySubMeshEntry) :
    ∃ r, write_vertex_table class_header_ofs format dest submesh entry = .ok r := by
  obtain ⟨vs, hvs⟩ := encode_vertices_ok submesh.vertices
  unfold write_vertex_table
  rw [hvs]
  exact ⟨_, rfl⟩

theorem write_shared_ok (vifw : VifWriter) (class_header_ofs : Nat) (dest : List Nat)
    (gif_usage : Option (List MobyGifUsageTableEntry)) (submesh : MobySubMeshBase)
    (h : submesh_base_ok gif_usage.isSome submesh) :
    ∃ d g r, write_shared_moby_vif_packets vifw class_header_ofs dest gif_usage submesh =
      .ok (d, g, r) ∧ g.isSome = gif_usage.isSome := by
  obtain ⟨h1, h2, h3⟩ := h
  unfold write_shared_moby_vif_packets
  simp only
  rw [if_neg (by omega)]
  by_cases ht : 0 < submesh.textures.length
  · rw [if_pos ht, if_neg (by have := h2 ht; omega)]
    cases gif_usage with
    | none => exact ⟨_, _, _, rfl, rfl⟩
    | some table =>
      simp only
      rw [if_neg (by have := h3 rfl; omega)]
      exact ⟨_, _, _, rfl, rfl⟩
  · rw [if_neg ht]
    exact ⟨_, _, _, rfl, rfl⟩

theorem write_moby_submesh_ok (vifw : VifWriter) (class_header_ofs : Nat) (format : MobyFormat)
    (dest : List Nat) (gif_usage : List MobyGifUsageTableEntry) (table_ofs : Nat)
    (submesh : MobySubMesh) (h : submesh_base_ok true submesh.toMobySubMeshBase) :
    ∃ r, write_moby_submesh vifw class_header_ofs format dest gif_usage table_ofs submesh =
      .ok r := by
  unfold write_moby_submesh
  simp only
  obtain ⟨d, g, r, hs, _⟩ := write_shared_ok vifw class_header_ofs
    (pad dest 0x10 ++ vifw
      { interrupt := 0, cmd := 0b1110000, num := submesh.sts.length, vnvl := VifVnVl.V2_16,
        addr := 0xc2, data := (submesh.sts.map MobyTexCoord.bytes).flatten })
    (some gif_usage) submesh.toMobySubMeshBase h
  rw [hs]
  simp only [bind, Except.bind]
  obtain ⟨r2, hr2⟩ := write_vertex_table_ok class_header_ofs format (pad d 0x10) submesh
    { MobySubMeshEntry.zero with
      vif_list_offset := (pad dest 0x10).length - class_header_ofs
      vif_list_size := ((pad d 0x10).length - (pad dest 0x10).length) / 0x10
      vif_list_texture_unpack_offset := r }
  rw [hr2]
  exact ⟨_, rfl⟩

theorem write_moby_submeshes_ok (vifw : VifWriter) (class_header_ofs : Nat)
    (format : MobyFormat) :
    ∀ (submeshes : List MobySubMesh) (dest : List Nat) (gif_usage : List MobyGifUsageTableEntry)
      (table_ofs : Nat), (∀ s ∈ submeshes, submesh_base_ok true s.toMobySubMeshBase) →
      ∃ r, write_moby_submeshes vifw class_header_ofs format dest gif_usage table_ofs submeshes =
        .ok r := by
  intro submeshes
  induction submeshes with
  | nil => intro dest gif_usage table_ofs _; exact ⟨_, rfl⟩
  | cons s rest ih =>
    intro dest gif_usage table_ofs h
    obtain ⟨⟨d, g⟩, hr⟩ := write_moby_submesh_ok vifw class_header_ofs format dest gif_usage
      table_ofs s (h s (List.mem_cons_self _ _))
    unfold write_moby_submeshes
    rw [hr]
    exact ih d g (table_ofs + 0x10) (fun x hx => h x (List.mem_cons_of_mem _ hx))

theorem write_moby_metal_submeshes_ok (vifw : VifWriter) (class_header_ofs : Nat) :
    ∀ (submeshes : List MobyMetalSubMesh) (dest : List Nat) (table_ofs : Nat),
      (∀ s ∈ submeshes, submesh_base_ok false s.toMobySubMeshBase) →
      ∃ r, write_moby_metal_submeshes vifw class_header_ofs dest table_ofs submeshes = .ok r := by
  intro submeshes
  induction submeshes with
  | nil => intro dest table_ofs _; exact ⟨_, rfl⟩
  | cons s rest ih =>
    intro dest table_ofs h
    obtain ⟨d, g, r, hs, _⟩ := write_shared_ok vifw class_header_ofs (pad dest 0x10) none
      s.toMobySubMeshBase (h s (List.mem_cons_self _ _))
    have hr : ∃ d1, write_moby_metal_submesh vifw class_header_ofs dest table_ofs s = .ok d1 := by
      unfold write_moby_metal_submesh
      simp only
      rw [hs]
      exact ⟨_, rfl⟩
    obtain ⟨d1, hd1⟩ := hr
    unfold write_moby_metal_submeshes
    rw [hd1]
    exact ih d1 (table_ofs + 0x10) (fun x hx => h x (List.mem_cons_of_mem _ hx))

theorem write_class_payloads_ok (env : Env) (class_header_ofs : Nat) (format : MobyFormat)
    (tables : ClassFront) (dest : List Nat) (moby : MobyClassData)
    (h1 : ∀ s ∈ moby.submeshes, submesh_base_ok true s.toMobySubMeshBase)
    (h2 : ∀ s ∈ moby.low_detail_submeshes, submesh_base_ok true s.toMobySubMeshBase)
    (h3 : ∀ s ∈ moby.metal_submeshes, submesh_base_ok false s.toMobySubMeshBase)
    (h4 : ∀ b ∈ moby.bangles, ∀ s ∈ b.submeshes, submesh_base_ok true s.toMobySubMeshBase) :
    ∃ q, write_class_payloads env class_header_ofs format tables dest moby = .ok q := by
  unfold write_class_payloads
  obtain ⟨⟨d1, g1⟩, e1⟩ := write_moby_submeshes_ok env.packet_bytes class_header_ofs format
    moby.submeshes dest [] tables.submesh_table_1_ofs h1
  rw [e1]
  obtain ⟨⟨d2, g2⟩, e2⟩ := write_moby_submeshes_ok env.packet_bytes class_header_ofs format
    moby.low_detail_submeshes d1 g1 tables.submesh_table_2_ofs h2
  simp only
  rw [e2]
  obtain ⟨d3, e3⟩ := write_moby_metal_submeshes_ok env.packet_bytes class_header_ofs
    moby.metal_submeshes d2 tables.metal_submesh_table_ofs h3
  simp only
  rw [e3]
  cases hb : moby.bangles with
  | none => exact ⟨_, rfl⟩
  | some b =>
    obtain ⟨⟨d4, g4⟩, e4⟩ := write_moby_submeshes_ok env.packet_bytes class_header_ofs format
      b.submeshes d3 g2 tables.bangles_submesh_table_ofs (h4 b (by rw [hb]; rfl))
    simp only
    rw [e4]
    exact ⟨_, rfl⟩

/-- C10: `write_moby_class` fails with an error for every model that has
exactly 256 high-detail submeshes, and succeeds for every model with exactly
255 of them that passes the other checks of the encoder. -/
theorem submesh_count_limit (env : Env) (dest : List Nat) (moby : MobyClassData) (game : Game) :
    (moby.submeshes.length = 256 → ∃ e, write_moby_class env dest moby game = .error e) ∧
    (moby.submeshes.length = 255 → otherwise_well_formed dest moby →
      ∃ b, write_moby_class env dest moby game = .ok b) := by
  constructor
  · intro h
    unfold write_moby_class write_moby_class_body
    simp only
    split
    · exact ⟨_, rfl⟩
    · rename_i hb
      split at hb
      · cases hb
      · have e : check_class_counts moby = .error "Moby class has too many submeshes." := by
          unfold check_class_counts
          rw [if_pos (by omega)]
        rw [e] at hb
        cases hb
  · intro h ⟨w1, w2, w3, w4, w5, w6, w7, w8, w9, w10⟩
    have e : check_class_counts moby = .ok () := by
      unfold check_class_counts
      rw [if_neg (by omega), if_neg (by omega), if_neg (by omega), if_neg (by omega),
        if_neg (by omega), if_neg (by omega)]
    obtain ⟨q, hq⟩ := write_class_payloads_ok env dest.length
      (write_format game moby.force_rac1_format) (write_class_front env dest moby game)
      (write_class_middle env dest.length (write_class_front env dest moby game).dest moby).dest
      moby w7 w8 w9 w10
    unfold write_moby_class write_moby_class_body
    simp only
    rw [if_neg (by omega), e]
    simp only
    rw [hq]
    exact ⟨_, rfl⟩

/-- The theorem `submesh_count_limit` at a model with 256 copies of a submesh
and at one with 255 copies of it, written to an empty output buffer. -/
theorem submesh_count_limit_witness :
    (∃ e, write_moby_class example_env []
      { MobyClassData.empty with submeshes := List.replicate 256 (example_submesh []) }
      Game.RAC1 = .error e) ∧
    (∃ b, write_moby_class example_env []
      { MobyClassData.empty with submeshes := List.replicate 255 (example_submesh []) }
      Game.RAC1 = .ok b) :=
  ⟨(submesh_count_limit example_env []
      { MobyClassData.empty with submeshes := List.replicate 256 (example_submesh []) }
      Game.RAC1).1 (List.length_replicate _ _),
   (submesh_count_limit example_env []
      { MobyClassData.empty with submeshes := List.replicate 255 (example_submesh []) }
      Game.RAC1).2 (List.length_replicate _ _)
      ⟨by decide, by decide, by decide, by decide, by decide, by decide,
        fun s hs => by
          rw [List.eq_of_mem_replicate hs]
          exact ⟨by decide, fun _ => by decide, fun _ => by decide⟩,
        fun s hs => (List.not_mem_nil s hs).elim, fun s hs => (List.not_mem_nil s hs).elim,
        fun b hb => (Option.not_mem_none b hb).elim⟩⟩

/-! ### Output buffers: lengths and preserved regions -/

theorem length_write_at (d : List Nat) (o : Nat) (bs : List Nat) :
    (write_at d o bs).length = d.length := by
  unfold write_at
  split
  · simp only [List.length_append, List.length_take, List.length_drop]
    omega
  · rfl

theorem getElem?_write_at (d : List Nat) (o : Nat) (bs : List Nat) (i : Nat) :
    (write_at d o bs)[i]? =
      if o ≤ i ∧ i < o + bs.length ∧ o + bs.length ≤ d.length then bs[i - o]? else d[i]? := by
  unfold write_at
  by_cases h : o + bs.length ≤ d.length
  · rw [if_pos h]
    by_cases h1 : i < o
    · rw [if_neg (by omega), List.append_assoc, List.getElem?_append_left (by simp; omega),
        List.getElem?_take_of_lt h1]
    · by_cases h2 : i < o + bs.length
      · rw [if_pos ⟨by omega, h2, h⟩, List.append_assoc,
          List.getElem?_append_right (by simp; omega),
          List.getElem?_append_left (by simp; omega)]
        simp only [List.length_take]
        congr 1
        omega
      · rw [if_neg (by omega), List.getElem?_append_right (by simp; omega),
          List.getElem?_drop]
        simp only [List.length_append, List.length_take]
        congr 1
        omega
  · rw [if_neg h, if_neg (by omega)]

theorem length_pad (d : List Nat) (a : Nat) : d.length ≤ (pad d a).length := by
  simp [pad]

theorem length_zero_fill_to (d : List Nat) (limit : Int) :
    d.length ≤ (zero_fill_to d limit).length ∧ limit ≤ (zero_fill_to d limit).length := by
  simp only [zero_fill_to, List.length_append, List.length_replicate]
  omega

theorem preserves_refl (lo hi : Nat) (d : List Nat) : preserves lo hi d d :=
  ⟨le_refl _, fun _ _ _ => rfl⟩

theorem preserves_trans {lo hi : Nat} {d d1 d2 : List Nat} (h1 : preserves lo hi d d1)
    (h2 : preserves lo hi d1 d2) : preserves lo hi d d2 :=
  ⟨le_trans h1.1 h2.1, fun i hl hh => (h2.2 i hl hh).trans (h1.2 i hl hh)⟩

theorem preserves_append {lo hi : Nat} (d x : List Nat) (h : hi ≤ d.length) :
    preserves lo hi d (d ++ x) :=
  ⟨by simp, fun i _ hh => List.getElem?_append_left (by omega)⟩

theorem preserves_pad {lo hi : Nat} (d : List Nat) (a : Nat) (h : hi ≤ d.length) :
    preserves lo hi d (pad d a) :=
  preserves_append d _ h

theorem preserves_write_at {lo hi : Nat} (d : List Nat) (o : Nat) (bs : List Nat)
    (h : o + bs.length ≤ lo ∨ hi ≤ o) : preserves lo hi d (write_at d o bs) :=
  ⟨le_of_eq (length_write_at d o bs).symm, fun i hl hh => by
    rw [getElem?_write_at, if_neg (by omega)]⟩

/-- The header as it stands in the output after lines 237-238. -/
theorem written_header_region (d : List Nat) (o : Nat) (hb b4 : List Nat)
    (h1 : hb.length = 0x48) (h2 : b4.length = 4) (h3 : o + 0x48 ≤ d.length) :
    ((write_at (write_at d o hb) (o + 4) b4).drop o).take 0x48 = write_at hb 4 b4 := by
  apply List.ext_getElem?
  intro i
  simp only [List.getElem?_take, List.getElem?_drop, getElem?_write_at, length_write_at, h1, h2]
  by_cases hi : i < 0x48
  · rw [if_pos hi]
    by_cases h4 : 4 ≤ i ∧ i < 8
    · rw [if_pos (by omega), if_pos (by omega)]
      congr 1
      omega
    · rw [if_neg (by omega), if_pos (by omega), if_neg (by omega)]
      congr 1
      omega
  · rw [if_neg hi, if_neg (by omega)]
    exact (List.getElem?_eq_none (by omega)).symm

theorem length_write_moby_corn_kernels (header_ofs : Nat) :
    ∀ (kernels : List (Option MobyCornKernel)) (dest header : List Nat),
      dest.length ≤ (write_moby_corn_kernels header_ofs kernels dest header).1.length := by
  intro kernels
  induction kernels with
  | nil => intro dest header; exact le_refl _
  | cons k rest ih =>
    intro dest header
    cases k with
    | none => exact ih _ _
    | some kernel =>
      refine le_trans ?_ (ih _ _)
      split
      · rw [length_write_at]
        simp only [List.length_append]
        have := length_pad dest 0x10
        omega
      · simp only [List.length_append]
        have := length_pad dest 0x10
        omega

theorem length_write_moby_corncob (dest : List Nat) (corncob : MobyCornCob) :
    dest.length ≤ (write_moby_corncob dest corncob).1.length := by
  unfold write_moby_corncob
  simp only [length_write_at]
  refine le_trans ?_ (length_write_moby_corn_kernels _ _ _ _)
  simp

theorem length_write_moby_frames (class_header_ofs : Nat) :
    ∀ (frames : List MobyFrame) (dest : List Nat) (frame_pointer_ofs : Nat),
      dest.length ≤ (write_moby_frames class_header_ofs frames dest frame_pointer_ofs).length := by
  intro frames
  induction frames with
  | nil => intro dest _; exact le_refl _
  | cons frame rest ih =>
    intro dest fpo
    refine le_trans ?_ (ih _ _)
    simp only [List.length_append, length_write_at]
    have := length_pad dest 0x10
    omega

theorem length_write_moby_sequence (env : Env) (class_header_ofs : Nat) (format : MobyFormat)
    (dest : List Nat) (list_ofs : Nat) (sequence : MobySequence) :
    dest.length ≤
      (write_moby_sequence env class_header_ofs format dest list_ofs sequence).length := by
  unfold write_moby_sequence
  simp only [length_write_at]
  refine le_trans ?_ (length_write_moby_frames _ _ _ _)
  have := length_pad dest 0x10
  cases sequence.trigger_data <;> simp only [List.length_append, length_write_at] <;> omega

theorem length_write_moby_sequences (env : Env) (class_header_ofs : Nat) (format : MobyFormat) :
    ∀ (sequences : List (Option MobySequence)) (dest : List Nat) (list_ofs : Nat),
      dest.length ≤
        (write_moby_sequences env class_header_ofs format sequences dest list_ofs).length := by
  intro sequences
  induction sequences with
  | nil => intro dest _; exact le_refl _
  | cons s rest ih =>
    intro dest list_ofs
    cases s with
    | none =>
      refine le_trans ?_ (ih _ _)
      rw [length_write_at]
    | some sequence =>
      exact le_trans (length_write_moby_sequence _ _ _ _ _ _) (ih _ _)

/-- The positions `write_class_front` passes through are in the order of its
statements. -/
theorem write_class_front_order (env : Env) (dest : List Nat) (moby : MobyClassData)
    (game : Game) :
    (write_class_front env dest moby game).sequence_list_ofs = dest.length + 0x48 ∧
    (write_class_front env dest moby game).sequence_list_end =
      dest.length + 0x48 + 4 * moby.sequences.length ∧
    (write_class_front env dest moby game).sequence_list_end ≤
      (write_class_front env dest moby game).header_padding_end ∧
    (dest.length : Int) + moby.header_end_offset ≤
      (write_class_front env dest moby game).header_padding_end ∧
    (write_class_front env dest moby game).header_padding_end ≤
      (write_class_front env dest moby game).bangles_ofs ∧
    (write_class_front env dest moby game).bangles_ofs ≤
      (write_class_front env dest moby game).bangles_end ∧
    (write_class_front env dest moby game).bangles_end ≤
      (write_class_front env dest moby game).corncob_ofs ∧
    (write_class_front env dest moby game).corncob_ofs ≤
      (write_class_front env dest moby game).corncob_end ∧
    (write_class_front env dest moby game).corncob_end ≤
      (write_class_front env dest moby game).sequences_ofs ∧
    (write_class_front env dest moby game).sequences_ofs ≤
      (write_class_front env dest moby game).sequences_end ∧
    (write_class_front env dest moby game).sequences_end ≤
      (write_class_front env dest moby game).submesh_table_1_ofs ∧
    (write_class_front env dest moby game).submesh_table_2_ofs =
      (write_class_front env dest moby game).submesh_table_1_ofs + 0x10 * moby.submeshes.length ∧
    (write_class_front env dest moby game).metal_submesh_table_ofs =
      (write_class_front env dest moby game).submesh_table_2_ofs +
        0x10 * moby.low_detail_submeshes.length ∧
    (write_class_front env dest moby game).bangles_submesh_table_ofs =
      (write_class_front env dest moby game).metal_submesh_table_ofs +
        0x10 * moby.metal_submeshes.length ∧
    (write_class_front env dest moby game).dest.length =
      (write_class_front env dest moby game).bangles_submesh_table_ofs +
        0x10 * (match moby.bangles with
          | some b => b.submeshes.length
          | none => 0) := by
  unfold write_class_front
  simp only
  have la : ∀ (a : List Nat) (n : Nat), (a ++ List.replicate n 0).length = a.length + n :=
    fun a n => by rw [List.length_append, List.length_replicate]
  refine ⟨la _ _, by rw [la, la], (length_zero_fill_to _ _).1, ?_, ?_, ?_, ?_, ?_, length_pad _ _,
    length_write_moby_sequences _ _ _ _ _ _, ?_, la _ _, la _ _, la _ _, ?_⟩
  · exact (length_zero_fill_to _ _).2
  · cases moby.bangles with
    | none => exact le_refl _
    | some b => exact length_pad _ _
  · cases moby.bangles with
    | none => exact le_refl _
    | some b => simp only [write_moby_bangles, List.length_append]; omega
  · have lp : ∀ (c : Prop) [Decidable c] (a : List Nat),
        a.length ≤ (if c then pad a 0x10 else a).length := by
      intro c _ a
      split
      · exact length_pad _ _
      · exact le_refl _
    exact lp _ _
  · cases moby.corncob with
    | none => exact le_refl _
    | some c =>
      have lc : ∀ (c : Prop) [Decidable c] (a : List Nat) (k : MobyCornCob),
          a.length ≤ (if c then (write_moby_corncob a k).1 else a).length := by
        intro c _ a k
        split
        · exact length_write_moby_corncob _ _
        · exact le_refl _
      exact lc _ _ _
  · exact le_trans (length_pad _ _) (length_zero_fill_to _ _).1
  · cases moby.bangles with
    | none => rfl
    | some b => exact la _ _

theorem preserves_write_moby_joint_lists {lo hi : Nat} (class_header_ofs : Nat) :
    ∀ (joints : List (List Nat)) (dest : List Nat) (outer_list_ofs : Nat),
      hi ≤ outer_list_ofs → hi ≤ dest.length →
      preserves lo hi dest (write_moby_joint_lists class_header_ofs joints dest outer_list_ofs) := by
  intro joints
  induction joints with
  | nil => intro dest _ _ _; exact preserves_refl _ _ _
  | cons joint_list rest ih =>
    intro dest ofs ho hd
    have p1 : preserves lo hi dest (pad dest 0x4) := preserves_pad _ _ hd
    have p2 := preserves_trans p1 (preserves_write_at (pad dest 0x4) ofs
      (le_bytes 4 (to_unsigned 32 (((pad dest 0x4).length : Int) - class_header_ofs)))
      (Or.inr ho))
    have p3 := preserves_trans p2 (preserves_append _ (joint_list.map (fun b => b % 256))
      (le_trans hd p2.1))
    have p4 := preserves_trans p3 (preserves_append _ [0xff] (le_trans hd p3.1))
    exact preserves_trans p4 (ih _ (ofs + 4) (by omega) (le_trans hd p4.1))

theorem preserves_write_moby_joints {lo hi : Nat} (class_header_ofs : Nat) (dest : List Nat)
    (joints : List (List Nat)) (hd : hi ≤ dest.length) :
    preserves lo hi dest (write_moby_joints class_header_ofs dest joints).1 ∧
    dest.length ≤ (write_moby_joints class_header_ofs dest joints).2 ∧
    (write_moby_joints class_header_ofs dest joints).2 ≤
      (write_moby_joints class_header_ofs dest joints).1.length := by
  unfold write_moby_joints
  simp only
  have p1 : preserves lo hi dest (pad dest 0x10) := preserves_pad _ _ hd
  have p2 := preserves_trans p1 (preserves_append _ (le_bytes 4 joints.length)
    (le_trans hd p1.1))
  have p3 := preserves_trans p2 (preserves_append _ (List.replicate (4 * joints.length) 0)
    (le_trans hd p2.1))
  have q : preserves 0 0 (pad dest 0x10)
      (write_moby_joint_lists class_header_ofs joints
        (pad dest 0x10 ++ le_bytes 4 joints.length ++ List.replicate (4 * joints.length) 0)
        (pad dest 0x10 ++ le_bytes 4 joints.length).length) :=
    preserves_trans (preserves_trans (preserves_append _ _ (Nat.zero_le _))
      (preserves_append _ _ (Nat.zero_le _)))
      (preserves_write_moby_joint_lists class_header_ofs joints _ _ (Nat.zero_le _)
        (Nat.zero_le _))
  refine ⟨preserves_trans p3 (preserves_write_moby_joint_lists class_header_ofs joints _ _
    (le_trans hd p2.1) (le_trans hd p3.1)), p1.1, q.1⟩

theorem write_shared_append {vifw : VifWriter} {class_header_ofs : Nat} {dest : List Nat}
    {gif_usage : Option (List MobyGifUsageTableEntry)} {submesh : MobySubMeshBase}
    {r : List Nat × Option (List MobyGifUsageTableEntry) × Nat}
    (h : write_shared_moby_vif_packets vifw class_header_ofs dest gif_usage submesh = .ok r) :
    ∃ x, r.1 = dest ++ x := by
  unfold write_shared_moby_vif_packets at h
  simp only at h
  split at h
  · cases h
  · split at h
    · split at h
      · cases h
      · cases gif_usage with
        | none =>
          simp only at h
          injection h with h
          rw [← h]
          simp only [pad, List.append_assoc]
          exact ⟨_, rfl⟩
        | some table =>
          simp only at h
          split at h
          · cases h
          · injection h with h
            rw [← h]
            simp only [pad, List.append_assoc]
            exact ⟨_, rfl⟩
    · injection h with h
      rw [← h]
      exact ⟨_, rfl⟩

theorem preserves_write_vertex_table {lo hi : Nat} {class_header_ofs : Nat} {format : MobyFormat}
    {dest : List Nat} {submesh : MobySubMesh} {entry : MobySubMeshEntry}
    {r : List Nat × MobySubMeshEntry}
    (h : write_vertex_table class_header_ofs format dest submesh entry = .ok r)
    (hd : hi ≤ dest.length) : preserves lo hi dest r.1 := by
  unfold write_vertex_table at h
  obtain ⟨vertices, _, h⟩ := bind_eq_ok h
  injection h with h
  rw [← h]
  simp only
  have ha : ∀ {d : List Nat} (x : List Nat), preserves lo hi dest d →
      preserves lo hi dest (d ++ x) :=
    fun x p => preserves_trans p (preserves_append _ x (le_trans hd p.1))
  have hp : ∀ {d : List Nat} (a : Nat), preserves lo hi dest d →
      preserves lo hi dest (pad d a) :=
    fun a p => preserves_trans p (preserves_pad _ a (le_trans hd p.1))
  refine hp _ (preserves_trans ?_ (preserves_write_at _ _ _ (Or.inr hd)))
  split
  · exact ha _ (ha _ (hp _ (ha _ (hp _ (ha _ (ha _ (preserves_refl _ _ _)))))))
  · exact ha _ (hp _ (ha _ (hp _ (ha _ (ha _ (preserves_refl _ _ _))))))

theorem length_MobySubMeshEntry_bytes (e : MobySubMeshEntry) : e.bytes.length = 0x10 := by
  simp [MobySubMeshEntry.bytes, le_bytes]

theorem preserves_write_moby_submesh {lo hi : Nat} {vifw : VifWriter} {class_header_ofs : Nat}
    {format : MobyFormat} {dest : List Nat} {gif_usage : List MobyGifUsageTableEntry}
    {table_ofs : Nat} {submesh : MobySubMesh} {r : List Nat × List MobyGifUsageTableEntry}
    (h : write_moby_submesh vifw class_header_ofs format dest gif_usage table_ofs submesh =
      .ok r)
    (ht : table_ofs + 0x10 ≤ lo ∨ hi ≤ table_ofs) (hd : hi ≤ dest.length) :
    preserves lo hi dest r.1 := by
  unfold write_moby_submesh at h
  simp only at h
  obtain ⟨⟨dest2, g, t⟩, h1, h⟩ := bind_eq_ok h
  simp only at h
  obtain ⟨⟨dest12, entry⟩, h2, h⟩ := bind_eq_ok h
  injection h with h
  rw [← h]
  simp only
  obtain ⟨x, hx⟩ := write_shared_append h1
  simp only at hx
  have p1 : preserves lo hi dest (pad dest 0x10) := preserves_pad _ _ hd
  have p2 := preserves_trans p1 (preserves_append _ (vifw
    { interrupt := 0, cmd := 0b1110000, num := submesh.sts.length, vnvl := VifVnVl.V2_16,
      addr := 0xc2, data := (submesh.sts.map MobyTexCoord.bytes).flatten }) (le_trans hd p1.1))
  have p3 := preserves_trans p2 (preserves_append _ x (le_trans hd p2.1))
  rw [← hx] at p3
  have p4 := preserves_trans p3 (preserves_pad _ 0x10 (le_trans hd p3.1))
  have p5 := preserves_trans p4 (preserves_write_vertex_table h2 (le_trans hd p4.1))
  have p6 := preserves_trans p5 (preserves_pad _ 0x10 (le_trans hd p5.1))
  refine preserves_trans p6 (preserves_write_at _ _ _ ?_)
  rw [length_MobySubMeshEntry_bytes]
  exact ht

theorem preserves_write_moby_submeshes {lo hi : Nat} {vifw : VifWriter} {class_header_ofs : Nat}
    {format : MobyFormat} :
    ∀ (submeshes : List MobySubMesh) (dest : List Nat) (gif_usage : List MobyGifUsageTableEntry)
      (table_ofs : Nat) (r : List Nat × List MobyGifUsageTableEntry),
      write_moby_submeshes vifw class_header_ofs format dest gif_usage table_ofs submeshes =
        .ok r →
      table_ofs + 0x10 * submeshes.length ≤ lo ∨ hi ≤ table_ofs → hi ≤ dest.length →
      preserves lo hi dest r.1 := by
  intro submeshes
  induction submeshes with
  | nil =>
    intro dest gif_usage table_ofs r h _ _
    unfold write_moby_submeshes at h
    injection h with h
    rw [← h]
    exact preserves_refl _ _ _
  | cons s rest ih =>
    intro dest gif_usage table_ofs r h ht hd
    unfold write_moby_submeshes at h
    split at h
    · cases h
    · rename_i d1 g1 h1
      have p1 : preserves lo hi dest d1 := preserves_write_moby_submesh h1
        (by simp only [List.length_cons] at ht; omega) hd
      exact preserves_trans p1 (ih d1 g1 (table_ofs + 0x10) r h
        (by simp only [List.length_cons] at ht; omega) (le_trans hd p1.1))

theorem preserves_write_moby_metal_submeshes {lo hi : Nat} {vifw : VifWriter}
    {class_header_ofs : Nat} :
    ∀ (submeshes : List MobyMetalSubMesh) (dest : List Nat) (table_ofs : Nat) (r : List Nat),
      write_moby_metal_submeshes vifw class_header_ofs dest table_ofs submeshes = .ok r →
      table_ofs + 0x10 * submeshes.length ≤ lo ∨ hi ≤ table_ofs → hi ≤ dest.length →
      preserves lo hi dest r := by
  intro submeshes
  induction submeshes with
  | nil =>
    intro dest table_ofs r h _ _
    unfold write_moby_metal_submeshes at h
    injection h with h
    rw [← h]
    exact preserves_refl _ _ _
  | cons s rest ih =>
    intro dest table_ofs r h ht hd
    unfold write_moby_metal_submeshes at h
    split at h
    · cases h
    · rename_i d1 h1
      have p1 : preserves lo hi dest d1 := by
        unfold write_moby_metal_submesh at h1
        simp only at h1
        obtain ⟨⟨dest1, g, t⟩, hs, h1⟩ := bind_eq_ok h1
        injection h1 with h1
        rw [← h1]
        obtain ⟨x, hx⟩ := write_shared_append hs
        simp only at hx
        have ha : ∀ {d : List Nat} (y : List Nat), preserves lo hi dest d →
            preserves lo hi dest (d ++ y) :=
          fun y p => preserves_trans p (preserves_append _ y (le_trans hd p.1))
        have hp : ∀ {d : List Nat} (a : Nat), preserves lo hi dest d →
            preserves lo hi dest (pad d a) :=
          fun a p => preserves_trans p (preserves_pad _ a (le_trans hd p.1))
        have p3 : preserves lo hi dest dest1 := by
          rw [hx]
          exact ha _ (hp _ (preserves_refl _ _ _))
        refine preserves_trans (hp _ (ha _ (ha _ (ha _ (ha _ (ha _ (hp _ p3)))))))
          (preserves_write_at _ _ _ ?_)
        rw [length_MobySubMeshEntry_bytes]
        simp only [List.length_cons] at ht
        omega
      exact preserves_trans p1 (ih d1 (table_ofs + 0x10) r h
        (by simp only [List.length_cons] at ht; omega) (le_trans hd p1.1))

theorem write_class_payloads_spec {lo hi : Nat} {env : Env} {class_header_ofs : Nat}
    {format : MobyFormat} {tables : ClassFront} {dest : List Nat} {moby : MobyClassData}
    {q : ClassPayloads}
    (h : write_class_payloads env class_header_ofs format tables dest moby = .ok q)
    (t1 : tables.submesh_table_1_ofs + 0x10 * moby.submeshes.length ≤ lo ∨
      hi ≤ tables.submesh_table_1_ofs)
    (t2 : tables.submesh_table_2_ofs + 0x10 * moby.low_detail_submeshes.length ≤ lo ∨
      hi ≤ tables.submesh_table_2_ofs)
    (t3 : tables.metal_submesh_table_ofs + 0x10 * moby.metal_submeshes.length ≤ lo ∨
      hi ≤ tables.metal_submesh_table_ofs)
    (t4 : ∀ b, moby.bangles = some b →
      tables.bangles_submesh_table_ofs + 0x10 * b.submeshes.length ≤ lo ∨
        hi ≤ tables.bangles_submesh_table_ofs)
    (hd : hi ≤ dest.length) :
    preserves lo hi dest q.dest ∧ dest.length ≤ q.submeshes_end ∧
      q.submeshes_end ≤ q.low_detail_submeshes_end ∧
      q.low_detail_submeshes_end ≤ q.metal_submeshes_end ∧
      q.metal_submeshes_end ≤ q.dest.length := by
  unfold write_class_payloads at h
  split at h
  · cases h
  · rename_i dest21 gif_usage1 h1
    have p1 : preserves lo hi dest dest21 :=
      preserves_write_moby_submeshes _ _ _ _ _ h1 t1 hd
    split at h
    · cases h
    · rename_i dest22 gif_usage2 h2
      have p2 : preserves lo hi dest21 dest22 :=
        preserves_write_moby_submeshes _ _ _ _ _ h2 t2 (le_trans hd p1.1)
      split at h
      · cases h
      · rename_i dest23 h3
        have p3 : preserves lo hi dest22 dest23 :=
          preserves_write_moby_metal_submeshes _ _ _ _ h3 t3
            (le_trans hd (le_trans p1.1 p2.1))
        split at h
        · rename_i b hb
          split at h
          · cases h
          · rename_i dest24 gif_usage h4
            have p4 : preserves lo hi dest23 dest24 :=
              preserves_write_moby_submeshes _ _ _ _ _ h4 (t4 b hb)
                (le_trans hd (le_trans p1.1 (le_trans p2.1 p3.1)))
            injection h with h
            rw [← h]
            exact ⟨preserves_trans p1 (preserves_trans p2 (preserves_trans p3 p4)), p1.1, p2.1,
              p3.1, p4.1⟩
        · injection h with h
          rw [← h]
          exact ⟨preserves_trans p1 (preserves_trans p2 p3), p1.1, p2.1, p3.1, le_refl _⟩

theorem write_moby_collision_spec {lo hi : Nat} (dest : List Nat) (collision : MobyCollision)
    (hd : hi ≤ dest.length) :
    preserves lo hi dest (write_moby_collision dest collision).1 ∧
    dest.length ≤ (write_moby_collision dest collision).2 ∧
    (write_moby_collision dest collision).2 ≤ (write_moby_collision dest collision).1.length := by
  unfold write_moby_collision
  simp only
  refine ⟨?_, length_pad _ _, ?_⟩
  · have ha : ∀ {d : List Nat} (y : List Nat), preserves lo hi dest d →
        preserves lo hi dest (d ++ y) :=
      fun y p => preserves_trans p (preserves_append _ y (le_trans hd p.1))
    exact ha _ (ha _ (ha _ (ha _ (preserves_pad _ _ hd))))
  · simp only [List.length_append]
    omega

/-- The positions `write_class_middle` passes through are in the order of its
statements, and the mystery data lies right before the skeleton. -/
theorem write_class_middle_order (env : Env) (class_header_ofs : Nat) (dest : List Nat)
    (moby : MobyClassData) :
    dest.length ≤ (write_class_middle env class_header_ofs dest moby).collision_ofs ∧
    (write_class_middle env class_header_ofs dest moby).collision_ofs ≤
      (write_class_middle env class_header_ofs dest moby).mystery_data_ofs ∧
    (write_class_middle env class_header_ofs dest moby).skeleton_ofs =
      (write_class_middle env class_header_ofs dest moby).mystery_data_ofs +
        moby.mystery_data.length ∧
    (write_class_middle env class_header_ofs dest moby).skeleton_ofs ≤
      (write_class_middle env class_header_ofs dest moby).skeleton_end ∧
    (write_class_middle env class_header_ofs dest moby).skeleton_end ≤
      (write_class_middle env class_header_ofs dest moby).common_trans_ofs ∧
    (write_class_middle env class_header_ofs dest moby).common_trans_ofs ≤
      (write_class_middle env class_header_ofs dest moby).common_trans_end ∧
    (write_class_middle env class_header_ofs dest moby).common_trans_end ≤
      (write_class_middle env class_header_ofs dest moby).joints_ofs ∧
    (write_class_middle env class_header_ofs dest moby).joints_ofs ≤
      (write_class_middle env class_header_ofs dest moby).joints_end ∧
    (write_class_middle env class_header_ofs dest moby).joints_end ≤
      (write_class_middle env class_header_ofs dest moby).sound_defs_ofs ∧
    (write_class_middle env class_header_ofs dest moby).sound_defs_ofs ≤
      (write_class_middle env class_header_ofs dest moby).dest.length := by
  unfold write_class_middle
  simp only
  have hj := fun (d : List Nat) => @preserves_write_moby_joints 0 0 class_header_ofs d
    moby.joints (Nat.zero_le _)
  refine ⟨?_, ?_, by rw [List.length_append, List.length_map], by simp only [List.length_append]; omega,
    length_pad _ _, by simp only [List.length_append]; omega, (hj _).2.1, (hj _).2.2,
    length_pad _ _, by simp only [List.length_append]; omega⟩
  · cases moby.collision with
    | none => exact le_refl _
    | some c => exact (@write_moby_collision_spec 0 0 dest c (Nat.zero_le _)).2.1
  · cases moby.collision with
    | none => exact le_refl _
    | some c => exact (@write_moby_collision_spec 0 0 dest c (Nat.zero_le _)).2.2

/-- The mystery data stands in the buffer left by `write_class_middle` from
`mystery_data_ofs` up to `skeleton_ofs`. -/
theorem write_class_middle_mystery (env : Env) (class_header_ofs : Nat) (dest : List Nat)
    (moby : MobyClassData) (i : Nat)
    (h1 : (write_class_middle env class_header_ofs dest moby).mystery_data_ofs ≤ i)
    (h2 : i < (write_class_middle env class_header_ofs dest moby).skeleton_ofs) :
    (write_class_middle env class_header_ofs dest moby).dest[i]? =
      (moby.mystery_data.map (fun b => b % 256))[i -
        (write_class_middle env class_header_ofs dest moby).mystery_data_ofs]? := by
  unfold write_class_middle at h1 h2 ⊢
  simp only at h1 h2 ⊢
  generalize (match moby.collision with
    | some c => (write_moby_collision dest c).1
    | none => dest) = dest13 at h1 h2 ⊢
  have p0 : preserves dest13.length (dest13 ++ moby.mystery_data.map (fun b => b % 256)).length
      (dest13 ++ moby.mystery_data.map (fun b => b % 256))
      (dest13 ++ moby.mystery_data.map (fun b => b % 256)) := preserves_refl _ _ _
  have ha : ∀ {d : List Nat} (y : List Nat),
      preserves dest13.length (dest13 ++ moby.mystery_data.map (fun b => b % 256)).length
        (dest13 ++ moby.mystery_data.map (fun b => b % 256)) d →
      preserves dest13.length (dest13 ++ moby.mystery_data.map (fun b => b % 256)).length
        (dest13 ++ moby.mystery_data.map (fun b => b % 256)) (d ++ y) :=
    fun y p => preserves_trans p (preserves_append _ y p.1)
  have hp : ∀ {d : List Nat} (a : Nat),
      preserves dest13.length (dest13 ++ moby.mystery_data.map (fun b => b % 256)).length
        (dest13 ++ moby.mystery_data.map (fun b => b % 256)) d →
      preserves dest13.length (dest13 ++ moby.mystery_data.map (fun b => b % 256)).length
        (dest13 ++ moby.mystery_data.map (fun b => b % 256)) (pad d a) :=
    fun a p => preserves_trans p (preserves_pad _ a p.1)
  have p1 := ha (moby.common_trans.map (fun b => b % 256))
    (hp 0x10 (ha (moby.skeleton.map (raw_bytes 0x40)).flatten p0))
  have p2 := preserves_trans p1
    (preserves_write_moby_joints class_header_ofs _ moby.joints p1.1).1
  have p3 := preserves_trans p2 (preserves_pad _ 0x10 p2.1)
  have p4 := preserves_trans p3 (preserves_append _
    (moby.sound_defs.map (raw_bytes env.sizeof_MobySoundDef)).flatten p3.1)
  exact (p4.2 i h1 h2).trans (List.getElem?_append_right h1)

/-! ### The layout of a written class -/

theorem write_moby_class_body_ok {env : Env} {dest : List Nat} {moby : MobyClassData}
    {game : Game} {out : List Nat × MobyClassHeader × Regions}
    (h : write_moby_class_body env dest moby game = .ok out) :
    dest.length % 0x40 = 0 ∧ check_class_counts moby = .ok () ∧
    ∃ q, write_class_payloads env dest.length (write_format game moby.force_rac1_format)
        (write_class_front env dest moby game)
        (write_class_middle env dest.length (write_class_front env dest moby game).dest moby).dest
        moby = .ok q ∧
      out = (q.dest ++ gif_usage_bytes q.gif_usage,
        class_header moby game dest.length (write_class_front env dest moby game)
          (write_class_middle env dest.length (write_class_front env dest moby game).dest moby) q,
        class_regions dest.length (write_class_front env dest moby game)
          (write_class_middle env dest.length (write_class_front env dest moby game).dest moby)
          q) := by
  unfold write_moby_class_body at h
  simp only at h
  split at h
  · cases h
  · rename_i ha
    split at h
    · cases h
    · rename_i u hc
      split at h
      · cases h
      · rename_i q hq
        injection h with h
        exact ⟨by omega, hc, q, hq, h.symm⟩

theorem gif_usage_bytes_pos (g : List MobyGifUsageTableEntry) :
    0 < (gif_usage_bytes g).length ↔ 0 < g.length := by
  unfold gif_usage_bytes
  cases hl : g.getLast? with
  | none =>
    rw [List.getLast?_eq_none_iff] at hl
    rw [hl]
    simp
  | some e =>
    have hne : g ≠ [] := by
      intro hn
      rw [hn] at hl
      cases hl
    have : 0 < g.length := List.length_pos.mpr hne
    simp [MobyGifUsageTableEntry.bytes, le_bytes, this]

/-- The write positions of a class are in the order of the statements of the
source and the header holds them relative to the start of the class. -/
theorem write_moby_class_body_layout {env : Env} {dest : List Nat} {moby : MobyClassData}
    {game : Game} {out : List Nat × MobyClassHeader × Regions}
    (h : write_moby_class_body env dest moby game = .ok out) :
    out.2.2.class_header_ofs = dest.length ∧ in_source_order out.2.2 ∧
    (dest.length : Int) + moby.header_end_offset ≤ out.2.2.header_padding_end ∧
    out.2.2.skeleton_ofs = out.2.2.mystery_data_ofs + moby.mystery_data.length ∧
    offsets_from_cursor moby game out.2.1 out.2.2 ∧ out.2.2.gif_usage_end = out.1.length := by
  obtain ⟨_, _, q, hq, ho⟩ := write_moby_class_body_ok h
  obtain ⟨f1, f2, f3, f4, f5, f6, f7, f8, f9, f10, f11, f12, f13, f14, f15⟩ :=
    write_class_front_order env dest moby game
  obtain ⟨m1, m2, m3, m4, m5, m6, m7, m8, m9, m10⟩ := write_class_middle_order env dest.length
    (write_class_front env dest moby game).dest moby
  obtain ⟨_, q1, q2, q3, q4⟩ := @write_class_payloads_spec 0 0 _ _ _ _ _ _ _ hq
    (Or.inr (Nat.zero_le _)) (Or.inr (Nat.zero_le _)) (Or.inr (Nat.zero_le _))
    (fun _ _ => Or.inr (Nat.zero_le _)) (Nat.zero_le _)
  have g := gif_usage_bytes_pos q.gif_usage
  rw [ho]
  simp only [class_regions, class_header, in_source_order, offsets_from_cursor]
  refine ⟨trivial, ⟨?_, ?_, f3, f5, f6, f7, f8, f9, f10, f11, ?_, ?_, ?_, ?_, m1, m2, ?_, m4, m5, m6,
    m7, m8, m9, m10, q1, q2, q3, q4, trivial, ?_⟩, f4, m3, ⟨?_, ?_, ?_, ?_, ?_, ?_, ?_, ?_, ?_⟩, ?_⟩
  · omega
  · omega
  · omega
  · omega
  · omega
  · omega
  · omega
  · omega
  · cases moby.bangles <;> rfl
  · trivial
  · split
    · omega
    · rfl
  · cases moby.collision with
    | none => rfl
    | some c =>
      simp only [Option.isSome_some, if_true]
      omega
  · omega
  · omega
  · omega
  · split
    · omega
    · rfl
  · by_cases hg : 0 < q.gif_usage.length
    · rw [if_pos hg, if_pos (by omega)]
      omega
    · rw [if_neg hg, if_neg (by omega)]
  · simp only [List.length_append]

theorem write_moby_class_ok {env : Env} {dest : List Nat} {moby : MobyClassData} {game : Game}
    {b : List Nat} (h : write_moby_class env dest moby game = .ok b) :
    ∃ out, write_moby_class_body env dest moby game = .ok out ∧
      b = write_at (write_at out.1 dest.length out.2.1.bytes) (dest.length + 4)
        (le_bytes 4 moby.byte_4) := by
  unfold write_moby_class at h
  split at h
  · cases h
  · rename_i d header r hb
    injection h with h
    exact ⟨_, hb, h.symm⟩

/-! ### The header and the mystery data of a written class -/

theorem length_MobyClassHeader_bytes (h : MobyClassHeader) : h.bytes.length = 0x48 := by
  simp [MobyClassHeader.bytes, le_bytes, raw_bytes]

theorem length_le_bytes (w v : Nat) : (le_bytes w v).length = w := by
  induction w generalizing v with
  | zero => rfl
  | succ w ih => simp [le_bytes, ih]

/-- The first 0x48 bytes of a written class are the assembled header with
`byte_4` over its bytes 4-7. -/
theorem written_class_header {env : Env} {dest : List Nat} {moby : MobyClassData} {game : Game}
    {b : List Nat} {out : List Nat × MobyClassHeader × Regions}
    (hb : write_moby_class_body env dest moby game = .ok out)
    (he : b = write_at (write_at out.1 dest.length out.2.1.bytes) (dest.length + 4)
      (le_bytes 4 moby.byte_4)) :
    ((b.drop dest.length).take 0x48 = write_at out.2.1.bytes 4 (le_bytes 4 moby.byte_4)) ∧
    b.length = out.1.length := by
  obtain ⟨l1, l2, _, _, _, l6⟩ := write_moby_class_body_layout hb
  have hl : dest.length + 0x48 ≤ out.1.length := by
    unfold in_source_order at l2
    omega
  rw [he]
  exact ⟨written_header_region _ _ _ _ (length_MobyClassHeader_bytes _) (length_le_bytes _ _) hl,
    by rw [length_write_at, length_write_at]⟩

/-- The mystery data of the model stands in the written class from
`mystery_data_ofs` up to `skeleton_ofs`. -/
theorem written_class_mystery {env : Env} {dest : List Nat} {moby : MobyClassData} {game : Game}
    {b : List Nat} {out : List Nat × MobyClassHeader × Regions}
    (hb : write_moby_class_body env dest moby game = .ok out)
    (he : b = write_at (write_at out.1 dest.length out.2.1.bytes) (dest.length + 4)
      (le_bytes 4 moby.byte_4))
    (i : Nat) (h1 : out.2.2.mystery_data_ofs ≤ i) (h2 : i < out.2.2.skeleton_ofs) :
    b[i]? = (moby.mystery_data.map (fun x => x % 256))[i - out.2.2.mystery_data_ofs]? := by
  obtain ⟨l1, l2, _, l4, _, l6⟩ := write_moby_class_body_layout hb
  obtain ⟨_, _, q, hq, ho⟩ := write_moby_class_body_ok hb
  obtain ⟨f1, f2, f3, f4, f5, f6, f7, f8, f9, f10, f11, f12, f13, f14, f15⟩ :=
    write_class_front_order env dest moby game
  obtain ⟨m1, m2, m3, m4, m5, m6, m7, m8, m9, m10⟩ := write_class_middle_order env dest.length
    (write_class_front env dest moby game).dest moby
  have hm := write_class_middle_mystery env dest.length
    (write_class_front env dest moby game).dest moby i
  rw [ho] at h1 h2 l1 l2 l4 l6 he ⊢
  simp only [class_regions] at h1 h2 l1 l2 l4 l6 he ⊢
  obtain ⟨p, _, _, _, _⟩ := @write_class_payloads_spec
    (write_class_middle env dest.length (write_class_front env dest moby game).dest
      moby).mystery_data_ofs
    (write_class_middle env dest.length (write_class_front env dest moby game).dest
      moby).skeleton_ofs _ _ _ _ _ _ _ hq
    (Or.inl (by omega)) (Or.inl (by omega)) (Or.inl (by omega))
    (fun b1 hb1 => Or.inl (by rw [hb1] at f15; simp only at f15; omega)) (by omega)
  unfold in_source_order at l2
  simp only at l2
  rw [he]
  simp only [getElem?_write_at, length_write_at, length_le_bytes, length_MobyClassHeader_bytes]
  rw [if_neg (by omega), if_neg (by omega), List.getElem?_append_left (by omega), p.2 i h1 h2]
  exact hm h1 h2

/-- The 0x48 header bytes `write_moby_class` leaves: the assembled header with
`byte_4` over the four bytes at offset 4. -/
theorem written_header_bytes (h : MobyClassHeader) (byte_4 : Nat) :
    write_at h.bytes 4 (le_bytes 4 byte_4) =
      [to_unsigned 32 h.submesh_table_offset % 256,
       to_unsigned 32 h.submesh_table_offset / 256 % 256,
       to_unsigned 32 h.submesh_table_offset / 256 / 256 % 256,
       to_unsigned 32 h.submesh_table_offset / 256 / 256 / 256 % 256, byte_4 % 256,
       byte_4 / 256 % 256, byte_4 / 256 / 256 % 256, byte_4 / 256 / 256 / 256 % 256,
       h.joint_count % 256, h.unknown_9 % 256, h.rac1_byte_a % 256, h.rac12_byte_b % 256,
       h.sequence_count % 256, h.sound_count % 256, h.lod_trans % 256, h.shadow % 256,
       to_unsigned 32 h.collision % 256, to_unsigned 32 h.collision / 256 % 256,
       to_unsigned 32 h.collision / 256 / 256 % 256,
       to_unsigned 32 h.collision / 256 / 256 / 256 % 256, to_unsigned 32 h.skeleton % 256,
       to_unsigned 32 h.skeleton / 256 % 256, to_unsigned 32 h.skeleton / 256 / 256 % 256,
       to_unsigned 32 h.skeleton / 256 / 256 / 256 % 256, to_unsigned 32 h.common_trans % 256,
       to_unsigned 32 h.common_trans / 256 % 256,
       to_unsigned 32 h.common_trans / 256 / 256 % 256,
       to_unsigned 32 h.common_trans / 256 / 256 / 256 % 256, to_unsigned 32 h.joints % 256,
       to_unsigned 32 h.joints / 256 % 256, to_unsigned 32 h.joints / 256 / 256 % 256,
       to_unsigned 32 h.joints / 256 / 256 / 256 % 256, to_unsigned 32 h.gif_usage % 256,
       to_unsigned 32 h.gif_usage / 256 % 256, to_unsigned 32 h.gif_usage / 256 / 256 % 256,
       to_unsigned 32 h.gif_usage / 256 / 256 / 256 % 256, h.scale % 256, h.scale / 256 % 256,
       h.scale / 256 / 256 % 256, h.scale / 256 / 256 / 256 % 256,
       to_unsigned 32 h.sound_defs % 256, to_unsigned 32 h.sound_defs / 256 % 256,
       to_unsigned 32 h.sound_defs / 256 / 256 % 256,
       to_unsigned 32 h.sound_defs / 256 / 256 / 256 % 256, h.bangles % 256, h.mip_dist % 256,
       to_unsigned 16 h.corncob % 256, to_unsigned 16 h.corncob / 256 % 256,
       h.bounding_sphere.getD 0 0 % 256, h.bounding_sphere.getD 1 0 % 256,
       h.bounding_sphere.getD 2 0 % 256, h.bounding_sphere.getD 3 0 % 256,
       h.bounding_sphere.getD 4 0 % 256, h.bounding_sphere.getD 5 0 % 256,
       h.bounding_sphere.getD 6 0 % 256, h.bounding_sphere.getD 7 0 % 256,
       h.bounding_sphere.getD 8 0 % 256, h.bounding_sphere.getD 9 0 % 256,
       h.bounding_sphere.getD 10 0 % 256, h.bounding_sphere.getD 11 0 % 256,
       h.bounding_sphere.getD 12 0 % 256, h.bounding_sphere.getD 13 0 % 256,
       h.bounding_sphere.getD 14 0 % 256, h.bounding_sphere.getD 15 0 % 256,
       to_unsigned 32 h.glow_rgba % 256, to_unsigned 32 h.glow_rgba / 256 % 256,
       to_unsigned 32 h.glow_rgba / 256 / 256 % 256,
       to_unsigned 32 h.glow_rgba / 256 / 256 / 256 % 256, to_unsigned 16 h.mode_bits % 256,
       to_unsigned 16 h.mode_bits / 256 % 256, h.type % 256, h.mode_bits2 % 256] := by
  simp [write_at, MobyClassHeader.bytes, le_bytes, raw_bytes, List.range, List.range.loop]

/-- The header read back from the 0x48 bytes `write_moby_class` leaves. -/
theorem parse_written_header (h : MobyClassHeader) (byte_4 : Nat) :
    MobyClassHeader.parse (write_at h.bytes 4 (le_bytes 4 byte_4)) =
      { submesh_table_offset :=
          to_signed 32 (le_value (le_bytes 4 (to_unsigned 32 h.submesh_table_offset)))
        submesh_count := le_value [byte_4 % 256]
        low_detail_submesh_count := le_value [byte_4 / 256 % 256]
        metal_submesh_count := le_value [byte_4 / 256 / 256 % 256]
        metal_submesh_begin := le_value [byte_4 / 256 / 256 / 256 % 256]
        joint_count := le_value [h.joint_count % 256]
        unknown_9 := le_value [h.unknown_9 % 256]
        rac1_byte_a := le_value [h.rac1_byte_a % 256]
        rac12_byte_b := le_value [h.rac12_byte_b % 256]
        sequence_count := le_value [h.sequence_count % 256]
        sound_count := le_value [h.sound_count % 256]
        lod_trans := le_value [h.lod_trans % 256]
        shadow := le_value [h.shadow % 256]
        collision := to_signed 32 (le_value (le_bytes 4 (to_unsigned 32 h.collision)))
        skeleton := to_signed 32 (le_value (le_bytes 4 (to_unsigned 32 h.skeleton)))
        common_trans := to_signed 32 (le_value (le_bytes 4 (to_unsigned 32 h.common_trans)))
        joints := to_signed 32 (le_value (le_bytes 4 (to_unsigned 32 h.joints)))
        gif_usage := to_signed 32 (le_value (le_bytes 4 (to_unsigned 32 h.gif_usage)))
        scale := le_value (le_bytes 4 h.scale)
        sound_defs := to_signed 32 (le_value (le_bytes 4 (to_unsigned 32 h.sound_defs)))
        bangles := le_value [h.bangles % 256]
        mip_dist := le_value [h.mip_dist % 256]
        corncob := to_signed 16 (le_value (le_bytes 2 (to_unsigned 16 h.corncob)))
        bounding_sphere := raw_bytes 0x10 h.bounding_sphere
        glow_rgba := to_signed 32 (le_value (le_bytes 4 (to_unsigned 32 h.glow_rgba)))
        mode_bits := to_signed 16 (le_value (le_bytes 2 (to_unsigned 16 h.mode_bits)))
        type := le_value [h.type % 256]
        mode_bits2 := le_value [h.mode_bits2 % 256] } := by
  rw [written_header_bytes]
  rfl

theorem le_value_byte (v : Nat) : le_value [v % 256] = v % 256 := by
  simp only [le_value]
  omega

theorem le_value_le_bytes_four (v : Nat) : le_value (le_bytes 4 v) = v % 2 ^ 32 := by
  simp only [le_bytes, le_value]
  omega

theorem le_value_le_bytes_two (v : Nat) : le_value (le_bytes 2 v) = v % 2 ^ 16 := by
  simp only [le_bytes, le_value]
  omega

theorem signed_round_trip (x : Int) (h0 : 0 ≤ x) (h1 : x < 2 ^ 31) :
    to_signed 32 (le_value (le_bytes 4 (to_unsigned 32 x))) = x := by
  rw [le_value_le_bytes_four]
  unfold to_signed to_unsigned
  have e : ((2 ^ 32 : Nat) : Int) = 4294967296 := by norm_num
  have e2 : (2 : Int) ^ 31 = 2147483648 := by norm_num
  have e3 : (2 : Nat) ^ 32 = 4294967296 := by norm_num
  have e4 : (2 : Nat) ^ (32 - 1) = 2147483648 := by norm_num
  rw [e, e3, e4]
  rw [e2] at h1
  split <;> omega

/-- A slice of a list lies in every prefix long enough to hold it. -/
theorem slice_of_take (l : List Nat) (n o w : Nat) (h : o + w ≤ n) :
    ((l.take n).drop o).take w = (l.drop o).take w := by
  rw [List.drop_take, List.take_take]
  congr 1
  omega

theorem slice_suffix (l : List Nat) (a m e : Nat) (h1 : a ≤ m) :
    (l.drop m).take (e - m) <:+ (l.drop a).take (e - a) := by
  have : ((l.drop a).take (e - a)).drop (m - a) = (l.drop m).take (e - m) := by
    rw [List.drop_take, List.drop_drop]
    congr 1
    · omega
    · congr 1
      omega
  rw [← this]
  exact List.drop_suffix _ _

theorem slice_eq_of_getElem? (l x : List Nat) (m : Nat)
    (h : ∀ i, m ≤ i → i < m + x.length → l[i]? = x[i - m]?) :
    (l.drop m).take x.length = x := by
  apply List.ext_getElem?
  intro i
  rw [List.getElem?_take]
  split
  · rename_i hi
    rw [List.getElem?_drop, h (m + i) (by omega) (by omega)]
    congr 1
    omega
  · rename_i hi
    exact (List.getElem?_eq_none (by omega)).symm

/-! ### The mystery data of a written class read back -/

/-- For every model for which `write_moby_class` and the subsequent
`read_moby_class` succeed (the buffer being shorter than 2^31 bytes), the
mystery bytes the encoder wrote and the decoded mystery data both end at the
skeleton, so one of them is a suffix of the other; they are equal when they
have the same length. -/
theorem written_mystery_suffix (env : Env) (dest : List Nat) (moby : MobyClassData) (game : Game)
    (b : List Nat) (model : MobyClassData)
    (hw : write_moby_class env dest moby game = .ok b)
    (hr : read_moby_class env (b.drop dest.length) game = .ok model)
    (hs : b.length < 2 ^ 31) :
    (model.mystery_data <:+ moby.mystery_data.map (fun x => x % 256) ∨
      moby.mystery_data.map (fun x => x % 256) <:+ model.mystery_data) ∧
    (model.mystery_data.length = moby.mystery_data.length →
      model.mystery_data = moby.mystery_data.map (fun x => x % 256)) := by
  have key : model.mystery_data <:+ moby.mystery_data.map (fun x => x % 256) ∨
      moby.mystery_data.map (fun x => x % 256) <:+ model.mystery_data := by
    obtain ⟨out, hb, he⟩ := write_moby_class_ok hw
    obtain ⟨l1, l2, _, l4, l5, l6⟩ := write_moby_class_body_layout hb
    obtain ⟨hh, hlen⟩ := written_class_header hb he
    have hm := written_class_mystery hb he
    obtain ⟨hb1, _, _, _, _, _, _, _, _, _, _, _, tables, mystery_data, r1, _, _, _, _, _, _, _,
      _, _, _, _, _, _, r15, rm⟩ := read_moby_class_ok hr
    obtain ⟨_, _, _, e1⟩ := read_bytes_ok r1
    obtain ⟨a0, a1, a2, e15⟩ := read_bytes_ok r15
    have e2 : hb1 = write_at out.2.1.bytes 4 (le_bytes 4 moby.byte_4) := by
      rw [e1, ← hh]
      simp
    unfold in_source_order at l2
    have hskel : (MobyClassHeader.parse hb1).skeleton =
        (out.2.2.skeleton_ofs : Int) - dest.length := by
      rw [e2, parse_written_header]
      simp only
      rw [l5.2.2.2.2.1, l1]
      have e31 : (2 : Int) ^ 31 = 2147483648 := by norm_num
      have e31n : (2 : Nat) ^ 31 = 2147483648 := by norm_num
      exact signed_round_trip _ (by omega) (by omega)
    rw [hskel] at e15 a1 a2
    have hmy : moby.mystery_data.map (fun x => x % 256) =
        ((b.drop dest.length).drop (out.2.2.mystery_data_ofs - dest.length)).take
          ((out.2.2.skeleton_ofs - dest.length) -
            (out.2.2.mystery_data_ofs - dest.length)) := by
      have hx := slice_eq_of_getElem? b (moby.mystery_data.map (fun x => x % 256))
        out.2.2.mystery_data_ofs (fun i h1 h2 => hm i h1 (by
          rw [List.length_map] at h2
          omega))
      rw [List.drop_drop]
      rw [List.length_map] at hx
      have e5 : dest.length + (out.2.2.mystery_data_ofs - dest.length) =
          out.2.2.mystery_data_ofs := by omega
      have e6 : out.2.2.skeleton_ofs - dest.length - (out.2.2.mystery_data_ofs - dest.length) =
          moby.mystery_data.length := by omega
      rw [e5, e6]
      exact hx.symm
    have hmo : model.mystery_data =
        ((b.drop dest.length).drop tables.mystery_data_ofs.toNat).take
          ((out.2.2.skeleton_ofs - dest.length) - tables.mystery_data_ofs.toNat) := by
      rw [rm]
      simp only
      rw [e15]
      congr 1
      omega
    rw [hmy, hmo]
    by_cases hc : tables.mystery_data_ofs.toNat ≤ out.2.2.mystery_data_ofs - dest.length
    · exact Or.inr (slice_suffix _ _ _ _ hc)
    · exact Or.inl (slice_suffix _ _ _ _ (by omega))
  refine ⟨key, fun hl => ?_⟩
  cases key with
  | inl h => exact h.eq_of_length (by rw [hl, List.length_map])
  | inr h => exact (h.eq_of_length (by rw [hl, List.length_map])).symm

/-! ### The header fields of a written class -/

theorem check_class_counts_ok {moby : MobyClassData} (h : check_class_counts moby = .ok ()) :
    moby.submeshes.length < 256 ∧ moby.low_detail_submeshes.length < 256 ∧
    moby.metal_submeshes.length < 256 ∧ moby.sound_defs.length < 256 ∧
    moby.sequences.length < 256 ∧ moby.skeleton.length < 255 := by
  unfold check_class_counts at h
  split at h
  · cases h
  · split at h
    · cases h
    · split at h
      · cases h
      · split at h
        · cases h
        · split at h
          · cases h
          · split at h
            · cases h
            · omega

theorem read_uint_ok {src : List Nat} {size : Nat} {offset : Int} {subject : String} {v : Nat}
    (h : read_uint src size offset subject = .ok v) :
    0 ≤ offset ∧ offset + size ≤ src.length ∧
      v = le_value ((src.drop offset.toNat).take size) := by
  unfold read_uint at h
  split at h
  · cases h
  · rename_i bs hbs
    obtain ⟨h1, _, h3, h4⟩ := read_bytes_ok hbs
    injection h with h
    rw [← h, h4]
    exact ⟨h1, h3, rfl⟩

/-- What `read_moby_class` takes from the header of a class that
`write_moby_class` wrote. -/
theorem read_written_header {env : Env} {dest : List Nat} {moby : MobyClassData} {game : Game}
    {b : List Nat} {out : List Nat × MobyClassHeader × Regions}
    (hb : write_moby_class_body env dest moby game = .ok out)
    (he : b = write_at (write_at out.1 dest.length out.2.1.bytes) (dest.length + 4)
      (le_bytes 4 moby.byte_4))
    {hb1 : List Nat} {byte_4 : Nat}
    (r1 : read_bytes (b.drop dest.length) 0 0x48 "moby class header" = .ok hb1)
    (r2 : read_uint (b.drop dest.length) 4 4 "moby class header" = .ok byte_4) :
    hb1 = write_at out.2.1.bytes 4 (le_bytes 4 moby.byte_4) ∧ byte_4 = moby.byte_4 % 2 ^ 32 := by
  obtain ⟨hh, _⟩ := written_class_header hb he
  obtain ⟨_, _, _, e1⟩ := read_bytes_ok r1
  obtain ⟨_, _, e2⟩ := read_uint_ok r2
  have e3 : hb1 = write_at out.2.1.bytes 4 (le_bytes 4 moby.byte_4) := by
    rw [e1, ← hh]
    simp
  refine ⟨e3, ?_⟩
  have e4 : (((b.drop dest.length).drop (4 : Int).toNat).take 4) = le_bytes 4 moby.byte_4 := by
    have := slice_of_take (b.drop dest.length) 0x48 4 4 (by omega)
    rw [hh, written_header_bytes] at this
    exact this.symm
  rw [e2, e4, le_value_le_bytes_four]

theorem to_signed_mod (bits v : Nat) : to_signed bits (v % 2 ^ bits) = to_signed bits v := by
  unfold to_signed
  rw [Nat.mod_mod]

theorem raw_bytes_self (s : List Nat) (n : Nat) (hl : s.length = n) (hs : ∀ x ∈ s, x < 256) :
    raw_bytes n s = s := by
  unfold raw_bytes
  apply List.ext_getElem?
  intro i
  rw [List.getElem?_map]
  by_cases hi : i < n
  · rw [List.getElem?_range hi, List.getElem?_eq_getElem (by omega)]
    simp only [Option.map_some', List.getD_eq_getElem?_getD]
    rw [List.getElem?_eq_getElem (by omega)]
    have := hs s[i] (List.getElem_mem _)
    simp only [Option.getD_some]
    rw [Nat.mod_eq_of_lt this]
  · rw [List.getElem?_eq_none (by simp; omega), List.getElem?_eq_none (by omega)]
    rfl

theorem slice_take (l : List Nat) (n o w : Nat) (h : o + w ≤ n) :
    slice (l.take n) o w = slice l o w := slice_of_take l n o w h

theorem length_slice (l : List Nat) (o w : Nat) (h : o + w ≤ l.length) :
    (slice l o w).length = w := by
  unfold slice
  rw [List.length_take, List.length_drop]
  omega

theorem slice_lt (l : List Nat) (o w : Nat) (hl : ∀ x ∈ l, x < 256) :
    ∀ x ∈ slice l o w, x < 256 :=
  fun x hx => hl x (List.mem_of_mem_drop (List.mem_of_mem_take hx))

/-- C15: `read_moby_class` selects the RAC1 format for RAC1, the RAC3DL format
for RAC3 and DL, and for RAC2 the RAC2 format exactly when the header byte
`rac12_byte_b` is 0, otherwise RAC1 with `force_rac1_format` set; and
`write_moby_class` selects, for the decoded model and the same game, the format
the decoder selected. -/
theorem format_selection (env : Env) (src : List Nat) (game : Game) (model : MobyClassData)
    (h : read_moby_class env src game = .ok model) :
    (game = Game.RAC1 →
      (read_format game (MobyClassHeader.parse (src.take 0x48)).rac12_byte_b).1 =
        MobyFormat.RAC1) ∧
    (game = Game.RAC3 ∨ game = Game.DL →
      (read_format game (MobyClassHeader.parse (src.take 0x48)).rac12_byte_b).1 =
        MobyFormat.RAC3DL) ∧
    (game = Game.RAC2 →
      ((read_format game (MobyClassHeader.parse (src.take 0x48)).rac12_byte_b).1 =
          MobyFormat.RAC2 ↔ (MobyClassHeader.parse (src.take 0x48)).rac12_byte_b = 0) ∧
      ((MobyClassHeader.parse (src.take 0x48)).rac12_byte_b ≠ 0 →
        (read_format game (MobyClassHeader.parse (src.take 0x48)).rac12_byte_b).1 =
          MobyFormat.RAC1 ∧ model.force_rac1_format = true)) ∧
    model.force_rac1_format =
      (read_format game (MobyClassHeader.parse (src.take 0x48)).rac12_byte_b).2 ∧
    write_format game model.force_rac1_format =
      (read_format game (MobyClassHeader.parse (src.take 0x48)).rac12_byte_b).1 := by
  obtain ⟨hb, _, _, _, _, _, _, _, _, _, _, _, _, _, h1, _, _, _, _, _, _, _, _, _, _, _, _, _,
    _, hm⟩ := read_moby_class_ok h
  obtain ⟨_, _, _, e⟩ := read_bytes_ok h1
  have e2 : hb = src.take 0x48 := by rw [e]; simp
  have hf : model.force_rac1_format =
      (read_format game (MobyClassHeader.parse (src.take 0x48)).rac12_byte_b).2 := by
    rw [hm, ← e2]
  rw [hf]
  generalize (MobyClassHeader.parse (src.take 0x48)).rac12_byte_b = byte_b
  refine ⟨fun hg => by rw [hg]; rfl, fun hg => by cases hg <;> (rename_i hg; rw [hg]; rfl),
    fun hg => ?_, rfl, ?_⟩
  · rw [hg]
    unfold read_format
    by_cases hz : byte_b = 0
    · simp [hz]
    · simp [hz]
  · cases game
    · rfl
    · unfold read_format write_format
      by_cases hz : byte_b = 0
      · simp [hz]
      · simp [hz]
    · rfl
    · rfl

set_option maxRecDepth 100000 in
/-- The theorem `format_selection` at `forced_format_buffer`, decoded for
RAC2: the RAC1 format is forced. -/
theorem format_selection_witness :
    ∃ model, read_moby_class example_env forced_format_buffer Game.RAC2 = .ok model ∧
      (MobyClassHeader.parse (forced_format_buffer.take 0x48)).rac12_byte_b ≠ 0 ∧
      model.force_rac1_format = true ∧
      write_format Game.RAC2 model.force_rac1_format = MobyFormat.RAC1 :=
  ⟨_, rfl, by decide,
    ((format_selection example_env forced_format_buffer Game.RAC2 _ rfl).2.2.1 rfl).2
      (by decide) |>.2,
    ((format_selection example_env forced_format_buffer Game.RAC2 _ rfl).2.2.2.2).trans
      (((format_selection example_env forced_format_buffer Game.RAC2 _ rfl).2.2.1 rfl).2
        (by decide) |>.1)⟩

/-! ### The number of vertices written (C12) -/

theorem push_trailing_length (n : Nat) (tvi : List Nat) :
    ∀ (fuel : Nat) (vertices : List MobyVertex) (trailing : Nat),
      tvi.length < fuel + trailing →
      (push_trailing n tvi fuel vertices trailing).1.length + trailing =
        vertices.length + (push_trailing n tvi fuel vertices trailing).2 ∧
      trailing ≤ (push_trailing n tvi fuel vertices trailing).2 ∧
      ((push_trailing n tvi fuel vertices trailing).1.length % 4 = 2 ∨
        tvi.length ≤ (push_trailing n tvi fuel vertices trailing).2) := by
  intro fuel
  induction fuel with
  | zero =>
    intro vertices trailing h
    have e : push_trailing n tvi 0 vertices trailing = (vertices, trailing) := rfl
    rw [e]
    exact ⟨rfl, le_refl _, Or.inr (by omega)⟩
  | succ fuel ih =>
    intro vertices trailing h
    unfold push_trailing
    split
    · rename_i hc
      obtain ⟨h1, h2, h3⟩ := ih (vertices ++ [{ MobyVertex.zero with
          low_word := if 7 ≤ n + trailing then tvi.getD trailing 0 else 0 }]) (trailing + 1)
          (by omega)
      rw [List.length_append, List.length_singleton] at h1
      exact ⟨by omega, by omega, h3⟩
    · rename_i hc
      refine ⟨rfl, le_refl _, ?_⟩
      show vertices.length % 4 = 2 ∨ tvi.length ≤ trailing
      by_cases h4 : vertices.length % 4 = 2
      · exact Or.inl h4
      · exact Or.inr (by omega)

theorem set_index_foldl_length (f : List MobyVertex → Nat → Nat × Nat × Nat) :
    ∀ (l : List Nat) (vs : List MobyVertex),
      (l.foldl (fun vs i => set_index vs (f vs i).1 (f vs i).2.1 (f vs i).2.2) vs).length =
        vs.length := by
  intro l
  induction l with
  | nil => intro vs; rfl
  | cons i rest ih =>
    intro vs
    rw [List.foldl_cons, ih, set_index_length]

theorem adjust_vertex_indices_fst_length (orig : List MobyVertex) :
    (adjust_vertex_indices orig).1.length = orig.length := by
  unfold adjust_vertex_indices
  simp only
  rw [set_index_foldl_length (fun _ i => (i, 0, 0x1ff)),
    set_index_foldl_length (fun vs i => (i, (vs.getD (i - 7) MobyVertex.zero).low_word, 0xff))]

/-- C12, counterexample: for a submesh without vertices three padding vertices
are written, and 3 is not congruent to 2 modulo 4. -/
theorem padded_vertex_count_is_three :
    ∃ vs, encode_vertices [] = .ok vs ∧ vs.length = 3 ∧ vs.length % 4 ≠ 2 :=
  ⟨_, rfl, rfl, by decide⟩

/-- C12 (amended): for every submesh, the vertex array `write_moby_submeshes`
writes to the vertex table (the vertices of the submesh, then at most three
padding vertices, then the last padding vertex) has a length congruent to 3
modulo 4; it is congruent to 2 modulo 4 before the last padding vertex is
appended. -/
theorem written_vertex_count (orig : List MobyVertex) :
    ∃ vs, encode_vertices orig = .ok vs ∧ vs.length % 4 = 3 ∧ (vs.length - 1) % 4 = 2 ∧
      orig.length + 1 ≤ vs.length ∧ vs.length ≤ orig.length + 4 := by
  unfold encode_vertices
  have h1 := adjust_vertex_indices_length orig
  have h0 := adjust_vertex_indices_fst_length orig
  have h2 := push_trailing_bound orig.length (adjust_vertex_indices orig).2
    ((adjust_vertex_indices orig).2.length + 1) (adjust_vertex_indices orig).1 0
  obtain ⟨h3, h4, h5⟩ := push_trailing_length orig.length (adjust_vertex_indices orig).2
    ((adjust_vertex_indices orig).2.length + 1) (adjust_vertex_indices orig).1 0 (by omega)
  simp only
  rw [if_pos (by omega)]
  refine ⟨_, rfl, ?_⟩
  simp only [List.length_append, List.length_singleton]
  omega

/-! ### The pad field of the index header (C18) -/

theorem take_getD (l : List Nat) (n i : Nat) (h : i < n) : (l.take n).getD i 0 = l.getD i 0 := by
  simp only [List.getD_eq_getElem?_getD, List.getElem?_take, if_pos h]

theorem read_index_and_textures_bad_pad {metal : Bool} {unpacks : List (List Nat)}
    {at_index : Nat} {index_data : List Nat} (h1 : unpacks.get? at_index = some index_data)
    (h2 : 4 ≤ index_data.length) (h3 : index_data.getD 3 0 % 256 ≠ 0) :
    read_index_and_textures metal unpacks at_index = .error "Moby has bad index buffer." := by
  unfold read_index_and_textures
  rw [h1]
  simp only
  have e : read_bytes index_data 0 4 "moby index unpack header" = .ok (index_data.take 4) := by
    unfold read_bytes
    rw [if_neg (by omega), if_neg (by omega)]
    rfl
  rw [e]
  simp only
  rw [take_getD _ _ _ (by omega), if_pos h3]

theorem index_header_pad_some {vif : VifReader} {src : List Nat} {entry : MobySubMeshEntry}
    {at_index pad : Nat} (h : index_header_pad vif src entry at_index = some pad) :
    ∃ command_buffer unpacks index_data,
      subbuf_sized src entry.vif_list_offset (entry.vif_list_size * 0x10) = .ok command_buffer ∧
      vif command_buffer = .ok unpacks ∧ unpacks.get? at_index = some index_data ∧
      4 ≤ index_data.length ∧ pad = index_data.getD 3 0 % 256 := by
  unfold index_header_pad at h
  split at h
  · cases h
  · rename_i cb h1
    split at h
    · cases h
    · rename_i unpacks h2
      split at h
      · cases h
      · rename_i index_data h3
        split at h
        · rename_i h4
          injection h with h
          exact ⟨cb, unpacks, index_data, h1, h2, h3, h4, h.symm⟩
        · cases h

theorem read_moby_submesh_bad_pad {vif : VifReader} {src : List Nat} {format : MobyFormat}
    {entry : MobySubMeshEntry} {pad : Nat} (h : index_header_pad vif src entry 1 = some pad)
    (hp : pad ≠ 0) : ∃ e, read_moby_submesh vif src format entry = .error e := by
  obtain ⟨cb, unpacks, index_data, h1, h2, h3, h4, h5⟩ := index_header_pad_some h
  unfold read_moby_submesh
  rw [h1]
  simp only [bind, Except.bind]
  rw [h2]
  simp only
  cases h0 : unpacks.get? 0 with
  | none => exact ⟨_, rfl⟩
  | some st_data =>
    simp only
    cases read_multiple st_data 4 0 ((st_data.length / 4 : Nat) : Int) "moby st unpack" with
    | error e => exact ⟨_, rfl⟩
    | ok sts =>
      simp only
      rw [read_index_and_textures_bad_pad h3 h4 (by rw [← h5]; exact hp)]
      exact ⟨_, rfl⟩

theorem read_moby_submesh_list_bad_pad {vif : VifReader} {src : List Nat} {format : MobyFormat}
    {pad : Nat} {entry : MobySubMeshEntry} (h : index_header_pad vif src entry 1 = some pad)
    (hp : pad ≠ 0) :
    ∀ entries : List MobySubMeshEntry, entry ∈ entries →
      ∃ e, read_moby_submesh_list vif src format entries = .error e := by
  intro entries
  induction entries with
  | nil => intro hm; cases hm
  | cons head rest ih =>
    intro hm
    unfold read_moby_submesh_list
    rcases List.mem_cons.mp hm with he | he
    · obtain ⟨e, hh⟩ := @read_moby_submesh_bad_pad vif src format entry pad h hp
      rw [← he, hh]
      exact ⟨_, rfl⟩
    · cases read_moby_submesh vif src format head with
      | error e => exact ⟨_, rfl⟩
      | ok r =>
        obtain ⟨e, hh⟩ := ih he
        simp only
        rw [hh]
        exact ⟨_, rfl⟩

theorem read_moby_metal_submesh_list_bad_pad {vif : VifReader} {src : List Nat}
    {pad : Nat} {entry : MobySubMeshEntry} (h : index_header_pad vif src entry 0 = some pad)
    (hp : pad ≠ 0) :
    ∀ entries : List MobySubMeshEntry, entry ∈ entries →
      ∃ e, read_moby_metal_submesh_list vif src entries = .error e := by
  intro entries
  induction entries with
  | nil => intro hm; cases hm
  | cons head rest ih =>
    intro hm
    unfold read_moby_metal_submesh_list
    rcases List.mem_cons.mp hm with he | he
    · obtain ⟨cb, unpacks, index_data, h1, h2, h3, h4, h5⟩ := index_header_pad_some h
      have hh : ∃ e, read_moby_metal_submesh vif src head = .error e := by
        rw [← he]
        unfold read_moby_metal_submesh
        rw [h1]
        simp only [bind, Except.bind]
        rw [h2]
        simp only
        rw [read_index_and_textures_bad_pad h3 h4 (by rw [← h5]; exact hp)]
        exact ⟨_, rfl⟩
      obtain ⟨e, hh⟩ := hh
      rw [hh]
      exact ⟨_, rfl⟩
    · cases read_moby_metal_submesh vif src head with
      | error e => exact ⟨_, rfl⟩
      | ok r =>
        obtain ⟨e, hh⟩ := ih he
        simp only
        rw [hh]
        exact ⟨_, rfl⟩

/-- C18: `read_moby_submeshes` and `read_moby_metal_submeshes` fail with an
error, returning no submesh list, whenever the index header of the submesh of
some table entry has a pad field that is not zero. -/
theorem bad_index_header_aborts (vif : VifReader) (src : List Nat) (table_ofs count : Int)
    (format : MobyFormat) :
    ((∃ raw entry pad, read_multiple src 0x10 table_ofs count "moby submesh table" = .ok raw ∧
        entry ∈ raw.map MobySubMeshEntry.parse ∧
        index_header_pad vif src entry 1 = some pad ∧ pad ≠ 0) →
      ∃ e, read_moby_submeshes vif src table_ofs count format = .error e) ∧
    ((∃ raw entry pad,
        read_multiple src 0x10 table_ofs count "moby metal submesh table" = .ok raw ∧
        entry ∈ raw.map MobySubMeshEntry.parse ∧
        index_header_pad vif src entry 0 = some pad ∧ pad ≠ 0) →
      ∃ e, read_moby_metal_submeshes vif src table_ofs count = .error e) := by
  constructor
  · rintro ⟨raw, entry, pad, h1, h2, h3, h4⟩
    unfold read_moby_submeshes
    rw [h1]
    exact read_moby_submesh_list_bad_pad h3 h4 _ h2
  · rintro ⟨raw, entry, pad, h1, h2, h3, h4⟩
    unfold read_moby_metal_submeshes
    rw [h1]
    exact read_moby_metal_submesh_list_bad_pad h3 h4 _ h2

set_option maxRecDepth 100000 in
/-- The theorem `bad_index_header_aborts` at `lookback_long_table` and
`metal_table`, with VIF readers whose index header has pad byte 1. -/
theorem bad_index_header_aborts_witness :
    (∃ e, read_moby_submeshes bad_pad_unpacks lookback_long_table 0 1 MobyFormat.RAC2 =
      .error e) ∧
    (∃ e, read_moby_metal_submeshes bad_pad_metal_unpacks metal_table 0 1 = .error e) :=
  ⟨(bad_index_header_aborts bad_pad_unpacks lookback_long_table 0 1 MobyFormat.RAC2).1
      ⟨_, MobySubMeshEntry.parse (lookback_long_table.take 0x10), 1, rfl,
        List.Mem.head _, rfl, by decide⟩,
   (bad_index_header_aborts bad_pad_metal_unpacks metal_table 0 1 MobyFormat.RAC2).2
      ⟨_, MobySubMeshEntry.parse (metal_table.take 0x10), 1, rfl,
        List.Mem.head _, rfl, by decide⟩⟩

/-! ### The kind of a WAD archive (C20) -/

theorem match_wad_loop_ok (header_size : Nat) :
    ∀ (table : List WadFileDescription) (desc : WadFileDescription),
      match_wad_loop header_size table = .ok desc →
      desc ∈ table ∧ desc.header_size = header_size := by
  intro table
  induction table with
  | nil => intro desc h; cases h
  | cons d rest ih =>
    intro desc h
    unfold match_wad_loop at h
    split at h
    · rename_i hc
      injection h with h
      rw [← h]
      exact ⟨List.mem_cons_self _ _, hc⟩
    · obtain ⟨h1, h2⟩ := ih desc h
      exact ⟨List.mem_cons_of_mem _ h1, h2⟩

/-- C20: `match_wad` over the table `wad_files` selects a descriptor exactly
when the size of the header is the `header_size` of that descriptor (the level
descriptor for a header of 0xc68 bytes), at most one descriptor of the table
has that size, and for every header size that no descriptor has (or that more
than one has, which does not occur in the table) it fails with an error. -/
theorem match_wad_by_header_size (header : List Nat) :
    (∀ desc, match_wad header = .ok desc ↔
      desc ∈ wad_files ∧ desc.header_size = header.length) ∧
    (header.length = 0xc68 → ∃ desc, match_wad header = .ok desc ∧ desc.name = "level") ∧
    (wad_files.filter (fun d => d.header_size = header.length)).length ≤ 1 ∧
    ((∀ d ∈ wad_files, d.header_size ≠ header.length) → ∃ e, match_wad header = .error e) ∧
    (1 < (wad_files.filter (fun d => d.header_size = header.length)).length →
      ∃ e, match_wad header = .error e) := by
  have hle : (wad_files.filter (fun d => d.header_size = header.length)).length ≤ 1 :=
    le_trans (List.length_filter_le _ _) (le_of_eq rfl)
  refine ⟨fun desc => ⟨fun h => match_wad_loop_ok _ _ _ h, ?_⟩, ?_, hle, ?_, fun h => by omega⟩
  · rintro ⟨hm, hs⟩
    unfold wad_files at hm
    rw [List.mem_singleton] at hm
    unfold match_wad wad_files match_wad_loop
    rw [← hm, if_pos hs]
  · intro hs
    unfold match_wad wad_files match_wad_loop
    rw [if_pos hs.symm]
    exact ⟨_, rfl, rfl⟩
  · intro hn
    have := hn _ (List.mem_cons_self _ _)
    unfold match_wad wad_files match_wad_loop
    rw [if_neg this]
    exact ⟨_, rfl⟩

/-- The theorem `match_wad_by_header_size` at a header of 0xc68 bytes and at
one of 0x10 bytes. -/
theorem match_wad_by_header_size_witness :
    (∃ desc, match_wad (List.replicate 0xc68 0) = .ok desc ∧ desc.name = "level") ∧
    (∃ e, match_wad (List.replicate 0x10 0) = .error e) :=
  ⟨(match_wad_by_header_size (List.replicate 0xc68 0)).2.1 (List.length_replicate _ _),
   (match_wad_by_header_size (List.replicate 0x10 0)).2.2.2.1 (fun d hd => by
      unfold wad_files at hd
      rw [List.mem_singleton] at hd
      rw [hd, List.length_replicate]
      decide)⟩

/-! ### Conflicting transfer vertex counts (C16) -/

set_option maxRecDepth 100000 in
/-- C16, at the failing input: in `conflicting_counts_table` the table entry
has `transfer_vertex_count` 8 and the vertex table header has 9, and
`read_moby_submeshes` returns the submesh of the entry; it is not left out. -/
theorem conflicting_counts_submesh_kept :
    ∃ submesh, read_moby_submeshes constant_unpacks conflicting_counts_table 0 1
        MobyFormat.RAC2 = .ok [submesh] ∧
      (MobySubMeshEntry.parse (conflicting_counts_table.take 0x10)).transfer_vertex_count = 8 ∧
      (MobyVertexTableHeaderRac1.parse 2
        (slice conflicting_counts_table 0x10 0x10)).transfer_vertex_count = 9 ∧
      submesh.vertices.length = 8 :=
  ⟨_, rfl, by decide, by decide, by decide⟩

/-! ### The index byte 0x80 (C17) -/

theorem lift_indices_aborts (bad : String) (src : MobySubMesh) (texture_count : Int)
    (vertex_base vertex_count : Nat) :
    ∀ (indices : List Nat) (s : IndexState), index_0x80_reached indices →
      ∃ e, lift_indices bad src texture_count vertex_base vertex_count indices s = .error e := by
  intro indices
  induction indices with
  | nil =>
    rintro s ⟨k, hk, _, _⟩
    simp at hk
  | cons raw rest ih =>
    rintro s ⟨k, hk, h80, h0⟩
    unfold lift_indices
    by_cases hr : raw % 256 = 0x80
    · rw [if_pos hr]
      exact ⟨_, rfl⟩
    · rw [if_neg hr]
      cases k with
      | zero => exact absurd h80 hr
      | succ k =>
        have hz : raw % 256 ≠ 0 := h0 0 (Nat.succ_pos _)
        rw [if_neg hz]
        simp only
        cases queue_index bad vertex_base vertex_count (raw % 256) s with
        | error e => exact ⟨_, rfl⟩
        | ok s2 =>
          simp only
          exact ih s2 ⟨k, by simpa using hk, h80, fun j hj => h0 (j + 1) (by omega)⟩

theorem lift_moby_submesh_aborts (o_class texture_count : Int) (i : Nat) (src : MobySubMesh)
    (st : LiftState) (h : index_0x80_reached src.indices) :
    ∃ e, lift_moby_submesh o_class texture_count i src st = .error e := by
  unfold lift_moby_submesh
  cases lift_vertices src.sts st.vertices.length src.vertices st with
  | error e => exact ⟨_, rfl⟩
  | ok st1 =>
    simp only
    cases lift_duplicates (submesh_error o_class i "vertex table") src.sts st.vertices.length
        src.duplicate_vertices st1 with
    | error e => exact ⟨_, rfl⟩
    | ok st2 =>
      simp only
      obtain ⟨e, he⟩ := lift_indices_aborts (submesh_error o_class i "index buffer") src
        texture_count st.vertices.length st2.vertices.length src.indices
        ⟨[0, 0, 0], 0, 0, true, 0, st2.dest, st2.submeshes⟩ h
      rw [he]
      exact ⟨_, rfl⟩

theorem lift_moby_submesh_list_aborts (o_class texture_count : Int) :
    ∀ (submeshes : List MobySubMesh) (i : Nat) (st : LiftState),
      (∃ s ∈ submeshes, index_0x80_reached s.indices) →
      ∃ e, lift_moby_submesh_list o_class texture_count i submeshes st = .error e := by
  intro submeshes
  induction submeshes with
  | nil =>
    rintro i st ⟨s, hs, _⟩
    cases hs
  | cons src rest ih =>
    rintro i st ⟨s, hs, h⟩
    unfold lift_moby_submesh_list
    rcases List.mem_cons.mp hs with he | he
    · obtain ⟨e, hh⟩ := lift_moby_submesh_aborts o_class texture_count i src st (he ▸ h)
      rw [hh]
      exact ⟨_, rfl⟩
    · cases lift_moby_submesh o_class texture_count i src st with
      | error e => exact ⟨_, rfl⟩
      | ok st1 =>
        simp only
        exact ih (i + 1) st1 ⟨s, he, h⟩

set_option maxRecDepth 100000 in
/-- C17, counterexample: of two submeshes the first is lifted without error
when it is alone; with `bad_index_submesh`, whose index bytes hold 0x80, after
it, `lift_moby_mesh` fails with the error of `VERIFY_SUBMESH` and returns no
mesh: the submesh is not skipped. -/
theorem index_0x80_is_fatal :
    (∃ mesh, lift_moby_mesh [good_index_submesh] "high_lod" 0 4 = .ok mesh) ∧
    lift_moby_mesh [good_index_submesh, bad_index_submesh] "high_lod" 0 4 =
      .error (submesh_error 0 1 "index buffer") :=
  ⟨⟨_, rfl⟩, rfl⟩

theorem queue_index_error {bad : String} {vertex_base vertex_count index : Nat}
    {s : IndexState} {e : String}
    (h : queue_index bad vertex_base vertex_count index s = .error e) : e = bad := by
  unfold queue_index at h
  simp only at h
  split_ifs at h <;> cases h <;> rfl

theorem lift_indices_bad (bad : String) (src : MobySubMesh) (texture_count : Int)
    (vertex_base vertex_count : Nat) :
    ∀ (indices : List Nat) (s : IndexState), index_0x80_reached indices →
      lift_indices bad src texture_count vertex_base vertex_count indices s = .error bad := by
  intro indices
  induction indices with
  | nil =>
    rintro s ⟨k, hk, _, _⟩
    simp at hk
  | cons raw rest ih =>
    rintro s ⟨k, hk, h80, h0⟩
    unfold lift_indices
    by_cases hr : raw % 256 = 0x80
    · rw [if_pos hr]
    · rw [if_neg hr]
      cases k with
      | zero => exact absurd h80 hr
      | succ k =>
        have hz : raw % 256 ≠ 0 := h0 0 (Nat.succ_pos _)
        rw [if_neg hz]
        simp only
        cases hq : queue_index bad vertex_base vertex_count (raw % 256) s with
        | error e =>
          simp only
          rw [queue_index_error hq]
        | ok s2 =>
          simp only
          exact ih s2 ⟨k, by simpa using hk, h80, fun j hj => h0 (j + 1) (by omega)⟩

theorem lift_moby_submesh_bad (o_class texture_count : Int) (i : Nat) (src : MobySubMesh)
    (st st1 st2 : LiftState) (h : index_0x80_reached src.indices)
    (h1 : lift_vertices src.sts st.vertices.length src.vertices st = .ok st1)
    (h2 : lift_duplicates (submesh_error o_class i "vertex table") src.sts st.vertices.length
      src.duplicate_vertices st1 = .ok st2) :
    lift_moby_submesh o_class texture_count i src st =
      .error (submesh_error o_class i "index buffer") := by
  unfold lift_moby_submesh
  rw [h1]
  simp only
  rw [h2]
  simp only
  rw [lift_indices_bad _ _ _ _ _ _ _ h]

theorem lift_moby_submesh_list_cons (o_class texture_count : Int) (i : Nat) (src : MobySubMesh)
    (rest : List MobySubMesh) (st : LiftState) :
    lift_moby_submesh_list o_class texture_count i (src :: rest) st =
      match lift_moby_submesh o_class texture_count i src st with
      | .error e => .error e
      | .ok st1 => lift_moby_submesh_list o_class texture_count (i + 1) rest st1 :=
  rfl

theorem lift_moby_submesh_list_append (o_class texture_count : Int) :
    ∀ (front rest : List MobySubMesh) (i : Nat) (st0 st : LiftState),
      lift_moby_submesh_list o_class texture_count i front st0 = .ok st →
      lift_moby_submesh_list o_class texture_count i (front ++ rest) st0 =
        lift_moby_submesh_list o_class texture_count (i + front.length) rest st := by
  intro front
  induction front with
  | nil =>
    intro rest i st0 st h
    unfold lift_moby_submesh_list at h
    injection h with h
    rw [h]
    rfl
  | cons src front ih =>
    intro rest i st0 st h
    rw [List.cons_append, lift_moby_submesh_list_cons]
    rw [lift_moby_submesh_list_cons] at h
    cases hs : lift_moby_submesh o_class texture_count i src st0 with
    | error e =>
      rw [hs] at h
      cases h
    | ok st1 =>
      rw [hs] at h
      simp only at h ⊢
      have e : i + 1 + front.length = i + (front.length + 1) := by omega
      rw [ih rest (i + 1) st1 st h, List.length_cons, e]

/-- C17 (amended): when the index bytes of some submesh contain the value 0x80
at a position the loop reaches (no index byte 0 before it in that submesh),
`lift_moby_mesh` fails with an error and returns no mesh; the submesh is not
skipped and no later submesh is processed.  The error is that of
`VERIFY_SUBMESH` for the index buffer of that submesh when the submeshes
before it are lifted without error and its vertices and duplicate vertices
pass the checks of lines 915-937; otherwise an earlier check has failed. -/
theorem index_0x80_aborts (submeshes : List MobySubMesh) (name : String)
    (o_class texture_count : Int)
    (h : ∃ s ∈ submeshes, index_0x80_reached s.indices) :
    (∃ e, lift_moby_mesh submeshes name o_class texture_count = .error e) ∧
    ∀ (front rest : List MobySubMesh) (s : MobySubMesh) (st st1 st2 : LiftState),
      submeshes = front ++ s :: rest → index_0x80_reached s.indices →
      lift_moby_submesh_list o_class texture_count 0 front
        ⟨[], [], List.replicate 512 none, ⟨0, []⟩⟩ = .ok st →
      lift_vertices s.sts st.vertices.length s.vertices st = .ok st1 →
      lift_duplicates (submesh_error o_class front.length "vertex table") s.sts
        st.vertices.length s.duplicate_vertices st1 = .ok st2 →
      lift_moby_mesh submeshes name o_class texture_count =
        .error (submesh_error o_class front.length "index buffer") := by
  constructor
  · unfold lift_moby_mesh
    obtain ⟨e, he⟩ := lift_moby_submesh_list_aborts o_class texture_count submeshes 0
      ⟨[], [], List.replicate 512 none, ⟨0, []⟩⟩ h
    rw [he]
    exact ⟨_, rfl⟩
  · intro front rest s st st1 st2 hsub hr h0 h1 h2
    unfold lift_moby_mesh
    rw [hsub, lift_moby_submesh_list_append o_class texture_count front (s :: rest) 0 _ st h0]
    rw [lift_moby_submesh_list_cons, Nat.zero_add, lift_moby_submesh_bad o_class texture_count front.length s st st1 st2 hr h1 h2]

set_option maxRecDepth 100000 in
/-- The theorem `index_0x80_aborts` at the submeshes `good_index_submesh`,
`bad_index_submesh`: the error is that of `VERIFY_SUBMESH` for the index
buffer of submesh 1. -/
theorem index_0x80_aborts_witness :
    (∃ s ∈ [good_index_submesh, bad_index_submesh], index_0x80_reached s.indices) ∧
    (∃ e, lift_moby_mesh [good_index_submesh, bad_index_submesh] "high_lod" 0 4 = .error e) ∧
    lift_moby_mesh [good_index_submesh, bad_index_submesh] "high_lod" 0 4 =
      .error (submesh_error 0 1 "index buffer") :=
  have hr : index_0x80_reached bad_index_submesh.indices :=
    ⟨3, by decide, by decide, fun j hj => by
      have : j = 0 ∨ j = 1 ∨ j = 2 := by omega
      rcases this with h | h | h <;> (rw [h]; decide)⟩
  have hm : ∃ s ∈ [good_index_submesh, bad_index_submesh], index_0x80_reached s.indices :=
    ⟨bad_index_submesh, List.mem_cons_of_mem _ (List.mem_cons_self _ _), hr⟩
  ⟨hm, (index_0x80_aborts [good_index_submesh, bad_index_submesh] "high_lod" 0 4 hm).1,
    (index_0x80_aborts [good_index_submesh, bad_index_submesh] "high_lod" 0 4 hm).2
      [good_index_submesh] [] bad_index_submesh _ _ _ rfl hr rfl rfl rfl⟩

/-! ### The checks on stored counts (C11) -/

theorem check_class_counts_error {moby : MobyClassData}
    (h : 255 ≤ moby.skeleton.length ∨ 256 ≤ moby.submeshes.length ∨
      256 ≤ moby.low_detail_submeshes.length ∨ 256 ≤ moby.metal_submeshes.length ∨
      256 ≤ moby.sound_defs.length ∨ 256 ≤ moby.sequences.length) :
    ∃ e, check_class_counts moby = .error e := by
  unfold check_class_counts
  split
  · exact ⟨_, rfl⟩
  · split
    · exact ⟨_, rfl⟩
    · split
      · exact ⟨_, rfl⟩
      · split
        · exact ⟨_, rfl⟩
        · split
          · exact ⟨_, rfl⟩
          · split
            · exact ⟨_, rfl⟩
            · omega

theorem slice_write_at (d : List Nat) (o : Nat) (bs : List Nat) (a w : Nat)
    (h1 : o + bs.length ≤ d.length) (h2 : a + w ≤ bs.length) :
    slice (write_at d o bs) (o + a) w = slice bs a w := by
  unfold slice
  apply List.ext_getElem?
  intro i
  rw [List.getElem?_take, List.getElem?_take]
  split
  · rw [List.getElem?_drop, List.getElem?_drop, getElem?_write_at, if_pos (by omega)]
    congr 1
    omega
  · rfl

theorem length_raw_bytes (n : Nat) (b : List Nat) : (raw_bytes n b).length = n := by
  simp [raw_bytes]

theorem sequence_header_counts (env : Env) (class_header_ofs : Nat) (format : MobyFormat)
    (dest : List Nat) (list_ofs : Nat) (sequence : MobySequence) :
    slice (write_moby_sequence env class_header_ofs format dest list_ofs sequence)
        ((pad dest 0x10).length + 0x10) 3 =
      [sequence.frames.length % 256, sequence.sound_count % 256,
        sequence.triggers.length % 256] := by
  unfold write_moby_sequence
  simp only
  have hl := length_write_moby_frames class_header_ofs sequence.frames
    (match sequence.trigger_data with
      | some t => write_at (pad dest 0x10 ++ List.replicate 0x1c 0) list_ofs
          (le_bytes 4 (to_unsigned 32 (((pad dest 0x10).length : Int) - class_header_ofs))) ++
          List.replicate (4 * sequence.frames.length) 0 ++
          (sequence.triggers.map (le_bytes 4)).flatten ++
          raw_bytes env.sizeof_MobyTriggerData t
      | none => write_at (pad dest 0x10 ++ List.replicate 0x1c 0) list_ofs
          (le_bytes 4 (to_unsigned 32 (((pad dest 0x10).length : Int) - class_header_ofs))) ++
          List.replicate (4 * sequence.frames.length) 0 ++
          (sequence.triggers.map (le_bytes 4)).flatten)
    (write_at (pad dest 0x10 ++ List.replicate 0x1c 0) list_ofs
      (le_bytes 4 (to_unsigned 32 (((pad dest 0x10).length : Int) - class_header_ofs)))).length
  have hd : (pad dest 0x10).length + 0x1c ≤
      (match sequence.trigger_data with
      | some t => write_at (pad dest 0x10 ++ List.replicate 0x1c 0) list_ofs
          (le_bytes 4 (to_unsigned 32 (((pad dest 0x10).length : Int) - class_header_ofs))) ++
          List.replicate (4 * sequence.frames.length) 0 ++
          (sequence.triggers.map (le_bytes 4)).flatten ++
          raw_bytes env.sizeof_MobyTriggerData t
      | none => write_at (pad dest 0x10 ++ List.replicate 0x1c 0) list_ofs
          (le_bytes 4 (to_unsigned 32 (((pad dest 0x10).length : Int) - class_header_ofs))) ++
          List.replicate (4 * sequence.frames.length) 0 ++
          (sequence.triggers.map (le_bytes 4)).flatten).length := by
    cases sequence.trigger_data <;>
      simp only [List.length_append, length_write_at, List.length_replicate] <;> omega
  rw [slice_write_at _ _ _ _ _ (by
    simp only [List.length_append, length_raw_bytes, length_le_bytes, List.length_cons,
      List.length_nil]
    omega) (by
    simp only [List.length_append, length_raw_bytes, length_le_bytes, List.length_cons,
      List.length_nil]
    omega)]
  unfold slice
  rw [List.append_assoc, List.append_assoc,
    List.drop_left' (length_raw_bytes 0x10 sequence.bounding_sphere)]
  rfl

/-- C11 (amended): `write_moby_class` fails with an error when the model has
255 or more joints, or 256 or more high-detail, low-detail or metal submeshes,
sound definitions or sequences.  The frame count and the trigger count of a
sequence are not checked: `write_moby_sequences` stores them in the sequence
header cut to 8 bits. -/
theorem stored_counts_checked (env : Env) (dest : List Nat) (moby : MobyClassData)
    (game : Game) :
    ((255 ≤ moby.skeleton.length ∨ 256 ≤ moby.submeshes.length ∨
        256 ≤ moby.low_detail_submeshes.length ∨ 256 ≤ moby.metal_submeshes.length ∨
        256 ≤ moby.sound_defs.length ∨ 256 ≤ moby.sequences.length) →
      ∃ e, write_moby_class env dest moby game = .error e) ∧
    (∀ (format : MobyFormat) (d : List Nat) (list_ofs : Nat) (sequence : MobySequence),
      slice (write_moby_sequence env dest.length format d list_ofs sequence)
          ((pad d 0x10).length + 0x10) 3 =
        [sequence.frames.length % 256, sequence.sound_count % 256,
          sequence.triggers.length % 256]) := by
  refine ⟨fun h => ?_, fun format d list_ofs sequence =>
    sequence_header_counts env dest.length format d list_ofs sequence⟩
  obtain ⟨e, he⟩ := check_class_counts_error h
  unfold write_moby_class write_moby_class_body
  simp only
  by_cases ha : dest.length % 0x40 ≠ 0
  · rw [if_pos ha]
    exact ⟨_, rfl⟩
  · rw [if_neg ha, he]
    exact ⟨_, rfl⟩

/-- The theorem `stored_counts_checked` at `many_joints_model`, written for
RAC1 to an empty output buffer. -/
theorem stored_counts_checked_witness :
    ∃ e, write_moby_class example_env [] many_joints_model Game.RAC1 = .error e :=
  (stored_counts_checked example_env [] many_joints_model Game.RAC1).1
    (Or.inl (le_of_eq (List.length_replicate _ _).symm))

set_option maxRecDepth 100000 in
/-- C11, counterexample: `many_triggers_model` has a sequence with 256
triggers; `write_moby_class` succeeds and stores 0 as the trigger count of the
sequence (the byte at 0x12 of the sequence header, which lies at 0x50, as the
sequence offset table at 0x48 says). -/
theorem trigger_count_truncated :
    many_triggers_model.sequences.map (fun s => s.map (fun q => q.triggers.length)) =
      [some 256] ∧
    (write_moby_class example_env [] many_triggers_model Game.RAC1).toOption.map
      (fun b => (slice b 0x48 4, b[0x62]?)) = some ([0x50, 0, 0, 0], some 0) :=
  ⟨by decide!, by decide!⟩

/-! ### Texture unpacks and the GIF usage table (C13, C14) -/

/-- What `write_shared_moby_vif_packets` does when it returns: without
textures only the index unpack is written; with textures the texture unpack is
written at a position `pos` that is 0xc modulo 0x10, and a GIF usage entry for
`pos` is recorded when there is a table. -/
theorem write_shared_spec {vifw : VifWriter} {class_header_ofs : Nat} {dest : List Nat}
    {gif_usage : Option (List MobyGifUsageTableEntry)} {submesh : MobySubMeshBase}
    {r : List Nat × Option (List MobyGifUsageTableEntry) × Nat}
    (h : write_shared_moby_vif_packets vifw class_header_ofs dest gif_usage submesh = .ok r) :
    (submesh.textures.length = 0 →
      r = (dest ++ vifw (index_unpack_packet submesh), gif_usage, 0)) ∧
    (0 < submesh.textures.length → ∃ zeros pos,
      pos = (dest ++ vifw (index_unpack_packet submesh) ++ zeros).length ∧ pos % 0x10 = 0xc ∧
      (∀ z ∈ zeros, z = 0) ∧
      r.1 = pad (dest ++ vifw (index_unpack_packet submesh) ++ zeros ++
        vifw (texture_unpack_packet submesh)) 0x10 ∧
      r.2.1 = gif_usage.map (fun table => table ++
        [⟨gif_texture_indices submesh,
          to_unsigned 32 ((pos : Int) - 0xc - class_header_ofs)⟩]) ∧
      (gif_usage.isSome = true → submesh.textures.length ≤ 12)) := by
  unfold write_shared_moby_vif_packets at h
  simp only at h
  split at h
  · cases h
  · split at h
    · rename_i ht
      refine ⟨fun h0 => by omega, fun _ => ?_⟩
      have ei : index_unpack_packet submesh =
          { interrupt := 0, cmd := 0b1100000, num := (4 + submesh.indices.length) / 4,
            vnvl := VifVnVl.V4_8, addr := 0x12d,
            data := [submesh.index_header_first_byte % 256,
              ((4 + submesh.indices.length) / 4) % 256,
              submesh.secret_indices.getD 0 0 % 256, 0] ++
              submesh.indices.map (fun b => b % 256) } := by
        unfold index_unpack_packet
        rw [if_pos ht]
      rw [← ei] at h
      split at h
      · cases h
      · refine ⟨List.replicate ((0xc + 0x10 - (dest ++ vifw (index_unpack_packet submesh)).length
          % 0x10) % 0x10) 0, _, rfl, ?_, fun z hz => List.eq_of_mem_replicate hz, ?_⟩
        · have hm : ∀ n : Nat, (n + (0xc + 0x10 - n % 0x10) % 0x10) % 0x10 = 0xc := by
            intro n
            omega
          rw [List.length_append _ (List.replicate _ _), List.length_replicate]
          exact hm _
        · cases gif_usage with
          | none =>
            simp only at h
            injection h with h
            rw [← h]
            exact ⟨rfl, rfl, fun hc => by cases hc⟩
          | some table =>
            simp only at h
            split at h
            · cases h
            · rename_i h12
              injection h with h
              rw [← h]
              exact ⟨rfl, rfl, fun _ => by omega⟩
    · rename_i ht
      have ei : index_unpack_packet submesh =
          { interrupt := 0, cmd := 0b1100000, num := (4 + submesh.indices.length) / 4,
            vnvl := VifVnVl.V4_8, addr := 0x12d,
            data := [submesh.index_header_first_byte % 256, 0,
              submesh.secret_indices.getD 0 0 % 256, 0] ++
              submesh.indices.map (fun b => b % 256) } := by
        unfold index_unpack_packet
        rw [if_neg ht]
      rw [← ei] at h
      injection h with h
      rw [← h]
      exact ⟨fun _ => rfl, fun h0 => absurd h0 ht⟩

/-- The GIF usage entries one ordinary submesh adds: one entry when it has a
texture, none otherwise; the entry records the position of the texture
unpack. -/
theorem write_moby_submesh_gif {vifw : VifWriter} {class_header_ofs : Nat}
    {format : MobyFormat} {dest : List Nat} {gif_usage : List MobyGifUsageTableEntry}
    {table_ofs : Nat} {submesh : MobySubMesh} {r : List Nat × List MobyGifUsageTableEntry}
    (h : write_moby_submesh vifw class_header_ofs format dest gif_usage table_ofs submesh =
      .ok r) :
    ∃ added, r.2 = gif_usage ++ added ∧
      added.map (fun e => e.texture_indices) =
        (if 0 < submesh.textures.length then [gif_texture_indices submesh.toMobySubMeshBase]
         else []) ∧
      submesh.textures.length ≤ 12 ∧
      (∀ e ∈ added, ∃ pos : Nat, dest.length ≤ pos ∧ pos ≤ r.1.length ∧ pos % 0x10 = 0xc ∧
        e.offset_and_terminator = to_unsigned 32 ((pos : Int) - 0xc - class_header_ofs)) ∧
      dest.length ≤ r.1.length := by
  have hlen : dest.length ≤ r.1.length :=
    (@preserves_write_moby_submesh 0 0 _ _ _ _ _ _ _ _ h (Or.inr (Nat.zero_le _))
      (Nat.zero_le _)).1
  unfold write_moby_submesh at h
  simp only at h
  obtain ⟨⟨dest2, g, t⟩, h1, h⟩ := bind_eq_ok h
  simp only at h
  obtain ⟨⟨dest12, entry⟩, h2, h⟩ := bind_eq_ok h
  injection h with h
  obtain ⟨s0, s1⟩ := write_shared_spec h1
  by_cases ht : 0 < submesh.textures.length
  · obtain ⟨zeros, pos, hp, hm, _, hd, hg, h12⟩ := s1 ht
    simp only at hd hg
    refine ⟨[⟨gif_texture_indices submesh.toMobySubMeshBase,
      to_unsigned 32 ((pos : Int) - 0xc - class_header_ofs)⟩], ?_, ?_, h12 rfl, ?_, hlen⟩
    · rw [← h, hg]
      rfl
    · rw [if_pos ht]
      rfl
    · intro e he
      rw [List.mem_singleton] at he
      refine ⟨pos, ?_, ?_, hm, by rw [he]⟩
      · rw [hp]
        simp only [List.length_append]
        have := length_pad dest 0x10
        omega
      · have p5 := @preserves_write_vertex_table 0 0 _ _ _ _ _ _ h2 (Nat.zero_le _)
        have l1 := length_pad dest2 0x10
        have l2 := length_pad dest12 0x10
        have l3 : pos ≤ dest2.length := by
          rw [hd, hp]
          refine le_trans ?_ (length_pad _ _)
          rw [List.length_append _ (vifw (texture_unpack_packet submesh.toMobySubMeshBase))]
          omega
        rw [← h]
        simp only [length_write_at]
        have := p5.1
        simp only at this
        omega
  · have h0 := s0 (by omega)
    have hg : g = some gif_usage := (Prod.mk.inj (Prod.mk.inj h0).2).1
    refine ⟨[], ?_, ?_, by omega, fun e he => (List.not_mem_nil e he).elim, hlen⟩
    · rw [← h, hg]
      simp
    · rw [if_neg ht]
      rfl

theorem write_moby_submeshes_gif {vifw : VifWriter} {class_header_ofs : Nat}
    {format : MobyFormat} :
    ∀ (submeshes : List MobySubMesh) (dest : List Nat) (gif_usage : List MobyGifUsageTableEntry)
      (table_ofs : Nat) (r : List Nat × List MobyGifUsageTableEntry),
      write_moby_submeshes vifw class_header_ofs format dest gif_usage table_ofs submeshes =
        .ok r →
      ∃ added, r.2 = gif_usage ++ added ∧
        added.map (fun e => e.texture_indices) =
          (submeshes.filter (fun s => 0 < s.textures.length)).map
            (fun s => gif_texture_indices s.toMobySubMeshBase) ∧
        (∀ s ∈ submeshes, s.textures.length ≤ 12) ∧
        (∀ e ∈ added, ∃ pos : Nat, dest.length ≤ pos ∧ pos ≤ r.1.length ∧ pos % 0x10 = 0xc ∧
          e.offset_and_terminator = to_unsigned 32 ((pos : Int) - 0xc - class_header_ofs)) ∧
        dest.length ≤ r.1.length := by
  intro submeshes
  induction submeshes with
  | nil =>
    intro dest gif_usage table_ofs r h
    unfold write_moby_submeshes at h
    injection h with h
    rw [← h]
    exact ⟨[], by simp, rfl, fun s hs => (List.not_mem_nil s hs).elim,
      fun e he => (List.not_mem_nil e he).elim, le_refl _⟩
  | cons s rest ih =>
    intro dest gif_usage table_ofs r h
    unfold write_moby_submeshes at h
    split at h
    · cases h
    · rename_i d1 g1 h1
      obtain ⟨a1, e1, m1, t1, p1, l1⟩ := write_moby_submesh_gif h1
      obtain ⟨a2, e2, m2, t2, p2, l2⟩ := ih d1 g1 (table_ofs + 0x10) r h
      simp only at e1 l1 p1
      refine ⟨a1 ++ a2, by rw [e2, e1, List.append_assoc], ?_, ?_, ?_, le_trans l1 l2⟩
      · rw [List.map_append, m1, m2, List.filter_cons]
        by_cases ht : 0 < s.textures.length
        · simp [ht]
        · simp [ht]
      · intro x hx
        rcases List.mem_cons.mp hx with hx | hx
        · rw [hx]; exact t1
        · exact t2 x hx
      · intro e he
        rcases List.mem_append.mp he with he | he
        · obtain ⟨pos, q1, q2, q3, q4⟩ := p1 e he
          exact ⟨pos, q1, le_trans q2 l2, q3, q4⟩
        · obtain ⟨pos, q1, q2, q3, q4⟩ := p2 e he
          exact ⟨pos, le_trans l1 q1, q2, q3, q4⟩

theorem write_class_payloads_gif {env : Env} {class_header_ofs : Nat} {format : MobyFormat}
    {tables : ClassFront} {dest : List Nat} {moby : MobyClassData} {q : ClassPayloads}
    (h : write_class_payloads env class_header_ofs format tables dest moby = .ok q) :
    q.gif_usage.map (fun e => e.texture_indices) =
      ((ordinary_submeshes moby).filter (fun s => 0 < s.textures.length)).map
        (fun s => gif_texture_indices s.toMobySubMeshBase) ∧
    (∀ s ∈ ordinary_submeshes moby, s.textures.length ≤ 12) ∧
    (∀ e ∈ q.gif_usage, ∃ pos : Nat, dest.length ≤ pos ∧ pos ≤ q.dest.length ∧
      pos % 0x10 = 0xc ∧
      e.offset_and_terminator = to_unsigned 32 ((pos : Int) - 0xc - class_header_ofs)) := by
  unfold write_class_payloads at h
  split at h
  · cases h
  · rename_i dest21 gif_usage1 h1
    obtain ⟨a1, e1, m1, t1, p1, l1⟩ := write_moby_submeshes_gif _ _ _ _ _ h1
    split at h
    · cases h
    · rename_i dest22 gif_usage2 h2
      obtain ⟨a2, e2, m2, t2, p2, l2⟩ := write_moby_submeshes_gif _ _ _ _ _ h2
      split at h
      · cases h
      · rename_i dest23 h3
        have l3 : dest22.length ≤ dest23.length :=
          (@preserves_write_moby_metal_submeshes 0 0 _ _ _ _ _ _ h3 (Or.inr (Nat.zero_le _))
            (Nat.zero_le _)).1
        simp only at e1 e2 l1 l2 p1 p2
        rw [List.nil_append] at e1
        split at h
        · rename_i b hb
          split at h
          · cases h
          · rename_i dest24 gif_usage h4
            obtain ⟨a4, e4, m4, t4, p4, l4⟩ := write_moby_submeshes_gif _ _ _ _ _ h4
            simp only at e4 l4 p4
            injection h with h
            rw [← h]
            simp only
            unfold ordinary_submeshes
            rw [hb]
            simp only
            refine ⟨?_, ?_, ?_⟩
            · rw [e4, e2, e1, List.map_append, List.map_append, m1, m2, m4, List.filter_append,
                List.filter_append, List.map_append, List.map_append]
            · intro s hs
              rcases List.mem_append.mp hs with hs | hs
              · rcases List.mem_append.mp hs with hs | hs
                · exact t1 s hs
                · exact t2 s hs
              · exact t4 s hs
            · intro e he
              rw [e4, e2, e1] at he
              rcases List.mem_append.mp he with he | he
              · rcases List.mem_append.mp he with he | he
                · obtain ⟨pos, q1, q2, q3, q4⟩ := p1 e he
                  exact ⟨pos, q1, by omega, q3, q4⟩
                · obtain ⟨pos, q1, q2, q3, q4⟩ := p2 e he
                  exact ⟨pos, by omega, by omega, q3, q4⟩
              · obtain ⟨pos, q1, q2, q3, q4⟩ := p4 e he
                exact ⟨pos, by omega, q2, q3, q4⟩
        · rename_i hb
          injection h with h
          rw [← h]
          simp only
          unfold ordinary_submeshes
          rw [hb]
          simp only
          rw [List.append_nil]
          refine ⟨?_, ?_, ?_⟩
          · rw [e2, e1, List.map_append, m1, m2, List.filter_append, List.map_append]
          · intro s hs
            rcases List.mem_append.mp hs with hs | hs
            · exact t1 s hs
            · exact t2 s hs
          · intro e he
            rw [e2, e1] at he
            rcases List.mem_append.mp he with he | he
            · obtain ⟨pos, q1, q2, q3, q4⟩ := p1 e he
              exact ⟨pos, q1, by omega, q3, q4⟩
            · obtain ⟨pos, q1, q2, q3, q4⟩ := p2 e he
              exact ⟨pos, by omega, by omega, q3, q4⟩

theorem drop_write_at (d : List Nat) (o : Nat) (bs : List Nat) (n : Nat)
    (h : o + bs.length ≤ n) : (write_at d o bs).drop n = d.drop n := by
  apply List.ext_getElem?
  intro i
  rw [List.getElem?_drop, List.getElem?_drop, getElem?_write_at, if_neg (by omega)]

/-- The GIF usage table of a written class: the bytes after the submesh
payloads are the table of the entries recorded while the payloads were
written. -/
theorem written_gif_usage {env : Env} {dest : List Nat} {moby : MobyClassData} {game : Game}
    {b : List Nat} (hw : write_moby_class env dest moby game = .ok b) :
    ∃ q, write_class_payloads env dest.length (write_format game moby.force_rac1_format)
        (write_class_front env dest moby game)
        (write_class_middle env dest.length (write_class_front env dest moby game).dest moby).dest
        moby = .ok q ∧
      b.drop q.dest.length = gif_usage_bytes q.gif_usage ∧
      b.length = q.dest.length + (gif_usage_bytes q.gif_usage).length ∧
      dest.length + 0x48 ≤
        (write_class_middle env dest.length (write_class_front env dest moby game).dest
          moby).dest.length ∧
      dest.length % 0x40 = 0 := by
  obtain ⟨out, hb, he⟩ := write_moby_class_ok hw
  obtain ⟨l1, l2, _, _, _, l6⟩ := write_moby_class_body_layout hb
  obtain ⟨ha, _, q, hq, ho⟩ := write_moby_class_body_ok hb
  refine ⟨q, hq, ?_, ?_, ?_, ha⟩
  · rw [he, ho]
    simp only
    unfold in_source_order at l2
    rw [ho] at l1 l2
    simp only [class_regions] at l1 l2
    rw [drop_write_at _ _ _ _ (by rw [length_le_bytes]; omega),
      drop_write_at _ _ _ _ (by rw [length_MobyClassHeader_bytes]; omega),
      List.drop_left]
  · rw [he, ho, length_write_at, length_write_at, List.length_append]
  · unfold in_source_order at l2
    rw [ho] at l1 l2
    simp only [class_regions] at l1 l2
    omega

/-- C13: `write_shared_moby_vif_packets` writes a texture unpack packet for a
submesh exactly when the submesh has a texture (without one only the index
unpack is written and the texture unpack offset of the table entry is 0), and
`write_moby_class` records one GIF usage entry for each ordinary submesh
(high-detail, then low-detail, then bangles) that has a texture, in that
order, and none for the metal submeshes; each entry lists the texture indices
of its submesh in order, followed by 0xff up to 12 slots.  The table written at
the end of the class is the table of these entries. -/
theorem gif_usage_entries (env : Env) (dest : List Nat) (moby : MobyClassData) (game : Game)
    (b : List Nat) (hw : write_moby_class env dest moby game = .ok b) :
    (∃ q, write_class_payloads env dest.length (write_format game moby.force_rac1_format)
        (write_class_front env dest moby game)
        (write_class_middle env dest.length (write_class_front env dest moby game).dest moby).dest
        moby = .ok q ∧
      b.drop q.dest.length = gif_usage_bytes q.gif_usage ∧
      q.gif_usage.map (fun e => e.texture_indices) =
        ((ordinary_submeshes moby).filter (fun s => 0 < s.textures.length)).map
          (fun s => gif_texture_indices s.toMobySubMeshBase) ∧
      ∀ e ∈ q.gif_usage, e.texture_indices.length = 12) ∧
    (∀ (vifw : VifWriter) (class_header_ofs : Nat) (d : List Nat)
      (gif_usage : Option (List MobyGifUsageTableEntry)) (submesh : MobySubMeshBase)
      (r : List Nat × Option (List MobyGifUsageTableEntry) × Nat),
      write_shared_moby_vif_packets vifw class_header_ofs d gif_usage submesh = .ok r →
      (submesh.textures.length = 0 →
        r.1 = d ++ vifw (index_unpack_packet submesh) ∧ r.2.1 = gif_usage ∧ r.2.2 = 0) ∧
      (0 < submesh.textures.length → ∃ zeros, (∀ z ∈ zeros, z = 0) ∧
        r.1 = pad (d ++ vifw (index_unpack_packet submesh) ++ zeros ++
          vifw (texture_unpack_packet submesh)) 0x10)) := by
  constructor
  · obtain ⟨q, hq, hd, _, _, _⟩ := written_gif_usage hw
    obtain ⟨g1, g2, _⟩ := write_class_payloads_gif hq
    refine ⟨q, hq, hd, g1, fun e he => ?_⟩
    have hm : e.texture_indices ∈ q.gif_usage.map (fun e => e.texture_indices) :=
      List.mem_map_of_mem _ he
    rw [g1] at hm
    obtain ⟨s, hs, hse⟩ := List.mem_map.mp hm
    have h12 := g2 s (List.mem_of_mem_filter hs)
    rw [← hse]
    simp only [gif_texture_indices, List.length_append, List.length_map, List.length_replicate]
    omega
  · intro vifw class_header_ofs d gif_usage submesh r h
    obtain ⟨s0, s1⟩ := write_shared_spec h
    refine ⟨fun h0 => ?_, fun ht => ?_⟩
    · rw [s0 h0]
      exact ⟨rfl, rfl, rfl⟩
    · obtain ⟨zeros, pos, _, _, hz, hd, _, _⟩ := s1 ht
      exact ⟨zeros, hz, hd⟩

set_option maxRecDepth 100000 in
/-- The theorem `gif_usage_entries` at `textured_model` (a textured
high-detail submesh, a textured low-detail submesh and a metal submesh),
written for RAC1 to an empty output buffer: two entries are recorded. -/
theorem gif_usage_entries_witness :
    ∃ b, write_moby_class example_env [] textured_model Game.RAC1 = .ok b ∧
      ∃ q, write_class_payloads example_env ([] : List Nat).length
          (write_format Game.RAC1 textured_model.force_rac1_format)
          (write_class_front example_env [] textured_model Game.RAC1)
          (write_class_middle example_env ([] : List Nat).length
            (write_class_front example_env [] textured_model Game.RAC1).dest textured_model).dest
          textured_model = .ok q ∧
        b.drop q.dest.length = gif_usage_bytes q.gif_usage ∧
        q.gif_usage.map (fun e => e.texture_indices) =
          ((ordinary_submeshes textured_model).filter (fun s => 0 < s.textures.length)).map
            (fun s => gif_texture_indices s.toMobySubMeshBase) ∧
        ∀ e ∈ q.gif_usage, e.texture_indices.length = 12 :=
  ⟨_, rfl, (gif_usage_entries example_env [] textured_model Game.RAC1 _ rfl).1⟩

theorem flatten_slice (n : Nat) :
    ∀ (L : List (List Nat)), (∀ x ∈ L, x.length = n) → ∀ i x, L[i]? = some x →
      slice L.flatten (n * i) n = x := by
  intro L
  induction L with
  | nil => intro _ i x h; simp at h
  | cons y rest ih =>
    intro hl i x h
    have hy : y.length = n := hl y (List.mem_cons_self _ _)
    cases i with
    | zero =>
      simp only [List.getElem?_cons_zero, Option.some.injEq] at h
      unfold slice
      rw [List.flatten_cons, Nat.mul_zero, List.drop_zero, ← hy, List.take_left, h]
    | succ i =>
      rw [List.getElem?_cons_succ] at h
      have := ih (fun z hz => hl z (List.mem_cons_of_mem _ hz)) i x h
      unfold slice at this ⊢
      rw [List.flatten_cons, Nat.mul_succ, Nat.add_comm, ← List.drop_drop]
      rw [← hy, List.drop_left, hy]
      exact this

theorem slice_slice (l : List Nat) (a n c w : Nat) (h : c + w ≤ n) :
    slice (slice l a n) c w = slice l (a + c) w := by
  unfold slice
  rw [List.drop_take, List.take_take, List.drop_drop]
  congr 1
  omega

theorem length_gif_entry_bytes (e : MobyGifUsageTableEntry) : e.bytes.length = 0x10 := by
  simp [MobyGifUsageTableEntry.bytes, le_bytes]

theorem gif_entry_offset_bytes (e : MobyGifUsageTableEntry) :
    slice e.bytes 0xc 4 = le_bytes 4 e.offset_and_terminator := by
  unfold slice MobyGifUsageTableEntry.bytes
  rw [List.drop_left' (by simp), List.take_of_length_le (by rw [length_le_bytes])]

theorem or_terminator (x : Nat) (h : x < 2 ^ 31) : x ||| 0x80000000 = x + 2 ^ 31 := by
  have := Nat.mul_add_lt_is_or h 1
  rw [Nat.mul_one] at this
  rw [Nat.lor_comm, Nat.add_comm]
  exact this.symm

/-- Entry `i` of the table as written: the recorded entry, the last one with
bit 31 of its offset field set. -/
theorem tagged_getElem? (g : List MobyGifUsageTableEntry) (i : Nat) :
    (g.dropLast ++ g.getLast?.toList.map (fun e =>
        ({ e with offset_and_terminator := e.offset_and_terminator ||| 0x80000000 } :
          MobyGifUsageTableEntry)))[i]? =
      g[i]?.map (fun e => if i + 1 = g.length then
        ({ e with offset_and_terminator := e.offset_and_terminator ||| 0x80000000 } :
          MobyGifUsageTableEntry) else e) := by
  rcases List.eq_nil_or_concat g with hg | ⟨init, last, hg⟩
  · rw [hg]
    rfl
  · rw [hg, List.concat_eq_append]
    simp only [List.dropLast_concat, List.getLast?_concat, Option.toList_some, List.map_cons,
      List.map_nil, List.length_append, List.length_singleton]
    by_cases h1 : i < init.length
    · rw [List.getElem?_append_left h1, List.getElem?_append_left h1,
        List.getElem?_eq_getElem h1]
      simp only [Option.map_some']
      rw [if_neg (by omega)]
    · by_cases h2 : i = init.length
      · rw [h2, List.getElem?_append_right (le_refl _), List.getElem?_append_right (le_refl _)]
        simp
      · rw [List.getElem?_eq_none (by simp; omega), List.getElem?_eq_none (by simp; omega)]
        rfl

/-- The offset field of entry `i` of the written table. -/
theorem gif_offset_field_written (g : List MobyGifUsageTableEntry) (i : Nat)
    (e : MobyGifUsageTableEntry) (h : g[i]? = some e) (hlt : e.offset_and_terminator < 2 ^ 31) :
    gif_offset_field (gif_usage_bytes g) i =
      e.offset_and_terminator + (if i + 1 = g.length then 2 ^ 31 else 0) := by
  have ht : gif_usage_bytes g = ((g.dropLast ++ g.getLast?.toList.map (fun e =>
      ({ e with offset_and_terminator := e.offset_and_terminator ||| 0x80000000 } :
        MobyGifUsageTableEntry))).map MobyGifUsageTableEntry.bytes).flatten := by
    unfold gif_usage_bytes
    rw [List.map_append, List.map_map]
    rfl
  unfold gif_offset_field
  rw [ht, ← slice_slice _ (0x10 * i) 0x10 0xc 4 (by omega)]
  have hx := tagged_getElem? g i
  rw [h] at hx
  simp only [Option.map_some'] at hx
  have := flatten_slice 0x10 _ (fun x hx => by
    obtain ⟨y, _, hy⟩ := List.mem_map.mp hx
    rw [← hy]
    exact length_gif_entry_bytes y) i _
    (by rw [List.getElem?_map, hx]; rfl)
  rw [this, gif_entry_offset_bytes, le_value_le_bytes_four]
  split
  · simp only
    rw [or_terminator _ hlt]
    have e31 : (2 : Nat) ^ 31 = 2147483648 := by norm_num
    have e32 : (2 : Nat) ^ 32 = 4294967296 := by norm_num
    rw [e31] at hlt ⊢
    rw [e32]
    omega
  · have e31 : (2 : Nat) ^ 31 = 2147483648 := by norm_num
    have e32 : (2 : Nat) ^ 32 = 4294967296 := by norm_num
    rw [e31] at hlt
    rw [e32]
    omega

theorem to_unsigned_small (x : Int) (h0 : 0 ≤ x) (h1 : x < 2 ^ 31) :
    to_unsigned 32 x = x.toNat := by
  unfold to_unsigned
  have e : ((2 ^ 32 : Nat) : Int) = 4294967296 := by norm_num
  have e31 : (2 : Int) ^ 31 = 2147483648 := by norm_num
  rw [e]
  rw [e31] at h1
  omega

/-- C14: in the GIF usage table written by `write_moby_class` (the class being
shorter than 2^31 bytes), every entry records the offset of its texture unpack
(the position of the packet less 0xc, relative to the class), the offset field
of the last entry has bit 31 set and that of no other entry has, and the low
31 bits of every field are the recorded offset; when no ordinary submesh has a
texture no table is written and the `gif_usage` offset of the header is 0. -/
theorem gif_usage_terminator (env : Env) (dest : List Nat) (moby : MobyClassData) (game : Game)
    (b : List Nat) (hw : write_moby_class env dest moby game = .ok b)
    (hs : b.length < 2 ^ 31) :
    ∃ q, write_class_payloads env dest.length (write_format game moby.force_rac1_format)
        (write_class_front env dest moby game)
        (write_class_middle env dest.length (write_class_front env dest moby game).dest moby).dest
        moby = .ok q ∧
      b.drop q.dest.length = gif_usage_bytes q.gif_usage ∧
      (∀ i e, q.gif_usage[i]? = some e →
        (∃ pos : Nat, pos % 0x10 = 0xc ∧ dest.length + 0xc ≤ pos ∧ pos ≤ b.length ∧
          e.offset_and_terminator + 0xc + dest.length = pos) ∧
        gif_offset_field (b.drop q.dest.length) i % 2 ^ 31 = e.offset_and_terminator ∧
        gif_offset_field (b.drop q.dest.length) i / 2 ^ 31 =
          (if i + 1 = q.gif_usage.length then 1 else 0)) ∧
      ((∀ s ∈ ordinary_submeshes moby, s.textures.length = 0) →
        b.drop q.dest.length = [] ∧ slice (b.drop dest.length) 0x20 4 = [0, 0, 0, 0]) := by
  obtain ⟨q, hq, hd, hl, hm, ha⟩ := written_gif_usage hw
  obtain ⟨g1, g2, g3⟩ := write_class_payloads_gif hq
  have e31 : (2 : Nat) ^ 31 = 2147483648 := by norm_num
  have e31i : (2 : Int) ^ 31 = 2147483648 := by norm_num
  refine ⟨q, hq, hd, fun i e hi => ?_, fun hn => ?_⟩
  · obtain ⟨pos, p1, p2, p3, p4⟩ := g3 e (List.getElem?_mem hi)
    have hoff : e.offset_and_terminator = pos - 0xc - dest.length := by
      rw [p4, to_unsigned_small _ (by omega) (by omega)]
      omega
    have hlt : e.offset_and_terminator < 2 ^ 31 := by omega
    have hf := gif_offset_field_written q.gif_usage i e hi hlt
    rw [hd, hf]
    refine ⟨⟨pos, p3, by omega, by omega, by omega⟩, ?_, ?_⟩
    · split <;> omega
    · split <;> omega
  · have hnil : q.gif_usage = [] := by
      have hfil : (ordinary_submeshes moby).filter (fun s => 0 < s.textures.length) = [] := by
        rw [List.filter_eq_nil_iff]
        intro s hs
        have := hn s hs
        simp [this]
      rw [hfil] at g1
      exact List.map_eq_nil_iff.mp g1
    obtain ⟨out, hb, he⟩ := write_moby_class_ok hw
    obtain ⟨hh, _⟩ := written_class_header hb he
    obtain ⟨_, _, q1, hq1, ho⟩ := write_moby_class_body_ok hb
    have hqq : q1 = q := by
      rw [hq] at hq1
      injection hq1 with hq1
      exact hq1.symm
    refine ⟨by rw [hd, hnil]; rfl, ?_⟩
    have hs2 := slice_take (b.drop dest.length) 0x48 0x20 4 (by omega)
    rw [← hs2, hh, written_header_bytes, ho, hqq]
    simp only [class_header, hnil, List.length_nil, Nat.lt_irrefl, if_false]
    rfl

set_option maxRecDepth 100000 in
/-- The theorem `gif_usage_terminator` at `textured_model`, written for RAC1 to
an empty output buffer. -/
theorem gif_usage_terminator_witness :
    ∃ b, write_moby_class example_env [] textured_model Game.RAC1 = .ok b ∧
      b.length < 2 ^ 31 ∧
      ∃ q, write_class_payloads example_env ([] : List Nat).length
          (write_format Game.RAC1 textured_model.force_rac1_format)
          (write_class_front example_env [] textured_model Game.RAC1)
          (write_class_middle example_env ([] : List Nat).length
            (write_class_front example_env [] textured_model Game.RAC1).dest textured_model).dest
          textured_model = .ok q ∧
        b.drop q.dest.length = gif_usage_bytes q.gif_usage ∧
        (∀ i e, q.gif_usage[i]? = some e →
          (∃ pos : Nat, pos % 0x10 = 0xc ∧ ([] : List Nat).length + 0xc ≤ pos ∧
            pos ≤ b.length ∧ e.offset_and_terminator + 0xc + ([] : List Nat).length = pos) ∧
          gif_offset_field (b.drop q.dest.length) i % 2 ^ 31 = e.offset_and_terminator ∧
          gif_offset_field (b.drop q.dest.length) i / 2 ^ 31 =
            (if i + 1 = q.gif_usage.length then 1 else 0)) ∧
        ((∀ s ∈ ordinary_submeshes textured_model, s.textures.length = 0) →
          b.drop q.dest.length = [] ∧
            slice (b.drop ([] : List Nat).length) 0x20 4 = [0, 0, 0, 0]) :=
  ⟨_, rfl, by decide,
    gif_usage_terminator example_env [] textured_model Game.RAC1 _ rfl (by decide)⟩

/-! ### The lumps of an archive (C21, C22, C23) -/

theorem run_extractor_slots_eq {W : Type} (read : LumpReader W) (file header : List Nat)
    (lump_desc : WadLumpDescription) (remaining i : Nat) (wad : W) :
    run_extractor_slots read file header lump_desc remaining i wad =
      ((List.range' i remaining).map (fun k => (lump_desc, k))).foldlM
        (visit_slot read file header) wad := by
  induction remaining generalizing i wad with
  | zero => rfl
  | succ n ih =>
    rw [List.range'_succ, List.map_cons, List.foldlM_cons]
    unfold run_extractor_slots
    unfold visit_slot
    have e : ((lump_desc.offset : Int) + (i : Int) * 8) = ((lump_desc.offset + 8 * i : Nat) : Int) := by
      push_cast
      ring
    simp only [e]
    cases h1 : read_bytes header ((lump_desc.offset + 8 * i : Nat) : Int) 8 "WAD header" with
    | error e1 => rfl
    | ok b =>
      simp only [bind, Except.bind, pure, Except.pure]
      by_cases h2 : (SectorRange.parse b).size.sectors = 0
      · rw [if_neg (not_not.mpr h2), if_pos h2]
        exact ih (i + 1) wad
      · rw [if_pos h2, if_neg h2]
        cases h3 : read_lump file (SectorRange.parse b).offset (SectorRange.parse b).size with
        | error e3 => rfl
        | ok src =>
          simp only []
          cases h4 : read lump_desc wad src with
          | error e4 => rfl
          | ok wad1 => exact ih (i + 1) wad1

theorem run_extractor_lumps_eq {W : Type} (read : LumpReader W) (file header : List Nat)
    (fields : List WadLumpDescription) (wad : W) :
    run_extractor_lumps read file header fields wad =
      (lump_slots fields).foldlM (visit_slot read file header) wad := by
  induction fields generalizing wad with
  | nil => rfl
  | cons lump_desc rest ih =>
    unfold run_extractor_lumps
    unfold lump_slots
    rw [List.flatMap_cons, List.foldlM_append, run_extractor_slots_eq, List.range_eq_range']
    cases h : ((List.range' 0 lump_desc.count).map (fun k => (lump_desc, k))).foldlM
        (visit_slot read file header) wad with
    | error e => rfl
    | ok wad1 => exact ih wad1

/-- C21: for every read handler, empty archive and file, `run_extractor` reads
the header, matches the kind of the archive, and then visits the slots of the
archive in the order of `lump_slots` (descriptors in table order, the indices
`i` below `count` in increasing order), doing for each what `visit_slot` says:
the sector pair at header byte offset `desc.offset + 8 * i` is read, the
handler is not invoked when its size is 0 (whatever the offset), and otherwise
the sector range is read from the file and the read handler of the lump is
invoked on it; the first error aborts the run. -/
theorem run_extractor_visits_slots {W : Type} (read : LumpReader W) (create : W)
    (file : List Nat) :
    run_extractor read create file =
      (read_header file).bind (fun header => (match_wad header).bind (fun file_desc =>
        (lump_slots file_desc.fields).foldlM (visit_slot read file header) create)) := by
  unfold run_extractor
  simp only [run_extractor_lumps_eq]
  rfl

theorem read_lump_ok (file : List Nat) (o s : Nat) (hs : 0 < s)
    (hl : (o + s) * 0x800 ≤ file.length) :
    read_lump file ⟨o⟩ ⟨s⟩ = .ok (slice file (o * 0x800) (s * 0x800)) := by
  unfold read_lump
  unfold Sector32.bytes SECTOR_SIZE
  have e1 : (((o : Int) * ((0x800 : Nat) : Int))).toNat = o * 0x800 := by
    push_cast
    omega
  have e2 : (((s : Int) * ((0x800 : Nat) : Int))).toNat = s * 0x800 := by
    push_cast
    omega
  rw [if_neg (by push_cast; omega), if_neg (by push_cast; omega),
    if_neg (by push_cast; omega), e1, e2]
  rfl

theorem OutputStream.tell_write_to (s : OutputStream) (offset : Nat) (src : List Nat) :
    (s.write_to offset src).tell = s.tell := rfl

theorem OutputStream.tell_write_n (s : OutputStream) (src : List Nat) :
    (s.write_n src).tell = s.tell + src.length := rfl

theorem OutputStream.tell_pad_loop (padding count : Nat) (s : OutputStream) :
    (OutputStream.pad_loop padding count s).tell = s.tell + count := by
  induction count generalizing s with
  | zero => rfl
  | succ n ih =>
    unfold OutputStream.pad_loop
    rw [ih, OutputStream.tell_write_n]
    simp only [List.length_singleton]
    omega

theorem OutputStream.tell_pad (s : OutputStream) (alignment padding : Nat) (h : 0 < alignment) :
    (s.pad alignment padding).tell % alignment = 0 ∧ s.tell ≤ (s.pad alignment padding).tell := by
  unfold OutputStream.pad
  by_cases h1 : s.tell % alignment ≠ 0
  · rw [if_pos h1, OutputStream.tell_pad_loop]
    have h2 := Nat.mod_lt s.tell h
    have h3 := Nat.div_add_mod s.tell alignment
    refine ⟨?_, by omega⟩
    have e : s.tell + (alignment - s.tell % alignment) = alignment * (s.tell / alignment + 1) := by
      rw [Nat.mul_add, Nat.mul_one]
      omega
    rw [e, Nat.mul_mod_right]
  · rw [if_neg h1]
    exact ⟨not_not.mp h1, le_refl _⟩

/-- C22: a lump that `read_lump` returns for the sector numbers `offset` and
`size` is the part of the file at byte offset `offset.sectors * 0x800` of byte
length `size.sectors * 0x800`, so its offset and its length are multiples of
0x800; and `pack_level_scene_wad` leaves the write position, after the header
and before any lump is placed, at a multiple of 0x800 past the header. -/
theorem lumps_sector_aligned (file : List Nat) (offset size : Sector32) (lump : List Nat)
    (dest : OutputStream) (header_dest : Option (List Nat))
    (h : read_lump file offset size = .ok lump) :
    (0 ≤ offset.sectors ∧ 0 < size.sectors ∧
      lump = slice file (offset.sectors.toNat * 0x800) (size.sectors.toNat * 0x800) ∧
      lump.length = size.sectors.toNat * 0x800) ∧
    ((pack_level_scene_wad_header dest).tell % 0x800 = 0 ∧
      dest.tell + sizeof_LevelSceneWadHeaderDL ≤ (pack_level_scene_wad_header dest).tell ∧
      (pack_level_scene_wad dest header_dest).1.tell = (pack_level_scene_wad_header dest).tell) := by
  constructor
  · unfold read_lump at h
    unfold Sector32.bytes SECTOR_SIZE at h
    split at h
    · exact absurd h (by simp)
    · split at h
      · exact absurd h (by simp)
      · split at h
        · exact absurd h (by simp)
        · rename_i h1 h2 h3
          have e := Except.ok.inj h
          push_cast at h1 h2 h3
          have p1 : 0 ≤ offset.sectors := by omega
          have p2 : 0 < size.sectors := by omega
          have e1 : (offset.sectors * ((0x800 : Nat) : Int)).toNat = offset.sectors.toNat * 0x800 := by
            push_cast
            omega
          have e2 : (size.sectors * ((0x800 : Nat) : Int)).toNat = size.sectors.toNat * 0x800 := by
            push_cast
            omega
          rw [e1, e2] at e
          refine ⟨p1, p2, e.symm, ?_⟩
          rw [← e, List.length_take, List.length_drop]
          omega
  · have h1 := OutputStream.tell_pad (dest.write_n level_scene_wad_header) 0x800 0 (by omega)
    have h2 : (dest.write_n level_scene_wad_header).tell =
        dest.tell + sizeof_LevelSceneWadHeaderDL := by
      rw [OutputStream.tell_write_n]
      unfold level_scene_wad_header
      rw [List.length_append, length_le_bytes, List.length_replicate]
      have : 4 + (sizeof_LevelSceneWadHeaderDL - 4) = sizeof_LevelSceneWadHeaderDL := by decide
      omega
    have e : pack_level_scene_wad_header dest =
        (dest.write_n level_scene_wad_header).pad 0x800 0 := rfl
    refine ⟨?_, ?_, ?_⟩
    · rw [e]
      exact h1.1
    · rw [e, ← h2]
      exact h1.2
    · exact OutputStream.tell_write_to _ _ _

/-- The theorem `lumps_sector_aligned` at a file of two sectors, the second of
which is read, and at a stream of three bytes. -/
theorem lumps_sector_aligned_witness :
    read_lump (List.replicate 0x1000 0) ⟨((1 : Nat) : Int)⟩ ⟨((1 : Nat) : Int)⟩ =
      .ok (slice (List.replicate 0x1000 0) (1 * 0x800) (1 * 0x800)) ∧
    (slice (List.replicate 0x1000 0) (1 * 0x800) (1 * 0x800)).length =
      (((1 : Nat) : Int)).toNat * 0x800 ∧
    (pack_level_scene_wad_header ⟨[1, 2, 3], 3⟩).tell % 0x800 = 0 :=
  have h := read_lump_ok (List.replicate 0x1000 0) 1 1 (by omega)
    (by rw [List.length_replicate])
  ⟨h, (lumps_sector_aligned _ _ _ _ ⟨[1, 2, 3], 3⟩ none h).1.2.2.2,
    (lumps_sector_aligned _ _ _ _ ⟨[1, 2, 3], 3⟩ none h).2.1⟩

/-- C23, the code at the failing input: after `BinaryLump::read` has stored
the payload `[1, 2, 3]` for the "data" lump of an empty archive, the archive
holds that payload, and `BinaryLump::write` for the same lump leaves an empty
`dest` empty instead of making it `[1, 2, 3]`. -/
theorem binary_lump_not_written :
    (BinaryLump.read data_lump (fun _ => none) [1, 2, 3]) "data" =
      some ⟨false, [[1, 2, 3]]⟩ ∧
    BinaryLump.write data_lump 0 [] (BinaryLump.read data_lump (fun _ => none) [1, 2, 3]) = [] ∧
    BinaryLump.write data_lump 0 [] (BinaryLump.read data_lump (fun _ => none) [1, 2, 3]) ≠
      [1, 2, 3] := by
  refine ⟨by decide, rfl, by decide⟩

/-! ### The file-scope variables (C24) -/

theorem write_class_front_at_self (env : Env) (dest : List Nat) (moby : MobyClassData)
    (game : Game) :
    write_class_front_at dest.length env dest moby game = write_class_front env dest moby game :=
  rfl

theorem read_moby_class_in_eq (g : FileScope) (env : Env) (src : List Nat) (game : Game) :
    Prod.fst <$> read_moby_class_in g env src game = read_moby_class env src game := by
  unfold read_moby_class_in read_moby_class
  simp only [map_bind, apply_ite, map_pure]
  rfl

theorem write_moby_class_in_eq (g : FileScope) (env : Env) (dest : List Nat)
    (moby : MobyClassData) (game : Game) :
    Prod.fst <$> write_moby_class_in g env dest moby game = write_moby_class env dest moby game := by
  unfold write_moby_class_in write_moby_class write_moby_class_body
  simp only [Int.toNat_ofNat, Int.toNat_natCast, write_class_front_at_self]
  by_cases h : dest.length % 0x40 ≠ 0
  · rw [if_pos h, if_pos (by omega)]
    rfl
  · rw [if_neg h, if_neg (by omega)]
    cases h1 : check_class_counts moby with
    | error e => rfl
    | ok u =>
      simp only []
      cases h2 : write_class_payloads env dest.length (write_format game moby.force_rac1_format)
          (write_class_front env dest moby game)
          (write_class_middle env dest.length (write_class_front env dest moby game).dest
            moby).dest moby with
      | error e => rfl
      | ok q => simp only [Functor.map, Except.map]

/-- C24: `read_moby_class` and `write_moby_class`, taken with the file-scope
variables `mystery_data_ofs` and `class_header_ofs` as explicit state, return
the same result from any two states `g` and `g1` of these variables (whatever
calls were made before), and that result is the one of the functions without
state: each variable is assigned (lines 58 and 134) before it is read. -/
theorem codec_calls_deterministic (g g1 : FileScope) (env : Env) (src dest : List Nat)
    (moby : MobyClassData) (game : Game) :
    Prod.fst <$> read_moby_class_in g env src game =
      Prod.fst <$> read_moby_class_in g1 env src game ∧
    Prod.fst <$> write_moby_class_in g env dest moby game =
      Prod.fst <$> write_moby_class_in g1 env dest moby game ∧
    Prod.fst <$> read_moby_class_in g env src game = read_moby_class env src game ∧
    Prod.fst <$> write_moby_class_in g env dest moby game =
      write_moby_class env dest moby game :=
  ⟨by rw [read_moby_class_in_eq, read_moby_class_in_eq],
    by rw [write_moby_class_in_eq, write_moby_class_in_eq],
    read_moby_class_in_eq g env src game, write_moby_class_in_eq g env dest moby game⟩

/-! ### The submesh counts of a written header (C26) -/

set_option maxRecDepth 100000 in
/-- C26, counterexample: `counted_model` has one high-detail, one low-detail
and one metal submesh and `byte_4` zero; it is written without error, the four
count bytes at offset 4 of the header are zero, and the decoder reads back no
submesh of any kind. -/
theorem byte_4_overwrites_counts :
    ∃ b model, write_moby_class example_env [] counted_model Game.RAC1 = .ok b ∧
      submesh_count_bytes counted_model = [1, 1, 1, 2] ∧
      slice b 4 4 = [0, 0, 0, 0] ∧
      (stored_header b 0).submesh_count = 0 ∧
      read_moby_class example_env b Game.RAC1 = .ok model ∧
      model.submeshes = [] ∧ model.low_detail_submeshes = [] ∧ model.metal_submeshes = [] :=
  ⟨_, _, rfl, rfl, rfl, rfl, rfl, rfl, rfl, rfl⟩

/-- C26 (amended): in every buffer produced by a successful `write_moby_class`
the four header bytes at offset 4 are the bytes of the model's `byte_4`; so
the header's `submesh_count`, `low_detail_submesh_count` and
`metal_submesh_count` equal the sizes of the three submesh lists and
`metal_submesh_begin` equals the sum of the first two exactly when the four
bytes of `byte_4` are these four numbers. -/
theorem written_submesh_counts (env : Env) (dest : List Nat) (moby : MobyClassData)
    (game : Game) (b : List Nat) (hw : write_moby_class env dest moby game = .ok b) :
    slice b (dest.length + 4) 4 = le_bytes 4 moby.byte_4 ∧
    (((stored_header b dest.length).submesh_count = moby.submeshes.length ∧
      (stored_header b dest.length).low_detail_submesh_count =
        moby.low_detail_submeshes.length ∧
      (stored_header b dest.length).metal_submesh_count = moby.metal_submeshes.length ∧
      (stored_header b dest.length).metal_submesh_begin =
        moby.submeshes.length + moby.low_detail_submeshes.length) ↔
     le_bytes 4 moby.byte_4 = submesh_count_bytes moby) := by
  obtain ⟨out, hb, he⟩ := write_moby_class_ok hw
  obtain ⟨hh, _⟩ := written_class_header hb he
  have hs : slice b dest.length 0x48 = write_at out.2.1.bytes 4 (le_bytes 4 moby.byte_4) := hh
  have e4 : slice b (dest.length + 4) 4 = le_bytes 4 moby.byte_4 := by
    have h1 := slice_of_take (b.drop dest.length) 0x48 4 4 (by omega)
    rw [hh, written_header_bytes] at h1
    unfold slice
    rw [← List.drop_drop]
    exact h1.symm
  refine ⟨e4, ?_⟩
  unfold stored_header
  rw [hs, parse_written_header]
  simp only [le_value_byte]
  have e : le_bytes 4 moby.byte_4 = [moby.byte_4 % 256, moby.byte_4 / 256 % 256,
      moby.byte_4 / 256 / 256 % 256, moby.byte_4 / 256 / 256 / 256 % 256] := rfl
  rw [e]
  unfold submesh_count_bytes
  constructor
  · rintro ⟨h1, h2, h3, h4⟩
    rw [h1, h2, h3, h4]
  · intro h
    injection h with h1 h
    injection h with h2 h
    injection h with h3 h
    injection h with h4 h
    exact ⟨h1, h2, h3, h4⟩

set_option maxRecDepth 100000 in
/-- The theorem `written_submesh_counts` at `matching_counts_model`, written
for RAC1 to an empty output buffer: the counts of the header are 1, 1, 1 and
the begin of the metal submeshes is 2. -/
theorem written_submesh_counts_witness :
    ∃ b, write_moby_class example_env [] matching_counts_model Game.RAC1 = .ok b ∧
      (stored_header b ([] : List Nat).length).submesh_count =
        matching_counts_model.submeshes.length ∧
      (stored_header b ([] : List Nat).length).metal_submesh_begin =
        matching_counts_model.submeshes.length +
          matching_counts_model.low_detail_submeshes.length :=
  ⟨_, rfl,
    ((written_submesh_counts example_env [] matching_counts_model Game.RAC1 _ rfl).2.mpr
      (by decide)).1,
    ((written_submesh_counts example_env [] matching_counts_model Game.RAC1 _ rfl).2.mpr
      (by decide)).2.2.2⟩

/-! ### The value of `header_end_offset` (C27) -/

theorem first_sequence_offset_eq (l : List (List Nat)) :
    first_sequence_offset l =
      ((l.map (fun e => to_signed 32 (le_value e))).find? (fun o => o ≠ 0)).getD 0x48 := by
  induction l with
  | nil => rfl
  | cons e rest ih =>
    unfold first_sequence_offset
    rw [List.map_cons, List.find?_cons]
    by_cases h : to_signed 32 (le_value e) ≠ 0
    · rw [if_pos h]
      have : decide (to_signed 32 (le_value e) ≠ 0) = true := decide_eq_true h
      rw [this]
      rfl
    · rw [if_neg h]
      have : decide (to_signed 32 (le_value e) ≠ 0) = false := decide_eq_false h
      rw [this]
      exact ih

theorem read_sequence_offsets {src : List Nat} {count : Nat} {items : List (List Nat)}
    (h : read_multiple src 4 0x48 (count : Int) "sequence offsets" = .ok items) :
    items.map (fun e => to_signed 32 (le_value e)) =
      (List.range count).map (fun i => field_s src (0x48 + 4 * i) 4) := by
  have hl := read_multiple_length h
  apply List.ext_getElem?
  intro i
  rw [List.getElem?_map, List.getElem?_map]
  by_cases hi : i < count
  · have h1 : i < items.length := by omega
    have h2 := @read_multiple_getD src 4 0x48 count "sequence offsets" items h i hi
    rw [List.getElem?_eq_getElem h1, List.getElem?_range hi]
    simp only [Option.map_some']
    congr 1
    unfold field_s
    have h3 : items[i] = items.getD i [] := by
      rw [List.getD_eq_getElem _ _ h1]
    rw [h3, h2]
  · have h1 : items.length ≤ i := by omega
    rw [List.getElem?_eq_none h1, List.getElem?_eq_none (by rw [List.length_range]; omega)]
    rfl

set_option maxRecDepth 100000 in
/-- C27, counterexample: `bangles_only_buffer` (every sequence offset zero,
bangles at 0x50, no corncob) decodes with `header_end_offset` 0x48 although
its lowest non-zero offset is 0x50, and `unordered_sequences_buffer` (sequence
offsets 0x60 and 0x50, no bangles, no corncob) decodes with
`header_end_offset` 0x60 although its lowest non-zero offset is 0x50. -/
theorem header_end_offset_not_lowest :
    (∃ model, read_moby_class example_env bangles_only_buffer Game.RAC2 = .ok model ∧
      sequence_offsets bangles_only_buffer = [0] ∧
      ((stored_header bangles_only_buffer 0).bangles : Int) * 0x10 = 0x50 ∧
      (stored_header bangles_only_buffer 0).corncob = 0 ∧
      model.header_end_offset = 0x48) ∧
    (∃ model, read_moby_class example_env unordered_sequences_buffer Game.RAC2 = .ok model ∧
      sequence_offsets unordered_sequences_buffer = [0x60, 0x50] ∧
      (stored_header unordered_sequences_buffer 0).bangles = 0 ∧
      (stored_header unordered_sequences_buffer 0).corncob = 0 ∧
      model.header_end_offset = 0x60) :=
  ⟨⟨_, rfl, rfl, rfl, rfl, rfl⟩, ⟨_, rfl, rfl, rfl, rfl, rfl⟩⟩

/-- C27 (amended): after a successful `read_moby_class`, `header_end_offset` is
the least of the offsets of `header_end_candidates`: the first non-zero entry
of the sequence offset table (0x48 when every entry is zero), the offset of the
bangles block when it is non-zero, and, for a game other than RAC1, the offset
of the corncob block when it is non-zero. -/
theorem header_end_offset_least (env : Env) (src : List Nat) (game : Game)
    (model : MobyClassData) (h : read_moby_class env src game = .ok model) :
    model.header_end_offset ∈ header_end_candidates game src ∧
    ∀ c ∈ header_end_candidates game src, model.header_end_offset ≤ c := by
  obtain ⟨hb1, byte_4, m0, seq_offsets, bangles, corncob, sequences, collision, skeleton,
    common_trans, joints, sound_defs, tables, mystery_data, r1, r2, r3, r4, r5, r6, r7, rc, r8,
    r9, r10, r11, r12, r13, r14, rm⟩ := read_moby_class_ok h
  obtain ⟨_, _, _, e1⟩ := read_bytes_ok r1
  have e2 : hb1 = slice src 0 0x48 := by
    rw [e1]
    rfl
  have e3 : MobyClassHeader.parse hb1 = stored_header src 0 := by
    rw [e2]
    rfl
  rw [e3] at r4
  have e4 := read_sequence_offsets r4
  have e5 : model.header_end_offset =
      read_header_end_offset game (stored_header src 0) seq_offsets := by
    rw [rm, e3]
  have e6 : first_sequence_offset seq_offsets =
      ((sequence_offsets src).find? (fun o => o ≠ 0)).getD 0x48 := by
    rw [first_sequence_offset_eq, e4]
    rfl
  rw [e5]
  unfold read_header_end_offset header_end_candidates
  simp only []
  rw [e6]
  generalize ((sequence_offsets src).find? (fun o => o ≠ 0)).getD 0x48 = f
  by_cases hb : (stored_header src 0).bangles ≠ 0
  · by_cases hc : game ≠ Game.RAC1 ∧ (stored_header src 0).corncob ≠ 0
    · rw [if_pos hb, if_pos hc, if_pos hb, if_pos hc]
      simp only [List.mem_append, List.mem_singleton, List.singleton_append, List.mem_cons,
        List.cons_append, List.nil_append, List.not_mem_nil, or_false]
      constructor
      · omega
      · rintro c (hc1 | hc1 | hc1) <;> omega
    · rw [if_pos hb, if_neg hc, if_pos hb, if_neg hc]
      simp only [List.mem_append, List.mem_singleton, List.singleton_append, List.mem_cons,
        List.cons_append, List.nil_append, List.not_mem_nil, or_false, List.append_nil]
      constructor
      · omega
      · rintro c (hc1 | hc1) <;> omega
  · by_cases hc : game ≠ Game.RAC1 ∧ (stored_header src 0).corncob ≠ 0
    · rw [if_neg hb, if_pos hc, if_neg hb, if_pos hc]
      simp only [List.mem_append, List.mem_singleton, List.singleton_append, List.mem_cons,
        List.cons_append, List.nil_append, List.not_mem_nil, or_false, List.append_nil]
      constructor
      · omega
      · rintro c (hc1 | hc1) <;> omega
    · rw [if_neg hb, if_neg hc, if_neg hb, if_neg hc]
      simp only [List.mem_append, List.mem_singleton, List.singleton_append, List.mem_cons,
        List.cons_append, List.nil_append, List.not_mem_nil, or_false, List.append_nil]
      constructor
      · trivial
      · rintro c hc1
        omega

set_option maxRecDepth 100000 in
/-- The theorem `header_end_offset_least` at `unordered_sequences_buffer`, read
for RAC2: `header_end_offset` is the first sequence offset, 0x60. -/
theorem header_end_offset_least_witness :
    ∃ model, read_moby_class example_env unordered_sequences_buffer Game.RAC2 = .ok model ∧
      header_end_candidates Game.RAC2 unordered_sequences_buffer = [0x60] ∧
      model.header_end_offset ∈ header_end_candidates Game.RAC2 unordered_sequences_buffer :=
  ⟨_, rfl, rfl,
    (header_end_offset_least example_env unordered_sequences_buffer Game.RAC2 _ rfl).1⟩

/-! ### Submeshes that fail a consistency check (C28) -/

theorem read_moby_submesh_list_eq (vif : VifReader) (src : List Nat) (format : MobyFormat)
    (entries : List MobySubMeshEntry) :
    read_moby_submesh_list vif src format entries =
      (entries.mapM (read_moby_submesh vif src format)).map (List.filterMap id) := by
  induction entries with
  | nil => rfl
  | cons entry rest ih =>
    unfold read_moby_submesh_list
    rw [List.mapM_cons, ih]
    cases h1 : read_moby_submesh vif src format entry with
    | error e => rfl
    | ok r =>
      cases h2 : List.mapM (read_moby_submesh vif src format) rest with
      | error e => rfl
      | ok results =>
        cases r with
        | none => rfl
        | some submesh => rfl

theorem read_vertex_table_skips {src : List Nat} {format : MobyFormat} {entry : MobySubMeshEntry}
    {vertex_header : MobyVertexTableHeaderRac1} {array_ofs : Nat}
    (h : read_vertex_table_header src format entry.vertex_offset = .ok (vertex_header, array_ofs))
    (hc : entry_inconsistent entry vertex_header) (base : MobySubMeshBase)
    (sts : List MobyTexCoord) :
    read_vertex_table src format entry base sts = .ok none := by
  unfold read_vertex_table
  rw [h]
  simp only [bind, Except.bind]
  by_cases h1 : vertex_header.vertex_table_offset / 0x10 > entry.vertex_data_size
  · rw [if_pos h1]
    rfl
  · rw [if_neg h1]
    by_cases h2 : entry.unknown_d ≠ (0xf + entry.transfer_vertex_count * 6) / 0x10
    · rw [if_pos h2]
      rfl
    · rw [if_neg h2]
      by_cases h3 : entry.unknown_e ≠ (3 + entry.transfer_vertex_count) / 4
      · rw [if_pos h3]
        rfl
      · rcases hc with hc | hc | hc
        · exact absurd hc h1
        · exact absurd hc h2
        · exact absurd hc h3

theorem length_mapM_ok {α β : Type} (f : α → Except String β) :
    ∀ (l : List α) (r : List β), l.mapM f = .ok r → r.length = l.length := by
  intro l
  induction l with
  | nil =>
    intro r h
    rw [List.mapM_nil] at h
    cases h
    rfl
  | cons a rest ih =>
    intro r h
    rw [List.mapM_cons] at h
    obtain ⟨b, _, h⟩ := bind_eq_ok h
    obtain ⟨bs, h2, h⟩ := bind_eq_ok h
    cases h
    rw [List.length_cons, List.length_cons, ih bs h2]

set_option maxRecDepth 100000 in
/-- C28, counterexample: the first entry of `skipped_entry_table` has a wrong
field 0xd.  With a command list whose index header has a pad byte other than
zero the body of the loop fails on line 480, before it reaches the checks: the
entry is not omitted, `read_moby_submeshes` returns the error, and the second
entry, which is decoded when the first is skipped, is not read. -/
theorem inconsistent_entry_aborts :
    entry_inconsistent (MobySubMeshEntry.parse (slice skipped_entry_table 0 0x10))
      (MobyVertexTableHeaderRac1.parse 2 (slice skipped_entry_table 0x20 0x10)) ∧
    read_moby_submesh bad_pad_unpacks skipped_entry_table MobyFormat.RAC2
      (MobySubMeshEntry.parse (slice skipped_entry_table 0 0x10)) =
      .error "Moby has bad index buffer." ∧
    read_moby_submeshes bad_pad_unpacks skipped_entry_table 0 2 MobyFormat.RAC2 =
      .error "Moby has bad index buffer." ∧
    (∃ submesh, read_moby_submeshes constant_unpacks skipped_entry_table 0 2 MobyFormat.RAC2 =
      .ok [submesh]) :=
  ⟨Or.inr (Or.inl (by decide)), rfl, rfl, ⟨_, rfl⟩⟩

/-- C28 (amended): `read_moby_submeshes` reads the table entries and runs the
body of its loop on every entry in table order, the first error aborting the
call, and returns the submeshes of the entries that were not skipped, in table
order, so at most `count` submeshes; and the body skips an entry (without
error) when the reads before the checks succeed (lines 471-492: the command
list, its unpacks, the index header and the textures, and the header of the
vertex table) and the vertex table offset divided by 0x10 exceeds
`vertex_data_size`, or field 0xd differs from
`(0xf + 6 * transfer_vertex_count) / 0x10`, or field 0xe differs from
`(3 + transfer_vertex_count) / 4`. -/
theorem inconsistent_submesh_skipped (vif : VifReader) (src : List Nat) (table_ofs count : Int)
    (format : MobyFormat) (entry : MobySubMeshEntry) (command_buffer : List Nat)
    (unpacks : List (List Nat)) (st_data : List Nat) (base : MobySubMeshBase)
    (vertex_header : MobyVertexTableHeaderRac1) (array_ofs : Nat)
    (h1 : subbuf_sized src entry.vif_list_offset (entry.vif_list_size * 0x10) =
      .ok command_buffer)
    (h2 : vif command_buffer = .ok unpacks) (h3 : unpacks.get? 0 = some st_data)
    (h4 : read_index_and_textures false unpacks 1 = .ok base)
    (h5 : read_vertex_table_header src format entry.vertex_offset =
      .ok (vertex_header, array_ofs))
    (hc : entry_inconsistent entry vertex_header) :
    read_moby_submesh vif src format entry = .ok none ∧
    read_moby_submeshes vif src table_ofs count format =
      (read_multiple src 0x10 table_ofs count "moby submesh table").bind (fun raw =>
        ((raw.map MobySubMeshEntry.parse).mapM (read_moby_submesh vif src format)).map
          (List.filterMap id)) ∧
    ∀ submeshes, read_moby_submeshes vif src table_ofs count format = .ok submeshes →
      (submeshes.length : Int) ≤ count := by
  have e : read_moby_submeshes vif src table_ofs count format =
      (read_multiple src 0x10 table_ofs count "moby submesh table").bind (fun raw =>
        ((raw.map MobySubMeshEntry.parse).mapM (read_moby_submesh vif src format)).map
          (List.filterMap id)) := by
    unfold read_moby_submeshes
    simp only [read_moby_submesh_list_eq]
    rfl
  refine ⟨?_, e, ?_⟩
  · unfold read_moby_submesh
    rw [h1]
    simp only [bind, Except.bind]
    rw [h2]
    simp only [h3]
    have hs : ∃ sts, read_multiple st_data 4 0 ((st_data.length / 4 : Nat) : Int)
        "moby st unpack" = .ok sts := by
      unfold read_multiple read_bytes
      have := Nat.div_mul_le_self st_data.length 4
      rw [if_neg (by omega), if_neg (by push_cast; omega)]
      simp only []
      rw [if_neg (by omega)]
      exact ⟨_, rfl⟩
    obtain ⟨sts, hs⟩ := hs
    rw [hs]
    simp only []
    rw [h4]
    exact read_vertex_table_skips h5 hc base _
  · intro submeshes hs
    rw [e] at hs
    cases hr : read_multiple src 0x10 table_ofs count "moby submesh table" with
    | error e1 =>
      rw [hr] at hs
      cases hs
    | ok raw =>
      rw [hr] at hs
      simp only [Except.bind] at hs
      cases hm : (raw.map MobySubMeshEntry.parse).mapM (read_moby_submesh vif src format) with
      | error e2 =>
        rw [hm] at hs
        cases hs
      | ok results =>
        rw [hm] at hs
        simp only [Except.map] at hs
        cases hs
        have l1 := length_mapM_ok _ _ _ hm
        have l2 := read_multiple_length hr
        have l3 := List.length_filterMap_le id results
        rw [List.length_map] at l1
        omega

set_option maxRecDepth 100000 in
/-- The theorem `inconsistent_submesh_skipped` at `skipped_entry_table`, whose
first entry has a wrong field 0xd: the first entry is skipped and the second
one is decoded. -/
theorem inconsistent_submesh_skipped_witness :
    ∃ submesh,
      read_moby_submeshes constant_unpacks skipped_entry_table 0 2 MobyFormat.RAC2 =
        .ok [submesh] ∧
      entry_inconsistent (MobySubMeshEntry.parse (slice skipped_entry_table 0 0x10))
        (MobyVertexTableHeaderRac1.parse 2 (slice skipped_entry_table 0x20 0x10)) ∧
      read_moby_submesh constant_unpacks skipped_entry_table MobyFormat.RAC2
        (MobySubMeshEntry.parse (slice skipped_entry_table 0 0x10)) = .ok none :=
  ⟨_, rfl, Or.inr (Or.inl (by decide)),
    (inconsistent_submesh_skipped constant_unpacks skipped_entry_table 0 2 MobyFormat.RAC2
      (MobySubMeshEntry.parse (slice skipped_entry_table 0 0x10)) [] _ [] _ _ _ rfl rfl rfl rfl
      rfl (Or.inr (Or.inl (by decide)))).1⟩

/-! ### The padding vertices of a submesh (C30) -/

theorem checked_get_ok (v : List Nat) (i : Nat) (h : i < v.length) :
    checked_get v i = .ok (v.getD i 0) := by
  unfold checked_get
  rw [List.getD_eq_getElem?_getD, List.getElem?_eq_getElem h]
  rfl

theorem push_trailing_checked_eq (n : Nat) (tvi : List Nat) :
    ∀ (fuel : Nat) (vertices : List MobyVertex) (trailing : Nat),
      push_trailing_checked n tvi fuel vertices trailing =
        .ok (push_trailing n tvi fuel vertices trailing) := by
  intro fuel
  induction fuel with
  | zero =>
    intro vertices trailing
    rfl
  | succ fuel ih =>
    intro vertices trailing
    unfold push_trailing_checked push_trailing
    by_cases hc : vertices.length % 4 ≠ 2 ∧ trailing < tvi.length
    · rw [if_pos hc, if_pos hc]
      by_cases h7 : 7 ≤ n + trailing
      · rw [if_pos h7, if_pos h7, checked_get_ok _ _ hc.2]
        exact ih _ _
      · rw [if_neg h7, if_neg h7]
        exact ih _ _
    · rw [if_neg hc, if_neg hc]

theorem fill_last_vertex_checked_eq (n trailing : Nat) (tvi : List Nat) :
    ∀ (l : List Nat) (slots : List Nat), slots.length = 6 →
      (∀ i ∈ l, i < tvi.length ∧ i - trailing - 1 < 6) →
      fill_last_vertex_checked n trailing tvi l slots =
        .ok (l.foldl (fun s i => if 7 ≤ n + i then s.set (i - trailing - 1) (tvi.getD i 0) else s)
          slots) := by
  intro l
  induction l with
  | nil =>
    intro slots _ _
    rfl
  | cons i rest ih =>
    intro slots hs hl
    unfold fill_last_vertex_checked
    rw [List.foldl_cons]
    have hi := hl i (List.mem_cons_self _ _)
    have hr : ∀ j ∈ rest, j < tvi.length ∧ j - trailing - 1 < 6 :=
      fun j hj => hl j (List.mem_cons_of_mem _ hj)
    by_cases h7 : 7 ≤ n + i
    · rw [if_pos h7, if_pos h7, checked_get_ok _ _ hi.1]
      simp only []
      unfold checked_set
      rw [if_pos (by omega)]
      simp only []
      exact ih _ (by rw [List.length_set]; exact hs) hr
    · rw [if_neg h7, if_neg h7]
      exact ih _ hs hr

theorem last_padding_vertex_checked_eq (n trailing : Nat) (tvi : List Nat)
    (h1 : trailing < tvi.length) (h2 : tvi.length ≤ 7) :
    last_padding_vertex_checked n trailing tvi = .ok (last_padding_vertex n trailing tvi) := by
  unfold last_padding_vertex_checked last_padding_vertex
  have hf := fill_last_vertex_checked_eq n trailing tvi
    (List.range' (trailing + 1) (tvi.length - (trailing + 1))) (List.replicate 6 0)
    (List.length_replicate 6 0)
    (fun i hi => by
      rw [List.mem_range'_1] at hi
      omega)
  rw [hf]
  by_cases h7 : 7 ≤ n + trailing
  · rw [if_pos h7, if_pos h7, checked_get_ok _ _ h1]
  · rw [if_neg h7, if_neg h7]

/-- C30: for every list of vertices of a submesh, the list
`trailing_vertex_indices` that `write_moby_submeshes` builds has exactly 7
entries; the padding (lines 657-675) runs to the end with every read of
`trailing_vertex_indices` and every write to the six slots of
`last_vertex.trailing_vertex_indices` in bounds and the assertion
`trailing < trailing_vertex_indices.size()` holding, and gives the vertices of
the model without the checks; and between one and four padding vertices are
appended. -/
theorem padding_vertices_in_bounds (orig : List MobyVertex) :
    (adjust_vertex_indices orig).2.length = 7 ∧
    ∃ vs, encode_vertices_checked orig = .ok vs ∧ encode_vertices orig = .ok vs ∧
      orig.length + 1 ≤ vs.length ∧ vs.length ≤ orig.length + 4 := by
  have h1 := adjust_vertex_indices_length orig
  have h0 := adjust_vertex_indices_fst_length orig
  have h2 := push_trailing_bound orig.length (adjust_vertex_indices orig).2
    ((adjust_vertex_indices orig).2.length + 1) (adjust_vertex_indices orig).1 0
  obtain ⟨h3, h4, h5⟩ := push_trailing_length orig.length (adjust_vertex_indices orig).2
    ((adjust_vertex_indices orig).2.length + 1) (adjust_vertex_indices orig).1 0 (by omega)
  have ht : (push_trailing orig.length (adjust_vertex_indices orig).2
      ((adjust_vertex_indices orig).2.length + 1) (adjust_vertex_indices orig).1 0).2 <
      (adjust_vertex_indices orig).2.length := by omega
  refine ⟨h1, (push_trailing orig.length (adjust_vertex_indices orig).2
      ((adjust_vertex_indices orig).2.length + 1) (adjust_vertex_indices orig).1 0).1 ++
    [last_padding_vertex orig.length (push_trailing orig.length (adjust_vertex_indices orig).2
      ((adjust_vertex_indices orig).2.length + 1) (adjust_vertex_indices orig).1 0).2
      (adjust_vertex_indices orig).2], ?_, ?_, ?_, ?_⟩
  · unfold encode_vertices_checked
    rw [push_trailing_checked_eq]
    simp only []
    rw [if_pos ht, last_padding_vertex_checked_eq _ _ _ ht (by omega)]
  · unfold encode_vertices
    simp only
    rw [if_pos ht]
  · simp only [List.length_append, List.length_singleton]
    omega
  · simp only [List.length_append, List.length_singleton]
    omega

/-! ### The entry and the header of a written submesh (C29) -/

theorem length_pad_eq (d : List Nat) (a : Nat) :
    (pad d a).length = d.length + (a - d.length % a) % a := by
  simp [pad]

theorem length_MobyVertex_bytes (v : MobyVertex) : v.bytes.length = 0x10 := by
  simp [MobyVertex.bytes, le_bytes, List.range, List.range.loop]

theorem length_vertices_bytes (vs : List MobyVertex) :
    ((vs.map MobyVertex.bytes).flatten).length = 0x10 * vs.length := by
  induction vs with
  | nil => rfl
  | cons v rest ih =>
    rw [List.map_cons, List.flatten_cons, List.length_append, ih, length_MobyVertex_bytes,
      List.length_cons]
    omega

theorem length_vertex_header_bytes (w : Nat) (h : MobyVertexTableHeaderRac1) :
    (h.bytes w).length = 8 * w := by
  simp only [MobyVertexTableHeaderRac1.bytes, List.length_append, length_le_bytes]
  omega

theorem slice_append_left (d x : List Nat) (o w : Nat) (h : o + w ≤ d.length) :
    slice (d ++ x) o w = slice d o w := by
  unfold slice
  rw [List.drop_append_of_le_length (by omega), List.take_append_of_le_length]
  rw [List.length_drop]
  omega

theorem slice_pad (d : List Nat) (a o w : Nat) (h : o + w ≤ d.length) :
    slice (pad d a) o w = slice d o w :=
  slice_append_left d _ o w h

theorem slice_self (bs : List Nat) : slice bs 0 bs.length = bs := by
  unfold slice
  rw [List.drop_zero, List.take_length]

theorem stored_entry_fields (e : MobySubMeshEntry) :
    (stored_entry e).vertex_data_size = e.vertex_data_size % 256 ∧
    (stored_entry e).unknown_d = e.unknown_d % 256 ∧
    (stored_entry e).unknown_e = e.unknown_e % 256 ∧
    (stored_entry e).transfer_vertex_count = e.transfer_vertex_count % 256 :=
  ⟨le_value_byte _, le_value_byte _, le_value_byte _, le_value_byte _⟩

theorem parse_vertex_header_four (h : MobyVertexTableHeaderRac1) :
    MobyVertexTableHeaderRac1.parse 4 (h.bytes 4) =
      ⟨h.unknown_count_0 % 2 ^ 32, h.vertex_count_2 % 2 ^ 32, h.vertex_count_4 % 2 ^ 32,
       h.main_vertex_count % 2 ^ 32, h.duplicate_vertex_count % 2 ^ 32,
       h.transfer_vertex_count % 2 ^ 32, h.vertex_table_offset % 2 ^ 32, h.unknown_e % 2 ^ 32⟩ := by
  have e : MobyVertexTableHeaderRac1.parse 4 (h.bytes 4) =
      ⟨le_value (le_bytes 4 h.unknown_count_0), le_value (le_bytes 4 h.vertex_count_2),
       le_value (le_bytes 4 h.vertex_count_4), le_value (le_bytes 4 h.main_vertex_count),
       le_value (le_bytes 4 h.duplicate_vertex_count),
       le_value (le_bytes 4 h.transfer_vertex_count),
       le_value (le_bytes 4 h.vertex_table_offset), le_value (le_bytes 4 h.unknown_e)⟩ := rfl
  rw [e]
  simp only [le_value_le_bytes_four]

theorem parse_vertex_header_two (h : MobyVertexTableHeaderRac1) :
    MobyVertexTableHeaderRac1.parse 2 (h.bytes 2) =
      ⟨h.unknown_count_0 % 2 ^ 16, h.vertex_count_2 % 2 ^ 16, h.vertex_count_4 % 2 ^ 16,
       h.main_vertex_count % 2 ^ 16, h.duplicate_vertex_count % 2 ^ 16,
       h.transfer_vertex_count % 2 ^ 16, h.vertex_table_offset % 2 ^ 16, h.unknown_e % 2 ^ 16⟩ := by
  have e : MobyVertexTableHeaderRac1.parse 2 (h.bytes 2) =
      ⟨le_value (le_bytes 2 h.unknown_count_0), le_value (le_bytes 2 h.vertex_count_2),
       le_value (le_bytes 2 h.vertex_count_4), le_value (le_bytes 2 h.main_vertex_count),
       le_value (le_bytes 2 h.duplicate_vertex_count),
       le_value (le_bytes 2 h.transfer_vertex_count),
       le_value (le_bytes 2 h.vertex_table_offset), le_value (le_bytes 2 h.unknown_e)⟩ := rfl
  rw [e]
  simp only [le_value_le_bytes_two]

/-- What `write_vertex_table` leaves: the encoded vertices `vs`, the position
`l8` of the vertex array, the length of the output, the table entry and the
bytes of the vertex table header. -/
theorem write_vertex_table_spec {class_header_ofs : Nat} {format : MobyFormat} {dest : List Nat}
    {submesh : MobySubMesh} {entry0 : MobySubMeshEntry} {dest1 : List Nat}
    {entry : MobySubMeshEntry}
    (hw : write_vertex_table class_header_ofs format dest submesh entry0 = .ok (dest1, entry)) :
    ∃ (vs : List MobyVertex) (l8 tvc : Nat) (vertex_header : MobyVertexTableHeaderRac1),
      encode_vertices submesh.vertices = .ok vs ∧
      tvc = (submesh.vertex_count_2 % 2 ^ 32 + submesh.vertex_count_4 % 2 ^ 32 +
        to_unsigned 32 ((submesh.vertices.length : Int) - submesh.vertex_count_2 -
          submesh.vertex_count_4) + submesh.duplicate_vertices.length) % 2 ^ 32 ∧
      dest.length + 8 * (if format = MobyFormat.RAC1 then 4 else 2) ≤ l8 ∧ l8 % 0x10 = 0 ∧
      l8 + 0x10 * vs.length ≤ dest1.length ∧ dest1.length % 0x10 = 0 ∧
      (format ≠ MobyFormat.RAC1 → dest1.length < l8 + 0x10 * vs.length + 0x10) ∧
      entry.vertex_data_size = (dest1.length - dest.length) / 0x10 ∧
      entry.unknown_d = ((0xf + tvc * 6) % 2 ^ 32) / 0x10 ∧
      entry.unknown_e = ((3 + tvc) % 2 ^ 32) / 4 ∧
      entry.transfer_vertex_count = tvc ∧
      vertex_header.vertex_count_2 = submesh.vertex_count_2 ∧
      vertex_header.vertex_count_4 = submesh.vertex_count_4 ∧
      vertex_header.main_vertex_count = to_unsigned 32 ((submesh.vertices.length : Int) -
        submesh.vertex_count_2 - submesh.vertex_count_4) ∧
      vertex_header.transfer_vertex_count = tvc ∧
      vertex_header.vertex_table_offset = l8 - dest.length ∧
      (format = MobyFormat.RAC1 →
        vertex_header.unknown_e = l8 + 0x10 * vs.length - dest.length) ∧
      slice dest1 dest.length (8 * (if format = MobyFormat.RAC1 then 4 else 2)) =
        vertex_header.bytes (if format = MobyFormat.RAC1 then 4 else 2) := by
  unfold write_vertex_table at hw
  obtain ⟨vs, hv, h⟩ := bind_eq_ok hw
  injection h with h
  obtain ⟨h1, h2⟩ := Prod.mk.inj h
  generalize hwf : (if format = MobyFormat.RAC1 then 4 else 2) = w at h1 h2 ⊢
  have hw0 : w = 4 ∨ w = 2 := by
    rw [← hwf]
    split
    · exact Or.inl rfl
    · exact Or.inr rfl
  obtain ⟨d8, hd8⟩ : ∃ d8, d8 = pad (pad (dest ++ List.replicate (8 * w) 0 ++
      (List.map (le_bytes 2) submesh.unknowns).flatten) 8 ++
      (List.map (le_bytes 2) submesh.duplicate_vertices).flatten) 16 := ⟨_, rfl⟩
  rw [← hd8] at h1 h2
  have l8a : dest.length + 8 * w ≤ d8.length := by
    rw [hd8]
    simp only [length_pad_eq, List.length_append, List.length_replicate]
    omega
  have l8b : d8.length % 16 = 0 := by
    rw [hd8, length_pad_eq]
    omega
  have l10 : d8.length + 16 * vs.length ≤ (if format = MobyFormat.RAC1 then
      d8 ++ (List.map MobyVertex.bytes vs).flatten ++
        List.map (fun b => b % 256) submesh.unknown_e_data
      else d8 ++ (List.map MobyVertex.bytes vs).flatten).length := by
    split <;> simp only [List.length_append, length_vertices_bytes] <;> omega
  have l10b : format ≠ MobyFormat.RAC1 → (if format = MobyFormat.RAC1 then
      d8 ++ (List.map MobyVertex.bytes vs).flatten ++
        List.map (fun b => b % 256) submesh.unknown_e_data
      else d8 ++ (List.map MobyVertex.bytes vs).flatten).length = d8.length + 16 * vs.length := by
    intro hf
    rw [if_neg hf]
    simp only [List.length_append, length_vertices_bytes]
  have l12 : dest1.length = (if format = MobyFormat.RAC1 then
      d8 ++ (List.map MobyVertex.bytes vs).flatten ++
        List.map (fun b => b % 256) submesh.unknown_e_data
      else d8 ++ (List.map MobyVertex.bytes vs).flatten).length +
      (16 - (if format = MobyFormat.RAC1 then
      d8 ++ (List.map MobyVertex.bytes vs).flatten ++
        List.map (fun b => b % 256) submesh.unknown_e_data
      else d8 ++ (List.map MobyVertex.bytes vs).flatten).length % 16) % 16 := by
    rw [← h1, length_pad_eq, length_write_at]
  generalize (if format = MobyFormat.RAC1 then
      d8 ++ (List.map MobyVertex.bytes vs).flatten ++
        List.map (fun b => b % 256) submesh.unknown_e_data
      else d8 ++ (List.map MobyVertex.bytes vs).flatten) = d10 at h1 h2 l10 l10b l12
  refine ⟨vs, d8.length, _,
    { unknown_count_0 := submesh.unknowns.length, vertex_count_2 := submesh.vertex_count_2,
      vertex_count_4 := submesh.vertex_count_4,
      main_vertex_count := to_unsigned 32 ((submesh.vertices.length : Int) -
        submesh.vertex_count_2 - submesh.vertex_count_4),
      duplicate_vertex_count := submesh.duplicate_vertices.length,
      transfer_vertex_count := (submesh.vertex_count_2 % 2 ^ 32 +
        submesh.vertex_count_4 % 2 ^ 32 + to_unsigned 32 ((submesh.vertices.length : Int) -
          submesh.vertex_count_2 - submesh.vertex_count_4) +
        submesh.duplicate_vertices.length) % 2 ^ 32,
      vertex_table_offset := d8.length - dest.length,
      unknown_e := if format = MobyFormat.RAC1 then
        (d8 ++ (List.map MobyVertex.bytes vs).flatten).length - dest.length
        else submesh.unknown_e },
    hv, rfl, l8a, l8b, by omega, by omega, ?_, ?_, ?_, ?_, ?_, rfl, rfl, rfl, rfl, rfl, ?_, ?_⟩
  · intro hf
    have := l10b hf
    omega
  · rw [← h2, ← h1]
  · rw [← h2]
  · rw [← h2]
  · rw [← h2]
  · intro hf
    simp only [if_pos hf, List.length_append, length_vertices_bytes]
  · have e := fun bs h3 h4 => slice_write_at d10 dest.length bs 0 (8 * w) h3 h4
    simp only [Nat.add_zero] at e
    rw [← h1, slice_pad _ _ _ _ (by rw [length_write_at]; omega),
      e _ (by rw [length_vertex_header_bytes]; omega) (by rw [length_vertex_header_bytes]; omega),
      ← length_vertex_header_bytes w]
    exact slice_self _

theorem encode_vertices_length {orig vs : List MobyVertex} (h : encode_vertices orig = .ok vs) :
    orig.length + 1 ≤ vs.length ∧ vs.length ≤ orig.length + 4 := by
  unfold encode_vertices at h
  have h1 := adjust_vertex_indices_length orig
  have h0 := adjust_vertex_indices_fst_length orig
  have h2 := push_trailing_bound orig.length (adjust_vertex_indices orig).2
    ((adjust_vertex_indices orig).2.length + 1) (adjust_vertex_indices orig).1 0
  obtain ⟨h3, h4, h5⟩ := push_trailing_length orig.length (adjust_vertex_indices orig).2
    ((adjust_vertex_indices orig).2.length + 1) (adjust_vertex_indices orig).1 0 (by omega)
  simp only at h
  rw [if_pos (by omega)] at h
  injection h with h
  rw [← h]
  simp only [List.length_append, List.length_singleton]
  omega

theorem wrap_s32_eq (x y : Int) (h : (x - y) % 4294967296 = 0) (h0 : -2147483648 ≤ y)
    (h1 : y < 2147483648) : wrap_s32 x = y := by
  unfold wrap_s32 to_signed to_unsigned
  have e : ((2 ^ 32 : Nat) : Int) = 4294967296 := by norm_num
  have e3 : (2 : Nat) ^ 32 = 4294967296 := by norm_num
  have e4 : (2 : Nat) ^ (32 - 1) = 2147483648 := by norm_num
  rw [e, e3, e4]
  split <;> omega

theorem to_unsigned_32_eq (x : Int) : to_unsigned 32 x = (x % 4294967296).toNat := by
  unfold to_unsigned
  have e : ((2 ^ 32 : Nat) : Int) = 4294967296 := by norm_num
  rw [e]

theorem wrap_s32_small (x : Int) (h0 : -2147483648 ≤ x) (h1 : x < 2147483648) :
    wrap_s32 x = x :=
  wrap_s32_eq x x (by simp) h0 h1

theorem transfer_count_eq (n d vc2 vc4 : Nat) (h : n + d ≤ 255) :
    (vc2 % 4294967296 + vc4 % 4294967296 +
      (((n : Int) - vc2 - vc4) % 4294967296).toNat + d) % 4294967296 = n + d := by
  omega

theorem in_file_count_four (n vc2 vc4 s : Nat) (hn : n ≤ 255)
    (hs : s = vc2 % 4294967296 + vc4 % 4294967296 +
      (((n : Int) - vc2 - vc4) % 4294967296).toNat % 4294967296) :
    wrap_s32 (s : Int) = n :=
  wrap_s32_eq _ _ (by omega) (by omega) (by omega)

theorem in_file_count_two (n vc2 vc4 s : Nat) (hn : n ≤ 255)
    (hs : s = vc2 % 65536 + vc4 % 65536 +
      (((n : Int) - vc2 - vc4) % 4294967296).toNat % 65536) :
    n ≤ s ∧ s < 196608 ∧ (vc2 + vc4 ≤ n → s = n) := by
  refine ⟨by omega, by omega, fun h => by omega⟩

theorem quadwords_compact (d dl l8 vsl : Nat) (a1 : dl ≤ l8) (a2 : l8 % 16 = 0)
    (a3 : l8 + 16 * vsl ≤ d) (a4 : d % 16 = 0) (a6 : d < l8 + 16 * vsl + 16) :
    (d - dl) / 16 = (l8 - dl) / 16 + vsl := by
  omega

theorem quadwords_unknown_e (dl l8 vsl : Nat) (a1 : dl ≤ l8) (h : l8 + 16 * vsl - dl < 4096) :
    ((((((l8 + 16 * vsl - dl : Nat) : Int) - ((l8 - dl : Nat) : Int)) % 4294967296).toNat / 16 :
      Nat) : Int) = vsl := by
  omega

/-- C29, counterexample: `miscounted_submesh` has no vertices, no duplicate
vertices and `vertex_count_2` 1; its vertex table is written in the compact
format with three padding vertices in 4 quadwords, the header read back has
`main_vertex_count` 0xffff, so the decoder takes 0x10000 for the in-file vertex
count and derives -65533 for `trailing_vertex_count`, not 3, and fails to read
the vertices. -/
theorem trailing_count_miscounted :
    ∃ dest1 entry vs e,
      write_vertex_table 0 MobyFormat.RAC2 [] miscounted_submesh MobySubMeshEntry.zero =
        .ok (dest1, entry) ∧
      miscounted_submesh.vertices.length + miscounted_submesh.duplicate_vertices.length = 0 ∧
      entry.vertex_data_size = 4 ∧
      encode_vertices miscounted_submesh.vertices = .ok vs ∧
      (vs.length : Int) - miscounted_submesh.vertices.length = 3 ∧
      (stored_vertex_header MobyFormat.RAC2 dest1 0).main_vertex_count = 0xffff ∧
      in_file_vertex_count (stored_vertex_header MobyFormat.RAC2 dest1 0) = 0x10000 ∧
      trailing_vertex_count MobyFormat.RAC2 (stored_entry entry)
        (stored_vertex_header MobyFormat.RAC2 dest1 0)
        (in_file_vertex_count (stored_vertex_header MobyFormat.RAC2 dest1 0)) = -65533 ∧
      read_vertex_table dest1 MobyFormat.RAC2 (stored_entry entry)
        miscounted_submesh.toMobySubMeshBase [] = .error e :=
  ⟨_, _, _, _, rfl, rfl, rfl, rfl, rfl, rfl, rfl, rfl, rfl⟩

/-- C29 (amended): for every submesh with at most 255 transferred vertices
(vertices plus duplicate vertices) whose vertex data fits in 255 quadwords, the
table entry and the vertex table header that `write_moby_submeshes` writes
(lines 609-699), read back from their bytes, pass every consistency check of
`read_moby_submeshes`: the vertex table offset divided by 0x10 is at most
`vertex_data_size`, the two transfer vertex counts are equal, and fields 0xd
and 0xe have the values the decoder expects, so the submesh is not skipped;
the `trailing_vertex_count` the decoder derives is below 7; and it equals the
number of padding vertices the encoder appended when the format is RAC1 or
`vertex_count_2 + vertex_count_4` does not exceed the number of vertices. -/
theorem written_submesh_consistent (class_header_ofs : Nat) (format : MobyFormat)
    (dest : List Nat) (submesh : MobySubMesh) (entry0 : MobySubMeshEntry) (dest1 : List Nat)
    (entry : MobySubMeshEntry)
    (hw : write_vertex_table class_header_ofs format dest submesh entry0 = .ok (dest1, entry))
    (hn : submesh.vertices.length + submesh.duplicate_vertices.length ≤ 255)
    (hq : entry.vertex_data_size ≤ 255) :
    ∃ vs, encode_vertices submesh.vertices = .ok vs ∧
      ¬ entry_inconsistent (stored_entry entry) (stored_vertex_header format dest1 dest.length) ∧
      (stored_entry entry).transfer_vertex_count =
        (stored_vertex_header format dest1 dest.length).transfer_vertex_count ∧
      trailing_vertex_count format (stored_entry entry)
        (stored_vertex_header format dest1 dest.length)
        (in_file_vertex_count (stored_vertex_header format dest1 dest.length)) < 7 ∧
      (format = MobyFormat.RAC1 ∨
          submesh.vertex_count_2 + submesh.vertex_count_4 ≤ submesh.vertices.length →
        trailing_vertex_count format (stored_entry entry)
          (stored_vertex_header format dest1 dest.length)
          (in_file_vertex_count (stored_vertex_header format dest1 dest.length)) =
            (vs.length : Int) - submesh.vertices.length) := by
  obtain ⟨vs, l8, tvc, vh, hv, htvc, a1, a2, a3, a4, a5, e1, e2, e3, e4, v2, v4, vm, vt, vo, vu,
    hs⟩ := write_vertex_table_spec hw
  obtain ⟨k1, k2⟩ := encode_vertices_length hv
  obtain ⟨s1, s2, s3, s4⟩ := stored_entry_fields entry
  refine ⟨vs, hv, ?_⟩
  rw [to_unsigned_32_eq] at htvc vm
  have e32 : (2 : Nat) ^ 32 = 4294967296 := by norm_num
  have e16 : (2 : Nat) ^ 16 = 65536 := by norm_num
  rw [e32] at htvc e2 e3
  rw [transfer_count_eq _ _ _ _ hn] at htvc
  have hn1 : submesh.vertices.length ≤ 255 := le_trans (Nat.le_add_right _ _) hn
  have ht : tvc ≤ 255 := htvc ▸ hn
  have hl : dest.length ≤ l8 := le_trans (Nat.le_add_right _ _) a1
  clear htvc hn a1
  rw [Nat.mod_eq_of_lt (by omega)] at e2 e3
  rw [e4] at s4
  rw [Nat.mod_eq_of_lt (by omega)] at s1 s2 s3 s4
  generalize hH : stored_vertex_header format dest1 dest.length = H
  unfold entry_inconsistent trailing_vertex_count in_file_vertex_count
  rw [s1, s2, s3, s4]
  clear s1 s2 s3 s4 e4
  by_cases hf : format = MobyFormat.RAC1
  · have hh : H = MobyVertexTableHeaderRac1.parse 4 (vh.bytes 4) := by
      rw [← hH]
      unfold stored_vertex_header
      rw [if_pos hf] at hs ⊢
      rw [← hs]
    rw [parse_vertex_header_four, e32, v2, v4, vm, vt, vo, vu hf] at hh
    have f0 : H.vertex_count_2 + H.vertex_count_4 + H.main_vertex_count =
        submesh.vertex_count_2 % 4294967296 + submesh.vertex_count_4 % 4294967296 +
        (((submesh.vertices.length : Int) - submesh.vertex_count_2 -
          submesh.vertex_count_4) % 4294967296).toNat % 4294967296 := by rw [hh]
    have ft : H.transfer_vertex_count = tvc % 4294967296 := by rw [hh]
    have fo : H.vertex_table_offset = (l8 - dest.length) % 4294967296 := by rw [hh]
    have fu : H.unknown_e = (l8 + 16 * vs.length - dest.length) % 4294967296 := by rw [hh]
    clear hh hs vm v2 v4 vt vo vu hH
    have hu : l8 + 16 * vs.length - dest.length < 4096 := by omega
    rw [Nat.mod_eq_of_lt (by omega)] at ft fo fu
    rw [if_pos hf, to_unsigned_32_eq, in_file_count_four _ _ _ _ hn1 f0, fu, fo,
      quadwords_unknown_e _ _ _ hl hu, wrap_s32_small _ (by omega) (by omega)]
    clear f0 hu fu
    refine ⟨?_, by omega, by omega, fun _ => rfl⟩
    rintro (h | h | h)
    · omega
    · omega
    · omega
  · have hh : H = MobyVertexTableHeaderRac1.parse 2 (vh.bytes 2) := by
      rw [← hH]
      unfold stored_vertex_header
      rw [if_neg hf] at hs ⊢
      rw [← hs]
    rw [parse_vertex_header_two, e16, v2, v4, vm, vt, vo] at hh
    have f0 : H.vertex_count_2 + H.vertex_count_4 + H.main_vertex_count =
        submesh.vertex_count_2 % 65536 + submesh.vertex_count_4 % 65536 +
        (((submesh.vertices.length : Int) - submesh.vertex_count_2 -
          submesh.vertex_count_4) % 4294967296).toNat % 65536 := by rw [hh]
    have ft : H.transfer_vertex_count = tvc % 65536 := by rw [hh]
    have fo : H.vertex_table_offset = (l8 - dest.length) % 65536 := by rw [hh]
    clear hh hs vm v2 v4 vt vo vu hH
    have q := quadwords_compact _ _ _ _ hl a2 a3 a4 (a5 hf)
    rw [← e1] at q
    rw [Nat.mod_eq_of_lt (by omega)] at ft fo
    rw [← fo] at q
    obtain ⟨hs2, hs3, hs4⟩ := in_file_count_two _ _ _ _ hn1 f0
    generalize H.vertex_count_2 + H.vertex_count_4 + H.main_vertex_count = s at f0 hs2 hs3 hs4 ⊢
    clear f0 a5 a2 a3 a4 fo
    rw [if_neg hf, wrap_s32_small (s : Int) (by omega) (by omega),
      wrap_s32_small _ (by omega) (by omega)]
    refine ⟨?_, by omega, by omega, fun h => ?_⟩
    · rintro (h | h | h)
      · omega
      · omega
      · omega
    · rcases h with h | h
      · exact absurd h hf
      · rw [hs4 h]
        omega

set_option maxRecDepth 100000 in
/-- The theorem `written_submesh_consistent` at a submesh of eight vertices,
written in the compact format to an empty output buffer. -/
theorem written_submesh_consistent_witness :
    ∃ dest1 entry vs,
      write_vertex_table 0 MobyFormat.RAC2 [] index_bit_example MobySubMeshEntry.zero =
        .ok (dest1, entry) ∧
      index_bit_example.vertices.length + index_bit_example.duplicate_vertices.length ≤ 255 ∧
      entry.vertex_data_size ≤ 255 ∧
      encode_vertices index_bit_example.vertices = .ok vs ∧
      ¬ entry_inconsistent (stored_entry entry)
        (stored_vertex_header MobyFormat.RAC2 dest1 ([] : List Nat).length) ∧
      trailing_vertex_count MobyFormat.RAC2 (stored_entry entry)
        (stored_vertex_header MobyFormat.RAC2 dest1 ([] : List Nat).length)
        (in_file_vertex_count (stored_vertex_header MobyFormat.RAC2 dest1
          ([] : List Nat).length)) = (vs.length : Int) - index_bit_example.vertices.length := by
  obtain ⟨vs, h1, h2, _, _, h5⟩ := written_submesh_consistent 0 MobyFormat.RAC2 []
    index_bit_example MobySubMeshEntry.zero _ _ rfl (by decide) (by decide)
  exact ⟨_, _, vs, rfl, by decide, by decide, h1, h2, h5 (Or.inr (by decide))⟩

/-! ### Reads within bounds -/

theorem read_bytes_eq (src : List Nat) (o w : Nat) (subject : String)
    (h : o + w ≤ src.length) :
    read_bytes src (o : Int) (w : Int) subject = .ok (slice src o w) := by
  unfold read_bytes
  rw [if_neg (by omega), if_neg (by omega)]
  rfl

theorem read_uint_eq (src : List Nat) (size o : Nat) (subject : String)
    (h : o + size ≤ src.length) :
    read_uint src size (o : Int) subject = .ok (le_value (slice src o size)) := by
  unfold read_uint
  rw [read_bytes_eq src o size subject h]

theorem read_sint_eq (src : List Nat) (size o : Nat) (subject : String)
    (h : o + size ≤ src.length) :
    read_sint src size (o : Int) subject =
      .ok (to_signed (8 * size) (le_value (slice src o size))) := by
  unfold read_sint
  rw [read_bytes_eq src o size subject h]

theorem read_multiple_eq (src : List Nat) (size o count : Nat) (subject : String)
    (h : o + count * size ≤ src.length) :
    read_multiple src size (o : Int) (count : Int) subject =
      .ok (chunks size count (slice src o (count * size))) := by
  unfold read_multiple
  have e : (count : Int) * (size : Int) = ((count * size : Nat) : Int) := by push_cast; rfl
  rw [e, read_bytes_eq src o (count * size) subject h]
  simp only
  rw [if_neg (by omega)]
  rfl

theorem slice_write_at_disjoint (d : List Nat) (o : Nat) (bs : List Nat) (a w : Nat)
    (h : a + w ≤ o ∨ o + bs.length ≤ a) : slice (write_at d o bs) a w = slice d a w := by
  unfold slice
  apply List.ext_getElem?
  intro i
  rw [List.getElem?_take, List.getElem?_take]
  split
  · rw [List.getElem?_drop, List.getElem?_drop, getElem?_write_at, if_neg (by omega)]
  · rfl

theorem slice_write_at_self (d : List Nat) (o : Nat) (bs : List Nat)
    (h : o + bs.length ≤ d.length) : slice (write_at d o bs) o bs.length = bs := by
  have e := slice_write_at d o bs 0 bs.length h (by omega)
  rw [Nat.add_zero] at e
  rw [e, slice_self]

theorem slice_replicate (n x o w : Nat) (h : o + w ≤ n) :
    slice (List.replicate n x) o w = List.replicate w x := by
  unfold slice
  rw [List.drop_replicate, List.take_replicate]
  congr 1
  omega

theorem slice_drop (l : List Nat) (c o w : Nat) : slice (l.drop c) o w = slice l (c + o) w := by
  unfold slice
  rw [List.drop_drop]

theorem slice_append_right (d x : List Nat) : slice (d ++ x) d.length x.length = x := by
  unfold slice
  rw [List.drop_left, List.take_length]

theorem slice_append_right_of (d x : List Nat) (o w : Nat) (h : d.length ≤ o) :
    slice (d ++ x) o w = slice x (o - d.length) w := by
  unfold slice
  rw [List.drop_append_eq_append_drop, List.drop_of_length_le h, List.nil_append]

theorem length_flatten_le_bytes (w : Nat) (l : List Nat) :
    ((l.map (le_bytes w)).flatten).length = w * l.length := by
  induction l with
  | nil => rfl
  | cons v t ih =>
    simp only [List.map_cons, List.flatten_cons, List.length_append, length_le_bytes, ih,
      List.length_cons]
    rw [Nat.mul_succ]; omega

/-! ### The offset of the duplicate vertices (C31) -/

theorem duplicate_table_offset_arith (x : Nat) (hx : x % 2 = 0) :
    duplicate_table_offset x = x + (8 - x % 8) % 8 := by
  unfold duplicate_table_offset
  simp only
  split_ifs <;> omega

/-- The duplicate vertices of a written vertex table lie where the decoder
computes their offset, when the class begins at a multiple of 8. -/
theorem written_duplicates_at_offset {class_header_ofs : Nat} {format : MobyFormat}
    {dest : List Nat} {submesh : MobySubMesh} {entry0 : MobySubMeshEntry} {dest1 : List Nat}
    {entry : MobySubMeshEntry}
    (hw : write_vertex_table class_header_ofs format dest submesh entry0 = .ok (dest1, entry))
    (hc : class_header_ofs % 8 = 0) (hd : class_header_ofs ≤ dest.length)
    (ha : dest.length % 0x10 = 0) :
    slice (dest1.drop class_header_ofs)
      (duplicate_table_offset (entry.vertex_offset +
        8 * (if format = MobyFormat.RAC1 then 4 else 2) + submesh.unknowns.length * 2))
      (2 * submesh.duplicate_vertices.length) =
      (submesh.duplicate_vertices.map (le_bytes 2)).flatten := by
  unfold write_vertex_table at hw
  obtain ⟨vs, hv, h⟩ := bind_eq_ok hw
  injection h with h
  obtain ⟨h1, h2⟩ := Prod.mk.inj h
  generalize hwf : (if format = MobyFormat.RAC1 then 4 else 2) = w at h1 h2 ⊢
  have hw0 : w = 4 ∨ w = 2 := by
    rw [← hwf]
    split
    · exact Or.inl rfl
    · exact Or.inr rfl
  have hvo : entry.vertex_offset = dest.length - class_header_ofs := by rw [← h2]
  have hu := length_flatten_le_bytes 2 submesh.unknowns
  have hdl := length_flatten_le_bytes 2 submesh.duplicate_vertices
  generalize (List.map (le_bytes 2) submesh.unknowns).flatten = ub at h1 hu
  generalize hdb : (List.map (le_bytes 2) submesh.duplicate_vertices).flatten = db at h1 hdl ⊢
  obtain ⟨d6, hd6⟩ : ∃ d6, d6 = pad (dest ++ List.replicate (8 * w) 0 ++ ub) 8 := ⟨_, rfl⟩
  rw [← hd6] at h1
  have l6a : d6.length = dest.length + 8 * w + 2 * submesh.unknowns.length +
      (8 - (dest.length + 8 * w + 2 * submesh.unknowns.length) % 8) % 8 := by
    rw [hd6, length_pad_eq]
    simp only [List.length_append, List.length_replicate, hu]
  have l6 : d6.length = class_header_ofs + duplicate_table_offset (entry.vertex_offset +
      8 * w + submesh.unknowns.length * 2) := by
    rw [l6a, hvo, duplicate_table_offset_arith _ (by omega)]
    omega
  rw [slice_drop, ← l6, ← hdl, ← h1, slice_pad, slice_write_at_disjoint]
  · split
    · rw [slice_append_left, slice_append_left, slice_pad, slice_append_right]
      · simp only [List.length_append]; omega
      · rw [length_pad_eq]; simp only [List.length_append]; omega
      · simp only [List.length_append, length_pad_eq]; omega
    · rw [slice_append_left, slice_pad, slice_append_right]
      · simp only [List.length_append]; omega
      · rw [length_pad_eq]; simp only [List.length_append]; omega
  · right; rw [length_vertex_header_bytes]; omega
  · rw [length_write_at]
    split <;> simp only [List.length_append, length_pad_eq] <;> omega

/-- The decoder reads the duplicate vertices at the adjusted offset. -/
theorem read_vertex_table_duplicates {src : List Nat} {format : MobyFormat}
    {entry : MobySubMeshEntry} {base : MobySubMeshBase} {sts : List MobyTexCoord}
    {submesh : MobySubMesh}
    (h : read_vertex_table src format entry base sts = .ok (some submesh)) :
    ∃ vertex_header after duplicates,
      read_vertex_table_header src format entry.vertex_offset = .ok (vertex_header, after) ∧
      read_multiple src 2
        ((duplicate_table_offset (after + vertex_header.unknown_count_0 * 2) : Nat) : Int)
        vertex_header.duplicate_vertex_count "vertex table" = .ok duplicates ∧
      submesh.duplicate_vertices = duplicates.map le_value := by
  unfold read_vertex_table at h
  obtain ⟨⟨vertex_header, after⟩, h1, h⟩ := bind_eq_ok h
  refine ⟨vertex_header, after, ?_⟩
  simp only at h
  split at h
  · cases h
  · split at h
    · cases h
    · split at h
      · cases h
      · obtain ⟨unknowns, _, h⟩ := bind_eq_ok h
        obtain ⟨dups, h3, h⟩ := bind_eq_ok h
        obtain ⟨vertices, h4, h⟩ := bind_eq_ok h
        split at h
        all_goals
          obtain ⟨ued, _, h⟩ := bind_eq_ok h
          obtain ⟨fixed, h6, h⟩ := bind_eq_ok h
          injection h with h
          injection h with h
          subst h
          exact ⟨dups, h1, h3, rfl⟩

/-- C31: for an even offset `x`, the two adjustments of the decoder after the
unknowns (2 is added when `x % 4 ≠ 0`, then 4 when the result is not a multiple
of 8) give the least multiple of 8 that is not below `x`, which is where
`pad(0x8)` leaves an encoder at `x` bytes after a class header placed at a
multiple of 8.  The decoder reads the duplicate vertices at the adjusted
offset, and in a written vertex table they are stored there. -/
theorem duplicate_table_offset_is_pad (x : Nat) (hx : x % 2 = 0) :
    duplicate_table_offset x % 8 = 0 ∧ x ≤ duplicate_table_offset x ∧
    (∀ m, m % 8 = 0 → x ≤ m → duplicate_table_offset x ≤ m) ∧
    (∀ (dest : List Nat) (class_header_ofs : Nat), class_header_ofs % 8 = 0 →
      class_header_ofs ≤ dest.length → dest.length - class_header_ofs = x →
      (pad dest 0x8).length - class_header_ofs = duplicate_table_offset x) ∧
    (∀ src format entry base sts submesh,
      read_vertex_table src format entry base sts = .ok (some submesh) →
      ∃ vertex_header after duplicates,
        read_vertex_table_header src format entry.vertex_offset = .ok (vertex_header, after) ∧
        (after + vertex_header.unknown_count_0 * 2 = x →
          read_multiple src 2 ((duplicate_table_offset x : Nat) : Int)
            vertex_header.duplicate_vertex_count "vertex table" = .ok duplicates) ∧
        submesh.duplicate_vertices = duplicates.map le_value) ∧
    (∀ class_header_ofs format dest submesh entry0 dest1 entry,
      write_vertex_table class_header_ofs format dest submesh entry0 = .ok (dest1, entry) →
      class_header_ofs % 8 = 0 → class_header_ofs ≤ dest.length → dest.length % 0x10 = 0 →
      entry.vertex_offset + 8 * (if format = MobyFormat.RAC1 then 4 else 2) +
        submesh.unknowns.length * 2 = x →
      slice (dest1.drop class_header_ofs) (duplicate_table_offset x)
        (2 * submesh.duplicate_vertices.length) =
        (submesh.duplicate_vertices.map (le_bytes 2)).flatten) := by
  have e := duplicate_table_offset_arith x hx
  refine ⟨by omega, by omega, fun m h1 h2 => by omega, fun dest c h1 h2 h3 => ?_,
    fun src format entry base sts submesh h => ?_,
    fun c format dest submesh entry0 dest1 entry hw h1 h2 h3 h4 => ?_⟩
  · rw [length_pad_eq]; omega
  · obtain ⟨vh, after, dups, h1, h2, h3⟩ := read_vertex_table_duplicates h
    exact ⟨vh, after, dups, h1, fun hx => by rw [← hx]; exact h2, h3⟩
  · rw [← h4]
    exact written_duplicates_at_offset hw h1 h2 h3

/-- The theorem `duplicate_table_offset_is_pad` at the offset 0x26, which is
moved to 0x28. -/
theorem duplicate_table_offset_is_pad_witness :
    0x26 % 2 = 0 ∧ duplicate_table_offset 0x26 = 0x28 ∧
      (pad (List.replicate 0x26 0) 0x8).length - 0 = duplicate_table_offset 0x26 :=
  ⟨rfl, rfl, (duplicate_table_offset_is_pad 0x26 rfl).2.2.2.1 (List.replicate 0x26 0) 0 rfl
    (Nat.zero_le _) rfl⟩

/-! ### The header slots of a level archive (C38) -/

set_option maxRecDepth 100000 in
theorem level_slots_all :
    ∀ slot ∈ lump_slots
      [⟨0x018, 1, LumpKind.BinaryLump, "data"⟩,
       ⟨0x020, 1, LumpKind.BinaryLump, "core_bank"⟩,
       ⟨0x028, 3, LumpKind.BinaryLump, "chunk"⟩,
       ⟨0x040, 3, LumpKind.BinaryLump, "chunkbank"⟩,
       ⟨0x058, 1, LumpKind.GameplayLump, "gameplay_core"⟩,
       ⟨0x060, 128, LumpKind.GameplayMissionInstancesLump, "gameplay_mission_instances"⟩,
       ⟨0x460, 128, LumpKind.BinaryLump, "gameplay_mission_data"⟩,
       ⟨0x860, 128, LumpKind.BinaryLump, "mission_banks"⟩,
       ⟨0xc60, 1, LumpKind.ArtInstancesLump, "art_instances"⟩],
      0x18 ≤ slot.1.offset + 8 * slot.2 ∧ slot.1.offset + 8 * slot.2 + 8 ≤ 0xc68 := by
  intro slot h
  simp only [lump_slots, List.mem_flatMap, List.mem_map, List.mem_range, List.mem_cons,
    List.mem_singleton, List.not_mem_nil, or_false] at h
  obtain ⟨d, hd, i, hi, rfl⟩ := h
  rcases hd with rfl | rfl | rfl | rfl | rfl | rfl | rfl | rfl | rfl <;>
    simp only at hi ⊢ <;> omega

/-- C38: in the level descriptor of `wad_files`, the only one of the table, the
header slots of the lumps (the bytes `[offset, offset + 8 * count)` of a
descriptor) lie one before the other without overlap in the order of the
table, with strictly increasing offsets; the first begins at 0x18 and the last
ends at the header size 0xc68, so the pair of every slot lies inside the
header and is read from a header of that size. -/
theorem level_header_slots_in_bounds :
    ∃ level, wad_files = [level] ∧ level.name = "level" ∧ level.header_size = 0xc68 ∧
      List.Pairwise (fun a b => a.offset + 8 * a.count ≤ b.offset ∧ a.offset < b.offset)
        level.fields ∧
      (level.fields.map (fun d => d.offset)).head? = some 0x18 ∧
      (level.fields.map (fun d => d.offset + 8 * d.count)).getLast? = some level.header_size ∧
      (∀ slot ∈ lump_slots level.fields,
        0x18 ≤ slot.1.offset + 8 * slot.2 ∧ slot.1.offset + 8 * slot.2 + 8 ≤ level.header_size) ∧
      ∀ header : List Nat, header.length = level.header_size →
        ∀ slot ∈ lump_slots level.fields,
          read_bytes header ((slot.1.offset : Int) + (slot.2 : Int) * 8) 8 "WAD header" =
            .ok (slice header (slot.1.offset + 8 * slot.2) 8) := by
  refine ⟨_, rfl, rfl, rfl, by decide, rfl, rfl, level_slots_all, ?_⟩
  intro header hl slot hs
  have h := level_slots_all slot hs
  have hl1 : header.length = 0xc68 := hl
  unfold read_bytes
  rw [if_neg (by omega), if_neg (by omega)]
  have e : ((slot.1.offset : Int) + (slot.2 : Int) * 8).toNat = slot.1.offset + 8 * slot.2 := by
    omega
  rw [e]
  rfl

/-! ### Padding a stream (C39) -/

theorem OutputStream.getElem?_write_n_single (s : OutputStream) (b i : Nat) :
    (s.write_n [b]).backing[i]? =
      if i = s.ofs then some (b % 256)
      else if i < s.backing.length then s.backing[i]?
      else if i < s.ofs then some 0 else none := by
  unfold OutputStream.write_n
  simp only [List.length_singleton, List.map_cons, List.map_nil]
  by_cases h : s.ofs + 1 > s.backing.length
  · rw [if_pos h]
    have hm : min s.ofs (s.backing.length + (s.ofs + 1 - s.backing.length)) = s.ofs := by omega
    simp only [List.getElem?_append, List.length_take, List.length_append, List.length_replicate,
      List.getElem?_take, List.getElem?_drop, List.length_singleton, List.getElem?_replicate, hm]
    split_ifs <;> first | omega | rfl | simp_all
  · rw [if_neg h]
    have hm : min s.ofs s.backing.length = s.ofs := by omega
    simp only [List.getElem?_append, List.length_take, List.length_append, List.length_replicate,
      List.getElem?_take, List.getElem?_drop, List.length_singleton, List.getElem?_replicate, hm]
    split_ifs <;> first | omega | rfl | simp_all

theorem OutputStream.length_write_n_single (s : OutputStream) (b : Nat) :
    (s.write_n [b]).backing.length = max s.backing.length (s.ofs + 1) := by
  unfold OutputStream.write_n
  simp only [List.length_singleton, List.map_cons, List.map_nil]
  split_ifs with h <;>
    simp only [List.length_append, List.length_take, List.length_drop, List.length_replicate,
      List.length_singleton] <;> omega

theorem OutputStream.pad_loop_spec (p : Nat) : ∀ (k : Nat) (s : OutputStream),
    (OutputStream.pad_loop p k s).ofs = s.ofs + k ∧
    ∀ i, (OutputStream.pad_loop p k s).backing[i]? =
      if s.ofs ≤ i ∧ i < s.ofs + k then some (p % 256)
      else if i < s.backing.length then s.backing[i]?
      else if i < s.ofs ∧ 0 < k then some 0 else none
  | 0, s => by
    refine ⟨rfl, fun i => ?_⟩
    show s.backing[i]? = _
    rw [if_neg (by omega)]
    split_ifs with h1 h2
    · rfl
    · omega
    · exact List.getElem?_eq_none (by omega)
  | k + 1, s => by
    obtain ⟨h1, h2⟩ := OutputStream.pad_loop_spec p k (s.write_n [p])
    have ho : (s.write_n [p]).ofs = s.ofs + 1 := rfl
    refine ⟨?_, fun i => ?_⟩
    · show (OutputStream.pad_loop p k (s.write_n [p])).ofs = _
      rw [h1, ho]; omega
    · show (OutputStream.pad_loop p k (s.write_n [p])).backing[i]? = _
      rw [h2 i, ho, OutputStream.length_write_n_single, OutputStream.getElem?_write_n_single]
      split_ifs <;> first | rfl | omega

theorem BlackHoleOutputStream.black_hole_pad_loop (p : Nat) : ∀ (k : Nat) (s : BlackHoleOutputStream),
    BlackHoleOutputStream.pad_loop p k s = ⟨s.ofs + k, if k = 0 then s.top else max s.top (s.ofs + k)⟩
  | 0, s => rfl
  | k + 1, s => by
    show BlackHoleOutputStream.pad_loop p k (s.write_n [p]) = _
    rw [BlackHoleOutputStream.black_hole_pad_loop p k (s.write_n [p])]
    unfold BlackHoleOutputStream.write_n
    simp only [List.length_singleton, BlackHoleOutputStream.mk.injEq]
    refine ⟨by omega, ?_⟩
    rcases Nat.eq_zero_or_pos k with rfl | hk
    · simp only [if_true, Nat.add_zero, Nat.succ_ne_zero, if_false]
    · rw [if_neg (by omega), if_neg (by omega)]
      omega

theorem pad_count_least (a pos : Nat) (ha : 1 ≤ a) :
    (pos + (a - pos % a) % a) % a = 0 ∧
      ∀ m, m % a = 0 → pos ≤ m → pos + (a - pos % a) % a ≤ m := by
  have hlt : pos % a < a := Nat.mod_lt _ (by omega)
  have hd := Nat.div_add_mod pos a
  by_cases h0 : pos % a = 0
  · rw [h0, Nat.sub_zero, Nat.mod_self, Nat.add_zero]
    exact ⟨h0, fun m _ h => h⟩
  · rw [Nat.mod_eq_of_lt (by omega : a - pos % a < a)]
    have e : pos + (a - pos % a) = a * (pos / a + 1) := by
      rw [Nat.mul_add, Nat.mul_one]; omega
    refine ⟨by rw [e]; exact Nat.mul_mod_right _ _, fun m hm hle => ?_⟩
    rw [e]
    obtain ⟨q, rfl⟩ := Nat.dvd_of_mod_eq_zero hm
    apply Nat.mul_le_mul_left
    by_contra hc
    have hq : q ≤ pos / a := by omega
    have := Nat.mul_le_mul_left a hq
    omega

theorem OutputStream.length_pad_loop (p : Nat) : ∀ (k : Nat) (s : OutputStream),
    (OutputStream.pad_loop p k s).backing.length =
      if k = 0 then s.backing.length else max s.backing.length (s.ofs + k)
  | 0, s => rfl
  | k + 1, s => by
    show (OutputStream.pad_loop p k (s.write_n [p])).backing.length = _
    rw [OutputStream.length_pad_loop p k (s.write_n [p]), OutputStream.length_write_n_single]
    have ho : (s.write_n [p]).ofs = s.ofs + 1 := rfl
    rw [ho]
    rcases Nat.eq_zero_or_pos k with rfl | hk
    · rw [if_pos rfl, if_neg (by omega)]
    · rw [if_neg (by omega), if_neg (by omega)]
      omega

/-- C39: for an alignment `a` of at least 1 and a byte `p`, `OutputStream::pad`
moves a memory stream and a black hole stream at position `pos` forward by
`(a - pos % a) % a`, to the least multiple of `a` that is not below `pos`; on
the memory stream the bytes from `pos` up to the new position are all `p`,
the bytes stored elsewhere are kept and the backing store ends at the new
position or where it ended before; an aligned stream is left as it was. -/
theorem pad_reaches_alignment (a p : Nat) (ha : 1 ≤ a) (hp : p < 256) (s : OutputStream)
    (h : BlackHoleOutputStream) :
    ((s.pad a p).tell = s.tell + (a - s.tell % a) % a ∧
      (∀ i, s.tell ≤ i → i < s.tell + (a - s.tell % a) % a →
        (s.pad a p).backing[i]? = some p) ∧
      (∀ i, i < s.backing.length → (i < s.tell ∨ s.tell + (a - s.tell % a) % a ≤ i) →
        (s.pad a p).backing[i]? = s.backing[i]?) ∧
      (s.pad a p).backing.length =
        (if (a - s.tell % a) % a = 0 then s.backing.length
          else max s.backing.length (s.tell + (a - s.tell % a) % a)) ∧
      (s.pad a p).tell % a = 0 ∧
      (∀ m, m % a = 0 → s.tell ≤ m → (s.pad a p).tell ≤ m) ∧
      (s.tell % a = 0 → s.pad a p = s)) ∧
    ((h.pad a p).tell = h.tell + (a - h.tell % a) % a ∧
      (h.pad a p).tell % a = 0 ∧
      (∀ m, m % a = 0 → h.tell ≤ m → (h.pad a p).tell ≤ m) ∧
      (h.tell % a = 0 → h.pad a p = h)) := by
  have key : ∀ pos, pos % a ≠ 0 → (a - pos % a) % a = a - pos % a := fun pos _ =>
    Nat.mod_eq_of_lt (by have := Nat.mod_lt pos (by omega : 0 < a); omega)
  have key0 : ∀ pos, pos % a = 0 → (a - pos % a) % a = 0 := fun pos h0 => by
    rw [h0, Nat.sub_zero, Nat.mod_self]
  constructor
  · have hs : s.tell = s.ofs := rfl
    have hl := pad_count_least a s.tell ha
    by_cases h0 : s.tell % a = 0
    · have e : s.pad a p = s := by unfold OutputStream.pad; rw [if_neg (by omega)]
      rw [e, key0 _ h0] at *
      exact ⟨rfl, fun i h1 h2 => by omega, fun _ _ _ => rfl, rfl, h0, fun m _ hm => hm,
        fun _ => rfl⟩
    · have e : s.pad a p = OutputStream.pad_loop p (a - s.tell % a) s := by
        unfold OutputStream.pad; rw [if_pos h0]
      obtain ⟨h1, h2⟩ := OutputStream.pad_loop_spec p (a - s.tell % a) s
      have h3 := OutputStream.length_pad_loop p (a - s.tell % a) s
      have ht : (s.pad a p).tell = s.tell + (a - s.tell % a) := by rw [e]; exact h1
      rw [key _ h0] at hl ⊢
      refine ⟨ht, fun i hi1 hi2 => ?_, fun i hi1 hi2 => ?_, ?_, by rw [ht]; exact hl.1,
        fun m hm1 hm2 => by rw [ht]; exact hl.2 m hm1 hm2, fun hc => absurd hc h0⟩
      · rw [e, h2 i, if_pos ⟨by omega, by omega⟩, Nat.mod_eq_of_lt hp]
      · rw [e, h2 i, if_neg (by omega), if_pos hi1]
      · rw [e, h3]; rfl
  · have hl := pad_count_least a h.tell ha
    by_cases h0 : h.tell % a = 0
    · have e : h.pad a p = h := by unfold BlackHoleOutputStream.pad; rw [if_neg (by omega)]
      rw [e, key0 _ h0] at *
      exact ⟨rfl, h0, fun m _ hm => hm, fun _ => rfl⟩
    · have e : h.pad a p = BlackHoleOutputStream.pad_loop p (a - h.tell % a) h := by
        unfold BlackHoleOutputStream.pad; rw [if_pos h0]
      have ht : (h.pad a p).tell = h.tell + (a - h.tell % a) := by
        rw [e, BlackHoleOutputStream.black_hole_pad_loop]; rfl
      rw [key _ h0] at hl ⊢
      exact ⟨ht, by rw [ht]; exact hl.1, fun m hm1 hm2 => by rw [ht]; exact hl.2 m hm1 hm2,
        fun hc => absurd hc h0⟩

/-- The theorem `pad_reaches_alignment` at the alignment 4, the padding byte 9,
a memory stream of three bytes and a black hole stream at position 6. -/
theorem pad_reaches_alignment_witness :
    1 ≤ 4 ∧ 9 < 256 ∧
    (OutputStream.pad ⟨[1, 2, 3], 3⟩ 4 9).tell = 3 + (4 - 3 % 4) % 4 ∧
    (OutputStream.pad ⟨[1, 2, 3], 3⟩ 4 9).backing = [1, 2, 3, 9] ∧
    (BlackHoleOutputStream.pad ⟨6, 6⟩ 4 9).tell = 6 + (4 - 6 % 4) % 4 :=
  ⟨by decide, by decide,
    (pad_reaches_alignment 4 9 (by decide) (by decide) ⟨[1, 2, 3], 3⟩ ⟨6, 6⟩).1.1, rfl,
    (pad_reaches_alignment 4 9 (by decide) (by decide) ⟨[1, 2, 3], 3⟩ ⟨6, 6⟩).2.1⟩

/-! ### The scalar fields of the header (C36) -/

theorem signed_unsigned_32 (x : Int) (h0 : -(2 ^ 31) ≤ x) (h1 : x < 2 ^ 31) :
    to_signed 32 (to_unsigned 32 x) = x := by
  unfold to_signed to_unsigned
  have e : ((2 ^ 32 : Nat) : Int) = 4294967296 := by norm_num
  have e3 : (2 : Nat) ^ 32 = 4294967296 := by norm_num
  have e4 : (2 : Nat) ^ (32 - 1) = 2147483648 := by norm_num
  rw [e, e3, e4]
  split <;> omega

theorem signed_unsigned_16 (x : Int) (h0 : -(2 ^ 15) ≤ x) (h1 : x < 2 ^ 15) :
    to_signed 16 (to_unsigned 16 x) = x := by
  unfold to_signed to_unsigned
  have e : ((2 ^ 16 : Nat) : Int) = 65536 := by norm_num
  have e3 : (2 : Nat) ^ 16 = 65536 := by norm_num
  have e4 : (2 : Nat) ^ (16 - 1) = 32768 := by norm_num
  rw [e, e3, e4]
  split <;> omega

set_option maxRecDepth 100000 in
/-- C36, counterexample: the model without sequences is written without error
and the decoder rejects the result; `scalar_model`, whose `rac1_byte_a` is 5
and whose `rac1_byte_b` is 6, is written for Deadlocked and read back without
error, and both fields of the decoded model are 0. -/
theorem rac1_bytes_not_read_back :
    (∃ b e, write_moby_class example_env [] MobyClassData.empty Game.DL = .ok b ∧
      read_moby_class example_env b Game.DL = .error e) ∧
    (∃ b model, write_moby_class example_env [] scalar_model Game.DL = .ok b ∧
      read_moby_class example_env b Game.DL = .ok model ∧
      scalar_model.rac1_byte_a = 5 ∧ model.rac1_byte_a = 0 ∧
      scalar_model.rac1_byte_b = 6 ∧ model.rac1_byte_b = 0) :=
  ⟨⟨_, _, rfl, rfl⟩, ⟨_, _, rfl, rfl, rfl, rfl, rfl, rfl⟩⟩

/-- C36 (amended): for every model whose scalar fields hold values of their
types and every game for which `write_moby_class` succeeds and
`read_moby_class` succeeds on the written class, `unknown_9`, `lod_trans`,
`shadow`, `scale`, `mip_dist`, `glow_rgba`, `mode_bits`, `type` and
`mode_bits2` are read back unchanged, and for RAC1 so is `rac1_short_2e`;
`rac1_byte_a` and `rac1_byte_b` are read back unchanged when the class is
written in the RAC1 format (for RAC1, and for RAC2 with `force_rac1_format`)
and are read back as 0 in the other formats, which leave them out of the
header. -/
theorem scalar_fields_round_trip (env : Env) (dest : List Nat) (moby : MobyClassData)
    (game : Game) (b : List Nat) (model : MobyClassData)
    (hw : write_moby_class env dest moby game = .ok b)
    (hr : read_moby_class env (b.drop dest.length) game = .ok model)
    (hf : scalar_fields_fit moby) :
    model.unknown_9 = moby.unknown_9 ∧ model.lod_trans = moby.lod_trans ∧
    model.shadow = moby.shadow ∧ model.scale = moby.scale ∧ model.mip_dist = moby.mip_dist ∧
    model.glow_rgba = moby.glow_rgba ∧ model.mode_bits = moby.mode_bits ∧
    model.type = moby.type ∧ model.mode_bits2 = moby.mode_bits2 ∧
    (game = Game.RAC1 → model.rac1_short_2e = moby.rac1_short_2e) ∧
    (write_format game moby.force_rac1_format = MobyFormat.RAC1 →
      model.rac1_byte_a = moby.rac1_byte_a ∧ model.rac1_byte_b = moby.rac1_byte_b) ∧
    (write_format game moby.force_rac1_format ≠ MobyFormat.RAC1 →
      model.rac1_byte_a = 0 ∧ model.rac1_byte_b = 0) := by
  obtain ⟨f1, f2, f3, f4, f5, f6, f7, f8, f9, f10, f11, f12⟩ := hf
  obtain ⟨out, hb, he⟩ := write_moby_class_ok hw
  obtain ⟨_, hcc, q, hq, ho⟩ := write_moby_class_body_ok hb
  obtain ⟨hb1, byte_4, m0, seq_offsets, bangles, corncob, sequences, collision, skeleton,
    common_trans, joints, sound_defs, tables, mystery_data, r1, r2, r3, r4, r5, r6, r7, rc, r8,
    r9, r10, r11, r12, r13, r14, rm⟩ := read_moby_class_ok hr
  obtain ⟨e1, e2⟩ := read_written_header hb he r1 r2
  have hp := parse_written_header out.2.1 moby.byte_4
  rw [← e1] at hp
  have hH : out.2.1 = class_header moby game dest.length (write_class_front env dest moby game)
      (write_class_middle env dest.length (write_class_front env dest moby game).dest moby)
      q := by rw [ho]
  rw [rm, hp]
  simp only [le_value_byte, le_value_le_bytes_four, le_value_le_bytes_two, to_signed_mod]
  rw [hH]
  simp only [class_header]
  have e16 : (2 : Nat) ^ 16 = 65536 := by norm_num
  have e32 : (2 : Nat) ^ 32 = 4294967296 := by norm_num
  refine ⟨Nat.mod_eq_of_lt f1, Nat.mod_eq_of_lt f4, Nat.mod_eq_of_lt f5, Nat.mod_eq_of_lt f6,
    Nat.mod_eq_of_lt f7, signed_unsigned_32 _ f8.1 f8.2, signed_unsigned_16 _ f9.1 f9.2,
    Nat.mod_eq_of_lt f10, Nat.mod_eq_of_lt f11, fun hg => ?_, fun hg => ?_, fun hg => ?_⟩
  · rw [if_pos hg, if_pos hg]
    exact signed_unsigned_16 _ f12.1 f12.2
  · rw [if_pos hg, if_pos hg]
    exact ⟨Nat.mod_eq_of_lt f2, Nat.mod_eq_of_lt f3⟩
  · rw [if_neg hg, if_neg hg]
    exact ⟨rfl, rfl⟩

set_option maxRecDepth 100000 in
/-- The theorem `scalar_fields_round_trip` at `scalar_model`, written for RAC1
to an empty output buffer. -/
theorem scalar_fields_round_trip_witness :
    ∃ b model, write_moby_class example_env [] scalar_model Game.RAC1 = .ok b ∧
      read_moby_class example_env (b.drop ([] : List Nat).length) Game.RAC1 = .ok model ∧
      scalar_fields_fit scalar_model ∧
      model.unknown_9 = scalar_model.unknown_9 ∧ model.rac1_byte_a = scalar_model.rac1_byte_a :=
  have hf : scalar_fields_fit scalar_model := by unfold scalar_fields_fit; decide
  ⟨_, _, rfl, rfl, hf,
    (scalar_fields_round_trip example_env [] scalar_model Game.RAC1 _ _ rfl rfl hf).1,
    ((scalar_fields_round_trip example_env [] scalar_model Game.RAC1 _ _ rfl rfl
      hf).2.2.2.2.2.2.2.2.2.2.1 rfl).1⟩

/-! ### The payloads of a repeated lump (C37) -/

theorem length_second_slot_header : second_slot_header.length = 0xc68 := by
  unfold second_slot_header
  rw [length_write_at, length_write_at, length_write_at, List.length_replicate]

theorem second_slot_header_zero (q : Nat) (h1 : 4 ≤ q) (h2 : q + 8 ≤ 0xc68)
    (h3 : q + 8 ≤ 0x30 ∨ 0x38 ≤ q) (h4 : q + 8 ≤ 0x68 ∨ 0x70 ≤ q) :
    slice second_slot_header q 8 = List.replicate 8 0 := by
  have e : (le_bytes 4 2 ++ le_bytes 4 1).length = 8 := rfl
  have e4 : (le_bytes 4 0xc68).length = 4 := rfl
  unfold second_slot_header
  rw [slice_write_at_disjoint _ _ _ _ _ (by omega), slice_write_at_disjoint _ _ _ _ _ (by omega),
    slice_write_at_disjoint _ _ _ _ _ (by omega), slice_replicate _ _ _ _ h2]

theorem second_slot_header_pair (q : Nat) (h : q = 0x30 ∨ q = 0x68) :
    slice second_slot_header q 8 = le_bytes 4 2 ++ le_bytes 4 1 := by
  have e : (le_bytes 4 2 ++ le_bytes 4 1).length = 8 := rfl
  unfold second_slot_header
  rcases h with rfl | rfl
  · rw [slice_write_at_disjoint _ _ _ _ _ (by omega)]
    exact slice_write_at_self _ _ _ (by rw [length_write_at, List.length_replicate, e]; omega)
  · exact slice_write_at_self _ _ _
      (by rw [length_write_at, length_write_at, List.length_replicate, e]; omega)

theorem second_slot_header_size : slice second_slot_header 0 4 = le_bytes 4 0xc68 := by
  have e : (le_bytes 4 2 ++ le_bytes 4 1).length = 8 := rfl
  have e4 : (le_bytes 4 0xc68).length = 4 := rfl
  unfold second_slot_header
  rw [slice_write_at_disjoint _ _ _ _ _ (by omega), slice_write_at_disjoint _ _ _ _ _ (by omega)]
  exact slice_write_at_self _ _ _ (by rw [List.length_replicate, e4]; omega)

theorem slot_offset_cast (offset i : Nat) :
    ((offset : Int) + (i : Int) * 8) = ((offset + i * 8 : Nat) : Int) := by
  push_cast
  rfl

theorem run_extractor_slots_empty {W : Type} (read : LumpReader W) (file header : List Nat)
    (lump_desc : WadLumpDescription) :
    ∀ (remaining i : Nat) (wad : W),
      (∀ j, i ≤ j → j < i + remaining →
        read_bytes header ((lump_desc.offset : Int) + (j : Int) * 8) 8 "WAD header" =
          .ok (List.replicate 8 0)) →
      run_extractor_slots read file header lump_desc remaining i wad = .ok wad
  | 0, _, _, _ => rfl
  | remaining + 1, i, wad, h => by
    unfold run_extractor_slots
    rw [h i (Nat.le_refl _) (by omega)]
    simp only
    rw [if_neg (by decide)]
    exact run_extractor_slots_empty read file header lump_desc remaining (i + 1) wad
      (fun j h1 h2 => h j (by omega) (by omega))

theorem run_extractor_slots_read {W : Type} (read : LumpReader W) (file header : List Nat)
    (lump_desc : WadLumpDescription) (remaining i : Nat) (wad : W) (b src : List Nat)
    (h1 : read_bytes header ((lump_desc.offset : Int) + (i : Int) * 8) 8 "WAD header" = .ok b)
    (h2 : (SectorRange.parse b).size.sectors ≠ 0)
    (h3 : read_lump file (SectorRange.parse b).offset (SectorRange.parse b).size = .ok src) :
    run_extractor_slots read file header lump_desc (remaining + 1) i wad =
      (read lump_desc wad src).bind
        (fun wad1 => run_extractor_slots read file header lump_desc remaining (i + 1) wad1) := by
  rw [run_extractor_slots, h1]
  simp only
  rw [if_pos h2, h3]
  simp only
  cases read lump_desc wad src <;> rfl

theorem read_second_slot_zero (offset j : Nat) (h1 : 4 ≤ offset + j * 8)
    (h2 : offset + j * 8 + 8 ≤ 0xc68)
    (h3 : offset + j * 8 + 8 ≤ 0x30 ∨ 0x38 ≤ offset + j * 8)
    (h4 : offset + j * 8 + 8 ≤ 0x68 ∨ 0x70 ≤ offset + j * 8) :
    read_bytes second_slot_header ((offset : Int) + (j : Int) * 8) 8 "WAD header" =
      .ok (List.replicate 8 0) := by
  rw [slot_offset_cast]
  have e := read_bytes_eq second_slot_header (offset + j * 8) 8 "WAD header"
    (by rw [length_second_slot_header]; omega)
  rw [second_slot_header_zero _ h1 h2 h3 h4] at e
  exact e

theorem read_second_slot_pair (offset j : Nat)
    (h : offset + j * 8 = 0x30 ∨ offset + j * 8 = 0x68) :
    read_bytes second_slot_header ((offset : Int) + (j : Int) * 8) 8 "WAD header" =
      .ok (le_bytes 4 2 ++ le_bytes 4 1) := by
  rw [slot_offset_cast]
  have e := read_bytes_eq second_slot_header (offset + j * 8) 8 "WAD header"
    (by rw [length_second_slot_header]; omega)
  rw [second_slot_header_pair _ h] at e
  exact e

theorem length_second_slot_archive : second_slot_archive.length = 0x1800 := by
  unfold second_slot_archive second_slot_payload
  rw [List.length_append, List.length_append, length_second_slot_header, List.length_replicate,
    List.length_replicate]

theorem read_second_slot_lump :
    read_lump second_slot_archive (SectorRange.parse (le_bytes 4 2 ++ le_bytes 4 1)).offset
      (SectorRange.parse (le_bytes 4 2 ++ le_bytes 4 1)).size = .ok second_slot_payload := by
  have e : SectorRange.parse (le_bytes 4 2 ++ le_bytes 4 1) =
      ⟨⟨((2 : Nat) : Int)⟩, ⟨((1 : Nat) : Int)⟩⟩ := by decide
  rw [e]
  simp only
  rw [read_lump_ok second_slot_archive 2 1 (by omega) (by rw [length_second_slot_archive])]
  have l : (second_slot_header ++ List.replicate (0x1000 - 0xc68) 0).length = 2 * 0x800 := by
    rw [List.length_append, length_second_slot_header, List.length_replicate]
  have l2 : second_slot_payload.length = 1 * 0x800 := by
    unfold second_slot_payload; rw [List.length_replicate]
  unfold second_slot_archive
  rw [← l, ← l2, slice_append_right]

theorem read_second_slot_archive_header :
    read_header second_slot_archive = .ok second_slot_header := by
  have e : field_s second_slot_archive 0 4 = 0xc68 := by
    have e1 : slice second_slot_archive 0 4 = le_bytes 4 0xc68 := by
      unfold second_slot_archive
      rw [slice_append_left _ _ _ _ (by rw [List.length_append, length_second_slot_header]; omega),
        slice_append_left _ _ _ _ (by rw [length_second_slot_header]; omega),
        second_slot_header_size]
    show to_signed (8 * 4) (le_value (slice second_slot_archive 0 4)) = 0xc68
    rw [e1]
    decide
  unfold read_header
  rw [e, length_second_slot_archive]
  rw [if_neg (by omega), if_neg (by omega), if_neg (by omega), if_neg (by omega)]
  have l : (0xc68 : Int).toNat = second_slot_header.length := by
    rw [length_second_slot_header]; rfl
  unfold second_slot_archive
  rw [l, List.append_assoc, List.take_left]

theorem second_slot_empty_lump {W : Type} (read : LumpReader W) (desc : WadLumpDescription)
    (wad : W)
    (h : ∀ j, j < desc.count → 4 ≤ desc.offset + j * 8 ∧ desc.offset + j * 8 + 8 ≤ 0xc68 ∧
      (desc.offset + j * 8 + 8 ≤ 0x30 ∨ 0x38 ≤ desc.offset + j * 8) ∧
      (desc.offset + j * 8 + 8 ≤ 0x68 ∨ 0x70 ≤ desc.offset + j * 8)) :
    run_extractor_slots read second_slot_archive second_slot_header desc desc.count 0 wad =
      .ok wad :=
  run_extractor_slots_empty read _ _ desc desc.count 0 wad (fun j _ hj =>
    read_second_slot_zero _ _ (h j (by omega)).1 (h j (by omega)).2.1 (h j (by omega)).2.2.1
      (h j (by omega)).2.2.2)

theorem second_slot_lump {W : Type} (read : LumpReader W) (desc : WadLumpDescription)
    (wad : W) (r : Nat) (hc : desc.count = r + 2)
    (ho : desc.offset + 8 = 0x30 ∨ desc.offset + 8 = 0x68)
    (h : ∀ j, j < desc.count → j ≠ 1 →
      4 ≤ desc.offset + j * 8 ∧ desc.offset + j * 8 + 8 ≤ 0xc68 ∧
      (desc.offset + j * 8 + 8 ≤ 0x30 ∨ 0x38 ≤ desc.offset + j * 8) ∧
      (desc.offset + j * 8 + 8 ≤ 0x68 ∨ 0x70 ≤ desc.offset + j * 8)) :
    run_extractor_slots read second_slot_archive second_slot_header desc desc.count 0 wad =
      read desc wad second_slot_payload := by
  have h0 := h 0 (by omega) (by omega)
  rw [hc, run_extractor_slots, read_second_slot_zero _ _ h0.1 h0.2.1 h0.2.2.1 h0.2.2.2]
  simp only
  rw [if_neg (by decide), run_extractor_slots_read read _ _ desc r 1 wad _ _
    (read_second_slot_pair _ _ (by omega)) (by decide) read_second_slot_lump]
  cases read desc wad second_slot_payload with
  | error e => rfl
  | ok wad1 =>
    exact run_extractor_slots_empty read _ _ desc r 2 wad1 (fun j h1 h2 =>
      read_second_slot_zero _ _ (h j (by omega) (by omega)).1 (h j (by omega) (by omega)).2.1
        (h j (by omega) (by omega)).2.2.1 (h j (by omega) (by omega)).2.2.2)

theorem run_extractor_lumps_cons {W : Type} (read : LumpReader W) (file header : List Nat)
    (desc : WadLumpDescription) (rest : List WadLumpDescription) (wad : W)
    (r : Except String W)
    (h : run_extractor_slots read file header desc desc.count 0 wad = r) :
    run_extractor_lumps read file header (desc :: rest) wad =
      r.bind (fun wad1 => run_extractor_lumps read file header rest wad1) := by
  rw [run_extractor_lumps, h]
  cases r <;> rfl

theorem run_extractor_lumps_cons_ok {W : Type} (read : LumpReader W) (file header : List Nat)
    (desc : WadLumpDescription) (rest : List WadLumpDescription) (wad wad1 : W)
    (h : run_extractor_slots read file header desc desc.count 0 wad = .ok wad1) :
    run_extractor_lumps read file header (desc :: rest) wad =
      run_extractor_lumps read file header rest wad1 := by
  rw [run_extractor_lumps, h]

theorem except_bind_ok {ε α β : Type} (a : α) (f : α → Except ε β) :
    Except.bind (Except.ok a) f = f a :=
  rfl

theorem lf_read_mission_instances {G : Type} (codec : GameplayCodec G) (offset count : Nat)
    (name : String) (wad : LevelWad G) (src : List Nat) :
    lf_read codec ⟨offset, count, LumpKind.GameplayMissionInstancesLump, name⟩ wad src =
      (codec.read_gameplay_mission_instances codec.create src).bind (fun g =>
        .ok ⟨wad.binary_assets, wad.gameplay, wad.gameplay_mission_instances ++ [g]⟩) := by
  show (GameplayMissionInstancesLump.read codec wad.gameplay_mission_instances src).bind _ = _
  unfold GameplayMissionInstancesLump.read
  cases codec.read_gameplay_mission_instances codec.create src <;> rfl

/-- C37, the code at the failing input: in the level archive
`second_slot_archive` the slots 0 of the "chunk" and the
"gameplay_mission_instances" lumps are empty and the slots 1 hold a payload.
After `run_extractor` the payload of slot 1 is element 0 of the buffers of
"chunk" and its mission instances are element 0 of
`gameplay_mission_instances`; there is no element 1, so
`GameplayMissionInstancesLump::write` with index 1 throws and with index 0
serialises the instances read from slot 1. -/
theorem second_slot_read_as_first {G : Type} (codec : GameplayCodec G) :
    Except.map (fun wad => (wad.binary_assets "chunk", wad.gameplay_mission_instances))
        (run_extractor (lf_read codec) (LevelWad.create codec) second_slot_archive) =
      Except.map (fun g => (some ⟨true, [second_slot_payload]⟩, [g]))
        (codec.read_gameplay_mission_instances codec.create second_slot_payload) ∧
    ∀ g : G,
      GameplayMissionInstancesLump.write codec 1 [g] = .error "std::out_of_range" ∧
      GameplayMissionInstancesLump.write codec 0 [g] =
        .ok (codec.write_gameplay_mission_instances g) := by
  refine ⟨?_, fun g => ⟨rfl, rfl⟩⟩
  have hm : match_wad second_slot_header = .ok
      ⟨"level", 0xc68,
        [⟨0x018, 1, LumpKind.BinaryLump, "data"⟩,
         ⟨0x020, 1, LumpKind.BinaryLump, "core_bank"⟩,
         ⟨0x028, 3, LumpKind.BinaryLump, "chunk"⟩,
         ⟨0x040, 3, LumpKind.BinaryLump, "chunkbank"⟩,
         ⟨0x058, 1, LumpKind.GameplayLump, "gameplay_core"⟩,
         ⟨0x060, 128, LumpKind.GameplayMissionInstancesLump, "gameplay_mission_instances"⟩,
         ⟨0x460, 128, LumpKind.BinaryLump, "gameplay_mission_data"⟩,
         ⟨0x860, 128, LumpKind.BinaryLump, "mission_banks"⟩,
         ⟨0xc60, 1, LumpKind.ArtInstancesLump, "art_instances"⟩]⟩ := by
    unfold match_wad
    rw [length_second_slot_header]
    rfl
  unfold run_extractor
  rw [read_second_slot_archive_header]
  simp only [bind, Except.bind, hm]
  rw [run_extractor_lumps_cons_ok _ _ _ _ _ _ _ (second_slot_empty_lump (lf_read codec)
      ⟨0x018, 1, LumpKind.BinaryLump, "data"⟩ _ (fun j hj => by simp only at hj ⊢; omega)),
    run_extractor_lumps_cons_ok _ _ _ _ _ _ _ (second_slot_empty_lump (lf_read codec)
      ⟨0x020, 1, LumpKind.BinaryLump, "core_bank"⟩ _ (fun j hj => by simp only at hj ⊢; omega)),
    run_extractor_lumps_cons _ _ _ _ _ _ _ (second_slot_lump (lf_read codec)
      ⟨0x028, 3, LumpKind.BinaryLump, "chunk"⟩ _ 1 rfl (Or.inl rfl)
      (fun j hj hn => by simp only at hj ⊢; omega))]
  have hc : lf_read codec ⟨0x028, 3, LumpKind.BinaryLump, "chunk"⟩ (LevelWad.create codec)
      second_slot_payload =
      .ok ⟨BinaryLump.read ⟨0x028, 3, LumpKind.BinaryLump, "chunk"⟩ (fun _ => none)
        second_slot_payload, codec.create, []⟩ := rfl
  rw [hc, except_bind_ok]
  rw [run_extractor_lumps_cons_ok _ _ _ _ _ _ _ (second_slot_empty_lump (lf_read codec)
      ⟨0x040, 3, LumpKind.BinaryLump, "chunkbank"⟩ _ (fun j hj => by simp only at hj ⊢; omega)),
    run_extractor_lumps_cons_ok _ _ _ _ _ _ _ (second_slot_empty_lump (lf_read codec)
      ⟨0x058, 1, LumpKind.GameplayLump, "gameplay_core"⟩ _
      (fun j hj => by simp only at hj ⊢; omega)),
    run_extractor_lumps_cons _ _ _ _ _ _ _ (second_slot_lump (lf_read codec)
      ⟨0x060, 128, LumpKind.GameplayMissionInstancesLump, "gameplay_mission_instances"⟩ _ 126
      rfl (Or.inr rfl) (fun j hj hn => by simp only at hj ⊢; omega))]
  rw [lf_read_mission_instances]
  cases codec.read_gameplay_mission_instances codec.create second_slot_payload with
  | error e => rfl
  | ok g =>
    rw [except_bind_ok, except_bind_ok]
    rw [run_extractor_lumps_cons_ok _ _ _ _ _ _ _ (second_slot_empty_lump (lf_read codec)
        ⟨0x460, 128, LumpKind.BinaryLump, "gameplay_mission_data"⟩ _
        (fun j hj => by simp only at hj ⊢; omega)),
      run_extractor_lumps_cons_ok _ _ _ _ _ _ _ (second_slot_empty_lump (lf_read codec)
        ⟨0x860, 128, LumpKind.BinaryLump, "mission_banks"⟩ _
        (fun j hj => by simp only at hj ⊢; omega)),
      run_extractor_lumps_cons_ok _ _ _ _ _ _ _ (second_slot_empty_lump (lf_read codec)
        ⟨0xc60, 1, LumpKind.ArtInstancesLump, "art_instances"⟩ _
        (fun j hj => by simp only at hj ⊢; omega))]
    rfl

/-! ### The collision block (C35) -/

theorem slice_head (l : List Nat) (n o w : Nat) (h : o + w ≤ n) :
    ((slice l 0 n).drop o).take w = slice l o w := by
  have e := slice_slice l 0 n o w h
  rw [Nat.zero_add] at e
  exact e

theorem read_moby_collision_eq (src : List Nat) (f s t : Nat)
    (hf : collision_first_part_size src = f) (hs : collision_second_part_size src = s)
    (ht : collision_third_part_size src = t) (hb : 0x10 + f + s + t ≤ src.length) :
    read_moby_collision src =
      if s % 8 ≠ 0 then .error "Bad moby collision."
      else .ok
        { unknown_0 := le_value (slice src 0 2), unknown_2 := le_value (slice src 2 2),
          first_part := slice src 0x10 f,
          second_part := (List.range (s / 8)).map
            (fun i => collision_vector src (0x10 + f + 8 * i)),
          third_part := slice src (0x10 + f + s) t } := by
  unfold read_moby_collision
  have e0 : read_bytes src 0 0x10 "moby collision header" = .ok (slice src 0 0x10) :=
    read_bytes_eq src 0 0x10 _ (by omega)
  rw [e0]
  simp only [bind, Except.bind]
  have a1 : (List.drop 4 (slice src 0 16)).take 4 = slice src 4 4 := slice_head src 16 4 4 (by omega)
  have a2 : (List.drop 8 (slice src 0 16)).take 4 = slice src 8 4 := slice_head src 16 8 4 (by omega)
  have a3 : (List.drop 12 (slice src 0 16)).take 4 = slice src 12 4 := slice_head src 16 12 4 (by omega)
  have a4 : (List.drop 2 (slice src 0 16)).take 2 = slice src 2 2 := slice_head src 16 2 2 (by omega)
  have a5 : (slice src 0 16).take 2 = slice src 0 2 := slice_head src 16 0 2 (by omega)
  unfold collision_first_part_size at hf
  unfold collision_second_part_size at hs
  unfold collision_third_part_size at ht
  rw [a1, a2, a3, a4, a5, hf, hs, ht]
  have e1 : read_bytes src 0x10 (f : Int) "moby collision data" = .ok (slice src 0x10 f) :=
    read_bytes_eq src 0x10 f _ (by omega)
  rw [e1]
  simp only
  have c8 : ((s : Int) % 8 ≠ 0) ↔ s % 8 ≠ 0 := by omega
  by_cases h8 : s % 8 ≠ 0
  · rw [if_pos (c8.mpr h8), if_pos h8]
  · rw [if_neg (fun h => h8 (c8.mp h)), if_neg h8]
    have e2 : read_multiple src 2 (0x10 + (f : Int)) ((s : Int) / 2)
        "moby collision second part" = .ok (chunks 2 (s / 2) (slice src (0x10 + f) (s / 2 * 2))) := by
      have := read_multiple_eq src 2 (0x10 + f) (s / 2) "moby collision second part" (by omega)
      rw [← this]
      congr 1
    rw [e2]
    simp only
    have e3 : read_bytes src (0x10 + (f : Int) + (s : Int)) (t : Int)
        "moby collision third part" = .ok (slice src (0x10 + f + s) t) := by
      have := read_bytes_eq src (0x10 + f + s) t "moby collision third part" (by omega)
      rw [← this]
      congr 1
    rw [e3]
    simp only [pure, Except.pure, chunks_length]
    congr 2
    have e4 : s / 2 / 4 = s / 8 := by omega
    rw [e4]
    apply List.map_congr_left
    intro i hi
    rw [List.mem_range] at hi
    unfold collision_vector
    rw [chunks_getD _ _ _ _ (by omega), chunks_getD _ _ _ _ (by omega),
      chunks_getD _ _ _ _ (by omega)]
    have k : ∀ j, j < s / 2 → ((slice src (0x10 + f) (s / 2 * 2)).drop (2 * j)).take 2 =
        slice src (0x10 + f + 2 * j) 2 := fun j hj => slice_slice src _ _ _ _ (by omega)
    rw [k _ (by omega), k _ (by omega), k _ (by omega)]
    have q1 : 0x10 + f + 2 * (i * 4 + 0) = 0x10 + f + 8 * i := by omega
    have q2 : 0x10 + f + 2 * (i * 4 + 1) = 0x10 + f + 8 * i + 2 := by omega
    have q3 : 0x10 + f + 2 * (i * 4 + 2) = 0x10 + f + 8 * i + 4 := by omega
    rw [q1, q2, q3]

theorem to_signed_32_size (v : Nat) (h : v < 2 ^ 31) :
    to_signed 32 (le_value (le_bytes 4 v)) = (v : Int) := by
  rw [le_value_le_bytes_four, to_signed_mod]
  unfold to_signed
  have e3 : (2 : Nat) ^ 32 = 4294967296 := by norm_num
  have e4 : (2 : Nat) ^ (32 - 1) = 2147483648 := by norm_num
  have e5 : (2 : Nat) ^ 31 = 2147483648 := by norm_num
  rw [e3, e4]
  rw [e5] at h
  rw [Nat.mod_eq_of_lt (by omega), if_pos h]

theorem map_mod_self (l : List Nat) (h : ∀ x ∈ l, x < 256) : l.map (fun b => b % 256) = l := by
  induction l with
  | nil => rfl
  | cons x t ih =>
    rw [List.map_cons, Nat.mod_eq_of_lt (h x (List.mem_cons_self _ _)),
      ih (fun y hy => h y (List.mem_cons_of_mem _ hy))]

theorem length_collision_vectors (l : List Vec3f) :
    ((l.map (fun v => le_bytes 2 (to_unsigned 16 v.x) ++ le_bytes 2 (to_unsigned 16 v.y) ++
      le_bytes 2 (to_unsigned 16 v.z) ++ le_bytes 2 0)).flatten).length = l.length * 8 := by
  induction l with
  | nil => rfl
  | cons v t ih =>
    simp only [List.map_cons, List.flatten_cons, List.length_append, length_le_bytes, ih,
      List.length_cons]
    omega

/-- The collision block `write_moby_collision` appends, and its decoding. -/
theorem written_collision_read (dest : List Nat) (c : MobyCollision) (hc : collision_fits c) :
    ∃ second : List Vec3f,
      read_moby_collision ((write_moby_collision dest c).1.drop (write_moby_collision dest c).2) =
        .ok ⟨c.unknown_0, c.unknown_2, c.first_part, second, c.third_part⟩ ∧
      second.length = c.second_part.length ∧
      (write_moby_collision dest c).1.length - (write_moby_collision dest c).2 =
        0x10 + c.first_part.length + 8 * c.second_part.length + c.third_part.length := by
  obtain ⟨c1, c2, c3, c4, c5, c6, c7⟩ := hc
  have e16 : (2 : Nat) ^ 16 = 65536 := by norm_num
  unfold write_moby_collision
  simp only
  rw [map_mod_self _ c3, map_mod_self _ c4]
  have ls := length_collision_vectors c.second_part
  generalize (c.second_part.map (fun v => le_bytes 2 (to_unsigned 16 v.x) ++
    le_bytes 2 (to_unsigned 16 v.y) ++ le_bytes 2 (to_unsigned 16 v.z) ++
    le_bytes 2 0)).flatten = S at ls ⊢
  obtain ⟨H, hH⟩ : ∃ H, H = le_bytes 2 c.unknown_0 ++ le_bytes 2 c.unknown_2 ++
    le_bytes 4 c.first_part.length ++ le_bytes 4 c.third_part.length ++
    le_bytes 4 (c.second_part.length * 8) := ⟨_, rfl⟩
  rw [← hH]
  have lH : H.length = 16 := by rw [hH]; rfl
  have ea : pad dest 16 ++ H ++ c.first_part ++ S ++ c.third_part =
      pad dest 16 ++ (H ++ c.first_part ++ S ++ c.third_part) := by
    simp only [List.append_assoc]
  rw [ea, List.drop_left]
  have eb : H ++ c.first_part ++ S ++ c.third_part = H ++ (c.first_part ++ S ++ c.third_part) := by
    simp only [List.append_assoc]
  have hh : ∀ o w, o + w ≤ 16 →
      slice (H ++ c.first_part ++ S ++ c.third_part) o w = slice H o w := fun o w h => by
    rw [eb, slice_append_left _ _ _ _ (by omega)]
  have f1 : collision_first_part_size (H ++ c.first_part ++ S ++ c.third_part) =
      (c.first_part.length : Nat) := by
    unfold collision_first_part_size
    rw [hh 4 4 (by omega), ← to_signed_32_size _ c5, hH]
    rfl
  have f2 : collision_second_part_size (H ++ c.first_part ++ S ++ c.third_part) =
      (c.second_part.length * 8 : Nat) := by
    unfold collision_second_part_size
    rw [hh 0xc 4 (by omega), ← to_signed_32_size _ c7, hH]
    rfl
  have f3 : collision_third_part_size (H ++ c.first_part ++ S ++ c.third_part) =
      (c.third_part.length : Nat) := by
    unfold collision_third_part_size
    rw [hh 8 4 (by omega), ← to_signed_32_size _ c6, hH]
    rfl
  have hr := read_moby_collision_eq _ _ _ _ f1 f2 f3
    (by simp only [List.length_append]; omega)
  rw [if_neg (by omega)] at hr
  refine ⟨List.map (fun i => collision_vector (H ++ c.first_part ++ S ++ c.third_part)
    (16 + c.first_part.length + 8 * i)) (List.range (c.second_part.length * 8 / 8)), ?_, ?_, ?_⟩
  · rw [hr]
    congr 2
    · rw [hh 0 2 (by omega), hH]
      show le_value (le_bytes 2 c.unknown_0) = _
      rw [le_value_le_bytes_two, Nat.mod_eq_of_lt (by omega)]
    · rw [hh 2 2 (by omega), hH]
      show le_value (le_bytes 2 c.unknown_2) = _
      rw [le_value_le_bytes_two, Nat.mod_eq_of_lt (by omega)]
    · rw [List.append_assoc, List.append_assoc, ← lH, slice_append_right_of _ _ _ _ (le_refl _),
        Nat.sub_self, slice_append_left _ _ _ _ (by omega)]
      exact slice_self _
    · have l3 : (H ++ c.first_part ++ S).length = 16 + c.first_part.length +
          c.second_part.length * 8 := by
        simp only [List.length_append]; omega
      rw [← l3]
      exact slice_append_right _ _
  · rw [List.length_map, List.length_range]
    omega
  · simp only [List.length_append]
    omega

/-- C35: when the three parts the collision header announces lie inside the
buffer, `read_moby_collision` fails exactly when `second_part_size` is not a
multiple of 8, and otherwise it returns `second_part_size / 8` vectors, the
vector `i` made of the first three of the four 16 bit values at
`0x10 + first_part_size + 8 * i`.  For a collision whose members hold values
of their types and whose sizes fit the header, decoding the block
`write_moby_collision` writes gives the same `unknown_0`, `unknown_2`,
`first_part` and `third_part` and as many vectors; the block is
`0x10 + |first_part| + 8 * |second_part| + |third_part|` bytes long, which is
the size lines 101-102 of `read_moby_class` compute from the decoded block. -/
theorem collision_read_and_round_trip (src dest : List Nat) (c : MobyCollision)
    (hsrc : collision_parts_in_bounds src) (hc : collision_fits c) :
    ((∃ e, read_moby_collision src = .error e) ↔ collision_second_part_size src % 8 ≠ 0) ∧
    (collision_second_part_size src % 8 = 0 →
      ∃ d, read_moby_collision src = .ok d ∧
        (d.second_part.length : Int) = collision_second_part_size src / 8 ∧
        ∀ i, i < d.second_part.length → d.second_part[i]? =
          some (collision_vector src (0x10 + (collision_first_part_size src).toNat + 8 * i))) ∧
    ∃ d, read_moby_collision
        ((write_moby_collision dest c).1.drop (write_moby_collision dest c).2) = .ok d ∧
      d.unknown_0 = c.unknown_0 ∧ d.unknown_2 = c.unknown_2 ∧ d.first_part = c.first_part ∧
      d.third_part = c.third_part ∧ d.second_part.length = c.second_part.length ∧
      (write_moby_collision dest c).1.length - (write_moby_collision dest c).2 =
        0x10 + c.first_part.length + 8 * c.second_part.length + c.third_part.length ∧
      ∀ (header : MobyClassHeader) (mystery_data_ofs : Int),
        mystery_after_collision header (some d) mystery_data_ofs =
          max mystery_data_ofs (header.collision +
            (((write_moby_collision dest c).1.length - (write_moby_collision dest c).2 : Nat) :
              Int)) := by
  obtain ⟨s1, s2, s3, s4⟩ := hsrc
  obtain ⟨f, hf⟩ := Int.eq_ofNat_of_zero_le s1
  obtain ⟨s, hs⟩ := Int.eq_ofNat_of_zero_le s2
  obtain ⟨t, ht⟩ := Int.eq_ofNat_of_zero_le s3
  have hr := read_moby_collision_eq src f s t hf hs ht (by omega)
  have c8 : ((s : Int) % 8 ≠ 0) ↔ s % 8 ≠ 0 := by omega
  refine ⟨?_, ?_, ?_⟩
  · rw [hs, c8]
    constructor
    · rintro ⟨e, he⟩
      rw [hr] at he
      by_cases h : s % 8 ≠ 0
      · exact h
      · rw [if_neg h] at he
        cases he
    · intro h8
      rw [hr, if_pos h8]
      exact ⟨_, rfl⟩
  · intro h8
    rw [hs] at h8
    rw [hr, if_neg (by omega)]
    refine ⟨_, rfl, ?_, fun i hi => ?_⟩
    · simp only [List.length_map, List.length_range]
      rw [hs]
      omega
    · simp only [List.length_map, List.length_range] at hi
      simp only [List.getElem?_map, List.getElem?_range hi, Option.map_some']
      rw [hf]
      rfl
  · obtain ⟨second, h1, h2, h3⟩ := written_collision_read dest c hc
    refine ⟨_, h1, rfl, rfl, rfl, rfl, h2, h3, fun header m => ?_⟩
    unfold mystery_after_collision
    simp only
    rw [h2, h3]
    congr 2
    push_cast
    ring

/-- The theorem `collision_read_and_round_trip` at `sample_collision_block`
and at `sample_collision`, written to an empty output buffer. -/
theorem collision_read_and_round_trip_witness :
    collision_parts_in_bounds sample_collision_block ∧ collision_fits sample_collision ∧
    read_moby_collision sample_collision_block = .ok ⟨1, 2, [], [⟨1, 2, 3⟩], []⟩ ∧
    ∃ d, read_moby_collision ((write_moby_collision [] sample_collision).1.drop
        (write_moby_collision [] sample_collision).2) = .ok d ∧
      d.unknown_0 = sample_collision.unknown_0 ∧ d.unknown_2 = sample_collision.unknown_2 ∧
      d.first_part = sample_collision.first_part :=
  have h1 : collision_parts_in_bounds sample_collision_block := by
    unfold collision_parts_in_bounds; decide
  have h2 : collision_fits sample_collision := by unfold collision_fits; decide
  have h := (collision_read_and_round_trip sample_collision_block [] sample_collision h1 h2).2.2
  ⟨h1, h2, rfl, h.elim (fun d hd => ⟨d, hd.1, hd.2.1, hd.2.2.1, hd.2.2.2.1⟩)⟩

/-! ### The joint lists (C34) -/

theorem slice_eq_of_agree (r d : List Nat) (a w : Nat)
    (h : ∀ i, a ≤ i → i < a + w → r[i]? = d[i]?) : slice r a w = slice d a w := by
  unfold slice
  apply List.ext_getElem?
  intro i
  rw [List.getElem?_take, List.getElem?_take]
  split
  · rw [List.getElem?_drop, List.getElem?_drop]
    exact h _ (by omega) (by omega)
  · rfl

theorem length_pad_mod (d : List Nat) (a : Nat) (ha : 0 < a) : (pad d a).length % a = 0 := by
  rw [length_pad_eq]
  exact (pad_count_least a d.length ha).1

theorem write_moby_joint_lists_spec (class_header_ofs : Nat) :
    ∀ (joints : List (List Nat)) (dest : List Nat) (ofs : Nat),
      ofs + 4 * joints.length ≤ dest.length →
      dest.length ≤ (write_moby_joint_lists class_header_ofs joints dest ofs).length ∧
      (∀ i, i < dest.length → (i < ofs ∨ ofs + 4 * joints.length ≤ i) →
        (write_moby_joint_lists class_header_ofs joints dest ofs)[i]? = dest[i]?) ∧
      ∃ positions : List Nat, positions.length = joints.length ∧
        ∀ k, k < joints.length →
          dest.length ≤ positions.getD k 0 ∧ positions.getD k 0 % 4 = 0 ∧
          positions.getD k 0 + (joints.getD k []).length + 1 ≤
            (write_moby_joint_lists class_header_ofs joints dest ofs).length ∧
          slice (write_moby_joint_lists class_header_ofs joints dest ofs) (ofs + 4 * k) 4 =
            le_bytes 4 (to_unsigned 32 ((positions.getD k 0 : Int) - class_header_ofs)) ∧
          slice (write_moby_joint_lists class_header_ofs joints dest ofs) (positions.getD k 0)
            ((joints.getD k []).length + 1) =
            (joints.getD k []).map (fun b => b % 256) ++ [0xff] := by
  intro joints
  induction joints with
  | nil =>
    intro dest ofs _
    exact ⟨le_refl _, fun _ _ _ => rfl, [], rfl, fun k hk => absurd hk (by simp)⟩
  | cons jl rest ih =>
    intro dest ofs ho
    rw [List.length_cons] at ho
    unfold write_moby_joint_lists
    simp only
    obtain ⟨d0, hd0⟩ : ∃ d0, d0 = pad dest 0x4 := ⟨_, rfl⟩
    rw [← hd0]
    have l0 : dest.length ≤ d0.length := by rw [hd0]; exact length_pad _ _
    have m0 : d0.length % 4 = 0 := by rw [hd0]; exact length_pad_mod _ _ (by omega)
    generalize hE : le_bytes 4 (to_unsigned 32 ((d0.length : Int) - class_header_ofs)) = E
    have lE : E.length = 4 := by rw [← hE, length_le_bytes]
    obtain ⟨d1, hd1⟩ : ∃ d1, d1 = write_at d0 ofs E := ⟨_, rfl⟩
    rw [← hd1]
    have l1 : d1.length = d0.length := by rw [hd1, length_write_at]
    obtain ⟨d2, hd2⟩ : ∃ d2, d2 = d1 ++ jl.map (fun b => b % 256) ++ [0xff] := ⟨_, rfl⟩
    rw [← hd2]
    have l2 : d2.length = d1.length + jl.length + 1 := by
      rw [hd2]; simp only [List.length_append, List.length_map, List.length_singleton]
    obtain ⟨a, b, positions, c1, c2⟩ := ih d2 (ofs + 4) (by omega)
    have g2 : ∀ i, i < d1.length → d2[i]? = d1[i]? := fun i hi => by
      rw [hd2, List.append_assoc, List.getElem?_append_left hi]
    have g1 : ∀ i, (i < ofs ∨ ofs + 4 ≤ i) → d1[i]? = d0[i]? := fun i hi => by
      rw [hd1, getElem?_write_at, if_neg (by omega)]
    have g0 : ∀ i, i < dest.length → d0[i]? = dest[i]? := fun i hi => by
      rw [hd0]; unfold pad; rw [List.getElem?_append_left hi]
    refine ⟨by omega, fun i hi hr => ?_, d0.length :: positions, by
      rw [List.length_cons, List.length_cons, c1], fun k hk => ?_⟩
    · rw [List.length_cons] at hr
      rw [b i (by omega) (by omega), g2 i (by omega), g1 i (by omega), g0 i hi]
    · cases k with
      | zero =>
        simp only [List.getD_cons_zero]
        refine ⟨l0, m0, by omega, ?_, ?_⟩
        · show slice _ ofs 4 = _
          rw [hE, slice_eq_of_agree _ d1 ofs 4 (fun i h1 h2 => by
            rw [b i (by omega) (by omega), g2 i (by omega)]), hd1, ← lE]
          exact slice_write_at_self _ _ _ (by omega)
        · rw [slice_eq_of_agree _ d2 d0.length (jl.length + 1) (fun i h1 h2 =>
            b i (by omega) (by omega)), hd2, List.append_assoc, ← l1]
          have e : jl.length + 1 = (jl.map (fun b => b % 256) ++ [0xff]).length := by
            simp only [List.length_append, List.length_map, List.length_singleton]
          rw [e]
          exact slice_append_right _ _
      | succ k =>
        rw [List.length_cons] at hk
        obtain ⟨q1, q2, q3, q4, q5⟩ := c2 k (by omega)
        simp only [List.getD_cons_succ]
        refine ⟨by omega, q2, q3, ?_, q5⟩
        rw [← q4]
        congr 1
        omega

theorem slice_cons_split (src : List Nat) (o n a : Nat) (rest : List Nat)
    (h : slice src o (n + 1) = a :: rest) (hl : rest.length = n) :
    slice src o 1 = [a] ∧ slice src (o + 1) n = rest := by
  have h1 := slice_slice src o (n + 1) 0 1 (by omega)
  have h2 := slice_slice src o (n + 1) 1 n (by omega)
  rw [h] at h1 h2
  rw [Nat.add_zero] at h1
  rw [← h1, ← h2]
  constructor
  · rfl
  · unfold slice
    rw [List.drop_one, List.tail_cons, ← hl, List.take_length]

theorem read_moby_joint_list_eq (src : List Nat) :
    ∀ (l : List Nat) (fuel o : Nat), l.length < fuel → o + l.length + 1 ≤ src.length →
      slice src o (l.length + 1) = l.map (fun b => b % 256) ++ [0xff] →
      read_moby_joint_list src fuel (o : Int) =
        .ok ((l.map (fun b => b % 256)).takeWhile (fun x => x != 0xff)) := by
  intro l
  induction l with
  | nil =>
    intro fuel o hf hb hs
    obtain ⟨f, rfl⟩ : ∃ f, fuel = f + 1 := ⟨fuel - 1, by simp at hf; omega⟩
    unfold read_moby_joint_list
    rw [read_uint_eq src 1 o _ (by omega)]
    have e : slice src o 1 = [0xff] := hs
    rw [e]
    rfl
  | cons x t ih =>
    intro fuel o hf hb hs
    rw [List.length_cons] at hf hb hs
    obtain ⟨f, rfl⟩ : ∃ f, fuel = f + 1 := ⟨fuel - 1, by omega⟩
    rw [List.map_cons, List.cons_append] at hs
    obtain ⟨s1, s2⟩ := slice_cons_split src o (t.length + 1) _ _ hs (by simp)
    unfold read_moby_joint_list
    rw [read_uint_eq src 1 o _ (by omega), s1, le_value_byte]
    simp only
    have e := ih f (o + 1) (by omega) (by omega) s2
    have ec : ((o : Int) + 1) = ((o + 1 : Nat) : Int) := by push_cast; rfl
    rw [ec, e, List.map_cons, List.takeWhile_cons]
    by_cases hx : x % 256 = 0xff
    · rw [if_pos hx, hx]
      rfl
    · rw [if_neg hx]
      have : (x % 256 != 0xff) = true := by simpa using hx
      rw [this]
      rfl

theorem read_moby_joint_lists_eq (src : List Nat) (joints_ofs : Int) (n : Nat)
    (f : Nat → List Nat)
    (h : ∀ k, k < n → ∃ o : Int,
      read_sint src 4 (joints_ofs + ((k : Int) + 1) * 4) "joint list" = .ok o ∧
      read_moby_joint_list src (src.length + 1) o = .ok (f k)) :
    ∀ indices : List Nat, (∀ i ∈ indices, i < n) →
      read_moby_joint_lists src joints_ofs indices = .ok (indices.map f) := by
  intro indices
  induction indices with
  | nil => intro _; rfl
  | cons i rest ih =>
    intro hi
    obtain ⟨o, h1, h2⟩ := h i (hi i (List.mem_cons_self _ _))
    unfold read_moby_joint_lists
    rw [h1]
    simp only
    rw [h2]
    simp only
    rw [ih (fun j hj => hi j (List.mem_cons_of_mem _ hj))]
    rfl

theorem map_range_getD (J : List (List Nat)) (g : List Nat → List Nat) :
    (List.range J.length).map (fun i => g (J.getD i [])) = J.map g := by
  apply List.ext_getElem?
  intro i
  rw [List.getElem?_map, List.getElem?_map]
  by_cases hi : i < J.length
  · rw [List.getElem?_range hi, List.getElem?_eq_getElem hi]
    simp only [Option.map_some', List.getD_eq_getElem?_getD, List.getElem?_eq_getElem hi,
      Option.getD_some]
  · rw [List.getElem?_eq_none (by simp; omega), List.getElem?_eq_none (by omega)]
    rfl

theorem takeWhile_no_terminator (l : List Nat) (h : 0xff ∉ l) :
    l.takeWhile (fun x => x != 0xff) = l := by
  induction l with
  | nil => rfl
  | cons x t ih =>
    have hx : x ≠ 0xff := fun e => h (e ▸ List.mem_cons_self _ _)
    have : (x != 0xff) = true := by simpa using hx
    rw [List.takeWhile_cons, this, ih (fun m => h (List.mem_cons_of_mem _ m))]
    rfl

/-- C34: for joint lists of bytes written at `class_header_ofs` into a class
shorter than 2^31 bytes, `read_moby_joints` applied to the output of
`write_moby_joints` returns every list cut before its first 0xff, in the same
order; so lists without the value 0xff are returned as they are.  The block
begins at a multiple of 0x10 with the count of the lists and one offset per
list; each list is stored at a multiple of 4, followed by a byte 0xff. -/
theorem joints_round_trip (class_header_ofs : Nat) (dest : List Nat) (joints : List (List Nat))
    (hc : class_header_ofs ≤ dest.length) (hb : ∀ l ∈ joints, ∀ x ∈ l, x < 256)
    (hs : (write_moby_joints class_header_ofs dest joints).1.length - class_header_ofs <
      2 ^ 31) :
    read_moby_joints ((write_moby_joints class_header_ofs dest joints).1.drop class_header_ofs)
        (((write_moby_joints class_header_ofs dest joints).2 - class_header_ofs : Nat) : Int) =
      .ok (joints.map (fun l => l.takeWhile (fun x => x != 0xff))) ∧
    ((∀ l ∈ joints, 0xff ∉ l) →
      read_moby_joints ((write_moby_joints class_header_ofs dest joints).1.drop class_header_ofs)
        (((write_moby_joints class_header_ofs dest joints).2 - class_header_ofs : Nat) : Int) =
        .ok joints) ∧
    (write_moby_joints class_header_ofs dest joints).2 % 0x10 = 0 ∧
    slice (write_moby_joints class_header_ofs dest joints).1
      (write_moby_joints class_header_ofs dest joints).2 4 = le_bytes 4 joints.length ∧
    ∃ positions : List Nat, positions.length = joints.length ∧
      ∀ k, k < joints.length →
        positions.getD k 0 % 4 = 0 ∧
        slice (write_moby_joints class_header_ofs dest joints).1
          ((write_moby_joints class_header_ofs dest joints).2 + 4 + 4 * k) 4 =
          le_bytes 4 (to_unsigned 32 ((positions.getD k 0 : Int) - class_header_ofs)) ∧
        slice (write_moby_joints class_header_ofs dest joints).1 (positions.getD k 0)
          ((joints.getD k []).length + 1) = joints.getD k [] ++ [0xff] := by
  have e31 : (2 : Nat) ^ 31 = 2147483648 := by norm_num
  have e31i : (2 : Int) ^ 31 = 2147483648 := by norm_num
  rw [e31] at hs
  unfold write_moby_joints at hs ⊢
  simp only at hs ⊢
  obtain ⟨d0, hd0⟩ : ∃ d0, d0 = pad dest 0x10 := ⟨_, rfl⟩
  rw [← hd0] at hs ⊢
  have l0 : dest.length ≤ d0.length := by rw [hd0]; exact length_pad _ _
  have m0 : d0.length % 0x10 = 0 := by rw [hd0]; exact length_pad_mod _ _ (by omega)
  have lc : (le_bytes 4 joints.length).length = 4 := length_le_bytes _ _
  obtain ⟨d2, hd2⟩ : ∃ d2, d2 = d0 ++ le_bytes 4 joints.length ++
    List.replicate (4 * joints.length) 0 := ⟨_, rfl⟩
  rw [← hd2] at hs ⊢
  have l2 : d2.length = d0.length + 4 + 4 * joints.length := by
    rw [hd2]; simp only [List.length_append, List.length_replicate, lc]
  have l1 : (d0 ++ le_bytes 4 joints.length).length = d0.length + 4 := by
    rw [List.length_append, lc]
  rw [l1] at hs ⊢
  obtain ⟨a, b, positions, c1, c2⟩ := write_moby_joint_lists_spec class_header_ofs joints d2
    (d0.length + 4) (by omega)
  generalize write_moby_joint_lists class_header_ofs joints d2 (d0.length + 4) = R at *
  have hcount : slice R d0.length 4 = le_bytes 4 joints.length := by
    rw [slice_eq_of_agree R d2 d0.length 4 (fun i h1 h2 => b i (by omega) (by omega)), hd2,
      List.append_assoc, ← lc]
    exact slice_append_right_of _ _ _ _ (le_refl _) ▸ by
      rw [Nat.sub_self, slice_append_left _ _ _ _ (le_refl _)]
      exact slice_self _
  have hmap : ∀ k, (joints.getD k []).map (fun b => b % 256) = joints.getD k [] := fun k => by
    apply map_mod_self
    intro x hx
    by_cases hk : k < joints.length
    · rw [List.getD_eq_getElem _ _ hk] at hx
      exact hb _ (List.getElem_mem _) x hx
    · rw [List.getD_eq_default _ _ (by omega)] at hx
      cases hx
  have hread : read_moby_joints (R.drop class_header_ofs)
      ((d0.length - class_header_ofs : Nat) : Int) =
      .ok (joints.map (fun l => l.takeWhile (fun x => x != 0xff))) := by
    have ls : (R.drop class_header_ofs).length = R.length - class_header_ofs := List.length_drop _ _
    unfold read_moby_joints
    rw [read_sint_eq _ 4 _ _ (by rw [ls]; omega), slice_drop,
      Nat.add_sub_cancel' (by omega : class_header_ofs ≤ d0.length), hcount,
      to_signed_32_size _ (by omega)]
    simp only [bind, Except.bind, Int.toNat_ofNat]
    rw [read_moby_joint_lists_eq (R.drop class_header_ofs) _ joints.length
      (fun k => (joints.getD k []).takeWhile (fun x => x != 0xff)) (fun k hk => ?_)
      (List.range joints.length) (fun i hi => List.mem_range.mp hi)]
    · rw [map_range_getD joints (fun l => l.takeWhile (fun x => x != 0xff))]
    · obtain ⟨q1, q2, q3, q4, q5⟩ := c2 k hk
      refine ⟨((positions.getD k 0 - class_header_ofs : Nat) : Int), ?_, ?_⟩
      · have ec : ((d0.length - class_header_ofs : Nat) : Int) + ((k : Int) + 1) * 4 =
            ((d0.length - class_header_ofs + 4 + 4 * k : Nat) : Int) := by
          push_cast; ring
        rw [ec, read_sint_eq _ 4 _ _ (by rw [ls]; omega), slice_drop]
        have ep : class_header_ofs + (d0.length - class_header_ofs + 4 + 4 * k) =
            d0.length + 4 + 4 * k := by omega
        rw [ep, q4]
        have ei : ((positions.getD k 0 - class_header_ofs : Nat) : Int) =
            (positions.getD k 0 : Int) - class_header_ofs := by omega
        rw [ei, signed_round_trip _ (by omega) (by omega)]
      · have hr := read_moby_joint_list_eq (R.drop class_header_ofs) (joints.getD k [])
          ((R.drop class_header_ofs).length + 1) (positions.getD k 0 - class_header_ofs)
          (by rw [ls]; omega) (by rw [ls]; omega)
          (by rw [slice_drop, Nat.add_sub_cancel' (by omega : class_header_ofs ≤ _), q5])
        rw [hmap] at hr
        exact hr
  refine ⟨hread, fun hn => ?_, m0, hcount, positions, c1, fun k hk => ?_⟩
  · rw [hread]
    congr 1
    conv_rhs => rw [← List.map_id joints]
    apply List.map_congr_left
    intro l hl
    exact takeWhile_no_terminator l (hn l hl)
  · obtain ⟨q1, q2, q3, q4, q5⟩ := c2 k hk
    rw [hmap] at q5
    exact ⟨q2, q4, q5⟩

/-- The theorem `joints_round_trip` at two joint lists, the first of which
holds the byte 0xff, written to an empty output buffer. -/
theorem joints_round_trip_witness :
    0 ≤ ([] : List Nat).length ∧ (∀ l ∈ [[1, 0xff, 2], [3]], ∀ x ∈ l, x < 256) ∧
    (write_moby_joints 0 [] [[1, 0xff, 2], [3]]).1.length - 0 < 2 ^ 31 ∧
    read_moby_joints ((write_moby_joints 0 [] [[1, 0xff, 2], [3]]).1.drop 0)
      (((write_moby_joints 0 [] [[1, 0xff, 2], [3]]).2 - 0 : Nat) : Int) = .ok [[1], [3]] :=
  ⟨Nat.le_refl _, by decide, by decide,
    (joints_round_trip 0 [] [[1, 0xff, 2], [3]] (Nat.le_refl _) (by decide) (by decide)).1⟩

/-! ### The corncob block (C33) -/

theorem write_at_same (d : List Nat) (o : Nat) (bs : List Nat)
    (h : slice d o bs.length = bs) : write_at d o bs = d := by
  apply List.ext_getElem?
  intro i
  rw [getElem?_write_at]
  split
  · rename_i hi
    have e : bs[i - o]? = (slice d o bs.length)[i - o]? := by rw [h]
    rw [e]
    unfold slice
    rw [List.getElem?_take, if_pos (by omega), List.getElem?_drop]
    congr 1
    omega
  · rfl

theorem map_raw_bytes_self (n : Nat) (vs : List (List Nat))
    (h : ∀ v ∈ vs, v.length = n ∧ ∀ x ∈ v, x < 256) : vs.map (raw_bytes n) = vs := by
  induction vs with
  | nil => rfl
  | cons v t ih =>
    rw [List.map_cons, raw_bytes_self v n (h v (List.mem_cons_self _ _)).1
      (h v (List.mem_cons_self _ _)).2, ih (fun w hw => h w (List.mem_cons_of_mem _ hw))]

theorem length_flatten_of (n : Nat) (vs : List (List Nat)) (h : ∀ v ∈ vs, v.length = n) :
    vs.flatten.length = n * vs.length := by
  induction vs with
  | nil => rfl
  | cons v t ih =>
    rw [List.flatten_cons, List.length_append, h v (List.mem_cons_self _ _),
      ih (fun w hw => h w (List.mem_cons_of_mem _ hw)), List.length_cons, Nat.mul_succ]
    omega

theorem chunks_flatten (n : Nat) (vs : List (List Nat)) (h : ∀ v ∈ vs, v.length = n) :
    chunks n vs.length vs.flatten = vs := by
  induction vs with
  | nil => rfl
  | cons v t ih =>
    have hv := h v (List.mem_cons_self _ _)
    rw [List.length_cons, List.flatten_cons]
    unfold chunks
    rw [← hv, List.take_left, List.drop_left, hv,
      ih (fun w hw => h w (List.mem_cons_of_mem _ hw))]

theorem le_value_eq_zero (l : List Nat) (h : ∀ x ∈ l, x < 256) :
    le_value l = 0 ↔ ∀ x ∈ l, x = 0 := by
  induction l with
  | nil => exact ⟨fun _ x hx => absurd hx (List.not_mem_nil x), fun _ => rfl⟩
  | cons a t ih =>
    have ha := h a (List.mem_cons_self _ _)
    have it := ih (fun y hy => h y (List.mem_cons_of_mem _ hy))
    unfold le_value
    constructor
    · intro e x hx
      have e1 : a = 0 := by omega
      have e2 : le_value t = 0 := by omega
      rcases List.mem_cons.mp hx with rfl | hx
      · exact e1
      · exact it.mp e2 x hx
    · intro e
      have e1 := e a (List.mem_cons_self _ _)
      have e2 := it.mpr (fun y hy => e y (List.mem_cons_of_mem _ hy))
      omega

theorem to_signed_16_size (v : Nat) (h : v < 2 ^ 15) :
    to_signed 16 (le_value (le_bytes 2 v)) = (v : Int) := by
  rw [le_value_le_bytes_two, to_signed_mod]
  unfold to_signed
  have e3 : (2 : Nat) ^ 16 = 65536 := by norm_num
  have e4 : (2 : Nat) ^ (16 - 1) = 32768 := by norm_num
  have e5 : (2 : Nat) ^ 15 = 32768 := by norm_num
  rw [e3, e4]
  rw [e5] at h
  rw [Nat.mod_eq_of_lt (by omega), if_pos h]

/-- The bytes a well formed kernel is stored as. -/
theorem written_kernel (dest : List Nat) (kernel : MobyCornKernel)
    (hw : kernel_well_formed kernel) :
    (if 0 < kernel.vertices.length then
      write_at (pad dest 0x10 ++ raw_bytes 0x10 kernel.vec ++
          (kernel.vertices.map (raw_bytes 8)).flatten)
        ((pad dest 0x10).length + 0x16) (le_bytes 2 kernel.vertices.length)
      else pad dest 0x10 ++ raw_bytes 0x10 kernel.vec ++
        (kernel.vertices.map (raw_bytes 8)).flatten) =
      pad dest 0x10 ++ (kernel.vec ++ kernel.vertices.flatten) := by
  obtain ⟨w1, w2, w3, w4, w5, w6⟩ := hw
  rw [raw_bytes_self _ _ w1 w2, map_raw_bytes_self 8 _ w3, List.append_assoc]
  split
  · rename_i hn
    apply write_at_same
    rw [length_le_bytes]
    cases hv : kernel.vertices with
    | nil => rw [hv] at hn; cases hn
    | cons v t =>
      have h6 := w6 v (by rw [hv]; rfl)
      have lv := (w3 v (by rw [hv]; exact List.mem_cons_self _ _)).1
      rw [← hv, ← h6, slice_append_right_of _ _ _ _ (by omega),
        slice_append_right_of _ _ _ _ (by omega), hv, List.flatten_cons,
        slice_append_left _ _ _ _ (by omega)]
      congr 1
      omega
  · rfl

theorem write_moby_corn_kernels_spec (header_ofs : Nat) :
    ∀ (ks : List (Option MobyCornKernel)) (dest hdr : List Nat),
      (∀ kernel, some kernel ∈ ks → kernel_well_formed kernel) →
      dest.length ≤ (write_moby_corn_kernels header_ofs ks dest hdr).1.length ∧
      (∀ i, i < dest.length →
        (write_moby_corn_kernels header_ofs ks dest hdr).1[i]? = dest[i]?) ∧
      (write_moby_corn_kernels header_ofs ks dest hdr).2.length = hdr.length + ks.length ∧
      (∀ i, i < hdr.length →
        (write_moby_corn_kernels header_ofs ks dest hdr).2[i]? = hdr[i]?) ∧
      ∀ j, j < ks.length →
        (ks.getD j none = none →
          (write_moby_corn_kernels header_ofs ks dest hdr).2.getD (hdr.length + j) 0 = 0xff) ∧
        (∀ kernel, ks.getD j none = some kernel →
          ∃ p, dest.length ≤ p ∧ p % 0x10 = 0 ∧
            p + 0x10 + 8 * kernel.vertices.length ≤
              (write_moby_corn_kernels header_ofs ks dest hdr).1.length ∧
            (write_moby_corn_kernels header_ofs ks dest hdr).2.getD (hdr.length + j) 0 =
              ((p - header_ofs) / 0x10) % 256 ∧
            slice (write_moby_corn_kernels header_ofs ks dest hdr).1 p
              (0x10 + 8 * kernel.vertices.length) = kernel.vec ++ kernel.vertices.flatten) := by
  intro ks
  induction ks with
  | nil =>
    intro dest hdr _
    exact ⟨le_refl _, fun _ _ => rfl, rfl, fun _ _ => rfl, fun j hj => absurd hj (by simp)⟩
  | cons k rest ih =>
    intro dest hdr hw
    have hwr : ∀ kernel, some kernel ∈ rest → kernel_well_formed kernel :=
      fun kernel hk => hw kernel (List.mem_cons_of_mem _ hk)
    cases k with
    | none =>
      unfold write_moby_corn_kernels
      obtain ⟨a, b, c, d, e⟩ := ih dest (hdr ++ [0xff]) hwr
      rw [List.length_append, List.length_singleton] at c e
      refine ⟨a, b, by rw [c, List.length_cons]; omega, fun i hi => ?_, fun j hj => ?_⟩
      · rw [d i (by rw [List.length_append]; omega), List.getElem?_append_left hi]
      · cases j with
        | zero =>
          refine ⟨fun _ => ?_, fun kernel hk => by cases hk⟩
          rw [Nat.add_zero, List.getD_eq_getElem?_getD,
            d hdr.length (by rw [List.length_append, List.length_singleton]; omega),
            List.getElem?_append_right (le_refl _), Nat.sub_self]
          rfl
        | succ j =>
          rw [List.length_cons] at hj
          have ej := e j (by omega)
          have en : hdr.length + 1 + j = hdr.length + (j + 1) := by omega
          rw [en] at ej
          exact ej
    | some kernel =>
      have hk := hw kernel (List.mem_cons_self _ _)
      unfold write_moby_corn_kernels
      simp only
      rw [written_kernel dest kernel hk]
      obtain ⟨d0, hd0⟩ : ∃ d0, d0 = pad dest 0x10 := ⟨_, rfl⟩
      rw [← hd0]
      have l0 : dest.length ≤ d0.length := by rw [hd0]; exact length_pad _ _
      have m0 : d0.length % 0x10 = 0 := by rw [hd0]; exact length_pad_mod _ _ (by omega)
      have lf := length_flatten_of 8 kernel.vertices (fun v hv => (hk.2.2.1 v hv).1)
      have lv := hk.1
      obtain ⟨a, b, c, d, e⟩ := ih (d0 ++ (kernel.vec ++ kernel.vertices.flatten))
        (hdr ++ [((d0.length - header_ofs) / 0x10) % 256]) hwr
      rw [List.length_append, List.length_singleton] at c e
      have l1 : (d0 ++ (kernel.vec ++ kernel.vertices.flatten)).length =
          d0.length + 0x10 + 8 * kernel.vertices.length := by
        simp only [List.length_append, lf, lv]; omega
      rw [l1] at a b
      refine ⟨by omega, fun i hi => ?_, by rw [c, List.length_cons]; omega, fun i hi => ?_,
        fun j hj => ?_⟩
      · rw [b i (by omega), List.getElem?_append_left (by omega), hd0]
        unfold pad
        rw [List.getElem?_append_left hi]
      · rw [d i (by rw [List.length_append]; omega), List.getElem?_append_left hi]
      · cases j with
        | zero =>
          refine ⟨fun hn => absurd hn (by simp), fun kernel1 hk1 => ?_⟩
          have ek : kernel = kernel1 := by
            simp only [List.getD_cons_zero, Option.some.injEq] at hk1
            exact hk1
          subst ek
          refine ⟨d0.length, l0, m0, by omega, ?_, ?_⟩
          · rw [Nat.add_zero, List.getD_eq_getElem?_getD,
              d hdr.length (by rw [List.length_append, List.length_singleton]; omega),
              List.getElem?_append_right (le_refl _), Nat.sub_self]
            rfl
          · rw [slice_eq_of_agree _ (d0 ++ (kernel.vec ++ kernel.vertices.flatten)) d0.length _
              (fun i h1 h2 => b i (by omega))]
            have el : 0x10 + 8 * kernel.vertices.length =
                (kernel.vec ++ kernel.vertices.flatten).length := by
              rw [List.length_append, lf, lv]
            rw [el]
            exact slice_append_right _ _
        | succ j =>
          rw [List.length_cons] at hj
          obtain ⟨e1, e2⟩ := e j (by omega)
          have en : hdr.length + 1 + j = hdr.length + (j + 1) := by omega
          rw [en] at e1 e2
          refine ⟨e1, fun kernel1 hk1 => ?_⟩
          obtain ⟨p, p1, p2, p3, p4, p5⟩ := e2 kernel1 hk1
          exact ⟨p, by omega, p2, p3, p4, p5⟩

theorem read_moby_corn_kernel_eq (src : List Nat) (kernel : MobyCornKernel) (q : Nat)
    (hw : kernel_well_formed kernel) (hq : q < 0xff)
    (hb : q * 16 + 16 + 8 * kernel.vertices.length ≤ src.length)
    (hs : slice src (q * 16) (16 + 8 * kernel.vertices.length) =
      kernel.vec ++ kernel.vertices.flatten) :
    read_moby_corn_kernel src q = .ok (some kernel) := by
  obtain ⟨w1, w2, w3, w4, w5, w6⟩ := hw
  have e15 : (2 : Nat) ^ 15 = 32768 := by norm_num
  have lf := length_flatten_of 8 kernel.vertices (fun v hv => (w3 v hv).1)
  have hvec : slice src (q * 16) 16 = kernel.vec := by
    have h := slice_slice src (q * 16) (16 + 8 * kernel.vertices.length) 0 16 (by omega)
    rw [hs, Nat.add_zero] at h
    rw [← h, slice_append_left kernel.vec kernel.vertices.flatten 0 16 (by omega)]
    have hself := slice_self kernel.vec
    rw [w1] at hself
    exact hself
  have hlo : slice src (q * 16) 8 = slice kernel.vec 0 8 := by
    have h := slice_slice src (q * 16) 16 0 8 (by omega)
    rw [hvec, Nat.add_zero] at h
    exact h.symm
  have hhi : slice src (q * 16 + 8) 8 = slice kernel.vec 8 8 := by
    have h := slice_slice src (q * 16) 16 8 8 (by omega)
    rw [hvec] at h
    exact h.symm
  have zlo : le_value (slice kernel.vec 0 8) = 0 ↔ ∀ x ∈ slice kernel.vec 0 8, x = 0 :=
    le_value_eq_zero _ (slice_lt _ _ _ w2)
  have zhi : le_value (slice kernel.vec 8 8) = 0 ↔ ∀ x ∈ slice kernel.vec 8 8, x = 0 :=
    le_value_eq_zero _ (slice_lt _ _ _ w2)
  have hsplit : kernel.vec = slice kernel.vec 0 8 ++ slice kernel.vec 8 8 := by
    unfold slice
    rw [List.drop_zero]
    have : (kernel.vec.drop 8).take 8 = kernel.vec.drop 8 :=
      List.take_of_length_le (by rw [List.length_drop]; omega)
    rw [this, List.take_append_drop]
  have hzero : (le_value (slice kernel.vec 0 8) = 0 ∧ le_value (slice kernel.vec 8 8) = 0) ↔
      kernel.vertices = [] := by
    rw [zlo, zhi]
    constructor
    · intro ⟨h1, h2⟩
      by_contra hc
      obtain ⟨x, hx, hx0⟩ := w5.mpr hc
      rw [hsplit] at hx
      rcases List.mem_append.mp hx with hx | hx
      · exact hx0 (h1 x hx)
      · exact hx0 (h2 x hx)
    · intro hn
      have hall : ∀ x ∈ kernel.vec, x = 0 := by
        intro x hx
        by_contra hx0
        exact (w5.mp ⟨x, hx, hx0⟩) hn
      exact ⟨fun x hx => hall x (List.mem_of_mem_drop (List.mem_of_mem_take hx)),
        fun x hx => hall x (List.mem_of_mem_drop (List.mem_of_mem_take hx))⟩
  unfold read_moby_corn_kernel
  have sq : q % 256 = q := Nat.mod_eq_of_lt (by omega)
  rw [if_pos (by omega), sq]
  have ek : ((q : Nat) : Int) * 0x10 = ((q * 16 : Nat) : Int) := by push_cast; rfl
  have ek8 : ((q * 16 : Nat) : Int) + 8 = ((q * 16 + 8 : Nat) : Int) := by push_cast; rfl
  have ek16 : ((q * 16 : Nat) : Int) + 0x10 = ((q * 16 + 16 : Nat) : Int) := by push_cast; rfl
  have ek22 : ((q * 16 : Nat) : Int) + 0x16 = ((q * 16 + 22 : Nat) : Int) := by push_cast; rfl
  have e1 : read_bytes src ((q * 16 : Nat) : Int) 0x10 "corn vec4" = .ok kernel.vec := by
    rw [← hvec]; exact read_bytes_eq src (q * 16) 16 _ (by omega)
  have e2 : read_uint src 8 ((q * 16 : Nat) : Int) "corn" =
      .ok (le_value (slice kernel.vec 0 8)) := by
    rw [← hlo]; exact read_uint_eq src 8 (q * 16) _ (by omega)
  have e3 : read_uint src 8 ((q * 16 + 8 : Nat) : Int) "corn" =
      .ok (le_value (slice kernel.vec 8 8)) := by
    rw [← hhi]; exact read_uint_eq src 8 (q * 16 + 8) _ (by omega)
  simp only [ek, ek8, ek16, ek22, e1, e2, e3, bind, Except.bind]
  cases hv : kernel.vertices with
  | nil =>
    have hz := hzero.mpr hv
    rw [if_neg (by rw [hz.1]; exact fun h => h rfl)]
    rw [if_neg (by rw [hz.1, hz.2]; simp)]
    have : kernel = ⟨kernel.vec, []⟩ := by rw [← hv]
    rw [← this]
    rfl
  | cons v t =>
    have hne : kernel.vertices ≠ [] := by rw [hv]; exact List.cons_ne_nil _ _
    have hnz : ¬ (le_value (slice kernel.vec 0 8) = 0 ∧ le_value (slice kernel.vec 8 8) = 0) :=
      fun h => hne (hzero.mp h)
    have hn1 : 1 ≤ kernel.vertices.length := by rw [hv, List.length_cons]; omega
    have h6 := w6 v (by rw [hv]; rfl)
    have lv := (w3 v (by rw [hv]; exact List.mem_cons_self _ _)).1
    have hflat : slice src (q * 16 + 16) (kernel.vertices.length * 8) =
        kernel.vertices.flatten := by
      have h := slice_slice src (q * 16) (16 + 8 * kernel.vertices.length) 16
        (kernel.vertices.length * 8) (by omega)
      rw [hs] at h
      rw [← h, slice_append_right_of kernel.vec _ 16 _ (by omega), w1, Nat.sub_self,
        Nat.mul_comm]
      have hself := slice_self kernel.vertices.flatten
      rw [lf] at hself
      exact hself
    have hcount : slice src (q * 16 + 22) 2 = le_bytes 2 kernel.vertices.length := by
      have h := slice_slice src (q * 16 + 16) (kernel.vertices.length * 8) 6 2 (by omega)
      rw [hflat] at h
      rw [← h6]
      have e : q * 16 + 16 + 6 = q * 16 + 22 := by omega
      rw [e] at h
      rw [← h, hv, List.flatten_cons, slice_append_left _ _ _ _ (by omega)]
    have e4 : read_sint src 2 ((q * 16 + 22 : Nat) : Int) "corn vertex count" =
        .ok (kernel.vertices.length : Int) := by
      rw [read_sint_eq src 2 (q * 16 + 22) _ (by omega), hcount]
      exact congrArg Except.ok (to_signed_16_size _ w4)
    have e5 : read_multiple src 8 ((q * 16 + 16 : Nat) : Int) (kernel.vertices.length : Int)
        "corn vertices" = .ok kernel.vertices := by
      rw [read_multiple_eq src 8 (q * 16 + 16) _ _ (by omega), hflat,
        chunks_flatten 8 _ (fun v hv => (w3 v hv).1)]
    by_cases hl : le_value (slice kernel.vec 0 8) ≠ 0
    · rw [if_pos hl]
      simp only [pure, Except.pure]
      rw [if_pos (Or.inl hl), e4]
      simp only
      rw [e5]
    · rw [if_neg hl]
      have hh : le_value (slice kernel.vec 8 8) ≠ 0 := fun h => hnz ⟨not_not.mp hl, h⟩
      rw [if_pos (Or.inr hh), e4]
      simp only
      rw [e5]
      rfl

theorem read_moby_corn_kernels_eq (src : List Nat) :
    ∀ (slots : List Nat) (ks : List (Option MobyCornKernel)), slots.length = ks.length →
      (∀ j, j < ks.length → read_moby_corn_kernel src (slots.getD j 0) = .ok (ks.getD j none)) →
      read_moby_corn_kernels src slots = .ok ks := by
  intro slots
  induction slots with
  | nil =>
    intro ks hl _
    cases ks with
    | nil => rfl
    | cons k t => cases hl
  | cons s rest ih =>
    intro ks hl h
    cases ks with
    | nil => cases hl
    | cons k t =>
      have h0 := h 0 (by simp)
      simp only [List.getD_cons_zero] at h0
      unfold read_moby_corn_kernels
      rw [h0]
      simp only
      rw [ih t (by simpa using hl) (fun j hj => by
        have := h (j + 1) (by simp; omega)
        simpa using this)]

theorem range_map_getD {α : Type} (l : List α) (d : α) :
    (List.range l.length).map (fun i => l.getD i d) = l := by
  apply List.ext_getElem?
  intro i
  rw [List.getElem?_map]
  by_cases hi : i < l.length
  · rw [List.getElem?_range hi, List.getElem?_eq_getElem hi]
    simp only [Option.map_some', List.getD_eq_getElem?_getD, List.getElem?_eq_getElem hi,
      Option.getD_some]
  · rw [List.getElem?_eq_none (by simp; omega), List.getElem?_eq_none (by omega)]
    rfl

/-- C33 (amended): for every well formed corncob (sixteen slots; each kernel
with a vec of 0x10 bytes and vertices of 8 bytes, which has vertices exactly
when its vec is not all zero and holds the vertex count in the last two bytes
of its first vertex) written at a multiple of 0x10 into a block of at most
0xff0 bytes, `read_moby_corncob` applied to the output of `write_moby_corncob`
returns the corncob.  The header byte of an absent slot is 0xff, that of a
present kernel is its offset from the header in units of 0x10 bytes, and the
vec and the vertices are stored at that offset. -/
theorem corncob_round_trip (dest : List Nat) (corncob : MobyCornCob)
    (hw : corncob_well_formed corncob) (ha : dest.length % 0x10 = 0)
    (hs : (write_moby_corncob dest corncob).1.length - dest.length ≤ 0xff0) :
    read_moby_corncob
        ((write_moby_corncob dest corncob).1.drop (write_moby_corncob dest corncob).2) =
      .ok corncob ∧
    (write_moby_corncob dest corncob).2 = dest.length ∧
    ∀ j, j < 16 →
      (corncob.kernels.getD j none = none →
        (write_moby_corncob dest corncob).1.getD (dest.length + j) 0 = 0xff) ∧
      (∀ kernel, corncob.kernels.getD j none = some kernel →
        ∃ p, p % 0x10 = 0 ∧
          (write_moby_corncob dest corncob).1.getD (dest.length + j) 0 =
            (p - dest.length) / 0x10 ∧
          slice (write_moby_corncob dest corncob).1 p (0x10 + 8 * kernel.vertices.length) =
            kernel.vec ++ kernel.vertices.flatten) := by
  obtain ⟨w16, wk⟩ := hw
  have er : (List.range 16).map (fun i => corncob.kernels.getD i none) = corncob.kernels := by
    rw [← w16]; exact range_map_getD _ _
  obtain ⟨r, hr⟩ : ∃ r, r = write_moby_corn_kernels dest.length corncob.kernels
    (dest ++ List.replicate 0x10 0) [] := ⟨_, rfl⟩
  have hwr : write_moby_corncob dest corncob = (write_at r.1 dest.length r.2, dest.length) := by
    unfold write_moby_corncob
    simp only [er, ← hr]
  obtain ⟨a, b, c, d, e⟩ := write_moby_corn_kernels_spec dest.length corncob.kernels
    (dest ++ List.replicate 0x10 0) [] wk
  rw [← hr] at a b c d e
  rw [hwr] at hs ⊢
  obtain ⟨R, H⟩ := r
  simp only at a b c d e hs ⊢
  rw [List.length_append, List.length_replicate] at a b
  rw [List.length_nil, Nat.zero_add, w16] at c
  rw [length_write_at] at hs
  have hH : slice (write_at R dest.length H) dest.length 16 = H := by
    rw [← c]; exact slice_write_at_self _ _ _ (by omega)
  have hget : ∀ j, j < 16 → (write_at R dest.length H).getD (dest.length + j) 0 = H.getD j 0 := by
    intro j hj
    rw [List.getD_eq_getElem?_getD, List.getD_eq_getElem?_getD, getElem?_write_at,
      if_pos ⟨by omega, by omega, by omega⟩]
    congr 2
    omega
  have hkernel : ∀ j, j < 16 → ∀ kernel, corncob.kernels.getD j none = some kernel →
      ∃ p, dest.length + 16 ≤ p ∧ p % 0x10 = 0 ∧
        p + 0x10 + 8 * kernel.vertices.length ≤ R.length ∧
        H.getD j 0 = (p - dest.length) / 0x10 ∧ (p - dest.length) / 0x10 < 0xff ∧
        slice (write_at R dest.length H) p (0x10 + 8 * kernel.vertices.length) =
          kernel.vec ++ kernel.vertices.flatten := by
    intro j hj kernel hk
    obtain ⟨p, p1, p2, p3, p4, p5⟩ := (e j (by omega)).2 kernel hk
    rw [List.length_nil, Nat.zero_add] at p4
    rw [List.length_append, List.length_replicate] at p1
    have hq : (p - dest.length) / 0x10 < 0xff := by omega
    refine ⟨p, p1, p2, p3, by rw [p4, Nat.mod_eq_of_lt (by omega)], hq, ?_⟩
    rw [slice_write_at_disjoint _ _ _ _ _ (Or.inr (by omega)), p5]
  refine ⟨?_, trivial, fun j hj => ⟨fun hn => ?_, fun kernel hk => ?_⟩⟩
  · unfold read_moby_corncob
    have ls : ((write_at R dest.length H).drop dest.length).length = R.length - dest.length := by
      rw [List.length_drop, length_write_at]
    have e0 : read_bytes ((write_at R dest.length H).drop dest.length) 0 0x10 "moby corncob" =
        .ok H := by
      have := read_bytes_eq ((write_at R dest.length H).drop dest.length) 0 16 "moby corncob"
        (by rw [ls]; omega)
      rw [slice_drop, Nat.add_zero, hH] at this
      exact this
    rw [e0]
    simp only [bind, Except.bind]
    rw [read_moby_corn_kernels_eq _ H corncob.kernels (by omega) (fun j hj => ?_)]
    · rfl
    · rw [w16] at hj
      cases hk : corncob.kernels.getD j none with
      | none =>
        have h1 := (e j (by omega)).1 hk
        rw [List.length_nil, Nat.zero_add] at h1
        rw [h1]
        rfl
      | some kernel =>
        obtain ⟨p, p1, p2, p3, p4, p5, p6⟩ := hkernel j hj kernel hk
        have hp : (p - dest.length) / 0x10 * 16 = p - dest.length := by omega
        rw [p4]
        apply read_moby_corn_kernel_eq _ kernel _ (wk kernel ?_) p5
        · rw [ls, hp]; omega
        · rw [slice_drop, hp, Nat.add_sub_cancel' (by omega : dest.length ≤ p), p6]
        · rw [← hk, List.getD_eq_getElem _ _ (by omega)]
          exact List.getElem_mem _
  · rw [hget j hj]
    have h1 := (e j (by omega)).1 hn
    rw [List.length_nil, Nat.zero_add] at h1
    exact h1
  · obtain ⟨p, p1, p2, p3, p4, p5, p6⟩ := hkernel j hj kernel hk
    exact ⟨p, p2, by rw [hget j hj, p4], p6⟩

theorem single_kernel_well_formed (slot : Nat) (kernel : MobyCornKernel)
    (h : kernel_well_formed kernel) : corncob_well_formed (single_kernel_corncob slot kernel) := by
  refine ⟨by simp [single_kernel_corncob], fun k hk => ?_⟩
  simp only [single_kernel_corncob, List.mem_map, List.mem_range] at hk
  obtain ⟨i, _, hi⟩ := hk
  split at hi
  · injection hi with hi
    rw [← hi]
    exact h
  · cases hi

theorem counted_kernel_well_formed :
    kernel_well_formed ⟨unit_vec, [[0, 0, 0, 0, 0, 0, 1, 0]]⟩ := by
  refine ⟨rfl, by decide, by decide, by decide, ⟨fun _ => by decide, fun _ => ⟨1, by decide, by decide⟩⟩,
    fun v hv => ?_⟩
  cases hv
  rfl

set_option maxRecDepth 100000 in
/-- The theorem `corncob_round_trip` at the corncob with one kernel in slot 3,
which has one vertex with the vertex count 1 in its last two bytes, written to
an empty output buffer. -/
theorem corncob_round_trip_witness :
    corncob_well_formed (single_kernel_corncob 3 ⟨unit_vec, [[0, 0, 0, 0, 0, 0, 1, 0]]⟩) ∧
    ([] : List Nat).length % 0x10 = 0 ∧
    (write_moby_corncob [] (single_kernel_corncob 3
      ⟨unit_vec, [[0, 0, 0, 0, 0, 0, 1, 0]]⟩)).1.length - ([] : List Nat).length ≤ 0xff0 ∧
    read_moby_corncob
        ((write_moby_corncob [] (single_kernel_corncob 3
          ⟨unit_vec, [[0, 0, 0, 0, 0, 0, 1, 0]]⟩)).1.drop
          (write_moby_corncob [] (single_kernel_corncob 3
            ⟨unit_vec, [[0, 0, 0, 0, 0, 0, 1, 0]]⟩)).2) =
      .ok (single_kernel_corncob 3 ⟨unit_vec, [[0, 0, 0, 0, 0, 0, 1, 0]]⟩) :=
  ⟨single_kernel_well_formed _ _ counted_kernel_well_formed, rfl, by decide,
    (corncob_round_trip [] (single_kernel_corncob 3 ⟨unit_vec, [[0, 0, 0, 0, 0, 0, 1, 0]]⟩)
      (single_kernel_well_formed _ _ counted_kernel_well_formed) rfl (by decide)).1⟩

theorem far_kernel_corncob_well_formed : corncob_well_formed far_kernel_corncob := by
  refine ⟨rfl, fun k hk => ?_⟩
  simp only [far_kernel_corncob, List.cons_append, List.nil_append, List.mem_cons,
    Option.some.injEq, List.mem_replicate, and_false, or_false, reduceCtorEq] at hk
  rcases hk with rfl | rfl
  · refine ⟨rfl, by decide, fun v hv => ?_, by rw [long_kernel, List.length_replicate]; decide,
      ⟨fun _ => by rw [long_kernel]; exact List.cons_ne_nil _ _, fun _ => ⟨1, by decide, by decide⟩⟩,
      fun v hv => ?_⟩
    · rw [List.eq_of_mem_replicate hv]
      decide
    · cases hv
      show slice [0, 0, 0, 0, 0, 0, 0xfe, 1] 6 2 =
        le_bytes 2 (List.replicate 510 [0, 0, 0, 0, 0, 0, 0xfe, 1]).length
      rw [List.length_replicate]
      rfl
  · refine ⟨rfl, by decide, by decide, by decide, ⟨fun h => ?_, fun h => absurd rfl h⟩,
      fun v hv => by cases hv⟩
    obtain ⟨x, hx, hx0⟩ := h
    exact absurd (List.eq_of_mem_replicate hx) hx0

set_option maxRecDepth 1000000 in
/-- C33, counterexample: corncobs written to an empty buffer.  With one kernel
in slot 0: a vertex of eight zero bytes is read back with the vertex count 1
in its last two bytes; the vertex of a kernel whose vec is all zero is not
read back; and the decoder fails on a kernel with a vec that is not zero and
no vertices, reading the vertex count past the end of the block.  In the well
formed `far_kernel_corncob` the kernel of slot 1 is written 0x1010 bytes after
the header, its header byte is 1, and the decoder returns the kernel of slot 0
in slot 1. -/
theorem corncob_not_read_back :
    (read_moby_corncob (write_moby_corncob []
        (single_kernel_corncob 0 ⟨unit_vec, [List.replicate 8 0]⟩)).1 =
      .ok (single_kernel_corncob 0 ⟨unit_vec, [[0, 0, 0, 0, 0, 0, 1, 0]]⟩)) ∧
    (read_moby_corncob (write_moby_corncob []
        (single_kernel_corncob 0 ⟨List.replicate 0x10 0, [[0, 0, 0, 0, 0, 0, 1, 0]]⟩)).1 =
      .ok (single_kernel_corncob 0 ⟨List.replicate 0x10 0, []⟩)) ∧
    (∃ e, read_moby_corncob (write_moby_corncob []
        (single_kernel_corncob 0 ⟨unit_vec, []⟩)).1 = .error e) ∧
    (corncob_well_formed far_kernel_corncob ∧
      far_kernel_corncob.kernels.getD 1 none = some ⟨List.replicate 0x10 0, []⟩ ∧
      (write_moby_corncob [] far_kernel_corncob).1.getD 1 0 = 1 ∧
      (read_moby_corncob (write_moby_corncob [] far_kernel_corncob).1).toOption.map
        (fun c => c.kernels.getD 1 none) = some (some long_kernel)) :=
  ⟨rfl, rfl, ⟨_, rfl⟩, far_kernel_corncob_well_formed, rfl, by decide!, by decide!⟩

/-! ### The sequences (C32) -/

theorem frame_stored_of_agree {b b1 : List Nat} {c lo hi e : Nat} {frame : MobyFrame}
    (h : frame_stored b c lo hi e frame)
    (ha : ∀ i, lo ≤ i → i < hi → b1[i]? = b[i]?) (he : lo ≤ e) (he2 : e + 4 ≤ hi) :
    frame_stored b1 c lo hi e frame := by
  obtain ⟨p, p1, p2, p3, p4, p5⟩ := h
  refine ⟨p, p1, p2, ?_, ?_, ?_⟩
  · rw [slice_eq_of_agree b1 b e 4 (fun i h1 h2 => ha i (by omega) (by omega)), p3]
  · rw [slice_eq_of_agree b1 b p 0x10 (fun i h1 h2 => ha i (by omega) (by omega)), p4]
  · rw [slice_eq_of_agree b1 b (p + 0x10) _ (fun i h1 h2 => ha i (by omega) (by omega)), p5]

theorem sequence_stored_of_agree {env : Env} {b b1 : List Nat} {c o hi : Nat}
    {sequence : MobySequence} (h : sequence_stored env b c o hi sequence)
    (ha : ∀ i, o ≤ i → i < hi → b1[i]? = b[i]?) (hl : hi ≤ b1.length) :
    sequence_stored env b1 c o hi sequence := by
  obtain ⟨h1, h2, h3, h4, h5, h6, h7, h8, h9, h10, h11⟩ := h
  have tr : ∀ a w, o ≤ a → a + w ≤ hi → slice b1 a w = slice b a w := fun a w q1 q2 =>
    slice_eq_of_agree b1 b a w (fun i i1 i2 => ha i (by omega) (by omega))
  refine ⟨h1, hl, ?_, ?_, ?_, ?_, ?_, fun hn => ?_, fun t ht => ?_, fun k hk => ?_, ?_⟩
  · rw [tr _ _ (by omega) (by omega), h3]
  · rw [tr _ _ (by omega) (by omega), h4]
  · rw [tr _ _ (by omega) (by omega), h5]
  · rw [tr _ _ (by omega) (by omega), h6]
  · rw [tr _ _ (by omega) (by omega), h7]
  · rw [tr _ _ (by omega) (by omega), h8 hn]
  · obtain ⟨ofs, q1, q2, q3, q4⟩ := h9 t ht
    exact ⟨ofs, q1, q2, by rw [tr _ _ (by omega) (by omega), q3],
      by rw [tr _ _ (by omega) (by omega), q4]⟩
  · exact frame_stored_of_agree (h10 k hk) ha (by omega) (by omega)
  · rw [tr _ _ (by omega) (by omega), h11]

theorem length_frame_header_bytes (frame : MobyFrame) : (frame_header_bytes frame).length = 0x10 := by
  simp [frame_header_bytes, length_le_bytes]

theorem write_moby_frames_spec (class_header_ofs : Nat) :
    ∀ (frames : List MobyFrame) (dest : List Nat) (fp : Nat),
      fp + 4 * frames.length ≤ dest.length →
      dest.length ≤ (write_moby_frames class_header_ofs frames dest fp).length ∧
      (∀ i, i < dest.length → (i < fp ∨ fp + 4 * frames.length ≤ i) →
        (write_moby_frames class_header_ofs frames dest fp)[i]? = dest[i]?) ∧
      ∀ k, k < frames.length →
        ∃ p, dest.length ≤ p ∧
          p + 0x10 + (frames.getD k ⟨0, 0, 0, 0, 0, []⟩).data.length ≤
            (write_moby_frames class_header_ofs frames dest fp).length ∧
          slice (write_moby_frames class_header_ofs frames dest fp) (fp + 4 * k) 4 =
            le_bytes 4 (to_unsigned 32 ((p : Int) - class_header_ofs)) ∧
          slice (write_moby_frames class_header_ofs frames dest fp) p 0x10 =
            frame_header_bytes (frames.getD k ⟨0, 0, 0, 0, 0, []⟩) ∧
          slice (write_moby_frames class_header_ofs frames dest fp) (p + 0x10)
            (frames.getD k ⟨0, 0, 0, 0, 0, []⟩).data.length =
            (frames.getD k ⟨0, 0, 0, 0, 0, []⟩).data.map (fun x => x % 256) := by
  intro frames
  induction frames with
  | nil =>
    intro dest fp _
    exact ⟨le_refl _, fun _ _ _ => rfl, fun k hk => absurd hk (by simp)⟩
  | cons frame rest ih =>
    intro dest fp ho
    rw [List.length_cons] at ho
    unfold write_moby_frames
    simp only
    obtain ⟨d0, hd0⟩ : ∃ d0, d0 = pad dest 0x10 := ⟨_, rfl⟩
    rw [← hd0]
    have l0 : dest.length ≤ d0.length := by rw [hd0]; exact length_pad _ _
    have lh := length_frame_header_bytes frame
    generalize hE : le_bytes 4 (to_unsigned 32 ((d0.length : Int) - class_header_ofs)) = E
    have lE : E.length = 4 := by rw [← hE, length_le_bytes]
    obtain ⟨d2, hd2⟩ : ∃ d2, d2 = write_at (d0 ++ frame_header_bytes frame) fp E := ⟨_, rfl⟩
    rw [← hd2]
    have l2 : d2.length = d0.length + 0x10 := by
      rw [hd2, length_write_at, List.length_append, lh]
    obtain ⟨d3, hd3⟩ : ∃ d3, d3 = d2 ++ frame.data.map (fun b => b % 256) := ⟨_, rfl⟩
    rw [← hd3]
    have l3 : d3.length = d2.length + frame.data.length := by
      rw [hd3, List.length_append, List.length_map]
    obtain ⟨a, b, c⟩ := ih d3 (fp + 4) (by omega)
    have g3 : ∀ i, i < d2.length → d3[i]? = d2[i]? := fun i hi => by
      rw [hd3, List.getElem?_append_left hi]
    have g2 : ∀ i, (i < fp ∨ fp + 4 ≤ i) → d2[i]? = (d0 ++ frame_header_bytes frame)[i]? :=
      fun i hi => by rw [hd2, getElem?_write_at, if_neg (by omega)]
    have g1 : ∀ i, i < d0.length → (d0 ++ frame_header_bytes frame)[i]? = d0[i]? :=
      fun i hi => List.getElem?_append_left hi
    have g0 : ∀ i, i < dest.length → d0[i]? = dest[i]? := fun i hi => by
      rw [hd0]; unfold pad; rw [List.getElem?_append_left hi]
    refine ⟨by omega, fun i hi hr => ?_, fun k hk => ?_⟩
    · rw [List.length_cons] at hr
      rw [b i (by omega) (by omega), g3 i (by omega), g2 i (by omega), g1 i (by omega), g0 i hi]
    · cases k with
      | zero =>
        simp only [List.getD_cons_zero]
        refine ⟨d0.length, l0, by omega, ?_, ?_, ?_⟩
        · show slice _ fp 4 = _
          rw [hE, slice_eq_of_agree _ d2 fp 4 (fun i h1 h2 => by
            rw [b i (by omega) (by omega), g3 i (by omega)]), hd2, ← lE]
          exact slice_write_at_self _ _ _ (by rw [List.length_append]; omega)
        · rw [slice_eq_of_agree _ (d0 ++ frame_header_bytes frame) d0.length 0x10
            (fun i h1 h2 => by
              rw [b i (by omega) (by omega), g3 i (by omega), g2 i (by omega)])]
          have := slice_append_right d0 (frame_header_bytes frame)
          rw [lh] at this
          exact this
        · rw [slice_eq_of_agree _ d3 (d0.length + 0x10) _
            (fun i h1 h2 => b i (by omega) (by omega)), hd3, ← l2]
          have := slice_append_right d2 (frame.data.map (fun b => b % 256))
          rw [List.length_map] at this
          exact this
      | succ k =>
        rw [List.length_cons] at hk
        obtain ⟨p, q1, q2, q3, q4, q5⟩ := c k (by omega)
        simp only [List.getD_cons_succ]
        refine ⟨p, by omega, q2, ?_, q4, q5⟩
        rw [← q3]
        congr 1
        omega

theorem sequence_header_slices (X Y Z : List Nat) (a b c d : Nat) (hX : X.length = 0x10)
    (hY : Y.length = 4) (hZ : Z.length = 4) :
    slice (X ++ [a, b, c, d] ++ Y ++ Z) 0x10 1 = [a] ∧
    slice (X ++ [a, b, c, d] ++ Y ++ Z) 0x11 1 = [b] ∧
    slice (X ++ [a, b, c, d] ++ Y ++ Z) 0x12 1 = [c] ∧
    slice (X ++ [a, b, c, d] ++ Y ++ Z) 0x14 4 = Y ∧
    slice (X ++ [a, b, c, d] ++ Y ++ Z) 0x18 4 = Z ∧
    (X ++ [a, b, c, d] ++ Y ++ Z).length = 0x1c ∧
    slice (X ++ [a, b, c, d] ++ Y ++ Z) 0 0x10 = X := by
  have e : X ++ [a, b, c, d] ++ Y ++ Z = X ++ (a :: b :: c :: d :: (Y ++ Z)) := by
    simp only [List.append_assoc, List.cons_append, List.nil_append]
  rw [e]
  refine ⟨?_, ?_, ?_, ?_, ?_, ?_, ?_⟩
  · rw [slice_append_right_of _ _ _ _ (by omega), hX]; rfl
  · rw [slice_append_right_of _ _ _ _ (by omega), hX]; rfl
  · rw [slice_append_right_of _ _ _ _ (by omega), hX]; rfl
  · rw [slice_append_right_of _ _ _ _ (by omega), hX]
    show (Y ++ Z).take 4 = Y
    rw [← hY, List.take_left]
  · rw [slice_append_right_of _ _ _ _ (by omega), hX]
    show ((Y ++ Z).drop 4).take 4 = Z
    rw [← hY, List.drop_left, hY, ← hZ, List.take_length]
  · simp only [List.length_append, List.length_cons, hX, hY, hZ]
  · show (X ++ _).take 0x10 = X
    rw [← hX, List.take_left]

theorem write_moby_sequence_eq (env : Env) (class_header_ofs : Nat) (format : MobyFormat)
    (dest : List Nat) (list_ofs : Nat) (sequence : MobySequence) :
    write_moby_sequence env class_header_ofs format dest list_ofs sequence =
      write_at (write_moby_frames class_header_ofs sequence.frames
          (write_at (pad dest 0x10 ++ List.replicate 0x1c 0) list_ofs
              (le_bytes 4 (to_unsigned 32 (((pad dest 0x10).length : Int) - class_header_ofs))) ++
            List.replicate (4 * sequence.frames.length) 0 ++
            (sequence.triggers.map (le_bytes 4)).flatten ++
            (sequence.trigger_data.map (raw_bytes env.sizeof_MobyTriggerData)).getD [])
          (write_at (pad dest 0x10 ++ List.replicate 0x1c 0) list_ofs
            (le_bytes 4 (to_unsigned 32 (((pad dest 0x10).length : Int) -
              class_header_ofs)))).length)
        (pad dest 0x10).length
        (raw_bytes 0x10 sequence.bounding_sphere ++
          [sequence.frames.length % 256, sequence.sound_count % 256,
            sequence.triggers.length % 256, if format = MobyFormat.RAC1 then 0 else 0xff] ++
          le_bytes 4 (if sequence.trigger_data.isSome then
            (write_at (pad dest 0x10 ++ List.replicate 0x1c 0) list_ofs
                (le_bytes 4 (to_unsigned 32 (((pad dest 0x10).length : Int) -
                  class_header_ofs))) ++
              List.replicate (4 * sequence.frames.length) 0 ++
              (sequence.triggers.map (le_bytes 4)).flatten).length - (pad dest 0x10).length
            else 0) ++
          le_bytes 4 sequence.animation_info) := by
  unfold write_moby_sequence
  cases sequence.trigger_data with
  | none => simp only [Option.map_none', Option.getD_none, List.append_nil, Option.isSome_none,
      Bool.false_eq_true, if_false]
  | some t => simp only [Option.map_some', Option.getD_some, Option.isSome_some, if_true]

theorem write_moby_sequence_spec (env : Env) (class_header_ofs : Nat) (format : MobyFormat)
    (dest : List Nat) (list_ofs : Nat) (sequence : MobySequence)
    (hl : list_ofs + 4 ≤ dest.length) :
    dest.length ≤
      (write_moby_sequence env class_header_ofs format dest list_ofs sequence).length ∧
    (∀ i, i < dest.length → (i < list_ofs ∨ list_ofs + 4 ≤ i) →
      (write_moby_sequence env class_header_ofs format dest list_ofs sequence)[i]? = dest[i]?) ∧
    ∃ o, o = (pad dest 0x10).length ∧ dest.length ≤ o ∧
      slice (write_moby_sequence env class_header_ofs format dest list_ofs sequence) list_ofs 4 =
        le_bytes 4 (to_unsigned 32 ((o : Int) - class_header_ofs)) ∧
      sequence_stored env
        (write_moby_sequence env class_header_ofs format dest list_ofs sequence)
        class_header_ofs o
        (write_moby_sequence env class_header_ofs format dest list_ofs sequence).length
        sequence := by
  rw [write_moby_sequence_eq]
  obtain ⟨d0, hd0⟩ : ∃ d0, d0 = pad dest 0x10 := ⟨_, rfl⟩
  rw [← hd0]
  have l0 : dest.length ≤ d0.length := by rw [hd0]; exact length_pad _ _
  have g0 : ∀ i, i < dest.length → d0[i]? = dest[i]? := fun i hi => by
    rw [hd0]; unfold pad; rw [List.getElem?_append_left hi]
  generalize hE : le_bytes 4 (to_unsigned 32 ((d0.length : Int) - class_header_ofs)) = E
  have lE : E.length = 4 := by rw [← hE, length_le_bytes]
  obtain ⟨d2, hd2⟩ : ∃ d2, d2 = write_at (d0 ++ List.replicate 0x1c 0) list_ofs E := ⟨_, rfl⟩
  rw [← hd2]
  have l2 : d2.length = d0.length + 0x1c := by
    rw [hd2, length_write_at, List.length_append, List.length_replicate]
  have g2 : ∀ i, i < d0.length → (i < list_ofs ∨ list_ofs + 4 ≤ i) → d2[i]? = d0[i]? :=
    fun i hi hr => by
      rw [hd2, getElem?_write_at, if_neg (by omega), List.getElem?_append_left hi]
  have s2 : slice d2 list_ofs 4 = E := by
    rw [hd2, ← lE]
    exact slice_write_at_self _ _ _
      (by rw [List.length_append, List.length_replicate]; omega)
  have lt := length_flatten_le_bytes 4 sequence.triggers
  obtain ⟨d4, hd4⟩ : ∃ d4, d4 = d2 ++ List.replicate (4 * sequence.frames.length) 0 ++
    (sequence.triggers.map (le_bytes 4)).flatten := ⟨_, rfl⟩
  rw [← hd4]
  have l4 : d4.length = d0.length + 0x1c + 4 * sequence.frames.length +
      4 * sequence.triggers.length := by
    rw [hd4, List.length_append, List.length_append, List.length_replicate, lt, l2]
  have g4 : ∀ i, i < d2.length → d4[i]? = d2[i]? := fun i hi => by
    rw [hd4, List.append_assoc, List.getElem?_append_left hi]
  have s4 : slice d4 (d0.length + 0x1c + 4 * sequence.frames.length)
      (4 * sequence.triggers.length) = (sequence.triggers.map (le_bytes 4)).flatten := by
    have := slice_append_right (d2 ++ List.replicate (4 * sequence.frames.length) 0)
      (sequence.triggers.map (le_bytes 4)).flatten
    rw [List.length_append, List.length_replicate, lt, l2, ← hd4] at this
    exact this
  obtain ⟨d5, hd5⟩ : ∃ d5, d5 = d4 ++
    (sequence.trigger_data.map (raw_bytes env.sizeof_MobyTriggerData)).getD [] := ⟨_, rfl⟩
  rw [← hd5]
  have l5 : d4.length ≤ d5.length := by
    rw [hd5, List.length_append]; omega
  have g5 : ∀ i, i < d4.length → d5[i]? = d4[i]? := fun i hi => by
    rw [hd5, List.getElem?_append_left hi]
  obtain ⟨a6, b6, c6⟩ := write_moby_frames_spec class_header_ofs sequence.frames d5 d2.length
    (by omega)
  generalize write_moby_frames class_header_ofs sequence.frames d5 d2.length = d6 at a6 b6 c6 ⊢
  obtain ⟨t, ht⟩ : ∃ t, t = (if sequence.trigger_data.isSome then d4.length - d0.length
    else 0) := ⟨_, rfl⟩
  rw [← ht]
  obtain ⟨hs1, hs2, hs3, hs4, hs5, hs6, hs7⟩ := sequence_header_slices
    (raw_bytes 0x10 sequence.bounding_sphere) (le_bytes 4 t) (le_bytes 4 sequence.animation_info)
    (sequence.frames.length % 256) (sequence.sound_count % 256) (sequence.triggers.length % 256)
    (if format = MobyFormat.RAC1 then 0 else 0xff) (length_raw_bytes _ _) (length_le_bytes _ _)
    (length_le_bytes _ _)
  generalize raw_bytes 0x10 sequence.bounding_sphere ++
    [sequence.frames.length % 256, sequence.sound_count % 256, sequence.triggers.length % 256,
      if format = MobyFormat.RAC1 then 0 else 0xff] ++ le_bytes 4 t ++
    le_bytes 4 sequence.animation_info = H at hs1 hs2 hs3 hs4 hs5 hs6 hs7 ⊢
  have l7 : (write_at d6 d0.length H).length = d6.length := length_write_at _ _ _
  have g7 : ∀ i, (i < d0.length ∨ d0.length + 0x1c ≤ i) → (write_at d6 d0.length H)[i]? = d6[i]? :=
    fun i hi => by rw [getElem?_write_at, if_neg (by omega)]
  have h7 : ∀ a w, a + w ≤ 0x1c → slice (write_at d6 d0.length H) (d0.length + a) w =
      slice H a w := fun a w h => slice_write_at _ _ _ _ _ (by omega) (by omega)
  have out7 : ∀ a w, d0.length + 0x1c ≤ a → slice (write_at d6 d0.length H) a w = slice d6 a w :=
    fun a w h => slice_write_at_disjoint _ _ _ _ _ (Or.inr (by omega))
  have out5 : ∀ a w, d0.length + 0x1c + 4 * sequence.frames.length ≤ a → a + w ≤ d5.length →
      slice d6 a w = slice d5 a w := fun a w h1 h2 =>
    slice_eq_of_agree _ _ _ _ (fun i i1 i2 => b6 i (by omega) (by omega))
  refine ⟨by omega, fun i hi hr => ?_, d0.length, by rw [hd0], l0, ?_, ?_⟩
  · rw [g7 i (by omega), b6 i (by omega) (by omega), g5 i (by omega), g4 i (by omega),
      g2 i (by omega) hr, g0 i hi]
  · rw [slice_write_at_disjoint _ _ _ _ _ (Or.inl (by omega)),
      slice_eq_of_agree d6 d2 list_ofs 4 (fun i h1 h2 => by
        rw [b6 i (by omega) (by omega), g5 i (by omega), g4 i (by omega)]), s2, hE]
  · rw [l7]
    refine ⟨by omega, le_of_eq l7.symm, ?_, ?_, ?_, ?_, ?_, fun hn => ?_, fun td htd => ?_,
      fun k hk => ?_, ?_⟩
    · rw [h7 0x10 1 (by omega), hs1]
    · rw [h7 0x11 1 (by omega), hs2]
    · rw [h7 0x12 1 (by omega), hs3]
    · rw [h7 0x18 4 (by omega), hs5]
    · rw [out7 _ _ (by omega), out5 _ _ (by omega) (by omega),
        slice_eq_of_agree d5 d4 _ _ (fun i h1 h2 => g5 i (by omega)), s4]
    · rw [h7 0x14 4 (by omega), hs4, ht, hn]
      rfl
    · rw [htd] at ht hd5
      simp only [Option.isSome_some, if_true, Option.map_some', Option.getD_some] at ht hd5
      refine ⟨t, by omega, ?_, by rw [h7 0x14 4 (by omega), hs4], ?_⟩
      · have : d5.length = d4.length + env.sizeof_MobyTriggerData := by
          rw [hd5, List.length_append, length_raw_bytes]
        omega
      · have l5e : d5.length = d4.length + env.sizeof_MobyTriggerData := by
          rw [hd5, List.length_append, length_raw_bytes]
        have e : d0.length + t = d4.length := by omega
        rw [e, out7 _ _ (by omega), out5 _ _ (by omega) (by omega), hd5]
        have := slice_append_right d4 (raw_bytes env.sizeof_MobyTriggerData td)
        rw [length_raw_bytes] at this
        exact this
    · obtain ⟨p, q1, q2, q3, q4, q5⟩ := c6 k hk
      refine ⟨p, by omega, q2, ?_, ?_, ?_⟩
      · have e : d0.length + 0x1c + 4 * k = d2.length + 4 * k := by omega
        rw [e, out7 _ _ (by omega), q3]
      · rw [out7 _ _ (by omega), q4]
      · rw [out7 _ _ (by omega), q5]
    · have := h7 0 0x10 (by omega)
      rw [Nat.add_zero] at this
      rw [this, hs7]

theorem write_moby_sequences_spec (env : Env) (class_header_ofs : Nat) (format : MobyFormat) :
    ∀ (seqs : List (Option MobySequence)) (dest : List Nat) (list_ofs : Nat),
      list_ofs + 4 * seqs.length ≤ dest.length →
      dest.length ≤
        (write_moby_sequences env class_header_ofs format seqs dest list_ofs).length ∧
      (∀ i, i < dest.length → (i < list_ofs ∨ list_ofs + 4 * seqs.length ≤ i) →
        (write_moby_sequences env class_header_ofs format seqs dest list_ofs)[i]? = dest[i]?) ∧
      ∀ k, k < seqs.length →
        (seqs.getD k none = none →
          slice (write_moby_sequences env class_header_ofs format seqs dest list_ofs)
            (list_ofs + 4 * k) 4 = le_bytes 4 0) ∧
        (∀ sequence, seqs.getD k none = some sequence →
          ∃ o hi, dest.length ≤ o ∧
            slice (write_moby_sequences env class_header_ofs format seqs dest list_ofs)
              (list_ofs + 4 * k) 4 = le_bytes 4 (to_unsigned 32 ((o : Int) - class_header_ofs)) ∧
            sequence_stored env
              (write_moby_sequences env class_header_ofs format seqs dest list_ofs)
              class_header_ofs o hi sequence) := by
  intro seqs
  induction seqs with
  | nil =>
    intro dest list_ofs _
    exact ⟨le_refl _, fun _ _ _ => rfl, fun k hk => absurd hk (by simp)⟩
  | cons s rest ih =>
    intro dest list_ofs ho
    rw [List.length_cons] at ho
    cases s with
    | none =>
      unfold write_moby_sequences
      have lz : (le_bytes 4 0).length = 4 := length_le_bytes _ _
      obtain ⟨d1, hd1⟩ : ∃ d1, d1 = write_at dest list_ofs (le_bytes 4 0) := ⟨_, rfl⟩
      rw [← hd1]
      have l1 : d1.length = dest.length := by rw [hd1, length_write_at]
      have g1 : ∀ i, (i < list_ofs ∨ list_ofs + 4 ≤ i) → d1[i]? = dest[i]? := fun i hi => by
        rw [hd1, getElem?_write_at, if_neg (by omega)]
      obtain ⟨a, b, c⟩ := ih d1 (list_ofs + 4) (by omega)
      refine ⟨by omega, fun i hi hr => ?_, fun k hk => ?_⟩
      · rw [List.length_cons] at hr
        rw [b i (by omega) (by omega), g1 i (by omega)]
      · cases k with
        | zero =>
          refine ⟨fun _ => ?_, fun sequence hs => absurd hs (by simp)⟩
          show slice _ list_ofs 4 = _
          rw [slice_eq_of_agree _ d1 list_ofs 4 (fun i h1 h2 => b i (by omega) (by omega)),
            hd1]
          have hw := slice_write_at_self dest list_ofs (le_bytes 4 0) (by rw [lz]; omega)
          rw [lz] at hw
          exact hw
        | succ k =>
          rw [List.length_cons] at hk
          obtain ⟨c1, c2⟩ := c k (by omega)
          have e : list_ofs + 4 + 4 * k = list_ofs + 4 * (k + 1) := by omega
          rw [e] at c1 c2
          refine ⟨c1, fun sequence hs => ?_⟩
          obtain ⟨o, hi, q1, q2, q3⟩ := c2 sequence hs
          exact ⟨o, hi, by omega, q2, q3⟩
    | some sequence =>
      unfold write_moby_sequences
      obtain ⟨a1, b1, o, _, o1, o2, o3⟩ := write_moby_sequence_spec env class_header_ofs format
        dest list_ofs sequence (by omega)
      generalize write_moby_sequence env class_header_ofs format dest list_ofs sequence = d1
        at a1 b1 o2 o3 ⊢
      obtain ⟨a, b, c⟩ := ih d1 (list_ofs + 4) (by omega)
      refine ⟨by omega, fun i hi hr => ?_, fun k hk => ?_⟩
      · rw [List.length_cons] at hr
        rw [b i (by omega) (by omega), b1 i hi (by omega)]
      · cases k with
        | zero =>
          refine ⟨fun hn => absurd hn (by simp), fun sequence1 hs => ?_⟩
          have es : sequence = sequence1 := by
            simp only [List.getD_cons_zero, Option.some.injEq] at hs
            exact hs
          subst es
          refine ⟨o, d1.length, o1, ?_, ?_⟩
          · show slice _ list_ofs 4 = _
            rw [slice_eq_of_agree _ d1 list_ofs 4 (fun i h1 h2 => b i (by omega) (by omega)), o2]
          · exact sequence_stored_of_agree o3 (fun i h1 h2 => b i h2 (by omega)) a
        | succ k =>
          rw [List.length_cons] at hk
          obtain ⟨c1, c2⟩ := c k (by omega)
          have e : list_ofs + 4 + 4 * k = list_ofs + 4 * (k + 1) := by omega
          rw [e] at c1 c2
          refine ⟨c1, fun sequence1 hs => ?_⟩
          obtain ⟨o, hi, q1, q2, q3⟩ := c2 sequence1 hs
          exact ⟨o, hi, by omega, q2, q3⟩

theorem le_value_le_bytes_one (v : Nat) : le_value (le_bytes 1 v) = v % 256 := by
  simp only [le_bytes, le_value]
  omega

theorem frame_header_fields (f : MobyFrame) :
    le_value ((frame_header_bytes f).take 4) = f.unknown_0 % 2 ^ 32 ∧
    le_value (((frame_header_bytes f).drop 4).take 2) = f.unknown_4 % 2 ^ 16 ∧
    le_value (((frame_header_bytes f).drop 6).take 2) = f.data.length / 0x10 % 2 ^ 16 ∧
    le_value (((frame_header_bytes f).drop 8).take 4) = f.unknown_8 % 2 ^ 32 ∧
    le_value (((frame_header_bytes f).drop 0xc).take 1) = f.unknown_c % 256 ∧
    le_value (((frame_header_bytes f).drop 0xd).take 1) = f.unknown_d % 256 :=
  ⟨le_value_le_bytes_four _, le_value_le_bytes_two _, le_value_le_bytes_two _,
    le_value_le_bytes_four _, le_value_le_bytes_one _, le_value_le_bytes_one _⟩

theorem unsigned_offset (p c : Nat) (h1 : c ≤ p) (h2 : p - c < 2 ^ 32) :
    to_unsigned 32 ((p : Int) - c) = p - c := by
  unfold to_unsigned
  have e : ((2 ^ 32 : Nat) : Int) = 4294967296 := by norm_num
  have e2 : (2 : Nat) ^ 32 = 4294967296 := by norm_num
  rw [e]
  rw [e2] at h2
  omega

theorem read_moby_frames_cons (src : List Nat) (entry : List Nat) (rest : List (List Nat))
    (m : Int) :
    read_moby_frames src (entry :: rest) m =
      match read_bytes src ((le_value entry % 0x10000000 : Nat) : Int) 0x10
          "moby frame header" with
      | .error e => .error e
      | .ok h =>
        match read_bytes src (((le_value entry % 0x10000000 : Nat) : Int) + 0x10)
            (((le_value ((h.drop 6).take 2) : Nat) : Int) * 0x10) "frame data" with
        | .error e => .error e
        | .ok data =>
          match read_moby_frames src rest (max m (((le_value entry % 0x10000000 : Nat) : Int) +
              0x10 + ((le_value ((h.drop 6).take 2) : Nat) : Int) * 0x10)) with
          | .error e => .error e
          | .ok (frames, m1) =>
            .ok ({ unknown_0 := le_value (h.take 4), unknown_4 := le_value ((h.drop 4).take 2),
                   unknown_8 := le_value ((h.drop 8).take 4),
                   unknown_c := le_value ((h.drop 0xc).take 1),
                   unknown_d := le_value ((h.drop 0xd).take 1), data := data } :: frames, m1) :=
  rfl

theorem read_moby_frames_eq (b : List Nat) (c : Nat) (hs : b.length - c < 2 ^ 28) :
    ∀ (frames : List MobyFrame) (entries : List (List Nat)) (m : Int),
      entries.length = frames.length →
      (∀ k, k < frames.length → ∃ p, c ≤ p ∧
        p + 0x10 + (frames.getD k ⟨0, 0, 0, 0, 0, []⟩).data.length ≤ b.length ∧
        entries.getD k [] = le_bytes 4 (to_unsigned 32 ((p : Int) - c)) ∧
        slice b p 0x10 = frame_header_bytes (frames.getD k ⟨0, 0, 0, 0, 0, []⟩) ∧
        slice b (p + 0x10) (frames.getD k ⟨0, 0, 0, 0, 0, []⟩).data.length =
          (frames.getD k ⟨0, 0, 0, 0, 0, []⟩).data.map (fun x => x % 256)) →
      (∀ f ∈ frames, frame_fits f) →
      ∃ m1, read_moby_frames (b.drop c) entries m = .ok (frames, m1) ∧ m ≤ m1 ∧
        (∀ k, k < frames.length →
          ((le_value (entries.getD k []) % 0x10000000 : Nat) : Int) + 0x10 +
            (((frames.getD k ⟨0, 0, 0, 0, 0, []⟩).data.length : Nat) : Int) ≤ m1) ∧
        ∀ top : Int, m ≤ top →
          (∀ k, k < frames.length →
            ((le_value (entries.getD k []) % 0x10000000 : Nat) : Int) + 0x10 +
              (((frames.getD k ⟨0, 0, 0, 0, 0, []⟩).data.length : Nat) : Int) ≤ top) →
          m1 ≤ top := by
  have e28 : (2 : Nat) ^ 28 = 268435456 := by norm_num
  have e32 : (2 : Nat) ^ 32 = 4294967296 := by norm_num
  have e16 : (2 : Nat) ^ 16 = 65536 := by norm_num
  rw [e28] at hs
  have ls : (b.drop c).length = b.length - c := List.length_drop _ _
  intro frames
  induction frames with
  | nil =>
    intro entries m hl _ _
    cases entries with
    | nil => exact ⟨m, rfl, le_refl _, fun k hk => absurd hk (by simp), fun top ht _ => ht⟩
    | cons e t => cases hl
  | cons f rest ih =>
    intro entries m hl h hf
    cases entries with
    | nil => cases hl
    | cons entry t =>
      obtain ⟨p, p1, p2, p3, p4, p5⟩ := h 0 (by simp)
      simp only [List.getD_cons_zero] at p2 p3 p4 p5
      obtain ⟨f1, f2, f3, f4, f5, f6, f7, f8⟩ := hf f (List.mem_cons_self _ _)
      rw [e32] at f1 f3
      rw [e16] at f2 f8
      obtain ⟨q1, q2, q3, q4, q5, q6⟩ := frame_header_fields f
      rw [read_moby_frames_cons]
      have eo : le_value entry % 0x10000000 = p - c := by
        rw [p3, le_value_le_bytes_four, unsigned_offset p c p1 (by omega), e32]
        omega
      have r1 : read_bytes (b.drop c) ((p - c : Nat) : Int) 0x10 "moby frame header" =
          .ok (frame_header_bytes f) := by
        have := read_bytes_eq (b.drop c) (p - c) 0x10 "moby frame header" (by rw [ls]; omega)
        rw [slice_drop, Nat.add_sub_cancel' p1, p4] at this
        exact this
      rw [eo, r1]
      simp only
      rw [q3, e16, Nat.mod_eq_of_lt f8]
      have r2 : read_bytes (b.drop c) (((p - c : Nat) : Int) + 0x10)
          (((f.data.length / 0x10 : Nat) : Int) * 0x10) "frame data" = .ok f.data := by
        have := read_bytes_eq (b.drop c) (p - c + 0x10) f.data.length "frame data"
          (by rw [ls]; omega)
        rw [slice_drop, ← Nat.add_assoc, Nat.add_sub_cancel' p1, p5, map_mod_self _ f6] at this
        rw [← this]
        congr 1
        all_goals (push_cast; omega)
      rw [r2]
      simp only
      obtain ⟨m1, hm1, b1, b2, b3⟩ := ih t (max m (((p - c : Nat) : Int) + 0x10 +
        ((f.data.length / 0x10 : Nat) : Int) * 0x10)) (by simpa using hl)
        (fun k hk => by
          have := h (k + 1) (by simp; omega)
          simpa using this)
        (fun g hg => hf g (List.mem_cons_of_mem _ hg))
      rw [hm1]
      simp only
      have ee : ((p - c : Nat) : Int) + 0x10 + ((f.data.length / 0x10 : Nat) : Int) * 0x10 =
          ((p - c : Nat) : Int) + 0x10 + ((f.data.length : Nat) : Int) := by omega
      rw [ee] at b1 b3
      refine ⟨m1, ?_, le_trans (le_max_left _ _) b1, fun k hk => ?_, fun top ht hk => ?_⟩
      · congr 3
        rw [q1, q2, q4, q5, q6, e32, e16, Nat.mod_eq_of_lt f1, Nat.mod_eq_of_lt f2,
          Nat.mod_eq_of_lt f3, Nat.mod_eq_of_lt f4, Nat.mod_eq_of_lt f5]
      · cases k with
        | zero =>
          simp only [List.getD_cons_zero]
          rw [eo]
          exact le_trans (le_max_right _ _) b1
        | succ k =>
          simp only [List.getD_cons_succ]
          exact b2 k (by simpa using hk)
      · refine b3 top (max_le ht ?_) (fun k hk1 => ?_)
        · have := hk 0 (by simp)
          simp only [List.getD_cons_zero] at this
          rw [eo] at this
          exact this
        · have := hk (k + 1) (by simp; omega)
          simpa using this

theorem slice_sub (l : List Nat) (a n o w : Nat) (h : o + w ≤ n) :
    ((slice l a n).drop o).take w = slice l (a + o) w := slice_slice l a n o w h

theorem map_le_value_le_bytes_four (l : List Nat) (h : ∀ t ∈ l, t < 2 ^ 32) :
    (l.map (le_bytes 4)).map le_value = l := by
  induction l with
  | nil => rfl
  | cons x t ih =>
    rw [List.map_cons, List.map_cons, le_value_le_bytes_four,
      Nat.mod_eq_of_lt (h x (List.mem_cons_self _ _)),
      ih (fun y hy => h y (List.mem_cons_of_mem _ hy))]

theorem stored_offset_value (p c : Nat) (h1 : c ≤ p) (h2 : p - c < 2 ^ 28) :
    le_value (le_bytes 4 (to_unsigned 32 ((p : Int) - c))) % 0x10000000 = p - c := by
  have e28 : (2 : Nat) ^ 28 = 268435456 := by norm_num
  have e32 : (2 : Nat) ^ 32 = 4294967296 := by norm_num
  rw [e28] at h2
  rw [le_value_le_bytes_four, unsigned_offset p c h1 (by rw [e32]; omega), e32]
  omega

theorem read_moby_sequence_eq (env : Env) (b : List Nat) (c o hi : Nat) (s : MobySequence)
    (hst : sequence_stored env b c o hi s) (hc : c ≤ o) (hs : b.length - c < 2 ^ 28)
    (hf : sequence_fits env s) (m : Int) :
    ∃ d m1, read_moby_sequence env (b.drop c) ((o - c : Nat) : Int) m = .ok (d, m1) ∧
      (d.frames = s.frames ∧ d.triggers = s.triggers ∧ d.trigger_data = s.trigger_data ∧
        d.animation_info = s.animation_info ∧ d.sound_count = s.sound_count) ∧
      d.bounding_sphere = raw_bytes 0x10 s.bounding_sphere ∧ m ≤ m1 ∧
      m1 ≤ max m ((hi : Int) - c) ∧
      ∀ k p, k < s.frames.length → c ≤ p → p - c < 2 ^ 28 →
        slice b (o + 0x1c + 4 * k) 4 = le_bytes 4 (to_unsigned 32 ((p : Int) - c)) →
        (p : Int) - c + 0x10 + (((s.frames.getD k ⟨0, 0, 0, 0, 0, []⟩).data.length : Nat) : Int) ≤
          m1 := by
  have e28 : (2 : Nat) ^ 28 = 268435456 := by norm_num
  have e32 : (2 : Nat) ^ 32 = 4294967296 := by norm_num
  obtain ⟨h1, h2, h3, h4, h5, h6, h7, h8, h9, h10, h11⟩ := hst
  obtain ⟨f1, f2, f3, f4, f5, f6, f7⟩ := hf
  have hs1 := hs
  rw [e28] at hs1
  rw [e32] at f4
  have ls : (b.drop c).length = b.length - c := List.length_drop _ _
  have r0 : read_bytes (b.drop c) ((o - c : Nat) : Int) 0x1c "moby sequence header" =
      .ok (slice b o 0x1c) := by
    have := read_bytes_eq (b.drop c) (o - c) 0x1c "moby sequence header" (by rw [ls]; omega)
    rw [slice_drop, Nat.add_sub_cancel' hc] at this
    exact this
  have a0 : (slice b o 0x1c).take 0x10 = raw_bytes 0x10 s.bounding_sphere := by
    rw [← h11]
    unfold slice
    rw [List.take_take]
    rfl
  have a1 : ((slice b o 0x1c).drop 0x10).take 1 = [s.frames.length % 256] := by
    rw [slice_sub _ _ _ _ _ (by omega), h3]
  have a2 : ((slice b o 0x1c).drop 0x11).take 1 = [s.sound_count % 256] := by
    rw [slice_sub _ _ _ _ _ (by omega), h4]
  have a3 : ((slice b o 0x1c).drop 0x12).take 1 = [s.triggers.length % 256] := by
    rw [slice_sub _ _ _ _ _ (by omega), h5]
  have a4 : ((slice b o 0x1c).drop 0x18).take 4 = le_bytes 4 s.animation_info := by
    rw [slice_sub _ _ _ _ _ (by omega), h6]
  have a5 : ((slice b o 0x1c).drop 0x14).take 4 = slice b (o + 0x14) 4 :=
    slice_sub _ _ _ _ _ (by omega)
  have rt : read_multiple (b.drop c) 4 (((o - c : Nat) : Int) + 0x1c)
      ((s.frames.length : Nat) : Int) "moby sequence table" =
      .ok (chunks 4 s.frames.length (slice b (o + 0x1c) (s.frames.length * 4))) := by
    have := read_multiple_eq (b.drop c) 4 (o - c + 0x1c) s.frames.length "moby sequence table"
      (by rw [ls]; omega)
    rw [slice_drop, ← Nat.add_assoc, Nat.add_sub_cancel' hc] at this
    rw [← this]
    congr 1
  have hck : ∀ k, k < s.frames.length →
      (chunks 4 s.frames.length (slice b (o + 0x1c) (s.frames.length * 4))).getD k [] =
        slice b (o + 0x1c + 4 * k) 4 := fun k hk => by
    rw [chunks_getD _ _ _ _ hk]
    exact slice_slice b (o + 0x1c) (s.frames.length * 4) (4 * k) 4 (by omega)
  obtain ⟨m1, rf, b1, b2, b3⟩ := read_moby_frames_eq b c hs s.frames
    (chunks 4 s.frames.length (slice b (o + 0x1c) (s.frames.length * 4))) m
    (chunks_length _ _ _) (fun k hk => by
      obtain ⟨p, p1, p2, p3, p4, p5⟩ := h10 k hk
      exact ⟨p, by omega, by omega, by rw [hck k hk, p3], p4, p5⟩) f7
  have rg : read_multiple (b.drop c) 4 (((o - c : Nat) : Int) + 0x1c +
      ((s.frames.length : Nat) : Int) * 4) ((s.triggers.length : Nat) : Int)
      "moby sequence trigger list" = .ok (s.triggers.map (le_bytes 4)) := by
    have := read_multiple_eq (b.drop c) 4 (o - c + 0x1c + 4 * s.frames.length) s.triggers.length
      "moby sequence trigger list" (by rw [ls]; omega)
    have eo : c + (o - c + 0x1c + 4 * s.frames.length) = o + 0x1c + 4 * s.frames.length := by
      omega
    rw [slice_drop, eo, Nat.mul_comm s.triggers.length 4, h7] at this
    have hc4 := chunks_flatten 4 (s.triggers.map (le_bytes 4)) (fun v hv => by
      obtain ⟨x, _, rfl⟩ := List.mem_map.mp hv
      exact length_le_bytes _ _)
    rw [List.length_map] at hc4
    rw [hc4] at this
    rw [← this]
    congr 1
    push_cast
    ring
  have up : m1 ≤ max m ((hi : Int) - c) := b3 _ (le_max_left _ _) (fun k hk => by
    obtain ⟨p, p1, p2, p3, p4, p5⟩ := h10 k hk
    rw [hck k hk, p3, stored_offset_value p c (by omega) (by omega)]
    refine le_trans ?_ (le_max_right _ _)
    omega)
  have lo : ∀ k p, k < s.frames.length → c ≤ p → p - c < 2 ^ 28 →
      slice b (o + 0x1c + 4 * k) 4 = le_bytes 4 (to_unsigned 32 ((p : Int) - c)) →
      (p : Int) - c + 0x10 + (((s.frames.getD k ⟨0, 0, 0, 0, 0, []⟩).data.length : Nat) : Int) ≤
        m1 := fun k p hk p1 p2 p3 => by
    have := b2 k hk
    rw [hck k hk, p3, stored_offset_value p c p1 p2] at this
    omega
  have ha : le_value (le_bytes 4 s.animation_info) = s.animation_info := by
    rw [le_value_le_bytes_four, e32, Nat.mod_eq_of_lt f4]
  unfold read_moby_sequence
  rw [r0]
  simp only [bind, Except.bind, a0, a1, a2, a3, a4, a5, le_value_byte]
  simp only [Nat.mod_eq_of_lt f1, Nat.mod_eq_of_lt f2, Nat.mod_eq_of_lt f3]
  simp only [rt, rf, rg, pure, Except.pure]
  cases htd : s.trigger_data with
  | none =>
    rw [h8 htd]
    exact ⟨_, _, rfl, ⟨rfl, map_le_value_le_bytes_four _ f5, rfl, ha, rfl⟩, rfl, b1, up, lo⟩
  | some td =>
    obtain ⟨ofs, q1, q2, q3, q4⟩ := h9 td htd
    obtain ⟨g1, g2⟩ := f6 td (by rw [htd]; rfl)
    rw [q3, le_value_le_bytes_four, e32, Nat.mod_eq_of_lt (by omega)]
    have hu : to_unsigned 32 (((o - c : Nat) : Int) + ((ofs : Nat) : Int)) = o - c + ofs := by
      unfold to_unsigned
      have e : ((2 ^ 32 : Nat) : Int) = 4294967296 := by norm_num
      rw [e]
      omega
    have rd : read_bytes (b.drop c) ((o - c + ofs : Nat) : Int)
        env.sizeof_MobyTriggerData "moby sequence trigger data" = .ok td := by
      have := read_bytes_eq (b.drop c) (o - c + ofs) env.sizeof_MobyTriggerData
        "moby sequence trigger data" (by rw [ls]; omega)
      rw [slice_drop, ← Nat.add_assoc, Nat.add_sub_cancel' hc, q4,
        raw_bytes_self td _ g1 g2] at this
      exact this
    rw [if_pos (by omega), hu, rd]
    exact ⟨_, _, rfl, ⟨rfl, map_le_value_le_bytes_four _ f5, rfl, ha, rfl⟩, rfl, b1, up, lo⟩

theorem read_moby_sequence_list_eq (env : Env) (b : List Nat) (c top : Nat)
    (hs : b.length - c < 2 ^ 28) :
    ∀ (seqs : List (Option MobySequence)) (entries : List (List Nat)) (m : Int),
      entries.length = seqs.length →
      (∀ k, k < seqs.length →
        (seqs.getD k none = none → entries.getD k [] = le_bytes 4 0) ∧
        (∀ s, seqs.getD k none = some s → ∃ o hi, c < o ∧ hi ≤ top ∧
          entries.getD k [] = le_bytes 4 (to_unsigned 32 ((o : Int) - c)) ∧
          sequence_stored env b c o hi s)) →
      (∀ s, some s ∈ seqs → sequence_fits env s) →
      ∃ decoded m1, read_moby_sequence_list env (b.drop c) entries m = .ok (decoded, m1) ∧
        decoded.length = seqs.length ∧
        (∀ k, k < seqs.length →
          (seqs.getD k none = none → decoded.getD k none = none) ∧
          (∀ s, seqs.getD k none = some s →
            ∃ d, decoded.getD k none = some d ∧ sequence_agrees d s ∧
              d.bounding_sphere = raw_bytes 0x10 s.bounding_sphere)) ∧
        m ≤ m1 ∧ m1 ≤ max m ((top : Int) - c) ∧
        ∀ k s o j p, k < seqs.length → seqs.getD k none = some s → c < o → o - c < 2 ^ 28 →
          entries.getD k [] = le_bytes 4 (to_unsigned 32 ((o : Int) - c)) →
          j < s.frames.length → c ≤ p → p - c < 2 ^ 28 →
          slice b (o + 0x1c + 4 * j) 4 = le_bytes 4 (to_unsigned 32 ((p : Int) - c)) →
          (p : Int) - c + 0x10 +
            (((s.frames.getD j ⟨0, 0, 0, 0, 0, []⟩).data.length : Nat) : Int) ≤ m1 := by
  have e28 : (2 : Nat) ^ 28 = 268435456 := by norm_num
  have e31 : (2 : Int) ^ 31 = 2147483648 := by norm_num
  intro seqs
  induction seqs with
  | nil =>
    intro entries m hl _ _
    cases entries with
    | nil =>
      exact ⟨[], m, rfl, rfl, fun k hk => absurd hk (by simp), le_refl _, le_max_left _ _,
        fun k s o j p hk => absurd hk (by simp)⟩
    | cons e t => cases hl
  | cons s rest ih =>
    intro entries m hl h hf
    cases entries with
    | nil => cases hl
    | cons entry t =>
      have h0 := h 0 (by simp)
      simp only [List.getD_cons_zero] at h0
      have hrest := fun m1 => ih t m1 (by simpa using hl) (fun k hk => by
          have := h (k + 1) (by simp; omega)
          simpa using this) (fun s1 hs1 => hf s1 (List.mem_cons_of_mem _ hs1))
      cases s with
      | none =>
        have he := h0.1 rfl
        obtain ⟨decoded, m2, r1, r2, r3, r4, r5, r6⟩ := hrest m
        refine ⟨none :: decoded, m2, ?_, by simp [r2], fun k hk => ?_, r4, r5,
          fun k s o j p hk hsome => ?_⟩
        · rw [read_moby_sequence_list, he, if_pos (by decide), r1]
        · cases k with
          | zero => exact ⟨fun _ => rfl, fun s1 h1 => absurd h1 (by simp)⟩
          | succ k =>
            simp only [List.length_cons] at hk
            simpa using r3 k (by omega)
        · cases k with
          | zero => exact absurd hsome (by simp)
          | succ k =>
            simp only [List.length_cons] at hk
            simp only [List.getD_cons_succ] at hsome ⊢
            exact r6 k s o j p (by omega) hsome
      | some s =>
        obtain ⟨o, hi, o1, ot, o2, o3⟩ := h0.2 s rfl
        have ob : o - c < 2 ^ 28 := by
          have := o3.2.1
          have := o3.1
          omega
        have hoff : to_signed 32 (le_value entry) = ((o - c : Nat) : Int) := by
          rw [o2]
          rw [e28] at ob
          have e : ((o - c : Nat) : Int) = (o : Int) - c := by omega
          rw [e]
          exact signed_round_trip _ (by omega) (by omega)
        obtain ⟨d, m1, q1, q2, q3, q4, q5, q6⟩ := read_moby_sequence_eq env b c o hi s o3
          (by omega) hs (hf s (List.mem_cons_self _ _)) m
        obtain ⟨decoded, m2, r1, r2, r3, r4, r5, r6⟩ := hrest m1
        refine ⟨some d :: decoded, m2, ?_, by simp [r2], fun k hk => ?_, le_trans q4 r4, ?_,
          fun k s1 o1 j p hk hsome => ?_⟩
        · rw [read_moby_sequence_list, hoff, if_neg (by omega), q1]
          simp only
          rw [r1]
        · cases k with
          | zero =>
            refine ⟨fun h1 => absurd h1 (by simp), fun s1 h1 => ?_⟩
            simp only [List.getD_cons_zero, Option.some.injEq] at h1
            rw [← h1]
            exact ⟨d, rfl, q2, q3⟩
          | succ k =>
            simp only [List.length_cons] at hk
            simpa using r3 k (by omega)
        · refine le_trans r5 (max_le (le_trans q5 (max_le (le_max_left _ _) ?_))
            (le_max_right _ _))
          refine le_trans ?_ (le_max_right _ _)
          omega
        · cases k with
          | zero =>
            intro c1 c2 c3 c4 c5 c6 c7
            simp only [List.getD_cons_zero, Option.some.injEq] at hsome c3
            subst hsome
            have eo : o1 = o := by
              have x1 := stored_offset_value o1 c (by omega) c2
              have x2 := stored_offset_value o c (by omega) ob
              rw [← c3, o2, x2] at x1
              omega
            subst eo
            exact le_trans (q6 j p c4 c5 c6 c7) r4
          | succ k =>
            simp only [List.length_cons] at hk
            simp only [List.getD_cons_succ] at hsome ⊢
            exact r6 k s1 o1 j p (by omega) hsome

/-- C32: for every list of optional sequences whose members hold values of
their types, whose frames each hold a multiple of 0x10 data bytes and whose
counts fit their header fields, written behind the sequence offset table at
`class_header_ofs + 0x48` into a class shorter than 2^28 bytes,
`read_moby_sequences` applied to the output of `write_moby_sequences` returns
a list of the same length, absent where the written list is absent (the
offset stored is 0), and in which each present sequence has the frames, the
triggers, the optional trigger data, `animation_info` and `sound_count` of
the written one. -/
theorem sequences_round_trip (env : Env) (class_header_ofs : Nat) (format : MobyFormat)
    (seqs : List (Option MobySequence)) (dest : List Nat) (mystery_data_ofs : Int)
    (hd : class_header_ofs + 0x48 + 4 * seqs.length ≤ dest.length)
    (hf : ∀ s, some s ∈ seqs → sequence_fits env s)
    (hs : (write_moby_sequences env class_header_ofs format seqs dest
      (class_header_ofs + 0x48)).length - class_header_ofs < 2 ^ 28) :
    ∃ decoded m1,
      read_moby_sequences env
        ((write_moby_sequences env class_header_ofs format seqs dest
          (class_header_ofs + 0x48)).drop class_header_ofs)
        (seqs.length : Int) mystery_data_ofs = .ok (decoded, m1) ∧
      decoded.length = seqs.length ∧
      ∀ k, k < seqs.length →
        (seqs.getD k none = none →
          decoded.getD k none = none ∧
          slice (write_moby_sequences env class_header_ofs format seqs dest
            (class_header_ofs + 0x48)) (class_header_ofs + 0x48 + 4 * k) 4 = [0, 0, 0, 0]) ∧
        (∀ s, seqs.getD k none = some s →
          ∃ d, decoded.getD k none = some d ∧ sequence_agrees d s) := by
  obtain ⟨a, b, c⟩ := write_moby_sequences_spec env class_header_ofs format seqs dest
    (class_header_ofs + 0x48) hd
  generalize write_moby_sequences env class_header_ofs format seqs dest
    (class_header_ofs + 0x48) = R at a b c hs ⊢
  have ls : (R.drop class_header_ofs).length = R.length - class_header_ofs :=
    List.length_drop _ _
  have rt : read_multiple (R.drop class_header_ofs) 4 0x48 ((seqs.length : Nat) : Int)
      "moby sequences" =
      .ok (chunks 4 seqs.length (slice R (class_header_ofs + 0x48) (seqs.length * 4))) := by
    have := read_multiple_eq (R.drop class_header_ofs) 4 0x48 seqs.length "moby sequences"
      (by rw [ls]; omega)
    rw [slice_drop] at this
    exact this
  have he : ∀ k, k < seqs.length →
      (chunks 4 seqs.length (slice R (class_header_ofs + 0x48) (seqs.length * 4))).getD k [] =
        slice R (class_header_ofs + 0x48 + 4 * k) 4 := fun k hk => by
    rw [chunks_getD _ _ _ _ hk]
    exact slice_slice R _ _ _ _ (by omega)
  obtain ⟨decoded, m1, r1, r2, r3, _⟩ := read_moby_sequence_list_eq env R class_header_ofs
    R.length hs seqs
    (chunks 4 seqs.length (slice R (class_header_ofs + 0x48) (seqs.length * 4)))
    mystery_data_ofs (chunks_length _ _ _)
    (fun k hk => ⟨fun hn => by rw [he k hk, (c k hk).1 hn], fun s hsome => by
      obtain ⟨o, hi, o1, o2, o3⟩ := (c k hk).2 s hsome
      exact ⟨o, hi, by omega, o3.2.1, by rw [he k hk, o2], o3⟩⟩) hf
  refine ⟨decoded, m1, ?_, r2, fun k hk => ⟨fun hn => ⟨(r3 k hk).1 hn, ?_⟩, fun s hsome => ?_⟩⟩
  · unfold read_moby_sequences
    rw [rt]
    exact r1
  · rw [(c k hk).1 hn]
    rfl
  · obtain ⟨d, d1, d2, _⟩ := (r3 k hk).2 s hsome
    exact ⟨d, d1, d2⟩

set_option maxRecDepth 100000 in
/-- The theorem `sequences_round_trip` at an absent sequence followed by
`sample_sequence`, written for RAC2 behind a zeroed header and offset table. -/
theorem sequences_round_trip_witness :
    0 + 0x48 + 4 * [none, some sample_sequence].length ≤ (List.replicate 0x50 0).length ∧
    (∀ s, some s ∈ [none, some sample_sequence] → sequence_fits example_env s) ∧
    (write_moby_sequences example_env 0 MobyFormat.RAC2 [none, some sample_sequence]
      (List.replicate 0x50 0) (0 + 0x48)).length - 0 < 2 ^ 28 ∧
    ∃ decoded m1,
      read_moby_sequences example_env
        ((write_moby_sequences example_env 0 MobyFormat.RAC2 [none, some sample_sequence]
          (List.replicate 0x50 0) (0 + 0x48)).drop 0)
        ([none, some sample_sequence].length : Int) 0 = .ok (decoded, m1) ∧
      decoded.length = [none, some sample_sequence].length :=
  have h1 : 0 + 0x48 + 4 * [none, some sample_sequence].length ≤
      (List.replicate 0x50 0).length := by decide
  have h2 : ∀ s, some s ∈ [none, some sample_sequence] → sequence_fits example_env s := by
    intro s hs
    simp only [List.mem_cons, reduceCtorEq, Option.some.injEq, List.mem_singleton,
      List.not_mem_nil, or_false, false_or] at hs
    rw [hs]
    refine ⟨by decide, by decide, by decide, by decide, by decide, ?_, ?_⟩
    · intro t ht
      cases ht
      exact ⟨rfl, by decide⟩
    · intro f hf
      simp only [sample_sequence, List.mem_singleton] at hf
      rw [hf]
      unfold frame_fits
      decide
  have h3 : (write_moby_sequences example_env 0 MobyFormat.RAC2 [none, some sample_sequence]
      (List.replicate 0x50 0) (0 + 0x48)).length - 0 < 2 ^ 28 := by decide
  ⟨h1, h2, h3, (sequences_round_trip example_env 0 MobyFormat.RAC2 [none, some sample_sequence]
    (List.replicate 0x50 0) 0 h1 h2 h3).elim
    (fun decoded h => h.elim (fun m1 h => ⟨decoded, m1, h.1, h.2.1⟩))⟩

/-! ### The game information file (C40) -/

/-- The fix-ups of `wtf_parse` work in place: in the text `a: 'x\' b: 'y'` the
string of `a` ends at the quote behind the backslash for `parse_string`, while
`fixup_string` drops the escaped quote and moves the characters up to the next
quote down, over the key of `b`; the keys read from the buffer are "a" and the
empty string, the strings "x b:" and "y". -/
theorem escaped_quote_runs_over (strtof : List Char → Nat) :
    (match wtf_parse strtof ("a: 'x".toList ++ [backslash_char] ++ "' b: 'y'".toList) with
     | .ok (WtfParsed.root root buffer) =>
       some (root.attributes.map (fun a => c_string buffer a.1),
         root.attributes.map (fun a => match a.2 with
           | WtfValue.string p => c_string buffer p
           | _ => []))
     | _ => none) = some (["a".toList, []], ["x b:".toList, "y".toList]) :=
  rfl

/-- C40, the code at the failing input: for the game "dl" and the type
EXTRACTED, `write_game_info` writes the two attributes `game` and `type`, the
second with the value "extracted", and `read_game_info` gives the type MOD,
because lines 89-93 compare the value of the attribute `game`; for the game
"extracted" and the type MOD it gives the type EXTRACTED. -/
theorem game_info_type_from_game (strtof : List Char → Nat) (empty : GameInfo) :
    write_game_info ⟨"dl".toList, AssetPackType.EXTRACTED, []⟩ =
      "game: ".toList ++ [quote_char] ++ "dl".toList ++ [quote_char, newline_char] ++
      "type: ".toList ++ [quote_char] ++ "extracted".toList ++ [quote_char, newline_char] ∧
    read_game_info strtof empty (write_game_info ⟨"dl".toList, AssetPackType.EXTRACTED, []⟩) =
      .ok { empty with game := "dl".toList, type := AssetPackType.MOD } ∧
    read_game_info strtof empty
        (write_game_info ⟨"extracted".toList, AssetPackType.MOD, []⟩) =
      .ok { empty with game := "extracted".toList, type := AssetPackType.EXTRACTED } :=
  ⟨rfl, rfl, rfl⟩

/-! ### The blocks of a written class -/

theorem slice_of_preserves {lo hi : Nat} {d d1 : List Nat} (h : preserves lo hi d d1)
    (a w : Nat) (h1 : lo ≤ a) (h2 : a + w ≤ hi) : slice d1 a w = slice d a w :=
  slice_eq_of_agree d1 d a w (fun i i1 i2 => h.2 i (by omega) (by omega))

theorem write_moby_collision_eq (dest : List Nat) (c : MobyCollision) :
    write_moby_collision dest c = (pad dest 0x10 ++ collision_bytes c, (pad dest 0x10).length) := by
  unfold write_moby_collision collision_bytes
  simp only [List.append_assoc]

theorem length_collision_bytes (c : MobyCollision) :
    (collision_bytes c).length =
      0x10 + c.first_part.length + 8 * c.second_part.length + c.third_part.length := by
  unfold collision_bytes
  simp only [List.length_append, length_le_bytes, List.length_map, length_collision_vectors]
  omega

theorem collision_vector_written (l : List Vec3f) (pre post : List Nat) :
    ∀ i, i < l.length →
      collision_vector (pre ++ (l.map (fun v => le_bytes 2 (to_unsigned 16 v.x) ++
        le_bytes 2 (to_unsigned 16 v.y) ++ le_bytes 2 (to_unsigned 16 v.z) ++
        le_bytes 2 0)).flatten ++ post) (pre.length + 8 * i) =
      ⟨to_signed 16 (le_value (le_bytes 2 (to_unsigned 16 (l.getD i ⟨0, 0, 0⟩).x))),
        to_signed 16 (le_value (le_bytes 2 (to_unsigned 16 (l.getD i ⟨0, 0, 0⟩).y))),
        to_signed 16 (le_value (le_bytes 2 (to_unsigned 16 (l.getD i ⟨0, 0, 0⟩).z)))⟩ := by
  induction l generalizing pre with
  | nil => intro i hi; cases hi
  | cons v t ih =>
    intro i hi
    cases i with
    | zero =>
      simp only [List.map_cons, List.flatten_cons, List.getD_cons_zero, Nat.mul_zero,
        Nat.add_zero]
      unfold collision_vector
      have e : ∀ X : List Nat, pre ++ (le_bytes 2 (to_unsigned 16 v.x) ++
          le_bytes 2 (to_unsigned 16 v.y) ++ le_bytes 2 (to_unsigned 16 v.z) ++ le_bytes 2 0 ++
          X) ++ post = pre ++ (le_bytes 2 (to_unsigned 16 v.x) ++
          (le_bytes 2 (to_unsigned 16 v.y) ++ (le_bytes 2 (to_unsigned 16 v.z) ++
          (le_bytes 2 0 ++ X ++ post)))) := fun X => by simp only [List.append_assoc]
      rw [e]
      have s0 : ∀ (A B : List Nat), A.length = 2 → slice (pre ++ (A ++ B)) pre.length 2 = A :=
        fun A B hA => by
          rw [slice_append_right_of _ _ _ _ (le_refl _), Nat.sub_self]
          show (A ++ B).take 2 = A
          rw [← hA, List.take_left]
      have s2 : ∀ (A B C : List Nat), A.length = 2 → B.length = 2 →
          slice (pre ++ (A ++ (B ++ C))) (pre.length + 2) 2 = B := fun A B C hA hB => by
        rw [slice_append_right_of _ _ _ _ (by omega), Nat.add_sub_cancel_left]
        show ((A ++ (B ++ C)).drop 2).take 2 = B
        rw [← hA, List.drop_left, hA, ← hB, List.take_left]
      have s4 : ∀ (A B C D : List Nat), A.length = 2 → B.length = 2 → C.length = 2 →
          slice (pre ++ (A ++ (B ++ (C ++ D)))) (pre.length + 4) 2 = C :=
        fun A B C D hA hB hC => by
          rw [slice_append_right_of _ _ _ _ (by omega), Nat.add_sub_cancel_left]
          show ((A ++ (B ++ (C ++ D))).drop 4).take 2 = C
          have e4 : A ++ (B ++ (C ++ D)) = (A ++ B) ++ (C ++ D) := by
            simp only [List.append_assoc]
          have l4 : (A ++ B).length = 4 := by rw [List.length_append, hA, hB]
          rw [e4, ← l4, List.drop_left, ← hC, List.take_left]
      rw [s0 _ _ (length_le_bytes _ _), s2 _ _ _ (length_le_bytes _ _) (length_le_bytes _ _),
        s4 _ _ _ _ (length_le_bytes _ _) (length_le_bytes _ _) (length_le_bytes _ _)]
    | succ i =>
      simp only [List.map_cons, List.flatten_cons, List.getD_cons_succ]
      have hl : (le_bytes 2 (to_unsigned 16 v.x) ++
          le_bytes 2 (to_unsigned 16 v.y) ++ le_bytes 2 (to_unsigned 16 v.z) ++
          le_bytes 2 0).length = 8 := by
        simp only [List.length_append, length_le_bytes]
      have := ih (pre ++ (le_bytes 2 (to_unsigned 16 v.x) ++
          le_bytes 2 (to_unsigned 16 v.y) ++ le_bytes 2 (to_unsigned 16 v.z) ++
          le_bytes 2 0)) i (by simpa using hi)
      rw [List.length_append, hl] at this
      have e : pre.length + 8 * (i + 1) = pre.length + 8 + 8 * i := by omega
      rw [e, ← this]
      congr 1
      simp only [List.append_assoc]

theorem signed_round_trip_16 (x : Int) (h0 : -(2 ^ 15) ≤ x) (h1 : x < 2 ^ 15) :
    to_signed 16 (le_value (le_bytes 2 (to_unsigned 16 x))) = x := by
  rw [le_value_le_bytes_two]
  unfold to_signed to_unsigned
  have e : ((2 ^ 16 : Nat) : Int) = 65536 := by norm_num
  have e2 : (2 : Int) ^ 15 = 32768 := by norm_num
  have e3 : (2 : Nat) ^ 16 = 65536 := by norm_num
  have e4 : (2 : Nat) ^ (16 - 1) = 32768 := by norm_num
  rw [e, e3, e4]
  rw [e2] at h0 h1
  split <;> omega

/-- Decoding the bytes of a collision block whose members hold values of their
types gives the block back, whatever follows the bytes in the buffer. -/
theorem read_collision_bytes (c : MobyCollision) (rest : List Nat) (hc : collision_fits c)
    (hv : collision_vectors_fit c) :
    read_moby_collision (collision_bytes c ++ rest) = .ok c := by
  obtain ⟨c1, c2, c3, c4, c5, c6, c7⟩ := hc
  have e16 : (2 : Nat) ^ 16 = 65536 := by norm_num
  unfold collision_bytes
  rw [map_mod_self _ c3, map_mod_self _ c4]
  have ls := length_collision_vectors c.second_part
  have hvec := collision_vector_written c.second_part
  generalize (c.second_part.map (fun v => le_bytes 2 (to_unsigned 16 v.x) ++
    le_bytes 2 (to_unsigned 16 v.y) ++ le_bytes 2 (to_unsigned 16 v.z) ++
    le_bytes 2 0)).flatten = S at ls hvec ⊢
  obtain ⟨H, hH⟩ : ∃ H, H = le_bytes 2 c.unknown_0 ++ le_bytes 2 c.unknown_2 ++
    le_bytes 4 c.first_part.length ++ le_bytes 4 c.third_part.length ++
    le_bytes 4 (c.second_part.length * 8) := ⟨_, rfl⟩
  rw [← hH]
  have lH : H.length = 16 := by rw [hH]; rfl
  have eb : H ++ c.first_part ++ S ++ c.third_part ++ rest =
      H ++ (c.first_part ++ S ++ c.third_part ++ rest) := by
    simp only [List.append_assoc]
  have hh : ∀ o w, o + w ≤ 16 →
      slice (H ++ c.first_part ++ S ++ c.third_part ++ rest) o w = slice H o w := fun o w h => by
    rw [eb, slice_append_left _ _ _ _ (by omega)]
  have f1 : collision_first_part_size (H ++ c.first_part ++ S ++ c.third_part ++ rest) =
      (c.first_part.length : Nat) := by
    unfold collision_first_part_size
    rw [hh 4 4 (by omega), ← to_signed_32_size _ c5, hH]
    rfl
  have f2 : collision_second_part_size (H ++ c.first_part ++ S ++ c.third_part ++ rest) =
      (c.second_part.length * 8 : Nat) := by
    unfold collision_second_part_size
    rw [hh 0xc 4 (by omega), ← to_signed_32_size _ c7, hH]
    rfl
  have f3 : collision_third_part_size (H ++ c.first_part ++ S ++ c.third_part ++ rest) =
      (c.third_part.length : Nat) := by
    unfold collision_third_part_size
    rw [hh 8 4 (by omega), ← to_signed_32_size _ c6, hH]
    rfl
  have hr := read_moby_collision_eq _ _ _ _ f1 f2 f3
    (by simp only [List.length_append]; omega)
  rw [if_neg (by omega)] at hr
  rw [hr]
  cases c with
  | mk u0 u2 fp sp tp =>
    simp only at c1 c2 c3 c4 c5 c6 c7 hH ls hvec hh f1 f2 f3 ⊢
    congr 2
    · rw [hh 0 2 (by omega), hH]
      show le_value (le_bytes 2 u0) = _
      rw [le_value_le_bytes_two, Nat.mod_eq_of_lt (by omega)]
    · rw [hh 2 2 (by omega), hH]
      show le_value (le_bytes 2 u2) = _
      rw [le_value_le_bytes_two, Nat.mod_eq_of_lt (by omega)]
    · rw [List.append_assoc, List.append_assoc, List.append_assoc, ← lH,
        slice_append_right_of _ _ _ _ (le_refl _), Nat.sub_self,
        slice_append_left _ _ _ _ (by omega)]
      exact slice_self _
    · have e8 : sp.length * 8 / 8 = sp.length := by omega
      rw [e8]
      apply List.ext_getElem?
      intro i
      by_cases hi : i < sp.length
      · rw [List.getElem?_map, List.getElem?_range hi, List.getElem?_eq_getElem hi]
        simp only [Option.map_some']
        congr 1
        have l1 : (H ++ fp).length = 16 + fp.length := by rw [List.length_append, lH]
        have := hvec (H ++ fp) (tp ++ rest) i hi
        rw [l1] at this
        have ea : H ++ fp ++ S ++ tp ++ rest = H ++ fp ++ S ++ (tp ++ rest) := by
          simp only [List.append_assoc]
        rw [ea, this]
        have hm : sp.getD i ⟨0, 0, 0⟩ = sp[i] := List.getD_eq_getElem _ _ hi
        rw [hm]
        obtain ⟨⟨x1, x2⟩, ⟨y1, y2⟩, ⟨z1, z2⟩⟩ := hv sp[i] (List.getElem_mem _)
        rw [signed_round_trip_16 _ x1 x2, signed_round_trip_16 _ y1 y2,
          signed_round_trip_16 _ z1 z2]
      · rw [List.getElem?_eq_none (by simp; omega), List.getElem?_eq_none (by omega)]
    · have l3 : (H ++ fp ++ S).length = 16 + fp.length + sp.length * 8 := by
        simp only [List.length_append]; omega
      rw [List.append_assoc (H ++ fp ++ S), ← l3,
        slice_append_right_of _ _ _ _ (le_refl _), Nat.sub_self]
      show (tp ++ rest).take tp.length = tp
      exact List.take_left _ _

theorem write_moby_joints_stored (class_header_ofs : Nat) (dest : List Nat)
    (joints : List (List Nat)) :
    joints_stored (write_moby_joints class_header_ofs dest joints).1 class_header_ofs
      (write_moby_joints class_header_ofs dest joints).2
      (write_moby_joints class_header_ofs dest joints).1.length joints := by
  unfold write_moby_joints
  simp only
  obtain ⟨d0, hd0⟩ : ∃ d0, d0 = pad dest 0x10 := ⟨_, rfl⟩
  rw [← hd0]
  have m0 : d0.length % 0x10 = 0 := by rw [hd0]; exact length_pad_mod _ _ (by omega)
  have lc : (le_bytes 4 joints.length).length = 4 := length_le_bytes _ _
  obtain ⟨d2, hd2⟩ : ∃ d2, d2 = d0 ++ le_bytes 4 joints.length ++
    List.replicate (4 * joints.length) 0 := ⟨_, rfl⟩
  rw [← hd2]
  have l2 : d2.length = d0.length + 4 + 4 * joints.length := by
    rw [hd2]; simp only [List.length_append, List.length_replicate, lc]
  have l1 : (d0 ++ le_bytes 4 joints.length).length = d0.length + 4 := by
    rw [List.length_append, lc]
  rw [l1]
  obtain ⟨a, b, positions, c1, c2⟩ := write_moby_joint_lists_spec class_header_ofs joints d2
    (d0.length + 4) (by omega)
  generalize write_moby_joint_lists class_header_ofs joints d2 (d0.length + 4) = R at *
  have hcount : slice R d0.length 4 = le_bytes 4 joints.length := by
    rw [slice_eq_of_agree R d2 d0.length 4 (fun i h1 h2 => b i (by omega) (by omega)), hd2,
      List.append_assoc, ← lc]
    exact slice_append_right_of _ _ _ _ (le_refl _) ▸ by
      rw [Nat.sub_self, slice_append_left _ _ _ _ (le_refl _)]
      exact slice_self _
  refine ⟨m0, by omega, le_refl _, hcount, positions, c1, fun k hk => ?_⟩
  obtain ⟨q1, q2, q3, q4, q5⟩ := c2 k hk
  exact ⟨by omega, q2, q3, q4, q5⟩

theorem joints_stored_of_agree {b b1 : List Nat} {c o hi : Nat} {joints : List (List Nat)}
    (h : joints_stored b c o hi joints)
    (ha : ∀ i, o ≤ i → i < hi → b1[i]? = b[i]?) (hl : hi ≤ b1.length) :
    joints_stored b1 c o hi joints := by
  obtain ⟨h1, h2, h3, h4, positions, h5, h6⟩ := h
  have tr : ∀ a w, o ≤ a → a + w ≤ hi → slice b1 a w = slice b a w := fun a w q1 q2 =>
    slice_eq_of_agree b1 b a w (fun i i1 i2 => ha i (by omega) (by omega))
  refine ⟨h1, h2, hl, by rw [tr _ _ (by omega) (by omega), h4], positions, h5, fun k hk => ?_⟩
  obtain ⟨q1, q2, q3, q4, q5⟩ := h6 k hk
  exact ⟨q1, q2, q3, by rw [tr _ _ (by omega) (by omega), q4],
    by rw [tr _ _ (by omega) (by omega), q5]⟩

/-- Decoding joint lists stored in a class shorter than 2^31 bytes gives each
list up to its first byte 0xff. -/
theorem read_moby_joints_eq (b : List Nat) (c o hi : Nat) (joints : List (List Nat))
    (h : joints_stored b c o hi joints) (hc : c ≤ o) (hs : b.length - c < 2 ^ 31) :
    read_moby_joints (b.drop c) ((o - c : Nat) : Int) =
      .ok (joints.map (fun l => (l.map (fun x => x % 256)).takeWhile (fun x => x != 0xff))) := by
  have e31 : (2 : Nat) ^ 31 = 2147483648 := by norm_num
  have e31i : (2 : Int) ^ 31 = 2147483648 := by norm_num
  rw [e31] at hs
  obtain ⟨h1, h2, h3, h4, positions, h5, h6⟩ := h
  have ls : (b.drop c).length = b.length - c := List.length_drop _ _
  unfold read_moby_joints
  rw [read_sint_eq _ 4 _ _ (by rw [ls]; omega), slice_drop, Nat.add_sub_cancel' hc, h4,
    to_signed_32_size _ (by omega)]
  simp only [bind, Except.bind, Int.toNat_ofNat]
  rw [read_moby_joint_lists_eq (b.drop c) _ joints.length
    (fun k => ((joints.getD k []).map (fun x => x % 256)).takeWhile (fun x => x != 0xff))
    (fun k hk => ?_) (List.range joints.length) (fun i hi => List.mem_range.mp hi)]
  · rw [map_range_getD joints
      (fun l => (l.map (fun x => x % 256)).takeWhile (fun x => x != 0xff))]
  · obtain ⟨q1, q2, q3, q4, q5⟩ := h6 k hk
    refine ⟨((positions.getD k 0 - c : Nat) : Int), ?_, ?_⟩
    · have ec : ((o - c : Nat) : Int) + ((k : Int) + 1) * 4 =
          ((o - c + 4 + 4 * k : Nat) : Int) := by
        push_cast; ring
      rw [ec, read_sint_eq _ 4 _ _ (by rw [ls]; omega), slice_drop]
      have ep : c + (o - c + 4 + 4 * k) = o + 4 + 4 * k := by omega
      rw [ep, q4]
      have ei : ((positions.getD k 0 - c : Nat) : Int) = (positions.getD k 0 : Int) - c := by
        omega
      rw [ei, signed_round_trip _ (by omega) (by omega)]
    · exact read_moby_joint_list_eq (b.drop c) (joints.getD k [])
        ((b.drop c).length + 1) (positions.getD k 0 - c)
        (by rw [ls]; omega) (by rw [ls]; omega)
        (by rw [slice_drop, Nat.add_sub_cancel' (by omega : c ≤ _), q5])

theorem joints_read_back (joints : List (List Nat)) (hb : ∀ l ∈ joints, ∀ x ∈ l, x < 256)
    (hn : ∀ l ∈ joints, 0xff ∉ l) :
    joints.map (fun l => (l.map (fun x => x % 256)).takeWhile (fun x => x != 0xff)) = joints := by
  conv_rhs => rw [← List.map_id joints]
  apply List.map_congr_left
  intro l hl
  rw [map_mod_self l (hb l hl)]
  exact takeWhile_no_terminator l (hn l hl)

theorem length_flatten_raw_bytes (n : Nat) (vs : List (List Nat)) :
    ((vs.map (raw_bytes n)).flatten).length = n * vs.length :=
  by
    rw [length_flatten_of n _ (fun v hv => by
      obtain ⟨x, _, rfl⟩ := List.mem_map.mp hv
      exact length_raw_bytes _ _), List.length_map]

theorem getElem?_of_slice_one (l l1 : List Nat) (i : Nat) (h : slice l i 1 = slice l1 i 1) :
    l[i]? = l1[i]? := by
  unfold slice at h
  have g : ∀ (l : List Nat), (l.drop i).take 1 = l[i]?.toList := fun l => by
    cases hl : l[i]? with
    | none =>
      rw [List.drop_eq_nil_of_le (by
        rw [List.getElem?_eq_none_iff] at hl
        omega)]
      rfl
    | some x =>
      obtain ⟨hlt, hx⟩ := List.getElem?_eq_some_iff.mp hl
      rw [List.drop_eq_getElem_cons hlt, hx]
      rfl
  rw [g, g] at h
  cases h3 : l[i]? with
  | none =>
    rw [h3] at h
    cases h4 : l1[i]? with
    | none => rfl
    | some y => rw [h4] at h; cases h
  | some x =>
    rw [h3] at h
    cases h4 : l1[i]? with
    | none => rw [h4] at h; cases h
    | some y =>
      rw [h4] at h
      injection h with h
      rw [h]

/-- Lines 211-225 of `write_moby_class` behind a buffer `d13`: the mystery
data, the skeleton, the common transform at a multiple of 0x10, the joint
lists and the sound definitions at a multiple of 0x10, which end the buffer;
the bytes of `d13` stay as they are. -/
theorem write_class_middle_rest (env : Env) (c : Nat) (d13 : List Nat) (moby : MobyClassData)
    (D : List Nat)
    (hD : D = pad (write_moby_joints c
      (pad (d13 ++ moby.mystery_data.map (fun b => b % 256) ++
        (moby.skeleton.map (raw_bytes 0x40)).flatten) 0x10 ++
        moby.common_trans.map (fun b => b % 256)) moby.joints).1 0x10 ++
      (moby.sound_defs.map (raw_bytes env.sizeof_MobySoundDef)).flatten) :
    (∀ a w, a + w ≤ d13.length → slice D a w = slice d13 a w) ∧ d13.length ≤ D.length ∧
    slice D d13.length moby.mystery_data.length = moby.mystery_data.map (fun x => x % 256) ∧
    slice D (d13 ++ moby.mystery_data.map (fun b => b % 256)).length
      (0x40 * moby.skeleton.length) = (moby.skeleton.map (raw_bytes 0x40)).flatten ∧
    (d13 ++ moby.mystery_data.map (fun b => b % 256) ++
      (moby.skeleton.map (raw_bytes 0x40)).flatten).length =
      (d13 ++ moby.mystery_data.map (fun b => b % 256)).length + 0x40 * moby.skeleton.length ∧
    (pad (d13 ++ moby.mystery_data.map (fun b => b % 256) ++
      (moby.skeleton.map (raw_bytes 0x40)).flatten) 0x10).length % 0x10 = 0 ∧
    slice D (pad (d13 ++ moby.mystery_data.map (fun b => b % 256) ++
      (moby.skeleton.map (raw_bytes 0x40)).flatten) 0x10).length moby.common_trans.length =
      moby.common_trans.map (fun x => x % 256) ∧
    (pad (d13 ++ moby.mystery_data.map (fun b => b % 256) ++
        (moby.skeleton.map (raw_bytes 0x40)).flatten) 0x10 ++
        moby.common_trans.map (fun b => b % 256)).length =
      (pad (d13 ++ moby.mystery_data.map (fun b => b % 256) ++
        (moby.skeleton.map (raw_bytes 0x40)).flatten) 0x10).length + moby.common_trans.length ∧
    joints_stored D c
      (write_moby_joints c
        (pad (d13 ++ moby.mystery_data.map (fun b => b % 256) ++
          (moby.skeleton.map (raw_bytes 0x40)).flatten) 0x10 ++
          moby.common_trans.map (fun b => b % 256)) moby.joints).2
      (write_moby_joints c
        (pad (d13 ++ moby.mystery_data.map (fun b => b % 256) ++
          (moby.skeleton.map (raw_bytes 0x40)).flatten) 0x10 ++
          moby.common_trans.map (fun b => b % 256)) moby.joints).1.length moby.joints ∧
    (pad (write_moby_joints c
      (pad (d13 ++ moby.mystery_data.map (fun b => b % 256) ++
        (moby.skeleton.map (raw_bytes 0x40)).flatten) 0x10 ++
        moby.common_trans.map (fun b => b % 256)) moby.joints).1 0x10).length % 0x10 = 0 ∧
    slice D (pad (write_moby_joints c
      (pad (d13 ++ moby.mystery_data.map (fun b => b % 256) ++
        (moby.skeleton.map (raw_bytes 0x40)).flatten) 0x10 ++
        moby.common_trans.map (fun b => b % 256)) moby.joints).1 0x10).length
      (env.sizeof_MobySoundDef * moby.sound_defs.length) =
      (moby.sound_defs.map (raw_bytes env.sizeof_MobySoundDef)).flatten ∧
    D.length = (pad (write_moby_joints c
      (pad (d13 ++ moby.mystery_data.map (fun b => b % 256) ++
        (moby.skeleton.map (raw_bytes 0x40)).flatten) 0x10 ++
        moby.common_trans.map (fun b => b % 256)) moby.joints).1 0x10).length +
      env.sizeof_MobySoundDef * moby.sound_defs.length := by
  have lm : (moby.mystery_data.map (fun b => b % 256)).length = moby.mystery_data.length :=
    List.length_map _ _
  have lsk := length_flatten_raw_bytes 0x40 moby.skeleton
  have lsd := length_flatten_raw_bytes env.sizeof_MobySoundDef moby.sound_defs
  have lct : (moby.common_trans.map (fun b => b % 256)).length = moby.common_trans.length :=
    List.length_map _ _
  obtain ⟨d14, hd14⟩ : ∃ d14, d14 = d13 ++ moby.mystery_data.map (fun b => b % 256) := ⟨_, rfl⟩
  rw [← hd14] at hD ⊢
  have l14 : d14.length = d13.length + moby.mystery_data.length := by
    rw [hd14, List.length_append, lm]
  obtain ⟨d15, hd15⟩ : ∃ d15, d15 = d14 ++ (moby.skeleton.map (raw_bytes 0x40)).flatten :=
    ⟨_, rfl⟩
  rw [← hd15] at hD ⊢
  have l15 : d15.length = d14.length + 0x40 * moby.skeleton.length := by
    rw [hd15, List.length_append, lsk]
  obtain ⟨d16, hd16⟩ : ∃ d16, d16 = pad d15 0x10 := ⟨_, rfl⟩
  rw [← hd16] at hD ⊢
  have l16 : d15.length ≤ d16.length := by rw [hd16]; exact length_pad _ _
  have m16 : d16.length % 0x10 = 0 := by rw [hd16]; exact length_pad_mod _ _ (by omega)
  obtain ⟨d17, hd17⟩ : ∃ d17, d17 = d16 ++ moby.common_trans.map (fun b => b % 256) :=
    ⟨_, rfl⟩
  rw [← hd17] at hD ⊢
  have l17 : d17.length = d16.length + moby.common_trans.length := by
    rw [hd17, List.length_append, lct]
  have hj := write_moby_joints_stored c d17 moby.joints
  obtain ⟨pj, pj1, pj2⟩ := @preserves_write_moby_joints 0 d17.length c d17 moby.joints
    (le_refl _)
  generalize write_moby_joints c d17 moby.joints = J at hj pj pj1 pj2 hD ⊢
  obtain ⟨d19, hd19⟩ : ∃ d19, d19 = pad J.1 0x10 := ⟨_, rfl⟩
  rw [← hd19] at hD ⊢
  have l19 : J.1.length ≤ d19.length := by rw [hd19]; exact length_pad _ _
  have m19 : d19.length % 0x10 = 0 := by rw [hd19]; exact length_pad_mod _ _ (by omega)
  have l20 : D.length = d19.length + env.sizeof_MobySoundDef * moby.sound_defs.length := by
    rw [hD, List.length_append, lsd]
  have low : ∀ a w, a + w ≤ d17.length → slice D a w = slice d17 a w := fun a w h => by
    rw [hD, slice_append_left _ _ _ _ (by omega), hd19, slice_pad _ _ _ _ (by omega)]
    exact slice_of_preserves pj a w (Nat.zero_le _) h
  have s17 : ∀ a w, a + w ≤ d16.length → slice d17 a w = slice d16 a w := fun a w h => by
    rw [hd17, slice_append_left _ _ _ _ h]
  have s16 : ∀ a w, a + w ≤ d15.length → slice d16 a w = slice d15 a w := fun a w h => by
    rw [hd16, slice_pad _ _ _ _ h]
  have s15 : ∀ a w, a + w ≤ d14.length → slice d15 a w = slice d14 a w := fun a w h => by
    rw [hd15, slice_append_left _ _ _ _ h]
  have s14 : ∀ a w, a + w ≤ d13.length → slice d14 a w = slice d13 a w := fun a w h => by
    rw [hd14, slice_append_left _ _ _ _ h]
  refine ⟨fun a w h => ?_, by omega, ?_, ?_, l15, m16, ?_, l17, ?_, m19, ?_, l20⟩
  · rw [low _ _ (by omega), s17 _ _ (by omega), s16 _ _ (by omega), s15 _ _ (by omega),
      s14 _ _ h]
  · rw [low _ _ (by omega), s17 _ _ (by omega), s16 _ _ (by omega), s15 _ _ (by omega), hd14,
      ← lm]
    exact slice_append_right _ _
  · rw [low _ _ (by omega), s17 _ _ (by omega), s16 _ _ (by omega), hd15, ← lsk]
    exact slice_append_right _ _
  · rw [low _ _ (by omega), hd17, ← lct]
    exact slice_append_right _ _
  · refine joints_stored_of_agree hj (fun i i1 i2 => ?_) (by omega)
    rw [hD, List.getElem?_append_left (by omega), hd19]
    unfold pad
    rw [List.getElem?_append_left (by omega)]
  · rw [hD, ← lsd]
    exact slice_append_right _ _

/-- What `write_class_middle` leaves in its buffer: the buffer it was given,
then the collision block at a multiple of 0x10, the mystery data, the skeleton,
the common transform at a multiple of 0x10, the joint lists and the sound
definitions at a multiple of 0x10, which end the buffer. -/
theorem write_class_middle_content (env : Env) (c : Nat) (dest : List Nat)
    (moby : MobyClassData) (M : ClassMiddle) (hM : M = write_class_middle env c dest moby) :
    (∀ a w, a + w ≤ dest.length → slice M.dest a w = slice dest a w) ∧
    dest.length ≤ M.dest.length ∧
    (∀ col, moby.collision = some col →
      M.collision_ofs % 0x10 = 0 ∧
      M.mystery_data_ofs = M.collision_ofs + (collision_bytes col).length ∧
      slice M.dest M.collision_ofs (collision_bytes col).length = collision_bytes col) ∧
    (moby.collision = none → M.collision_ofs = dest.length ∧ M.mystery_data_ofs = dest.length) ∧
    slice M.dest M.mystery_data_ofs moby.mystery_data.length =
      moby.mystery_data.map (fun x => x % 256) ∧
    slice M.dest M.skeleton_ofs (0x40 * moby.skeleton.length) =
      (moby.skeleton.map (raw_bytes 0x40)).flatten ∧
    M.skeleton_end = M.skeleton_ofs + 0x40 * moby.skeleton.length ∧
    M.common_trans_ofs % 0x10 = 0 ∧
    slice M.dest M.common_trans_ofs moby.common_trans.length =
      moby.common_trans.map (fun x => x % 256) ∧
    M.common_trans_end = M.common_trans_ofs + moby.common_trans.length ∧
    joints_stored M.dest c M.joints_ofs M.joints_end moby.joints ∧
    M.sound_defs_ofs % 0x10 = 0 ∧
    slice M.dest M.sound_defs_ofs (env.sizeof_MobySoundDef * moby.sound_defs.length) =
      (moby.sound_defs.map (raw_bytes env.sizeof_MobySoundDef)).flatten ∧
    M.dest.length = M.sound_defs_ofs + env.sizeof_MobySoundDef * moby.sound_defs.length := by
  cases hcol : moby.collision with
  | none =>
    obtain ⟨r1, r2, r3, r4, r5, r6, r7, r8, r9, r10, r11, r12⟩ :=
      write_class_middle_rest env c dest moby M.dest (by
        rw [hM]; unfold write_class_middle; simp only [hcol])
    have e1 : M.collision_ofs = dest.length := by
      rw [hM]; unfold write_class_middle; simp only [hcol]
    have e2 : M.mystery_data_ofs = dest.length := by
      rw [hM]; unfold write_class_middle; simp only [hcol]
    have e3 : M.skeleton_ofs = (dest ++ moby.mystery_data.map (fun b => b % 256)).length := by
      rw [hM]; unfold write_class_middle; simp only [hcol]
    have e4 : M.skeleton_end = (dest ++ moby.mystery_data.map (fun b => b % 256) ++
        (moby.skeleton.map (raw_bytes 0x40)).flatten).length := by
      rw [hM]; unfold write_class_middle; simp only [hcol]
    have e5 : M.common_trans_ofs = (pad (dest ++ moby.mystery_data.map (fun b => b % 256) ++
        (moby.skeleton.map (raw_bytes 0x40)).flatten) 0x10).length := by
      rw [hM]; unfold write_class_middle; simp only [hcol]
    have e6 : M.common_trans_end = (pad (dest ++ moby.mystery_data.map (fun b => b % 256) ++
        (moby.skeleton.map (raw_bytes 0x40)).flatten) 0x10 ++
        moby.common_trans.map (fun b => b % 256)).length := by
      rw [hM]; unfold write_class_middle; simp only [hcol]
    have e7 : M.joints_ofs = (write_moby_joints c
        (pad (dest ++ moby.mystery_data.map (fun b => b % 256) ++
          (moby.skeleton.map (raw_bytes 0x40)).flatten) 0x10 ++
          moby.common_trans.map (fun b => b % 256)) moby.joints).2 := by
      rw [hM]; unfold write_class_middle; simp only [hcol]
    have e8 : M.joints_end = (write_moby_joints c
        (pad (dest ++ moby.mystery_data.map (fun b => b % 256) ++
          (moby.skeleton.map (raw_bytes 0x40)).flatten) 0x10 ++
          moby.common_trans.map (fun b => b % 256)) moby.joints).1.length := by
      rw [hM]; unfold write_class_middle; simp only [hcol]
    have e9 : M.sound_defs_ofs = (pad (write_moby_joints c
        (pad (dest ++ moby.mystery_data.map (fun b => b % 256) ++
          (moby.skeleton.map (raw_bytes 0x40)).flatten) 0x10 ++
          moby.common_trans.map (fun b => b % 256)) moby.joints).1 0x10).length := by
      rw [hM]; unfold write_class_middle; simp only [hcol]
    rw [e2, e3, e4, e5, e6, e7, e8, e9]
    exact ⟨r1, r2, (fun col hc => nomatch hc), fun _ => ⟨e1, rfl⟩, r3, r4, r5, r6, r7, r8, r9,
      r10, r11, r12⟩
  | some col =>
    obtain ⟨r1, r2, r3, r4, r5, r6, r7, r8, r9, r10, r11, r12⟩ :=
      write_class_middle_rest env c (pad dest 0x10 ++ collision_bytes col) moby M.dest (by
        rw [hM]; unfold write_class_middle; simp only [hcol, write_moby_collision_eq])
    have e1 : M.collision_ofs = (pad dest 0x10).length := by
      rw [hM]; unfold write_class_middle; simp only [hcol, write_moby_collision_eq]
    have e2 : M.mystery_data_ofs = (pad dest 0x10 ++ collision_bytes col).length := by
      rw [hM]; unfold write_class_middle; simp only [hcol, write_moby_collision_eq]
    have e3 : M.skeleton_ofs = (pad dest 0x10 ++ collision_bytes col ++
        moby.mystery_data.map (fun b => b % 256)).length := by
      rw [hM]; unfold write_class_middle; simp only [hcol, write_moby_collision_eq]
    have e4 : M.skeleton_end = (pad dest 0x10 ++ collision_bytes col ++
        moby.mystery_data.map (fun b => b % 256) ++
        (moby.skeleton.map (raw_bytes 0x40)).flatten).length := by
      rw [hM]; unfold write_class_middle; simp only [hcol, write_moby_collision_eq]
    have e5 : M.common_trans_ofs = (pad (pad dest 0x10 ++ collision_bytes col ++
        moby.mystery_data.map (fun b => b % 256) ++
        (moby.skeleton.map (raw_bytes 0x40)).flatten) 0x10).length := by
      rw [hM]; unfold write_class_middle; simp only [hcol, write_moby_collision_eq]
    have e6 : M.common_trans_end = (pad (pad dest 0x10 ++ collision_bytes col ++
        moby.mystery_data.map (fun b => b % 256) ++
        (moby.skeleton.map (raw_bytes 0x40)).flatten) 0x10 ++
        moby.common_trans.map (fun b => b % 256)).length := by
      rw [hM]; unfold write_class_middle; simp only [hcol, write_moby_collision_eq]
    have e7 : M.joints_ofs = (write_moby_joints c
        (pad (pad dest 0x10 ++ collision_bytes col ++
          moby.mystery_data.map (fun b => b % 256) ++
          (moby.skeleton.map (raw_bytes 0x40)).flatten) 0x10 ++
          moby.common_trans.map (fun b => b % 256)) moby.joints).2 := by
      rw [hM]; unfold write_class_middle; simp only [hcol, write_moby_collision_eq]
    have e8 : M.joints_end = (write_moby_joints c
        (pad (pad dest 0x10 ++ collision_bytes col ++
          moby.mystery_data.map (fun b => b % 256) ++
          (moby.skeleton.map (raw_bytes 0x40)).flatten) 0x10 ++
          moby.common_trans.map (fun b => b % 256)) moby.joints).1.length := by
      rw [hM]; unfold write_class_middle; simp only [hcol, write_moby_collision_eq]
    have e9 : M.sound_defs_ofs = (pad (write_moby_joints c
        (pad (pad dest 0x10 ++ collision_bytes col ++
          moby.mystery_data.map (fun b => b % 256) ++
          (moby.skeleton.map (raw_bytes 0x40)).flatten) 0x10 ++
          moby.common_trans.map (fun b => b % 256)) moby.joints).1 0x10).length := by
      rw [hM]; unfold write_class_middle; simp only [hcol, write_moby_collision_eq]
    have lp := length_pad dest 0x10
    have lpa : (pad dest 0x10 ++ collision_bytes col).length =
        (pad dest 0x10).length + (collision_bytes col).length := List.length_append _ _
    rw [e2, e3, e4, e5, e6, e7, e8, e9]
    refine ⟨fun a w h => ?_, by omega, fun col1 hc => ?_, (fun hn => nomatch hn), r3, r4, r5, r6,
      r7, r8, r9, r10, r11, r12⟩
    · rw [r1 a w (by omega), slice_append_left _ _ _ _ (by omega), slice_pad _ _ _ _ h]
    · injection hc with hc
      subst hc
      rw [e1]
      refine ⟨length_pad_mod _ _ (by omega), lpa, ?_⟩
      rw [r1 _ _ (by omega)]
      exact slice_append_right _ _

theorem write_moby_bangles_eq (dest : List Nat) (bangles : MobyBangles) :
    write_moby_bangles dest bangles = (dest ++ bangles_bytes bangles, dest.length) := by
  unfold write_moby_bangles bangles_bytes
  simp only [List.append_assoc]

/-- The buffers `write_class_front` passes through, with the case distinctions
of lines 179-205 on the bangles, the corncob and the game made explicit. -/
theorem write_class_front_stages (env : Env) (dest : List Nat) (moby : MobyClassData)
    (game : Game) :
    ∃ d4a d4 d5a d5 zb : List Nat,
      (moby.bangles = none →
        d4a = zero_fill_to (dest ++ List.replicate 0x48 0 ++
          List.replicate (4 * moby.sequences.length) 0)
          ((dest.length : Int) + moby.header_end_offset) ∧ d4 = d4a ∧ zb = []) ∧
      (∀ bg, moby.bangles = some bg →
        d4a = pad (zero_fill_to (dest ++ List.replicate 0x48 0 ++
          List.replicate (4 * moby.sequences.length) 0)
          ((dest.length : Int) + moby.header_end_offset)) 0x10 ∧
        d4 = d4a ++ bangles_bytes bg ∧ zb = List.replicate (0x10 * bg.submeshes.length) 0) ∧
      ((moby.corncob = none ∨ game = Game.RAC1) → d5a = d4 ∧ d5 = d4) ∧
      (∀ cc, moby.corncob = some cc → game ≠ Game.RAC1 →
        d5a = pad d4 0x10 ∧ d5 = (write_moby_corncob d5a cc).1) ∧
      write_class_front env dest moby game =
        { dest := zero_fill_to (pad (write_moby_sequences env dest.length
              (write_format game moby.force_rac1_format) moby.sequences (pad d5 0x10)
              (dest ++ List.replicate 0x48 0).length) 0x10)
              ((dest.length : Int) + moby.submesh_table_offset) ++
            List.replicate (0x10 * moby.submeshes.length) 0 ++
            List.replicate (0x10 * moby.low_detail_submeshes.length) 0 ++
            List.replicate (0x10 * moby.metal_submeshes.length) 0 ++ zb
          sequence_list_ofs := (dest ++ List.replicate 0x48 0).length
          sequence_list_end := (dest ++ List.replicate 0x48 0 ++
            List.replicate (4 * moby.sequences.length) 0).length
          header_padding_end := (zero_fill_to (dest ++ List.replicate 0x48 0 ++
            List.replicate (4 * moby.sequences.length) 0)
            ((dest.length : Int) + moby.header_end_offset)).length
          bangles_ofs := d4a.length
          bangles_end := d4.length
          corncob_ofs := d5a.length
          corncob_end := d5.length
          sequences_ofs := (pad d5 0x10).length
          sequences_end := (write_moby_sequences env dest.length
            (write_format game moby.force_rac1_format) moby.sequences (pad d5 0x10)
            (dest ++ List.replicate 0x48 0).length).length
          submesh_table_1_ofs := (zero_fill_to (pad (write_moby_sequences env dest.length
            (write_format game moby.force_rac1_format) moby.sequences (pad d5 0x10)
            (dest ++ List.replicate 0x48 0).length) 0x10)
            ((dest.length : Int) + moby.submesh_table_offset)).length
          submesh_table_2_ofs := (zero_fill_to (pad (write_moby_sequences env dest.length
            (write_format game moby.force_rac1_format) moby.sequences (pad d5 0x10)
            (dest ++ List.replicate 0x48 0).length) 0x10)
            ((dest.length : Int) + moby.submesh_table_offset) ++
            List.replicate (0x10 * moby.submeshes.length) 0).length
          metal_submesh_table_ofs := (zero_fill_to (pad (write_moby_sequences env dest.length
            (write_format game moby.force_rac1_format) moby.sequences (pad d5 0x10)
            (dest ++ List.replicate 0x48 0).length) 0x10)
            ((dest.length : Int) + moby.submesh_table_offset) ++
            List.replicate (0x10 * moby.submeshes.length) 0 ++
            List.replicate (0x10 * moby.low_detail_submeshes.length) 0).length
          bangles_submesh_table_ofs := (zero_fill_to (pad (write_moby_sequences env dest.length
            (write_format game moby.force_rac1_format) moby.sequences (pad d5 0x10)
            (dest ++ List.replicate 0x48 0).length) 0x10)
            ((dest.length : Int) + moby.submesh_table_offset) ++
            List.replicate (0x10 * moby.submeshes.length) 0 ++
            List.replicate (0x10 * moby.low_detail_submeshes.length) 0 ++
            List.replicate (0x10 * moby.metal_submeshes.length) 0).length } := by
  cases hb : moby.bangles with
  | none =>
    cases hc : moby.corncob with
    | none =>
      refine ⟨(zero_fill_to (dest ++ List.replicate 0x48 0 ++
      List.replicate (4 * moby.sequences.length) 0)
      ((dest.length : Int) + moby.header_end_offset)), (zero_fill_to (dest ++ List.replicate 0x48 0 ++
      List.replicate (4 * moby.sequences.length) 0)
      ((dest.length : Int) + moby.header_end_offset)), (zero_fill_to (dest ++ List.replicate 0x48 0 ++
      List.replicate (4 * moby.sequences.length) 0)
      ((dest.length : Int) + moby.header_end_offset)), (zero_fill_to (dest ++ List.replicate 0x48 0 ++
      List.replicate (4 * moby.sequences.length) 0)
      ((dest.length : Int) + moby.header_end_offset)), [], fun _ => ⟨rfl, rfl, rfl⟩, (fun bg h => nomatch h),
        fun _ => ⟨rfl, rfl⟩, (fun cc h => nomatch h), ?_⟩
      unfold write_class_front
      simp only [hb, hc, Option.isSome_none, Bool.false_eq_true, and_false, if_false,
        List.append_nil]
    | some cc =>
      by_cases hg : game = Game.RAC1
      · refine ⟨(zero_fill_to (dest ++ List.replicate 0x48 0 ++
      List.replicate (4 * moby.sequences.length) 0)
      ((dest.length : Int) + moby.header_end_offset)), (zero_fill_to (dest ++ List.replicate 0x48 0 ++
      List.replicate (4 * moby.sequences.length) 0)
      ((dest.length : Int) + moby.header_end_offset)), (zero_fill_to (dest ++ List.replicate 0x48 0 ++
      List.replicate (4 * moby.sequences.length) 0)
      ((dest.length : Int) + moby.header_end_offset)), (zero_fill_to (dest ++ List.replicate 0x48 0 ++
      List.replicate (4 * moby.sequences.length) 0)
      ((dest.length : Int) + moby.header_end_offset)), [], fun _ => ⟨rfl, rfl, rfl⟩,
          (fun bg h => nomatch h), fun _ => ⟨rfl, rfl⟩, fun cc1 _ hn => absurd hg hn, ?_⟩
        unfold write_class_front
        simp only [hb, hc, hg, ne_eq, not_true_eq_false, false_and, if_false, List.append_nil]
      · refine ⟨(zero_fill_to (dest ++ List.replicate 0x48 0 ++
      List.replicate (4 * moby.sequences.length) 0)
      ((dest.length : Int) + moby.header_end_offset)), (zero_fill_to (dest ++ List.replicate 0x48 0 ++
      List.replicate (4 * moby.sequences.length) 0)
      ((dest.length : Int) + moby.header_end_offset)), pad (zero_fill_to (dest ++ List.replicate 0x48 0 ++
      List.replicate (4 * moby.sequences.length) 0)
      ((dest.length : Int) + moby.header_end_offset)) 0x10,
          (write_moby_corncob (pad (zero_fill_to (dest ++ List.replicate 0x48 0 ++
      List.replicate (4 * moby.sequences.length) 0)
      ((dest.length : Int) + moby.header_end_offset)) 0x10) cc).1, [], fun _ => ⟨rfl, rfl, rfl⟩,
          (fun bg h => nomatch h), fun h => ?_, fun cc1 h1 _ => ?_, ?_⟩
        · cases h with
          | inl h => cases h
          | inr h => exact absurd h hg
        · injection h1 with h1
          rw [← h1]
          exact ⟨rfl, rfl⟩
        · unfold write_class_front
          simp only [hb, hc, hg, ne_eq, not_false_eq_true, Option.isSome_some, and_self,
            if_true, List.append_nil]
  | some bg =>
    cases hc : moby.corncob with
    | none =>
      refine ⟨pad (zero_fill_to (dest ++ List.replicate 0x48 0 ++
      List.replicate (4 * moby.sequences.length) 0)
      ((dest.length : Int) + moby.header_end_offset)) 0x10, pad (zero_fill_to (dest ++ List.replicate 0x48 0 ++
      List.replicate (4 * moby.sequences.length) 0)
      ((dest.length : Int) + moby.header_end_offset)) 0x10 ++ bangles_bytes bg,
        pad (zero_fill_to (dest ++ List.replicate 0x48 0 ++
      List.replicate (4 * moby.sequences.length) 0)
      ((dest.length : Int) + moby.header_end_offset)) 0x10 ++ bangles_bytes bg, pad (zero_fill_to (dest ++ List.replicate 0x48 0 ++
      List.replicate (4 * moby.sequences.length) 0)
      ((dest.length : Int) + moby.header_end_offset)) 0x10 ++ bangles_bytes bg,
        List.replicate (0x10 * bg.submeshes.length) 0, (fun h => nomatch h), fun bg1 h1 => ?_,
        fun _ => ⟨rfl, rfl⟩, (fun cc h => nomatch h), ?_⟩
      · injection h1 with h1
        rw [← h1]
        exact ⟨rfl, rfl, rfl⟩
      · unfold write_class_front
        simp only [hb, hc, Option.isSome_none, Bool.false_eq_true, and_false, if_false,
          write_moby_bangles_eq]
    | some cc =>
      by_cases hg : game = Game.RAC1
      · refine ⟨pad (zero_fill_to (dest ++ List.replicate 0x48 0 ++
      List.replicate (4 * moby.sequences.length) 0)
      ((dest.length : Int) + moby.header_end_offset)) 0x10, pad (zero_fill_to (dest ++ List.replicate 0x48 0 ++
      List.replicate (4 * moby.sequences.length) 0)
      ((dest.length : Int) + moby.header_end_offset)) 0x10 ++ bangles_bytes bg,
          pad (zero_fill_to (dest ++ List.replicate 0x48 0 ++
      List.replicate (4 * moby.sequences.length) 0)
      ((dest.length : Int) + moby.header_end_offset)) 0x10 ++ bangles_bytes bg, pad (zero_fill_to (dest ++ List.replicate 0x48 0 ++
      List.replicate (4 * moby.sequences.length) 0)
      ((dest.length : Int) + moby.header_end_offset)) 0x10 ++ bangles_bytes bg,
          List.replicate (0x10 * bg.submeshes.length) 0, (fun h => nomatch h),
          fun bg1 h1 => ?_, fun _ => ⟨rfl, rfl⟩, fun cc1 _ hn => absurd hg hn, ?_⟩
        · injection h1 with h1
          rw [← h1]
          exact ⟨rfl, rfl, rfl⟩
        · unfold write_class_front
          simp only [hb, hc, hg, ne_eq, not_true_eq_false, false_and, if_false,
            write_moby_bangles_eq]
      · refine ⟨pad (zero_fill_to (dest ++ List.replicate 0x48 0 ++
      List.replicate (4 * moby.sequences.length) 0)
      ((dest.length : Int) + moby.header_end_offset)) 0x10, pad (zero_fill_to (dest ++ List.replicate 0x48 0 ++
      List.replicate (4 * moby.sequences.length) 0)
      ((dest.length : Int) + moby.header_end_offset)) 0x10 ++ bangles_bytes bg,
          pad (pad (zero_fill_to (dest ++ List.replicate 0x48 0 ++
      List.replicate (4 * moby.sequences.length) 0)
      ((dest.length : Int) + moby.header_end_offset)) 0x10 ++ bangles_bytes bg) 0x10,
          (write_moby_corncob (pad (pad (zero_fill_to (dest ++ List.replicate 0x48 0 ++
      List.replicate (4 * moby.sequences.length) 0)
      ((dest.length : Int) + moby.header_end_offset)) 0x10 ++ bangles_bytes bg) 0x10) cc).1,
          List.replicate (0x10 * bg.submeshes.length) 0, (fun h => nomatch h),
          fun bg1 h1 => ?_, fun h => ?_, fun cc1 h1 _ => ?_, ?_⟩
        · injection h1 with h1
          rw [← h1]
          exact ⟨rfl, rfl, rfl⟩
        · cases h with
          | inl h => cases h
          | inr h => exact absurd h hg
        · injection h1 with h1
          rw [← h1]
          exact ⟨rfl, rfl⟩
        · unfold write_class_front
          simp only [hb, hc, hg, ne_eq, not_false_eq_true, Option.isSome_some, and_self,
            if_true, write_moby_bangles_eq]

theorem write_moby_corncob_stored (dest : List Nat) (corncob : MobyCornCob)
    (hw : corncob_well_formed corncob) (ha : dest.length % 0x10 = 0) :
    corncob_stored (write_moby_corncob dest corncob).1 dest.length
      (write_moby_corncob dest corncob).1.length corncob := by
  obtain ⟨w16, wk⟩ := hw
  have er : (List.range 16).map (fun i => corncob.kernels.getD i none) = corncob.kernels := by
    rw [← w16]; exact range_map_getD _ _
  obtain ⟨r, hr⟩ : ∃ r, r = write_moby_corn_kernels dest.length corncob.kernels
    (dest ++ List.replicate 0x10 0) [] := ⟨_, rfl⟩
  have hwr : write_moby_corncob dest corncob = (write_at r.1 dest.length r.2, dest.length) := by
    unfold write_moby_corncob
    simp only [er, ← hr]
  obtain ⟨a, b, c, d, e⟩ := write_moby_corn_kernels_spec dest.length corncob.kernels
    (dest ++ List.replicate 0x10 0) [] wk
  rw [← hr] at a b c d e
  rw [hwr]
  obtain ⟨R, H⟩ := r
  simp only at a b c d e ⊢
  rw [List.length_append, List.length_replicate] at a b
  rw [List.length_nil, Nat.zero_add, w16] at c
  rw [length_write_at]
  have hget : ∀ j, j < 16 → (write_at R dest.length H).getD (dest.length + j) 0 = H.getD j 0 := by
    intro j hj
    rw [List.getD_eq_getElem?_getD, List.getD_eq_getElem?_getD, getElem?_write_at,
      if_pos ⟨by omega, by omega, by omega⟩]
    congr 2
    omega
  refine ⟨ha, by omega, le_of_eq (length_write_at _ _ _).symm,
    fun j hj => ⟨fun hn => ?_, fun kernel hk => ?_⟩⟩
  · rw [hget j hj]
    have h1 := (e j (by omega)).1 hn
    rw [List.length_nil, Nat.zero_add] at h1
    exact h1
  · obtain ⟨p, p1, p2, p3, p4, p5⟩ := (e j (by omega)).2 kernel hk
    rw [List.length_nil, Nat.zero_add] at p4
    rw [List.length_append, List.length_replicate] at p1
    refine ⟨p, p1, p2, p3, by rw [hget j hj, p4], ?_⟩
    rw [slice_write_at_disjoint _ _ _ _ _ (Or.inr (by omega)), p5]

theorem getD_of_agree (b b1 : List Nat) (i : Nat) (h : b1[i]? = b[i]?) :
    b1.getD i 0 = b.getD i 0 := by
  rw [List.getD_eq_getElem?_getD, List.getD_eq_getElem?_getD, h]

theorem corncob_stored_of_agree {b b1 : List Nat} {o hi : Nat} {corncob : MobyCornCob}
    (h : corncob_stored b o hi corncob)
    (ha : ∀ i, o ≤ i → i < hi → b1[i]? = b[i]?) (hl : hi ≤ b1.length) :
    corncob_stored b1 o hi corncob := by
  obtain ⟨h1, h2, h3, h4⟩ := h
  refine ⟨h1, h2, hl, fun j hj => ⟨fun hn => ?_, fun kernel hk => ?_⟩⟩
  · rw [getD_of_agree _ _ _ (ha _ (by omega) (by omega))]
    exact (h4 j hj).1 hn
  · obtain ⟨p, p1, p2, p3, p4, p5⟩ := (h4 j hj).2 kernel hk
    refine ⟨p, p1, p2, p3, ?_, ?_⟩
    · rw [getD_of_agree _ _ _ (ha _ (by omega) (by omega))]
      exact p4
    · rw [slice_eq_of_agree b1 b p _ (fun i i1 i2 => ha i (by omega) (by omega))]
      exact p5

/-- Decoding a stored corncob of well formed kernels that is at most 0xff0
bytes long gives the corncob back. -/
theorem read_moby_corncob_eq (b : List Nat) (o hi : Nat) (corncob : MobyCornCob)
    (h : corncob_stored b o hi corncob) (hw : corncob_well_formed corncob)
    (hs : hi - o ≤ 0xff0) : read_moby_corncob (b.drop o) = .ok corncob := by
  obtain ⟨w16, wk⟩ := hw
  obtain ⟨h1, h2, h3, h4⟩ := h
  have ls : (b.drop o).length = b.length - o := List.length_drop _ _
  have lH : (slice b o 16).length = 16 := length_slice _ _ _ (by omega)
  have hH : ∀ j, j < 16 → (slice b o 16).getD j 0 = b.getD (o + j) 0 := fun j hj => by
    unfold slice
    rw [List.getD_eq_getElem?_getD, List.getD_eq_getElem?_getD, List.getElem?_take,
      if_pos hj, List.getElem?_drop]
  unfold read_moby_corncob
  have e0 : read_bytes (b.drop o) 0 0x10 "moby corncob" = .ok (slice b o 16) := by
    have := read_bytes_eq (b.drop o) 0 16 "moby corncob" (by rw [ls]; omega)
    rw [slice_drop, Nat.add_zero] at this
    exact this
  rw [e0]
  simp only [bind, Except.bind]
  rw [read_moby_corn_kernels_eq _ (slice b o 16) corncob.kernels (by omega) (fun j hj => ?_)]
  · rfl
  · rw [w16] at hj
    rw [hH j hj]
    cases hk : corncob.kernels.getD j none with
    | none =>
      rw [(h4 j hj).1 hk]
      rfl
    | some kernel =>
      obtain ⟨p, p1, p2, p3, p4, p5⟩ := (h4 j hj).2 kernel hk
      have hq : (p - o) / 0x10 < 0xff := by omega
      have hp : (p - o) / 0x10 * 16 = p - o := by omega
      rw [p4, Nat.mod_eq_of_lt (by omega)]
      apply read_moby_corn_kernel_eq _ kernel _ (wk kernel ?_) hq
      · rw [ls, hp]; omega
      · rw [slice_drop, hp, Nat.add_sub_cancel' (by omega : o ≤ p), p5]
      · rw [← hk, List.getD_eq_getElem _ _ (by omega)]
        exact List.getElem_mem _

theorem length_bangle_bytes (x : MobyBangle) : x.bytes.length = 4 := rfl

theorem parse_bangle_bytes (x : MobyBangle)
    (h : x.submesh_begin < 256 ∧ x.submesh_count < 256 ∧ x.unknown_2 < 256 ∧ x.unknown_3 < 256) :
    MobyBangle.parse x.bytes = x := by
  obtain ⟨h1, h2, h3, h4⟩ := h
  cases x with
  | mk a b c d =>
    simp only at h1 h2 h3 h4
    simp only [MobyBangle.parse, MobyBangle.bytes, List.getD_cons_zero, List.getD_cons_succ,
      Nat.mod_mod, Nat.mod_eq_of_lt h1, Nat.mod_eq_of_lt h2, Nat.mod_eq_of_lt h3,
      Nat.mod_eq_of_lt h4]

theorem map_parse_bangle_bytes (l : List MobyBangle)
    (h : ∀ x ∈ l, x.submesh_begin < 256 ∧ x.submesh_count < 256 ∧ x.unknown_2 < 256 ∧
      x.unknown_3 < 256) :
    (l.map MobyBangle.bytes).map MobyBangle.parse = l := by
  induction l with
  | nil => rfl
  | cons x t ih =>
    rw [List.map_cons, List.map_cons, parse_bangle_bytes x (h x (List.mem_cons_self _ _)),
      ih (fun y hy => h y (List.mem_cons_of_mem _ hy))]

/-- Decoding the bytes of a bangles block that has the form the decoder
produces gives the block back, whatever follows the bytes in the buffer. -/
theorem read_bangles_bytes (bg : MobyBangles) (rest : List Nat) (h : bangles_fit bg) :
    read_moby_bangles (bangles_bytes bg ++ rest) = .ok bg := by
  obtain ⟨h1, h2, h3, h4, h5⟩ := h
  have lb : ((bg.bangles.map MobyBangle.bytes).flatten).length = 64 := by
    rw [length_flatten_of 4 _ (fun v hv => by
      obtain ⟨x, _, rfl⟩ := List.mem_map.mp hv
      rfl), List.length_map, h1]
  have lv : ((bg.vertices.map (raw_bytes 8)).flatten).length = 8 * bg.vertices.length :=
    length_flatten_raw_bytes 8 bg.vertices
  have ev : bg.vertices.map (raw_bytes 8) = bg.vertices := map_raw_bytes_self 8 _ h3
  unfold read_moby_bangles bangles_bytes
  have r1 : read_multiple ((bg.bangles.map MobyBangle.bytes).flatten ++
      (bg.vertices.map (raw_bytes 8)).flatten ++ rest) 4 0 16 "moby bangles" =
      .ok (bg.bangles.map MobyBangle.bytes) := by
    have := read_multiple_eq ((bg.bangles.map MobyBangle.bytes).flatten ++
      (bg.vertices.map (raw_bytes 8)).flatten ++ rest) 4 0 16 "moby bangles"
      (by simp only [List.length_append, lb]; omega)
    rw [List.append_assoc, slice_append_left _ _ _ _ (by rw [lb])] at this
    have e64 : (16 : Nat) * 4 = ((bg.bangles.map MobyBangle.bytes).flatten).length := by
      rw [lb]
    rw [e64, slice_self] at this
    have hc := chunks_flatten 4 (bg.bangles.map MobyBangle.bytes) (fun v hv => by
      obtain ⟨x, _, rfl⟩ := List.mem_map.mp hv
      rfl)
    rw [List.length_map, h1] at hc
    rw [hc, ← List.append_assoc] at this
    exact this
  rw [r1]
  simp only [bind, Except.bind]
  rw [map_parse_bangle_bytes _ h2]
  have ef : bg.bangles.filter (fun b => b.submesh_begin ≠ 0 ∨ b.submesh_begin ≠ 0) =
      bg.bangles.filter (fun x => x.submesh_begin ≠ 0) := by
    apply List.filter_congr
    intro x _
    simp only [or_self]
  rw [ef]
  have ec : (2 : Int) * (((bg.bangles.filter (fun x => x.submesh_begin ≠ 0)).length : Int) - 1) =
      ((bg.vertices.length : Nat) : Int) := by omega
  rw [ec]
  have r2 : read_multiple ((bg.bangles.map MobyBangle.bytes).flatten ++
      (bg.vertices.map (raw_bytes 8)).flatten ++ rest) 8 0x40
      ((bg.vertices.length : Nat) : Int) "moby bangle vertices" = .ok bg.vertices := by
    have := read_multiple_eq ((bg.bangles.map MobyBangle.bytes).flatten ++
      (bg.vertices.map (raw_bytes 8)).flatten ++ rest) 8 0x40 bg.vertices.length
      "moby bangle vertices" (by simp only [List.length_append, lb, lv]; omega)
    rw [List.append_assoc, slice_append_right_of _ _ _ _ (by rw [lb]), lb, Nat.sub_self,
      slice_append_left _ _ _ _ (by rw [lv]; omega)] at this
    have e8 : bg.vertices.length * 8 = ((bg.vertices.map (raw_bytes 8)).flatten).length := by
      rw [lv]; omega
    rw [e8, slice_self, ev] at this
    have hc := chunks_flatten 8 bg.vertices (fun v hv => (h3 v hv).1)
    rw [hc, ← List.append_assoc] at this
    rw [ev]
    exact this
  rw [r2]
  cases bg with
  | mk b v s =>
    simp only at h5
    rw [h5]
    rfl

theorem getElem?_write_moby_corn_kernels (header_ofs : Nat) :
    ∀ (ks : List (Option MobyCornKernel)) (dest hdr : List Nat) (i : Nat), i < dest.length →
      (write_moby_corn_kernels header_ofs ks dest hdr).1[i]? = dest[i]? := by
  intro ks
  induction ks with
  | nil => intro dest hdr i _; rfl
  | cons k rest ih =>
    intro dest hdr i hi
    cases k with
    | none => exact ih _ _ i hi
    | some kernel =>
      unfold write_moby_corn_kernels
      simp only
      have lp := length_pad dest 0x10
      split
      · rw [ih _ _ i (by
          rw [length_write_at]
          simp only [List.length_append]
          omega), getElem?_write_at, if_neg (by omega), List.append_assoc]
        unfold pad
        rw [List.append_assoc, List.getElem?_append_left hi]
      · rw [ih _ _ i (by
          simp only [List.length_append]
          omega), List.append_assoc]
        unfold pad
        rw [List.append_assoc, List.getElem?_append_left hi]

theorem getElem?_write_moby_corncob (dest : List Nat) (corncob : MobyCornCob) (i : Nat)
    (hi : i < dest.length) : (write_moby_corncob dest corncob).1[i]? = dest[i]? := by
  unfold write_moby_corncob
  simp only
  rw [getElem?_write_at, if_neg (by omega),
    getElem?_write_moby_corn_kernels _ _ _ _ i (by rw [List.length_append]; omega),
    List.getElem?_append_left hi]

theorem getElem?_zero_fill_to (d : List Nat) (limit : Int) (i : Nat) (hi : i < d.length) :
    (zero_fill_to d limit)[i]? = d[i]? := by
  unfold zero_fill_to
  exact List.getElem?_append_left hi

theorem getElem?_pad (d : List Nat) (a i : Nat) (hi : i < d.length) : (pad d a)[i]? = d[i]? := by
  unfold pad
  exact List.getElem?_append_left hi

theorem getElem?_zero_fill_to_new (d : List Nat) (limit : Int) (i : Nat) (h1 : d.length ≤ i)
    (h2 : i < (zero_fill_to d limit).length) : (zero_fill_to d limit)[i]? = some 0 := by
  unfold zero_fill_to at h2 ⊢
  rw [List.length_append, List.length_replicate] at h2
  rw [List.getElem?_append_right h1, List.getElem?_replicate, if_pos (by omega)]

theorem length_zero_fill_to_eq (d : List Nat) (limit : Int) :
    ((zero_fill_to d limit).length : Int) = max (d.length : Int) limit := by
  unfold zero_fill_to
  rw [List.length_append, List.length_replicate]
  omega

theorem length_pad_lt (d : List Nat) : (pad d 0x10).length < d.length + 0x10 := by
  rw [length_pad_eq]
  omega

theorem length_pad_aligned (d : List Nat) (h : d.length % 0x10 = 0) :
    (pad d 0x10).length = d.length := by
  rw [length_pad_eq]
  omega

/-- The table entry of the first sequence that has a value holds the first
multiple of 0x10 behind the buffer `write_moby_sequences` was given. -/
theorem write_moby_sequences_first (env : Env) (c : Nat) (format : MobyFormat) :
    ∀ (seqs : List (Option MobySequence)) (dest : List Nat) (list_ofs : Nat),
      list_ofs + 4 * seqs.length ≤ dest.length →
      ∀ k s, k < seqs.length → seqs.getD k none = some s →
        (∀ j, j < k → seqs.getD j none = none) →
        slice (write_moby_sequences env c format seqs dest list_ofs) (list_ofs + 4 * k) 4 =
          le_bytes 4 (to_unsigned 32 (((pad dest 0x10).length : Int) - c)) := by
  intro seqs
  induction seqs with
  | nil => intro dest list_ofs _ k s hk; exact absurd hk (by simp)
  | cons s0 rest ih =>
    intro dest list_ofs ho k s hk hs hn
    rw [List.length_cons] at ho hk
    cases s0 with
    | none =>
      cases k with
      | zero => simp at hs
      | succ k =>
        unfold write_moby_sequences
        have := ih (write_at dest list_ofs (le_bytes 4 0)) (list_ofs + 4)
          (by rw [length_write_at]; omega) k s (by omega) (by simpa using hs)
          (fun j hj => by
            have := hn (j + 1) (by omega)
            simpa using this)
        rw [length_pad_eq, length_write_at, ← length_pad_eq] at this
        rw [← this]
        congr 1
        omega
    | some s0 =>
      cases k with
      | succ k =>
        have := hn 0 (by omega)
        simp at this
      | zero =>
        unfold write_moby_sequences
        obtain ⟨a1, b1, o, oe, o1, o2, o3⟩ := write_moby_sequence_spec env c format dest list_ofs
          s0 (by omega)
        obtain ⟨a, b, _⟩ := write_moby_sequences_spec env c format rest
          (write_moby_sequence env c format dest list_ofs s0) (list_ofs + 4) (by omega)
        show slice _ list_ofs 4 = _
        rw [slice_eq_of_agree _ (write_moby_sequence env c format dest list_ofs s0) list_ofs 4
            (fun i h1 h2 => b i (by omega) (by omega)), o2, oe]

/-! ### The end of the sequence region -/

theorem write_moby_frames_last (c : Nat) :
    ∀ (frames : List MobyFrame) (dest : List Nat) (fp : Nat), frames ≠ [] →
      fp + 4 * frames.length ≤ dest.length →
      ∃ p, dest.length ≤ p ∧ p % 0x10 = 0 ∧
        slice (write_moby_frames c frames dest fp) (fp + 4 * (frames.length - 1)) 4 =
          le_bytes 4 (to_unsigned 32 ((p : Int) - c)) ∧
        p + 0x10 + (frames.getD (frames.length - 1) ⟨0, 0, 0, 0, 0, []⟩).data.length =
          (write_moby_frames c frames dest fp).length := by
  intro frames
  induction frames with
  | nil => intro dest fp h; exact absurd rfl h
  | cons frame rest ih =>
    intro dest fp _ ho
    rw [List.length_cons] at ho
    unfold write_moby_frames
    simp only
    obtain ⟨d0, hd0⟩ : ∃ d0, d0 = pad dest 0x10 := ⟨_, rfl⟩
    rw [← hd0]
    have l0 : dest.length ≤ d0.length := by rw [hd0]; exact length_pad _ _
    have m0 : d0.length % 0x10 = 0 := by rw [hd0]; exact length_pad_mod _ _ (by omega)
    have lh := length_frame_header_bytes frame
    generalize hE : le_bytes 4 (to_unsigned 32 ((d0.length : Int) - c)) = E
    have lE : E.length = 4 := by rw [← hE, length_le_bytes]
    obtain ⟨d2, hd2⟩ : ∃ d2, d2 = write_at (d0 ++ frame_header_bytes frame) fp E := ⟨_, rfl⟩
    rw [← hd2]
    have l2 : d2.length = d0.length + 0x10 := by
      rw [hd2, length_write_at, List.length_append, lh]
    obtain ⟨d3, hd3⟩ : ∃ d3, d3 = d2 ++ frame.data.map (fun b => b % 256) := ⟨_, rfl⟩
    rw [← hd3]
    have l3 : d3.length = d2.length + frame.data.length := by
      rw [hd3, List.length_append, List.length_map]
    cases rest with
    | nil =>
      unfold write_moby_frames
      refine ⟨d0.length, l0, m0, ?_, ?_⟩
      · show slice d3 (fp + 4 * 0) 4 = _
        rw [hE, Nat.mul_zero, Nat.add_zero, hd3, slice_append_left _ _ _ _ (by omega), hd2, ← lE]
        exact slice_write_at_self _ _ _ (by rw [List.length_append]; omega)
      · show d0.length + 0x10 + frame.data.length = d3.length
        omega
    | cons f2 rest2 =>
      obtain ⟨p, q1, q2, q3, q4⟩ := ih d3 (fp + 4) (fun h => nomatch h)
        (by simp only [List.length_cons] at ho ⊢; omega)
      refine ⟨p, by omega, q2, ?_, ?_⟩
      · rw [← q3]
        congr 1
        simp only [List.length_cons]
        omega
      · rw [← q4]
        simp only [List.length_cons, Nat.add_sub_cancel, List.getD_cons_succ]

theorem write_moby_sequence_last (env : Env) (c : Nat) (format : MobyFormat)
    (dest : List Nat) (list_ofs : Nat) (sequence : MobySequence)
    (hf : sequence.frames ≠ []) :
    ∃ p, (pad dest 0x10).length + 0x1c + 4 * sequence.frames.length ≤ p ∧ p % 0x10 = 0 ∧
      slice (write_moby_sequence env c format dest list_ofs sequence)
        ((pad dest 0x10).length + 0x1c + 4 * (sequence.frames.length - 1)) 4 =
        le_bytes 4 (to_unsigned 32 ((p : Int) - c)) ∧
      p + 0x10 + (sequence.frames.getD (sequence.frames.length - 1)
        ⟨0, 0, 0, 0, 0, []⟩).data.length =
        (write_moby_sequence env c format dest list_ofs sequence).length := by
  rw [write_moby_sequence_eq]
  obtain ⟨d0, hd0⟩ : ∃ d0, d0 = pad dest 0x10 := ⟨_, rfl⟩
  rw [← hd0]
  have l0 : dest.length ≤ d0.length := by rw [hd0]; exact length_pad _ _
  generalize hE : le_bytes 4 (to_unsigned 32 ((d0.length : Int) - c)) = E
  obtain ⟨d2, hd2⟩ : ∃ d2, d2 = write_at (d0 ++ List.replicate 0x1c 0) list_ofs E := ⟨_, rfl⟩
  rw [← hd2]
  have l2 : d2.length = d0.length + 0x1c := by
    rw [hd2, length_write_at, List.length_append, List.length_replicate]
  have lt := length_flatten_le_bytes 4 sequence.triggers
  obtain ⟨d4, hd4⟩ : ∃ d4, d4 = d2 ++ List.replicate (4 * sequence.frames.length) 0 ++
    (sequence.triggers.map (le_bytes 4)).flatten := ⟨_, rfl⟩
  rw [← hd4]
  have l4 : d4.length = d0.length + 0x1c + 4 * sequence.frames.length +
      4 * sequence.triggers.length := by
    rw [hd4, List.length_append, List.length_append, List.length_replicate, lt, l2]
  obtain ⟨d5, hd5⟩ : ∃ d5, d5 = d4 ++
    (sequence.trigger_data.map (raw_bytes env.sizeof_MobyTriggerData)).getD [] := ⟨_, rfl⟩
  rw [← hd5]
  have l5 : d4.length ≤ d5.length := by
    rw [hd5, List.length_append]; omega
  obtain ⟨p, q1, q2, q3, q4⟩ := write_moby_frames_last c sequence.frames d5 d2.length hf
    (by omega)
  generalize write_moby_frames c sequence.frames d5 d2.length = d6 at q3 q4 ⊢
  obtain ⟨t, ht⟩ : ∃ t, t = (if sequence.trigger_data.isSome then d4.length - d0.length
    else 0) := ⟨_, rfl⟩
  rw [← ht]
  obtain ⟨_, _, _, _, _, hs6, _⟩ := sequence_header_slices
    (raw_bytes 0x10 sequence.bounding_sphere) (le_bytes 4 t) (le_bytes 4 sequence.animation_info)
    (sequence.frames.length % 256) (sequence.sound_count % 256) (sequence.triggers.length % 256)
    (if format = MobyFormat.RAC1 then 0 else 0xff) (length_raw_bytes _ _) (length_le_bytes _ _)
    (length_le_bytes _ _)
  generalize raw_bytes 0x10 sequence.bounding_sphere ++
    [sequence.frames.length % 256, sequence.sound_count % 256, sequence.triggers.length % 256,
      if format = MobyFormat.RAC1 then 0 else 0xff] ++ le_bytes 4 t ++
    le_bytes 4 sequence.animation_info = H at hs6 ⊢
  refine ⟨p, by omega, q2, ?_, ?_⟩
  · rw [slice_write_at_disjoint _ _ _ _ _ (Or.inr (by omega)), ← q3]
    congr 1
    omega
  · rw [length_write_at]
    exact q4

theorem write_moby_sequences_none (env : Env) (c : Nat) (format : MobyFormat) :
    ∀ (seqs : List (Option MobySequence)) (dest : List Nat) (list_ofs : Nat),
      (∀ j, j < seqs.length → seqs.getD j none = none) →
      (write_moby_sequences env c format seqs dest list_ofs).length = dest.length := by
  intro seqs
  induction seqs with
  | nil => intro dest list_ofs _; rfl
  | cons s rest ih =>
    intro dest list_ofs h
    have h0 := h 0 (by simp)
    simp only [List.getD_cons_zero] at h0
    rw [h0]
    unfold write_moby_sequences
    rw [ih _ _ (fun j hj => by
      have := h (j + 1) (by simp only [List.length_cons]; omega)
      simpa using this), length_write_at]

/-- The last frame of the last sequence that has a value ends the output of
`write_moby_sequences`. -/
theorem write_moby_sequences_last (env : Env) (c : Nat) (format : MobyFormat) :
    ∀ (seqs : List (Option MobySequence)) (dest : List Nat) (list_ofs : Nat),
      list_ofs + 4 * seqs.length ≤ dest.length →
      ∀ k s, k < seqs.length → seqs.getD k none = some s →
        (∀ j, k < j → j < seqs.length → seqs.getD j none = none) → s.frames ≠ [] →
        ∃ o p, dest.length ≤ o ∧ o + 0x1c + 4 * s.frames.length ≤ p ∧ p % 0x10 = 0 ∧
          slice (write_moby_sequences env c format seqs dest list_ofs) (list_ofs + 4 * k) 4 =
            le_bytes 4 (to_unsigned 32 ((o : Int) - c)) ∧
          slice (write_moby_sequences env c format seqs dest list_ofs)
            (o + 0x1c + 4 * (s.frames.length - 1)) 4 =
            le_bytes 4 (to_unsigned 32 ((p : Int) - c)) ∧
          p + 0x10 + (s.frames.getD (s.frames.length - 1) ⟨0, 0, 0, 0, 0, []⟩).data.length =
            (write_moby_sequences env c format seqs dest list_ofs).length := by
  intro seqs
  induction seqs with
  | nil => intro dest list_ofs _ k s hk; exact absurd hk (by simp)
  | cons s0 rest ih =>
    intro dest list_ofs ho k s hk hs hn hf
    rw [List.length_cons] at ho hk
    cases k with
    | succ k =>
      have hrest : ∀ d1 : List Nat, dest.length ≤ d1.length →
          ∃ o p, dest.length ≤ o ∧ o + 0x1c + 4 * s.frames.length ≤ p ∧ p % 0x10 = 0 ∧
          slice (write_moby_sequences env c format rest d1 (list_ofs + 4))
            (list_ofs + 4 * (k + 1)) 4 = le_bytes 4 (to_unsigned 32 ((o : Int) - c)) ∧
          slice (write_moby_sequences env c format rest d1 (list_ofs + 4))
            (o + 0x1c + 4 * (s.frames.length - 1)) 4 =
            le_bytes 4 (to_unsigned 32 ((p : Int) - c)) ∧
          p + 0x10 + (s.frames.getD (s.frames.length - 1) ⟨0, 0, 0, 0, 0, []⟩).data.length =
            (write_moby_sequences env c format rest d1 (list_ofs + 4)).length := fun d1 hd1 => by
        obtain ⟨o, p, q1, q2, q3, q4, q5, q6⟩ := ih d1 (list_ofs + 4) (by omega) k s (by omega)
          (by simpa using hs) (fun j hj1 hj2 => by
            have := hn (j + 1) (by omega) (by simp only [List.length_cons]; omega)
            simpa using this) hf
        refine ⟨o, p, by omega, q2, q3, ?_, q5, q6⟩
        rw [← q4]
        congr 1
        omega
      cases s0 with
      | none =>
        unfold write_moby_sequences
        exact hrest _ (le_of_eq (length_write_at _ _ _).symm)
      | some s0 =>
        unfold write_moby_sequences
        exact hrest _ (write_moby_sequence_spec env c format dest list_ofs s0 (by omega)).1
    | zero =>
      simp only [List.getD_cons_zero] at hs
      rw [hs]
      unfold write_moby_sequences
      obtain ⟨a1, _, o, e1, e2, e3, e4⟩ := write_moby_sequence_spec env c format dest list_ofs s
        (by omega)
      obtain ⟨p, q1, q2, q3, q4⟩ := write_moby_sequence_last env c format dest list_ofs s hf
      rw [← e1] at q1 q3
      have hstored := e4.1
      have hlen : 0 < s.frames.length := List.length_pos.mpr hf
      obtain ⟨b1, b2, _⟩ := write_moby_sequences_spec env c format rest
        (write_moby_sequence env c format dest list_ofs s) (list_ofs + 4) (by omega)
      have ln := write_moby_sequences_none env c format rest
        (write_moby_sequence env c format dest list_ofs s) (list_ofs + 4) (fun j hj => by
          have := hn (j + 1) (by omega) (by simp only [List.length_cons]; omega)
          simpa using this)
      generalize write_moby_sequence env c format dest list_ofs s = d1
        at a1 e3 q3 q4 hstored b1 b2 ln ⊢
      generalize write_moby_sequences env c format rest d1 (list_ofs + 4) = W at b1 b2 ln ⊢
      refine ⟨o, p, e2, q1, q2, ?_, ?_, by omega⟩
      · rw [slice_eq_of_agree W d1 _ 4 (fun i i1 i2 => b2 i (by omega) (Or.inl (by omega))),
          Nat.mul_zero, Nat.add_zero]
        exact e3
      · rw [slice_eq_of_agree W d1 _ 4 (fun i i1 i2 => b2 i (by omega) (Or.inr (by omega)))]
        exact q3

/-- What `write_class_front` leaves in its buffer: the bytes before the class,
the sequence offset table with an entry for every sequence, the zero bytes up
to `header_end_offset`, the bangles and the corncob at multiples of 0x10, and
the sequences from a multiple of 0x10 on. -/
theorem write_class_front_content (env : Env) (dest : List Nat) (moby : MobyClassData)
    (game : Game) (P : ClassFront) (hP : P = write_class_front env dest moby game) :
    (∀ i, i < dest.length → P.dest[i]? = dest[i]?) ∧
    (∀ k, k < moby.sequences.length →
      (moby.sequences.getD k none = none →
        slice P.dest (dest.length + 0x48 + 4 * k) 4 = le_bytes 4 0) ∧
      (∀ s, moby.sequences.getD k none = some s → ∃ o hi, P.sequences_ofs ≤ o ∧
        hi ≤ P.sequences_end ∧
        slice P.dest (dest.length + 0x48 + 4 * k) 4 =
          le_bytes 4 (to_unsigned 32 ((o : Int) - dest.length)) ∧
        sequence_stored env P.dest dest.length o hi s)) ∧
    (∀ k s, k < moby.sequences.length → moby.sequences.getD k none = some s →
      (∀ j, j < k → moby.sequences.getD j none = none) →
      slice P.dest (dest.length + 0x48 + 4 * k) 4 =
        le_bytes 4 (to_unsigned 32 ((P.sequences_ofs : Int) - dest.length))) ∧
    (∀ i, dest.length + 0x48 + 4 * moby.sequences.length ≤ i → i < P.header_padding_end →
      P.dest[i]? = some 0) ∧
    (P.header_padding_end : Int) =
      max (((dest.length + 0x48 + 4 * moby.sequences.length : Nat) : Int))
        ((dest.length : Int) + moby.header_end_offset) ∧
    (moby.bangles = none →
      P.bangles_ofs = P.header_padding_end ∧ P.bangles_end = P.header_padding_end) ∧
    (∀ bg, moby.bangles = some bg →
      P.bangles_ofs % 0x10 = 0 ∧ P.bangles_ofs < P.header_padding_end + 0x10 ∧
      P.bangles_end = P.bangles_ofs + (bangles_bytes bg).length ∧
      slice P.dest P.bangles_ofs (bangles_bytes bg).length = bangles_bytes bg) ∧
    ((moby.corncob = none ∨ game = Game.RAC1) →
      P.corncob_ofs = P.bangles_end ∧ P.corncob_end = P.bangles_end) ∧
    (∀ cc, moby.corncob = some cc → game ≠ Game.RAC1 →
      P.corncob_ofs % 0x10 = 0 ∧ P.corncob_ofs < P.bangles_end + 0x10 ∧
      (corncob_well_formed cc → corncob_stored P.dest P.corncob_ofs P.corncob_end cc)) ∧
    P.sequences_ofs % 0x10 = 0 ∧ P.sequences_ofs < P.corncob_end + 0x10 ∧
    (P.submesh_table_1_ofs : Int) =
      max (((P.sequences_end + (0x10 - P.sequences_end % 0x10) % 0x10 : Nat) : Int))
        ((dest.length : Int) + moby.submesh_table_offset) ∧
    (∀ k s, k < moby.sequences.length → moby.sequences.getD k none = some s →
      (∀ j, k < j → j < moby.sequences.length → moby.sequences.getD j none = none) →
      s.frames ≠ [] →
      ∃ o p, P.sequences_ofs ≤ o ∧ o + 0x1c + 4 * s.frames.length ≤ p ∧ p % 0x10 = 0 ∧
        slice P.dest (dest.length + 0x48 + 4 * k) 4 =
          le_bytes 4 (to_unsigned 32 ((o : Int) - dest.length)) ∧
        slice P.dest (o + 0x1c + 4 * (s.frames.length - 1)) 4 =
          le_bytes 4 (to_unsigned 32 ((p : Int) - dest.length)) ∧
        p + 0x10 + (s.frames.getD (s.frames.length - 1) ⟨0, 0, 0, 0, 0, []⟩).data.length =
          P.sequences_end) := by
  obtain ⟨d4a, d4, d5a, d5, zb, hbn, hbs, hcn, hcs, hPeq⟩ :=
    write_class_front_stages env dest moby game
  rw [hP, hPeq]
  simp only
  have l2 : (dest ++ List.replicate 0x48 0 ++
      List.replicate (4 * moby.sequences.length) 0).length =
      dest.length + 0x48 + 4 * moby.sequences.length := by
    simp only [List.length_append, List.length_replicate]
  have l1 : (dest ++ List.replicate 0x48 0).length = dest.length + 0x48 := by
    simp only [List.length_append, List.length_replicate]
  have g2 : ∀ i, i < dest.length → (dest ++ List.replicate 0x48 0 ++
      List.replicate (4 * moby.sequences.length) 0)[i]? = dest[i]? := fun i hi => by
    rw [List.append_assoc, List.getElem?_append_left hi]
  rw [l1]
  generalize hd2 : dest ++ List.replicate 0x48 0 ++
    List.replicate (4 * moby.sequences.length) 0 = d2 at hbn hbs l2 g2 ⊢
  have l3 := length_zero_fill_to_eq d2 ((dest.length : Int) + moby.header_end_offset)
  have g3 := getElem?_zero_fill_to d2 ((dest.length : Int) + moby.header_end_offset)
  have z3 := getElem?_zero_fill_to_new d2 ((dest.length : Int) + moby.header_end_offset)
  generalize hd3 : zero_fill_to d2 ((dest.length : Int) + moby.header_end_offset) = d3
    at hbn hbs l3 g3 z3 ⊢
  rw [l2] at l3 g3 z3
  have l3n : dest.length + 0x48 + 4 * moby.sequences.length ≤ d3.length := by omega
  -- the bangles
  have hB : d3.length ≤ d4a.length ∧ d4a.length ≤ d4.length ∧
      ∀ i, i < d3.length → d4[i]? = d3[i]? := by
    cases hb : moby.bangles with
    | none =>
      obtain ⟨e1, e2, _⟩ := hbn hb
      rw [e2, e1]
      exact ⟨le_refl _, le_refl _, fun _ _ => rfl⟩
    | some bg =>
      obtain ⟨e1, e2, _⟩ := hbs bg hb
      rw [e2, e1]
      refine ⟨length_pad _ _, by rw [List.length_append]; omega, fun i hi => ?_⟩
      rw [List.getElem?_append_left (by have := length_pad d3 0x10; omega), getElem?_pad _ _ _ hi]
  obtain ⟨hB1, hB2, hB3⟩ := hB
  -- the corncob
  have hC : d4.length ≤ d5a.length ∧ d5a.length ≤ d5.length ∧
      ∀ i, i < d4.length → d5[i]? = d4[i]? := by
    by_cases hc : moby.corncob = none ∨ game = Game.RAC1
    · obtain ⟨e1, e2⟩ := hcn hc
      rw [e2, e1]
      exact ⟨le_refl _, le_refl _, fun _ _ => rfl⟩
    · cases hcc : moby.corncob with
      | none => exact absurd (Or.inl hcc) hc
      | some cc =>
        obtain ⟨e1, e2⟩ := hcs cc hcc (fun hg => hc (Or.inr hg))
        rw [e2, e1]
        refine ⟨length_pad _ _, length_write_moby_corncob _ _, fun i hi => ?_⟩
        rw [getElem?_write_moby_corncob _ _ _ (by have := length_pad d4 0x10; omega),
          getElem?_pad _ _ _ hi]
  obtain ⟨hC1, hC2, hC3⟩ := hC
  -- the sequences
  have l6 := length_pad d5 0x10
  have m6 : (pad d5 0x10).length % 0x10 = 0 := length_pad_mod _ _ (by omega)
  have l6lt := length_pad_lt d5
  have g6 := getElem?_pad d5 0x10
  obtain ⟨sa, sb, sc⟩ := write_moby_sequences_spec env dest.length
    (write_format game moby.force_rac1_format) moby.sequences (pad d5 0x10) (dest.length + 0x48)
    (by omega)
  have sf := write_moby_sequences_first env dest.length
    (write_format game moby.force_rac1_format) moby.sequences (pad d5 0x10) (dest.length + 0x48)
    (by omega)
  rw [length_pad_aligned _ m6] at sf
  have sl := write_moby_sequences_last env dest.length
    (write_format game moby.force_rac1_format) moby.sequences (pad d5 0x10) (dest.length + 0x48)
    (by omega)
  generalize hd6 : pad d5 0x10 = d6 at l6 m6 l6lt g6 sa sb sc sf sl ⊢
  generalize hW : write_moby_sequences env dest.length
    (write_format game moby.force_rac1_format) moby.sequences d6 (dest.length + 0x48) = W
    at sa sb sc sf sl ⊢
  have l7 := length_pad W 0x10
  have l7e := length_pad_eq W 0x10
  have g7 := getElem?_pad W 0x10
  generalize hd7 : pad W 0x10 = d7 at l7 l7e g7 ⊢
  have l8 := length_zero_fill_to_eq d7 ((dest.length : Int) + moby.submesh_table_offset)
  have g8 := getElem?_zero_fill_to d7 ((dest.length : Int) + moby.submesh_table_offset)
  generalize hd8 : zero_fill_to d7 ((dest.length : Int) + moby.submesh_table_offset) = d8
    at l8 g8 ⊢
  have l8n : d7.length ≤ d8.length := by omega
  have gF : ∀ i, i < W.length → (d8 ++ List.replicate (0x10 * moby.submeshes.length) 0 ++
      List.replicate (0x10 * moby.low_detail_submeshes.length) 0 ++
      List.replicate (0x10 * moby.metal_submeshes.length) 0 ++ zb)[i]? = W[i]? := fun i hi => by
    rw [List.append_assoc, List.append_assoc, List.append_assoc,
      List.getElem?_append_left (by omega), g8 i (by omega), g7 i hi]
  have lF : W.length ≤ (d8 ++ List.replicate (0x10 * moby.submeshes.length) 0 ++
      List.replicate (0x10 * moby.low_detail_submeshes.length) 0 ++
      List.replicate (0x10 * moby.metal_submeshes.length) 0 ++ zb).length := by
    simp only [List.length_append]
    omega
  generalize d8 ++ List.replicate (0x10 * moby.submeshes.length) 0 ++
      List.replicate (0x10 * moby.low_detail_submeshes.length) 0 ++
      List.replicate (0x10 * moby.metal_submeshes.length) 0 ++ zb = F at gF lF ⊢
  -- bytes written before the sequences, outside the offset table, stay
  have low : ∀ i, i < d5.length →
      (i < dest.length + 0x48 ∨ dest.length + 0x48 + 4 * moby.sequences.length ≤ i) →
      F[i]? = d5[i]? := fun i hi hr => by
    rw [gF i (by omega), sb i (by omega) hr, g6 i hi]
  have sF : ∀ a w, a + w ≤ W.length → slice F a w = slice W a w := fun a w h =>
    slice_eq_of_agree F W a w (fun i i1 i2 => gF i (by omega))
  refine ⟨fun i hi => ?_, fun k hk => ⟨fun hn => ?_, fun s hs => ?_⟩, fun k s hk hs hn => ?_,
    fun i h1 h2 => ?_, l3, fun hb => ?_, fun bg hb => ?_, fun hc => ?_, fun cc hcc hg => ?_,
    m6, by omega, ?_, fun k s hk hs hn hf => ?_⟩
  · rw [low i (by omega) (Or.inl (by omega)), hC3 i (by omega), hB3 i (by omega),
      g3 i (by omega), g2 i hi]
  · rw [sF _ _ (by omega), (sc k hk).1 hn]
  · obtain ⟨o, hi, o1, o2, o3⟩ := (sc k hk).2 s hs
    exact ⟨o, hi, o1, o3.2.1, by rw [sF _ _ (by omega), o2],
      sequence_stored_of_agree o3 (fun i i1 i2 => gF i (by have := o3.2.1; omega))
        (by have := o3.2.1; omega)⟩
  · rw [sF _ _ (by omega), sf k s hk hs hn]
  · rw [low i (by omega) (Or.inr h1), hC3 i (by omega), hB3 i h2]
    exact z3 i h1 h2
  · obtain ⟨e1, e2, _⟩ := hbn hb
    rw [e2, e1]
    exact ⟨rfl, rfl⟩
  · obtain ⟨e1, e2, _⟩ := hbs bg hb
    have lp := length_pad d3 0x10
    have la : d4.length = d4a.length + (bangles_bytes bg).length := by
      rw [e2, List.length_append]
    refine ⟨by rw [e1]; exact length_pad_mod _ _ (by omega), by rw [e1]; exact length_pad_lt _,
      la, ?_⟩
    rw [slice_eq_of_agree F d4 d4a.length _ (fun i i1 i2 => by
      rw [low i (by omega) (Or.inr (by omega)), hC3 i (by omega)]), e2]
    exact slice_append_right _ _
  · obtain ⟨e1, e2⟩ := hcn hc
    rw [e1]
    exact ⟨rfl, by rw [e2]⟩
  · obtain ⟨e1, e2⟩ := hcs cc hcc hg
    have lp := length_pad d4 0x10
    have m5 : d5a.length % 0x10 = 0 := by rw [e1]; exact length_pad_mod _ _ (by omega)
    refine ⟨m5, by rw [e1]; exact length_pad_lt _, fun hw => ?_⟩
    have hst := write_moby_corncob_stored d5a cc hw m5
    rw [← e2] at hst
    exact corncob_stored_of_agree hst
      (fun i i1 i2 => low i i2 (Or.inr (by rw [e1] at i1; omega))) (by omega)
  · rw [l8, l7e]
  · obtain ⟨o, p, q1, q2, q3, q4, q5, q6⟩ := sl k s hk hs hn hf
    exact ⟨o, p, q1, q2, q3, by rw [sF _ _ (by omega), q4], by rw [sF _ _ (by omega), q5], q6⟩

/-- The parts of a written class: the payloads were written, the bytes before
the class are untouched, the header stands at the start of the class, and
behind the header every byte outside the submesh tables is the one
`write_class_middle` left, which below the end of the buffer of
`write_class_front` is the one `write_class_front` left. -/
theorem written_class_parts {env : Env} {dest : List Nat} {moby : MobyClassData} {game : Game}
    {b : List Nat} (hw : write_moby_class env dest moby game = .ok b)
    (P : ClassFront) (hP : P = write_class_front env dest moby game)
    (M : ClassMiddle) (hM : M = write_class_middle env dest.length P.dest moby) :
    ∃ q, write_class_payloads env dest.length (write_format game moby.force_rac1_format)
        P M.dest moby = .ok q ∧
      write_moby_class_body env dest moby game = .ok (q.dest ++ gif_usage_bytes q.gif_usage,
        class_header moby game dest.length P M q, class_regions dest.length P M q) ∧
      dest.length % 0x40 = 0 ∧ check_class_counts moby = .ok () ∧
      M.dest.length ≤ q.dest.length ∧
      b.length = q.dest.length + (gif_usage_bytes q.gif_usage).length ∧
      b.drop q.dest.length = gif_usage_bytes q.gif_usage ∧
      slice b dest.length 0x48 =
        write_at (class_header moby game dest.length P M q).bytes 4 (le_bytes 4 moby.byte_4) ∧
      (∀ i, i < dest.length → b[i]? = dest[i]?) ∧
      (∀ i, dest.length + 0x48 ≤ i → i < q.dest.length → b[i]? = q.dest[i]?) ∧
      (∀ i, i < M.dest.length → (i < P.submesh_table_1_ofs ∨ P.dest.length ≤ i) →
        q.dest[i]? = M.dest[i]?) ∧
      (∀ i, i < P.dest.length → M.dest[i]? = P.dest[i]?) := by
  subst hP
  subst hM
  obtain ⟨out, hb, he⟩ := write_moby_class_ok hw
  obtain ⟨hh, hlen⟩ := written_class_header hb he
  obtain ⟨ha, hc, q, hq, ho⟩ := write_moby_class_body_ok hb
  obtain ⟨f1, f2, f3, f4, f5, f6, f7, f8, f9, f10, f11, f12, f13, f14, f15⟩ :=
    write_class_front_order env dest moby game
  obtain ⟨m1, m2, m3, m4, m5, m6, m7, m8, m9, m10⟩ := write_class_middle_order env dest.length
    (write_class_front env dest moby game).dest moby
  obtain ⟨c1, c2, _⟩ := write_class_middle_content env dest.length
    (write_class_front env dest moby game).dest moby _ rfl
  obtain ⟨_, q1, q2, q3, q4⟩ := @write_class_payloads_spec 0 0 _ _ _ _ _ _ _ hq
    (Or.inr (Nat.zero_le _)) (Or.inr (Nat.zero_le _)) (Or.inr (Nat.zero_le _))
    (fun _ _ => Or.inr (Nat.zero_le _)) (Nat.zero_le _)
  have hbl : ∀ bg, moby.bangles = some bg →
      (write_class_front env dest moby game).dest.length =
        (write_class_front env dest moby game).bangles_submesh_table_ofs +
          0x10 * bg.submeshes.length := fun bg hbg => by
    rw [hbg] at f15
    exact f15
  rw [ho] at he hh hlen
  simp only at he hh hlen
  have hlq : q.dest.length ≤ (q.dest ++ gif_usage_bytes q.gif_usage).length := by
    rw [List.length_append]; omega
  refine ⟨q, hq, ho ▸ hb, ha, hc, by omega, by rw [hlen, List.length_append], ?_, hh, fun i hi => ?_,
    fun i h1 h2 => ?_, fun i h1 h2 => ?_, fun i hi => ?_⟩
  · rw [he, drop_write_at _ _ _ _ (by rw [length_le_bytes]; omega),
      drop_write_at _ _ _ _ (by rw [length_MobyClassHeader_bytes]; omega)]
    exact List.drop_left _ _
  · obtain ⟨p, _⟩ := @write_class_payloads_spec i (i + 1) _ _ _ _ _ _ _ hq
      (Or.inr (by omega)) (Or.inr (by omega)) (Or.inr (by omega))
      (fun _ _ => Or.inr (by omega)) (by omega)
    rw [he, getElem?_write_at, if_neg (by omega), getElem?_write_at, if_neg (by omega),
      List.getElem?_append_left (by omega), p.2 i (le_refl _) (by omega)]
    have h1 := getElem?_of_slice_one _ _ i (c1 i 1 (by omega))
    rw [h1]
    exact (write_class_front_content env dest moby game _ rfl).1 i hi
  · rw [he, getElem?_write_at, if_neg (by rw [length_le_bytes]; omega), getElem?_write_at,
      if_neg (by rw [length_MobyClassHeader_bytes]; omega), List.getElem?_append_left h2]
  · cases h2 with
    | inl h2 =>
      obtain ⟨p, _⟩ := @write_class_payloads_spec i (i + 1) _ _ _ _ _ _ _ hq
        (Or.inr (by omega)) (Or.inr (by omega)) (Or.inr (by omega))
        (fun _ _ => Or.inr (by omega)) (by omega)
      exact p.2 i (le_refl _) (by omega)
    | inr h2 =>
      obtain ⟨p, _⟩ := @write_class_payloads_spec i (i + 1) _ _ _ _ _ _ _ hq
        (Or.inl (by omega)) (Or.inl (by omega)) (Or.inl (by omega))
        (fun bg hbg => Or.inl (by have := hbl bg hbg; omega)) (by omega)
      exact p.2 i (le_refl _) (by omega)
  · exact getElem?_of_slice_one _ _ i (c1 i 1 (by omega))

/-- The converse of `read_moby_class_ok`: when every read of `read_moby_class`
succeeds and the class has a sequence, the model is assembled from the values
read. -/
theorem read_moby_class_eq {env : Env} {src : List Nat} {game : Game}
    {hb : List Nat} {byte_4 : Nat} {m0 : Int} {seq_offsets : List (List Nat)}
    {bangles : Option MobyBangles} {corncob : Option MobyCornCob}
    {sequences : List (Option MobySequence) × Int} {collision : Option MobyCollision}
    {skeleton : List (List Nat)} {common_trans : List Nat} {joints : List (List Nat)}
    {sound_defs : List (List Nat)} {tables : ClassSubmeshes} {mystery_data : List Nat}
    (r1 : read_bytes src 0 0x48 "moby class header" = .ok hb)
    (r2 : read_uint src 4 4 "moby class header" = .ok byte_4)
    (r3 : read_sint src 4 0x48 "moby sequences" = .ok m0)
    (r4 : read_multiple src 4 0x48 (MobyClassHeader.parse hb).sequence_count "sequence offsets" =
      .ok seq_offsets)
    (r5 : read_class_bangles src (MobyClassHeader.parse hb) = .ok bangles)
    (r6 : read_class_corncob src game (MobyClassHeader.parse hb) = .ok corncob)
    (r7 : read_moby_sequences env src (MobyClassHeader.parse hb).sequence_count m0 =
      .ok sequences)
    (rc : 1 ≤ (MobyClassHeader.parse hb).sequence_count)
    (r8 : read_class_collision src (MobyClassHeader.parse hb) = .ok collision)
    (r9 : read_multiple src 0x40 (MobyClassHeader.parse hb).skeleton
      (MobyClassHeader.parse hb).joint_count "skeleton" = .ok skeleton)
    (r10 : read_bytes src (MobyClassHeader.parse hb).common_trans
      (((MobyClassHeader.parse hb).joint_count : Int) * 0x10) "moby common trans" =
        .ok common_trans)
    (r11 : read_moby_joints src (MobyClassHeader.parse hb).joints = .ok joints)
    (r12 : read_multiple src env.sizeof_MobySoundDef (MobyClassHeader.parse hb).sound_defs
      (MobyClassHeader.parse hb).sound_count "moby sound defs" = .ok sound_defs)
    (r13 : read_class_submeshes env src (MobyClassHeader.parse hb)
      (read_format game (MobyClassHeader.parse hb).rac12_byte_b).1 bangles
      (mystery_after_collision (MobyClassHeader.parse hb) collision sequences.2) = .ok tables)
    (r14 : read_bytes src tables.mystery_data_ofs
      ((MobyClassHeader.parse hb).skeleton - tables.mystery_data_ofs) "moby mystery data" =
        .ok mystery_data) :
    read_moby_class env src game = .ok
      { byte_4 := byte_4, unknown_9 := (MobyClassHeader.parse hb).unknown_9,
        rac1_byte_a := (MobyClassHeader.parse hb).rac1_byte_a,
        rac1_byte_b := (MobyClassHeader.parse hb).rac12_byte_b,
        lod_trans := (MobyClassHeader.parse hb).lod_trans,
        shadow := (MobyClassHeader.parse hb).shadow, scale := (MobyClassHeader.parse hb).scale,
        mip_dist := (MobyClassHeader.parse hb).mip_dist,
        bounding_sphere := (MobyClassHeader.parse hb).bounding_sphere,
        glow_rgba := (MobyClassHeader.parse hb).glow_rgba,
        mode_bits := (MobyClassHeader.parse hb).mode_bits,
        type := (MobyClassHeader.parse hb).type,
        mode_bits2 := (MobyClassHeader.parse hb).mode_bits2,
        force_rac1_format := (read_format game (MobyClassHeader.parse hb).rac12_byte_b).2,
        header_end_offset := read_header_end_offset game (MobyClassHeader.parse hb) seq_offsets,
        bangles := tables.bangles,
        rac1_short_2e := if game = Game.RAC1 then (MobyClassHeader.parse hb).corncob else 0,
        corncob := corncob, sequences := sequences.1, collision := collision,
        skeleton := skeleton, common_trans := common_trans, joints := joints,
        sound_defs := sound_defs, has_submesh_table := tables.has_submesh_table,
        submesh_table_offset := tables.submesh_table_offset, submeshes := tables.submeshes,
        low_detail_submeshes := tables.low_detail_submeshes,
        metal_submeshes := tables.metal_submeshes, mystery_data := mystery_data } := by
  unfold read_moby_class
  rw [r1]
  simp only [bind, Except.bind]
  rw [r2]
  simp only
  rw [r3]
  simp only
  rw [r4]
  simp only
  rw [r5]
  simp only
  rw [r6]
  simp only
  rw [r7]
  simp only
  rw [if_neg (not_not.mpr rc), r8]
  simp only
  rw [r9]
  simp only
  rw [r10]
  simp only
  rw [r11]
  simp only
  rw [r12]
  simp only
  rw [r13]
  simp only
  rw [r14]
  rfl

/-! ### Reading a written class back (C1) -/

theorem write_class_payloads_empty (env : Env) (c : Nat) (format : MobyFormat)
    (tables : ClassFront) (dest : List Nat) (moby : MobyClassData)
    (h1 : moby.submeshes = []) (h2 : moby.low_detail_submeshes = [])
    (h3 : moby.metal_submeshes = []) (h4 : ∀ bg, moby.bangles = some bg → bg.submeshes = []) :
    write_class_payloads env c format tables dest moby =
      .ok ⟨dest, [], dest.length, dest.length, dest.length⟩ := by
  unfold write_class_payloads
  rw [h1, h2, h3]
  cases hb : moby.bangles with
  | none => rfl
  | some bg =>
    have := h4 bg hb
    simp only [write_moby_submeshes, write_moby_metal_submeshes, this]

theorem first_sequence_offset_none (E : List (List Nat))
    (h : ∀ k, k < E.length → to_signed 32 (le_value (E.getD k [])) = 0) :
    first_sequence_offset E = 0x48 := by
  induction E with
  | nil => rfl
  | cons e rest ih =>
    unfold first_sequence_offset
    have h0 := h 0 (by simp)
    simp only [List.getD_cons_zero] at h0
    rw [if_neg (by rw [h0]; decide)]
    exact ih (fun k hk => by
      have := h (k + 1) (by simp; omega)
      simpa using this)

theorem first_sequence_offset_at (E : List (List Nat)) :
    ∀ k, k < E.length → (∀ j, j < k → to_signed 32 (le_value (E.getD j [])) = 0) →
      to_signed 32 (le_value (E.getD k [])) ≠ 0 →
      first_sequence_offset E = to_signed 32 (le_value (E.getD k [])) := by
  induction E with
  | nil => intro k hk; exact absurd hk (by simp)
  | cons e rest ih =>
    intro k hk hz hn
    unfold first_sequence_offset
    cases k with
    | zero =>
      simp only [List.getD_cons_zero] at hn ⊢
      rw [if_pos hn]
    | succ k =>
      have h0 := hz 0 (by omega)
      simp only [List.getD_cons_zero] at h0
      rw [if_neg (by rw [h0]; decide)]
      simp only [List.getD_cons_succ] at hn ⊢
      exact ih k (by simpa using hk) (fun j hj => by
        have := hz (j + 1) (by omega)
        simpa using this) hn

theorem exists_first_some {α : Type} (l : List (Option α)) (h : ∃ s, some s ∈ l) :
    ∃ k s, k < l.length ∧ l.getD k none = some s ∧ ∀ j, j < k → l.getD j none = none := by
  induction l with
  | nil =>
    obtain ⟨s, hs⟩ := h
    cases hs
  | cons x rest ih =>
    cases x with
    | some s => exact ⟨0, s, by simp, rfl, fun j hj => absurd hj (by omega)⟩
    | none =>
      obtain ⟨s, hs⟩ := h
      have hr : some s ∈ rest := by
        cases hs with
        | tail _ h => exact h
      obtain ⟨k, s1, k1, k2, k3⟩ := ih ⟨s, hr⟩
      refine ⟨k + 1, s1, by simp; omega, by simpa using k2, fun j hj => ?_⟩
      cases j with
      | zero => rfl
      | succ j => simpa using k3 j (by omega)

theorem getD_none_of_not_mem {α : Type} (l : List (Option α)) (h : ∀ s, some s ∉ l) (k : Nat) :
    l.getD k none = none := by
  by_cases hk : k < l.length
  · rw [List.getD_eq_getElem _ _ hk]
    cases hx : l[k] with
    | none => rfl
    | some s => exact absurd (hx ▸ List.getElem_mem hk) (h s)
  · exact List.getD_eq_default _ _ (by omega)

theorem mem_of_getD_some {α : Type} (l : List (Option α)) (k : Nat) (s : α)
    (h : l.getD k none = some s) : some s ∈ l := by
  by_cases hk : k < l.length
  · rw [List.getD_eq_getElem _ _ hk] at h
    exact h ▸ List.getElem_mem hk
  · rw [List.getD_eq_default _ _ (by omega)] at h
    cases h

theorem read_class_submeshes_none (env : Env) (src : List Nat) (header : MobyClassHeader)
    (format : MobyFormat) (bangles : Option MobyBangles) (m : Int)
    (h : header.submesh_table_offset = 0) :
    read_class_submeshes env src header format bangles m =
      .ok ⟨false, 0, [], [], [], bangles, m⟩ := by
  unfold read_class_submeshes
  rw [if_neg (by rw [h]; decide)]

theorem subbuf_eq (src : List Nat) (o : Nat) (h : o ≤ src.length) :
    subbuf src (o : Int) = .ok (src.drop o) := by
  unfold subbuf
  rw [if_neg (by omega)]
  rfl

theorem drop_eq_slice_append (b : List Nat) (o w : Nat) :
    b.drop o = slice b o w ++ b.drop (o + w) := by
  unfold slice
  rw [← List.drop_drop, List.take_append_drop]

/-- The fields of the header read back from the 0x48 bytes `write_moby_class`
leaves, one by one. -/
theorem parse_written_fields (h : MobyClassHeader) (byte_4 : Nat) (H : MobyClassHeader)
    (hH : H = MobyClassHeader.parse (write_at h.bytes 4 (le_bytes 4 byte_4))) :
    H.submesh_table_offset =
      to_signed 32 (le_value (le_bytes 4 (to_unsigned 32 h.submesh_table_offset))) ∧
    H.joint_count = h.joint_count % 256 ∧ H.unknown_9 = h.unknown_9 % 256 ∧
    H.rac1_byte_a = h.rac1_byte_a % 256 ∧ H.rac12_byte_b = h.rac12_byte_b % 256 ∧
    H.sequence_count = h.sequence_count % 256 ∧ H.sound_count = h.sound_count % 256 ∧
    H.lod_trans = h.lod_trans % 256 ∧ H.shadow = h.shadow % 256 ∧
    H.collision = to_signed 32 (le_value (le_bytes 4 (to_unsigned 32 h.collision))) ∧
    H.skeleton = to_signed 32 (le_value (le_bytes 4 (to_unsigned 32 h.skeleton))) ∧
    H.common_trans = to_signed 32 (le_value (le_bytes 4 (to_unsigned 32 h.common_trans))) ∧
    H.joints = to_signed 32 (le_value (le_bytes 4 (to_unsigned 32 h.joints))) ∧
    H.gif_usage = to_signed 32 (le_value (le_bytes 4 (to_unsigned 32 h.gif_usage))) ∧
    H.scale = h.scale % 2 ^ 32 ∧
    H.sound_defs = to_signed 32 (le_value (le_bytes 4 (to_unsigned 32 h.sound_defs))) ∧
    H.bangles = h.bangles % 256 ∧ H.mip_dist = h.mip_dist % 256 ∧
    H.corncob = to_signed 16 (le_value (le_bytes 2 (to_unsigned 16 h.corncob))) ∧
    H.bounding_sphere = raw_bytes 0x10 h.bounding_sphere ∧
    H.glow_rgba = to_signed 32 (le_value (le_bytes 4 (to_unsigned 32 h.glow_rgba))) ∧
    H.mode_bits = to_signed 16 (le_value (le_bytes 2 (to_unsigned 16 h.mode_bits))) ∧
    H.type = h.type % 256 ∧ H.mode_bits2 = h.mode_bits2 % 256 := by
  rw [hH, parse_written_header]
  exact ⟨rfl, le_value_byte _, le_value_byte _, le_value_byte _, le_value_byte _,
    le_value_byte _, le_value_byte _, le_value_byte _, le_value_byte _, rfl, rfl, rfl, rfl, rfl,
    le_value_le_bytes_four _, rfl, le_value_byte _, le_value_byte _, rfl, rfl, rfl, rfl,
    le_value_byte _, le_value_byte _⟩

theorem s32_field (x : Int) (h0 : -(2 ^ 31) ≤ x) (h1 : x < 2 ^ 31) :
    to_signed 32 (le_value (le_bytes 4 (to_unsigned 32 x))) = x := by
  rw [le_value_le_bytes_four, to_signed_mod]
  exact signed_unsigned_32 x h0 h1

theorem sequence_eq_of_agrees (d s : MobySequence) (h : sequence_agrees d s)
    (hb : d.bounding_sphere = s.bounding_sphere) : d = s := by
  obtain ⟨h1, h2, h3, h4, h5⟩ := h
  cases d
  cases s
  simp only at h1 h2 h3 h4 h5 hb
  rw [h1, h2, h3, h4, h5, hb]

theorem list_eq_of_getD {α : Type} (l1 l2 : List (Option α)) (hl : l1.length = l2.length)
    (h : ∀ k, k < l2.length → l1.getD k none = l2.getD k none) : l1 = l2 := by
  apply List.ext_getElem hl
  intro k h1 h2
  have := h k h2
  rw [List.getD_eq_getElem _ _ h1, List.getD_eq_getElem _ _ h2] at this
  exact this

/-! ### The regions of a written class -/

theorem front_written_of_agree {env : Env} {game : Game} {moby : MobyClassData}
    {dest b : List Nat} (P : ClassFront) (hP : P = write_class_front env dest moby game)
    (M : ClassMiddle) (q : ClassPayloads)
    (pre : ∀ i, i < dest.length → b[i]? = dest[i]?)
    (ag : ∀ i, dest.length + 0x48 ≤ i → i < P.submesh_table_1_ofs → b[i]? = P.dest[i]?)
    (hl : P.submesh_table_1_ofs ≤ b.length) :
    front_written env game moby dest b (class_regions dest.length P M q) := by
  obtain ⟨F1, F2, F3, F4, F5, F6, F7, F8, F9, F10, F11, F12, F13⟩ :=
    write_class_front_content env dest moby game P hP
  have ho := write_class_front_order env dest moby game
  rw [← hP] at ho
  obtain ⟨f1, f2, f3, f4, f5, f6, f7, f8, f9, f10, f11, f12, f13, f14, f15⟩ := ho
  have sl : ∀ a w, dest.length + 0x48 ≤ a → a + w ≤ P.submesh_table_1_ofs →
      slice b a w = slice P.dest a w := fun a w h1 h2 =>
    slice_eq_of_agree b P.dest a w (fun i i1 i2 => ag i (by omega) (by omega))
  unfold front_written
  simp only [class_regions]
  refine ⟨pre, f2, fun k hk => ⟨fun hn => ?_, fun s hs => ?_⟩, fun k s hk hs hj => ?_,
    fun i i1 i2 => ?_, ?_, F6, fun bg hbg => ?_, F8, fun cc hcc hg => ?_, F10, F11, F12,
    fun k s hk hs hn hf => ?_⟩
  · rw [sl _ _ (by omega) (by omega)]
    exact (F2 k hk).1 hn
  · obtain ⟨o, hi, o1, o2, o3, o4⟩ := (F2 k hk).2 s hs
    refine ⟨o, hi, o1, o2, ?_, sequence_stored_of_agree o4
      (fun i i1 i2 => ag i (by omega) (by omega)) (by omega)⟩
    rw [sl _ _ (by omega) (by omega)]
    exact o3
  · rw [sl _ _ (by omega) (by omega)]
    exact F3 k s hk hs hj
  · rw [ag i (by omega) (by omega)]
    exact F4 i (by omega) i2
  · rw [f2]
    exact F5
  · obtain ⟨b1, b2, b3, b4⟩ := F7 bg hbg
    refine ⟨b1, b2, b3, ?_⟩
    rw [sl _ _ (by omega) (by omega)]
    exact b4
  · obtain ⟨c1, c2, c3⟩ := F9 cc hcc hg
    exact ⟨c1, c2, fun hw => corncob_stored_of_agree (c3 hw)
      (fun i i1 i2 => ag i (by omega) (by omega)) (by omega)⟩
  · obtain ⟨o, p, q1, q2, q3, q4, q5, q6⟩ := F13 k s hk hs hn hf
    exact ⟨o, p, q1, q2, q3, by rw [sl _ _ (by omega) (by omega), q4],
      by rw [sl _ _ (by omega) (by omega), q5], q6⟩

theorem middle_written_of_agree {env : Env} {moby : MobyClassData} {dest b : List Nat}
    (P : ClassFront) (M : ClassMiddle)
    (hM : M = write_class_middle env dest.length P.dest moby) (q : ClassPayloads)
    (ag : ∀ i, P.dest.length ≤ i → i < M.dest.length → b[i]? = M.dest[i]?)
    (hl : M.dest.length ≤ b.length) :
    middle_written env moby dest b (class_regions dest.length P M q) := by
  obtain ⟨M1, M2, M3, M4, M5, M6, M7, M8, M9, M10, M11, M12, M13, M14⟩ :=
    write_class_middle_content env dest.length P.dest moby M hM
  have ho := write_class_middle_order env dest.length P.dest moby
  rw [← hM] at ho
  obtain ⟨m1, m2, m3, m4, m5, m6, m7, m8, m9, m10⟩ := ho
  have sl : ∀ a w, P.dest.length ≤ a → a + w ≤ M.dest.length →
      slice b a w = slice M.dest a w := fun a w h1 h2 =>
    slice_eq_of_agree b M.dest a w (fun i i1 i2 => ag i (by omega) (by omega))
  unfold middle_written
  simp only [class_regions]
  refine ⟨fun col hcol => ?_, M4, ?_, m3, ?_, M7, M8, ?_, M10,
    joints_stored_of_agree M11 (fun i i1 i2 => ag i (by omega) (by omega)) (by omega),
    M12, ?_, M14⟩
  · obtain ⟨c1, c2, c3⟩ := M3 col hcol
    refine ⟨c1, c2, ?_⟩
    rw [sl _ _ (by omega) (by omega)]
    exact c3
  · rw [sl _ _ (by omega) (by omega)]
    exact M5
  · rw [sl _ _ (by omega) (by omega)]
    exact M6
  · rw [sl _ _ (by omega) (by omega)]
    exact M9
  · rw [sl _ _ (by omega) (by omega)]
    exact M13

theorem class_header_scalars (moby : MobyClassData) (game : Game) (c : Nat) (P : ClassFront)
    (M : ClassMiddle) (q : ClassPayloads) :
    header_scalars moby game (class_header moby game c P M q) :=
  ⟨rfl, rfl, rfl, rfl, rfl, rfl, rfl, rfl, rfl, rfl, rfl, rfl, rfl, rfl, rfl⟩

theorem offsets_stored_of_cursor (moby : MobyClassData) (game : Game) (h : MobyClassHeader)
    (r : Regions) (byte_4 : Nat) (H : MobyClassHeader)
    (hH : H = MobyClassHeader.parse (write_at h.bytes 4 (le_bytes 4 byte_4)))
    (ho : offsets_from_cursor moby game h r) (hord : in_source_order r)
    (hs : r.gif_usage_end - r.class_header_ofs < 2 ^ 31) :
    offsets_stored moby game r H := by
  obtain ⟨s1, s2, s3, s4, s5, s6, s7, s8, s9, s10, s11, s12, s13, s14, s15, s16, s17, s18, s19,
    s20, s21, s22, s23, s24, s25, s26, s27, s28, s29, s30⟩ := hord
  have e31 : (2 : Int) ^ 31 = 2147483648 := by norm_num
  have e31n : (2 : Nat) ^ 31 = 2147483648 := by norm_num
  rw [e31n] at hs
  have sg : ∀ x : Nat, r.class_header_ofs ≤ x → x ≤ r.gif_usage_end →
      to_signed 32 (le_value (le_bytes 4 (to_unsigned 32 ((x : Int) - r.class_header_ofs)))) =
        (x : Int) - r.class_header_ofs := fun x h1 h2 =>
    s32_field _ (by rw [e31]; omega) (by rw [e31]; omega)
  have sz : to_signed 32 (le_value (le_bytes 4 (to_unsigned 32 0))) = 0 :=
    s32_field 0 (by rw [e31]; omega) (by rw [e31]; omega)
  obtain ⟨p1, p2, p3, p4, p5, p6, p7, p8, p9, p10, p11, p12, p13, p14, p15, p16, p17, p18, p19,
    p20, p21, p22, p23, p24⟩ := parse_written_fields h byte_4 H hH
  obtain ⟨o1, o2, o3, o4, o5, o6, o7, o8, o9⟩ := ho
  unfold offsets_stored
  refine ⟨?_, ?_, ?_, ?_, ?_, ?_, ?_, ?_, ?_⟩
  · rw [p17, o1]
    split
    · rfl
    · rfl
  · rw [p19, o2, le_value_le_bytes_two, to_signed_mod]
  · rw [p1, o3]
    split
    · exact sg _ (by omega) (by omega)
    · exact sz
  · rw [p10, o4]
    split
    · exact sg _ (by omega) (by omega)
    · exact sz
  · rw [p11, o5]
    exact sg _ (by omega) (by omega)
  · rw [p12, o6]
    exact sg _ (by omega) (by omega)
  · rw [p13, o7]
    exact sg _ (by omega) (by omega)
  · rw [p16, o8]
    split
    · exact sg _ (by omega) (by omega)
    · exact sz
  · rw [p14, o9]
    split
    · exact sg _ (by omega) (by omega)
    · exact sz

/-! ### Reading the regions of a written class -/

theorem stored_entries (b : List Nat) (c n k : Nat) (hk : k < n) :
    (chunks 4 n (slice b (c + 0x48) (n * 4))).getD k [] = slice b (c + 0x48 + 4 * k) 4 := by
  rw [chunks_getD _ _ _ _ hk]
  exact slice_slice b _ _ _ _ (by omega)

theorem signed_zero_entry : to_signed 32 (le_value (le_bytes 4 0)) = 0 := by decide

theorem signed_entry (o c : Nat) (h1 : c ≤ o) (h2 : o - c < 2 ^ 28) :
    to_signed 32 (le_value (le_bytes 4 (to_unsigned 32 ((o : Int) - c)))) = (o : Int) - c := by
  have e28 : (2 : Nat) ^ 28 = 268435456 := by norm_num
  have e31 : (2 : Int) ^ 31 = 2147483648 := by norm_num
  rw [e28] at h2
  exact signed_round_trip _ (by omega) (by rw [e31]; omega)

/-- The sequences of a written class are read back as they were written. -/
theorem read_written_sequences {env : Env} {game : Game} {moby : MobyClassData}
    {dest b : List Nat} {r : Regions}
    (hf : front_written env game moby dest b r) (ho : in_source_order r)
    (_hc : r.class_header_ofs = dest.length) (hl : r.sequences_end ≤ b.length)
    (hfit : ∀ s, some s ∈ moby.sequences → sequence_fits env s ∧
      s.bounding_sphere.length = 0x10 ∧ ∀ x ∈ s.bounding_sphere, x < 256)
    (hn : 0 < moby.sequences.length) (hs : b.length - dest.length < 2 ^ 28) :
    ∃ m1, read_moby_sequences env (b.drop dest.length) ((moby.sequences.length : Nat) : Int)
        (to_signed (8 * 4) (le_value (slice b (dest.length + 0x48) 4))) =
          .ok (moby.sequences, m1) ∧
      m1 ≤ (r.sequences_end : Int) - dest.length ∧
      ((∃ k s, k < moby.sequences.length ∧ moby.sequences.getD k none = some s ∧
        (∀ j, k < j → j < moby.sequences.length → moby.sequences.getD j none = none) ∧
        s.frames ≠ []) → m1 = (r.sequences_end : Int) - dest.length) := by
  have F2 := hf.2.1
  have F3 := hf.2.2.1
  have F6 := hf.2.2.2.2.2.1
  have F11 := hf.2.2.2.2.2.2.2.2.2.2.1
  have F12 := hf.2.2.2.2.2.2.2.2.2.2.2.1
  have F13 := hf.2.2.2.2.2.2.2.2.2.2.2.2.1
  have F14 := hf.2.2.2.2.2.2.2.2.2.2.2.2.2
  unfold in_source_order at ho
  have e28 : (2 : Nat) ^ 28 = 268435456 := by norm_num
  have hs' := hs
  rw [e28] at hs'
  have ls : (b.drop dest.length).length = b.length - dest.length := List.length_drop _ _
  have r4s := read_multiple_eq (b.drop dest.length) 4 0x48 moby.sequences.length
    "moby sequences" (by rw [ls]; omega)
  rw [slice_drop] at r4s
  have hE := fun k hk => stored_entries b dest.length moby.sequences.length k hk
  generalize hEE : chunks 4 moby.sequences.length
    (slice b (dest.length + 0x48) (moby.sequences.length * 4)) = E at r4s hE
  have lE : E.length = moby.sequences.length := by
    rw [← hEE]
    exact chunks_length _ _ _
  have h0 : to_signed (8 * 4) (le_value (slice b (dest.length + 0x48) 4)) ≤
      (r.sequences_end : Int) - dest.length := by
    cases h0s : moby.sequences.getD 0 none with
    | none =>
      have := (F3 0 hn).1 h0s
      rw [Nat.mul_zero, Nat.add_zero] at this
      rw [this]
      show to_signed 32 (le_value (le_bytes 4 0)) ≤ _
      rw [signed_zero_entry]
      omega
    | some s =>
      obtain ⟨o, hi, o1, o2, o3, o4⟩ := (F3 0 hn).2 s h0s
      rw [Nat.mul_zero, Nat.add_zero] at o3
      rw [o3]
      show to_signed 32 _ ≤ _
      rw [signed_entry o dest.length (by omega) (by have := o4.1; omega)]
      have := o4.1
      omega
  obtain ⟨decoded, m1, q1, q2, q3, q4, q5, q6⟩ := read_moby_sequence_list_eq env b dest.length
    r.sequences_end hs moby.sequences E
    (to_signed (8 * 4) (le_value (slice b (dest.length + 0x48) 4))) lE
    (fun k hk => ⟨fun hnone => by rw [hE k hk, (F3 k hk).1 hnone], fun s hsome => by
      obtain ⟨o, hi, o1, o2, o3, o4⟩ := (F3 k hk).2 s hsome
      exact ⟨o, hi, by omega, o2, by rw [hE k hk, o3], o4⟩⟩)
    (fun s hsome => (hfit s hsome).1)
  have hdec : decoded = moby.sequences := by
    apply list_eq_of_getD _ _ q2
    intro k hk
    cases hsk : moby.sequences.getD k none with
    | none => exact (q3 k hk).1 hsk
    | some s =>
      obtain ⟨d, e1, e2, e3⟩ := (q3 k hk).2 s hsk
      have hm := mem_of_getD_some _ _ _ hsk
      rw [raw_bytes_self _ _ (hfit s hm).2.1 (hfit s hm).2.2] at e3
      rw [e1, sequence_eq_of_agrees d s e2 e3]
  rw [hdec] at q1
  have hup : m1 ≤ (r.sequences_end : Int) - dest.length := by omega
  refine ⟨m1, ?_, hup, ?_⟩
  · have r4 : read_multiple (b.drop dest.length) 4 0x48 ((moby.sequences.length : Nat) : Int)
        "moby sequences" = .ok E := r4s
    unfold read_moby_sequences
    rw [r4]
    exact q1
  · rintro ⟨k, s, hk, hks, hlast, hfr⟩
    obtain ⟨o, p, t1, t2, t3, t4, t5, t6⟩ := F14 k s hk hks hlast hfr
    have hlen : 0 < s.frames.length := List.length_pos.mpr hfr
    have := q6 k s o (s.frames.length - 1) p hk hks (by omega) (by rw [e28]; omega)
      (by rw [hE k hk, t4]) (by omega) (by omega) (by rw [e28]; omega) t5
    omega

theorem length_bangles_bytes (bg : MobyBangles) (h : bangles_fit bg) :
    (bangles_bytes bg).length = 64 + 8 * bg.vertices.length ∧ bg.vertices.length ≤ 30 := by
  obtain ⟨h1, _, _, h4, _⟩ := h
  have lb : ((bg.bangles.map MobyBangle.bytes).flatten).length = 64 := by
    rw [length_flatten_of 4 _ (fun v hv => by
      obtain ⟨x, _, rfl⟩ := List.mem_map.mp hv
      rfl), List.length_map, h1]
  have lv : ((bg.vertices.map (raw_bytes 8)).flatten).length = 8 * bg.vertices.length :=
    length_flatten_raw_bytes 8 bg.vertices
  have lf := List.length_filter_le (fun x : MobyBangle => decide (x.submesh_begin ≠ 0)) bg.bangles
  refine ⟨?_, by omega⟩
  unfold bangles_bytes
  rw [List.length_append, lb, lv]

/-- The decoration offsets of the header read from a written class: the
bangles field is zero without a bangles block and otherwise the position of the
block in units of 0x10 bytes, and so is the corncob field for a game other than
RAC1. -/
theorem written_decorations {env : Env} {game : Game} {moby : MobyClassData}
    {dest b : List Nat} {r : Regions} {H : MobyClassHeader}
    (hf : front_written env game moby dest b r) (ho : in_source_order r)
    (hc : r.class_header_ofs = dest.length) (hst : offsets_stored moby game r H)
    (ha : dest.length % 0x40 = 0) (hn : moby.sequences.length < 256)
    (hX : moby.header_end_offset = 0x48 ∨
      (moby.header_end_offset % 0x10 = 0 ∧
        0x48 + 4 * (moby.sequences.length : Int) ≤ moby.header_end_offset))
    (hbf : ∀ bg, moby.bangles = some bg → bangles_fit bg ∧ moby.header_end_offset < 0x1000)
    (hcf : ∀ cc, moby.corncob = some cc → game ≠ Game.RAC1 ∧
      moby.header_end_offset < 0x70000) :
    ((moby.bangles = none ∧ H.bangles = 0 ∧ r.bangles_ofs = r.header_padding_end ∧
        r.bangles_end = r.header_padding_end) ∨
      (∃ bg, moby.bangles = some bg ∧ H.bangles ≠ 0 ∧
        ((H.bangles : Nat) : Int) * 0x10 = ((r.bangles_ofs - dest.length : Nat) : Int) ∧
        r.bangles_ofs % 0x10 = 0 ∧ r.bangles_ofs < r.header_padding_end + 0x10 ∧
        r.bangles_end ≤ r.bangles_ofs + 304)) ∧
    ((moby.corncob = none ∧ ¬(game ≠ Game.RAC1 ∧ H.corncob ≠ 0) ∧ r.corncob_ofs = r.bangles_end ∧
        r.corncob_end = r.bangles_end) ∨
      (∃ cc, moby.corncob = some cc ∧ (game ≠ Game.RAC1 ∧ H.corncob ≠ 0) ∧
        H.corncob * 0x10 = ((r.corncob_ofs - dest.length : Nat) : Int) ∧
        r.corncob_ofs % 0x10 = 0 ∧ r.corncob_ofs < r.bangles_end + 0x10)) := by
  obtain ⟨F1, F2, F3, F4, F5, F6, F7, F8, F9, F10, F11, F12, F13, F14⟩ := hf
  obtain ⟨s1, s2, s3, s4, s5, s6, s7, s8, s9, s10, s11, s12, s13, s14, s15, s16, s17, s18, s19,
    s20, s21, s22, s23, s24, s25, s26, s27, s28, s29, s30⟩ := ho
  have hB := hst.1
  have hC := hst.2.1
  clear hst F3 F4 F5 F1
  rw [hc] at hB hC
  have hb : (moby.bangles = none ∧ H.bangles = 0 ∧ r.bangles_ofs = r.header_padding_end ∧
        r.bangles_end = r.header_padding_end) ∨
      (∃ bg, moby.bangles = some bg ∧ H.bangles ≠ 0 ∧
        ((H.bangles : Nat) : Int) * 0x10 = ((r.bangles_ofs - dest.length : Nat) : Int) ∧
        r.bangles_ofs % 0x10 = 0 ∧ r.bangles_ofs < r.header_padding_end + 0x10 ∧
        r.bangles_end ≤ r.bangles_ofs + 304) := by
    clear hC
    cases hbg : moby.bangles with
    | none =>
      rw [hbg] at hB
      exact Or.inl ⟨rfl, hB, (F7 hbg).1, (F7 hbg).2⟩
    | some bg =>
      rw [hbg] at hB
      simp only [Option.isSome_some, if_true] at hB
      obtain ⟨b1, b2, b3, b4⟩ := F8 bg hbg
      obtain ⟨l1, l2⟩ := length_bangles_bytes bg (hbf bg hbg).1
      have hx := (hbf bg hbg).2
      clear F7 F8 F9 F10 hbf hcf b4
      exact Or.inr ⟨bg, rfl, by omega, by omega, b1, b2, by omega⟩
  refine ⟨hb, ?_⟩
  clear hB
  by_cases hg : game = Game.RAC1
  · have hn : moby.corncob = none := by
      cases hcc : moby.corncob with
      | none => rfl
      | some cc => exact absurd hg (hcf cc hcc).1
    exact Or.inl ⟨hn, fun h => h.1 hg, (F9 (Or.inl hn)).1, (F9 (Or.inl hn)).2⟩
  · rw [if_neg hg] at hC
    cases hcc : moby.corncob with
    | none =>
      rw [hcc] at hC
      have hz : H.corncob = 0 := by
        rw [hC]
        show to_signed 16 (to_unsigned 16 0) = 0
        decide
      exact Or.inl ⟨rfl, fun h => h.2 hz, (F9 (Or.inl hcc)).1, (F9 (Or.inl hcc)).2⟩
    | some cc =>
      rw [hcc] at hC
      simp only [Option.isSome_some, if_true] at hC
      obtain ⟨c1, c2, _⟩ := F10 cc hcc hg
      have hx := (hcf cc hcc).2
      have e15 : (2 : Int) ^ 15 = 32768 := by norm_num
      have hv : H.corncob = (((r.corncob_ofs - dest.length) / 0x10 : Nat) : Int) := by
        rw [hC]
        apply signed_unsigned_16
        · rw [e15]; omega
        · rw [e15]
          clear hC F7 F8 F9 F10 hbf hcf
          rcases hb with ⟨_, _, h3, h4⟩ | ⟨_, _, _, _, _, h5, h6⟩ <;> omega
      clear hC F7 F8 F9 F10 hbf hcf
      exact Or.inr ⟨cc, rfl, ⟨hg, by omega⟩, by omega, c1, c2⟩

theorem header_end_offset_arith (c n le pe bo be co ce so : Nat) (hb : Nat)
    (heo fo hc : Int) (P : Prop) [Decidable P] (ha : c % 0x40 = 0)
    (F2 : le = c + 0x48 + 4 * n) (F6 : (pe : Int) = max (le : Int) (c + heo))
    (F11 : so % 0x10 = 0) (F12 : so < ce + 0x10)
    (s3 : le ≤ pe) (s4 : pe ≤ bo) (s5 : bo ≤ be) (s6 : be ≤ co) (s7 : co ≤ ce) (s8 : ce ≤ so)
    (hfo : (fo = 0x48 ∧ heo = 0x48) ∨
      (fo = (so : Int) - c ∧ heo % 0x10 = 0 ∧ 0x48 + 4 * (n : Int) ≤ heo))
    (hB : (hb = 0 ∧ bo = pe ∧ be = pe) ∨
      (hb ≠ 0 ∧ ((hb : Nat) : Int) * 0x10 = ((bo - c : Nat) : Int) ∧ bo % 0x10 = 0 ∧
        bo < pe + 0x10 ∧ be ≤ bo + 304))
    (hC : (¬P ∧ co = be ∧ ce = be) ∨
      (P ∧ hc * 0x10 = ((co - c : Nat) : Int) ∧ co % 0x10 = 0 ∧ co < be + 0x10)) :
    (if P then min (if hb ≠ 0 then min fo ((hb : Int) * 0x10) else fo) (hc * 0x10)
      else (if hb ≠ 0 then min fo ((hb : Int) * 0x10) else fo)) = heo := by
  rcases hB with ⟨b2, b3, b4⟩ | ⟨b2, b3, b4, b5, b6⟩
  · rw [if_neg (not_not.mpr b2)]
    rcases hC with ⟨c2, c3, c4⟩ | ⟨c2, c3, c4, c5⟩
    · rw [if_neg c2]
      omega
    · rw [if_pos c2]
      omega
  · rw [if_pos b2]
    rcases hC with ⟨c2, c3, c4⟩ | ⟨c2, c3, c4, c5⟩
    · rw [if_neg c2]
      omega
    · rw [if_pos c2]
      omega

theorem front_order_bounds {r : Regions} (h : in_source_order r) :
    r.sequence_list_end ≤ r.header_padding_end ∧ r.header_padding_end ≤ r.bangles_ofs ∧
    r.bangles_ofs ≤ r.bangles_end ∧ r.bangles_end ≤ r.corncob_ofs ∧
    r.corncob_ofs ≤ r.corncob_end ∧ r.corncob_end ≤ r.sequences_ofs ∧
    r.sequences_ofs ≤ r.sequences_end :=
  ⟨h.2.2.1, h.2.2.2.1, h.2.2.2.2.1, h.2.2.2.2.2.1, h.2.2.2.2.2.2.1, h.2.2.2.2.2.2.2.1,
    h.2.2.2.2.2.2.2.2.1⟩

/-- The `header_end_offset` derived from a written class is that of the
model, when the model holds the value the decoder derives. -/
theorem read_written_header_end {env : Env} {game : Game} {moby : MobyClassData}
    {dest b : List Nat} {r : Regions} {H : MobyClassHeader}
    (hf : front_written env game moby dest b r) (ho : in_source_order r)
    (ha : dest.length % 0x40 = 0)
    (hl : r.sequences_end ≤ b.length) (hs : b.length - dest.length < 2 ^ 28)
    (h10 : (∃ s, some s ∈ moby.sequences) → moby.header_end_offset % 0x10 = 0 ∧
      0x48 + 4 * (moby.sequences.length : Int) ≤ moby.header_end_offset)
    (h11 : (∀ s, some s ∉ moby.sequences) → moby.header_end_offset = 0x48)
    (hb : (moby.bangles = none ∧ H.bangles = 0 ∧ r.bangles_ofs = r.header_padding_end ∧
        r.bangles_end = r.header_padding_end) ∨
      (∃ bg, moby.bangles = some bg ∧ H.bangles ≠ 0 ∧
        ((H.bangles : Nat) : Int) * 0x10 = ((r.bangles_ofs - dest.length : Nat) : Int) ∧
        r.bangles_ofs % 0x10 = 0 ∧ r.bangles_ofs < r.header_padding_end + 0x10 ∧
        r.bangles_end ≤ r.bangles_ofs + 304))
    (hC : (moby.corncob = none ∧ ¬(game ≠ Game.RAC1 ∧ H.corncob ≠ 0) ∧
        r.corncob_ofs = r.bangles_end ∧ r.corncob_end = r.bangles_end) ∨
      (∃ cc, moby.corncob = some cc ∧ (game ≠ Game.RAC1 ∧ H.corncob ≠ 0) ∧
        H.corncob * 0x10 = ((r.corncob_ofs - dest.length : Nat) : Int) ∧
        r.corncob_ofs % 0x10 = 0 ∧ r.corncob_ofs < r.bangles_end + 0x10)) :
    read_header_end_offset game H (chunks 4 moby.sequences.length
      (slice b (dest.length + 0x48) (moby.sequences.length * 4))) = moby.header_end_offset := by
  have F2 := hf.2.1
  have F3 := hf.2.2.1
  have F4 := hf.2.2.2.1
  have F6 := hf.2.2.2.2.2.1
  have F11 := hf.2.2.2.2.2.2.2.2.2.2.1
  have F12 := hf.2.2.2.2.2.2.2.2.2.2.2.1
  obtain ⟨s3, s4, s5, s6, s7, s8, s9⟩ := front_order_bounds ho
  clear hf ho
  have e28 : (2 : Nat) ^ 28 = 268435456 := by norm_num
  have hs' := hs
  rw [e28] at hs'
  have hE := fun k hk => stored_entries b dest.length moby.sequences.length k hk
  generalize hEE : chunks 4 moby.sequences.length
    (slice b (dest.length + 0x48) (moby.sequences.length * 4)) = E at hE
  have lE : E.length = moby.sequences.length := by
    rw [← hEE]
    exact chunks_length _ _ _
  have hz : ∀ j, j < moby.sequences.length → moby.sequences.getD j none = none →
      to_signed 32 (le_value (E.getD j [])) = 0 := fun j hj hn => by
    rw [hE j hj, (F3 j hj).1 hn]
    exact signed_zero_entry
  have hfo : (first_sequence_offset E = 0x48 ∧ moby.header_end_offset = 0x48) ∨
      (first_sequence_offset E = (r.sequences_ofs : Int) - dest.length ∧
        moby.header_end_offset % 0x10 = 0 ∧
        0x48 + 4 * (moby.sequences.length : Int) ≤ moby.header_end_offset) := by
    by_cases hp : ∃ s, some s ∈ moby.sequences
    · obtain ⟨k, s, hk, hks, hj⟩ := exists_first_some _ hp
      have hv : to_signed 32 (le_value (E.getD k [])) = (r.sequences_ofs : Int) - dest.length := by
        rw [hE k hk, F4 k s hk hks hj]
        exact signed_entry _ _ (by omega) (by rw [e28]; omega)
      refine Or.inr ⟨?_, h10 hp⟩
      rw [first_sequence_offset_at E k (by omega) (fun j hjk => hz j (by omega) (hj j hjk))
        (by rw [hv]; omega), hv]
    · have hn : ∀ s, some s ∉ moby.sequences := fun s hm => hp ⟨s, hm⟩
      exact Or.inl ⟨first_sequence_offset_none E (fun k hk =>
        hz k (by omega) (getD_none_of_not_mem _ hn k)), h11 hn⟩
  have hB : (H.bangles = 0 ∧ r.bangles_ofs = r.header_padding_end ∧
        r.bangles_end = r.header_padding_end) ∨
      (H.bangles ≠ 0 ∧
        ((H.bangles : Nat) : Int) * 0x10 = ((r.bangles_ofs - dest.length : Nat) : Int) ∧
        r.bangles_ofs % 0x10 = 0 ∧ r.bangles_ofs < r.header_padding_end + 0x10 ∧
        r.bangles_end ≤ r.bangles_ofs + 304) := by
    rcases hb with ⟨_, b2⟩ | ⟨bg, _, b2⟩
    · exact Or.inl b2
    · exact Or.inr b2
  have hC1 : (¬(game ≠ Game.RAC1 ∧ H.corncob ≠ 0) ∧
        r.corncob_ofs = r.bangles_end ∧ r.corncob_end = r.bangles_end) ∨
      ((game ≠ Game.RAC1 ∧ H.corncob ≠ 0) ∧
        H.corncob * 0x10 = ((r.corncob_ofs - dest.length : Nat) : Int) ∧
        r.corncob_ofs % 0x10 = 0 ∧ r.corncob_ofs < r.bangles_end + 0x10) := by
    rcases hC with ⟨_, c2⟩ | ⟨cc, _, c2⟩
    · exact Or.inl c2
    · exact Or.inr c2
  exact header_end_offset_arith dest.length moby.sequences.length r.sequence_list_end
    r.header_padding_end r.bangles_ofs r.bangles_end r.corncob_ofs r.corncob_end r.sequences_ofs
    H.bangles moby.header_end_offset (first_sequence_offset E) H.corncob
    (game ≠ Game.RAC1 ∧ H.corncob ≠ 0) ha F2 F6 F11 F12 s3 s4 s5 s6 s7 s8 hfo hB hC1

theorem source_order_bounds {r : Regions} (h : in_source_order r) :
    r.class_header_ofs + 0x48 ≤ r.sequence_list_end ∧ r.sequence_list_end ≤ r.sequences_end ∧
    r.sequences_end ≤ r.submesh_tables_end ∧ r.submesh_tables_end ≤ r.sound_defs_end ∧
    r.sound_defs_end ≤ r.gif_usage_end := by
  obtain ⟨s1, s2, s3, s4, s5, s6, s7, s8, s9, s10, s11, s12, s13, s14, s15, s16, s17, s18, s19,
    s20, s21, s22, s23, s24, s25, s26, s27, s28, s29, s30⟩ := h
  omega

theorem drop_drop_sub (b : List Nat) (c o : Nat) (h : c ≤ o) :
    (b.drop c).drop (o - c) = b.drop o := by
  rw [List.drop_drop]
  congr 1
  omega

theorem int_sub_cast (o c : Nat) (h : c ≤ o) : (o : Int) - c = ((o - c : Nat) : Int) := by
  omega

/-- The bangles block of a written class is read back as it was written. -/
theorem read_written_bangles {env : Env} {game : Game} {moby : MobyClassData}
    {dest b : List Nat} {r : Regions} {H : MobyClassHeader}
    (hf : front_written env game moby dest b r) (ho : in_source_order r)
    (hc : r.class_header_ofs = dest.length) (hl : r.sequences_end ≤ b.length)
    (hbf : ∀ bg, moby.bangles = some bg → bangles_fit bg)
    (hb : (moby.bangles = none ∧ H.bangles = 0 ∧ r.bangles_ofs = r.header_padding_end ∧
        r.bangles_end = r.header_padding_end) ∨
      (∃ bg, moby.bangles = some bg ∧ H.bangles ≠ 0 ∧
        ((H.bangles : Nat) : Int) * 0x10 = ((r.bangles_ofs - dest.length : Nat) : Int) ∧
        r.bangles_ofs % 0x10 = 0 ∧ r.bangles_ofs < r.header_padding_end + 0x10 ∧
        r.bangles_end ≤ r.bangles_ofs + 304)) :
    read_class_bangles (b.drop dest.length) H = .ok moby.bangles := by
  obtain ⟨F1, F2, F3, F4, F5, F6, F7, F8, F9, F10, F11, F12, F13, F14⟩ := hf
  obtain ⟨s1, s2, s3, s4, s5, s6, s7, s8, s9, s10, s11, s12, s13, s14, s15, s16, s17, s18, s19,
    s20, s21, s22, s23, s24, s25, s26, s27, s28, s29, s30⟩ := ho
  have ls : (b.drop dest.length).length = b.length - dest.length := List.length_drop _ _
  unfold read_class_bangles
  rcases hb with ⟨b1, b2, _, _⟩ | ⟨bg, b1, b2, b3, _, _, _⟩
  · rw [if_neg (not_not.mpr b2), b1]
    rfl
  · obtain ⟨_, _, g3, g4⟩ := F8 bg b1
    rw [if_pos b2, b3, subbuf_eq _ _ (by rw [ls]; omega)]
    simp only [bind, Except.bind]
    rw [drop_drop_sub b _ _ (by omega), drop_eq_slice_append b _ (bangles_bytes bg).length, g4,
      read_bangles_bytes bg _ (hbf bg b1), b1]
    rfl

/-- The corncob block of a written class is read back as it was written. -/
theorem read_written_corncob {env : Env} {game : Game} {moby : MobyClassData}
    {dest b : List Nat} {r : Regions} {H : MobyClassHeader}
    (hf : front_written env game moby dest b r) (ho : in_source_order r)
    (hc : r.class_header_ofs = dest.length) (hl : r.sequences_end ≤ b.length)
    (hcw : ∀ cc, moby.corncob = some cc → corncob_well_formed cc)
    (hk : r.corncob_end - r.corncob_ofs ≤ 0xff0)
    (hC : (moby.corncob = none ∧ ¬(game ≠ Game.RAC1 ∧ H.corncob ≠ 0) ∧
        r.corncob_ofs = r.bangles_end ∧ r.corncob_end = r.bangles_end) ∨
      (∃ cc, moby.corncob = some cc ∧ (game ≠ Game.RAC1 ∧ H.corncob ≠ 0) ∧
        H.corncob * 0x10 = ((r.corncob_ofs - dest.length : Nat) : Int) ∧
        r.corncob_ofs % 0x10 = 0 ∧ r.corncob_ofs < r.bangles_end + 0x10)) :
    read_class_corncob (b.drop dest.length) game H = .ok moby.corncob := by
  obtain ⟨F1, F2, F3, F4, F5, F6, F7, F8, F9, F10, F11, F12, F13, F14⟩ := hf
  obtain ⟨s1, s2, s3, s4, s5, s6, s7, s8, s9, s10, s11, s12, s13, s14, s15, s16, s17, s18, s19,
    s20, s21, s22, s23, s24, s25, s26, s27, s28, s29, s30⟩ := ho
  have ls : (b.drop dest.length).length = b.length - dest.length := List.length_drop _ _
  unfold read_class_corncob
  rcases hC with ⟨c1, c2, _, _⟩ | ⟨cc, c1, c2, c3, _, _⟩
  · rw [if_neg c2, c1]
    rfl
  · obtain ⟨_, _, g3⟩ := F10 cc c1 c2.1
    rw [if_pos c2, c3, subbuf_eq _ _ (by rw [ls]; omega)]
    simp only [bind, Except.bind]
    rw [drop_drop_sub b _ _ (by omega),
      read_moby_corncob_eq b _ _ cc (g3 (hcw cc c1)) (hcw cc c1) hk, c1]
    rfl

/-- Without a collision block and without submesh tables, the mystery data
start at the end of the sequences when the last sequence that has a value ends
with a frame. -/
theorem plain_mystery_start {env : Env} {game : Game} {moby : MobyClassData}
    {dest b : List Nat} {r : Regions}
    (hf : front_written env game moby dest b r) (hm : middle_written env moby dest b r)
    (ho : in_source_order r) (hc : r.class_header_ofs = dest.length)
    (he : r.submesh_tables_end = r.submesh_table_1_ofs)
    (hsto : moby.submesh_table_offset = 0) (hn : moby.collision = none)
    (k : Nat) (s : MobySequence) (hk : k < moby.sequences.length)
    (hks : moby.sequences.getD k none = some s)
    (hlast : ∀ j, k < j → j < moby.sequences.length → moby.sequences.getD j none = none)
    (hfr : s.frames ≠ []) (hfit : sequence_fits env s) :
    r.mystery_data_ofs = r.sequences_end := by
  obtain ⟨o, p, t1, t2, t3, t4, t5, t6⟩ := hf.2.2.2.2.2.2.2.2.2.2.2.2.2 k s hk hks hlast hfr
  have F13 := hf.2.2.2.2.2.2.2.2.2.2.2.2.1
  have M2 := (hm.2.1 hn).2
  obtain ⟨o1, o2, o3, o4, o5⟩ := source_order_bounds ho
  have hlen : 0 < s.frames.length := List.length_pos.mpr hfr
  have hmem : s.frames.getD (s.frames.length - 1) ⟨0, 0, 0, 0, 0, []⟩ ∈ s.frames := by
    rw [List.getD_eq_getElem _ _ (by omega)]
    exact List.getElem_mem _
  have hd := (hfit.2.2.2.2.2.2 _ hmem).2.2.2.2.2.2.1
  rw [hsto] at F13
  omega

/-- The collision block of a written class is read back as it was written,
and the mystery data start at its end. -/
theorem read_written_collision {env : Env} {moby : MobyClassData} {game : Game}
    {dest b : List Nat} {r : Regions} {H : MobyClassHeader}
    (hm : middle_written env moby dest b r) (ho : in_source_order r)
    (hc : r.class_header_ofs = dest.length) (hl : r.sound_defs_end ≤ b.length)
    (hst : offsets_stored moby game r H)
    (hcf : ∀ col, moby.collision = some col → collision_fits col ∧ collision_vectors_fit col)
    (m1 : Int) (hm1 : m1 ≤ (r.sequences_end : Int) - dest.length)
    (hnone : moby.collision = none → m1 = ((r.mystery_data_ofs - dest.length : Nat) : Int)) :
    read_class_collision (b.drop dest.length) H = .ok moby.collision ∧
    mystery_after_collision H moby.collision m1 =
      ((r.mystery_data_ofs - dest.length : Nat) : Int) := by
  obtain ⟨M1, M2, M3, M4, M5, M6, M7, M8, M9, M10, M11, M12, M13⟩ := hm
  obtain ⟨s1, s2, s3, s4, s5, s6, s7, s8, s9, s10, s11, s12, s13, s14, s15, s16, s17, s18, s19,
    s20, s21, s22, s23, s24, s25, s26, s27, s28, s29, s30⟩ := ho
  have hH := hst.2.2.2.1
  clear hst
  cases hcol : moby.collision with
  | none =>
    rw [hcol] at hH
    simp only [Option.isSome_none, Bool.false_eq_true, if_false] at hH
    constructor
    · unfold read_class_collision
      rw [if_neg (not_not.mpr hH)]
      rfl
    · exact hnone hcol
  | some col =>
    rw [hcol, hc] at hH
    simp only [Option.isSome_some, if_true] at hH
    rw [int_sub_cast _ _ (by omega)] at hH
    obtain ⟨g1, g2, g3⟩ := M1 col hcol
    have lcb := length_collision_bytes col
    have ls : (b.drop dest.length).length = b.length - dest.length := List.length_drop _ _
    constructor
    · unfold read_class_collision
      rw [if_pos (by rw [hH]; omega), hH, subbuf_eq _ _ (by rw [ls]; omega)]
      simp only [bind, Except.bind]
      rw [drop_drop_sub b _ _ (by omega),
        drop_eq_slice_append b _ (collision_bytes col).length, g3,
        read_collision_bytes col _ (hcf col hcol).1 (hcf col hcol).2]
      rfl
    · unfold mystery_after_collision
      simp only
      rw [hH]
      omega

/-- The skeleton of a written class is read back as it was written. -/
theorem read_written_skeleton {env : Env} {moby : MobyClassData} {game : Game}
    {dest b : List Nat} {r : Regions} {H : MobyClassHeader}
    (hm : middle_written env moby dest b r) (ho : in_source_order r)
    (hc : r.class_header_ofs = dest.length) (hl : r.sound_defs_end ≤ b.length)
    (hst : offsets_stored moby game r H) (hjc : H.joint_count = moby.skeleton.length)
    (hsk : ∀ v ∈ moby.skeleton, v.length = 0x40 ∧ ∀ x ∈ v, x < 256) :
    read_multiple (b.drop dest.length) 0x40 H.skeleton H.joint_count "skeleton" =
      .ok moby.skeleton := by
  obtain ⟨M1, M2, M3, M4, M5, M6, M7, M8, M9, M10, M11, M12, M13⟩ := hm
  obtain ⟨s1, s2, s3, s4, s5, s6, s7, s8, s9, s10, s11, s12, s13, s14, s15, s16, s17, s18, s19,
    s20, s21, s22, s23, s24, s25, s26, s27, s28, s29, s30⟩ := ho
  have hH := hst.2.2.2.2.1
  clear hst
  rw [hc, int_sub_cast _ _ (by omega)] at hH
  have ls : (b.drop dest.length).length = b.length - dest.length := List.length_drop _ _
  rw [hH, hjc, read_multiple_eq _ _ _ _ _ (by rw [ls]; omega), slice_drop,
    show dest.length + (r.skeleton_ofs - dest.length) = r.skeleton_ofs by omega,
    Nat.mul_comm, M5, map_raw_bytes_self _ _ hsk, chunks_flatten _ _ (fun v hv => (hsk v hv).1)]

/-- The common transform of a written class is read back as it was written. -/
theorem read_written_common_trans {env : Env} {moby : MobyClassData} {game : Game}
    {dest b : List Nat} {r : Regions} {H : MobyClassHeader}
    (hm : middle_written env moby dest b r) (ho : in_source_order r)
    (hc : r.class_header_ofs = dest.length) (hl : r.sound_defs_end ≤ b.length)
    (hst : offsets_stored moby game r H) (hjc : H.joint_count = moby.skeleton.length)
    (hct : moby.common_trans.length = 0x10 * moby.skeleton.length)
    (hb : ∀ x ∈ moby.common_trans, x < 256) :
    read_bytes (b.drop dest.length) H.common_trans ((H.joint_count : Int) * 0x10)
      "moby common trans" = .ok moby.common_trans := by
  obtain ⟨M1, M2, M3, M4, M5, M6, M7, M8, M9, M10, M11, M12, M13⟩ := hm
  obtain ⟨s1, s2, s3, s4, s5, s6, s7, s8, s9, s10, s11, s12, s13, s14, s15, s16, s17, s18, s19,
    s20, s21, s22, s23, s24, s25, s26, s27, s28, s29, s30⟩ := ho
  have hH := hst.2.2.2.2.2.1
  clear hst
  rw [hc, int_sub_cast _ _ (by omega)] at hH
  have ls : (b.drop dest.length).length = b.length - dest.length := List.length_drop _ _
  have e : ((H.joint_count : Nat) : Int) * 0x10 = ((moby.common_trans.length : Nat) : Int) := by
    rw [hjc, hct]
    omega
  rw [hH, e, read_bytes_eq _ _ _ _ (by rw [ls]; omega), slice_drop,
    show dest.length + (r.common_trans_ofs - dest.length) = r.common_trans_ofs by omega,
    M8, map_mod_self _ hb]

/-- The joint lists of a written class are read back as they were written. -/
theorem read_written_joints {env : Env} {moby : MobyClassData} {game : Game}
    {dest b : List Nat} {r : Regions} {H : MobyClassHeader}
    (hm : middle_written env moby dest b r) (ho : in_source_order r)
    (hc : r.class_header_ofs = dest.length)
    (hst : offsets_stored moby game r H) (hs : b.length - dest.length < 2 ^ 28)
    (hj : ∀ l ∈ moby.joints, ∀ x ∈ l, x < 0xff) :
    read_moby_joints (b.drop dest.length) H.joints = .ok moby.joints := by
  obtain ⟨M1, M2, M3, M4, M5, M6, M7, M8, M9, M10, M11, M12, M13⟩ := hm
  obtain ⟨s1, s2, s3, s4, s5, s6, s7, s8, s9, s10, s11, s12, s13, s14, s15, s16, s17, s18, s19,
    s20, s21, s22, s23, s24, s25, s26, s27, s28, s29, s30⟩ := ho
  have hH := hst.2.2.2.2.2.2.1
  clear hst
  rw [hc, int_sub_cast _ _ (by omega)] at hH
  have e28 : (2 : Nat) ^ 28 = 268435456 := by norm_num
  have e31 : (2 : Nat) ^ 31 = 2147483648 := by norm_num
  rw [hH, read_moby_joints_eq b dest.length _ _ moby.joints M10 (by omega)
    (by rw [e31]; rw [e28] at hs; omega),
    joints_read_back _ (fun l hl x hx => Nat.lt_trans (hj l hl x hx) (by decide))
      (fun l hl hx => absurd (hj l hl _ hx) (by decide))]

/-- The sound definitions of a written class are read back as they were
written. -/
theorem read_written_sound_defs {env : Env} {moby : MobyClassData} {game : Game}
    {dest b : List Nat} {r : Regions} {H : MobyClassHeader}
    (hm : middle_written env moby dest b r) (ho : in_source_order r)
    (hc : r.class_header_ofs = dest.length) (hl : r.sound_defs_end ≤ b.length)
    (hst : offsets_stored moby game r H) (hsc : H.sound_count = moby.sound_defs.length)
    (hsd : ∀ v ∈ moby.sound_defs, v.length = env.sizeof_MobySoundDef ∧ ∀ x ∈ v, x < 256) :
    read_multiple (b.drop dest.length) env.sizeof_MobySoundDef H.sound_defs H.sound_count
      "moby sound defs" = .ok moby.sound_defs := by
  obtain ⟨M1, M2, M3, M4, M5, M6, M7, M8, M9, M10, M11, M12, M13⟩ := hm
  obtain ⟨s1, s2, s3, s4, s5, s6, s7, s8, s9, s10, s11, s12, s13, s14, s15, s16, s17, s18, s19,
    s20, s21, s22, s23, s24, s25, s26, s27, s28, s29, s30⟩ := ho
  have hH := hst.2.2.2.2.2.2.2.1
  clear hst
  have ls : (b.drop dest.length).length = b.length - dest.length := List.length_drop _ _
  by_cases h0 : 0 < moby.sound_defs.length
  · rw [if_pos h0, hc, int_sub_cast _ _ (by omega)] at hH
    rw [hH, hsc, read_multiple_eq _ _ _ _ _ (by rw [ls, Nat.mul_comm]; omega), slice_drop,
      show dest.length + (r.sound_defs_ofs - dest.length) = r.sound_defs_ofs by omega,
      Nat.mul_comm, M12, map_raw_bytes_self _ _ hsd,
      chunks_flatten _ _ (fun v hv => (hsd v hv).1)]
  · rw [if_neg h0] at hH
    have hn : moby.sound_defs = [] := List.length_eq_zero.mp (by omega)
    rw [hH, hsc, hn]
    exact read_multiple_eq _ _ 0 0 _ (by omega)

/-- The mystery data of a written class are read back as they were written,
when the decoder starts at the position the encoder wrote them at. -/
theorem read_written_mystery {env : Env} {moby : MobyClassData} {game : Game}
    {dest b : List Nat} {r : Regions} {H : MobyClassHeader}
    (hm : middle_written env moby dest b r) (ho : in_source_order r)
    (hc : r.class_header_ofs = dest.length) (hl : r.sound_defs_end ≤ b.length)
    (hst : offsets_stored moby game r H) (hb : ∀ x ∈ moby.mystery_data, x < 256) :
    read_bytes (b.drop dest.length) ((r.mystery_data_ofs - dest.length : Nat) : Int)
      (H.skeleton - ((r.mystery_data_ofs - dest.length : Nat) : Int)) "moby mystery data" =
      .ok moby.mystery_data := by
  obtain ⟨M1, M2, M3, M4, M5, M6, M7, M8, M9, M10, M11, M12, M13⟩ := hm
  obtain ⟨s1, s2, s3, s4, s5, s6, s7, s8, s9, s10, s11, s12, s13, s14, s15, s16, s17, s18, s19,
    s20, s21, s22, s23, s24, s25, s26, s27, s28, s29, s30⟩ := ho
  have hH := hst.2.2.2.2.1
  clear hst
  rw [hc] at hH
  have ls : (b.drop dest.length).length = b.length - dest.length := List.length_drop _ _
  have e : H.skeleton - ((r.mystery_data_ofs - dest.length : Nat) : Int) =
      ((moby.mystery_data.length : Nat) : Int) := by
    rw [hH]
    omega
  rw [e, read_bytes_eq _ _ _ _ (by rw [ls]; omega), slice_drop,
    show dest.length + (r.mystery_data_ofs - dest.length) = r.mystery_data_ofs by omega,
    M3, map_mod_self _ hb]

/-! ### The submesh tables of a written class -/

theorem write_vertex_table_entry {c : Nat} {format : MobyFormat} {dest : List Nat}
    {submesh : MobySubMesh} {entry0 : MobySubMeshEntry} {r : List Nat × MobySubMeshEntry}
    (h : write_vertex_table c format dest submesh entry0 = .ok r) :
    r.2.vif_list_offset = entry0.vif_list_offset := by
  unfold write_vertex_table at h
  obtain ⟨vertices, _, h⟩ := bind_eq_ok h
  injection h with h
  rw [← h]

theorem slice_entry_bytes (e : MobySubMeshEntry) :
    slice e.bytes 0 4 = le_bytes 4 e.vif_list_offset := by
  unfold MobySubMeshEntry.bytes
  rw [List.append_assoc, List.append_assoc, List.append_assoc, List.append_assoc,
    List.append_assoc, List.append_assoc,
    slice_append_left _ _ _ _ (by rw [length_le_bytes])]
  have := slice_self (le_bytes 4 e.vif_list_offset)
  rw [length_le_bytes] at this
  exact this

/-- The table entry of a written submesh holds the position of its VIF
command list, a multiple of 0x10 behind the bytes written before, relative to
the start of the class. -/
theorem write_moby_submesh_entry {vifw : VifWriter} {c : Nat} {format : MobyFormat}
    {dest : List Nat} {gif_usage : List MobyGifUsageTableEntry} {table_ofs : Nat}
    {submesh : MobySubMesh} {r : List Nat × List MobyGifUsageTableEntry}
    (h : write_moby_submesh vifw c format dest gif_usage table_ofs submesh = .ok r)
    (ht : table_ofs + 0x10 ≤ dest.length) :
    slice r.1 table_ofs 4 = le_bytes 4 ((pad dest 0x10).length - c) ∧
    (pad dest 0x10).length ≤ r.1.length := by
  unfold write_moby_submesh at h
  simp only at h
  obtain ⟨⟨dest2, g, t⟩, h1, h⟩ := bind_eq_ok h
  simp only at h
  obtain ⟨⟨dest12, entry⟩, h2, h⟩ := bind_eq_ok h
  injection h with h
  rw [← h]
  simp only
  have e := write_vertex_table_entry h2
  simp only at e
  obtain ⟨x, hx⟩ := write_shared_append h1
  simp only at hx
  have l0 := length_pad dest 0x10
  have l2 : (pad dest 0x10).length ≤ dest2.length := by
    rw [hx, List.length_append, List.length_append]
    omega
  have l3 := length_pad dest2 0x10
  have l12 := (@preserves_write_vertex_table 0 0 _ _ _ _ _ _ h2 (Nat.zero_le _)).1
  simp only at l12
  have l13 := length_pad dest12 0x10
  constructor
  · have := slice_write_at (pad dest12 0x10) table_ofs entry.bytes 0 4
      (by rw [length_MobySubMeshEntry_bytes]; omega)
      (by rw [length_MobySubMeshEntry_bytes]; omega)
    rw [Nat.add_zero] at this
    rw [this, slice_entry_bytes, e]
  · rw [length_write_at]
    omega

theorem write_moby_metal_submesh_entry {vifw : VifWriter} {c : Nat} {dest : List Nat}
    {table_ofs : Nat} {submesh : MobyMetalSubMesh} {r : List Nat}
    (h : write_moby_metal_submesh vifw c dest table_ofs submesh = .ok r)
    (ht : table_ofs + 0x10 ≤ dest.length) :
    slice r table_ofs 4 = le_bytes 4 ((pad dest 0x10).length - c) ∧
    (pad dest 0x10).length ≤ r.length := by
  unfold write_moby_metal_submesh at h
  simp only at h
  obtain ⟨⟨dest1, g, t⟩, hs, h⟩ := bind_eq_ok h
  injection h with h
  rw [← h]
  obtain ⟨x, hx⟩ := write_shared_append hs
  simp only at hx
  have l0 := length_pad dest 0x10
  have l1 : (pad dest 0x10).length ≤ dest1.length := by
    rw [hx, List.length_append]
    omega
  have l2 := length_pad dest1 0x10
  generalize hd4 : pad dest1 0x10 ++ le_bytes 4 (submesh.vertices.length % 2 ^ 32) ++
    le_bytes 4 submesh.unknown_4 ++ le_bytes 4 submesh.unknown_8 ++
    le_bytes 4 submesh.unknown_c ++ (submesh.vertices.map
      (fun v => (List.range 0x10).map (fun i => v.getD i 0 % 256))).flatten = d4
  have l4 : (pad dest1 0x10).length ≤ d4.length := by
    rw [← hd4]
    simp only [List.length_append]
    omega
  have l5 := length_pad d4 0x10
  generalize hen : ({ vif_list_offset := (pad dest 0x10).length - c
                      vif_list_size := ((pad dest1 0x10).length - (pad dest 0x10).length) / 0x10
                      vif_list_texture_unpack_offset := t
                      vertex_offset := (pad dest1 0x10).length - c
                      vertex_data_size := ((pad d4 0x10).length - (pad dest1 0x10).length) / 0x10
                      unknown_d := to_unsigned 32
                        ((0xf + to_signed 32 (submesh.vertices.length % 2 ^ 32) * 6) / 0x10)
                      unknown_e := to_unsigned 32
                        ((3 + to_signed 32 (submesh.vertices.length % 2 ^ 32)) / 4)
                      transfer_vertex_count := submesh.vertices.length % 2 ^ 32 } :
                      MobySubMeshEntry) = entry
  have e : entry.vif_list_offset = (pad dest 0x10).length - c := by rw [← hen]
  constructor
  · have := slice_write_at (pad d4 0x10) table_ofs entry.bytes 0 4
      (by rw [length_MobySubMeshEntry_bytes]; omega)
      (by rw [length_MobySubMeshEntry_bytes]; omega)
    rw [Nat.add_zero] at this
    rw [this, slice_entry_bytes, e]
  · rw [length_write_at]
    omega

theorem write_moby_submeshes_entries {vifw : VifWriter} {c : Nat} {format : MobyFormat} :
    ∀ (submeshes : List MobySubMesh) (dest : List Nat) (gif_usage : List MobyGifUsageTableEntry)
      (table_ofs : Nat) (r : List Nat × List MobyGifUsageTableEntry),
      write_moby_submeshes vifw c format dest gif_usage table_ofs submeshes = .ok r →
      table_ofs + 0x10 * submeshes.length ≤ dest.length →
      dest.length ≤ r.1.length ∧
      ∀ k, k < submeshes.length → ∃ o, dest.length ≤ o ∧ o ≤ r.1.length ∧ o % 0x10 = 0 ∧
        slice r.1 (table_ofs + 0x10 * k) 4 = le_bytes 4 (o - c) := by
  intro submeshes
  induction submeshes with
  | nil =>
    intro dest gif_usage table_ofs r h _
    unfold write_moby_submeshes at h
    injection h with h
    rw [← h]
    exact ⟨le_refl _, fun k hk => absurd hk (by simp)⟩
  | cons s rest ih =>
    intro dest gif_usage table_ofs r h ht
    rw [List.length_cons] at ht
    unfold write_moby_submeshes at h
    split at h
    · cases h
    · rename_i d1 g1 h1
      obtain ⟨e1, e2⟩ := write_moby_submesh_entry h1 (by omega)
      simp only at e1 e2
      have l0 := length_pad dest 0x10
      have m0 : (pad dest 0x10).length % 0x10 = 0 := length_pad_mod _ _ (by omega)
      obtain ⟨a, cents⟩ := ih d1 g1 (table_ofs + 0x10) r h (by omega)
      have p := @preserves_write_moby_submeshes table_ofs (table_ofs + 0x10) _ _ _
        rest d1 g1 (table_ofs + 0x10) r h (Or.inr (le_refl _)) (by omega)
      refine ⟨by omega, fun k hk => ?_⟩
      cases k with
      | zero =>
        refine ⟨(pad dest 0x10).length, l0, by omega, m0, ?_⟩
        rw [Nat.mul_zero, Nat.add_zero, slice_of_preserves p _ _ (le_refl _) (by omega)]
        exact e1
      | succ k =>
        rw [List.length_cons] at hk
        obtain ⟨o, q1, q2, q3, q4⟩ := cents k (by omega)
        refine ⟨o, by omega, q2, q3, ?_⟩
        rw [← q4]
        congr 1
        omega

theorem write_moby_metal_submeshes_entries {vifw : VifWriter} {c : Nat} :
    ∀ (submeshes : List MobyMetalSubMesh) (dest : List Nat) (table_ofs : Nat) (r : List Nat),
      write_moby_metal_submeshes vifw c dest table_ofs submeshes = .ok r →
      table_ofs + 0x10 * submeshes.length ≤ dest.length →
      dest.length ≤ r.length ∧
      ∀ k, k < submeshes.length → ∃ o, dest.length ≤ o ∧ o ≤ r.length ∧ o % 0x10 = 0 ∧
        slice r (table_ofs + 0x10 * k) 4 = le_bytes 4 (o - c) := by
  intro submeshes
  induction submeshes with
  | nil =>
    intro dest table_ofs r h _
    unfold write_moby_metal_submeshes at h
    injection h with h
    rw [← h]
    exact ⟨le_refl _, fun k hk => absurd hk (by simp)⟩
  | cons s rest ih =>
    intro dest table_ofs r h ht
    rw [List.length_cons] at ht
    unfold write_moby_metal_submeshes at h
    split at h
    · cases h
    · rename_i d1 h1
      obtain ⟨e1, e2⟩ := write_moby_metal_submesh_entry h1 (by omega)
      have l0 := length_pad dest 0x10
      have m0 : (pad dest 0x10).length % 0x10 = 0 := length_pad_mod _ _ (by omega)
      obtain ⟨a, cents⟩ := ih d1 (table_ofs + 0x10) r h (by omega)
      have p := @preserves_write_moby_metal_submeshes table_ofs (table_ofs + 0x10) _ _
        rest d1 (table_ofs + 0x10) r h (Or.inr (le_refl _)) (by omega)
      refine ⟨by omega, fun k hk => ?_⟩
      cases k with
      | zero =>
        refine ⟨(pad dest 0x10).length, l0, by omega, m0, ?_⟩
        rw [Nat.mul_zero, Nat.add_zero, slice_of_preserves p _ _ (le_refl _) (by omega)]
        exact e1
      | succ k =>
        rw [List.length_cons] at hk
        obtain ⟨o, q1, q2, q3, q4⟩ := cents k (by omega)
        refine ⟨o, by omega, q2, q3, ?_⟩
        rw [← q4]
        congr 1
        omega

/-- The entries of the four submesh tables point into the payload regions of
their tables, in the order the payloads are written. -/
theorem write_class_payloads_entries {env : Env} {c : Nat} {format : MobyFormat}
    {tables : ClassFront} {dest : List Nat} {moby : MobyClassData} {q : ClassPayloads}
    (h : write_class_payloads env c format tables dest moby = .ok q)
    (t1 : tables.submesh_table_1_ofs + 0x10 * moby.submeshes.length ≤
      tables.submesh_table_2_ofs)
    (t2 : tables.submesh_table_2_ofs + 0x10 * moby.low_detail_submeshes.length ≤
      tables.metal_submesh_table_ofs)
    (t3 : tables.metal_submesh_table_ofs + 0x10 * moby.metal_submeshes.length ≤
      tables.bangles_submesh_table_ofs)
    (t4 : tables.bangles_submesh_table_ofs +
      0x10 * (moby.bangles.map (fun bg => bg.submeshes.length)).getD 0 ≤ dest.length) :
    (∀ k, k < moby.submeshes.length →
      ∃ o, dest.length ≤ o ∧ o ≤ q.submeshes_end ∧ o % 0x10 = 0 ∧
        slice q.dest (tables.submesh_table_1_ofs + 0x10 * k) 4 = le_bytes 4 (o - c)) ∧
    (∀ k, k < moby.low_detail_submeshes.length →
      ∃ o, q.submeshes_end ≤ o ∧ o ≤ q.low_detail_submeshes_end ∧ o % 0x10 = 0 ∧
        slice q.dest (tables.submesh_table_2_ofs + 0x10 * k) 4 = le_bytes 4 (o - c)) ∧
    (∀ k, k < moby.metal_submeshes.length →
      ∃ o, q.low_detail_submeshes_end ≤ o ∧ o ≤ q.metal_submeshes_end ∧ o % 0x10 = 0 ∧
        slice q.dest (tables.metal_submesh_table_ofs + 0x10 * k) 4 = le_bytes 4 (o - c)) ∧
    (∀ bg, moby.bangles = some bg → ∀ k, k < bg.submeshes.length →
      ∃ o, q.metal_submeshes_end ≤ o ∧ o ≤ q.dest.length ∧ o % 0x10 = 0 ∧
        slice q.dest (tables.bangles_submesh_table_ofs + 0x10 * k) 4 = le_bytes 4 (o - c)) ∧
    (moby.bangles = none → q.dest.length = q.metal_submeshes_end) := by
  have t4' : tables.bangles_submesh_table_ofs ≤ dest.length := by omega
  unfold write_class_payloads at h
  split at h
  · cases h
  · rename_i d1 g1 h1
    obtain ⟨a1, c1⟩ := write_moby_submeshes_entries _ _ _ _ _ h1 (by omega)
    simp only at a1 c1
    split at h
    · cases h
    · rename_i d2 g2 h2
      obtain ⟨a2, c2⟩ := write_moby_submeshes_entries _ _ _ _ _ h2 (by omega)
      simp only at a2 c2
      have p2 : ∀ lo, lo + 4 ≤ tables.submesh_table_2_ofs → slice d2 lo 4 = slice d1 lo 4 :=
        fun lo hlo => slice_of_preserves (@preserves_write_moby_submeshes lo (lo + 4) _ _ _
          _ _ _ _ _ h2 (Or.inr hlo) (by omega)) _ _ (le_refl _) (le_refl _)
      split at h
      · cases h
      · rename_i d3 h3
        obtain ⟨a3, c3⟩ := write_moby_metal_submeshes_entries _ _ _ _ h3 (by omega)
        have p3 : ∀ lo, lo + 4 ≤ tables.metal_submesh_table_ofs →
            slice d3 lo 4 = slice d2 lo 4 :=
          fun lo hlo => slice_of_preserves (@preserves_write_moby_metal_submeshes lo (lo + 4) _ _
            _ _ _ _ h3 (Or.inr hlo) (by omega)) _ _ (le_refl _) (le_refl _)
        cases hb : moby.bangles with
        | none =>
          rw [hb] at h
          simp only at h
          injection h with h
          rw [← h]
          simp only
          refine ⟨fun k hk => ?_, fun k hk => ?_, fun k hk => ?_, (fun bg hbg => nomatch hbg),
            (fun _ => trivial)⟩
          · obtain ⟨o, q1, q2, q3, q4⟩ := c1 k hk
            exact ⟨o, q1, q2, q3, by rw [p3 _ (by omega), p2 _ (by omega), q4]⟩
          · obtain ⟨o, q1, q2, q3, q4⟩ := c2 k hk
            exact ⟨o, q1, q2, q3, by rw [p3 _ (by omega), q4]⟩
          · exact c3 k hk
        | some bg =>
          rw [hb] at h t4
          simp only [Option.map_some', Option.getD_some] at h t4
          split at h
          · cases h
          · rename_i d4 g4 h4
            obtain ⟨a4, c4⟩ := write_moby_submeshes_entries _ _ _ _ _ h4 (by omega)
            simp only at a4 c4
            have p4 : ∀ lo, lo + 4 ≤ tables.bangles_submesh_table_ofs →
                slice d4 lo 4 = slice d3 lo 4 :=
              fun lo hlo => slice_of_preserves (@preserves_write_moby_submeshes lo (lo + 4) _ _ _
                _ _ _ _ _ h4 (Or.inr hlo) (by omega)) _ _ (le_refl _) (le_refl _)
            injection h with h
            rw [← h]
            simp only
            refine ⟨fun k hk => ?_, fun k hk => ?_, fun k hk => ?_, fun bg1 hbg k hk => ?_,
              (fun hn => nomatch hn)⟩
            · obtain ⟨o, q1, q2, q3, q4⟩ := c1 k hk
              exact ⟨o, q1, q2, q3,
                by rw [p4 _ (by omega), p3 _ (by omega), p2 _ (by omega), q4]⟩
            · obtain ⟨o, q1, q2, q3, q4⟩ := c2 k hk
              exact ⟨o, q1, q2, q3, by rw [p4 _ (by omega), p3 _ (by omega), q4]⟩
            · obtain ⟨o, q1, q2, q3, q4⟩ := c3 k hk
              exact ⟨o, q1, q2, q3, by rw [p4 _ (by omega), q4]⟩
            · rw [← Option.some.inj hbg] at hk
              exact c4 k hk

theorem tables_written_of_agree {env : Env} {game : Game} {moby : MobyClassData}
    {dest b : List Nat} (P : ClassFront) (hP : P = write_class_front env dest moby game)
    (M : ClassMiddle) (hM : M = write_class_middle env dest.length P.dest moby)
    (q : ClassPayloads)
    (hq : write_class_payloads env dest.length (write_format game moby.force_rac1_format)
      P M.dest moby = .ok q)
    (hbq : ∀ i, dest.length + 0x48 ≤ i → i < q.dest.length → b[i]? = q.dest[i]?)
    (hgif : b.drop q.dest.length = gif_usage_bytes q.gif_usage) :
    tables_written moby dest b (class_regions dest.length P M q) := by
  have ho := write_class_front_order env dest moby game
  rw [← hP] at ho
  obtain ⟨f1, f2, f3, f4, f5, f6, f7, f8, f9, f10, f11, f12, f13, f14, f15⟩ := ho
  have hm := write_class_middle_order env dest.length P.dest moby
  rw [← hM] at hm
  obtain ⟨m1, m2, m3, m4, m5, m6, m7, m8, m9, m10⟩ := hm
  have e15 : P.dest.length = P.bangles_submesh_table_ofs +
      0x10 * (moby.bangles.map (fun bg => bg.submeshes.length)).getD 0 := by
    cases hb : moby.bangles with
    | none =>
      rw [hb] at f15
      exact f15
    | some bg =>
      rw [hb] at f15
      exact f15
  obtain ⟨c1, c2, c3, c4, c5⟩ := write_class_payloads_entries hq (by omega) (by omega)
    (by omega) (by omega)
  obtain ⟨_, q1, q2, q3, q4⟩ := @write_class_payloads_spec 0 0 _ _ _ _ _ _ _ hq
    (Or.inr (Nat.zero_le _)) (Or.inr (Nat.zero_le _)) (Or.inr (Nat.zero_le _))
    (fun _ _ => Or.inr (Nat.zero_le _)) (Nat.zero_le _)
  have hbl : ∀ bg, moby.bangles = some bg → ∀ k, k < bg.submeshes.length →
      P.bangles_submesh_table_ofs + 0x10 * k + 4 ≤ P.dest.length := fun bg hbg k hk => by
    rw [hbg] at e15
    simp only [Option.map_some', Option.getD_some] at e15
    omega
  have sl : ∀ a, dest.length + 0x48 ≤ a → a + 4 ≤ P.dest.length →
      slice b a 4 = slice q.dest a 4 := fun a h1 h2 =>
    slice_eq_of_agree b q.dest a 4 (fun i i1 i2 => hbq i (by omega) (by omega))
  unfold tables_written
  simp only [class_regions]
  refine ⟨f12, f13, f14, e15, fun k hk => ?_, fun k hk => ?_, fun k hk => ?_,
    fun bg hbg k hk => ?_, c5, q.gif_usage, hgif, rfl⟩
  · obtain ⟨o, o1, o2, o3, o4⟩ := c1 k hk
    exact ⟨o, o1, o2, o3, by rw [sl _ (by omega) (by omega), o4]⟩
  · obtain ⟨o, o1, o2, o3, o4⟩ := c2 k hk
    exact ⟨o, o1, o2, o3, by rw [sl _ (by omega) (by omega), o4]⟩
  · obtain ⟨o, o1, o2, o3, o4⟩ := c3 k hk
    exact ⟨o, o1, o2, o3, by rw [sl _ (by omega) (by omega), o4]⟩
  · obtain ⟨o, o1, o2, o3, o4⟩ := c4 bg hbg k hk
    have := hbl bg hbg k hk
    exact ⟨o, o1, o2, o3, by rw [sl _ (by omega) (by omega), o4]⟩

/-- The regions of a written class hold the parts of the model: the header at
the start of the class is the assembled one with `byte_4` over its bytes 4-7,
and the regions are written as `front_written`, `tables_written` and
`middle_written` say. -/
theorem written_class_regions {env : Env} {dest : List Nat} {moby : MobyClassData}
    {game : Game} {b : List Nat} (hw : write_moby_class env dest moby game = .ok b) :
    ∃ d header r, write_moby_class_body env dest moby game = .ok (d, header, r) ∧
      dest.length % 0x40 = 0 ∧ check_class_counts moby = .ok () ∧
      header_scalars moby game header ∧
      slice b dest.length 0x48 = write_at header.bytes 4 (le_bytes 4 moby.byte_4) ∧
      r.gif_usage_end = b.length ∧
      front_written env game moby dest b r ∧ middle_written env moby dest b r ∧
      tables_written moby dest b r := by
  obtain ⟨P, hP⟩ : ∃ P, P = write_class_front env dest moby game := ⟨_, rfl⟩
  obtain ⟨M, hM⟩ : ∃ M, M = write_class_middle env dest.length P.dest moby := ⟨_, rfl⟩
  obtain ⟨q, hq, hbody, ha, hcc, hml, hbl, hgif, hhdr, hpre, hbq, hqm, hmp⟩ :=
    written_class_parts hw P hP M hM
  obtain ⟨l1, l2, _, _, _, l6⟩ := write_moby_class_body_layout hbody
  unfold in_source_order at l2
  simp only [class_regions] at l1 l2 l6
  obtain ⟨s1, s2, s3, s4, s5, s6, s7, s8, s9, s10, s11, s12, s13, s14, s15, s16, s17, s18, s19,
    s20, s21, s22, s23, s24, s25, s26, s27, s28, s29, s30⟩ := l2
  refine ⟨_, _, _, hbody, ha, hcc, class_header_scalars _ _ _ _ _ _, hhdr, ?_,
    front_written_of_agree P hP M q hpre (fun i i1 i2 => ?_) (by omega),
    middle_written_of_agree P M hM q (fun i i1 i2 => ?_) (by omega),
    tables_written_of_agree P hP M hM q hq hbq hgif⟩
  · simp only [class_regions]
    omega
  · rw [hbq i i1 (by omega), hqm i (by omega) (Or.inl i2), hmp i (by omega)]
  · rw [hbq i (by omega) (by omega), hqm i i2 (Or.inr i1)]

/-- A class without submeshes ends with its sound definitions. -/
theorem plain_class_end {env : Env} {dest : List Nat} {moby : MobyClassData} {game : Game}
    {out : List Nat × MobyClassHeader × Regions}
    (h : write_moby_class_body env dest moby game = .ok out)
    (h1 : moby.submeshes = []) (h2 : moby.low_detail_submeshes = [])
    (h3 : moby.metal_submeshes = []) (h4 : ∀ bg, moby.bangles = some bg → bg.submeshes = []) :
    out.2.2.gif_usage_end = out.2.2.sound_defs_end ∧
    out.2.2.submesh_tables_end = out.2.2.submesh_table_1_ofs := by
  obtain ⟨_, _, q, hq, ho⟩ := write_moby_class_body_ok h
  rw [write_class_payloads_empty env _ _ _ _ moby h1 h2 h3 h4] at hq
  injection hq with hq
  obtain ⟨f1, f2, f3, f4, f5, f6, f7, f8, f9, f10, f11, f12, f13, f14, f15⟩ :=
    write_class_front_order env dest moby game
  rw [ho, ← hq]
  simp only [class_regions]
  constructor
  · rfl
  · rw [h1] at f12
    rw [h2] at f13
    rw [h3] at f14
    simp only [List.length_nil, Nat.mul_zero, Nat.add_zero] at f12 f13 f14
    cases hbg : moby.bangles with
    | none =>
      rw [hbg] at f15
      simp only at f15
      omega
    | some bg =>
      rw [hbg] at f15
      simp only [h4 bg hbg, List.length_nil, Nat.mul_zero, Nat.add_zero] at f15
      omega

/-- The scalar fields and the counts of the header read from a written class
are those of the model, when they hold values of their types. -/
theorem read_written_scalars (moby : MobyClassData) (game : Game) (h : MobyClassHeader)
    (byte_4 : Nat) (H : MobyClassHeader)
    (hH : H = MobyClassHeader.parse (write_at h.bytes 4 (le_bytes 4 byte_4)))
    (hsc : header_scalars moby game h) (hfit : scalar_fields_fit moby)
    (hb1 : moby.bounding_sphere.length = 0x10) (hb2 : ∀ x ∈ moby.bounding_sphere, x < 256)
    (hcc : check_class_counts moby = .ok ())
    (h5 : write_format game moby.force_rac1_format ≠ MobyFormat.RAC1 →
      moby.rac1_byte_a = 0 ∧ moby.rac1_byte_b = 0) :
    H.unknown_9 = moby.unknown_9 ∧ H.rac1_byte_a = moby.rac1_byte_a ∧
    H.rac12_byte_b = moby.rac1_byte_b ∧ H.lod_trans = moby.lod_trans ∧
    H.shadow = moby.shadow ∧ H.scale = moby.scale ∧ H.mip_dist = moby.mip_dist ∧
    H.bounding_sphere = moby.bounding_sphere ∧ H.glow_rgba = moby.glow_rgba ∧
    H.mode_bits = moby.mode_bits ∧ H.type = moby.type ∧ H.mode_bits2 = moby.mode_bits2 ∧
    H.sequence_count = moby.sequences.length ∧ H.joint_count = moby.skeleton.length ∧
    H.sound_count = moby.sound_defs.length := by
  obtain ⟨f1, f2, f3, f4, f5, f6, f7, f8, f9, f10, f11, f12⟩ := hfit
  obtain ⟨c1, c2, c3, c4, c5, c6⟩ := check_class_counts_ok hcc
  obtain ⟨p1, p2, p3, p4, p5, p6, p7, p8, p9, p10, p11, p12, p13, p14, p15, p16, p17, p18, p19,
    p20, p21, p22, p23, p24⟩ := parse_written_fields h byte_4 H hH
  obtain ⟨a1, a2, a3, a4, a5, a6, a7, a8, a9, a10, a11, a12, a13, a14, a15⟩ := hsc
  have hab : (if write_format game moby.force_rac1_format = MobyFormat.RAC1
      then moby.rac1_byte_a else 0) = moby.rac1_byte_a ∧
      (if write_format game moby.force_rac1_format = MobyFormat.RAC1
      then moby.rac1_byte_b else 0) = moby.rac1_byte_b := by
    by_cases hg : write_format game moby.force_rac1_format = MobyFormat.RAC1
    · rw [if_pos hg, if_pos hg]
      exact ⟨rfl, rfl⟩
    · rw [if_neg hg, if_neg hg, (h5 hg).1, (h5 hg).2]
      exact ⟨rfl, rfl⟩
  rw [hab.1] at a2
  rw [hab.2] at a3
  refine ⟨?_, ?_, ?_, ?_, ?_, ?_, ?_, ?_, ?_, ?_, ?_, ?_, ?_, ?_, ?_⟩
  · rw [p3, a1]
    exact Nat.mod_eq_of_lt f1
  · rw [p4, a2]
    exact Nat.mod_eq_of_lt f2
  · rw [p5, a3]
    exact Nat.mod_eq_of_lt f3
  · rw [p8, a4]
    exact Nat.mod_eq_of_lt f4
  · rw [p9, a5]
    exact Nat.mod_eq_of_lt f5
  · rw [p15, a6]
    exact Nat.mod_eq_of_lt f6
  · rw [p18, a7]
    exact Nat.mod_eq_of_lt f7
  · rw [p20, a8]
    exact raw_bytes_self _ _ hb1 hb2
  · rw [p21, a9]
    exact s32_field _ f8.1 f8.2
  · rw [p22, a10]
    exact signed_round_trip_16 _ f9.1 f9.2
  · rw [p23, a11]
    exact Nat.mod_eq_of_lt f10
  · rw [p24, a12]
    exact Nat.mod_eq_of_lt f11
  · rw [p6, a13]
    exact Nat.mod_eq_of_lt (by omega)
  · rw [p2, a14]
    exact Nat.mod_eq_of_lt (by omega)
  · rw [p7, a15]
    exact Nat.mod_eq_of_lt (by omega)

/-- The format flag is read back: the decoder sets `force_rac1_format` for RAC2
when the byte at 0xb is not zero. -/
theorem read_written_format (moby : MobyClassData) (game : Game)
    (h5 : write_format game moby.force_rac1_format ≠ MobyFormat.RAC1 →
      moby.rac1_byte_a = 0 ∧ moby.rac1_byte_b = 0)
    (h6 : moby.force_rac1_format = true → game = Game.RAC2 ∧ moby.rac1_byte_b ≠ 0) :
    (read_format game moby.rac1_byte_b).2 = moby.force_rac1_format := by
  cases hf : moby.force_rac1_format with
  | true =>
    obtain ⟨g, hb⟩ := h6 hf
    rw [g]
    unfold read_format
    simp only [hb, if_false]
  | false =>
    cases game with
    | RAC1 => rfl
    | RAC2 =>
      have := (h5 (by rw [hf]; decide)).2
      unfold read_format
      simp only [this, if_true]
    | RAC3 => rfl
    | DL => rfl

theorem plain_model_eta (moby : MobyClassData) (h1 : moby.has_submesh_table = false)
    (h2 : moby.submesh_table_offset = 0) (h3 : moby.submeshes = [])
    (h4 : moby.low_detail_submeshes = []) (h5 : moby.metal_submeshes = []) :
    ({ byte_4 := moby.byte_4, unknown_9 := moby.unknown_9, rac1_byte_a := moby.rac1_byte_a,
        rac1_byte_b := moby.rac1_byte_b, lod_trans := moby.lod_trans, shadow := moby.shadow,
        scale := moby.scale, mip_dist := moby.mip_dist, bounding_sphere := moby.bounding_sphere,
        glow_rgba := moby.glow_rgba, mode_bits := moby.mode_bits, type := moby.type,
        mode_bits2 := moby.mode_bits2, force_rac1_format := moby.force_rac1_format,
        header_end_offset := moby.header_end_offset, bangles := moby.bangles,
        rac1_short_2e := moby.rac1_short_2e, corncob := moby.corncob,
        sequences := moby.sequences, collision := moby.collision, skeleton := moby.skeleton,
        common_trans := moby.common_trans, joints := moby.joints,
        sound_defs := moby.sound_defs, has_submesh_table := false, submesh_table_offset := 0,
        submeshes := [], low_detail_submeshes := [], metal_submeshes := [],
        mystery_data := moby.mystery_data } : MobyClassData) = moby := by
  cases moby
  simp only at h1 h2 h3 h4 h5
  subst h1 h2 h3 h4 h5
  rfl

/-- A written class of the models `reads_back` is read back as the model
that was written. -/
theorem read_written_class (env : Env) (dest : List Nat) (moby : MobyClassData) (game : Game)
    (b : List Nat) (hw : write_moby_class env dest moby game = .ok b)
    (hd : reads_back env game moby)
    (hk : ∀ d h r, write_moby_class_body env dest moby game = .ok (d, h, r) →
      r.corncob_end - r.corncob_ofs ≤ 0xff0)
    (hs : b.length - dest.length < 2 ^ 28) :
    read_moby_class env (b.drop dest.length) game = .ok moby := by
  obtain ⟨d1, d2, d3, d4, d5, d6, d7, d8, d9, d10, d11, d12, d13, dcol, dnone, d15, d16,
    d17, d18, d19, d20, d21, d22, d23, d24, d25⟩ := hd
  obtain ⟨d, h, r, hbody, ha, hcc, hsc, hhdr, hge, hf, hm, _⟩ := written_class_regions hw
  obtain ⟨l1, l2, _, _, l5, _⟩ := write_moby_class_body_layout hbody
  have l1 : r.class_header_ofs = dest.length := l1
  have l2 : in_source_order r := l2
  have l5 : offsets_from_cursor moby game h r := l5
  obtain ⟨e1, e2⟩ := plain_class_end hbody d22 d23 d24 (fun bg hbg => (d12 bg hbg).1.2.2.2.2)
  have e1 : r.gif_usage_end = r.sound_defs_end := e1
  have e2 : r.submesh_tables_end = r.submesh_table_1_ofs := e2
  have hkk := hk d h r hbody
  obtain ⟨o1, o2, o3, o4, o5⟩ := source_order_bounds l2
  obtain ⟨c1, c2, c3, c4, c5, c6⟩ := check_class_counts_ok hcc
  have e28 : (2 : Nat) ^ 28 = 268435456 := by norm_num
  have e31 : (2 : Nat) ^ 31 = 2147483648 := by norm_num
  have hs28 := hs
  rw [e28] at hs28
  have hn : 0 < moby.sequences.length := List.length_pos.mpr d8
  have hl1 : r.sequences_end ≤ b.length := by omega
  have hl2 : r.sound_defs_end ≤ b.length := by omega
  have hF2 := hf.2.1
  have ls : (b.drop dest.length).length = b.length - dest.length := List.length_drop _ _
  have hX : moby.header_end_offset = 0x48 ∨ (moby.header_end_offset % 0x10 = 0 ∧
      0x48 + 4 * (moby.sequences.length : Int) ≤ moby.header_end_offset) := by
    by_cases hp : ∃ s, some s ∈ moby.sequences
    · exact Or.inr (d10 hp)
    · exact Or.inl (d11 (fun s hm => hp ⟨s, hm⟩))
  -- the first reads
  have r1 : read_bytes (b.drop dest.length) 0 0x48 "moby class header" =
      .ok (slice b dest.length 0x48) := by
    have := read_bytes_eq (b.drop dest.length) 0 0x48 "moby class header" (by rw [ls]; omega)
    rw [slice_drop, Nat.add_zero] at this
    exact this
  have r2 : read_uint (b.drop dest.length) 4 4 "moby class header" = .ok moby.byte_4 := by
    have r2a := read_uint_eq (b.drop dest.length) 4 4 "moby class header" (by rw [ls]; omega)
    have he : slice (b.drop dest.length) 4 4 = le_bytes 4 moby.byte_4 := by
      rw [slice_drop, ← slice_slice b dest.length 0x48 4 4 (by omega), hhdr]
      exact slice_write_at_self _ _ _ (by rw [length_MobyClassHeader_bytes, length_le_bytes]; omega)
    rw [he, le_value_le_bytes_four, Nat.mod_eq_of_lt d2] at r2a
    exact r2a
  have r3 := read_sint_eq (b.drop dest.length) 4 0x48 "moby sequences" (by rw [ls]; omega)
  rw [slice_drop] at r3
  have r4 := read_multiple_eq (b.drop dest.length) 4 0x48 moby.sequences.length
    "sequence offsets" (by rw [ls]; omega)
  rw [slice_drop] at r4
  -- the header
  obtain ⟨H, hHd⟩ : ∃ H, H = MobyClassHeader.parse (slice b dest.length 0x48) := ⟨_, rfl⟩
  have hH : H = MobyClassHeader.parse (write_at h.bytes 4 (le_bytes 4 moby.byte_4)) := by
    rw [hHd, hhdr]
  have hst := offsets_stored_of_cursor moby game h r moby.byte_4 H hH l5 l2
    (by rw [e31]; omega)
  obtain ⟨x1, x2, x3, x4, x5, x6, x7, x8, x9, x10, x11, x12, x13, x14, x15⟩ :=
    read_written_scalars moby game h moby.byte_4 H hH hsc d1 d3 d4 hcc d5
  obtain ⟨hb, hC⟩ := written_decorations hf l2 l1 hst ha c5 hX
    (fun bg hbg => ⟨(d12 bg hbg).1, (d12 bg hbg).2⟩)
    (fun cc hcc => ⟨(d13 cc hcc).1, (d13 cc hcc).2.2⟩)
  have hheo := read_written_header_end hf l2 ha hl1 hs d10 d11 hb hC
  have r5 := read_written_bangles hf l2 l1 hl1 (fun bg hbg => (d12 bg hbg).1) hb
  have r6 := read_written_corncob hf l2 l1 hl1 (fun cc hcc => (d13 cc hcc).2.1) hkk hC
  obtain ⟨m1, r7, hm1, hm1e⟩ := read_written_sequences hf l2 l1 hl1 d9 hn hs
  have hnone : moby.collision = none →
      m1 = ((r.mystery_data_ofs - dest.length : Nat) : Int) := fun hcn => by
    obtain ⟨k, s, hk, hks, hlast, hfr⟩ := dnone hcn
    rw [hm1e ⟨k, s, hk, hks, hlast, hfr⟩,
      plain_mystery_start hf hm l2 l1 e2 d21 hcn k s hk hks hlast hfr
        (d9 s (mem_of_getD_some _ _ _ hks)).1]
    omega
  obtain ⟨r8, hmy⟩ := read_written_collision hm l2 l1 hl2 hst dcol m1 hm1 hnone
  have r9 := read_written_skeleton hm l2 l1 hl2 hst x14 d15
  have r10 := read_written_common_trans hm l2 l1 hl2 hst x14 d16 d17
  have r11 := read_written_joints hm l2 l1 hst hs d18
  have r12 := read_written_sound_defs hm l2 l1 hl2 hst x15 d19
  have hsto : H.submesh_table_offset = 0 := by
    rw [hst.2.2.1, d20]
    rfl
  have r13 := read_class_submeshes_none env (b.drop dest.length) H
    (read_format game H.rac12_byte_b).1 moby.bangles
    (mystery_after_collision H moby.collision m1) hsto
  have r14 := read_written_mystery hm l2 l1 hl2 hst d25
  rw [← hmy] at r14
  have hfmt := read_written_format moby game d5 d6
  have hshort : (if game = Game.RAC1 then H.corncob else 0) = moby.rac1_short_2e := by
    by_cases hg : game = Game.RAC1
    · rw [if_pos hg, hst.2.1, if_pos hg]
      exact signed_unsigned_16 _ d1.2.2.2.2.2.2.2.2.2.2.2.1 d1.2.2.2.2.2.2.2.2.2.2.2.2
    · rw [if_neg hg, d7 hg]
  rw [← x13] at r4 r7
  have rc : 1 ≤ H.sequence_count := by
    rw [x13]
    omega
  subst hHd
  rw [read_moby_class_eq r1 r2 r3 r4 r5 r6 r7 rc r8 r9 r10 r11 r12 r13 r14]
  simp only
  rw [x1, x2, x3, x4, x5, x6, x7, x8, x9, x10, x11, x12, hfmt, hshort, x13, hheo]
  exact congrArg Except.ok (plain_model_eta moby d20 d21 d22 d23 d24)

/-! ### A written class read back (C1) -/

theorem far_bangles_written :
    (match write_moby_class_body example_env [] far_bangles_model Game.RAC2 with
      | .ok (_, h, r) => (r.header_padding_end, r.bangles_ofs, h.bangles,
          (MobyClassHeader.parse h.bytes).bangles)
      | .error _ => (0, 0, 0, 1)) = (0x1000, 0x1000, 0x100, 0) := by
  decide!

set_option maxRecDepth 100000 in
/-- C8, counterexample: for `decorated_model` the zero bytes up to
`header_end_offset` come before the decorations, not after them: the sequence
offset table ends at 0x4c, the zero bytes reach 0x100 and the bangles block
lies at 0x100-0x140, right before the sequences.  For `far_bangles_model` the
bangles block is written at 0x1000 and the assembled header holds 0x100 for
it, of which the 8 bit field of the stored header keeps 0. -/
theorem decorations_follow_header_padding :
    (∃ d header r, write_moby_class_body example_env [] decorated_model Game.RAC1 =
        .ok (d, header, r) ∧
      r.sequence_list_end = 0x4c ∧ r.header_padding_end = 0x100 ∧ r.bangles_ofs = 0x100 ∧
      r.bangles_end = 0x140 ∧ r.corncob_end = 0x140 ∧ r.sequences_ofs = 0x140 ∧
      header.bangles = 0x10 ∧ r.header_padding_end < r.bangles_end) ∧
    (∃ d header r, write_moby_class_body example_env [] far_bangles_model Game.RAC2 =
        .ok (d, header, r) ∧
      r.header_padding_end = 0x1000 ∧ r.bangles_ofs = 0x1000 ∧ header.bangles = 0x100 ∧
      (MobyClassHeader.parse header.bytes).bangles = 0) :=
  ⟨⟨_, _, _, rfl, rfl, rfl, rfl, rfl, rfl, rfl, rfl, by decide⟩, by
    have h := far_bangles_written
    cases hb : write_moby_class_body example_env [] far_bangles_model Game.RAC2 with
    | error e =>
      rw [hb] at h
      have h1 : ((0 : Nat), (0 : Nat), (0 : Nat), (1 : Nat)) = (0x1000, 0x1000, 0x100, 0) := h
      exact absurd h1 (by decide)
    | ok out =>
      obtain ⟨d, header, r⟩ := out
      rw [hb] at h
      simp only [Prod.mk.injEq] at h
      exact ⟨d, header, r, rfl, h.1, h.2.1, h.2.2.1, h.2.2.2⟩⟩

/-- C8 (amended): when `write_moby_class` returns a buffer, the class being
shorter than 2^31 bytes, the regions were written in the order of the
statements of the source, each starting at or after the end of the one before:
header, sequence offset table, zero bytes up to `header_end_offset`, then the
decorations (bangles, corncob), sequences, submesh tables, collision, mystery
data, skeleton, common transform, joint lists, sound definitions, high-detail,
low-detail, metal and bangles submesh payloads, GIF usage table, which ends the
buffer; the bytes of the buffer at these positions are the parts of the model
(`front_written`, `tables_written`, `middle_written`).  The header stored at
the start of the class is the assembled one with `byte_4` over its bytes 4-7;
it holds the scalar fields and the counts of the model, and every offset of it
is the write position of its region relative to the start of the class (zero
for an absent region; the RAC1 field at 0x2e is copied from the model), the
bangles and corncob offsets in units of 0x10 bytes and cut to the 8 and 16 bits
of their fields. -/
theorem regions_in_source_order (env : Env) (dest : List Nat) (moby : MobyClassData)
    (game : Game) (b : List Nat) (h : write_moby_class env dest moby game = .ok b)
    (hs : b.length - dest.length < 2 ^ 31) :
    ∃ d header r, write_moby_class_body env dest moby game = .ok (d, header, r) ∧
      b = write_at (write_at d dest.length header.bytes) (dest.length + 4)
        (le_bytes 4 moby.byte_4) ∧
      r.class_header_ofs = dest.length ∧ r.gif_usage_end = b.length ∧ in_source_order r ∧
      (dest.length : Int) + moby.header_end_offset ≤ r.header_padding_end ∧
      front_written env game moby dest b r ∧ tables_written moby dest b r ∧
      middle_written env moby dest b r ∧
      slice b dest.length 0x48 = write_at header.bytes 4 (le_bytes 4 moby.byte_4) ∧
      header_scalars moby game header ∧ offsets_from_cursor moby game header r ∧
      offsets_stored moby game r (MobyClassHeader.parse (slice b dest.length 0x48)) := by
  obtain ⟨d, header, r, hb, _, _, hsc, hhdr, hge, hf, hm, ht⟩ := written_class_regions h
  obtain ⟨out, hb2, he⟩ := write_moby_class_ok h
  rw [hb] at hb2
  injection hb2 with hb2
  rw [← hb2] at he
  obtain ⟨l1, l2, l3, _, l5, _⟩ := write_moby_class_body_layout hb
  exact ⟨d, header, r, hb, he, l1, hge, l2, l3, hf, ht, hm, hhdr, hsc, l5,
    offsets_stored_of_cursor moby game header r moby.byte_4 _ (by rw [hhdr]) l5 l2
      (by rw [hge, show r.class_header_ofs = dest.length from l1]; exact hs)⟩

set_option maxRecDepth 100000 in
/-- The theorem `regions_in_source_order` at `counted_model`, which has one
submesh in each of the three submesh tables, written for RAC2 to an empty
output buffer. -/
theorem regions_in_source_order_witness :
    ∃ b, write_moby_class example_env [] counted_model Game.RAC2 = .ok b ∧
      b.length - ([] : List Nat).length < 2 ^ 31 ∧
      ∃ d header r, write_moby_class_body example_env [] counted_model Game.RAC2 =
          .ok (d, header, r) ∧
        b = write_at (write_at d ([] : List Nat).length header.bytes)
          (([] : List Nat).length + 4) (le_bytes 4 counted_model.byte_4) ∧
        r.class_header_ofs = ([] : List Nat).length ∧ r.gif_usage_end = b.length ∧
        in_source_order r ∧
        ((([] : List Nat).length : Nat) : Int) + counted_model.header_end_offset ≤
          r.header_padding_end ∧
        front_written example_env Game.RAC2 counted_model [] b r ∧
        tables_written counted_model [] b r ∧
        middle_written example_env counted_model [] b r ∧
        slice b ([] : List Nat).length 0x48 =
          write_at header.bytes 4 (le_bytes 4 counted_model.byte_4) ∧
        header_scalars counted_model Game.RAC2 header ∧
        offsets_from_cursor counted_model Game.RAC2 header r ∧
        offsets_stored counted_model Game.RAC2 r
          (MobyClassHeader.parse (slice b ([] : List Nat).length 0x48)) :=
  ⟨_, rfl, by decide,
    regions_in_source_order example_env [] counted_model Game.RAC2 _ rfl (by decide)⟩

/-! ### The start of the mystery data (C7) -/

theorem read_moby_frames_start {src : List Nat} :
    ∀ (table : List (List Nat)) (m : Int) (frames : List MobyFrame) (m1 : Int),
      read_moby_frames src table m = .ok (frames, m1) →
      m1 = (table.map (frame_data_end src)).foldl max m := by
  intro table
  induction table with
  | nil =>
    intro m frames m1 h
    have h1 : (Except.ok ([], m) : Except String (List MobyFrame × Int)) = .ok (frames, m1) := h
    injection h1 with h1
    injection h1 with _ hm
    exact hm.symm
  | cons entry rest ih =>
    intro m frames m1 h
    rw [read_moby_frames_cons] at h
    split at h
    · cases h
    · rename_i hd hh
      split at h
      · cases h
      · rename_i data hdata
        split at h
        · cases h
        · rename_i fr m2 hrest
          injection h with h
          injection h with _ hm
          have e := ih _ _ _ hrest
          obtain ⟨_, _, _, e1⟩ := read_bytes_ok hh
          have s1 : (hd.drop 6).take 2 = slice src (le_value entry % 0x10000000 + 6) 2 := by
            rw [e1, Int.toNat_ofNat]
            have := slice_slice src (le_value entry % 0x10000000) 0x10 6 2 (by omega)
            unfold slice at this ⊢
            exact this
          rw [← hm, e, List.map_cons, List.foldl_cons, s1]
          rfl

theorem read_moby_sequence_start {env : Env} {src : List Nat} {seq_offset m : Int}
    {s : MobySequence} {m1 : Int}
    (h : read_moby_sequence env src seq_offset m = .ok (s, m1)) :
    m1 = (sequence_frame_ends src seq_offset).foldl max m := by
  unfold read_moby_sequence at h
  obtain ⟨hd, h1, h⟩ := bind_eq_ok h
  obtain ⟨table, h2, h⟩ := bind_eq_ok h
  obtain ⟨⟨frames, m2⟩, h3, h⟩ := bind_eq_ok h
  obtain ⟨triggers, h4, h⟩ := bind_eq_ok h
  have hm : m2 = m1 := by
    simp only at h
    split at h
    · obtain ⟨t, _, h⟩ := bind_eq_ok h
      injection h with h
      injection h
    · injection h with h
      injection h
  have e := read_moby_frames_start _ _ _ _ h3
  obtain ⟨a1, _, a3, e1⟩ := read_bytes_ok h1
  obtain ⟨_, _, _, e2⟩ := read_multiple_ok h2
  rw [← hm, e, e2]
  unfold sequence_frame_ends
  have t1 : (seq_offset + 0x1c).toNat = seq_offset.toNat + 0x1c := by omega
  have s1 : (hd.drop 0x10).take 1 = slice src (seq_offset.toNat + 0x10) 1 := by
    rw [e1]
    have := slice_slice src seq_offset.toNat 0x1c 0x10 1 (by omega)
    unfold slice at this ⊢
    exact this
  rw [s1, t1, Int.toNat_ofNat]
  have t2 : (((le_value (slice src (seq_offset.toNat + 0x10) 1) : Nat) : Int) * ((4 : Nat) : Int)).toNat
      = le_value (slice src (seq_offset.toNat + 0x10) 1) * 4 := by omega
  rw [t2]
  rfl

theorem read_moby_sequence_list_start {env : Env} {src : List Nat} :
    ∀ (offsets : List (List Nat)) (m : Int) (sequences : List (Option MobySequence)) (m1 : Int),
      read_moby_sequence_list env src offsets m = .ok (sequences, m1) →
      m1 = (frame_data_ends src offsets).foldl max m := by
  intro offsets
  induction offsets with
  | nil =>
    intro m sequences m1 h
    have e : read_moby_sequence_list env src [] m = .ok ([], m) := rfl
    rw [e] at h
    injection h with h
    injection h with _ hm
    exact hm.symm
  | cons entry rest ih =>
    intro m sequences m1 h
    unfold read_moby_sequence_list at h
    simp only at h
    unfold frame_data_ends
    rw [List.foldl_append]
    split at h
    · rename_i hz
      rw [if_pos hz]
      split at h
      · cases h
      · rename_i s m2 hrec
        injection h with h
        injection h with _ hm
        rw [← hm]
        exact ih _ _ _ hrec
    · rename_i hz
      rw [if_neg hz]
      split at h
      · cases h
      · rename_i s m2 hs
        split at h
        · cases h
        · rename_i ss m3 hrec
          injection h with h
          injection h with _ hm
          rw [← hm, ← read_moby_sequence_start hs]
          exact ih _ _ _ hrec

theorem read_moby_sequences_start {env : Env} {src : List Nat} {count : Nat} {m : Int}
    {sequences : List (Option MobySequence)} {m1 : Int}
    (h : read_moby_sequences env src count m = .ok (sequences, m1)) :
    m1 = (frame_data_ends src (chunks 4 count (slice src 0x48 (count * 4)))).foldl max m := by
  unfold read_moby_sequences at h
  obtain ⟨offsets, h1, h⟩ := bind_eq_ok h
  obtain ⟨_, _, _, e⟩ := read_multiple_ok h1
  rw [read_moby_sequence_list_start _ _ _ _ h, e]
  have t1 : ((0x48 : Int)).toNat = 0x48 := rfl
  have t2 : (((count : Nat) : Int) * ((4 : Nat) : Int)).toNat = count * 4 := by omega
  rw [t1, t2, Int.toNat_ofNat]
  rfl

theorem read_class_submeshes_start {env : Env} {src : List Nat} {header : MobyClassHeader}
    {format : MobyFormat} {bangles : Option MobyBangles} {m : Int} {tables : ClassSubmeshes}
    (h : read_class_submeshes env src header format bangles m = .ok tables) :
    tables.mystery_data_ofs =
      (if header.submesh_table_offset ≠ 0 then
        [match tables.bangles with
          | some b => header.submesh_table_offset +
              ((b.bangles.getD 0 ⟨0, 0, 0, 0⟩).submesh_begin : Int) * 0x10 +
              ((b.bangles.getD 0 ⟨0, 0, 0, 0⟩).submesh_count : Int) * 0x10
          | none => header.submesh_table_offset + (header.metal_submesh_begin : Int) * 0x10 +
              (header.metal_submesh_count : Int) * 0x10]
       else []).foldl max m := by
  unfold read_class_submeshes at h
  split at h
  · rename_i hz
    rw [if_pos hz]
    obtain ⟨s1, h1, h⟩ := bind_eq_ok h
    obtain ⟨s2, h2, h⟩ := bind_eq_ok h
    obtain ⟨s3, h3, h⟩ := bind_eq_ok h
    cases bangles with
    | none =>
      injection h with h
      subst h
      rfl
    | some b =>
      simp only at h
      split at h
      · cases h
      · rename_i first hfirst
        split at h
        · cases h
        · injection h with h
          subst h
          have e : b.bangles.getD 0 ⟨0, 0, 0, 0⟩ = first := by
            rw [List.getD_eq_getElem?_getD, ← List.get?_eq_getElem?, hfirst]
            rfl
          show _ = List.foldl max m [_]
          simp only [e, List.foldl_cons, List.foldl_nil]
  · rename_i hz
    rw [if_neg hz]
    injection h with h
    subst h
    rfl

/-- The decoder starts the mystery data at the greatest of the candidates. -/
theorem read_class_mystery_start {env : Env} {src : List Nat} {game : Game}
    {model : MobyClassData} (h : read_moby_class env src game = .ok model) :
    0 ≤ derived_mystery_start src model ∧
    0 ≤ (MobyClassHeader.parse (slice src 0 0x48)).skeleton - derived_mystery_start src model ∧
    (MobyClassHeader.parse (slice src 0 0x48)).skeleton ≤ src.length ∧
    model.mystery_data = slice src (derived_mystery_start src model).toNat
      ((MobyClassHeader.parse (slice src 0 0x48)).skeleton -
        derived_mystery_start src model).toNat := by
  obtain ⟨hb, byte_4, m0, seq_offsets, bangles, corncob, ⟨sequences, m1⟩, collision, skeleton,
    common_trans, joints, sound_defs, tables, mystery_data, r1, r2, r3, r4, r5, r6, r7, r8, r9,
    r10, r11, r12, r13, r14, r15, r16⟩ := read_moby_class_ok h
  obtain ⟨_, _, _, e1⟩ := read_bytes_ok r1
  have ehb : hb = slice src 0 0x48 := e1
  subst ehb
  have em0 : m0 = to_signed 32 (le_value (slice src 0x48 4)) := by
    unfold read_sint at r3
    split at r3
    · cases r3
    · rename_i bs hbs
      obtain ⟨_, _, _, e⟩ := read_bytes_ok hbs
      injection r3 with r3
      rw [← r3, e]
      rfl
  have em1 := read_moby_sequences_start r7
  have et := read_class_submeshes_start r14
  have ed : tables.mystery_data_ofs = derived_mystery_start src model := by
    rw [et]
    unfold derived_mystery_start mystery_start_candidates
    simp only [List.foldl_append]
    rw [r16]
    simp only
    rw [← em0, ← em1]
    congr 1
    unfold mystery_after_collision
    cases collision with
    | none => rfl
    | some c => rfl
  obtain ⟨a1, a2, a3, e⟩ := read_bytes_ok r15
  rw [ed] at a1 a2 a3 e
  refine ⟨a1, a2, by omega, ?_⟩
  have : model.mystery_data = mystery_data := by rw [r16]
  rw [this, e]
  rfl

set_option maxRecDepth 100000 in
/-- C7, counterexample: `null_sequence_model` has the three mystery bytes
1, 2, 3; it is written and read back without error.  The encoder wrote the
mystery data at 0x50, right before the skeleton offset 0x53; the decoder has
no end offset to take the start from (no frames, no collision block, no
submesh table) and starts at the first entry of the sequence offset table,
which is 0: the decoded mystery data has 0x53 bytes, the whole class up to the
skeleton. -/
theorem mystery_data_grows_on_round_trip :
    ∃ b model d header r,
      write_moby_class example_env [] null_sequence_model Game.RAC1 = .ok b ∧
      write_moby_class_body example_env [] null_sequence_model Game.RAC1 = .ok (d, header, r) ∧
      read_moby_class example_env b Game.RAC1 = .ok model ∧
      null_sequence_model.mystery_data = [1, 2, 3] ∧
      r.mystery_data_ofs = 0x50 ∧ r.skeleton_ofs = 0x53 ∧
      mystery_start_candidates b model = [] ∧
      derived_mystery_start b model = 0 ∧
      model.mystery_data.length = 0x53 ∧
      model.mystery_data ≠ null_sequence_model.mystery_data :=
  ⟨_, _, _, _, _, rfl, rfl, rfl, rfl, rfl, rfl, rfl, rfl, rfl, by decide⟩

theorem foldl_max_ge : ∀ (l : List Int) (m : Int),
    m ≤ l.foldl max m ∧ ∀ x ∈ l, x ≤ l.foldl max m := by
  intro l
  induction l with
  | nil => exact fun m => ⟨le_refl _, fun x hx => nomatch hx⟩
  | cons a rest ih =>
    intro m
    rw [List.foldl_cons]
    obtain ⟨h1, h2⟩ := ih (max m a)
    refine ⟨le_trans (le_max_left _ _) h1, fun x hx => ?_⟩
    cases hx with
    | head => exact le_trans (le_max_right _ _) h1
    | tail _ hx => exact h2 x hx

theorem foldl_max_mem : ∀ (l : List Int) (m : Int), l.foldl max m ∈ m :: l := by
  intro l
  induction l with
  | nil => exact fun m => List.mem_cons_self _ _
  | cons a rest ih =>
    intro m
    rw [List.foldl_cons]
    rcases List.mem_cons.mp (ih (max m a)) with h | h
    · rw [h]
      rcases max_choice m a with e | e
      · rw [e]
        exact List.mem_cons_self _ _
      · rw [e]
        exact List.mem_cons_of_mem _ (List.mem_cons_self _ _)
    · exact List.mem_cons_of_mem _ (List.mem_cons_of_mem _ h)

/-- Where `write_moby_class` puts the mystery data: the bytes stand unchanged
(each cut to 8 bits) right before the skeleton, and the header stores the
offset of the skeleton. -/
theorem written_mystery_position {env : Env} {dest : List Nat} {moby : MobyClassData}
    {game : Game} {b : List Nat} (hw : write_moby_class env dest moby game = .ok b)
    (hs : b.length < 2 ^ 31) :
    ∃ d header r, write_moby_class_body env dest moby game = .ok (d, header, r) ∧
      dest.length ≤ r.mystery_data_ofs ∧
      r.skeleton_ofs = r.mystery_data_ofs + moby.mystery_data.length ∧
      r.skeleton_ofs ≤ b.length ∧
      slice b r.mystery_data_ofs moby.mystery_data.length =
        moby.mystery_data.map (fun x => x % 256) ∧
      (MobyClassHeader.parse (slice b dest.length 0x48)).skeleton =
        (r.skeleton_ofs : Int) - dest.length := by
  obtain ⟨⟨d, header, r⟩, hb, he⟩ := write_moby_class_ok hw
  obtain ⟨l1, l2, _, l4, l5, l6⟩ := write_moby_class_body_layout hb
  obtain ⟨hh, hlen⟩ := written_class_header hb he
  have hm := written_class_mystery hb he
  simp only at l1 l2 l4 l5 l6 hh hlen hm
  unfold in_source_order at l2
  have hx := slice_eq_of_getElem? b (moby.mystery_data.map (fun x => x % 256))
    r.mystery_data_ofs (fun i h1 h2 => hm i h1 (by
      rw [List.length_map] at h2
      omega))
  rw [List.length_map] at hx
  refine ⟨d, header, r, hb, by omega, l4, by omega, hx, ?_⟩
  have e2 : slice b dest.length 0x48 = write_at header.bytes 4 (le_bytes 4 moby.byte_4) := hh
  rw [e2, parse_written_header]
  simp only
  rw [l5.2.2.2.2.1, l1]
  have e31 : (2 : Int) ^ 31 = 2147483648 := by norm_num
  have e31n : (2 : Nat) ^ 31 = 2147483648 := by norm_num
  exact signed_round_trip _ (by omega) (by omega)

/-- C7 (amended): for every model for which `write_moby_class` and the
subsequent `read_moby_class` succeed (the buffer being shorter than 2^31
bytes): the encoder writes the mystery data unchanged (each byte cut to 8
bits) at `mystery_data_ofs`, immediately before the skeleton, and stores the
offset of the skeleton in the header; the decoder returns the bytes from
`derived_mystery_start` up to the skeleton offset, where the derived start is
the greatest of the first entry of the sequence offset table and the end
offsets `mystery_start_candidates` (frame data, collision block, last submesh
table); the decoded mystery data equals the written one exactly when the
derived start is the position the encoder wrote at; in any case one of the two
is a suffix of the other; and the decoded mystery data equals that of the
model whenever the model is of the kind `reads_back`, its corncob block is at
most 0xff0 bytes long and the class is shorter than 2^28 bytes. -/
theorem mystery_data_read_back (env : Env) (dest : List Nat) (moby : MobyClassData)
    (game : Game) (b : List Nat) (model : MobyClassData)
    (hw : write_moby_class env dest moby game = .ok b)
    (hr : read_moby_class env (b.drop dest.length) game = .ok model)
    (hs : b.length < 2 ^ 31) :
    ∃ d header r, write_moby_class_body env dest moby game = .ok (d, header, r) ∧
      slice b r.mystery_data_ofs moby.mystery_data.length =
        moby.mystery_data.map (fun x => x % 256) ∧
      r.mystery_data_ofs + moby.mystery_data.length = r.skeleton_ofs ∧
      (MobyClassHeader.parse (slice b dest.length 0x48)).skeleton =
        (r.skeleton_ofs : Int) - dest.length ∧
      (∀ x ∈ mystery_start_candidates (b.drop dest.length) model,
        x ≤ derived_mystery_start (b.drop dest.length) model) ∧
      to_signed 32 (le_value (slice b (dest.length + 0x48) 4)) ≤
        derived_mystery_start (b.drop dest.length) model ∧
      derived_mystery_start (b.drop dest.length) model ∈
        to_signed 32 (le_value (slice b (dest.length + 0x48) 4)) ::
          mystery_start_candidates (b.drop dest.length) model ∧
      0 ≤ derived_mystery_start (b.drop dest.length) model ∧
      derived_mystery_start (b.drop dest.length) model ≤ (r.skeleton_ofs : Int) - dest.length ∧
      model.mystery_data =
        slice b (dest.length + (derived_mystery_start (b.drop dest.length) model).toNat)
          (r.skeleton_ofs - (dest.length +
            (derived_mystery_start (b.drop dest.length) model).toNat)) ∧
      (model.mystery_data = moby.mystery_data.map (fun x => x % 256) ↔
        derived_mystery_start (b.drop dest.length) model =
          (r.mystery_data_ofs : Int) - dest.length) ∧
      (model.mystery_data <:+ moby.mystery_data.map (fun x => x % 256) ∨
        moby.mystery_data.map (fun x => x % 256) <:+ model.mystery_data) ∧
      (reads_back env game moby →
        (write_class_front env dest moby game).corncob_end -
          (write_class_front env dest moby game).corncob_ofs ≤ 0xff0 →
        b.length - dest.length < 2 ^ 28 →
        model.mystery_data = moby.mystery_data) := by
  obtain ⟨d, header, r, hb, p1, p2, p3, p4, p5⟩ := written_mystery_position hw hs
  obtain ⟨q1, q2, q3, q4⟩ := read_class_mystery_start hr
  have e48 : slice (b.drop dest.length) 0 0x48 = slice b dest.length 0x48 := by
    rw [slice_drop]
    rfl
  have e4 : slice (b.drop dest.length) 0x48 4 = slice b (dest.length + 0x48) 4 :=
    slice_drop _ _ _ _
  rw [e48, p5] at q2 q3 q4
  obtain ⟨D, hD⟩ : ∃ D, D = derived_mystery_start (b.drop dest.length) model := ⟨_, rfl⟩
  have g : to_signed 32 (le_value (slice (b.drop dest.length) 0x48 4)) ≤
        derived_mystery_start (b.drop dest.length) model ∧
      ∀ x ∈ mystery_start_candidates (b.drop dest.length) model,
        x ≤ derived_mystery_start (b.drop dest.length) model :=
    foldl_max_ge (mystery_start_candidates (b.drop dest.length) model)
      (to_signed 32 (le_value (slice (b.drop dest.length) 0x48 4)))
  have gm : derived_mystery_start (b.drop dest.length) model ∈
      to_signed 32 (le_value (slice (b.drop dest.length) 0x48 4)) ::
        mystery_start_candidates (b.drop dest.length) model :=
    foldl_max_mem (mystery_start_candidates (b.drop dest.length) model)
      (to_signed 32 (le_value (slice (b.drop dest.length) 0x48 4)))
  rw [e4] at g gm
  have hmd : model.mystery_data = slice b (dest.length + D.toNat)
      (r.skeleton_ofs - (dest.length + D.toNat)) := by
    rw [q4, slice_drop, ← hD]
    congr 1
    omega
  rw [← hD] at q1 q2
  have hlen : model.mystery_data.length = r.skeleton_ofs - (dest.length + D.toNat) := by
    rw [hmd, length_slice _ _ _ (by omega)]
  refine ⟨d, header, r, hb, p4, p2.symm, p5, ?_, ?_, ?_, ?_, ?_, ?_, ?_,
    (written_mystery_suffix env dest moby game b model hw hr hs).1, ?_⟩
  · exact g.2
  · exact g.1
  · exact gm
  · rw [← hD]
    exact q1
  · rw [← hD]
    omega
  · rw [← hD]
    exact hmd
  · rw [← hD]
    constructor
    · intro e
      have := congrArg List.length e
      rw [hlen, List.length_map] at this
      omega
    · intro e
      rw [hmd, ← p4]
      have e1 : dest.length + D.toNat = r.mystery_data_ofs := by omega
      rw [e1]
      congr 1
      omega
  · intro hd hk hs28
    have := read_written_class env dest moby game b hw hd (fun d1 h1 r1 hb1 => by
      obtain ⟨_, _, q, _, ho⟩ := write_moby_class_body_ok hb1
      have e : r1 = class_regions dest.length (write_class_front env dest moby game)
          (write_class_middle env dest.length (write_class_front env dest moby game).dest moby)
          q := congrArg (fun x => x.2.2) ho
      rw [e]
      exact hk) hs28
    rw [hr] at this
    injection this with this
    rw [this]

set_option maxRecDepth 100000 in
set_option maxHeartbeats 4000000 in
/-- The theorem `mystery_data_read_back` at `round_trip_model`, written for
RAC2 to an empty output buffer and read back. -/
theorem mystery_data_read_back_witness :
    ∃ b model, write_moby_class example_env [] round_trip_model Game.RAC2 = .ok b ∧
      read_moby_class example_env (b.drop ([] : List Nat).length) Game.RAC2 = .ok model ∧
      b.length < 2 ^ 31 ∧
      ∃ d header r, write_moby_class_body example_env [] round_trip_model Game.RAC2 =
          .ok (d, header, r) ∧
        slice b r.mystery_data_ofs round_trip_model.mystery_data.length =
          round_trip_model.mystery_data.map (fun x => x % 256) ∧
        r.mystery_data_ofs + round_trip_model.mystery_data.length = r.skeleton_ofs ∧
        (MobyClassHeader.parse (slice b ([] : List Nat).length 0x48)).skeleton =
          (r.skeleton_ofs : Int) - ([] : List Nat).length ∧
        (∀ x ∈ mystery_start_candidates (b.drop ([] : List Nat).length) model,
          x ≤ derived_mystery_start (b.drop ([] : List Nat).length) model) ∧
        to_signed 32 (le_value (slice b (([] : List Nat).length + 0x48) 4)) ≤
          derived_mystery_start (b.drop ([] : List Nat).length) model ∧
        derived_mystery_start (b.drop ([] : List Nat).length) model ∈
          to_signed 32 (le_value (slice b (([] : List Nat).length + 0x48) 4)) ::
            mystery_start_candidates (b.drop ([] : List Nat).length) model ∧
        0 ≤ derived_mystery_start (b.drop ([] : List Nat).length) model ∧
        derived_mystery_start (b.drop ([] : List Nat).length) model ≤
          (r.skeleton_ofs : Int) - ([] : List Nat).length ∧
        model.mystery_data =
          slice b (([] : List Nat).length +
              (derived_mystery_start (b.drop ([] : List Nat).length) model).toNat)
            (r.skeleton_ofs - (([] : List Nat).length +
              (derived_mystery_start (b.drop ([] : List Nat).length) model).toNat)) ∧
        (model.mystery_data = round_trip_model.mystery_data.map (fun x => x % 256) ↔
          derived_mystery_start (b.drop ([] : List Nat).length) model =
            (r.mystery_data_ofs : Int) - ([] : List Nat).length) ∧
        (model.mystery_data <:+ round_trip_model.mystery_data.map (fun x => x % 256) ∨
          round_trip_model.mystery_data.map (fun x => x % 256) <:+ model.mystery_data) ∧
        (reads_back example_env Game.RAC2 round_trip_model →
          (write_class_front example_env [] round_trip_model Game.RAC2).corncob_end -
            (write_class_front example_env [] round_trip_model Game.RAC2).corncob_ofs ≤ 0xff0 →
          b.length - ([] : List Nat).length < 2 ^ 28 →
          model.mystery_data = round_trip_model.mystery_data) :=
  ⟨_, _, rfl, rfl, by decide,
    mystery_data_read_back example_env [] round_trip_model Game.RAC2 _ _ rfl rfl (by decide)⟩

/-! ### Writing a decoded class again (C2) -/

end Wrench
